import Mathlib

/-!
# Number formatting core of `clr/src/vm/comnumber.cpp`

A shallow embedding of the digit-buffer (`NUMBER`) routines of the SSCLI
number formatter: `NumberToDouble`, `RoundNumber`, the integer-to-digits
conversions and the round-trip policy of `COMNumber::FormatDouble`.

Conventions of the embedding.
* A `wchar` is a natural number (a UTF-16 code unit); `'0'` is `48`.
* The NUL-terminated `digits` array of a `NUMBER` is the list of the code
  units that precede the terminator; reading at or past the end of the list
  reads the terminator `0`.
* `UINT32` / `UINT64` arithmetic is arithmetic on `Nat` reduced modulo
  `2^32` / `2^64` at every operation that can exceed the width.
* `int` arithmetic on the `scale` field is arithmetic on `Int` wrapped to
  32 bits (`wrapInt32`).
-/

namespace COMNumber

/-! ## Machine integers -/

/-- Two's-complement wrap of an integer to the range of a 32-bit `int`. -/
def wrapInt32 (x : Int) : Int := (x + 2147483648) % 4294967296 - 2147483648

/-- The C library `abs` on a 32-bit `int` (`abs(INT_MIN)` wraps to `INT_MIN`). -/
def abs32 (x : Int) : Int := wrapInt32 (if x < 0 then -x else x)

/-- The cast `(UINT32)x`. -/
def toUInt32 (x : Nat) : Nat := x % 4294967296

/-- The cast / wrap to `UINT64`. -/
def toUInt64 (x : Nat) : Nat := x % 18446744073709551616

/-! ## The digit buffer -/

/-- `#define INT32_PRECISION 10` -/
def INT32_PRECISION : Nat := 10
/-- `#define UINT32_PRECISION INT32_PRECISION` -/
def UINT32_PRECISION : Nat := INT32_PRECISION
/-- `#define INT64_PRECISION 19` -/
def INT64_PRECISION : Nat := 19
/-- `#define UINT64_PRECISION 20` -/
def UINT64_PRECISION : Nat := 20
/-- `#define DOUBLE_PRECISION 15` -/
def DOUBLE_PRECISION : Int := 15
/-- `#define SCALE_NAN 0x80000000`, as the `int` it is compared with. -/
def SCALE_NAN : Int := -2147483648
/-- `#define SCALE_INF 0x7FFFFFFF` -/
def SCALE_INF : Int := 2147483647

/-- The `NUMBER` structure: the intermediate decimal representation. -/
structure NUMBER where
  precision : Int
  scale : Int
  sign : Bool
  digits : List Nat
deriving DecidableEq, Repr

/-- Read `digits[i]`: the code unit at index `i`, or the terminator. -/
def wcharAt (s : List Nat) (i : Nat) : Nat := s.getD i 0

/-- The C string held by an array whose first cells are `s`, followed by a
terminator: everything before the first NUL. -/
def cstr (s : List Nat) : List Nat := s.takeWhile (fun c => c != 0)

/-- Every stored code unit is an ASCII decimal digit `'0'..'9'`. -/
def IsDecimal (s : List Nat) : Prop := ∀ c ∈ s, 48 ≤ c ∧ c ≤ 57

instance (s : List Nat) : Decidable (IsDecimal s) := by
  unfold IsDecimal; infer_instance

/-! ## NumberToDouble -/

/-- The loop `for (p = p + 1; p < end; p++) res = 10 * res + *p - '0'` of
`DigitsToInt`, in `unsigned` arithmetic, over the code units `p+1 .. end-1`. -/
def DigitsToIntLoop (rest : List Nat) (res : Nat) : Nat :=
  rest.foldl (fun res c => toUInt32 (10 * res + c + (4294967296 - 48))) res

/-- `DigitsToInt(p, count)`: 32-bit integer from at most 9 digits. -/
def DigitsToInt (p : List Nat) (count : Nat) : Nat :=
  DigitsToIntLoop ((p.take count).drop 1) (toUInt32 (wcharAt p 0 + (4294967296 - 48)))

/-- `Mul32x32To64(a, b)`. -/
def Mul32x32To64 (a b : Nat) : Nat := toUInt32 a * toUInt32 b

/-- `Mul64Lossy(a, b, pexp)`: returns the product mantissa and the updated exponent. -/
def Mul64Lossy (a b : Nat) (exp : Int) : Nat × Int :=
  let val := toUInt64 (Mul32x32To64 (a >>> 32) (b >>> 32) +
    (Mul32x32To64 (a >>> 32) b >>> 32) +
    (Mul32x32To64 a (b >>> 32) >>> 32))
  if val &&& 0x8000000000000000 == 0 then (toUInt64 (val <<< 1), exp - 1) else (val, exp)

/-- Table `rgval64Power10`: powers of 10, then powers of 0.1. -/
def rgval64Power10 : List Nat := [
  0xa000000000000000, 0xc800000000000000, 0xfa00000000000000, 0x9c40000000000000,
  0xc350000000000000, 0xf424000000000000, 0x9896800000000000, 0xbebc200000000000,
  0xee6b280000000000, 0x9502f90000000000, 0xba43b74000000000, 0xe8d4a51000000000,
  0x9184e72a00000000, 0xb5e620f480000000, 0xe35fa931a0000000,
  0xcccccccccccccccd, 0xa3d70a3d70a3d70b, 0x83126e978d4fdf3c, 0xd1b71758e219652e,
  0xa7c5ac471b478425, 0x8637bd05af6c69b7, 0xd6bf94d5e57a42be, 0xabcc77118461ceff,
  0x89705f4136b4a599, 0xdbe6fecebdedd5c2, 0xafebff0bcb24ab02, 0x8cbccc096f5088cf,
  0xe12e13424bb40e18, 0xb424dc35095cd813, 0x901d7cf73ab0acdc]

/-- Table `rgexp64Power10`: exponents for both powers of 10 and 0.1. -/
def rgexp64Power10 : List Int := [4, 7, 10, 14, 17, 20, 24, 27, 30, 34, 37, 40, 44, 47, 50]

/-- Table `rgval64Power10By16`: powers of 10^16, then powers of 0.1^16. -/
def rgval64Power10By16 : List Nat := [
  0x8e1bc9bf04000000, 0x9dc5ada82b70b59e, 0xaf298d050e4395d6, 0xc2781f49ffcfa6d4,
  0xd7e77a8f87daf7fa, 0xefb3ab16c59b14a0, 0x850fadc09923329c, 0x93ba47c980e98cde,
  0xa402b9c5a8d3a6e6, 0xb616a12b7fe617a8, 0xca28a291859bbf90, 0xe070f78d39275566,
  0xf92e0c3537826140, 0x8a5296ffe33cc92c, 0x9991a6f3d6bf1762, 0xaa7eebfb9df9de8a,
  0xbd49d14aa79dbc7e, 0xd226fc195c6a2f88, 0xe950df20247c83f8, 0x81842f29f2cce373,
  0x8fcac257558ee4e2,
  0xe69594bec44de160, 0xcfb11ead453994c3, 0xbb127c53b17ec165, 0xa87fea27a539e9b3,
  0x97c560ba6b0919b5, 0x88b402f7fd7553ab, 0xf64335bcf065d3a0, 0xddd0467c64bce4c4,
  0xc7caba6e7c5382ed, 0xb3f4e093db73a0b7, 0xa21727db38cb0053, 0x91ff83775423cc29,
  0x8380dea93da4bc82, 0xece53cec4a314f00, 0xd5605fcdcf32e217, 0xc0314325637a1978,
  0xad1c8eab5ee43ba2, 0x9becce62836ac5b0, 0x8c71dcd9ba0b495c, 0xfd00b89747823938,
  0xe3e27a444d8d991a]

/-- Table `rgexp64Power10By16`: exponents for both powers of 10^16 and 0.1^16. -/
def rgexp64Power10By16 : List Int := [
  54, 107, 160, 213, 266, 319, 373, 426, 479, 532, 585, 638, 691, 745, 798, 851, 904,
  957, 1010, 1064, 1117]

/-- Read `table[i]` for an `int` index; a read outside the array (undefined in
C) is modelled as `0`. -/
def tableAt {α : Type} [OfNat α 0] (t : List α) (i : Int) : α :=
  if i < 0 then 0 else t.getD i.toNat 0

/-- One step `if ((val & mask) == 0) { val <<= sh; exp -= sh; }` of the
mantissa normalisation. -/
def normStep (mask sh : Nat) (ve : Nat × Int) : Nat × Int :=
  if ve.1 &&& mask == 0 then (toUInt64 (ve.1 <<< sh), ve.2 - sh) else ve

/-- The six normalisation steps of `NumberToDouble`. -/
def normalizeMantissa (val : Nat) (exp : Int) : Nat × Int :=
  normStep 0x8000000000000000 1 (normStep 0xC000000000000000 2
    (normStep 0xF000000000000000 4 (normStep 0xFF00000000000000 8
      (normStep 0xFFFF000000000000 16 (normStep 0xFFFFFFFF00000000 32 (val, exp))))))

/-- The `round & scale down` step: IEEE round to even of the 64-bit mantissa
to 53 bits, followed by `val >>= 11`. -/
def roundScaleDown (val : Nat) (exp : Int) : Nat × Int :=
  if toUInt32 val &&& (1 <<< 10) != 0 then
    let tmp := toUInt64 (val + ((1 <<< 10) - 1) + ((toUInt32 val >>> 11) &&& 1))
    if tmp < val then
      (((tmp >>> 1) ||| 0x8000000000000000) >>> 11, exp + 1)
    else (tmp >>> 11, exp)
  else (val >>> 11, exp)

/-- The final assembly of the IEEE-754 bit pattern from the 53-bit mantissa
and the binary exponent (before the bias `0x3FE` is added). -/
def assembleDouble (val : Nat) (exp0 : Int) : Nat :=
  let exp := exp0 + 0x3FE
  if exp ≤ 0 then
    if exp ≤ -52 then 0 else val >>> (-exp + 1).toNat
  else if exp ≥ 0x7FF then 0x7FF0000000000000
  else toUInt64 ((exp.toNat <<< 52) + (val &&& 0x000FFFFFFFFFFFFF))

/-- The label `done:` of `NumberToDouble`: `if (number->sign) *value |= 0x8000000000000000`. -/
def applySign (sign : Bool) (bits : Nat) : Nat :=
  if sign then bits ||| 0x8000000000000000 else bits

/-- What a run of `NumberToDouble` produces: the bit pattern stored in
`*value`, and (ghost) the number of `Mul64Lossy` table multiplies executed. -/
structure N2DResult where
  value : Nat
  mul64Calls : Nat
deriving DecidableEq, Repr

/-- One table-multiply tier of `NumberToDouble`, the block
`if (index) { multexp = exps[index-1]; exp += (scale < 0) ? (-multexp + 1) : multexp;
multval = vals[index + ((scale < 0) ? inv : 0) - 1]; val = Mul64Lossy(val, multval, &exp); }`
on the state (mantissa, exponent, ghost count of `Mul64Lossy` calls). -/
def applyTier (vals : List Nat) (exps : List Int) (inv index scale : Int)
    (st : Nat × Int × Nat) : Nat × Int × Nat :=
  if index != 0 then
    let multexp := tableAt exps (index - 1)
    let exp := st.2.1 + (if scale < 0 then (-multexp + 1) else multexp)
    let multval := tableAt vals (index + (if scale < 0 then inv else 0) - 1)
    let r := Mul64Lossy st.1 multval exp
    (r.1, r.2, st.2.2 + 1)
  else st

/-- The two table-multiply tiers of `NumberToDouble`, for the effective
`scale` and its absolute value: `index = absscale & 15` into the powers of 10,
then `index = absscale >> 4` into the powers of 10^16. Returns mantissa,
exponent and the number of `Mul64Lossy` calls. -/
def applyPowers (val : Nat) (exp : Int) (scale absscale : Int) : Nat × Int × Nat :=
  applyTier rgval64Power10By16 rgexp64Power10By16 21 (absscale / 16) scale
    (applyTier rgval64Power10 rgexp64Power10 15 (absscale % 16) scale (val, exp, 0))

/-- The digits `NumberToDouble` packs into the 64-bit mantissa: the value
`val` and the count `remaining` of digits left unread, for the digit string
`src` that follows the leading zeros. -/
def packMantissa (src : List Nat) : Nat × Nat :=
  let remaining := src.length
  let count := min remaining 9
  let remaining := remaining - count
  let val := DigitsToInt src count
  if remaining > 0 then
    let count := min remaining 9
    let remaining := remaining - count
    let mult := toUInt32 (tableAt rgval64Power10 ((count : Int) - 1) >>>
      (64 - tableAt rgexp64Power10 ((count : Int) - 1)).toNat)
    (toUInt64 (Mul32x32To64 val mult + DigitsToInt (src.drop 9) count), remaining)
  else (val, remaining)

/-- The digit string that follows the leading zeros: the loop
`while (*src == '0') { remaining--; src++; }`. -/
def skipLeadingZeros (digits : List Nat) : List Nat := digits.dropWhile (fun c => c == 48)

/-- The local `scale` of `NumberToDouble`, the effective decimal exponent
`number->scale - (total - remaining)`, where `total = wcslen(digits)` and
`remaining` counts the digits left unread after the mantissa is packed. -/
def effectiveScale (number : NUMBER) : Int :=
  wrapInt32 (number.scale - ((number.digits.length : Int) -
    ((packMantissa (skipLeadingZeros number.digits)).2 : Int)))

/-- `NumberToDouble(number, value)`, with the ghost count of table multiplies. -/
def NumberToDoubleRun (number : NUMBER) : N2DResult :=
  let src := skipLeadingZeros number.digits
  if src.length == 0 then ⟨applySign number.sign 0, 0⟩
  else
    let packed := packMantissa src
    let scale := effectiveScale number
    let absscale := abs32 scale
    if absscale ≥ 22 * 16 then
      ⟨applySign number.sign (if scale > 0 then 0x7FF0000000000000 else 0), 0⟩
    else
      let n := normalizeMantissa packed.1 64
      let m := applyPowers n.1 n.2 scale absscale
      let r := roundScaleDown m.1 m.2.1
      ⟨applySign number.sign (assembleDouble r.1 r.2), m.2.2⟩

/-- `NumberToDouble`: the bit pattern of the double stored in `*value`. -/
def NumberToDouble (number : NUMBER) : Nat := (NumberToDoubleRun number).value

/-! ## RoundNumber -/

/-- The cast to a 16-bit `wchar`. -/
def toWchar (x : Nat) : Nat := x % 65536

/-- The loop `while (i < pos && number->digits[i] != 0) i++` started at
`i = 0`: the final `i`. -/
def scanDigits : List Nat → Int → Nat
  | [], _ => 0
  | c :: cs, pos => if 0 < pos ∧ c ≠ 0 then scanDigits cs (pos - 1) + 1 else 0

/-- The loop `while (i > 0 && number->digits[i - 1] == ch) i--`: the final `i`. -/
def backWhile (digits : List Nat) (ch : Nat) : Nat → Nat
  | 0 => 0
  | i + 1 => if wcharAt digits i = ch then backWhile digits ch i else i + 1

/-- `RoundNumber(number, pos)`. -/
def RoundNumber (number : NUMBER) (pos : Int) : NUMBER :=
  let i := scanDigits number.digits pos
  let st : Nat × Int × List Nat :=
    if (i : Int) = pos ∧ wcharAt number.digits i ≥ 53 then
      let i := backWhile number.digits 57 i
      if i > 0 then
        (i, number.scale,
          number.digits.set (i - 1) (toWchar (wcharAt number.digits (i - 1) + 1)))
      else
        (1, wrapInt32 (number.scale + 1), number.digits.set 0 49)
    else
      (backWhile number.digits 48 i, number.scale, number.digits)
  let i := st.1
  { precision := number.precision
    scale := if i = 0 then 0 else st.2.1
    sign := if i = 0 then false else number.sign
    digits := cstr (st.2.2.take i) }

/-! ## Integer to digits -/

/-- `COMNumber::Int32ToDecChars(p, value, digits)`. The argument `p` is the
content of the scratch buffer from the write cursor to its end; the result is
that content after the loop, which writes towards lower addresses. -/
def Int32ToDecChars (p : List Nat) (value : Nat) (digits : Int) : List Nat :=
  if digits - 1 ≥ 0 ∨ value ≠ 0 then
    Int32ToDecChars (toWchar (value % 10 + 48) :: p) (value / 10) (digits - 1)
  else p
termination_by value + digits.toNat
decreasing_by
  rename_i h
  rcases Nat.eq_zero_or_pos value with hv | hv
  · subst hv
    have : digits - 1 ≥ 0 := by simpa using h
    simp only [Nat.zero_div, Nat.zero_add]
    omega
  · have := Nat.div_lt_self hv (by decide : 1 < 10)
    omega

/-- `Int64DivMod1E9(&value)`: the returned remainder and the new `*value`. -/
def Int64DivMod1E9 (value : Nat) : Nat × Nat :=
  (toUInt32 (value % 1000000000), value / 1000000000)

/-- `#define LO32(x) ((unsigned int)(x))` -/
def LO32 (x : Nat) : Nat := toUInt32 x

/-- `#define HI32(x) ((unsigned int)(((x) & UI64(0xFFFFFFFF00000000)) >> 32))` -/
def HI32 (x : Nat) : Nat := toUInt32 ((x &&& 0xFFFFFFFF00000000) >>> 32)

/-- The cast of a 32-bit `int` to `unsigned int`. -/
def int32ToUInt32 (x : Int) : Nat := (x % 4294967296).toNat

/-- Two's-complement wrap of an integer to the range of a 64-bit `__int64`. -/
def wrapInt64 (x : Int) : Int :=
  (x + 9223372036854775808) % 18446744073709551616 - 9223372036854775808

/-- The reinterpretation of an `__int64` as `unsigned __int64`. -/
def int64ToUInt64 (x : Int) : Nat := (x % 18446744073709551616).toNat

/-- `Int32ToNumber(value, number)`. -/
def Int32ToNumber (value : Int) : NUMBER :=
  let sign := decide (¬ value ≥ 0)
  let value := if value ≥ 0 then value else wrapInt32 (-value)
  let p := Int32ToDecChars [] (int32ToUInt32 value) 0
  let i := p.length
  { precision := INT32_PRECISION
    scale := i
    sign := sign
    digits := p.take i }

/-- `UInt32ToNumber(value, number)`. -/
def UInt32ToNumber (value : Nat) : NUMBER :=
  let p := Int32ToDecChars [] value 0
  let i := p.length
  { precision := UINT32_PRECISION
    scale := i
    sign := false
    digits := p.take i }

/-- The loop `while (HI32(value)) p = Int32ToDecChars(p, Int64DivMod1E9(&value), 9)`:
the buffer content and the remaining `value`. -/
def divLoop1E9 (p : List Nat) (value : Nat) : List Nat × Nat :=
  if HI32 value ≠ 0 then
    divLoop1E9 (Int32ToDecChars p (Int64DivMod1E9 value).1 9) (Int64DivMod1E9 value).2
  else (p, value)
termination_by value
decreasing_by
  rename_i h
  have hv : 0 < value := by
    rcases Nat.eq_zero_or_pos value with hv | hv
    · subst hv; exact absurd rfl h
    · exact hv
  exact Nat.div_lt_self hv (by decide)

/-- `Int64ToNumber(value, number)`. -/
def Int64ToNumber (value : Int) : NUMBER :=
  let sign := decide (¬ value ≥ 0)
  let value := if value ≥ 0 then value else wrapInt64 (-value)
  let r := divLoop1E9 [] (int64ToUInt64 value)
  let p := Int32ToDecChars r.1 (LO32 r.2) 0
  let i := p.length
  { precision := INT64_PRECISION
    scale := i
    sign := sign
    digits := p.take i }

/-- `UInt64ToNumber(value, number)`. -/
def UInt64ToNumber (value : Nat) : NUMBER :=
  let r := divLoop1E9 [] value
  let p := Int32ToDecChars r.1 (LO32 r.2) 0
  let i := p.length
  { precision := UINT64_PRECISION
    scale := i
    sign := false
    digits := p.take i }

/-! ## Specification-side notions -/

/-- The integer `D1 D2 … Dn` written by a digit string. -/
def digitsValue (s : List Nat) : Nat := s.foldl (fun a c => 10 * a + (c - 48)) 0

/-- The magnitude `0.D1…Dn × 10^scale` denoted by a digit buffer. -/
def NUMBER.magnitude (n : NUMBER) : ℚ :=
  (digitsValue n.digits : ℚ) * (10 : ℚ) ^ (n.scale - (n.digits.length : Int))

/-- The decimal numeral of a natural number, most significant digit first,
without leading zeros (empty for `0`), as ASCII code units. -/
def decimalNumeral (v : Nat) : List Nat := ((Nat.digits 10 v).reverse).map (fun d => d + 48)

/-- The decimal numeral of `v` left-padded with `'0'` to at least `k` digits. -/
def decimalPadded (k v : Nat) : List Nat :=
  List.replicate (k - (decimalNumeral v).length) 48 ++ decimalNumeral v

/-- Round to nearest, ties to even, of `val / 2^11`. -/
def roundHalfEven11 (val : Nat) : Nat :=
  val / 2048 + (if val % 2048 > 1024 ∨ (val % 2048 = 1024 ∧ val / 2048 % 2 = 1) then 1 else 0)

/-! ## IEEE-754 binary64 bit patterns -/

/-- The biased exponent field (bits 52..62) of a bit pattern. -/
def doubleExpField (bits : Nat) : Nat := bits / 2 ^ 52 % 2048

/-- The fraction field (bits 0..51). -/
def doubleFraction (bits : Nat) : Nat := bits % 2 ^ 52

/-- The sign bit (bit 63). -/
def doubleSignBit (bits : Nat) : Bool := decide (bits / 2 ^ 63 % 2 = 1)

/-- The integer significand: the fraction, with the hidden bit for a normal number. -/
def doubleSignificand (bits : Nat) : Nat :=
  if doubleExpField bits = 0 then doubleFraction bits else 2 ^ 52 + doubleFraction bits

/-- The binary exponent of the unit in the last place. -/
def doubleUlpExp (bits : Nat) : Int :=
  (if doubleExpField bits = 0 then 1 else (doubleExpField bits : Int)) - 1075

/-- The magnitude `significand * 2^ulpExp` of a finite bit pattern. -/
def doubleMagnitude (bits : Nat) : ℚ :=
  (doubleSignificand bits : ℚ) * (2 : ℚ) ^ doubleUlpExp bits

/-- A 64-bit pattern that is neither an Infinity nor a NaN. -/
def IsFiniteDouble (bits : Nat) : Prop := bits < 2 ^ 64 ∧ doubleExpField bits ≠ 2047

/-- The finite double `bits` is nearest in magnitude to `x ≥ 0`, ties going
to the even significand: no finite double is closer, and a different double
at the same distance exists only if the significand of `bits` is even. -/
def IsNearestDouble (x : ℚ) (bits : Nat) : Prop :=
  IsFiniteDouble bits ∧
    ∀ d, IsFiniteDouble d →
      |doubleMagnitude bits - x| ≤ |doubleMagnitude d - x| ∧
      (|doubleMagnitude d - x| = |doubleMagnitude bits - x| →
        doubleMagnitude d ≠ doubleMagnitude bits → doubleSignificand bits % 2 = 0)

/-- The value `val * 2^(exp - 64)` denoted by a 64-bit mantissa and its
binary exponent in the internal representation of `NumberToDouble`. -/
def mantissaValue (val : Nat) (exp : Int) : ℚ := (val : ℚ) * (2 : ℚ) ^ (exp - 64)

/-- The exact value of the table entry one tier multiplies by, read as
`entry * 2^(exponent - 64)`; `1` when the tier is skipped. -/
def tierFactor (vals : List Nat) (exps : List Int) (inv index scale : Int) : ℚ :=
  if index != 0 then
    mantissaValue (tableAt vals (index + (if scale < 0 then inv else 0) - 1))
      (if scale < 0 then (-tableAt exps (index - 1) + 1) else tableAt exps (index - 1))
  else 1

/-- The exact value of the table entries that `NumberToDouble` multiplies the
mantissa by for the effective `scale` (with `absscale = abs(scale)`). -/
def tableFactor (scale absscale : Int) : ℚ :=
  tierFactor rgval64Power10 rgexp64Power10 15 (absscale % 16) scale *
    tierFactor rgval64Power10By16 rgexp64Power10By16 21 (absscale / 16) scale

/-! ## Scaled integer form of the table factors -/

/-- The table entry one tier multiplies by, as significand and binary
exponent: `entry * 2^exponent`; `(1, 0)` when the tier is skipped. -/
def tierEntry (vals : List Nat) (exps : List Int) (inv index scale : Int) : Nat × Int :=
  if index != 0 then
    (tableAt vals (index + (if scale < 0 then inv else 0) - 1),
      (if scale < 0 then (-tableAt exps (index - 1) + 1) else tableAt exps (index - 1)) - 64)
  else (1, 0)

/-- The binary exponent of the product of the table entries for `scale`. -/
def tableExp (s : Int) : Int :=
  (tierEntry rgval64Power10 rgexp64Power10 15 (abs32 s % 16) s).2 +
    (tierEntry rgval64Power10By16 rgexp64Power10By16 21 (abs32 s / 16) s).2

/-- The natural number `tableFactor s * 2^1400 * 10^341`. -/
def scaledTable (s : Int) : Nat :=
  (tierEntry rgval64Power10 rgexp64Power10 15 (abs32 s % 16) s).1 *
    (tierEntry rgval64Power10By16 rgexp64Power10By16 21 (abs32 s / 16) s).1 *
    2 ^ (tableExp s + 1400).toNat * 10 ^ 341

/-- The natural number `10^s * 2^1400 * 10^341`. -/
def scaledPow10 (s : Int) : Nat := 2 ^ 1400 * 10 ^ (s + 341).toNat

/-- The natural number `2^E * 2^1400 * 10^341`. -/
def scaledPow2 (E : Int) : Nat := 2 ^ (E + 1400).toNat * 10 ^ 341

/-- The margin conditions for one decimal exponent and one binade, on the
scaled naturals `p = 10^s`, `T = tableFactor`, `e = 2^E`: if a 17-digit decimal
and a 53-bit significand can be within half a decimal unit of each other, the
table error and the decimal half unit together stay below half a binary unit
(a quarter at the lower edge of the binade). -/
def marginCheck (p T e : Nat) : Bool :=
  !(decide (2 * 10 ^ 16 * p < 2 ^ 54 * e + p) && decide (2 ^ 53 * e ≤ (2 * 10 ^ 17 + 1) * p)) ||
  (decide (2 ^ 54 * (T - p) * e + p * T < e * p) &&
   decide (2 ^ 54 * ((2 ^ 62 + 3) ^ 2 * p - 2 ^ 124 * T) * e + 2 ^ 124 * (p * T) <
     (2 ^ 62 + 3) ^ 2 * (e * p)) &&
   (!decide (2 * 10 ^ 16 * p ≤ 2 ^ 53 * e + p) ||
     decide (2 ^ 54 * ((2 ^ 62 + 3) ^ 2 * p - 2 ^ 124 * T) * e + 2 * (2 ^ 124 * (p * T)) <
       (2 ^ 62 + 3) ^ 2 * (e * p))))

/-- A lower estimate of the binary exponent of `10^(16+s) / 2^52`. -/
def firstBinade (s : Int) : Int := ((16 + s) * 3321928095) / 1000000000 - 52

/-- The margin conditions for the decimal exponent `s` in every binade that a
17-digit decimal with that exponent can reach. -/
def windowCheck (s : Int) : Bool :=
  decide (0 ≤ tableExp s + 1400) && decide (0 ≤ firstBinade s + 1399) &&
  decide (2 ^ 52 * scaledPow2 (firstBinade s) + scaledPow10 s ≤ 2 * 10 ^ 16 * scaledPow10 s) &&
  decide ((2 * 10 ^ 17 + 1) * scaledPow10 s < 2 ^ 59 * scaledPow2 (firstBinade s)) &&
  (List.range 7).all (fun j =>
    marginCheck (scaledPow10 s) (scaledTable s) (scaledPow2 (firstBinade s - 1 + (j : Int))))

/-! ## DoubleToNumber and the round-trip format -/

/-- What the C runtime's `_ecvt(value, precision, &decpt, &sign)` hands back:
the digit string, the position of the decimal point and the sign flag. -/
structure EcvtResult where
  digits : List Nat
  decpt : Int
  sign : Bool
deriving DecidableEq, Repr

/-- `DoubleToNumber(value, precision, number)` on the bit pattern `value`.
The digit generator `_ecvt` belongs to the C runtime and is a parameter. -/
def DoubleToNumber (ecvt : Nat → Int → EcvtResult) (value : Nat) (precision : Int) : NUMBER :=
  if doubleExpField value = 0x7FF then
    { precision := precision
      scale := if doubleFraction value ≠ 0 then SCALE_NAN else SCALE_INF
      sign := doubleSignBit value
      digits := [] }
  else
    let r := ecvt value precision
    { precision := precision
      scale := r.decpt
      sign := r.sign
      digits := if wcharAt r.digits 0 ≠ 48 then cstr r.digits else [] }

/-- The C comparison `a == b` of two doubles given by their bit patterns: a
NaN equals nothing, the two zeros are equal, otherwise the patterns decide. -/
def doubleEq (a b : Nat) : Bool :=
  !(doubleExpField a == 0x7FF && doubleFraction a != 0) &&
  !(doubleExpField b == 0x7FF && doubleFraction b != 0) &&
  ((a % 2 ^ 63 == 0 && b % 2 ^ 63 == 0) || a == b)

/-- Case `'R'` of `COMNumber::FormatDouble`: the arguments `(number, digits)`
of the call `NumberToString(&number, 'G', digits, numfmt)` it makes, `none`
when it returns the NaN or Infinity symbol instead. -/
def roundTripChoice (ecvt : Nat → Int → EcvtResult) (value : Nat) : Option (NUMBER × Int) :=
  let number := DoubleToNumber ecvt value DOUBLE_PRECISION
  if number.scale = SCALE_NAN then none
  else if number.scale = SCALE_INF then none
  else if doubleEq (NumberToDouble number) value then some (number, DOUBLE_PRECISION)
  else some (DoubleToNumber ecvt value 17, 17)

/-- The digit buffer that `'R'` formatting renders: case `'G'` of
`NumberToString` with `digits >= 1` runs `RoundNumber(number, digits)` and
hands the buffer to `FormatGeneral`. -/
def roundTripBuffer (ecvt : Nat → Int → EcvtResult) (value : Nat) : Option NUMBER :=
  (roundTripChoice ecvt value).map (fun a => RoundNumber a.1 a.2)

/-- The answer `r` of the digit generator for the finite double `v` at `p`
digits is correctly rounded: it has the sign of `v` and `p` decimal digits; for
a zero all of them are `'0'` and the decimal point is at 0 or 1; otherwise the
first digit is not `'0'` and the decimal `0.d1…dp * 10^decpt` lies within half a
unit of its last digit of the magnitude of `v`. -/
def IsCorrectlyRounded (v : Nat) (p : Nat) (r : EcvtResult) : Prop :=
  r.sign = doubleSignBit v ∧ r.digits.length = p ∧ IsDecimal r.digits ∧
    (if v % 2 ^ 63 = 0 then (∀ c ∈ r.digits, c = 48) ∧ (r.decpt = 0 ∨ r.decpt = 1)
     else wcharAt r.digits 0 ≠ 48 ∧
      |(digitsValue r.digits : ℚ) * (10 : ℚ) ^ (r.decpt - (p : Int)) - doubleMagnitude v| ≤
        (10 : ℚ) ^ (r.decpt - (p : Int)) / 2)

instance (v p : Nat) (r : EcvtResult) : Decidable (IsCorrectlyRounded v p r) := by
  unfold IsCorrectlyRounded
  infer_instance

/-! ## Number formatting: the configuration and the templates -/

/-- The fields of the managed `NumberFormatInfo` object (class `NUMFMTREF`)
that the formatting routines of `comnumber.cpp` read. Strings are lists of
UTF-16 code units, group-size arrays are lists of `int`. -/
structure NumberFormatInfo where
  cNumberGroup : List Int
  cCurrencyGroup : List Int
  cPercentGroup : List Int
  sPositive : List Nat
  sNegative : List Nat
  sNumberDecimal : List Nat
  sNumberGroup : List Nat
  sCurrencyGroup : List Nat
  sCurrencyDecimal : List Nat
  sCurrency : List Nat
  sPercentGroup : List Nat
  sPercentDecimal : List Nat
  sPercent : List Nat
  sPerMille : List Nat
  sNaN : List Nat
  sPositiveInfinity : List Nat
  sNegativeInfinity : List Nat
  cNumberDecimals : Int
  cCurrencyDecimals : Int
  cPercentDecimals : Int
  cNegativeNumberFormat : Int
  cPosCurrencyFormat : Int
  cNegCurrencyFormat : Int
  cPositivePercentFormat : Int
  cNegativePercentFormat : Int
deriving DecidableEq, Repr

/-- The exceptions and fatal stops the formatting routines raise:
`COMPlusThrowOM`, `COMPlusThrow(kArgumentOutOfRangeException)`,
`COMPlusThrow(kFormatException, L"Format_BadFormatSpecifier")`,
`DoJITFailFast` and `COMPlusThrowArgumentNull`. -/
inductive FormatError where
  | outOfMemory
  | argumentOutOfRange
  | badFormatSpecifier
  | failFast
  | argumentNull
deriving DecidableEq, Repr

/-- `#define MIN_BUFFER_SIZE 105` -/
def MIN_BUFFER_SIZE : Int := 105

/-- `INT32_MAX` -/
def INT32_MAX : Int := 2147483647

/-- Modelled from the spec: `DECIMAL_PRECISION` comes from `comdecimal.h`,
which is not among the sources; the comment at its use gives 29 digits. -/
def DECIMAL_PRECISION : Int := 29

/-- `static const char* const posCurrencyFormats[]`:
`"$#", "#$", "$ #", "# $"`. -/
def posCurrencyFormats : List (List Nat) :=
  [[36, 35],
   [35, 36],
   [36, 32, 35],
   [35, 32, 36]]

/-- `static const char* const negCurrencyFormats[]`:
`"($#)", "-$#", "$-#", "$#-", "(#$)", "-#$", "#-$", "#$-", "-# $", "-$ #",
"# $-", "$ #-", "$ -#", "#- $", "($ #)", "(# $)"`. -/
def negCurrencyFormats : List (List Nat) :=
  [[40, 36, 35, 41],
   [45, 36, 35],
   [36, 45, 35],
   [36, 35, 45],
   [40, 35, 36, 41],
   [45, 35, 36],
   [35, 45, 36],
   [35, 36, 45],
   [45, 35, 32, 36],
   [45, 36, 32, 35],
   [35, 32, 36, 45],
   [36, 32, 35, 45],
   [36, 32, 45, 35],
   [35, 45, 32, 36],
   [40, 36, 32, 35, 41],
   [40, 35, 32, 36, 41]]

/-- `static const char* const posPercentFormats[]`: `"# %", "#%", "%#", "% #"`. -/
def posPercentFormats : List (List Nat) :=
  [[35, 32, 37],
   [35, 37],
   [37, 35],
   [37, 32, 35]]

/-- `static const char* const negPercentFormats[]`:
`"-# %", "-#%", "-%#", "%-#", "%#-", "#-%", "#%-", "-% #", "# %-", "% #-",
"% -#", "#- %"`. -/
def negPercentFormats : List (List Nat) :=
  [[45, 35, 32, 37],
   [45, 35, 37],
   [45, 37, 35],
   [37, 45, 35],
   [37, 35, 45],
   [35, 45, 37],
   [35, 37, 45],
   [45, 37, 32, 35],
   [35, 32, 37, 45],
   [37, 32, 35, 45],
   [37, 32, 45, 35],
   [35, 45, 32, 37]]

/-- `static const char* const negNumberFormats[]`:
`"(#)", "-#", "- #", "#-", "# -"`. -/
def negNumberFormats : List (List Nat) :=
  [[40, 35, 41],
   [45, 35],
   [45, 32, 35],
   [35, 45],
   [35, 32, 45]]

/-- `static const char posNumberFormat[] = "#"`. -/
def posNumberFormat : List Nat := [35]

/-- Read `templates[i]` for an `int` index. The source indexes its template
tables without a check; a read outside the array is undefined in C, and the
empty template returned here for it stands for no behaviour of the program.
The statements about the text or the success of a layout that reads a
template take the index inside its table (`HasPatternIndices`). -/
def templateAt (templates : List (List Nat)) (i : Int) : List Nat :=
  if i < 0 then [] else templates.getD i.toNat []

/-! ## Number formatting: the layout routines

The output buffer is the list of the code units written so far; a routine
`wchar* F(wchar* buffer, ...)` takes that list and returns it extended. A
cursor `dig` into `number->digits` is the list of the digits from the cursor
on. -/

/-- The expression `*dig != 0 ? *dig++ : '0'`: the code unit it yields and the
cursor after it. -/
def nextDigit (dig : List Nat) : Nat × List Nat :=
  match dig with
  | [] => (48, [])
  | c :: cs => if c = 0 then (48, c :: cs) else (c, cs)

/-- The loop body `*buffer++ = *dig != 0 ? *dig++ : '0'` run `n` times: the
buffer and the cursor after it. -/
def copyDigits : Nat → List Nat → List Nat → List Nat × List Nat
  | 0, buffer, dig => (buffer, dig)
  | n + 1, buffer, dig => copyDigits n (buffer ++ [(nextDigit dig).1]) (nextDigit dig).2

/-- `FormatExponent(buffer, value, expChar, posSignStr, negSignStr, minDigits)`;
a `NULL` `posSignStr` is `none`. -/
def FormatExponent (buffer : List Nat) (value : Int) (expChar : Nat)
    (posSignStr : Option (List Nat)) (negSignStr : List Nat) (minDigits : Int) : List Nat :=
  let buffer := buffer ++ [expChar]
  let buffer :=
    if value < 0 then buffer ++ negSignStr
    else
      match posSignStr with
      | some s => buffer ++ s
      | none => buffer
  let value := if value < 0 then wrapInt32 (-value) else value
  buffer ++ Int32ToDecChars [] (int32ToUInt32 value) minDigits

/-- `FormatGeneral(buffer, number, digits, expChar, numfmt, bSuppressScientific)`. -/
def FormatGeneral (buffer : List Nat) (number : NUMBER) (digits : Int) (expChar : Nat)
    (numfmt : NumberFormatInfo) (bSuppressScientific : Bool) : List Nat :=
  let scientific : Bool :=
    !bSuppressScientific && (decide (number.scale > digits) || decide (number.scale < -3))
  let digPos : Int := if scientific then 1 else number.scale
  let st : List Nat × List Nat :=
    if digPos > 0 then copyDigits digPos.toNat buffer number.digits
    else (buffer ++ [48], number.digits)
  let digPos : Int := if digPos > 0 then 0 else digPos
  let buffer :=
    if wcharAt st.2 0 ≠ 0 ∨ digPos < 0 then
      st.1 ++ numfmt.sNumberDecimal ++ List.replicate (-digPos).toNat 48 ++ cstr st.2
    else st.1
  if scientific then
    FormatExponent buffer (wrapInt32 (number.scale - 1)) expChar (some numfmt.sPositive)
      numfmt.sNegative 2
  else buffer

/-- `FormatScientific(buffer, number, digits, expChar, numfmt)`. -/
def FormatScientific (buffer : List Nat) (number : NUMBER) (digits : Int) (expChar : Nat)
    (numfmt : NumberFormatInfo) : List Nat :=
  let d0 := nextDigit number.digits
  let buffer := buffer ++ [d0.1]
  let buffer := if digits ≠ 1 then buffer ++ numfmt.sNumberDecimal else buffer
  let st := copyDigits (wrapInt32 (digits - 1)).toNat buffer d0.2
  let e : Int := if wcharAt number.digits 0 = 0 then 0 else wrapInt32 (number.scale - 1)
  FormatExponent st.1 e expChar (some numfmt.sPositive) numfmt.sNegative 3

/-- The loop of `FormatFixed` that sizes the grouped integer part,
`while (digPos > groupSizeCount) { ... }`, on the state `groupSizeIndex`,
`groupSizeCount`, `bufferSize`; it yields the final `groupSizeCount` and
`bufferSize`. The first argument bounds the number of iterations. -/
def groupSizeLoop (groupDigits : List Int) (digPos : Int) (groupSeparatorLen : Int) :
    Nat → Nat → Int → Int → Except FormatError (Int × Int)
  | 0, _, groupSizeCount, bufferSize => .ok (groupSizeCount, bufferSize)
  | fuel + 1, groupSizeIndex, groupSizeCount, bufferSize =>
    if digPos > groupSizeCount then
      if tableAt groupDigits groupSizeIndex = 0 then .ok (groupSizeCount, bufferSize)
      else
        let bufferSize := wrapInt32 (bufferSize + groupSeparatorLen)
        let groupSizeIndex :=
          if (groupSizeIndex : Int) < (groupDigits.length : Int) - 1 then groupSizeIndex + 1
          else groupSizeIndex
        let groupSizeCount := wrapInt32 (groupSizeCount + tableAt groupDigits groupSizeIndex)
        if groupSizeCount < 0 ∨ bufferSize < 0 then .error FormatError.argumentOutOfRange
        else groupSizeLoop groupDigits digPos groupSeparatorLen fuel groupSizeIndex
          groupSizeCount bufferSize
    else .ok (groupSizeCount, bufferSize)

/-- The backward write loop of `FormatFixed`,
`for (int i = digPos - 1; i >= 0; i--) { ... }`: the first argument is `i + 1`,
then come the text written so far (it grows to the left), `groupSizeIndex`,
`groupSize` and `digitCount`. -/
def groupWriteLoop (groupDigits : List Int) (dig : List Nat) (digStart : Nat)
    (sGroup : List Nat) : Nat → List Nat → Nat → Int → Int → List Nat
  | 0, written, _, _, _ => written
  | i + 1, written, groupSizeIndex, groupSize, digitCount =>
    let written := (if i < digStart then wcharAt dig i else 48) :: written
    if groupSize > 0 then
      if digitCount + 1 = groupSize ∧ i ≠ 0 then
        if (groupSizeIndex : Int) < (groupDigits.length : Int) - 1 then
          groupWriteLoop groupDigits dig digStart sGroup i (sGroup ++ written)
            (groupSizeIndex + 1) (tableAt groupDigits (groupSizeIndex + 1)) 0
        else
          groupWriteLoop groupDigits dig digStart sGroup i (sGroup ++ written)
            groupSizeIndex groupSize 0
      else
        groupWriteLoop groupDigits dig digStart sGroup i written groupSizeIndex groupSize
          (digitCount + 1)
    else
      groupWriteLoop groupDigits dig digStart sGroup i written groupSizeIndex groupSize
        digitCount

/-- The integer part of `FormatFixed` when `digPos > 0` and a group-size array
is given: the sizing loop, the backward write loop and the underflow check
`if (p < buffer - 1) DoJITFailFast()`. It yields the buffer and the cursor
`dig += digStart`. Cells of the sized region that the write loop does not
reach keep what the fresh allocation held; they are modelled as `0`. -/
def formatFixedGrouped (buffer : List Nat) (number : NUMBER) (groupDigits : List Int)
    (sGroup : List Nat) : Except FormatError (List Nat × List Nat) :=
  let digPos := number.scale
  let sized : Except FormatError (Int × Int) :=
    if groupDigits.length ≠ 0 then
      groupSizeLoop groupDigits digPos (sGroup.length : Int)
        (groupDigits.length + digPos.toNat + 2) 0 (tableAt groupDigits 0) digPos
    else .ok (tableAt groupDigits 0, digPos)
  match sized with
  | .error e => .error e
  | .ok (groupSizeCount, bufferSize) =>
    let groupSize : Int :=
      if groupDigits.length ≠ 0 then
        (if groupSizeCount = 0 then 0 else tableAt groupDigits 0)
      else 0
    let digStart := min digPos.toNat (cstr number.digits).length
    let written := groupWriteLoop groupDigits number.digits digStart sGroup digPos.toNat []
      0 groupSize 0
    if (written.length : Int) > bufferSize then .error FormatError.failFast
    else
      .ok (buffer ++ List.replicate (bufferSize.toNat - written.length) 0 ++ written,
        number.digits.drop digStart)

/-- `FormatFixed(buffer, number, digits, groupDigitsRef, sDecimal, sGroup)`; a
`NULL` group-size array is `none` (then `sGroup` is not read). -/
def FormatFixed (buffer : List Nat) (number : NUMBER) (digits : Int)
    (groupDigits : Option (List Int)) (sDecimal : List Nat) (sGroup : List Nat) :
    Except FormatError (List Nat) :=
  let intPart : Except FormatError (List Nat × List Nat × Int) :=
    if number.scale > 0 then
      match groupDigits with
      | some gd =>
        match formatFixedGrouped buffer number gd sGroup with
        | .error e => .error e
        | .ok r => .ok (r.1, r.2, number.scale)
      | none =>
        let st := copyDigits number.scale.toNat buffer number.digits
        .ok (st.1, st.2, 0)
    else .ok (buffer ++ [48], number.digits, number.scale)
  match intPart with
  | .error e => .error e
  | .ok (buffer, dig, digPos) =>
    if digits > 0 then
      let zeros := min (-digPos).toNat digits.toNat
      .ok (copyDigits (digits.toNat - zeros)
        (buffer ++ sDecimal ++ List.replicate zeros 48) dig).1
    else .ok buffer

/-- The template loop of `FormatNumber`. -/
def FormatNumberLoop (number : NUMBER) (digits : Int) (numfmt : NumberFormatInfo) :
    List Nat → List Nat → Except FormatError (List Nat)
  | [], buffer => .ok buffer
  | ch :: fmt, buffer =>
    if ch = 0 then .ok buffer
    else if ch = 35 then
      match FormatFixed buffer number digits (some numfmt.cNumberGroup) numfmt.sNumberDecimal
          numfmt.sNumberGroup with
      | .error e => .error e
      | .ok buffer => FormatNumberLoop number digits numfmt fmt buffer
    else if ch = 45 then FormatNumberLoop number digits numfmt fmt (buffer ++ numfmt.sNegative)
    else FormatNumberLoop number digits numfmt fmt (buffer ++ [ch])

/-- `FormatNumber(buffer, number, digits, numfmt)`. -/
def FormatNumber (buffer : List Nat) (number : NUMBER) (digits : Int)
    (numfmt : NumberFormatInfo) : Except FormatError (List Nat) :=
  FormatNumberLoop number digits numfmt
    (if number.sign then templateAt negNumberFormats numfmt.cNegativeNumberFormat
     else posNumberFormat) buffer

/-- The template loop of `FormatCurrency`. -/
def FormatCurrencyLoop (number : NUMBER) (digits : Int) (numfmt : NumberFormatInfo) :
    List Nat → List Nat → Except FormatError (List Nat)
  | [], buffer => .ok buffer
  | ch :: fmt, buffer =>
    if ch = 0 then .ok buffer
    else if ch = 35 then
      match FormatFixed buffer number digits (some numfmt.cCurrencyGroup)
          numfmt.sCurrencyDecimal numfmt.sCurrencyGroup with
      | .error e => .error e
      | .ok buffer => FormatCurrencyLoop number digits numfmt fmt buffer
    else if ch = 45 then
      FormatCurrencyLoop number digits numfmt fmt (buffer ++ numfmt.sNegative)
    else if ch = 36 then
      FormatCurrencyLoop number digits numfmt fmt (buffer ++ numfmt.sCurrency)
    else FormatCurrencyLoop number digits numfmt fmt (buffer ++ [ch])

/-- `FormatCurrency(buffer, number, digits, numfmt)`. -/
def FormatCurrency (buffer : List Nat) (number : NUMBER) (digits : Int)
    (numfmt : NumberFormatInfo) : Except FormatError (List Nat) :=
  FormatCurrencyLoop number digits numfmt
    (if number.sign then templateAt negCurrencyFormats numfmt.cNegCurrencyFormat
     else templateAt posCurrencyFormats numfmt.cPosCurrencyFormat) buffer

/-- The template loop of `FormatPercent`. -/
def FormatPercentLoop (number : NUMBER) (digits : Int) (numfmt : NumberFormatInfo) :
    List Nat → List Nat → Except FormatError (List Nat)
  | [], buffer => .ok buffer
  | ch :: fmt, buffer =>
    if ch = 0 then .ok buffer
    else if ch = 35 then
      match FormatFixed buffer number digits (some numfmt.cPercentGroup)
          numfmt.sPercentDecimal numfmt.sPercentGroup with
      | .error e => .error e
      | .ok buffer => FormatPercentLoop number digits numfmt fmt buffer
    else if ch = 45 then
      FormatPercentLoop number digits numfmt fmt (buffer ++ numfmt.sNegative)
    else if ch = 37 then
      FormatPercentLoop number digits numfmt fmt (buffer ++ numfmt.sPercent)
    else FormatPercentLoop number digits numfmt fmt (buffer ++ [ch])

/-- `FormatPercent(buffer, number, digits, numfmt)`. -/
def FormatPercent (buffer : List Nat) (number : NUMBER) (digits : Int)
    (numfmt : NumberFormatInfo) : Except FormatError (List Nat) :=
  FormatPercentLoop number digits numfmt
    (if number.sign then templateAt negPercentFormats numfmt.cNegativePercentFormat
     else templateAt posPercentFormats numfmt.cPositivePercentFormat) buffer

/-! ## NumberToString -/

/-- The precision `NumberToString` works with: the `digits` argument after the
defaults of the format kind are applied (and, for `'E'`, after `digits++`). -/
def effectiveDigits (number : NUMBER) (format : Nat) (digits : Int)
    (numfmt : NumberFormatInfo) (bDecimal : Bool) : Int :=
  let ftype := format &&& 0xFFDF
  if ftype = 67 then (if digits < 0 then numfmt.cCurrencyDecimals else digits)
  else if ftype = 70 ∨ ftype = 78 then (if digits < 0 then numfmt.cNumberDecimals else digits)
  else if ftype = 69 then wrapInt32 ((if digits < 0 then 6 else digits) + 1)
  else if ftype = 71 then
    (if digits < 1 then (if bDecimal ∧ digits = -1 then DECIMAL_PRECISION else number.precision)
     else digits)
  else if ftype = 80 then (if digits < 0 then numfmt.cPercentDecimals else digits)
  else digits

/-- The worst-case length `newBufferLen` (in code units, before the
multiplication by `sizeof(WCHAR)`) that `NumberToString` computes for the
format kinds `C`, `F`, `N`, `E`, `G`, `P`. `GetStringLength` is taken to
return a `DWORD`; the sums are formed in `INT64` except the doubled sign
lengths of case `'G'`. -/
def NumberToStringBufferLen (number : NUMBER) (format : Nat) (digits : Int)
    (numfmt : NumberFormatInfo) (bDecimal : Bool) : Int :=
  let ftype := format &&& 0xFFDF
  let digits := effectiveDigits number format digits numfmt bDecimal
  let scale := if ftype = 80 then wrapInt32 (number.scale + 2) else number.scale
  let digCount : Int := if scale < 0 then 0 else wrapInt32 (scale + digits)
  if ftype = 67 then
    MIN_BUFFER_SIZE + digCount + numfmt.sNegative.length +
      (numfmt.sCurrencyGroup.length : Int) * digCount + numfmt.sCurrencyDecimal.length +
      numfmt.sCurrency.length
  else if ftype = 70 then
    MIN_BUFFER_SIZE + digCount + numfmt.sNegative.length + numfmt.sNumberDecimal.length
  else if ftype = 78 then
    MIN_BUFFER_SIZE + digCount + numfmt.sNegative.length +
      (numfmt.sNumberGroup.length : Int) * digCount + numfmt.sNumberDecimal.length
  else if ftype = 69 then
    MIN_BUFFER_SIZE + digits +
      ((numfmt.sNegative.length : Int) + numfmt.sPositive.length) * 2 +
      numfmt.sNumberDecimal.length
  else if ftype = 71 then
    MIN_BUFFER_SIZE + digits +
      (toUInt32 ((numfmt.sNegative.length + numfmt.sPositive.length) * 2) : Int) +
      numfmt.sNumberDecimal.length
  else if ftype = 80 then
    MIN_BUFFER_SIZE + digCount + numfmt.sNegative.length +
      (numfmt.sPercentGroup.length : Int) * digCount + numfmt.sPercentDecimal.length +
      numfmt.sPercent.length
  else MIN_BUFFER_SIZE

/-- The digit buffer after the rounding step of `NumberToString`: `'P'` adds 2
to `scale` first; `C`, `F`, `N`, `P` round at `scale + digits`, `E` at
`digits`, `G` at `digits` unless rounding is turned off for a `Decimal`
without precision, where only the sign of a zero is cleared. -/
def NumberToStringRounded (number : NUMBER) (format : Nat) (digits : Int)
    (numfmt : NumberFormatInfo) (bDecimal : Bool) : NUMBER :=
  let ftype := format &&& 0xFFDF
  let d := effectiveDigits number format digits numfmt bDecimal
  if ftype = 67 ∨ ftype = 70 ∨ ftype = 78 then
    RoundNumber number (wrapInt32 (number.scale + d))
  else if ftype = 69 then RoundNumber number d
  else if ftype = 71 then
    if digits < 1 ∧ bDecimal ∧ digits = -1 then
      (if wcharAt number.digits 0 = 0 then { number with sign := false } else number)
    else RoundNumber number d
  else if ftype = 80 then
    RoundNumber { number with scale := wrapInt32 (number.scale + 2) }
      (wrapInt32 (wrapInt32 (number.scale + 2) + d))
  else number

/-- `NumberToString(number, format, digits, numfmt, bDecimal)`: the text of the
returned string, or the exception raised. The allocation itself is not
modelled; the guard `newBufferLen > INT32_MAX` and the final check
`dst - buffer <= newBufferLen` (against the byte count) are. -/
def NumberToString (number : NUMBER) (format : Nat) (digits : Int)
    (numfmt : NumberFormatInfo) (bDecimal : Bool) : Except FormatError (List Nat) :=
  let ftype := format &&& 0xFFDF
  if ftype = 67 ∨ ftype = 70 ∨ ftype = 78 ∨ ftype = 69 ∨ ftype = 71 ∨ ftype = 80 then
    let newBufferLen := NumberToStringBufferLen number format digits numfmt bDecimal
    if newBufferLen > INT32_MAX then .error FormatError.outOfMemory
    else
      let d := effectiveDigits number format digits numfmt bDecimal
      let rounded := NumberToStringRounded number format digits numfmt bDecimal
      let signed : List Nat := if rounded.sign then numfmt.sNegative else []
      let text : Except FormatError (List Nat) :=
        if ftype = 67 then FormatCurrency [] rounded d numfmt
        else if ftype = 70 then FormatFixed signed rounded d none numfmt.sNumberDecimal []
        else if ftype = 78 then FormatNumber [] rounded d numfmt
        else if ftype = 69 then .ok (FormatScientific signed rounded d format numfmt)
        else if ftype = 71 then
          .ok (FormatGeneral signed rounded d (toWchar (format + 65536 - 2)) numfmt
            (decide (digits < 1 ∧ bDecimal ∧ digits = -1)))
        else FormatPercent [] rounded d numfmt
      match text with
      | .error e => .error e
      | .ok dst =>
        if (dst.length : Int) ≤ newBufferLen * 2 then .ok dst
        else .error FormatError.failFast
  else .error FormatError.badFormatSpecifier

/-! ## Picture formatting

A pointer into the format string is its offset from `format`; reading at or
past the end of the list reads the terminating `0`. -/

/-- The loop `while (*src != 0 && *src++ != ch);` that skips a quoted run:
the offset after it. -/
def skipQuoted (format : List Nat) (ch : Nat) (src : Nat) : Nat :=
  let n := ((format.drop src).takeWhile (fun c => c != 0 && c != ch)).length
  if wcharAt format (src + n) = 0 then src + n else src + n + 1

/-- The offset of the first code unit at or after `src` that is not `'0'`. -/
def skipZeros (format : List Nat) (src : Nat) : Nat :=
  src + ((format.drop src).takeWhile (fun c => c == 48)).length

/-- The loop `for (;;) { switch (ch = *src++) ... }` of `FindSection`; the
first argument bounds the number of iterations, every one of which consumes a
code unit. The result is the offset of the returned pointer. -/
def FindSectionLoop (format : List Nat) : Nat → Nat → Int → Nat
  | 0, _, _ => 0
  | fuel + 1, src, sect =>
    let ch := wcharAt format src
    if ch = 39 ∨ ch = 34 then
      FindSectionLoop format fuel (skipQuoted format ch (src + 1)) sect
    else if ch = 92 then
      FindSectionLoop format fuel
        (if wcharAt format (src + 1) ≠ 0 then src + 2 else src + 1) sect
    else if ch = 59 then
      if wrapInt32 (sect - 1) ≠ 0 then
        FindSectionLoop format fuel (src + 1) (wrapInt32 (sect - 1))
      else if wcharAt format (src + 1) ≠ 0 ∧ wcharAt format (src + 1) ≠ 59 then src + 1
      else 0
    else if ch = 0 then 0
    else FindSectionLoop format fuel (src + 1) sect

/-- `FindSection(format, section)`: the offset of the returned pointer. -/
def FindSection (format : List Nat) (sect : Int) : Nat :=
  if sect = 0 then 0 else FindSectionLoop format (format.length + 1) 0 sect

/-- The locals that the section parser of `NumberToStringFormat` sets. -/
structure PictureInfo where
  digitCount : Int
  decimalPos : Int
  firstDigit : Int
  lastDigit : Int
  scientific : Bool
  percent : Int
  permille : Int
  thousandPos : Int
  thousandCount : Int
  thousandSeps : Bool
  scaleAdjust : Int
deriving DecidableEq, Repr

/-- The first loop of `NumberToStringFormat`,
`while ((ch = *src++) != 0 && ch != ';') { switch (ch) ... }`; the first
argument bounds the number of iterations, every one of which consumes a code
unit. -/
def parseSectionLoop (format : List Nat) : Nat → Nat → PictureInfo → PictureInfo
  | 0, _, st => st
  | fuel + 1, src, st =>
    let ch := wcharAt format src
    if ch = 0 ∨ ch = 59 then st
    else if ch = 35 then
      parseSectionLoop format fuel (src + 1) { st with digitCount := st.digitCount + 1 }
    else if ch = 48 then
      parseSectionLoop format fuel (src + 1)
        { st with
          firstDigit := if st.firstDigit = 0x7FFFFFFF then st.digitCount else st.firstDigit
          digitCount := st.digitCount + 1
          lastDigit := st.digitCount + 1 }
    else if ch = 46 then
      parseSectionLoop format fuel (src + 1)
        (if st.decimalPos < 0 then { st with decimalPos := st.digitCount } else st)
    else if ch = 44 then
      parseSectionLoop format fuel (src + 1)
        (if st.digitCount > 0 ∧ st.decimalPos < 0 then
          (if st.thousandPos ≥ 0 ∧ st.thousandPos = st.digitCount then
            { st with thousandCount := st.thousandCount + 1 }
           else
            { st with
              thousandSeps := if st.thousandPos ≥ 0 then true else st.thousandSeps
              thousandPos := st.digitCount
              thousandCount := 1 })
         else st)
    else if ch = 37 then
      parseSectionLoop format fuel (src + 1)
        { st with percent := st.percent + 1, scaleAdjust := wrapInt32 (st.scaleAdjust + 2) }
    else if ch = 0x2030 then
      parseSectionLoop format fuel (src + 1)
        { st with permille := st.permille + 1, scaleAdjust := wrapInt32 (st.scaleAdjust + 3) }
    else if ch = 39 ∨ ch = 34 then
      parseSectionLoop format fuel (skipQuoted format ch (src + 1)) st
    else if ch = 92 then
      parseSectionLoop format fuel (if wcharAt format (src + 1) ≠ 0 then src + 2 else src + 1) st
    else if ch = 69 ∨ ch = 101 then
      if wcharAt format (src + 1) = 48 ∨
          ((wcharAt format (src + 1) = 43 ∨ wcharAt format (src + 1) = 45) ∧
            wcharAt format (src + 2) = 48) then
        parseSectionLoop format fuel (skipZeros format (src + 2)) { st with scientific := true }
      else parseSectionLoop format fuel (src + 1) st
    else parseSectionLoop format fuel (src + 1) st

/-- The label `ParseSection:` up to the fix-up of the thousands marker: the
section at offset `section` is parsed; `thousandCount` is the one local the
label does not reset. -/
def parsePicture (format : List Nat) (sect : Nat) (thousandCount : Int) : PictureInfo :=
  let st := parseSectionLoop format (format.length + 1) sect
    { digitCount := 0
      decimalPos := -1
      firstDigit := 0x7FFFFFFF
      lastDigit := 0
      scientific := false
      percent := 0
      permille := 0
      thousandPos := -1
      thousandCount := thousandCount
      thousandSeps := false
      scaleAdjust := 0 }
  let st := if st.decimalPos < 0 then { st with decimalPos := st.digitCount } else st
  if st.thousandPos ≥ 0 then
    if st.thousandPos = st.decimalPos then
      { st with scaleAdjust := wrapInt32 (st.scaleAdjust - wrapInt32 (st.thousandCount * 3)) }
    else { st with thousandSeps := true }
  else st

/-- The first part of `NumberToStringFormat`: the section is chosen and
parsed, the number is scaled and rounded, and the zero section is taken (the
`goto ParseSection`) when the number rounds to zero. It yields the offset of
the section, the parsed locals and the number. -/
def pictureSetup (number : NUMBER) (format : List Nat) : Nat × PictureInfo × NUMBER :=
  let sect := FindSection format
    (if wcharAt number.digits 0 = 0 then 2 else if number.sign then 1 else 0)
  let info := parsePicture format sect 0
  if wcharAt number.digits 0 ≠ 0 then
    let scaled : NUMBER := { number with scale := wrapInt32 (number.scale + info.scaleAdjust) }
    let pos : Int :=
      if info.scientific then info.digitCount
      else wrapInt32 (wrapInt32 (scaled.scale + info.digitCount) - info.decimalPos)
    let rounded := RoundNumber scaled pos
    if wcharAt rounded.digits 0 = 0 then
      let src := FindSection format 2
      if src ≠ sect then
        (src, parsePicture format src info.thousandCount,
          { rounded with sign := false, scale := 0 })
      else (sect, info, rounded)
    else (sect, info, rounded)
  else (sect, info, { number with sign := false, scale := 0 })

/-- The loop that precomputes `thousandsSepPos`: the positions are pushed on a
stack whose head is `thousandsSepPos[thousandsSepCtr]`. The first argument
bounds the number of iterations; with a negative group size the loop of the
source runs until the position array cannot grow any more, which `none`
stands for. -/
def thousandsLoop (groupDigits : List Int) (numDigits : Int) :
    Nat → Nat → Int → Int → List Int → Option (List Int)
  | 0, _, _, _, _ => none
  | fuel + 1, groupSizeIndex, groupSize, groupTotalSizeCount, seps =>
    if numDigits > groupTotalSizeCount then
      if groupSize = 0 then some seps
      else if (groupSizeIndex : Int) < (groupDigits.length : Int) - 1 then
        thousandsLoop groupDigits numDigits fuel (groupSizeIndex + 1)
          (tableAt groupDigits (groupSizeIndex + 1))
          (groupTotalSizeCount + tableAt groupDigits (groupSizeIndex + 1))
          (wrapInt32 groupTotalSizeCount :: seps)
      else
        thousandsLoop groupDigits numDigits fuel groupSizeIndex groupSize
          (groupTotalSizeCount + groupSize) (wrapInt32 groupTotalSizeCount :: seps)
    else some seps

/-- The state of the output loop of `NumberToStringFormat`: the read offset,
the text written, the digit cursor, `digPos`, `adjust`, the stack of pending
separator positions, `scientific` and `decimalWritten`. -/
structure PictureState where
  src : Nat
  dst : List Nat
  dig : List Nat
  digPos : Int
  adjust : Int
  seps : List Int
  scientific : Bool
  decimalWritten : Bool
deriving DecidableEq, Repr

/-- The block `if (thousandSeps && digPos > 1 && thousandsSepCtr >= 0) { if
(digPos == thousandsSepPos[thousandsSepCtr] + 1) { AddStringRef(&dst,
numfmt->sNumberGroup); thousandsSepCtr--; } }`. -/
def addGroupSeparator (numfmt : NumberFormatInfo) (thousandSeps : Bool) (digPos : Int)
    (dst : List Nat) (seps : List Int) : List Nat × List Int :=
  match seps with
  | [] => (dst, seps)
  | top :: rest =>
    if thousandSeps ∧ digPos > 1 ∧ digPos = wrapInt32 (top + 1) then
      (dst ++ numfmt.sNumberGroup, rest)
    else (dst, seps)

/-- The loop `while (adjust > 0) { ... }` that writes the digits for which the
picture has no placeholder; the first argument is the number of iterations,
the value of `adjust` at entry. -/
def emitOverflowDigits (numfmt : NumberFormatInfo) (thousandSeps : Bool) :
    Nat → PictureState → PictureState
  | 0, st => st
  | n + 1, st =>
    let r := addGroupSeparator numfmt thousandSeps st.digPos
      (st.dst ++ [(nextDigit st.dig).1]) st.seps
    emitOverflowDigits numfmt thousandSeps n
      { st with
        dst := r.1
        dig := (nextDigit st.dig).2
        seps := r.2
        digPos := st.digPos - 1
        adjust := st.adjust - 1 }

/-- The cases `'E'` and `'e'` of the output loop; `st.src` is the offset after
the marker. -/
def pictureExponent (number : NUMBER) (format : List Nat) (numfmt : NumberFormatInfo)
    (info : PictureInfo) (ch : Nat) (st : PictureState) : PictureState :=
  let c0 := wcharAt format st.src
  let c1 := wcharAt format (st.src + 1)
  if st.scientific then
    if c0 = 48 ∨ (c0 = 43 ∧ c1 = 48) ∨ (c0 = 45 ∧ c1 = 48) then
      let sign : Option (List Nat) :=
        if c0 ≠ 48 ∧ c0 = 43 then some numfmt.sPositive else none
      let src := skipZeros format (st.src + 1)
      let i : Int := ((src - (st.src + 1) : Nat) : Int) + (if c0 = 48 then 1 else 0)
      let exp : Int :=
        if wcharAt number.digits 0 = 0 then 0 else wrapInt32 (number.scale - info.decimalPos)
      { st with
        src := src
        dst := FormatExponent st.dst exp ch sign numfmt.sNegative (if i > 10 then 10 else i)
        scientific := false }
    else { st with dst := st.dst ++ [ch] }
  else
    let signed : Bool := decide (c0 = 43 ∨ c0 = 45)
    let src := if signed then st.src + 1 else st.src
    let dst := if signed then st.dst ++ [ch, c0] else st.dst ++ [ch]
    { st with
      src := skipZeros format src
      dst := dst ++ List.replicate (skipZeros format src - src) 48 }

/-- The second `switch (ch)` of the output loop, for the code unit `ch` just
read (`st.src` is the offset after it). -/
def pictureStep (number : NUMBER) (format : List Nat) (numfmt : NumberFormatInfo)
    (info : PictureInfo) (firstDigit lastDigit : Int) (thousandSeps : Bool) (ch : Nat)
    (st : PictureState) : PictureState :=
  if ch = 35 ∨ ch = 48 then
    let out : Nat :=
      if st.adjust < 0 then (if st.digPos ≤ firstDigit then 48 else 0)
      else if wcharAt st.dig 0 ≠ 0 then wcharAt st.dig 0
      else (if st.digPos > lastDigit then 48 else 0)
    let dig := if st.adjust < 0 then st.dig else (nextDigit st.dig).2
    let adjust := if st.adjust < 0 then st.adjust + 1 else st.adjust
    let r : List Nat × List Int :=
      if out ≠ 0 then addGroupSeparator numfmt thousandSeps st.digPos (st.dst ++ [out]) st.seps
      else (st.dst, st.seps)
    { st with dst := r.1, dig := dig, seps := r.2, digPos := st.digPos - 1, adjust := adjust }
  else if ch = 46 then
    if st.digPos ≠ 0 ∨ st.decimalWritten then st
    else if lastDigit < 0 ∨ (info.decimalPos < info.digitCount ∧ wcharAt st.dig 0 ≠ 0) then
      { st with dst := st.dst ++ numfmt.sNumberDecimal, decimalWritten := true }
    else st
  else if ch = 0x2030 then { st with dst := st.dst ++ numfmt.sPerMille }
  else if ch = 37 then { st with dst := st.dst ++ numfmt.sPercent }
  else if ch = 44 then st
  else if ch = 39 ∨ ch = 34 then
    { st with
      src := skipQuoted format ch st.src
      dst := st.dst ++ (format.drop st.src).takeWhile (fun c => c != 0 && c != ch) }
  else if ch = 92 then
    if wcharAt format st.src ≠ 0 then
      { st with src := st.src + 1, dst := st.dst ++ [wcharAt format st.src] }
    else st
  else if ch = 69 ∨ ch = 101 then pictureExponent number format numfmt info ch st
  else { st with dst := st.dst ++ [ch] }

/-- The output loop of `NumberToStringFormat`,
`while ((ch = *src++) != 0 && ch != ';') { ... }`; the first argument bounds
the number of iterations, every one of which consumes a code unit. -/
def pictureLoop (number : NUMBER) (format : List Nat) (numfmt : NumberFormatInfo)
    (info : PictureInfo) (firstDigit lastDigit : Int) (thousandSeps : Bool) :
    Nat → PictureState → PictureState
  | 0, st => st
  | fuel + 1, st =>
    let ch := wcharAt format st.src
    if ch = 0 ∨ ch = 59 then st
    else
      let st1 : PictureState := { st with src := st.src + 1 }
      let st2 : PictureState :=
        if st1.adjust > 0 ∧ (ch = 35 ∨ ch = 48 ∨ ch = 46) then
          emitOverflowDigits numfmt thousandSeps st1.adjust.toNat st1
        else st1
      pictureLoop number format numfmt info firstDigit lastDigit thousandSeps fuel
        (pictureStep number format numfmt info firstDigit lastDigit thousandSeps ch st2)

/-- `NumberToStringFormat(number, str, numfmt)`: the text of the returned
string, or the exception raised. The temporary buffer is an unbounded list:
the guard on `tempLen` is modelled, the re-allocations of the buffer and the
final overrun check against its current capacity are not. -/
def NumberToStringFormat (number : NUMBER) (format : List Nat) (numfmt : NumberFormatInfo) :
    Except FormatError (List Nat) :=
  let setup := pictureSetup number format
  let sect := setup.1
  let info := setup.2.1
  let number := setup.2.2
  let firstDigit : Int :=
    if info.firstDigit < info.decimalPos then info.decimalPos - info.firstDigit else 0
  let lastDigit : Int :=
    if info.lastDigit > info.decimalPos then info.decimalPos - info.lastDigit else 0
  let digPos : Int :=
    if info.scientific then info.decimalPos
    else if number.scale > info.decimalPos then number.scale else info.decimalPos
  let adjust : Int :=
    if info.scientific then 0 else wrapInt32 (number.scale - info.decimalPos)
  let thousandSeps : Bool := info.thousandSeps && decide (numfmt.cNumberGroup.length ≠ 0)
  let totalDigits : Int := wrapInt32 (digPos + (if adjust < 0 then adjust else 0))
  let numDigits : Int := if firstDigit > totalDigits then firstDigit else totalDigits
  let seps : Option (List Int) :=
    if thousandSeps then
      thousandsLoop numfmt.cNumberGroup numDigits (numDigits.toNat + 3) 0
        (tableAt numfmt.cNumberGroup 0) (tableAt numfmt.cNumberGroup 0) []
    else some []
  match seps with
  | none => .error FormatError.outOfMemory
  | some seps =>
    let adjustLen : Int :=
      (if adjust > 0 then adjust else 0) + (seps.length : Int) * numfmt.sNumberGroup.length
    let maxStrIncLen : Int :=
      (if number.sign then (numfmt.sNegative.length : Int) else numfmt.sPositive.length) +
        numfmt.sNumberDecimal.length +
        (if info.scientific then
          (if numfmt.sPositive.length > numfmt.sNegative.length then
            (numfmt.sPositive.length : Int) else numfmt.sNegative.length)
         else 0) +
        (if info.percent ≠ 0 then (numfmt.sPercent.length : Int) * info.percent else 0) +
        (if info.permille ≠ 0 then (numfmt.sPerMille.length : Int) * info.permille else 0) +
        adjustLen
    if (format.length : Int) + maxStrIncLen + 10 > 0x7FFFFFFF then
      .error FormatError.outOfMemory
    else
      .ok (pictureLoop number format numfmt info firstDigit lastDigit thousandSeps
        (format.length + 1)
        { src := sect
          dst := if number.sign ∧ sect = 0 then numfmt.sNegative else []
          dig := number.digits
          digPos := digPos
          adjust := adjust
          seps := seps
          scientific := info.scientific
          decimalWritten := false }).dst

/-! ## FormatDouble -/

/-- The loop `while (*p >= '0' && *p <= '9') { n = n * 10 + *p++ - '0'; if
(n >= 10) break; }` of `ParseFormatSpecifier`, on the code units from `p` on:
the final `n` and the offset `p`. -/
def parsePrecisionLoop : List Nat → Int → Nat → Int × Nat
  | [], n, p => (n, p)
  | c :: cs, n, p =>
    if 48 ≤ c ∧ c ≤ 57 then
      if n * 10 + (c : Int) - 48 ≥ 10 then (n * 10 + (c : Int) - 48, p + 1)
      else parsePrecisionLoop cs (n * 10 + (c : Int) - 48) (p + 1)
    else (n, p)

/-- `ParseFormatSpecifier(str, &digits)`: the returned code unit and the
content of `*digits` afterwards; `digits` is its content before the call,
which the path `return 0` leaves alone. A `NULL` string is `none`. -/
def ParseFormatSpecifier (str : Option (List Nat)) (digits : Int) : Nat × Int :=
  match str with
  | none => (71, -1)
  | some s =>
    let ch := wcharAt s 0
    if ch ≠ 0 then
      if (65 ≤ ch ∧ ch ≤ 90) ∨ (97 ≤ ch ∧ ch ≤ 122) then
        let r : Int × Nat :=
          if 48 ≤ wcharAt s 1 ∧ wcharAt s 1 ≤ 57 then
            parsePrecisionLoop (s.drop 2) ((wcharAt s 1 : Int) - 48) 2
          else (-1, 1)
        if wcharAt s r.2 = 0 then (ch, r.1) else (0, digits)
      else (0, digits)
    else (71, -1)

/-- `COMNumber::FormatDouble(value, format, numfmt)` on the bit pattern
`value`: the text of the returned string, or the exception raised. `digits0`
is the content of the uninitialised local `digits`; the digit generator
`_ecvt` is a parameter. -/
def FormatDouble (ecvt : Nat → Int → EcvtResult) (value : Nat) (format : Option (List Nat))
    (numfmt : Option NumberFormatInfo) (digits0 : Int) : Except FormatError (List Nat) :=
  match numfmt with
  | none => .error FormatError.argumentNull
  | some numfmt =>
    let parsed := ParseFormatSpecifier format digits0
    let fmt := parsed.1
    let digits := parsed.2
    let val := fmt &&& 0xFFDF
    if val = 82 then
      let number := DoubleToNumber ecvt value DOUBLE_PRECISION
      if number.scale = SCALE_NAN then .ok numfmt.sNaN
      else if number.scale = SCALE_INF then
        .ok (if number.sign then numfmt.sNegativeInfinity else numfmt.sPositiveInfinity)
      else if doubleEq (NumberToDouble number) value then
        NumberToString number 71 DOUBLE_PRECISION numfmt false
      else NumberToString (DoubleToNumber ecvt value 17) 71 17 numfmt false
    else
      let precision : Int :=
        if (val = 69 ∧ digits > 14) ∨ (val = 71 ∧ digits > 15) then 17 else DOUBLE_PRECISION
      let number := DoubleToNumber ecvt value precision
      if number.scale = SCALE_NAN then .ok numfmt.sNaN
      else if number.scale = SCALE_INF then
        .ok (if number.sign then numfmt.sNegativeInfinity else numfmt.sPositiveInfinity)
      else if fmt ≠ 0 then NumberToString number fmt digits numfmt false
      else NumberToStringFormat number (format.getD []) numfmt

/-- How the scan of a picture string reads the next code unit: as plain
text, inside a quoted run opened by the quote `q`, or as the code unit that
follows a backslash. -/
inductive ScanMode where
  | plain
  | quoted (q : Nat)
  | escaped
  deriving DecidableEq, Repr

/-- Modelled from the spec: the offsets of the section separators of a
picture string, that is of the `';'` that are neither inside a quoted run
(opened by `'` or `"` in plain text, closed by the next occurrence of the
same quote or by the end of the string) nor escaped by a backslash (a
backslash in plain text escapes the code unit after it). The first argument
is the mode in which the text is read, the second the offset of its first
code unit; the string ends at the first NUL. -/
def separatorsFrom : ScanMode → Nat → List Nat → List Nat
  | _, _, [] => []
  | .escaped, i, c :: cs => if c = 0 then [] else separatorsFrom .plain (i + 1) cs
  | .quoted q, i, c :: cs =>
    if c = 0 then []
    else if c = q then separatorsFrom .plain (i + 1) cs
    else separatorsFrom (.quoted q) (i + 1) cs
  | .plain, i, c :: cs =>
    if c = 0 then []
    else if c = 39 ∨ c = 34 then separatorsFrom (.quoted c) (i + 1) cs
    else if c = 92 then separatorsFrom .escaped (i + 1) cs
    else if c = 59 then i :: separatorsFrom .plain (i + 1) cs
    else separatorsFrom .plain (i + 1) cs

/-- Modelled from the spec: the start of section `n` of a picture string, as
an offset: the text after the `n`-th separator when there is one and that
text is not empty (it does not start with the end of the string or with the
next separator), the start of the whole string otherwise and for `n = 0`. -/
def sectionStart (format : List Nat) (n : Nat) : Nat :=
  if n = 0 then 0
  else
    match (separatorsFrom .plain 0 format).get? (n - 1) with
    | some k => if wcharAt format (k + 1) ≠ 0 ∧ wcharAt format (k + 1) ≠ 59 then k + 1 else 0
    | none => 0

/-- Modelled from the spec: a run of digits with the separator `S` inserted
before every digit whose distance from the right end (1 for the last digit)
is a multiple of `g`. -/
def groupedFrom (g : Nat) (S : List Nat) : List Nat → List Nat
  | [] => []
  | c :: cs => (if (cs.length + 1) % g = 0 then S else []) ++ c :: groupedFrom g S cs

/-- Modelled from the spec: the digits `ds` with the separator `S` inserted
before every digit other than the first whose distance from the right end (1
for the last digit) is a multiple of `g`. -/
def groupedDigits (g : Nat) (S : List Nat) : List Nat → List Nat
  | [] => []
  | c :: cs => c :: groupedFrom g S cs

/-- Equality of results is decidable. -/
instance instDecidableEqResult {α : Type} [DecidableEq α] :
    DecidableEq (Except FormatError α)
  | .ok a, .ok b => if h : a = b then isTrue (congrArg Except.ok h)
      else isFalse (fun e => h (Except.ok.inj e))
  | .error a, .error b => if h : a = b then isTrue (congrArg Except.error h)
      else isFalse (fun e => h (Except.error.inj e))
  | .ok _, .error _ => isFalse (fun e => Except.noConfusion e)
  | .error _, .ok _ => isFalse (fun e => Except.noConfusion e)

/-- Modelled from the spec: the integer digits of the value a digit buffer
denotes: its first `scale` digits, continued with `'0'` where the buffer holds
fewer, or the single digit `'0'` when `scale <= 0`. -/
def fixedInteger (r : NUMBER) : List Nat :=
  if 0 < r.scale then
    r.digits.take r.scale.toNat ++ List.replicate (r.scale.toNat - r.digits.length) 48
  else [48]

/-- Modelled from the spec: the first `d` fractional digits of the value a
digit buffer denotes: `-scale` zeros when `scale < 0`, then the digits that
follow the first `scale` ones, continued with `'0'`. -/
def fixedFraction (r : NUMBER) (d : Nat) : List Nat :=
  List.replicate (min (-r.scale).toNat d) 48 ++
    ((r.digits.drop r.scale.toNat).take (d - min (-r.scale).toNat d) ++
      List.replicate (d - min (-r.scale).toNat d - (r.digits.drop r.scale.toNat).length) 48)

/-- Modelled from the spec: the value of the numeral with the integer digits
`I` and the fractional digits `F`. -/
def fixedPointValue (I F : List Nat) : ℚ :=
  (digitsValue I : ℚ) + (digitsValue F : ℚ) / (10 : ℚ) ^ F.length

/-- Modelled from the spec: `x` rounded half-up to `d` decimal places. -/
def roundHalfUp (x : ℚ) (d : Nat) : ℚ :=
  ((⌊x * (10 : ℚ) ^ d + 1 / 2⌋ : Int) : ℚ) / (10 : ℚ) ^ d

/-- Modelled from the spec: a percent template filled in: `#` becomes the
rendered magnitude, `-` the negative-sign string, `%` the percent symbol, and
every other character passes through literally. -/
def fillPercentTemplate (numeral sNegative sPercent : List Nat) : List Nat → List Nat
  | [] => []
  | ch :: t =>
    if ch = 0 then []
    else
      (if ch = 35 then numeral else if ch = 45 then sNegative
       else if ch = 37 then sPercent else [ch]) ++
        fillPercentTemplate numeral sNegative sPercent t

/-- The value `exp` that the cases `'E'` and `'e'` of `NumberToStringFormat`
compute, `number->digits[0] == 0 ? 0 : number->scale - decimalPos`, for the
section and the scaled and rounded number that the first part of the function
arrives at. -/
def scientificExponent (number : NUMBER) (format : List Nat) : Int :=
  if wcharAt (pictureSetup number format).2.2.digits 0 = 0 then 0
  else wrapInt32 ((pictureSetup number format).2.2.scale -
    (pictureSetup number format).2.1.decimalPos)

/-! ## The 64-bit multiplications and the table self-check -/

/-- The sum `Mul32x32To64(a >> 32, b >> 32) + (Mul32x32To64(a >> 32, b) >> 32) +
(Mul32x32To64(a, b >> 32) >> 32)` of `Mul64Lossy` as an unbounded integer; the
`UINT64 val` of the source is this sum reduced modulo `2^64`. -/
def Mul64LossySum (a b : Nat) : Nat :=
  Mul32x32To64 (a >>> 32) (b >>> 32) + (Mul32x32To64 (a >>> 32) b >>> 32) +
    (Mul32x32To64 a (b >>> 32) >>> 32)

/-- `Mul64Precise(a, b, pexp)`: the slower, more precise product used to
compute the tables; it returns the mantissa and the updated exponent. -/
def Mul64Precise (a b : Nat) (exp : Int) : Nat × Int :=
  let hilo := toUInt64 ((Mul32x32To64 (a >>> 32) b >>> 1) +
    (Mul32x32To64 a (b >>> 32) >>> 1) + (Mul32x32To64 a b >>> 33)) >>> 30
  let val := toUInt64 (Mul32x32To64 (a >>> 32) (b >>> 32) + (hilo >>> 1) + (hilo &&& 1))
  if val &&& 0x8000000000000000 == 0 then (toUInt64 (val <<< 1), exp - 1) else (val, exp)

/-- The loop of `CheckTable`: the first argument counts the iterations left,
the second is `i`. It yields the lines dumped to `stderr`, each the index
`i + 1` with the recomputed mantissa (table type 1) or exponent (table types 2
and 3). A table of `UINT64` is passed as the list of its values. -/
def CheckTableLoop (multval : Nat) (mulexp : Int) (table : List Int) (tabletype : Nat) :
    Nat → Nat → Nat → Int → List (Nat × Int)
  | 0, _, _, _ => []
  | n + 1, i, val, exp =>
    let bad : List (Nat × Int) :=
      if tabletype = 1 then
        (if tableAt table i ≠ (val : Int) then [(i + 1, (val : Int))] else [])
      else if tabletype = 2 ∨ tabletype = 3 then
        (if tableAt table i ≠ exp then [(i + 1, exp)] else [])
      else []
    let r := Mul64Precise val multval (exp + mulexp)
    bad ++ CheckTableLoop multval mulexp table tabletype n (i + 1) r.1 r.2

/-- `CheckTable(val, exp, table, size, name, tabletype)`: the lines dumped to
`stderr`; the assertion at the end fires exactly when there is one (`fBad`). -/
def CheckTable (val : Nat) (exp : Int) (table : List Int) (size : Nat) (tabletype : Nat) :
    List (Nat × Int) :=
  CheckTableLoop val exp table tabletype size 0 val exp

/-- `CheckTables()`: the dumps of its six `CheckTable` calls, in order. -/
def CheckTables : List (List (Nat × Int)) :=
  [CheckTable 0xa000000000000000 4 (rgval64Power10.map Int.ofNat) 15 1,
   CheckTable 0xa000000000000000 4 rgexp64Power10 15 2,
   CheckTable 0x8e1bc9bf04000000 54 (rgval64Power10By16.map Int.ofNat) 21 1,
   CheckTable 0x8e1bc9bf04000000 54 rgexp64Power10By16 21 3,
   CheckTable 0xCCCCCCCCCCCCCCCD (-3) ((rgval64Power10.drop 15).map Int.ofNat) 15 1,
   CheckTable 0xe69594bec44de160 (-53) ((rgval64Power10By16.drop 21).map Int.ofNat) 21 1]

/-- Modelled from the spec: the mantissa and exponent obtained by starting from
the seed and multiplying by the seed `i` times with `Mul64Precise` (the table
entry number `i + 1`). -/
def seedPower (seedVal : Nat) (seedExp : Int) : Nat → Nat × Int
  | 0 => (seedVal, seedExp)
  | i + 1 =>
    match seedPower seedVal seedExp i with
    | (val, exp) => Mul64Precise val seedVal (exp + seedExp)

/-! ## Integer formatting: hexadecimal and decimal strings, FormatInt32 -/

/-- The conversion of an `int` to a `wchar` on assignment. -/
def intToWchar (x : Int) : Nat := (x % 65536).toNat

/-- `Int32ToHexChars(p, value, hexBase, digits)`. The argument `p` is the
content of the scratch buffer from the write cursor to its end; the result is
that content after the loop, which writes towards lower addresses. -/
def Int32ToHexChars (p : List Nat) (value : Nat) (hexBase : Int) (digits : Int) : List Nat :=
  if digits - 1 ≥ 0 ∨ value ≠ 0 then
    Int32ToHexChars
      (intToWchar (((value &&& 0xF : Nat) : Int) + (if value &&& 0xF < 10 then 48 else hexBase))
        :: p)
      (value >>> 4) hexBase (digits - 1)
  else p
termination_by value + digits.toNat
decreasing_by
  rename_i h
  rcases Nat.eq_zero_or_pos value with hv | hv
  · subst hv
    have : digits - 1 ≥ 0 := by simpa using h
    simp only [Nat.zero_shiftRight, Nat.zero_add]
    omega
  · have : value >>> 4 < value := by
      rw [Nat.shiftRight_eq_div_pow]
      exact Nat.div_lt_self hv (by decide)
    omega

/-- `Int32ToHexStr(value, hexBase, digits)`: the text of the returned string,
which the routine builds at the end of a scratch buffer of 100 code units. -/
def Int32ToHexStr (value : Nat) (hexBase : Int) (digits : Int) : List Nat :=
  let digits := if digits < 1 then 1 else digits
  Int32ToHexChars [] (toUInt32 value) hexBase digits

/-- `Int64ToHexStr(value, hexBase, digits)`: the text of the returned string.
With a non-zero high half the low half is written first, and the high half is
written from `buffer + 100 - 8` on, above the last 8 cells. -/
def Int64ToHexStr (value : Nat) (hexBase : Int) (digits : Int) : List Nat :=
  if HI32 value ≠ 0 then
    let low := Int32ToHexChars [] (LO32 value) hexBase 8
    Int32ToHexChars (low.drop (low.length - 8)) (HI32 value) hexBase (digits - 8)
  else
    let digits := if digits < 1 then 1 else digits
    Int32ToHexChars [] (LO32 value) hexBase digits

/-- `Int32ToDecStr(value, digits, sNegative)`: the text of the returned
string; the scratch buffer is sized to hold the digits and the sign. -/
def Int32ToDecStr (value : Int) (digits : Int) (sNegative : List Nat) : List Nat :=
  let digits := if digits < 1 then 1 else digits
  let p := Int32ToDecChars []
    (int32ToUInt32 (if value ≥ 0 then value else wrapInt32 (-value))) digits
  if value < 0 then sNegative ++ p else p

/-- `COMNumber::FormatInt32(value, format, numfmt)`: the text of the returned
string, or the exception raised. `digits0` is the content of the
uninitialised local `digits`. -/
def FormatInt32 (value : Int) (format : Option (List Nat)) (numfmt : Option NumberFormatInfo)
    (digits0 : Int) : Except FormatError (List Nat) :=
  match numfmt with
  | none => .error FormatError.argumentNull
  | some numfmt =>
    let parsed := ParseFormatSpecifier format digits0
    let fmt := parsed.1
    let digits := parsed.2
    let val := fmt &&& 0xFFDF
    if val = 71 ∧ digits > 0 then
      if fmt ≠ 0 then NumberToString (Int32ToNumber value) fmt digits numfmt false
      else NumberToStringFormat (Int32ToNumber value) (format.getD []) numfmt
    else if val = 71 ∨ val = 68 then .ok (Int32ToDecStr value digits numfmt.sNegative)
    else if val = 88 then
      .ok (Int32ToHexStr (int32ToUInt32 value) ((fmt : Int) - (88 - 65 + 10)) digits)
    else if fmt ≠ 0 then NumberToString (Int32ToNumber value) fmt digits numfmt false
    else NumberToStringFormat (Int32ToNumber value) (format.getD []) numfmt

/-- Modelled from the spec: the code unit of the hexadecimal digit `d`, with
letters `A-F` when `upper` and `a-f` otherwise. -/
def hexDigit (upper : Bool) (d : Nat) : Nat :=
  if d < 10 then 48 + d else (if upper then 65 else 97) + (d - 10)

/-- Modelled from the spec: the base-16 numeral of `v`, most significant digit
first, without leading zeros (empty for `0`). -/
def hexNumeral (upper : Bool) (v : Nat) : List Nat :=
  ((Nat.digits 16 v).reverse).map (hexDigit upper)

/-- Modelled from the spec: the base-16 numeral of `v` left-padded with `'0'`
to at least `k` characters. -/
def hexPadded (upper : Bool) (k v : Nat) : List Nat :=
  List.replicate (k - (hexNumeral upper v).length) 48 ++ hexNumeral upper v

/-! ## Specification-side notions for the formatting claims -/

/-- What the integer conversions establish for the magnitude `n`: the digits
are the decimal numeral of `n` (decimal digits, no leading zero), `scale` is
the digit count, zero is the empty buffer with `scale = 0` and the sign
cleared, and the last digit is `'0'` exactly when 10 divides `n`. -/
def IsIntegerBuffer (number : NUMBER) (n : Nat) : Prop :=
  number.digits = decimalNumeral n ∧ IsDecimal number.digits ∧
    wcharAt number.digits 0 ≠ 48 ∧ number.scale = (number.digits.length : Int) ∧
    (n = 0 → number.digits = [] ∧ number.scale = 0 ∧ number.sign = false) ∧
    (n ≠ 0 → number.digits ≠ [] ∧
      (wcharAt number.digits (number.digits.length - 1) = 48 ↔ 10 ∣ n))

/-! ## Specification-side notions for the capacity claim -/

/-- Modelled from the spec: a configuration whose default decimals lie in
`0..99` and whose group sizes are non-negative `int`s. Its strings have an
`int` length, and its two sign strings are short enough for the `DWORD` sum
`(neg + pos) * 2` of case `'G'` not to wrap. -/
def IsValidNumberFormatInfo (numfmt : NumberFormatInfo) : Prop :=
  (0 ≤ numfmt.cNumberDecimals ∧ numfmt.cNumberDecimals ≤ 99) ∧
  (0 ≤ numfmt.cCurrencyDecimals ∧ numfmt.cCurrencyDecimals ≤ 99) ∧
  (0 ≤ numfmt.cPercentDecimals ∧ numfmt.cPercentDecimals ≤ 99) ∧
  (∀ g ∈ numfmt.cNumberGroup, 0 ≤ g ∧ g ≤ 2147483647) ∧
  (∀ g ∈ numfmt.cCurrencyGroup, 0 ≤ g ∧ g ≤ 2147483647) ∧
  (∀ g ∈ numfmt.cPercentGroup, 0 ≤ g ∧ g ≤ 2147483647) ∧
  numfmt.sNumberGroup.length ≤ 2147483647 ∧
  numfmt.sCurrencyGroup.length ≤ 2147483647 ∧
  numfmt.sPercentGroup.length ≤ 2147483647 ∧
  numfmt.sNegative.length + numfmt.sPositive.length ≤ 2147483647 ∧
  numfmt.sNumberDecimal.length ≤ 2147483647 ∧
  numfmt.sCurrencyDecimal.length ≤ 2147483647 ∧
  numfmt.sCurrency.length ≤ 2147483647 ∧
  numfmt.sPercentDecimal.length ≤ 2147483647 ∧
  numfmt.sPercent.length ≤ 2147483647

instance (numfmt : NumberFormatInfo) : Decidable (IsValidNumberFormatInfo numfmt) := by
  unfold IsValidNumberFormatInfo; infer_instance

/-- Modelled from the spec: a digit buffer as the conversions from numbers build
it: decimal digits, a scale whose sums with a precision stay inside `int`, a
non-negative `precision` field and, for a `Decimal` (the only caller that
turns rounding off), at most 50 digits with a scale within 50 of zero. -/
def IsValidDigitBuffer (number : NUMBER) (bDecimal : Bool) : Prop :=
  IsDecimal number.digits ∧ -2147483648 ≤ number.scale ∧ number.scale ≤ 2147483545 ∧
  0 ≤ number.precision ∧ number.precision ≤ 2147483647 ∧
  (bDecimal = true → number.digits.length ≤ 50 ∧ -50 ≤ number.scale ∧ number.scale ≤ 50)

instance (number : NUMBER) (bDecimal : Bool) : Decidable (IsValidDigitBuffer number bDecimal) := by
  unfold IsValidDigitBuffer; infer_instance

/-- Modelled from the spec: the call does not stop at a fail-fast check, the
text it returns fits the capacity `cap` (counted in code units), and a
capacity above `INT32_MAX` makes it raise the out-of-memory exception. -/
def WithinCapacity (result : Except FormatError (List Nat)) (cap : Int) : Prop :=
  result ≠ .error FormatError.failFast ∧
    (∀ dst, result = .ok dst → (dst.length : Int) ≤ cap) ∧
    (cap > INT32_MAX → result = .error FormatError.outOfMemory)

/-- Modelled from the spec: a valid configuration of moderate size: no string
longer than `2^20` code units and no group size above `2^30`. -/
def IsModestNumberFormatInfo (numfmt : NumberFormatInfo) : Prop :=
  IsValidNumberFormatInfo numfmt ∧
  (∀ g ∈ numfmt.cNumberGroup, g ≤ 1073741824) ∧
  (∀ g ∈ numfmt.cCurrencyGroup, g ≤ 1073741824) ∧
  (∀ g ∈ numfmt.cPercentGroup, g ≤ 1073741824) ∧
  numfmt.sPositive.length ≤ 1048576 ∧ numfmt.sNegative.length ≤ 1048576 ∧
  numfmt.sNumberDecimal.length ≤ 1048576 ∧ numfmt.sNumberGroup.length ≤ 1048576 ∧
  numfmt.sCurrencyGroup.length ≤ 1048576 ∧ numfmt.sCurrencyDecimal.length ≤ 1048576 ∧
  numfmt.sCurrency.length ≤ 1048576 ∧ numfmt.sPercentGroup.length ≤ 1048576 ∧
  numfmt.sPercentDecimal.length ≤ 1048576 ∧ numfmt.sPercent.length ≤ 1048576

instance (numfmt : NumberFormatInfo) : Decidable (IsModestNumberFormatInfo numfmt) := by
  unfold IsModestNumberFormatInfo; infer_instance

/-! ## Int64ToDecStr -/

/-- The loop `while (HI32(value)) { p = Int32ToDecChars(p, Int64DivMod1E9(&value), 9);
digits -= 9; }` of `Int64ToDecStr`: the buffer content, the remaining `value`
and the remaining `digits`. -/
def Int64ToDecStrLoop (p : List Nat) (value : Nat) (digits : Int) : List Nat × Nat × Int :=
  if HI32 value ≠ 0 then
    Int64ToDecStrLoop (Int32ToDecChars p (Int64DivMod1E9 value).1 9) (Int64DivMod1E9 value).2
      (digits - 9)
  else (p, value, digits)
termination_by value
decreasing_by
  rename_i h
  have hv : 0 < value := by
    rcases Nat.eq_zero_or_pos value with hv | hv
    · subst hv; exact absurd rfl h
    · exact hv
  exact Nat.div_lt_self hv (by decide)

/-- `Int64ToDecStr(value, digits, sNegative)`: the text of the returned
string; `int sign = HI32(value)` is the high half read as a signed `int`. -/
def Int64ToDecStr (value : Int) (digits : Int) (sNegative : List Nat) : List Nat :=
  let digits := if digits < 1 then 1 else digits
  let sign : Int := wrapInt32 (HI32 (int64ToUInt64 value))
  let value := if sign < 0 then wrapInt64 (-value) else value
  let r := Int64ToDecStrLoop [] (int64ToUInt64 value) digits
  let p := Int32ToDecChars r.1 (LO32 r.2.1) r.2.2
  if sign < 0 then sNegative ++ p else p

/-- Modelled from the spec: the sign string when `v` is negative, followed by
the decimal numeral of `|v|` left-padded with `'0'` to `max(digits, 1)`
characters. -/
def signedDecimal (v : Int) (digits : Int) (sNegative : List Nat) : List Nat :=
  (if v < 0 then sNegative else []) ++ decimalPadded (max digits 1).toNat v.natAbs

/-! ## Separator positions -/

/-- Modelled from the spec: the positions of the group separators of an
integer part of `n` digits, counted in digits from its right end: the running
totals of the group sizes, each size used once and the last one repeated, as
long as they are below `n`; a size `0` ends the list ("stop growing"). The
running total `total` already includes the size at index `idx`; the first
argument bounds the number of positions. -/
def separatorPositions (gd : List Int) (n : Int) : Nat → Nat → Int → List Int
  | 0, _, _ => []
  | fuel + 1, idx, total =>
    if n > total ∧ tableAt gd idx ≠ 0 then
      total :: separatorPositions gd n fuel
        (if (idx : Int) < (gd.length : Int) - 1 then idx + 1 else idx)
        (total + tableAt gd
          ((if (idx : Int) < (gd.length : Int) - 1 then idx + 1 else idx : Nat) : Int))
    else []

/-- Modelled from the spec: the digits `ds` with the separator `S` inserted in
front of every digit whose distance from the right end (1 for the last digit)
is one of the positions `P`. -/
def separatedBefore (S : List Nat) (P : List Int) : List Nat → List Nat
  | [] => []
  | c :: cs =>
    (if ((cs.length + 1 : Nat) : Int) ∈ P then S else []) ++ c :: separatedBefore S P cs

/-- Modelled from the spec: the digits `ds` with the separator `S` inserted in
front of every digit other than the first whose distance from the right end
is one of the positions `P`. -/
def separated (S : List Nat) (P : List Int) : List Nat → List Nat
  | [] => []
  | c :: cs => c :: separatedBefore S P cs

/-- Modelled from the spec: the running totals `acc + g1`, `acc + g1 + g2`, …
of a list of group sizes. -/
def runningTotals : Int → List Int → List Int
  | _, [] => []
  | acc, g :: gs => (acc + g) :: runningTotals (acc + g) gs

/-- Modelled from the spec: the forward generation pass has `p` integer digits
still to write: the digits left in the buffer and `'0'` for the rest. The
pending separator positions are those of `P` below `p`, the nearest on top, and
the text written so far, continued with the separated remaining digits, is
`T`. -/
def forwardPending (S : List Nat) (P : List Int) (T : List Nat) (st : PictureState)
    (p : Nat) : Prop :=
  st.dig.length ≤ p ∧ (∀ c ∈ st.dig, c ≠ 0) ∧
    (∀ x ∈ st.seps, 1 ≤ x ∧ x < (p : Int)) ∧ st.seps.Pairwise (fun a b => a > b) ∧
    (∀ q : Int, q < (p : Int) → (q ∈ P ↔ q ∈ st.seps)) ∧
    st.dst ++ separated S P (st.dig ++ List.replicate (p - st.dig.length) 48) = T

/-! ## Specification-side notions for the pattern templates -/

/-- Modelled from the spec: every pattern index of the configuration selects
one of the templates of its table, the contract under which the formatting
routines index `negNumberFormats` (5 templates), `posCurrencyFormats` (4),
`negCurrencyFormats` (16), `posPercentFormats` (4) and `negPercentFormats`
(12) without a check. -/
def HasPatternIndices (numfmt : NumberFormatInfo) : Prop :=
  (0 ≤ numfmt.cNegativeNumberFormat ∧
    numfmt.cNegativeNumberFormat < (negNumberFormats.length : Int)) ∧
  (0 ≤ numfmt.cPosCurrencyFormat ∧
    numfmt.cPosCurrencyFormat < (posCurrencyFormats.length : Int)) ∧
  (0 ≤ numfmt.cNegCurrencyFormat ∧
    numfmt.cNegCurrencyFormat < (negCurrencyFormats.length : Int)) ∧
  (0 ≤ numfmt.cPositivePercentFormat ∧
    numfmt.cPositivePercentFormat < (posPercentFormats.length : Int)) ∧
  (0 ≤ numfmt.cNegativePercentFormat ∧
    numfmt.cNegativePercentFormat < (negPercentFormats.length : Int))

instance (numfmt : NumberFormatInfo) : Decidable (HasPatternIndices numfmt) := by
  unfold HasPatternIndices; infer_instance

/-! ## Tokens of a picture section -/

/-- Modelled from the spec: a token of a picture section, the unit in which
both passes of `NumberToStringFormat` read it. `plain c` is one code unit read
as itself (a placeholder `#` or `0`, `.`, `,`, `%`, the per-mille sign, or any
other literal); `quoted q body` is a run `body` between two quotes `q`;
`openQuote q body` is a quote that is never closed, with the text up to the
end of the string; `escaped c` is a backslash and the code unit `c` after it;
`backslash` is a backslash at the end of the string; `exponent ch sign zeros`
is `E` or `e`, an optional `+` or `-`, and a run of `zeros` zeros: a
scientific marker when there is a zero, literal text otherwise. -/
inductive PictureToken where
  | plain (c : Nat)
  | quoted (q : Nat) (body : List Nat)
  | openQuote (q : Nat) (body : List Nat)
  | escaped (c : Nat)
  | backslash
  | exponent (ch : Nat) (sign : List Nat) (zeros : Nat)
deriving DecidableEq, Repr

/-- Modelled from the spec: the code units of a token. -/
def PictureToken.text : PictureToken → List Nat
  | .plain c => [c]
  | .quoted q body => q :: (body ++ [q])
  | .openQuote q body => q :: body
  | .escaped c => [92, c]
  | .backslash => [92]
  | .exponent ch sign zeros => ch :: (sign ++ List.replicate zeros 48)

/-- Modelled from the spec: the code units of a sequence of tokens. -/
def tokensText : List PictureToken → List Nat
  | [] => []
  | t :: ts => t.text ++ tokensText ts

/-- Modelled from the spec: the token `t`, followed in the picture by the code
units `next`, is read as that token. A plain code unit is none of NUL, `;`,
the quotes, the backslash, `E` and `e`; a quoted run holds neither its quote
nor a NUL; an open quote and a lone backslash stand at the end of the string;
an escaped code unit is not NUL; the zeros of an exponent token are all the
zeros that follow, and a sign that follows `E` belongs to the token. -/
def PictureToken.WellFormed (t : PictureToken) (next : List Nat) : Prop :=
  match t with
  | .plain c => c ≠ 0 ∧ c ≠ 59 ∧ c ≠ 39 ∧ c ≠ 34 ∧ c ≠ 92 ∧ c ≠ 69 ∧ c ≠ 101
  | .quoted q body => (q = 39 ∨ q = 34) ∧ ∀ c ∈ body, c ≠ 0 ∧ c ≠ q
  | .openQuote q body => (q = 39 ∨ q = 34) ∧ (∀ c ∈ body, c ≠ 0 ∧ c ≠ q) ∧ wcharAt next 0 = 0
  | .escaped c => c ≠ 0
  | .backslash => wcharAt next 0 = 0
  | .exponent ch sign zeros =>
    (ch = 69 ∨ ch = 101) ∧ (sign = [] ∨ sign = [43] ∨ sign = [45]) ∧ wcharAt next 0 ≠ 48 ∧
      (sign = [] → zeros = 0 → wcharAt next 0 ≠ 43 ∧ wcharAt next 0 ≠ 45)

instance (t : PictureToken) (next : List Nat) : Decidable (t.WellFormed next) := by
  cases t <;> unfold PictureToken.WellFormed <;> infer_instance

/-- Modelled from the spec: a sequence of tokens followed by the code units
`next`, each token read as itself in front of what follows it. -/
def TokensWellFormed : List PictureToken → List Nat → Prop
  | [], _ => True
  | t :: ts, next => t.WellFormed (tokensText ts ++ next) ∧ TokensWellFormed ts next

instance : (toks : List PictureToken) → (next : List Nat) →
    Decidable (TokensWellFormed toks next)
  | [], _ => isTrue trivial
  | t :: ts, next =>
    have := instDecidableTokensWellFormed ts next
    by unfold TokensWellFormed; infer_instance

/-- Modelled from the spec: the token is a scientific marker: `E` or `e`, an
optional sign and at least one zero. -/
def PictureToken.IsMarker : PictureToken → Prop
  | .exponent _ _ zeros => 1 ≤ zeros
  | _ => False

instance (t : PictureToken) : Decidable t.IsMarker := by
  cases t <;> unfold PictureToken.IsMarker <;> infer_instance

/-- Modelled from the spec: the token is a digit placeholder, `#` or `0`. -/
def PictureToken.IsPlaceholder (t : PictureToken) : Prop :=
  t = .plain 35 ∨ t = .plain 48

instance (t : PictureToken) : Decidable t.IsPlaceholder := by
  unfold PictureToken.IsPlaceholder; infer_instance

/-- Modelled from the spec: the number of integer digit placeholders of a
sequence of tokens: the placeholders in front of the first decimal point, all
of them when there is no decimal point. -/
def integerPlaceholders : List PictureToken → Nat
  | [] => 0
  | t :: ts =>
    if t = .plain 46 then 0
    else (if t.IsPlaceholder then 1 else 0) + integerPlaceholders ts

/-- The effect of the first loop of `NumberToStringFormat` on one token: the
case of the `switch` for a plain code unit, `scientific = 1` for a scientific
marker, nothing for quoted and escaped text. -/
def parseToken : PictureToken → PictureInfo → PictureInfo
  | .plain c, st => parseSectionLoop [c] 1 0 st
  | .exponent _ _ zeros, st => if 1 ≤ zeros then { st with scientific := true } else st
  | _, st => st

/-- The effect of the first loop of `NumberToStringFormat` on a sequence of
tokens. -/
def parseTokens : List PictureToken → PictureInfo → PictureInfo
  | [], st => st
  | t :: ts, st => parseTokens ts (parseToken t st)

/-- The effect of the output loop of `NumberToStringFormat` on one token, the
read offset apart: for a plain code unit the digits without a placeholder
(when it is `#`, `0` or `.` and some are owed) and its case of the `switch`;
quoted and escaped text is copied; a scientific marker met with `scientific`
set writes the exponent and clears `scientific`; any other exponent token is
copied. -/
def renderToken (number : NUMBER) (numfmt : NumberFormatInfo) (info : PictureInfo)
    (firstDigit lastDigit : Int) (thousandSeps : Bool) :
    PictureToken → PictureState → PictureState
  | .plain c, st =>
    pictureStep number [] numfmt info firstDigit lastDigit thousandSeps c
      (if st.adjust > 0 ∧ (c = 35 ∨ c = 48 ∨ c = 46) then
        emitOverflowDigits numfmt thousandSeps st.adjust.toNat st
       else st)
  | .quoted _ body, st => { st with dst := st.dst ++ body }
  | .openQuote _ body, st => { st with dst := st.dst ++ body }
  | .escaped c, st => { st with dst := st.dst ++ [c] }
  | .backslash, st => st
  | .exponent ch sign zeros, st =>
    if st.scientific = true ∧ 1 ≤ zeros then
      { st with
        dst := FormatExponent st.dst
          (if wcharAt number.digits 0 = 0 then 0
            else wrapInt32 (number.scale - info.decimalPos))
          ch (if sign = [43] then some numfmt.sPositive else none) numfmt.sNegative
          (if (zeros : Int) > 10 then 10 else (zeros : Int))
        scientific := false }
    else { st with dst := st.dst ++ ch :: (sign ++ List.replicate zeros 48) }

/-- The effect of the output loop of `NumberToStringFormat` on a sequence of
tokens, the read offset apart. -/
def renderTokens (number : NUMBER) (numfmt : NumberFormatInfo) (info : PictureInfo)
    (firstDigit lastDigit : Int) (thousandSeps : Bool) :
    List PictureToken → PictureState → PictureState
  | [], st => st
  | t :: ts, st =>
    renderTokens number numfmt info firstDigit lastDigit thousandSeps ts
      (renderToken number numfmt info firstDigit lastDigit thousandSeps t st)

/-- Modelled from the spec: the scale shift that the percent and per-mille
signs of a sequence of tokens ask for: 2 for every `%` and 3 for every
per-mille sign outside quotes and escapes. -/
def percentScale : List PictureToken → Int
  | [] => 0
  | t :: ts =>
    (if t = .plain 37 then 2 else if t = .plain 0x2030 then 3 else 0) + percentScale ts

/-- Modelled from the spec: whether some `,` of the tokens stands after a digit
placeholder; `seen` tells that a placeholder stands in front of the tokens. -/
def groupingComma : List PictureToken → Bool → Bool
  | [], _ => false
  | t :: ts, seen =>
    (decide (t = .plain 44) && seen) || groupingComma ts (seen || decide t.IsPlaceholder)

/-! ## NumberToDouble: zero and the overflow sentinel -/

theorem skipLeadingZeros_all_zero (s : List Nat) (h : ∀ c ∈ s, c = 48) :
    skipLeadingZeros s = [] := by
  unfold skipLeadingZeros
  rw [List.dropWhile_eq_nil_iff]
  intro c hc
  simp [h c hc]

theorem skipLeadingZeros_ne_nil (s : List Nat) (h : ∃ c ∈ s, c ≠ 48) :
    skipLeadingZeros s ≠ [] := by
  unfold skipLeadingZeros
  intro hnil
  rw [List.dropWhile_eq_nil_iff] at hnil
  obtain ⟨c, hc, hne⟩ := h
  have := hnil c hc
  simp at this
  exact hne this

/-- C5: a digit buffer whose digit sequence is empty or all `'0'` converts
to signed zero whatever its scale: bit pattern `0` when `sign` is false and
`0x8000000000000000` when it is true. -/
theorem NumberToDouble_zero_digits (number : NUMBER) (h : ∀ c ∈ number.digits, c = 48) :
    NumberToDouble number = if number.sign then 0x8000000000000000 else 0 := by
  unfold NumberToDouble NumberToDoubleRun
  rw [skipLeadingZeros_all_zero _ h]
  cases number.sign <;> simp [applySign]

theorem NumberToDouble_zero_digits_witness :
    (∀ c ∈ (⟨15, -400, true, [48, 48, 48]⟩ : NUMBER).digits, c = 48) ∧
      NumberToDouble ⟨15, -400, true, [48, 48, 48]⟩ = 0x8000000000000000 :=
  ⟨by decide, NumberToDouble_zero_digits ⟨15, -400, true, [48, 48, 48]⟩ (by decide)⟩

/-- C4 as stated fails: with scale field `352` and the single digit `1` the
effective scale is `351`, below the guard, and both table multiplies run. -/
theorem NumberToDouble_scale_field_352_multiplies :
    (352 : Int) ≤ |(⟨15, 352, false, [49]⟩ : NUMBER).scale| ∧
      (∃ c ∈ (⟨15, 352, false, [49]⟩ : NUMBER).digits, c ≠ 48) ∧
      NumberToDoubleRun ⟨15, 352, false, [49]⟩ = ⟨0x7FF0000000000000, 2⟩ ∧
      (NumberToDoubleRun ⟨15, 352, false, [49]⟩).mul64Calls ≠ 0 := by
  decide

/-- C4 (amended): when the effective scale (scale field minus the digits
consumed) has magnitude at least `352`, a buffer with a non-zero digit
converts to signed Infinity if the effective scale is positive and to signed
zero otherwise, and no `Mul64Lossy` table multiply is executed. -/
theorem NumberToDouble_overflow_sentinel (number : NUMBER)
    (h : ∃ c ∈ number.digits, c ≠ 48) (hs : 352 ≤ abs32 (effectiveScale number)) :
    NumberToDoubleRun number =
      ⟨applySign number.sign (if effectiveScale number > 0 then 0x7FF0000000000000 else 0), 0⟩ := by
  unfold NumberToDoubleRun
  have hne := skipLeadingZeros_ne_nil _ h
  have hlen : ¬ (skipLeadingZeros number.digits).length = 0 := by
    simpa [List.length_eq_zero] using hne
  simp only [beq_iff_eq, hlen, if_false]
  have hs' : abs32 (effectiveScale number) ≥ 22 * 16 := by simpa using hs
  simp only [hs', if_true]

theorem NumberToDouble_overflow_sentinel_witness :
    NumberToDoubleRun ⟨15, -351, true, [49]⟩ = ⟨0x8000000000000000, 0⟩ ∧
      NumberToDoubleRun ⟨15, 353, false, [49]⟩ = ⟨0x7FF0000000000000, 0⟩ :=
  ⟨NumberToDouble_overflow_sentinel ⟨15, -351, true, [49]⟩ (by decide) (by decide),
   NumberToDouble_overflow_sentinel ⟨15, 353, false, [49]⟩ (by decide) (by decide)⟩

/-! ## RoundNumber: characterisation on decimal digit strings -/

theorem IsDecimal.ne_zero {s : List Nat} (h : IsDecimal s) : ∀ c ∈ s, c ≠ 0 := by
  intro c hc
  have := h c hc
  omega

theorem IsDecimal.take {s : List Nat} (h : IsDecimal s) (k : Nat) : IsDecimal (s.take k) :=
  fun c hc => h c (List.mem_of_mem_take hc)

theorem IsDecimal.wcharAt {s : List Nat} (h : IsDecimal s) {k : Nat} (hk : k < s.length) :
    48 ≤ wcharAt s k ∧ wcharAt s k ≤ 57 := by
  unfold COMNumber.wcharAt
  rw [List.getD_eq_getElem _ _ hk]
  exact h _ (List.getElem_mem _)

theorem wcharAt_of_length_le (s : List Nat) {k : Nat} (hk : s.length ≤ k) : wcharAt s k = 0 := by
  unfold wcharAt
  exact List.getD_eq_default _ _ hk

theorem cstr_of_ne_zero (s : List Nat) (h : ∀ c ∈ s, c ≠ 0) : cstr s = s := by
  unfold cstr
  rw [List.takeWhile_eq_self_iff]
  intro c hc
  simpa using h c hc

theorem scanDigits_eq (s : List Nat) (h : ∀ c ∈ s, c ≠ 0) (pos : Int) :
    scanDigits s pos = min pos.toNat s.length := by
  induction s generalizing pos with
  | nil => simp [scanDigits]
  | cons c cs ih =>
    have hc : c ≠ 0 := h c (List.mem_cons_self _ _)
    have hcs : ∀ d ∈ cs, d ≠ 0 := fun d hd => h d (List.mem_cons_of_mem _ hd)
    unfold scanDigits
    by_cases hp : 0 < pos
    · simp only [hp, hc, ne_eq, not_false_eq_true, and_self, if_true, ih hcs, List.length_cons]
      omega
    · simp only [hp, false_and, if_false]
      have : pos.toNat = 0 := by omega
      simp [this]

theorem backWhile_le (s : List Nat) (ch : Nat) (i : Nat) : backWhile s ch i ≤ i := by
  induction i with
  | zero => simp [backWhile]
  | succ i ih =>
    unfold backWhile
    split
    · omega
    · omega

theorem backWhile_run (s : List Nat) (ch : Nat) (i : Nat) :
    ∀ k, backWhile s ch i ≤ k → k < i → wcharAt s k = ch := by
  induction i with
  | zero => intro k _ hk; omega
  | succ i ih =>
    intro k hk1 hk2
    unfold backWhile at hk1
    split at hk1
    · rename_i heq
      rcases Nat.lt_or_ge k i with hlt | hge
      · exact ih k hk1 hlt
      · have : k = i := by omega
        subst this; exact heq
    · omega

theorem backWhile_stop (s : List Nat) (ch : Nat) (i : Nat) (h : 0 < backWhile s ch i) :
    wcharAt s (backWhile s ch i - 1) ≠ ch := by
  induction i with
  | zero => simp [backWhile] at h
  | succ i ih =>
    unfold backWhile at h ⊢
    split
    · rename_i heq
      simp only [heq, if_true] at h
      exact ih h
    · rename_i hne
      simpa using hne

theorem take_set_pred (s : List Nat) (j v : Nat) (hj : 0 < j) (hlen : j ≤ s.length) :
    (s.set (j - 1) v).take j = s.take (j - 1) ++ [v] := by
  obtain ⟨k, rfl⟩ : ∃ k, j = k + 1 := ⟨j - 1, by omega⟩
  simp only [Nat.add_sub_cancel]
  rw [List.take_succ]
  have h1 : (s.set k v)[k]? = some v := by
    rw [List.getElem?_set_self (by omega)]
  rw [h1]
  congr 1
  apply List.ext_getElem
  · simp
  · intro n h1 h2
    simp at h1
    simp [List.getElem_take, List.getElem_set]
    omega

/-- The rounding-up branch of `RoundNumber` on a decimal digit string. -/
theorem RoundNumber_up (n : NUMBER) (pos : Int) (hdec : IsDecimal n.digits)
    (hp : 0 ≤ pos) (hlt : pos.toNat < n.digits.length)
    (hd : 53 ≤ wcharAt n.digits pos.toNat) :
    RoundNumber n pos =
      if 0 < backWhile n.digits 57 pos.toNat then
        { precision := n.precision, scale := n.scale, sign := n.sign,
          digits := n.digits.take (backWhile n.digits 57 pos.toNat - 1) ++
            [wcharAt n.digits (backWhile n.digits 57 pos.toNat - 1) + 1] }
      else
        { precision := n.precision, scale := wrapInt32 (n.scale + 1), sign := n.sign,
          digits := [49] } := by
  have hscan : scanDigits n.digits pos = pos.toNat := by
    rw [scanDigits_eq _ hdec.ne_zero]; omega
  have hcast : ((pos.toNat : Nat) : Int) = pos := Int.toNat_of_nonneg hp
  unfold RoundNumber
  simp only [hscan, hcast, hd, ge_iff_le, and_self, if_true]
  by_cases hj : 0 < backWhile n.digits 57 pos.toNat
  · have hjle := backWhile_le n.digits 57 pos.toNat
    have hstop := backWhile_stop n.digits 57 pos.toNat hj
    have hrange := hdec.wcharAt (k := backWhile n.digits 57 pos.toNat - 1) (by omega)
    have hw : toWchar (wcharAt n.digits (backWhile n.digits 57 pos.toNat - 1) + 1) =
        wcharAt n.digits (backWhile n.digits 57 pos.toNat - 1) + 1 := by
      unfold toWchar; omega
    have hne : backWhile n.digits 57 pos.toNat ≠ 0 := by omega
    simp only [hj, gt_iff_lt, if_true, hne, if_false, hw]
    rw [take_set_pred _ _ _ hj (by omega)]
    rw [cstr_of_ne_zero]
    intro c hc
    rcases List.mem_append.mp hc with h1 | h1
    · exact hdec.ne_zero c (List.mem_of_mem_take h1)
    · simp at h1; omega
  · simp only [hj, gt_iff_lt, if_false]
    have hne : n.digits ≠ [] := by
      intro h0; rw [h0] at hlt; simp at hlt
    obtain ⟨c, cs, hcs⟩ := List.exists_cons_of_ne_nil hne
    simp [hcs, cstr]

/-- The truncating branch of `RoundNumber` on a decimal digit string: only
trailing zeros are trimmed, and an empty result is canonical zero. -/
theorem RoundNumber_down (n : NUMBER) (pos : Int) (hdec : IsDecimal n.digits)
    (h : ¬ (0 ≤ pos ∧ pos.toNat < n.digits.length ∧ 53 ≤ wcharAt n.digits pos.toNat)) :
    RoundNumber n pos =
      { precision := n.precision
        scale := if backWhile n.digits 48 (min pos.toNat n.digits.length) = 0 then 0
          else n.scale
        sign := if backWhile n.digits 48 (min pos.toNat n.digits.length) = 0 then false
          else n.sign
        digits := n.digits.take (backWhile n.digits 48 (min pos.toNat n.digits.length)) } := by
  have hscan : scanDigits n.digits pos = min pos.toNat n.digits.length :=
    scanDigits_eq _ hdec.ne_zero _
  have hcond : ¬ (((min pos.toNat n.digits.length : Nat) : Int) = pos ∧
      wcharAt n.digits (min pos.toNat n.digits.length) ≥ 53) := by
    rintro ⟨h1, h2⟩
    apply h
    have hp : 0 ≤ pos := by omega
    have hle : pos.toNat ≤ n.digits.length := by omega
    have hmin : min pos.toNat n.digits.length = pos.toNat := by omega
    rw [hmin] at h2
    refine ⟨hp, ?_, h2⟩
    by_contra hge
    have := wcharAt_of_length_le n.digits (k := pos.toNat) (by omega)
    omega
  unfold RoundNumber
  simp only [hscan, hcond, if_false]
  rw [cstr_of_ne_zero]
  intro c hc
  exact hdec.ne_zero c (List.mem_of_mem_take hc)

theorem backWhile_of_last_ne (s : List Nat) (ch : Nat) (i : Nat)
    (h : wcharAt s (i - 1) ≠ ch) : backWhile s ch i = i := by
  cases i with
  | zero => simp [backWhile]
  | succ k =>
    unfold backWhile
    simp only [Nat.add_sub_cancel] at h
    simp [h]

/-- C7: on a digit buffer of decimal digits, whenever the digit sequence is
empty after `RoundNumber(number, pos)` the buffer is canonical zero:
`scale = 0` and `sign = false`. -/
theorem RoundNumber_empty_is_canonical_zero (number : NUMBER) (pos : Int)
    (hdec : IsDecimal number.digits) (hempty : (RoundNumber number pos).digits = []) :
    (RoundNumber number pos).scale = 0 ∧ (RoundNumber number pos).sign = false := by
  by_cases hup : 0 ≤ pos ∧ pos.toNat < number.digits.length ∧
      53 ≤ wcharAt number.digits pos.toNat
  · obtain ⟨hp, hlt, hd⟩ := hup
    rw [RoundNumber_up number pos hdec hp hlt hd] at hempty
    split at hempty <;> simp at hempty
  · rw [RoundNumber_down number pos hdec hup] at hempty ⊢
    have hle := backWhile_le number.digits 48 (min pos.toNat number.digits.length)
    have hj : backWhile number.digits 48 (min pos.toNat number.digits.length) = 0 := by
      simp only [List.take_eq_nil_iff] at hempty
      rcases hempty with h0 | h0
      · exact h0
      · have hl : number.digits.length = 0 := by rw [h0]; rfl
        omega
    simp [hj]

theorem RoundNumber_empty_is_canonical_zero_witness :
    IsDecimal (⟨15, 7, true, [52, 57]⟩ : NUMBER).digits ∧
      (RoundNumber ⟨15, 7, true, [52, 57]⟩ 0).digits = [] ∧
      (RoundNumber ⟨15, 7, true, [52, 57]⟩ 0).scale = 0 ∧
      (RoundNumber ⟨15, 7, true, [52, 57]⟩ 0).sign = false :=
  ⟨by decide, by decide,
    RoundNumber_empty_is_canonical_zero ⟨15, 7, true, [52, 57]⟩ 0 (by decide) (by decide)⟩

/-- C8 as stated fails: the buffer `Int32ToNumber` produces for `100`
(digits `100`, scale 3) has 3 ≤ 10 digits, yet `RoundNumber(number, 10)`
trims it to the single digit `1`. -/
theorem RoundNumber_short_buffer_trims :
    ((⟨10, 3, false, [49, 48, 48]⟩ : NUMBER).digits.length : Int) ≤ 10 ∧
      RoundNumber ⟨10, 3, false, [49, 48, 48]⟩ 10 = ⟨10, 3, false, [49]⟩ ∧
      RoundNumber ⟨10, 3, false, [49, 48, 48]⟩ 10 ≠ ⟨10, 3, false, [49, 48, 48]⟩ := by
  decide

/-- C8 (amended): on a digit buffer of decimal digits with at most `pos`
digits that is in canonical form (its last digit is not `'0'`, and it has
`scale = 0`, `sign = false` when it is empty), `RoundNumber(number, pos)` is a
no-op: digits, scale, sign and precision are unchanged. -/
theorem RoundNumber_short_canonical_noop (number : NUMBER) (pos : Int)
    (hdec : IsDecimal number.digits) (hlen : (number.digits.length : Int) ≤ pos)
    (hlast : wcharAt number.digits (number.digits.length - 1) ≠ 48)
    (hzero : number.digits = [] → number.scale = 0 ∧ number.sign = false) :
    RoundNumber number pos = number := by
  have hdown : ¬ (0 ≤ pos ∧ pos.toNat < number.digits.length ∧
      53 ≤ wcharAt number.digits pos.toNat) := by
    rintro ⟨_, h2, _⟩; omega
  rw [RoundNumber_down number pos hdec hdown]
  have hmin : min pos.toNat number.digits.length = number.digits.length := by omega
  rw [hmin, backWhile_of_last_ne _ _ _ hlast]
  rcases number with ⟨p, sc, sg, ds⟩
  simp only [List.take_length, NUMBER.mk.injEq, true_and, and_true]
  by_cases h0 : ds = []
  · have := hzero h0
    simp_all
  · have : ds.length ≠ 0 := by simpa [List.length_eq_zero] using h0
    simp [this]

theorem RoundNumber_short_canonical_noop_witness :
    RoundNumber ⟨15, 3, true, [49, 50, 53]⟩ 3 = ⟨15, 3, true, [49, 50, 53]⟩ :=
  RoundNumber_short_canonical_noop ⟨15, 3, true, [49, 50, 53]⟩ 3 (by decide) (by decide)
    (by decide) (by decide)

/-! ## RoundNumber rounds half up -/

theorem digitsValue_append_singleton (s : List Nat) (c : Nat) :
    digitsValue (s ++ [c]) = 10 * digitsValue s + (c - 48) := by
  simp [digitsValue, List.foldl_append]

theorem digitsValue_foldl (l : List Nat) (init : Nat) :
    l.foldl (fun a c => 10 * a + (c - 48)) init = init * 10 ^ l.length + digitsValue l := by
  unfold digitsValue
  induction l generalizing init with
  | nil => simp
  | cons c cs ih =>
    simp only [List.foldl_cons, List.length_cons]
    rw [ih (10 * init + (c - 48)), ih (10 * 0 + (c - 48))]
    ring

theorem digitsValue_append (a b : List Nat) :
    digitsValue (a ++ b) = digitsValue a * 10 ^ b.length + digitsValue b := by
  unfold digitsValue
  rw [List.foldl_append, digitsValue_foldl]
  rfl

theorem digitsValue_cons (c : Nat) (cs : List Nat) :
    digitsValue (c :: cs) = (c - 48) * 10 ^ cs.length + digitsValue cs := by
  have := digitsValue_append [c] cs
  simpa [digitsValue] using this

theorem digitsValue_lt (s : List Nat) (h : IsDecimal s) : digitsValue s < 10 ^ s.length := by
  induction s with
  | nil => simp [digitsValue]
  | cons c cs ih =>
    have hc := h c (List.mem_cons_self _ _)
    have hcs : IsDecimal cs := fun d hd => h d (List.mem_cons_of_mem _ hd)
    have := ih hcs
    rw [digitsValue_cons, List.length_cons, pow_succ]
    have h9 : (c - 48) * 10 ^ cs.length ≤ 9 * 10 ^ cs.length :=
      Nat.mul_le_mul_right _ (by omega)
    omega

theorem digitsValue_replicate_zero (k : Nat) : digitsValue (List.replicate k 48) = 0 := by
  induction k with
  | zero => simp [digitsValue]
  | succ k ih => rw [List.replicate_succ, digitsValue_cons, ih]; simp

theorem digitsValue_replicate_nine (k : Nat) :
    digitsValue (List.replicate k 57) + 1 = 10 ^ k := by
  induction k with
  | zero => simp [digitsValue]
  | succ k ih =>
    rw [List.replicate_succ, digitsValue_cons, List.length_replicate, pow_succ]
    omega

theorem take_eq_take_append_replicate (s : List Nat) (ch j i : Nat) (hji : j ≤ i)
    (hi : i ≤ s.length) (hrun : ∀ k, j ≤ k → k < i → wcharAt s k = ch) :
    s.take i = s.take j ++ List.replicate (i - j) ch := by
  apply List.ext_getElem
  · simp; omega
  · intro n h1 h2
    simp only [List.length_take] at h1
    rw [List.getElem_take]
    by_cases hn : n < j
    · rw [List.getElem_append_left (by simp; omega), List.getElem_take]
    · rw [List.getElem_append_right (by simp; omega)]
      simp only [List.getElem_replicate]
      have := hrun n (by omega) (by omega)
      unfold wcharAt at this
      rw [List.getD_eq_getElem _ _ (by omega)] at this
      exact this

theorem wcharAt_drop_zero (s : List Nat) (k : Nat) : wcharAt (s.drop k) 0 = wcharAt s k := by
  unfold wcharAt
  simp [List.getD_eq_getElem?_getD, List.getElem?_drop]

theorem floor_add_half (A T M : Nat) (hM : 0 < M) (hT : T < M) :
    ⌊(A : ℚ) + (T : ℚ) / (M : ℚ) + 1 / 2⌋ = (A : Int) + (if M ≤ 2 * T then 1 else 0) := by
  have hMq : (0 : ℚ) < (M : ℚ) := by exact_mod_cast hM
  have hTq : (T : ℚ) < (M : ℚ) := by exact_mod_cast hT
  have hfrac : (T : ℚ) / (M : ℚ) < 1 := by rw [div_lt_one hMq]; exact hTq
  have hnn : (0 : ℚ) ≤ (T : ℚ) / (M : ℚ) := by positivity
  rw [Int.floor_eq_iff]
  split
  · rename_i h
    have h2 : (M : ℚ) ≤ 2 * (T : ℚ) := by exact_mod_cast h
    have : (1 : ℚ) / 2 ≤ (T : ℚ) / (M : ℚ) := by
      rw [le_div_iff₀ hMq]; linarith
    push_cast
    constructor <;> linarith
  · rename_i h
    have h2 : 2 * (T : ℚ) < (M : ℚ) := by
      have : 2 * T < M := by omega
      exact_mod_cast this
    have : (T : ℚ) / (M : ℚ) < 1 / 2 := by
      rw [div_lt_iff₀ hMq]; linarith
    push_cast
    constructor <;> linarith

theorem tenpow_combine (X : ℚ) (k : Nat) (a b : Int) (h : b = a + k) :
    X * (10 : ℚ) ^ k * (10 : ℚ) ^ a = X * (10 : ℚ) ^ b := by
  have h10 : (10 : ℚ) ≠ 0 := by norm_num
  rw [h, mul_assoc, ← zpow_natCast, ← zpow_add₀ h10, add_comm]

/-- The magnitude after the truncating branch: the first `j` digits at the
original scale. -/
theorem RoundNumber_down_magnitude (n : NUMBER) (pos : Int) (hdec : IsDecimal n.digits)
    (h : ¬ (0 ≤ pos ∧ pos.toNat < n.digits.length ∧ 53 ≤ wcharAt n.digits pos.toNat)) :
    (RoundNumber n pos).magnitude =
      (digitsValue (n.digits.take (min pos.toNat n.digits.length)) : ℚ) *
        (10 : ℚ) ^ (n.scale - ((min pos.toNat n.digits.length : Nat) : Int)) := by
  rw [RoundNumber_down n pos hdec h]
  set Q := min pos.toNat n.digits.length with hQ
  set j := backWhile n.digits 48 Q with hj
  have hjQ : j ≤ Q := backWhile_le _ _ _
  have hQL : Q ≤ n.digits.length := by omega
  have hsplit := take_eq_take_append_replicate n.digits 48 j Q hjQ hQL
    (backWhile_run n.digits 48 Q)
  have hval : digitsValue (n.digits.take Q) = digitsValue (n.digits.take j) * 10 ^ (Q - j) := by
    rw [hsplit, digitsValue_append, digitsValue_replicate_zero]
    simp
  unfold NUMBER.magnitude
  simp only [List.length_take]
  rw [hval]
  have hmin : min j n.digits.length = j := by omega
  rw [hmin]
  by_cases hj0 : j = 0
  · simp [hj0, digitsValue]
  · simp only [hj0, if_false]
    push_cast
    rw [tenpow_combine _ (Q - j) _ (n.scale - (j : Int)) (by omega)]

theorem take_succ_wcharAt (s : List Nat) (k : Nat) (hk : k < s.length) :
    s.take (k + 1) = s.take k ++ [wcharAt s k] := by
  rw [List.take_succ]
  unfold wcharAt
  rw [List.getD_eq_getElem _ _ hk, List.getElem?_eq_getElem hk]
  rfl

/-- The magnitude after the rounding-up branch: the first `pos` digits plus
one unit in the last place kept. -/
theorem RoundNumber_up_magnitude (n : NUMBER) (pos : Int) (hdec : IsDecimal n.digits)
    (hscale : -2147483648 ≤ n.scale ∧ n.scale < 2147483647)
    (hp : 0 ≤ pos) (hlt : pos.toNat < n.digits.length)
    (hd : 53 ≤ wcharAt n.digits pos.toNat) :
    (RoundNumber n pos).magnitude =
      ((digitsValue (n.digits.take pos.toNat) : ℚ) + 1) * (10 : ℚ) ^ (n.scale - pos) := by
  rw [RoundNumber_up n pos hdec hp hlt hd]
  set P := pos.toNat with hP
  have hPpos : (P : Int) = pos := Int.toNat_of_nonneg hp
  set j := backWhile n.digits 57 P with hj
  have hjP : j ≤ P := backWhile_le _ _ _
  have hsplit := take_eq_take_append_replicate n.digits 57 j P hjP (by omega)
    (backWhile_run n.digits 57 P)
  have hval : digitsValue (n.digits.take P) + 1 =
      (digitsValue (n.digits.take j) + 1) * 10 ^ (P - j) := by
    rw [hsplit, digitsValue_append, List.length_replicate]
    have := digitsValue_replicate_nine (P - j)
    rw [add_mul, one_mul, ← this]
    ring
  have hvalq : (digitsValue (n.digits.take P) : ℚ) + 1 =
      ((digitsValue (n.digits.take j) : ℚ) + 1) * (10 : ℚ) ^ (P - j) := by
    exact_mod_cast hval
  rw [hvalq]
  by_cases hj0 : 0 < j
  · simp only [hj0, if_true]
    have hstop := backWhile_stop n.digits 57 P hj0
    have hrange := hdec.wcharAt (k := j - 1) (by omega)
    have htake : n.digits.take j = n.digits.take (j - 1) ++ [wcharAt n.digits (j - 1)] := by
      have := take_succ_wcharAt n.digits (j - 1) (by omega)
      rwa [Nat.sub_add_cancel hj0] at this
    have hnew : digitsValue (n.digits.take (j - 1) ++ [wcharAt n.digits (j - 1) + 1]) =
        digitsValue (n.digits.take j) + 1 := by
      rw [htake, digitsValue_append_singleton, digitsValue_append_singleton]
      rw [← hj] at hstop
      omega
    unfold NUMBER.magnitude
    simp only [List.length_append, List.length_take, List.length_singleton]
    rw [hnew]
    have hlen : min (j - 1) n.digits.length + 1 = j := by omega
    rw [hlen]
    push_cast
    rw [tenpow_combine _ (P - j) _ (n.scale - (j : Int)) (by omega)]
  · simp only [hj0, if_false]
    have hj00 : j = 0 := by omega
    unfold NUMBER.magnitude
    have hw : wrapInt32 (n.scale + 1) = n.scale + 1 := by
      unfold wrapInt32; omega
    rw [hw, hj00]
    simp only [List.take_zero, digitsValue, List.foldl_nil, List.foldl_cons, List.length_singleton,
      Nat.sub_zero]
    norm_num
    have h10 : (10 : ℚ) ≠ 0 := by norm_num
    rw [← zpow_natCast, ← zpow_add₀ h10]
    congr 1
    omega

theorem magnitude_shift (n : NUMBER) (pos : Int) :
    n.magnitude * (10 : ℚ) ^ (pos - n.scale) =
      (digitsValue n.digits : ℚ) * (10 : ℚ) ^ (pos - (n.digits.length : Int)) := by
  have h10 : (10 : ℚ) ≠ 0 := by norm_num
  unfold NUMBER.magnitude
  rw [mul_assoc, ← zpow_add₀ h10]
  congr 2
  ring

/-- Half-up rounding of the magnitude: after `RoundNumber(number, pos)` with
`pos >= 0` the buffer denotes `floor(m * 10^(pos - scale) + 1/2) * 10^(scale - pos)`. -/
theorem RoundNumber_magnitude (number : NUMBER) (pos : Int)
    (hdec : IsDecimal number.digits) (hpos : 0 ≤ pos)
    (hscale : -2147483648 ≤ number.scale ∧ number.scale < 2147483647) :
    (RoundNumber number pos).magnitude =
        ((⌊number.magnitude * (10 : ℚ) ^ (pos - number.scale) + 1 / 2⌋ : Int) : ℚ) *
          (10 : ℚ) ^ (number.scale - pos) := by
  have h10 : (10 : ℚ) ≠ 0 := by norm_num
  have hPpos : ((pos.toNat : Nat) : Int) = pos := Int.toNat_of_nonneg hpos
  set P := pos.toNat with hP
  set L := number.digits.length with hL
  rw [magnitude_shift]
  by_cases hPL : P < L
  · -- a digit stands at `pos`
    have hsplit : number.digits = number.digits.take P ++ number.digits.drop P :=
      (List.take_append_drop P number.digits).symm
    have hdroplen : (number.digits.drop P).length = L - P := by simp [hL]
    have hD : digitsValue number.digits =
        digitsValue (number.digits.take P) * 10 ^ (L - P) +
          digitsValue (number.digits.drop P) := by
      conv_lhs => rw [hsplit]
      rw [digitsValue_append, hdroplen]
    have hdropdec : IsDecimal (number.digits.drop P) :=
      fun c hc => hdec c (List.mem_of_mem_drop hc)
    have hT := digitsValue_lt _ hdropdec
    rw [hdroplen] at hT
    have hM : 0 < 10 ^ (L - P) := Nat.pow_pos (by decide)
    have hMq : ((10 ^ (L - P) : Nat) : ℚ) ≠ 0 := by positivity
    have hexp : (10 : ℚ) ^ (pos - (L : Int)) = 1 / ((10 ^ (L - P) : Nat) : ℚ) := by
      push_cast
      rw [one_div, ← zpow_natCast, ← zpow_neg]
      congr 1
      omega
    have harg : (digitsValue number.digits : ℚ) * (10 : ℚ) ^ (pos - (L : Int)) =
        (digitsValue (number.digits.take P) : ℚ) +
          (digitsValue (number.digits.drop P) : ℚ) / ((10 ^ (L - P) : Nat) : ℚ) := by
      rw [hexp, hD]
      push_cast
      field_simp
    rw [harg, floor_add_half _ _ _ hM hT]
    -- the digit at `pos` decides the direction
    obtain ⟨c, cs, hcs⟩ := List.exists_cons_of_ne_nil
      (by intro h0; rw [h0] at hdroplen; simp at hdroplen; omega :
        number.digits.drop P ≠ [])
    have hc : wcharAt number.digits P = c := by
      rw [← wcharAt_drop_zero, hcs]; rfl
    have hcslen : cs.length = L - P - 1 := by
      have := hdroplen; rw [hcs] at this; simp at this; omega
    have hcsdec : IsDecimal cs := fun d hd => hdropdec d (by rw [hcs]; exact List.mem_cons_of_mem _ hd)
    have hR := digitsValue_lt _ hcsdec
    have hcrange := hdropdec c (by rw [hcs]; exact List.mem_cons_self _ _)
    have hTval := digitsValue_cons c cs
    rw [← hcs] at hTval
    rw [hcslen] at hTval hR
    have hMsplit : 10 ^ (L - P) = 10 * 10 ^ (L - P - 1) := by
      rw [← pow_succ']; congr 1; omega
    by_cases hd : 53 ≤ wcharAt number.digits P
    · rw [RoundNumber_up_magnitude number pos hdec hscale hpos hPL hd]
      have hge : 10 ^ (L - P) ≤ 2 * digitsValue (number.digits.drop P) := by
        rw [hTval, hMsplit]
        have : 5 * 10 ^ (L - P - 1) ≤ (c - 48) * 10 ^ (L - P - 1) :=
          Nat.mul_le_mul_right _ (by omega)
        omega
      simp only [hge, if_true]
      push_cast
      rfl
    · have hdown : ¬ (0 ≤ pos ∧ pos.toNat < number.digits.length ∧
          53 ≤ wcharAt number.digits pos.toNat) := fun h => hd h.2.2
      rw [RoundNumber_down_magnitude number pos hdec hdown]
      have hmin : min P L = P := by omega
      have hlt : ¬ 10 ^ (L - P) ≤ 2 * digitsValue (number.digits.drop P) := by
        rw [hTval, hMsplit]
        have : (c - 48) * 10 ^ (L - P - 1) ≤ 4 * 10 ^ (L - P - 1) :=
          Nat.mul_le_mul_right _ (by omega)
        omega
      simp only [hlt, if_false, hmin, hPpos]
      push_cast
      simp
  · -- no digit at `pos`: nothing is rounded
    have hdown : ¬ (0 ≤ pos ∧ pos.toNat < number.digits.length ∧
        53 ≤ wcharAt number.digits pos.toNat) := fun h => hPL h.2.1
    rw [RoundNumber_down_magnitude number pos hdec hdown]
    have hmin : min P L = L := by omega
    rw [hmin, List.take_of_length_le (le_refl _)]
    have hexp : (10 : ℚ) ^ (pos - (L : Int)) = ((10 ^ (P - L) : Nat) : ℚ) := by
      push_cast
      rw [← zpow_natCast]
      congr 1
      omega
    have harg : (digitsValue number.digits : ℚ) * (10 : ℚ) ^ (pos - (L : Int)) =
        ((digitsValue number.digits * 10 ^ (P - L) : Nat) : ℚ) + ((0 : Nat) : ℚ) / ((1 : Nat) : ℚ) := by
      rw [hexp]; push_cast; ring
    rw [harg, floor_add_half _ 0 1 (by decide) (by decide)]
    simp only [Nat.mul_zero, Nat.not_succ_le_zero, if_false, add_zero]
    push_cast
    rw [add_zero, tenpow_combine _ (P - L) (number.scale - pos) (number.scale - (L : Int))
      (by omega)]

/-- C6: on a digit buffer of decimal digits `RoundNumber(number, pos)`,
`pos >= 0`, rounds the magnitude half up to `pos` significant digits: the new
magnitude is `floor(m * 10^(pos - scale) + 1/2) * 10^(scale - pos)`. When the
carry runs out of the first digit (the first `pos` digits are all `'9'` and
the digit at `pos` is at least `'5'`) the digits become `1` and `scale` grows
by one; otherwise a non-empty result keeps its `scale`. -/
theorem RoundNumber_rounds_half_up (number : NUMBER) (pos : Int)
    (hdec : IsDecimal number.digits) (hpos : 0 ≤ pos)
    (hscale : -2147483648 ≤ number.scale ∧ number.scale < 2147483647) :
    (RoundNumber number pos).magnitude =
        ((⌊number.magnitude * (10 : ℚ) ^ (pos - number.scale) + 1 / 2⌋ : Int) : ℚ) *
          (10 : ℚ) ^ (number.scale - pos) ∧
      ((pos.toNat < number.digits.length ∧ 53 ≤ wcharAt number.digits pos.toNat ∧
          ∀ k, k < pos.toNat → wcharAt number.digits k = 57) →
        (RoundNumber number pos).scale = number.scale + 1 ∧
          (RoundNumber number pos).digits = [49]) ∧
      (¬ (pos.toNat < number.digits.length ∧ 53 ≤ wcharAt number.digits pos.toNat ∧
          ∀ k, k < pos.toNat → wcharAt number.digits k = 57) →
        (RoundNumber number pos).digits ≠ [] →
          (RoundNumber number pos).scale = number.scale) := by
  have hPpos : ((pos.toNat : Nat) : Int) = pos := Int.toNat_of_nonneg hpos
  set P := pos.toNat with hP
  refine ⟨RoundNumber_magnitude number pos hdec hpos hscale, ?_, ?_⟩
  · -- carry out of the first digit
    rintro ⟨hPL, hd, hall⟩
    rw [RoundNumber_up number pos hdec hpos hPL hd]
    have hj : ¬ 0 < backWhile number.digits 57 P := by
      intro hj
      have hstop := backWhile_stop number.digits 57 P hj
      have hle := backWhile_le number.digits 57 P
      exact hstop (hall _ (by omega))
    have hw : wrapInt32 (number.scale + 1) = number.scale + 1 := by
      unfold wrapInt32; omega
    simp only [hj, if_false, hw, and_self]
  · -- no carry out
    intro hnc hne
    by_cases hup : 0 ≤ pos ∧ pos.toNat < number.digits.length ∧
        53 ≤ wcharAt number.digits pos.toNat
    · obtain ⟨_, hPL, hd⟩ := hup
      rw [RoundNumber_up number pos hdec hpos hPL hd]
      have hj : 0 < backWhile number.digits 57 P := by
        by_contra hj
        apply hnc
        refine ⟨hPL, hd, fun k hk => backWhile_run number.digits 57 P k (by omega) hk⟩
      simp only [hj, if_true]
    · rw [RoundNumber_down number pos hdec hup] at hne ⊢
      have hj : backWhile number.digits 48 (min pos.toNat number.digits.length) ≠ 0 := by
        intro h0
        apply hne
        simp [h0]
      simp only [hj, if_false]

theorem RoundNumber_rounds_half_up_witness :
    (RoundNumber ⟨15, 3, true, [57, 57, 57, 53, 49]⟩ 3).scale = 3 + 1 ∧
      (RoundNumber ⟨15, 3, true, [57, 57, 57, 53, 49]⟩ 3).digits = [49] :=
  (RoundNumber_rounds_half_up ⟨15, 3, true, [57, 57, 57, 53, 49]⟩ 3 (by decide) (by decide)
    (by decide)).2.1 ⟨by decide, by decide, by decide⟩

/-! ## Integer to digits -/

theorem decimalNumeral_zero : decimalNumeral 0 = [] := by
  simp [decimalNumeral]

theorem decimalNumeral_step (v : Nat) (hv : v ≠ 0) :
    decimalNumeral v = decimalNumeral (v / 10) ++ [v % 10 + 48] := by
  unfold decimalNumeral
  rw [Nat.digits_def' (by decide) (Nat.pos_of_ne_zero hv)]
  simp

theorem decimalPadded_step (k v : Nat) (h : 1 ≤ k ∨ v ≠ 0) :
    decimalPadded k v = decimalPadded (k - 1) (v / 10) ++ [v % 10 + 48] := by
  unfold decimalPadded
  by_cases hv : v = 0
  · subst hv
    have hk : 1 ≤ k := by
      rcases h with h | h
      · exact h
      · exact absurd rfl h
    obtain ⟨j, rfl⟩ : ∃ j, k = j + 1 := ⟨k - 1, by omega⟩
    simp [decimalNumeral_zero, List.replicate_succ']
  · rw [decimalNumeral_step v hv]
    simp only [List.length_append, List.length_singleton, List.append_assoc]
    congr 2
    omega

theorem decimalPadded_zero_width (v : Nat) : decimalPadded 0 v = decimalNumeral v := by
  simp [decimalPadded]

/-- `Int32ToDecChars` prepends the decimal numeral of `value`, zero padded to
`digits` characters, to the buffer content. -/
theorem Int32ToDecChars_eq (p : List Nat) (value : Nat) (digits : Int) :
    Int32ToDecChars p value digits = decimalPadded digits.toNat value ++ p := by
  generalize hm : value + digits.toNat = m
  induction m using Nat.strong_induction_on generalizing p value digits with
  | _ m ih =>
    subst hm
    rw [Int32ToDecChars]
    by_cases hc : digits - 1 ≥ 0 ∨ value ≠ 0
    · simp only [hc, if_true]
      have hw : toWchar (value % 10 + 48) = value % 10 + 48 := by
        unfold toWchar; omega
      have hdec : value / 10 + (digits - 1).toNat < value + digits.toNat := by
        rcases Nat.eq_zero_or_pos value with hv | hv
        · subst hv
          rcases hc with hc | hc
          · simp only [Nat.zero_div]; omega
          · exact absurd rfl hc
        · have := Nat.div_lt_self hv (by decide : 1 < 10)
          omega
      rw [ih _ hdec _ _ _ rfl, hw]
      have hk : 1 ≤ digits.toNat ∨ value ≠ 0 := by
        rcases hc with hc | hc
        · left; omega
        · right; exact hc
      rw [decimalPadded_step digits.toNat value hk]
      have : (digits - 1).toNat = digits.toNat - 1 := by omega
      rw [this]
      simp
    · simp only [hc, if_false]
      have h1 : digits.toNat = 0 := by omega
      have h2 : value = 0 := by
        by_contra h0; exact hc (Or.inr h0)
      simp [h1, h2, decimalPadded, decimalNumeral_zero]

theorem digitsValue_decimalNumeral (v : Nat) : digitsValue (decimalNumeral v) = v := by
  induction v using Nat.strong_induction_on with
  | _ v ih =>
    by_cases hv : v = 0
    · subst hv; simp [decimalNumeral_zero, digitsValue]
    · rw [decimalNumeral_step v hv, digitsValue_append_singleton,
        ih (v / 10) (Nat.div_lt_self (Nat.pos_of_ne_zero hv) (by decide))]
      omega

theorem decimalNumeral_isDecimal (v : Nat) : IsDecimal (decimalNumeral v) := by
  intro c hc
  unfold decimalNumeral at hc
  simp only [List.mem_map, List.mem_reverse] at hc
  obtain ⟨d, hd, rfl⟩ := hc
  have := Nat.digits_lt_base (by decide : 1 < 10) hd
  omega

theorem decimalNumeral_head_ne_zero (v : Nat) : wcharAt (decimalNumeral v) 0 ≠ 48 := by
  by_cases hv : v = 0
  · subst hv; simp [decimalNumeral_zero, wcharAt]
  · have hne : Nat.digits 10 v ≠ [] := Nat.digits_ne_nil_iff_ne_zero.mpr hv
    have hlast := Nat.getLast_digit_ne_zero 10 hv
    unfold decimalNumeral wcharAt
    rw [← List.head_reverse (by simpa using hne)] at hlast
    obtain ⟨a, l, hal⟩ := List.exists_cons_of_ne_nil
      (by simpa using hne : (Nat.digits 10 v).reverse ≠ [])
    simp only [hal, List.head_cons] at hlast
    simp [hal, hlast]

theorem decimalNumeral_length_le (v k : Nat) (h : v < 10 ^ k) :
    (decimalNumeral v).length ≤ k := by
  unfold decimalNumeral
  simp only [List.length_map, List.length_reverse]
  by_cases hv : v = 0
  · subst hv; simp
  · have h1 := Nat.base_pow_length_digits_le 10 v (by decide) hv
    have h2 : 10 ^ (Nat.digits 10 v).length < 10 ^ (k + 1) := by
      rw [pow_succ]; omega
    have h3 := (Nat.pow_lt_pow_iff_right (by decide : 1 < 10)).mp h2
    omega

theorem magnitude_of_scale_eq_length (n : NUMBER) (h : n.scale = (n.digits.length : Int)) :
    n.magnitude = (digitsValue n.digits : ℚ) := by
  unfold NUMBER.magnitude
  rw [h]; simp

theorem int32_magnitude_cast (v : Int) (hv : -2147483648 ≤ v ∧ v ≤ 2147483647) :
    int32ToUInt32 (if v ≥ 0 then v else wrapInt32 (-v)) = v.natAbs := by
  unfold int32ToUInt32 wrapInt32
  split <;> omega

theorem numberOfNumeral_magnitude (prec : Int) (sign : Bool) (v : Nat) :
    (NUMBER.mk prec ((decimalNumeral v).length : Int) sign (decimalNumeral v)).magnitude =
      (v : ℚ) := by
  rw [magnitude_of_scale_eq_length _ rfl]
  simp [digitsValue_decimalNumeral]

theorem UInt32ToNumber_eq (u : Nat) :
    UInt32ToNumber u = ⟨10, ((decimalNumeral u).length : Int), false, decimalNumeral u⟩ := by
  unfold UInt32ToNumber
  simp [Int32ToDecChars_eq, decimalPadded_zero_width, UINT32_PRECISION, INT32_PRECISION]

theorem Int32ToNumber_eq (v : Int) (hv : -2147483648 ≤ v ∧ v ≤ 2147483647) :
    Int32ToNumber v =
      ⟨10, ((decimalNumeral v.natAbs).length : Int), decide (v < 0), decimalNumeral v.natAbs⟩ := by
  unfold Int32ToNumber
  simp only [int32_magnitude_cast v hv]
  simp [Int32ToDecChars_eq, decimalPadded_zero_width, INT32_PRECISION]

/-- C9: for every 32-bit signed `v` (`INT32_MIN` included) `Int32ToNumber`
yields `sign = (v < 0)`, the decimal numeral of `|v|` without leading zeros
(empty for `0`) as digits, `scale` = number of digits and `precision = 10`,
so that the buffer denotes `|v|`; `UInt32ToNumber` does the same for every
unsigned `u`, with `sign = false`. -/
theorem Int32ToNumber_spec (v : Int) (u : Nat)
    (hv : -2147483648 ≤ v ∧ v ≤ 2147483647) (hu : u < 4294967296) :
    ((Int32ToNumber v).sign = decide (v < 0) ∧
      (Int32ToNumber v).digits = decimalNumeral v.natAbs ∧
      IsDecimal (Int32ToNumber v).digits ∧
      wcharAt (Int32ToNumber v).digits 0 ≠ 48 ∧
      (Int32ToNumber v).scale = ((Int32ToNumber v).digits.length : Int) ∧
      (Int32ToNumber v).precision = 10 ∧
      (Int32ToNumber v).magnitude = (v.natAbs : ℚ)) ∧
    ((UInt32ToNumber u).sign = false ∧
      (UInt32ToNumber u).digits = decimalNumeral u ∧
      IsDecimal (UInt32ToNumber u).digits ∧
      wcharAt (UInt32ToNumber u).digits 0 ≠ 48 ∧
      (UInt32ToNumber u).scale = ((UInt32ToNumber u).digits.length : Int) ∧
      (UInt32ToNumber u).precision = 10 ∧
      (UInt32ToNumber u).magnitude = (u : ℚ) ∧
      (UInt32ToNumber u).digits.length ≤ 10) := by
  rw [Int32ToNumber_eq v hv, UInt32ToNumber_eq u]
  refine ⟨⟨rfl, rfl, decimalNumeral_isDecimal _, decimalNumeral_head_ne_zero _, rfl, rfl,
    numberOfNumeral_magnitude _ _ _⟩, rfl, rfl, decimalNumeral_isDecimal _,
    decimalNumeral_head_ne_zero _, rfl, rfl, numberOfNumeral_magnitude _ _ _, ?_⟩
  exact decimalNumeral_length_le u 10 (by omega)

theorem Int32ToNumber_spec_witness :
    (Int32ToNumber (-2147483648)).sign = true ∧
      (Int32ToNumber (-2147483648)).digits = decimalNumeral 2147483648 ∧
      (UInt32ToNumber 4294967295).digits = decimalNumeral 4294967295 :=
  have h := Int32ToNumber_spec (-2147483648) 4294967295 (by decide) (by decide)
  ⟨h.1.1, h.1.2.1, h.2.2.1⟩

theorem shiftRight_and (a b k : Nat) : (a &&& b) >>> k = (a >>> k) &&& (b >>> k) := by
  apply Nat.eq_of_testBit_eq
  intro i
  simp

theorem HI32_eq (x : Nat) : HI32 x = x / 4294967296 % 4294967296 := by
  unfold HI32 toUInt32
  rw [shiftRight_and]
  have h1 : (0xFFFFFFFF00000000 : Nat) >>> 32 = 2 ^ 32 - 1 := by
    rw [Nat.shiftRight_eq_div_pow]; norm_num
  rw [h1, Nat.and_pow_two_sub_one_eq_mod, Nat.shiftRight_eq_div_pow]
  norm_num

theorem decimalNumeral_split (q r : Nat) (hq : 0 < q) (hr : r < 1000000000) :
    decimalNumeral (q * 1000000000 + r) = decimalNumeral q ++ decimalPadded 9 r := by
  have hlen : (Nat.digits 10 r).length ≤ 9 := by
    have := decimalNumeral_length_le r 9 (by omega)
    simpa [decimalNumeral] using this
  have key := Nat.digits_append_zeroes_append_digits (b := 10)
    (k := 9 - (Nat.digits 10 r).length) (m := q) (n := r) (by decide) hq
  have hexp : (Nat.digits 10 r).length + (9 - (Nat.digits 10 r).length) = 9 := by omega
  rw [hexp] at key
  have harg : r + 10 ^ 9 * q = q * 1000000000 + r := by norm_num; ring
  rw [harg] at key
  unfold decimalPadded decimalNumeral
  rw [← key]
  simp [List.map_append, List.reverse_append, List.map_replicate]

set_option maxRecDepth 10000 in
theorem divLoop1E9_unfold (p : List Nat) (value : Nat) :
    divLoop1E9 p value =
      if HI32 value ≠ 0 then
        divLoop1E9 (Int32ToDecChars p (Int64DivMod1E9 value).1 9) (Int64DivMod1E9 value).2
      else (p, value) := by
  rw [divLoop1E9]

/-- The 64-bit conversion: the division loop followed by the final
`Int32ToDecChars(p, LO32(value), 0)` prepends the decimal numeral of `value`. -/
theorem divLoop1E9_numeral (p : List Nat) (value : Nat) (hv : value < 18446744073709551616) :
    Int32ToDecChars (divLoop1E9 p value).1 (LO32 (divLoop1E9 p value).2) 0 =
      decimalNumeral value ++ p := by
  induction value using Nat.strong_induction_on generalizing p with
  | _ value ih =>
    rw [divLoop1E9_unfold]
    by_cases hhi : HI32 value ≠ 0
    · simp only [hhi, ne_eq, not_false_eq_true, if_true]
      have hbig : 4294967296 ≤ value := by
        by_contra hlt
        apply hhi
        rw [HI32_eq, Nat.div_eq_of_lt (by omega)]
      unfold Int64DivMod1E9
      have hq : 0 < value / 1000000000 := Nat.div_pos (by omega) (by decide)
      have hlt : value / 1000000000 < value := Nat.div_lt_self (by omega) (by decide)
      have hr : value % 1000000000 < 1000000000 := Nat.mod_lt _ (by decide)
      have hcast : toUInt32 (value % 1000000000) = value % 1000000000 := by
        unfold toUInt32; omega
      simp only [hcast]
      rw [ih _ hlt _ (by omega), Int32ToDecChars_eq]
      have hsplit := decimalNumeral_split (value / 1000000000) (value % 1000000000) hq hr
      rw [Nat.div_add_mod' value 1000000000] at hsplit
      rw [hsplit]
      simp
    · simp only [hhi, if_false]
      have hsmall : value < 4294967296 := by
        by_contra hge
        apply hhi
        rw [HI32_eq]
        have h1 : value / 4294967296 < 4294967296 :=
          Nat.div_lt_of_lt_mul (by omega)
        have h2 : 0 < value / 4294967296 := Nat.div_pos (by omega) (by decide)
        rw [Nat.mod_eq_of_lt h1]
        omega
      have hlo : LO32 value = value := by
        unfold LO32 toUInt32; omega
      rw [hlo, Int32ToDecChars_eq]
      simp [decimalPadded_zero_width]

theorem int64_magnitude_cast (v : Int)
    (hv : -9223372036854775808 ≤ v ∧ v ≤ 9223372036854775807) :
    int64ToUInt64 (if v ≥ 0 then v else wrapInt64 (-v)) = v.natAbs := by
  unfold int64ToUInt64 wrapInt64
  split <;> omega

theorem UInt64ToNumber_eq (u : Nat) (hu : u < 18446744073709551616) :
    UInt64ToNumber u = ⟨20, ((decimalNumeral u).length : Int), false, decimalNumeral u⟩ := by
  unfold UInt64ToNumber
  simp [divLoop1E9_numeral [] u hu, UINT64_PRECISION]

theorem Int64ToNumber_eq (v : Int)
    (hv : -9223372036854775808 ≤ v ∧ v ≤ 9223372036854775807) :
    Int64ToNumber v =
      ⟨19, ((decimalNumeral v.natAbs).length : Int), decide (v < 0), decimalNumeral v.natAbs⟩ := by
  unfold Int64ToNumber
  simp only [int64_magnitude_cast v hv]
  have hlt : v.natAbs < 18446744073709551616 := by omega
  simp [divLoop1E9_numeral [] v.natAbs hlt, INT64_PRECISION]

/-- C10: for every 64-bit signed `v` (`INT64_MIN` included) `Int64ToNumber`,
and for every 64-bit unsigned `u` `UInt64ToNumber`, produce the decimal
numeral of the magnitude without leading zeros, with `scale` equal to its
length; the numeral has at most 19 digits for `Int64ToNumber` and at most 20
for `UInt64ToNumber`, the capacities of the scratch buffers written by the
division-by-10^9 loop. -/
theorem Int64ToNumber_spec (v : Int) (u : Nat)
    (hv : -9223372036854775808 ≤ v ∧ v ≤ 9223372036854775807)
    (hu : u < 18446744073709551616) :
    ((Int64ToNumber v).sign = decide (v < 0) ∧
      (Int64ToNumber v).digits = decimalNumeral v.natAbs ∧
      IsDecimal (Int64ToNumber v).digits ∧
      wcharAt (Int64ToNumber v).digits 0 ≠ 48 ∧
      (Int64ToNumber v).scale = ((Int64ToNumber v).digits.length : Int) ∧
      (Int64ToNumber v).magnitude = (v.natAbs : ℚ) ∧
      (Int32ToDecChars (divLoop1E9 [] v.natAbs).1
        (LO32 (divLoop1E9 [] v.natAbs).2) 0).length ≤ INT64_PRECISION) ∧
    ((UInt64ToNumber u).sign = false ∧
      (UInt64ToNumber u).digits = decimalNumeral u ∧
      IsDecimal (UInt64ToNumber u).digits ∧
      wcharAt (UInt64ToNumber u).digits 0 ≠ 48 ∧
      (UInt64ToNumber u).scale = ((UInt64ToNumber u).digits.length : Int) ∧
      (UInt64ToNumber u).magnitude = (u : ℚ) ∧
      (Int32ToDecChars (divLoop1E9 [] u).1
        (LO32 (divLoop1E9 [] u).2) 0).length ≤ UINT64_PRECISION) := by
  have hlt : v.natAbs < 18446744073709551616 := by omega
  rw [Int64ToNumber_eq v hv, UInt64ToNumber_eq u hu, divLoop1E9_numeral [] u hu,
    divLoop1E9_numeral [] v.natAbs hlt]
  refine ⟨⟨rfl, rfl, decimalNumeral_isDecimal _, decimalNumeral_head_ne_zero _, rfl,
    numberOfNumeral_magnitude _ _ _, ?_⟩, rfl, rfl, decimalNumeral_isDecimal _,
    decimalNumeral_head_ne_zero _, rfl, numberOfNumeral_magnitude _ _ _, ?_⟩
  · simp only [List.append_nil, INT64_PRECISION]
    exact decimalNumeral_length_le _ 19 (by omega)
  · simp only [List.append_nil, UINT64_PRECISION]
    exact decimalNumeral_length_le _ 20 (by omega)

theorem Int64ToNumber_spec_witness :
    (Int64ToNumber (-9223372036854775808)).digits = decimalNumeral 9223372036854775808 ∧
      (UInt64ToNumber 18446744073709551615).digits = decimalNumeral 18446744073709551615 :=
  have h := Int64ToNumber_spec (-9223372036854775808) 18446744073709551615
    (by decide) (by decide)
  ⟨h.1.2.1, h.2.2.1⟩

/-! ## Bit-level facts for the mantissa arithmetic -/

theorem and_shiftLeft_eq (x m k : Nat) : x &&& (m <<< k) = ((x >>> k) &&& m) <<< k := by
  apply Nat.eq_of_testBit_eq
  intro i
  simp only [Nat.testBit_and, Nat.testBit_shiftLeft, Nat.testBit_shiftRight]
  by_cases h : k ≤ i
  · have : k + (i - k) = i := by omega
    simp [h, this]
  · simp [h]

theorem and_high_mask (x k w : Nat) :
    x &&& ((2 ^ w - 1) <<< k) = x / 2 ^ k % 2 ^ w * 2 ^ k := by
  rw [and_shiftLeft_eq, Nat.and_pow_two_sub_one_eq_mod, Nat.shiftRight_eq_div_pow,
    Nat.shiftLeft_eq]

theorem and_high_mask_eq_zero (x k w : Nat) (hx : x < 2 ^ (k + w)) :
    x &&& ((2 ^ w - 1) <<< k) = 0 ↔ x < 2 ^ k := by
  rw [and_high_mask]
  have hdiv : x / 2 ^ k < 2 ^ w := by
    apply Nat.div_lt_of_lt_mul
    rw [← pow_add]; exact hx
  rw [Nat.mod_eq_of_lt hdiv]
  have hpos : 0 < 2 ^ k := Nat.pow_pos (by decide)
  constructor
  · intro h
    rcases Nat.mul_eq_zero.mp h with h1 | h1
    · exact (Nat.div_eq_zero_iff hpos).mp h1
    · omega
  · intro h
    rw [Nat.div_eq_of_lt h]; simp

/-- One normalisation step with the mask of the top `sh` bits of a 64-bit word. -/
theorem normStep_eq (sh : Nat) (hsh : sh ≤ 64) (val : Nat) (e : Int)
    (hval : val < 2 ^ 64) :
    normStep ((2 ^ sh - 1) <<< (64 - sh)) sh (val, e) =
      if val < 2 ^ (64 - sh) then (val * 2 ^ sh, e - sh) else (val, e) := by
  unfold normStep
  have hx : val < 2 ^ (64 - sh + sh) := by
    have : 64 - sh + sh = 64 := by omega
    rw [this]; exact hval
  have hiff := and_high_mask_eq_zero val (64 - sh) sh hx
  by_cases hlt : val < 2 ^ (64 - sh)
  · have h0 := hiff.mpr hlt
    simp only [h0, beq_self_eq_true, if_true, hlt]
    have hmul : val * 2 ^ sh < 2 ^ 64 := by
      calc val * 2 ^ sh < 2 ^ (64 - sh) * 2 ^ sh := Nat.mul_lt_mul_of_pos_right hlt (Nat.pow_pos (by decide))
        _ = 2 ^ 64 := by rw [← pow_add]; congr 1; omega
    unfold toUInt64
    rw [Nat.shiftLeft_eq, Nat.mod_eq_of_lt (by simpa using hmul)]
  · have h0 : ¬ (val &&& ((2 ^ sh - 1) <<< (64 - sh)) = 0) := fun h => hlt (hiff.mp h)
    simp [h0, hlt]

/-- Invariant of one normalisation step: a word with at least `64 - 2 * sh`
significant bits leaves the step with at least `64 - sh`. -/
theorem normStep_inv (sh : Nat) (hsh : 2 * sh ≤ 64) (v0 t : Nat)
    (hlo : 2 ^ (64 - 2 * sh) ≤ v0 * 2 ^ t) (hhi : v0 * 2 ^ t < 2 ^ 64) :
    ∃ t2 : Nat, t ≤ t2 ∧ t2 ≤ t + sh ∧
      normStep ((2 ^ sh - 1) <<< (64 - sh)) sh (v0 * 2 ^ t, 64 - (t : Int)) =
        (v0 * 2 ^ t2, 64 - (t2 : Int)) ∧
      2 ^ (64 - sh) ≤ v0 * 2 ^ t2 ∧ v0 * 2 ^ t2 < 2 ^ 64 := by
  rw [normStep_eq sh (by omega) _ _ hhi]
  by_cases hlt : v0 * 2 ^ t < 2 ^ (64 - sh)
  · refine ⟨t + sh, by omega, by omega, ?_, ?_, ?_⟩
    · simp only [hlt, if_true, pow_add, mul_assoc]
      congr 1
      push_cast
      ring
    · calc 2 ^ (64 - sh) = 2 ^ (64 - 2 * sh) * 2 ^ sh := by
            rw [← pow_add]; congr 1; omega
        _ ≤ v0 * 2 ^ t * 2 ^ sh := Nat.mul_le_mul_right _ hlo
        _ = v0 * 2 ^ (t + sh) := by rw [pow_add, mul_assoc]
    · calc v0 * 2 ^ (t + sh) = v0 * 2 ^ t * 2 ^ sh := by rw [pow_add, mul_assoc]
        _ < 2 ^ (64 - sh) * 2 ^ sh := Nat.mul_lt_mul_of_pos_right hlt (Nat.pow_pos (by decide))
        _ = 2 ^ 64 := by rw [← pow_add]; congr 1; omega
  · refine ⟨t, le_refl _, by omega, ?_, by omega, hhi⟩
    simp only [hlt, if_false]

/-- The mantissa normalisation: the result has its top bit set and denotes
the same value `val * 2^(exp - 64)`. -/
theorem normalizeMantissa_spec (val : Nat) (hpos : 0 < val) (hval : val < 2 ^ 64) :
    ∃ t : Nat, t ≤ 63 ∧ normalizeMantissa val 64 = (val * 2 ^ t, 64 - (t : Int)) ∧
      2 ^ 63 ≤ val * 2 ^ t ∧ val * 2 ^ t < 2 ^ 64 := by
  unfold normalizeMantissa
  have m32 : (0xFFFFFFFF00000000 : Nat) = (2 ^ 32 - 1) <<< (64 - 32) := by
    rw [Nat.shiftLeft_eq]; norm_num
  have m16 : (0xFFFF000000000000 : Nat) = (2 ^ 16 - 1) <<< (64 - 16) := by
    rw [Nat.shiftLeft_eq]; norm_num
  have m8 : (0xFF00000000000000 : Nat) = (2 ^ 8 - 1) <<< (64 - 8) := by
    rw [Nat.shiftLeft_eq]; norm_num
  have m4 : (0xF000000000000000 : Nat) = (2 ^ 4 - 1) <<< (64 - 4) := by
    rw [Nat.shiftLeft_eq]; norm_num
  have m2 : (0xC000000000000000 : Nat) = (2 ^ 2 - 1) <<< (64 - 2) := by
    rw [Nat.shiftLeft_eq]; norm_num
  have m1 : (0x8000000000000000 : Nat) = (2 ^ 1 - 1) <<< (64 - 1) := by
    rw [Nat.shiftLeft_eq]; norm_num
  rw [m32, m16, m8, m4, m2, m1]
  have h0 : (val, (64 : Int)) = (val * 2 ^ 0, 64 - ((0 : Nat) : Int)) := by simp
  rw [h0]
  obtain ⟨t1, ht1a, ht1b, hs1, hlo1, hhi1⟩ :=
    normStep_inv 32 (by decide) val 0 (by simpa using hpos) (by simpa using hval)
  rw [hs1]
  obtain ⟨t2, ht2a, ht2b, hs2, hlo2, hhi2⟩ := normStep_inv 16 (by decide) val t1 hlo1 hhi1
  rw [hs2]
  obtain ⟨t3, ht3a, ht3b, hs3, hlo3, hhi3⟩ := normStep_inv 8 (by decide) val t2 hlo2 hhi2
  rw [hs3]
  obtain ⟨t4, ht4a, ht4b, hs4, hlo4, hhi4⟩ := normStep_inv 4 (by decide) val t3 hlo3 hhi3
  rw [hs4]
  obtain ⟨t5, ht5a, ht5b, hs5, hlo5, hhi5⟩ := normStep_inv 2 (by decide) val t4 hlo4 hhi4
  rw [hs5]
  obtain ⟨t6, ht6a, ht6b, hs6, hlo6, hhi6⟩ := normStep_inv 1 (by decide) val t5 hlo5 hhi5
  rw [hs6]
  exact ⟨t6, by omega, rfl, hlo6, hhi6⟩

theorem and_bit10 (x : Nat) : x &&& (1 <<< 10) = x / 1024 % 2 * 1024 := by
  have := and_high_mask x 10 1
  simpa using this

theorem or_top_bit (b : Nat) (hb : b < 2 ^ 63) :
    b ||| 0x8000000000000000 = 9223372036854775808 + b := by
  have := Nat.mul_add_lt_is_or hb 1
  rw [Nat.or_comm]
  norm_num at this ⊢
  omega

theorem mod64_cases (S : Nat) (h : S < 2 * 18446744073709551616) :
    (S < 18446744073709551616 ∧ S % 18446744073709551616 = S) ∨
    (18446744073709551616 ≤ S ∧ S % 18446744073709551616 = S - 18446744073709551616) := by
  rcases Nat.lt_or_ge S 18446744073709551616 with h1 | h1
  · left; exact ⟨h1, Nat.mod_eq_of_lt h1⟩
  · right
    refine ⟨h1, ?_⟩
    rw [Nat.mod_eq_sub_mod h1, Nat.mod_eq_of_lt (by omega)]

/-- The `round & scale down` step is round-half-even to 53 bits; a carry out
of the mantissa renormalises it to `2^52` with the exponent incremented. -/
theorem roundScaleDown_eq (val : Nat) (e : Int) (h63 : 2 ^ 63 ≤ val) (h64 : val < 2 ^ 64) :
    roundScaleDown val e =
      if roundHalfEven11 val = 2 ^ 53 then (2 ^ 52, e + 1) else (roundHalfEven11 val, e) := by
  obtain ⟨q, r, hr, rfl⟩ : ∃ q r, r < 2048 ∧ val = 2048 * q + r :=
    ⟨val / 2048, val % 2048, Nat.mod_lt _ (by decide), (Nat.div_add_mod val 2048).symm⟩
  have hq : (2048 * q + r) / 2048 = q := by omega
  have hrm : (2048 * q + r) % 2048 = r := by omega
  have hb10 : (2048 * q + r) % 4294967296 / 1024 % 2 = r / 1024 := by omega
  have hlsb : (2048 * q + r) % 4294967296 / 2048 % 2 = q % 2 := by omega
  unfold roundScaleDown roundHalfEven11 toUInt32 toUInt64
  rw [and_bit10, Nat.and_one_is_mod]
  simp only [Nat.shiftRight_eq_div_pow, Nat.one_shiftLeft]
  norm_num only at h63 h64 ⊢
  rw [hq, hrm, hb10, hlsb]
  have hS := mod64_cases (2048 * q + r + 1023 + q % 2) (by omega)
  by_cases hb : r / 1024 = 1
  · have hne : (r / 1024 * 1024 != 0) = true := by
      rw [hb]; decide
    simp only [hne, if_true]
    by_cases hov : (2048 * q + r + 1023 + q % 2) % 18446744073709551616 < 2048 * q + r
    · simp only [hov, if_true]
      have hsmall : (2048 * q + r + 1023 + q % 2) % 18446744073709551616 / 2 < 2 ^ 63 := by
        omega
      rw [or_top_bit _ hsmall]
      have hcond : q + (if r > 1024 ∨ r = 1024 ∧ q % 2 = 1 then 1 else 0) =
          9007199254740992 := by
        rcases hS with ⟨h1, h2⟩ | ⟨h1, h2⟩
        · rw [h2] at hov; omega
        · rw [h2] at hov; split <;> omega
      simp only [hcond, if_true]
      congr 1
      rcases hS with ⟨h1, h2⟩ | ⟨h1, h2⟩
      · rw [h2] at hov ⊢; omega
      · rw [h2] at hov ⊢; omega
    · simp only [hov, if_false]
      have hboth : (2048 * q + r + 1023 + q % 2) % 18446744073709551616 / 2048 =
            q + (if r > 1024 ∨ r = 1024 ∧ q % 2 = 1 then 1 else 0) ∧
          ¬ (q + (if r > 1024 ∨ r = 1024 ∧ q % 2 = 1 then 1 else 0) = 9007199254740992) := by
        rcases hS with ⟨h1, h2⟩ | ⟨h1, h2⟩
        · rw [h2] at hov ⊢; split <;> omega
        · rw [h2] at hov; omega
      simp only [hboth.2, if_false, hboth.1]
  · have hne : (r / 1024 * 1024 != 0) = false := by
      have : r / 1024 = 0 := by omega
      rw [this]; decide
    simp only [hne]
    have hc : ¬ (r > 1024 ∨ r = 1024 ∧ q % 2 = 1) := by omega
    simp only [hc, if_false, add_zero]
    have hcond : ¬ (q = 9007199254740992) := by omega
    simp [hcond]

/-! ## Packing the digits into the mantissa -/

theorem DigitsToIntLoop_eq (l : List Nat) (res : Nat) (hdec : IsDecimal l)
    (hbound : res * 10 ^ l.length + digitsValue l < 4294967296) :
    DigitsToIntLoop l res = res * 10 ^ l.length + digitsValue l := by
  unfold DigitsToIntLoop
  induction l generalizing res with
  | nil => simp [digitsValue]
  | cons c cs ih =>
    have hc := hdec c (List.mem_cons_self _ _)
    have hcs : IsDecimal cs := fun d hd => hdec d (List.mem_cons_of_mem _ hd)
    rw [digitsValue_cons, List.length_cons, pow_succ] at hbound
    have hpos : 0 < 10 ^ cs.length := Nat.pow_pos (by decide)
    have hstep : toUInt32 (10 * res + c + (4294967296 - 48)) = 10 * res + (c - 48) := by
      unfold toUInt32
      have h1 : 10 * res + (c - 48) < 4294967296 := by
        have : (10 * res + (c - 48)) * 1 ≤ (10 * res + (c - 48)) * 10 ^ cs.length :=
          Nat.mul_le_mul_left _ hpos
        have h3 : (10 * res + (c - 48)) * 10 ^ cs.length =
            res * (10 ^ cs.length * 10) + (c - 48) * 10 ^ cs.length := by ring
        omega
      omega
    rw [List.foldl_cons, hstep, ih _ hcs (by
      have h3 : (10 * res + (c - 48)) * 10 ^ cs.length =
          res * (10 ^ cs.length * 10) + (c - 48) * 10 ^ cs.length := by ring
      omega)]
    rw [digitsValue_cons, List.length_cons, pow_succ]
    ring

theorem DigitsToInt_eq (p : List Nat) (count : Nat) (hdec : IsDecimal p)
    (h1 : 1 ≤ count) (h9 : count ≤ 9) (hlen : count ≤ p.length) :
    DigitsToInt p count = digitsValue (p.take count) := by
  obtain ⟨c, cs, rfl⟩ := List.exists_cons_of_ne_nil
    (by intro h0; rw [h0] at hlen; simp at hlen; omega : p ≠ [])
  obtain ⟨k, rfl⟩ : ∃ k, count = k + 1 := ⟨count - 1, by omega⟩
  have hc := hdec c (List.mem_cons_self _ _)
  have hcs : IsDecimal (cs.take k) :=
    fun d hd => hdec d (List.mem_cons_of_mem _ (List.mem_of_mem_take hd))
  have hlt := digitsValue_lt (c :: cs.take k) (by
    intro d hd
    rcases List.mem_cons.mp hd with h | h
    · rw [h]; exact hc
    · exact hcs d h)
  have hlenk : (cs.take k).length = k := by
    simp only [List.length_take, List.length_cons] at hlen ⊢; omega
  rw [digitsValue_cons, List.length_cons, hlenk] at hlt
  have hpow : 10 ^ (k + 1) ≤ 10 ^ 9 := Nat.pow_le_pow_right (by decide) h9
  unfold DigitsToInt
  simp only [List.take_succ_cons, List.drop_succ_cons, List.drop_zero, wcharAt,
    List.getD_cons_zero]
  have hfirst : toUInt32 (c + (4294967296 - 48)) = c - 48 := by
    unfold toUInt32; omega
  rw [hfirst, DigitsToIntLoop_eq _ _ hcs (by rw [hlenk]; omega), digitsValue_cons]

theorem power10_denormalized (count : Nat) (h1 : 1 ≤ count) (h9 : count ≤ 9) :
    toUInt32 (tableAt rgval64Power10 ((count : Int) - 1) >>>
      (64 - tableAt rgexp64Power10 ((count : Int) - 1)).toNat) = 10 ^ count := by
  interval_cases count <;> rfl

/-- The mantissa packed by `NumberToDouble`: the integer written by the first
18 digits, with the count of the digits left unread. -/
theorem packMantissa_eq (src : List Nat) (hdec : IsDecimal src) (hne : src ≠ []) :
    packMantissa src = (digitsValue (src.take 18), src.length - 18) := by
  have hlen : 0 < src.length := List.length_pos.mpr hne
  unfold packMantissa
  simp only
  by_cases hlong : src.length - min src.length 9 > 0
  · have h9 : 9 < src.length := by omega
    have hmin : min src.length 9 = 9 := by omega
    simp only [hlong, if_true, hmin]
    set c2 := min (src.length - 9) 9 with hc2
    have hc2a : 1 ≤ c2 := by omega
    have hc2b : c2 ≤ 9 := by omega
    rw [power10_denormalized c2 hc2a hc2b]
    rw [DigitsToInt_eq src 9 hdec (by decide) (by decide) (by omega)]
    have hdropdec : IsDecimal (src.drop 9) := fun c hc => hdec c (List.mem_of_mem_drop hc)
    rw [DigitsToInt_eq (src.drop 9) c2 hdropdec hc2a hc2b (by simp; omega)]
    have h1 := digitsValue_lt _ (hdec.take 9)
    have h2 := digitsValue_lt _ (hdropdec.take c2)
    have hl1 : (src.take 9).length = 9 := by simp; omega
    have hl2 : ((src.drop 9).take c2).length = c2 := by simp; omega
    rw [hl1] at h1
    rw [hl2] at h2
    have hp : 10 ^ c2 ≤ 1000000000 := by
      calc 10 ^ c2 ≤ 10 ^ 9 := Nat.pow_le_pow_right (by decide) hc2b
        _ = 1000000000 := by norm_num
    have h1n : digitsValue (List.take 9 src) < 1000000000 := by
      calc digitsValue (List.take 9 src) < 10 ^ 9 := h1
        _ = 1000000000 := by norm_num
    have htake : src.take 18 = src.take 9 ++ (src.drop 9).take c2 := by
      have h18 : src.take 18 = src.take (9 + c2) := by
        by_cases h : src.length - 9 ≤ 9
        · have : c2 = src.length - 9 := by omega
          rw [List.take_of_length_le (by omega), List.take_of_length_le (by omega)]
        · have : c2 = 9 := by omega
          rw [this]
      rw [h18, List.take_add]
    rw [htake, digitsValue_append, hl2]
    unfold Mul32x32To64 toUInt32 toUInt64
    have hm : digitsValue (List.take 9 src) * 10 ^ c2 < 1000000000 * 1000000000 :=
      Nat.mul_lt_mul_of_lt_of_le h1n hp (by decide)
    have hA : digitsValue (List.take 9 src) < 4294967296 := by omega
    have hT : 10 ^ c2 < 4294967296 := by omega
    have hsum : digitsValue (List.take 9 src) * 10 ^ c2 +
        digitsValue (List.take c2 (List.drop 9 src)) < 18446744073709551616 := by omega
    rw [Nat.mod_eq_of_lt hA, Nat.mod_eq_of_lt hT, Nat.mod_eq_of_lt hsum]
    have hrem : src.length - 9 - c2 = src.length - 18 := by omega
    rw [hrem, if_pos (by omega)]
  · have h9 : src.length ≤ 9 := by omega
    have hmin : min src.length 9 = src.length := by omega
    simp only [hlong, if_false, hmin]
    rw [DigitsToInt_eq src src.length hdec (by omega) h9 (le_refl _)]
    rw [List.take_of_length_le (le_refl _), List.take_of_length_le (by omega)]
    have hz : src.length - 18 = 0 := by omega
    rw [hz, Nat.sub_self]
    simp

/-! ## Assembling and decoding the bit pattern -/

/-- The normal-number branch of the final assembly. -/
theorem assembleDouble_normal (m : Nat) (e : Int) (hm1 : 2 ^ 52 ≤ m) (hm2 : m < 2 ^ 53)
    (he1 : 1 ≤ e + 1022) (he2 : e + 1022 ≤ 2046) :
    assembleDouble m e = (e + 1022).toNat * 2 ^ 52 + (m - 2 ^ 52) := by
  unfold assembleDouble toUInt64
  have hmask : (0x000FFFFFFFFFFFFF : Nat) = 2 ^ 52 - 1 := by norm_num
  rw [hmask, Nat.and_pow_two_sub_one_eq_mod]
  simp only [Nat.shiftLeft_eq]
  have h1 : ¬ (e + 0x3FE ≤ 0) := by norm_num; omega
  have h2 : ¬ (e + 0x3FE ≥ 0x7FF) := by norm_num; omega
  simp only [h1, h2, if_false]
  have h3 : (e + 0x3FE).toNat = (e + 1022).toNat := by norm_num
  rw [h3]
  obtain ⟨E, hE⟩ : ∃ E : Nat, (e + 1022).toNat = E := ⟨_, rfl⟩
  have hE2 : E ≤ 2046 := by omega
  rw [hE]
  norm_num only at hm1 hm2 ⊢
  have hmod : m % 4503599627370496 = m - 4503599627370496 := by omega
  rw [hmod]
  exact Nat.mod_eq_of_lt (by omega)

theorem applySign_eq (s : Bool) (b : Nat) (hb : b < 2 ^ 63) :
    applySign s b = (if s then 2 ^ 63 else 0) + b := by
  unfold applySign
  cases s
  · simp
  · simp only [if_true]
    rw [or_top_bit b hb]
    norm_num

/-- Decoding a pattern assembled from a sign, a biased exponent in the normal
range and a fraction. -/
theorem decode_normal (s : Bool) (E f : Nat) (hE1 : 1 ≤ E) (hE2 : E ≤ 2046)
    (hf : f < 2 ^ 52) :
    IsFiniteDouble (applySign s (E * 2 ^ 52 + f)) ∧
      doubleSignBit (applySign s (E * 2 ^ 52 + f)) = s ∧
      doubleSignificand (applySign s (E * 2 ^ 52 + f)) = 2 ^ 52 + f ∧
      doubleUlpExp (applySign s (E * 2 ^ 52 + f)) = (E : Int) - 1075 := by
  have hb : E * 2 ^ 52 + f < 2 ^ 63 := by
    norm_num only at hf ⊢; omega
  rw [applySign_eq s _ hb]
  have hexp : doubleExpField ((if s then 2 ^ 63 else 0) + (E * 2 ^ 52 + f)) = E := by
    unfold doubleExpField
    norm_num only at hf ⊢
    cases s <;> simp only [if_true, if_false, Bool.false_eq_true] <;> omega
  have hfrac : doubleFraction ((if s then 2 ^ 63 else 0) + (E * 2 ^ 52 + f)) = f := by
    unfold doubleFraction
    norm_num only at hf ⊢
    cases s <;> simp only [if_true, if_false, Bool.false_eq_true] <;> omega
  refine ⟨⟨?_, ?_⟩, ?_, ?_, ?_⟩
  · norm_num only at hb ⊢
    cases s <;> simp only [if_true, if_false, Bool.false_eq_true] <;> omega
  · rw [hexp]; omega
  · unfold doubleSignBit
    norm_num only at hb ⊢
    cases s
    · simp only [Bool.false_eq_true, if_false, decide_eq_false_iff_not]; omega
    · simp only [if_true, decide_eq_true_eq]; omega
  · unfold doubleSignificand
    rw [hexp, hfrac]
    have : E ≠ 0 := by omega
    simp [this]
  · unfold doubleUlpExp
    rw [hexp]
    have : E ≠ 0 := by omega
    simp [this]

/-! ## Rounding to 53 bits gives the nearest double -/

theorem doubleSignificand_lt (d : Nat) : doubleSignificand d < 2 ^ 53 := by
  unfold doubleSignificand doubleFraction
  have : d % 2 ^ 52 < 2 ^ 52 := Nat.mod_lt _ (Nat.pow_pos (by decide))
  split <;> omega

/-- Scaled by `2^t`, the magnitude of a double is a multiple of `2^11` or
lies below `2^63`. -/
theorem finite_double_grid (d t : Nat) :
    (∃ k : Nat, doubleMagnitude d * (2 : ℚ) ^ t = 2048 * (k : ℚ)) ∨
      doubleMagnitude d * (2 : ℚ) ^ t < 2 ^ 63 := by
  have h2 : (2 : ℚ) ≠ 0 := by norm_num
  have hsig := doubleSignificand_lt d
  have hmag : doubleMagnitude d * (2 : ℚ) ^ t =
      (doubleSignificand d : ℚ) * (2 : ℚ) ^ (doubleUlpExp d + (t : Int)) := by
    unfold doubleMagnitude
    rw [mul_assoc, zpow_add₀ h2, zpow_natCast]
  rw [hmag]
  by_cases hg : 11 ≤ doubleUlpExp d + (t : Int)
  · left
    obtain ⟨n, hn⟩ : ∃ n : Nat, doubleUlpExp d + (t : Int) = (n : Int) + 11 :=
      ⟨(doubleUlpExp d + (t : Int) - 11).toNat, by omega⟩
    refine ⟨doubleSignificand d * 2 ^ n, ?_⟩
    rw [hn, zpow_add₀ h2, zpow_natCast]
    push_cast
    norm_num
    ring
  · right
    have hle : (2 : ℚ) ^ (doubleUlpExp d + (t : Int)) ≤ (2 : ℚ) ^ (10 : Int) :=
      zpow_le_zpow_right₀ (by norm_num) (by omega)
    have hsigq : (doubleSignificand d : ℚ) ≤ 2 ^ 53 - 1 := by
      have : doubleSignificand d ≤ 2 ^ 53 - 1 := by omega
      have h := (Nat.cast_le (α := ℚ)).mpr this
      push_cast at h
      linarith
    have hpos : (0 : ℚ) ≤ (2 : ℚ) ^ (doubleUlpExp d + (t : Int)) := by positivity
    calc (doubleSignificand d : ℚ) * (2 : ℚ) ^ (doubleUlpExp d + (t : Int))
        ≤ (2 ^ 53 - 1) * (2 : ℚ) ^ (10 : Int) := by
          apply mul_le_mul hsigq hle hpos
          norm_num
      _ < 2 ^ 63 := by norm_num

/-- Integer core of the nearest-rounding argument: no multiple of `2^11` is
closer to `2048 q + r` than the half-even rounding, and a tie forces an even
result. -/
theorem roundHalfEven11_closest (q r k : Nat) (hr : r < 2048) :
    ((2048 * (roundHalfEven11 (2048 * q + r) : Int) - (2048 * q + r : Int)).natAbs ≤
        (2048 * (k : Int) - (2048 * q + r : Int)).natAbs) ∧
      ((2048 * (k : Int) - (2048 * q + r : Int)).natAbs =
          (2048 * (roundHalfEven11 (2048 * q + r) : Int) - (2048 * q + r : Int)).natAbs →
        k ≠ roundHalfEven11 (2048 * q + r) → roundHalfEven11 (2048 * q + r) % 2 = 0) ∧
      (2048 * (roundHalfEven11 (2048 * q + r) : Int) - (2048 * q + r : Int)).natAbs ≤ r := by
  unfold roundHalfEven11
  have hq : (2048 * q + r) / 2048 = q := by omega
  have hrm : (2048 * q + r) % 2048 = r := by omega
  rw [hq, hrm]
  split
  · push_cast; refine ⟨by omega, by omega, by omega⟩
  · push_cast; refine ⟨by omega, by omega, by omega⟩

theorem abs_sub_mul_pos (a b s : ℚ) (hs : 0 < s) : |a - b| * s = |a * s - b * s| := by
  rw [← sub_mul, abs_mul, abs_of_pos hs]

theorem natAbs_le_cast (a b : Int) (h : a.natAbs ≤ b.natAbs) : |(a : ℚ)| ≤ |(b : ℚ)| := by
  have h1 : |a| ≤ |b| := by
    rw [← Int.natCast_natAbs, ← Int.natCast_natAbs]
    exact_mod_cast h
  exact_mod_cast h1

theorem natAbs_eq_of_cast (a b : Int) (h : |(a : ℚ)| = |(b : ℚ)|) : a.natAbs = b.natAbs := by
  have h1 : |a| = |b| := by exact_mod_cast h
  rw [← Int.natCast_natAbs, ← Int.natCast_natAbs] at h1
  exact_mod_cast h1

/-- A finite double whose significand and exponent are those of the 64-bit
word `V * 2^t` rounded half-even to 53 bits is the double nearest to `V`. -/
theorem round_is_nearest (V t bits : Nat) (h63 : 2 ^ 63 ≤ V * 2 ^ t)
    (hfin : IsFiniteDouble bits)
    (hsig : doubleSignificand bits =
      if roundHalfEven11 (V * 2 ^ t) = 2 ^ 53 then 2 ^ 52 else roundHalfEven11 (V * 2 ^ t))
    (hexp : doubleUlpExp bits =
      (if roundHalfEven11 (V * 2 ^ t) = 2 ^ 53 then 1 else 0) + 11 - (t : Int)) :
    IsNearestDouble (V : ℚ) bits := by
  have h2 : (2 : ℚ) ≠ 0 := by norm_num
  have hs : (0 : ℚ) < (2 : ℚ) ^ t := by positivity
  set W := V * 2 ^ t with hW
  set R := roundHalfEven11 W with hR
  obtain ⟨q, r, hr, hWqr⟩ : ∃ q r, r < 2048 ∧ W = 2048 * q + r :=
    ⟨W / 2048, W % 2048, Nat.mod_lt _ (by decide), (Nat.div_add_mod W 2048).symm⟩
  have hq : 2 ^ 52 ≤ q := by
    norm_num only at h63 ⊢; omega
  -- the magnitude of the result, scaled
  have hmagb : doubleMagnitude bits * (2 : ℚ) ^ t = 2048 * (R : ℚ) := by
    unfold doubleMagnitude
    rw [hsig, hexp, mul_assoc, ← zpow_natCast, ← zpow_add₀ h2]
    by_cases hc : R = 2 ^ 53
    · simp only [hc, if_true]
      have : (1 : Int) + 11 - (t : Int) + (t : Int) = 12 := by ring
      rw [this]
      norm_num
    · simp only [hc, if_false]
      have : (0 : Int) + 11 - (t : Int) + (t : Int) = 11 := by ring
      rw [this]
      norm_num
      ring
  have hVW : (V : ℚ) * (2 : ℚ) ^ t = (W : ℚ) := by
    rw [hW]; push_cast; ring
  have hdistb : |doubleMagnitude bits - (V : ℚ)| * (2 : ℚ) ^ t =
      |((2048 * (R : Int) - (W : Int) : Int) : ℚ)| := by
    rw [abs_sub_mul_pos _ _ _ hs, hmagb, hVW]
    push_cast
    rfl
  have hcore := fun k => roundHalfEven11_closest q r k hr
  have hWi : (W : Int) = 2048 * (q : Int) + (r : Int) := by rw [hWqr]; push_cast; ring
  have hRq : R = roundHalfEven11 (2048 * q + r) := by rw [hR, hWqr]
  refine ⟨hfin, fun d _ => ?_⟩
  have hdistd : |doubleMagnitude d - (V : ℚ)| * (2 : ℚ) ^ t =
      |doubleMagnitude d * (2 : ℚ) ^ t - (W : ℚ)| := by
    rw [abs_sub_mul_pos _ _ _ hs, hVW]
  have hrb : |((2048 * (R : Int) - (W : Int) : Int) : ℚ)| ≤ (r : ℚ) := by
    have h3 := (hcore 0).2.2
    rw [← hRq, ← hWi] at h3
    have h4 : |(2048 * (R : Int) - (W : Int))| ≤ (r : Int) := by
      rw [← Int.natCast_natAbs]; exact_mod_cast h3
    exact_mod_cast h4
  rcases finite_double_grid d t with ⟨k, hk⟩ | hsmall
  · -- the competitor lies on the grid of multiples of `2^11`
    have hdk : |doubleMagnitude d * (2 : ℚ) ^ t - (W : ℚ)| =
        |((2048 * (k : Int) - (W : Int) : Int) : ℚ)| := by
      rw [hk]; push_cast; rfl
    have h1 := (hcore k).1
    have h2' := (hcore k).2.1
    rw [← hRq, ← hWi] at h1 h2'
    constructor
    · have := natAbs_le_cast _ _ h1
      have hle : |doubleMagnitude bits - (V : ℚ)| * (2 : ℚ) ^ t ≤
          |doubleMagnitude d - (V : ℚ)| * (2 : ℚ) ^ t := by
        rw [hdistb, hdistd, hdk]; exact this
      exact le_of_mul_le_mul_right hle hs
    · intro htie hne
      have hkR : k ≠ R := by
        intro hkR
        apply hne
        have : doubleMagnitude d * (2 : ℚ) ^ t = doubleMagnitude bits * (2 : ℚ) ^ t := by
          rw [hk, hmagb, hkR]
        exact mul_right_cancel₀ (ne_of_gt hs) this
      have htie2 : |((2048 * (k : Int) - (W : Int) : Int) : ℚ)| =
          |((2048 * (R : Int) - (W : Int) : Int) : ℚ)| := by
        rw [← hdk, ← hdistd, ← hdistb, htie]
      have heven := h2' (natAbs_eq_of_cast _ _ htie2) hkR
      rw [hsig]
      split
      · norm_num
      · exact heven
  · -- the competitor lies below the binade of the value
    have hlow : (2 : ℚ) ^ 63 ≤ 2048 * (q : ℚ) := by
      have : 2 ^ 63 ≤ 2048 * q := by norm_num only at hq ⊢; omega
      exact_mod_cast this
    have hWq : (W : ℚ) = 2048 * (q : ℚ) + (r : ℚ) := by
      rw [hWqr]; push_cast; ring
    have hr0 : (0 : ℚ) ≤ (r : ℚ) := by positivity
    have hgap : (r : ℚ) < |doubleMagnitude d * (2 : ℚ) ^ t - (W : ℚ)| := by
      rw [abs_of_neg (by linarith)]
      linarith
    have hlt : |doubleMagnitude bits - (V : ℚ)| * (2 : ℚ) ^ t <
        |doubleMagnitude d - (V : ℚ)| * (2 : ℚ) ^ t := by
      rw [hdistb, hdistd]; exact lt_of_le_of_lt hrb hgap
    constructor
    · exact le_of_lt (lt_of_mul_lt_mul_right hlt (le_of_lt hs))
    · intro htie
      rw [htie] at hlt
      exact absurd hlt (lt_irrefl _)

/-! ## NumberToDouble on unscaled integers -/

theorem skipLeadingZeros_isDecimal (s : List Nat) (h : IsDecimal s) :
    IsDecimal (skipLeadingZeros s) := by
  intro c hc
  exact h c ((List.dropWhile_sublist _).subset hc)

theorem skipLeadingZeros_head (s : List Nat) : wcharAt (skipLeadingZeros s) 0 ≠ 48 := by
  unfold skipLeadingZeros
  induction s with
  | nil => simp [wcharAt]
  | cons c cs ih =>
    rw [List.dropWhile_cons]
    by_cases hc : c = 48
    · simp only [hc, beq_self_eq_true, if_true]; exact ih
    · have : (c == 48) = false := by simpa using hc
      simp only [this, Bool.false_eq_true, if_false]
      simpa [wcharAt] using hc

theorem digitsValue_pos_of_head (s : List Nat) (hdec : IsDecimal s) (hne : s ≠ [])
    (hhead : wcharAt s 0 ≠ 48) (k : Nat) (hk : 0 < k) : 0 < digitsValue (s.take k) := by
  obtain ⟨c, cs, rfl⟩ := List.exists_cons_of_ne_nil hne
  obtain ⟨j, rfl⟩ : ∃ j, k = j + 1 := ⟨k - 1, by omega⟩
  have hc := hdec c (List.mem_cons_self _ _)
  have hc2 : c ≠ 48 := by simpa [wcharAt] using hhead
  rw [List.take_succ_cons, digitsValue_cons]
  have hpos : 0 < 10 ^ (cs.take j).length := Nat.pow_pos (by decide)
  have : 1 * 10 ^ (cs.take j).length ≤ (c - 48) * 10 ^ (cs.take j).length :=
    Nat.mul_le_mul_right _ (by omega)
  omega

/-- With effective scale `0` no table multiply runs: the packed mantissa is
normalised, rounded and assembled. -/
theorem NumberToDoubleRun_unscaled (number : NUMBER)
    (hne : skipLeadingZeros number.digits ≠ []) (heff : effectiveScale number = 0) :
    NumberToDoubleRun number =
      ⟨applySign number.sign
        (assembleDouble
          (roundScaleDown
            (normalizeMantissa (packMantissa (skipLeadingZeros number.digits)).1 64).1
            (normalizeMantissa (packMantissa (skipLeadingZeros number.digits)).1 64).2).1
          (roundScaleDown
            (normalizeMantissa (packMantissa (skipLeadingZeros number.digits)).1 64).1
            (normalizeMantissa (packMantissa (skipLeadingZeros number.digits)).1 64).2).2), 0⟩ := by
  unfold NumberToDoubleRun
  have hlen : ¬ (skipLeadingZeros number.digits).length = 0 := by
    simpa [List.length_eq_zero] using hne
  have habs : abs32 0 = 0 := by decide
  simp only [beq_iff_eq, hlen, if_false, heff, habs]
  have hguard : ¬ ((0 : Int) ≥ 22 * 16) := by decide
  simp only [hguard, if_false]
  have hpow : ∀ (v : Nat) (e : Int), applyPowers v e 0 0 = (v, e, 0) := by
    intro v e
    unfold applyPowers applyTier
    simp
  rw [hpow]

theorem roundHalfEven11_range (W : Nat) (h63 : 2 ^ 63 ≤ W) (h64 : W < 2 ^ 64) :
    2 ^ 52 ≤ roundHalfEven11 W ∧ roundHalfEven11 W ≤ 2 ^ 53 := by
  unfold roundHalfEven11
  norm_num only at h63 h64 ⊢
  split <;> omega

/-- The bit pattern `NumberToDouble` assembles from an unscaled 64-bit
mantissa is the double nearest to that integer, with the requested sign. -/
theorem unscaled_bits_nearest (val : Nat) (hpos : 0 < val) (hlt : val < 2 ^ 64) (s : Bool) :
    doubleSignBit (applySign s (assembleDouble
        (roundScaleDown (normalizeMantissa val 64).1 (normalizeMantissa val 64).2).1
        (roundScaleDown (normalizeMantissa val 64).1 (normalizeMantissa val 64).2).2)) = s ∧
      IsNearestDouble (val : ℚ) (applySign s (assembleDouble
        (roundScaleDown (normalizeMantissa val 64).1 (normalizeMantissa val 64).2).1
        (roundScaleDown (normalizeMantissa val 64).1 (normalizeMantissa val 64).2).2)) := by
  obtain ⟨t, ht, hnorm, h63, h64⟩ := normalizeMantissa_spec val hpos hlt
  rw [hnorm]
  simp only
  rw [roundScaleDown_eq _ _ h63 h64]
  obtain ⟨hR1, hR2⟩ := roundHalfEven11_range _ h63 h64
  by_cases hc : roundHalfEven11 (val * 2 ^ t) = 2 ^ 53
  · simp only [hc, if_true]
    rw [assembleDouble_normal (2 ^ 52) _ (le_refl _) (by norm_num) (by omega) (by omega)]
    obtain ⟨hfin, hsign, hsig, hexp⟩ := decode_normal s (64 - (t : Int) + 1 + 1022).toNat
      (2 ^ 52 - 2 ^ 52) (by omega) (by omega) (by norm_num)
    refine ⟨hsign, round_is_nearest val t _ h63 hfin ?_ ?_⟩
    · rw [hsig]; simp [hc]
    · rw [hexp]; simp only [hc, if_true]; omega
  · simp only [hc, if_false]
    have hR3 : roundHalfEven11 (val * 2 ^ t) < 2 ^ 53 := lt_of_le_of_ne hR2 hc
    rw [assembleDouble_normal _ _ hR1 hR3 (by omega) (by omega)]
    obtain ⟨hfin, hsign, hsig, hexp⟩ := decode_normal s (64 - (t : Int) + 1022).toNat
      (roundHalfEven11 (val * 2 ^ t) - 2 ^ 52) (by omega) (by omega) (by omega)
    refine ⟨hsign, round_is_nearest val t _ h63 hfin ?_ ?_⟩
    · rw [hsig]; simp only [hc, if_false]; omega
    · rw [hexp]; simp only [hc, if_false]; omega

/-- Long buffers are converted as their first 18 significant digits: the
19-digit integer `1152921504606847105 = 2^60 + 129` lies nearer to the double
`2^60 + 256` (pattern `0x43B0000000000001`), but `NumberToDouble` reads only
its first 18 digits and returns `2^60`. -/
theorem NumberToDouble_19_digits_not_nearest :
    IsDecimal (⟨19, 19, false,
        [49, 49, 53, 50, 57, 50, 49, 53, 48, 52, 54, 48, 54, 56, 52, 55, 49, 48, 53]⟩ :
        NUMBER).digits ∧
      NumberToDouble ⟨19, 19, false,
        [49, 49, 53, 50, 57, 50, 49, 53, 48, 52, 54, 48, 54, 56, 52, 55, 49, 48, 53]⟩ =
        0x43B0000000000000 ∧
      (⟨19, 19, false,
        [49, 49, 53, 50, 57, 50, 49, 53, 48, 52, 54, 48, 54, 56, 52, 55, 49, 48, 53]⟩ :
        NUMBER).magnitude = 1152921504606847105 ∧
      ¬ IsNearestDouble 1152921504606847105 0x43B0000000000000 := by
  refine ⟨by decide, by decide, ?_, ?_⟩
  · norm_num [NUMBER.magnitude, digitsValue]
  · intro h
    have hd : IsFiniteDouble 0x43B0000000000001 := by
      unfold IsFiniteDouble doubleExpField; norm_num
    have h1 := (h.2 0x43B0000000000001 hd).1
    have e1 : doubleMagnitude 0x43B0000000000000 = 1152921504606846976 := by
      norm_num [doubleMagnitude, doubleSignificand, doubleUlpExp, doubleExpField, doubleFraction]
    have e2 : doubleMagnitude 0x43B0000000000001 = 1152921504606847232 := by
      norm_num [doubleMagnitude, doubleSignificand, doubleUlpExp, doubleExpField, doubleFraction]
    rw [e1, e2] at h1
    norm_num [abs_of_neg, abs_of_pos] at h1

theorem digitsValue_skipLeadingZeros (s : List Nat) :
    digitsValue (skipLeadingZeros s) = digitsValue s := by
  unfold skipLeadingZeros
  induction s with
  | nil => rfl
  | cons c cs ih =>
    rw [List.dropWhile_cons]
    by_cases hc : c = 48
    · simp only [hc, beq_self_eq_true, if_true]
      rw [ih, digitsValue_cons]
      simp
    · have : (c == 48) = false := by simpa using hc
      simp only [this, Bool.false_eq_true, if_false]

/-- Where the conversion is correctly rounded: on a digit buffer of decimal
digits with a non-zero digit whose effective scale is `0`, `NumberToDouble` returns the sign bit of the
buffer together with the finite double nearest (ties to even) to the integer
written by the first 18 significant digits; that integer is the value
`0.D1…Dn * 10^scale` of the buffer when it has at most 18 significant digits
and `scale` equals its digit count. -/
theorem NumberToDouble_unscaled_nearest (number : NUMBER) (hdec : IsDecimal number.digits)
    (hnz : ∃ c ∈ number.digits, c ≠ 48) (heff : effectiveScale number = 0) :
    doubleSignBit (NumberToDouble number) = number.sign ∧
      IsNearestDouble (digitsValue ((skipLeadingZeros number.digits).take 18) : ℚ)
        (NumberToDouble number) ∧
      ((skipLeadingZeros number.digits).length ≤ 18 →
        number.scale = (number.digits.length : Int) →
        number.magnitude = (digitsValue ((skipLeadingZeros number.digits).take 18) : ℚ)) := by
  have hne := skipLeadingZeros_ne_nil _ hnz
  have hsdec := skipLeadingZeros_isDecimal _ hdec
  have hpos := digitsValue_pos_of_head _ hsdec hne (skipLeadingZeros_head _) 18 (by decide)
  have hlt : digitsValue ((skipLeadingZeros number.digits).take 18) < 2 ^ 64 := by
    have h1 := digitsValue_lt _ (hsdec.take 18)
    have h2 : 10 ^ ((skipLeadingZeros number.digits).take 18).length ≤ 10 ^ 18 :=
      Nat.pow_le_pow_right (by decide) (by simp)
    have h3 : (10 : Nat) ^ 18 < 2 ^ 64 := by norm_num
    omega
  unfold NumberToDouble
  rw [NumberToDoubleRun_unscaled number hne heff, packMantissa_eq _ hsdec hne]
  obtain ⟨h1, h2⟩ := unscaled_bits_nearest _ hpos hlt number.sign
  refine ⟨h1, h2, ?_⟩
  intro hshort hscale
  rw [magnitude_of_scale_eq_length _ hscale, List.take_of_length_le hshort,
    digitsValue_skipLeadingZeros]

theorem NumberToDouble_unscaled_nearest_witness :
    doubleSignBit (NumberToDouble ⟨15, 16, true,
        [57, 48, 48, 55, 49, 57, 57, 50, 53, 52, 55, 52, 48, 57, 57, 51]⟩) = true ∧
      IsNearestDouble (digitsValue ((skipLeadingZeros
          [57, 48, 48, 55, 49, 57, 57, 50, 53, 52, 55, 52, 48, 57, 57, 51]).take 18) : ℚ)
        (NumberToDouble ⟨15, 16, true,
          [57, 48, 48, 55, 49, 57, 57, 50, 53, 52, 55, 52, 48, 57, 57, 51]⟩) :=
  have h := NumberToDouble_unscaled_nearest ⟨15, 16, true,
    [57, 48, 48, 55, 49, 57, 57, 50, 53, 52, 55, 52, 48, 57, 57, 51]⟩ (by decide) (by decide)
    (by decide)
  ⟨h.1, h.2.1⟩

/-- C1 fails on the scaled path: for the digits `649` with scale `-3`, the
value `0.000649`, `NumberToDouble` multiplies the packed mantissa by the table
entry for `10^-6` with `Mul64Lossy` and returns `0x3F454434E3369B9E`, while
the double `0x3F454434E3369B9D` just below it is strictly nearer to
`0.000649`: the result is not the nearest double. -/
theorem NumberToDouble_scaled_not_nearest :
    IsDecimal (⟨15, -3, false, [54, 52, 57]⟩ : NUMBER).digits ∧
      effectiveScale ⟨15, -3, false, [54, 52, 57]⟩ = -6 ∧
      NumberToDouble ⟨15, -3, false, [54, 52, 57]⟩ = 0x3F454434E3369B9E ∧
      (⟨15, -3, false, [54, 52, 57]⟩ : NUMBER).magnitude = 649 / 1000000 ∧
      IsFiniteDouble 0x3F454434E3369B9D ∧
      |doubleMagnitude 0x3F454434E3369B9D - 649 / 1000000| <
        |doubleMagnitude 0x3F454434E3369B9E - 649 / 1000000| ∧
      ¬ IsNearestDouble (649 / 1000000) 0x3F454434E3369B9E := by
  have e1 : doubleMagnitude 0x3F454434E3369B9E =
      5985968451918750 / 9223372036854775808 := by
    norm_num [doubleMagnitude, doubleSignificand, doubleUlpExp, doubleExpField, doubleFraction]
  have e2 : doubleMagnitude 0x3F454434E3369B9D =
      5985968451918749 / 9223372036854775808 := by
    norm_num [doubleMagnitude, doubleSignificand, doubleUlpExp, doubleExpField, doubleFraction]
  have hd : IsFiniteDouble 0x3F454434E3369B9D := by
    unfold IsFiniteDouble doubleExpField; norm_num
  have hlt : |doubleMagnitude 0x3F454434E3369B9D - 649 / 1000000| <
      |doubleMagnitude 0x3F454434E3369B9E - 649 / 1000000| := by
    rw [e1, e2]
    norm_num [abs_of_neg, abs_of_pos]
  refine ⟨by decide, by decide, by decide, ?_, hd, hlt, ?_⟩
  · norm_num [NUMBER.magnitude, digitsValue]
  · intro h
    exact absurd (h.2 0x3F454434E3369B9D hd).1 (not_le.mpr hlt)

/-! ## Error bound of the lossy multiply -/

/-- Integer core of `Mul64Lossy`: the three partial products undershoot the
high 64 bits of the 128-bit product by less than 3. -/
theorem mul64_partial_products (a b : Nat) (ha : 2 ^ 63 ≤ a) (ha2 : a < 2 ^ 64)
    (hb : 2 ^ 63 ≤ b) (hb2 : b < 2 ^ 64) :
    (a / 2 ^ 32 * (b / 2 ^ 32) + a / 2 ^ 32 * (b % 2 ^ 32) / 2 ^ 32 +
        a % 2 ^ 32 * (b / 2 ^ 32) / 2 ^ 32) * 2 ^ 64 ≤ a * b ∧
      a * b < (a / 2 ^ 32 * (b / 2 ^ 32) + a / 2 ^ 32 * (b % 2 ^ 32) / 2 ^ 32 +
        a % 2 ^ 32 * (b / 2 ^ 32) / 2 ^ 32 + 3) * 2 ^ 64 ∧
      2 ^ 62 ≤ a / 2 ^ 32 * (b / 2 ^ 32) + a / 2 ^ 32 * (b % 2 ^ 32) / 2 ^ 32 +
        a % 2 ^ 32 * (b / 2 ^ 32) / 2 ^ 32 ∧
      a / 2 ^ 32 * (b / 2 ^ 32) + a / 2 ^ 32 * (b % 2 ^ 32) / 2 ^ 32 +
        a % 2 ^ 32 * (b / 2 ^ 32) / 2 ^ 32 < 2 ^ 64 := by
  obtain ⟨ah, al, hal, rfl⟩ : ∃ ah al, al < 2 ^ 32 ∧ a = 2 ^ 32 * ah + al :=
    ⟨a / 2 ^ 32, a % 2 ^ 32, Nat.mod_lt _ (by norm_num), (Nat.div_add_mod a (2 ^ 32)).symm⟩
  obtain ⟨bh, bl, hbl, rfl⟩ : ∃ bh bl, bl < 2 ^ 32 ∧ b = 2 ^ 32 * bh + bl :=
    ⟨b / 2 ^ 32, b % 2 ^ 32, Nat.mod_lt _ (by norm_num), (Nat.div_add_mod b (2 ^ 32)).symm⟩
  have e1 : (2 ^ 32 * ah + al) / 2 ^ 32 = ah := by
    rw [Nat.mul_add_div (by norm_num), Nat.div_eq_of_lt hal, add_zero]
  have e2 : (2 ^ 32 * ah + al) % 2 ^ 32 = al := by
    rw [Nat.mul_add_mod, Nat.mod_eq_of_lt hal]
  have e3 : (2 ^ 32 * bh + bl) / 2 ^ 32 = bh := by
    rw [Nat.mul_add_div (by norm_num), Nat.div_eq_of_lt hbl, add_zero]
  have e4 : (2 ^ 32 * bh + bl) % 2 ^ 32 = bl := by
    rw [Nat.mul_add_mod, Nat.mod_eq_of_lt hbl]
  rw [e1, e2, e3, e4]
  have hah : 2 ^ 31 ≤ ah := by norm_num only at ha hal ⊢; omega
  have hbh : 2 ^ 31 ≤ bh := by norm_num only at hb hbl ⊢; omega
  have hah2 : ah < 2 ^ 32 := by norm_num only at ha2 hal ⊢; omega
  have hbh2 : bh < 2 ^ 32 := by norm_num only at hb2 hbl ⊢; omega
  have hW : 2 ^ 31 * 2 ^ 31 ≤ ah * bh := Nat.mul_le_mul hah hbh
  have hW2 : ah * bh ≤ (2 ^ 32 - 1) * (2 ^ 32 - 1) :=
    Nat.mul_le_mul (by omega) (by omega)
  have hZ : al * bl < 2 ^ 32 * 2 ^ 32 := Nat.mul_lt_mul'' hal hbl
  have hX := Nat.div_add_mod (ah * bl) (2 ^ 32)
  have hX0 : ah * bl % 2 ^ 32 < 2 ^ 32 := Nat.mod_lt _ (by norm_num)
  have hXlt : ah * bl ≤ (2 ^ 32 - 1) * (2 ^ 32 - 1) :=
    Nat.mul_le_mul (by omega) (by omega)
  have hY := Nat.div_add_mod (al * bh) (2 ^ 32)
  have hY0 : al * bh % 2 ^ 32 < 2 ^ 32 := Nat.mod_lt _ (by norm_num)
  have hYlt : al * bh ≤ (2 ^ 32 - 1) * (2 ^ 32 - 1) :=
    Nat.mul_le_mul (by omega) (by omega)
  have hprod : (2 ^ 32 * ah + al) * (2 ^ 32 * bh + bl) =
      ah * bh * 2 ^ 64 + (ah * bl + al * bh) * 2 ^ 32 + al * bl := by ring
  rw [hprod]
  generalize ah * bh = W at *
  generalize al * bl = Z at *
  generalize ah * bl = X at *
  generalize al * bh = Y at *
  generalize X / 2 ^ 32 = x1 at *
  generalize X % 2 ^ 32 = x0 at *
  generalize Y / 2 ^ 32 = y1 at *
  generalize Y % 2 ^ 32 = y0 at *
  norm_num only at *
  refine ⟨by omega, by omega, by omega, by omega⟩

theorem mantissaValue_shift (v : Nat) (e : Int) :
    mantissaValue (2 * v) (e - 1) = mantissaValue v e := by
  unfold mantissaValue
  have h2 : (2 : ℚ) ≠ 0 := by norm_num
  have : e - 64 = (e - 1 - 64) + 1 := by ring
  rw [this, zpow_add₀ h2]
  push_cast
  ring

/-- `Mul64Lossy` on normalised mantissas: the result is normalised; it never
exceeds the exact product and falls short of it by a factor below
`1 + 3 / 2^62`. -/
theorem Mul64Lossy_spec (a b : Nat) (e : Int) (ha : 2 ^ 63 ≤ a) (ha2 : a < 2 ^ 64)
    (hb : 2 ^ 63 ≤ b) (hb2 : b < 2 ^ 64) :
    2 ^ 63 ≤ (Mul64Lossy a b e).1 ∧ (Mul64Lossy a b e).1 < 2 ^ 64 ∧
      mantissaValue (Mul64Lossy a b e).1 (Mul64Lossy a b e).2 ≤
        (a : ℚ) * (b : ℚ) * (2 : ℚ) ^ (e - 128) ∧
      (a : ℚ) * (b : ℚ) * (2 : ℚ) ^ (e - 128) ≤
        mantissaValue (Mul64Lossy a b e).1 (Mul64Lossy a b e).2 * (1 + 3 / 2 ^ 62) := by
  obtain ⟨h1, h2, h3, h4⟩ := mul64_partial_products a b ha ha2 hb hb2
  set v0 := a / 2 ^ 32 * (b / 2 ^ 32) + a / 2 ^ 32 * (b % 2 ^ 32) / 2 ^ 32 +
    a % 2 ^ 32 * (b / 2 ^ 32) / 2 ^ 32 with hv0
  have hval : toUInt64 (Mul32x32To64 (a >>> 32) (b >>> 32) +
      (Mul32x32To64 (a >>> 32) b >>> 32) + (Mul32x32To64 a (b >>> 32) >>> 32)) = v0 := by
    unfold Mul32x32To64 toUInt32 toUInt64
    simp only [Nat.shiftRight_eq_div_pow]
    have ea : a / 2 ^ 32 % 4294967296 = a / 2 ^ 32 := by
      norm_num only at ha2 ⊢; omega
    have eb : b / 2 ^ 32 % 4294967296 = b / 2 ^ 32 := by
      norm_num only at hb2 ⊢; omega
    rw [ea, eb]
    have e32 : (4294967296 : Nat) = 2 ^ 32 := by norm_num
    have e64 : (18446744073709551616 : Nat) = 2 ^ 64 := by norm_num
    rw [e32, e64, ← hv0]
    exact Nat.mod_eq_of_lt h4
  have hmask : (0x8000000000000000 : Nat) = (2 ^ 1 - 1) <<< 63 := by
    rw [Nat.shiftLeft_eq]; norm_num
  have hiff := and_high_mask_eq_zero v0 63 1 (by simpa using h4)
  have h2q : (2 : ℚ) ≠ 0 := by norm_num
  have hpos : (0 : ℚ) < (2 : ℚ) ^ (e - 128) := by positivity
  have hsplit : (2 : ℚ) ^ (e - 64) = 2 ^ 64 * (2 : ℚ) ^ (e - 128) := by
    have : e - 64 = 64 + (e - 128) := by ring
    rw [this, zpow_add₀ h2q]
    norm_num
  have hvalue : mantissaValue (Mul64Lossy a b e).1 (Mul64Lossy a b e).2 = mantissaValue v0 e := by
    unfold Mul64Lossy
    simp only [hval]
    rw [hmask]
    by_cases hlt : v0 < 2 ^ 63
    · have h0 := hiff.mpr hlt
      simp only [h0, beq_self_eq_true, if_true]
      have : toUInt64 (v0 <<< 1) = 2 * v0 := by
        unfold toUInt64
        rw [Nat.shiftLeft_eq]
        norm_num only at hlt ⊢
        omega
      rw [this, mantissaValue_shift]
    · have h0 : ¬ (v0 &&& (2 ^ 1 - 1) <<< 63 = 0) := fun h => hlt (hiff.mp h)
      simp only [beq_iff_eq, h0, if_false]
  have hrange : 2 ^ 63 ≤ (Mul64Lossy a b e).1 ∧ (Mul64Lossy a b e).1 < 2 ^ 64 := by
    unfold Mul64Lossy
    simp only [hval]
    rw [hmask]
    by_cases hlt : v0 < 2 ^ 63
    · have h0 := hiff.mpr hlt
      simp only [h0, beq_self_eq_true, if_true]
      have : toUInt64 (v0 <<< 1) = 2 * v0 := by
        unfold toUInt64
        rw [Nat.shiftLeft_eq]
        norm_num only at hlt ⊢
        omega
      rw [this]
      norm_num only at hlt h3 ⊢
      omega
    · have h0 : ¬ (v0 &&& (2 ^ 1 - 1) <<< 63 = 0) := fun h => hlt (hiff.mp h)
      simp only [beq_iff_eq, h0, if_false]
      exact ⟨by omega, h4⟩
  refine ⟨hrange.1, hrange.2, ?_, ?_⟩
  · rw [hvalue]
    unfold mantissaValue
    rw [hsplit, ← mul_assoc]
    apply mul_le_mul_of_nonneg_right _ (le_of_lt hpos)
    have : ((v0 * 2 ^ 64 : Nat) : ℚ) ≤ ((a * b : Nat) : ℚ) := by exact_mod_cast h1
    push_cast at this
    exact this
  · rw [hvalue]
    unfold mantissaValue
    rw [hsplit]
    have hq2 : ((a * b : Nat) : ℚ) ≤ (((v0 + 3) * 2 ^ 64 : Nat) : ℚ) := by
      exact_mod_cast le_of_lt h2
    push_cast at hq2
    have hv0q : (2 : ℚ) ^ 62 ≤ (v0 : ℚ) := by exact_mod_cast h3
    have hbound : (a : ℚ) * (b : ℚ) ≤ (v0 : ℚ) * 2 ^ 64 * (1 + 3 / 2 ^ 62) := by
      have : (3 : ℚ) * 2 ^ 64 ≤ (v0 : ℚ) * 2 ^ 64 * (3 / 2 ^ 62) := by
        have h' : (3 : ℚ) ≤ (v0 : ℚ) * (3 / 2 ^ 62) := by
          have : (v0 : ℚ) * (3 / 2 ^ 62) = (v0 : ℚ) / 2 ^ 62 * 3 := by ring
          rw [this]
          have : (1 : ℚ) ≤ (v0 : ℚ) / 2 ^ 62 := by
            rw [le_div_iff₀ (by positivity)]; linarith
          linarith
        nlinarith
      linarith
    calc (a : ℚ) * (b : ℚ) * (2 : ℚ) ^ (e - 128)
        ≤ (v0 : ℚ) * 2 ^ 64 * (1 + 3 / 2 ^ 62) * (2 : ℚ) ^ (e - 128) :=
          mul_le_mul_of_nonneg_right hbound (le_of_lt hpos)
      _ = (v0 : ℚ) * (2 ^ 64 * (2 : ℚ) ^ (e - 128)) * (1 + 3 / 2 ^ 62) := by ring

/-! ## The table multiplies -/

theorem rgval64Power10_normalized (i : Int) (h0 : 0 ≤ i) (h1 : i < 30) :
    2 ^ 63 ≤ tableAt rgval64Power10 i ∧ tableAt rgval64Power10 i < 2 ^ 64 := by
  interval_cases i <;> exact ⟨by decide, by decide⟩

theorem rgval64Power10By16_normalized (i : Int) (h0 : 0 ≤ i) (h1 : i < 42) :
    2 ^ 63 ≤ tableAt rgval64Power10By16 i ∧ tableAt rgval64Power10By16 i < 2 ^ 64 := by
  interval_cases i <;> exact ⟨by decide, by decide⟩

theorem mantissaValue_nonneg (v : Nat) (e : Int) : 0 ≤ mantissaValue v e := by
  unfold mantissaValue; positivity

theorem mantissaValue_mul (a b : Nat) (e1 e2 : Int) :
    mantissaValue a e1 * mantissaValue b e2 =
      (a : ℚ) * (b : ℚ) * (2 : ℚ) ^ (e1 + e2 - 128) := by
  unfold mantissaValue
  have h2 : (2 : ℚ) ≠ 0 := by norm_num
  have : e1 + e2 - 128 = (e1 - 64) + (e2 - 64) := by ring
  rw [this, zpow_add₀ h2]
  ring

/-- One table multiply, in terms of the denoted values. -/
theorem mulStep_spec (val T : Nat) (e E : Int) (hv : 2 ^ 63 ≤ val) (hv2 : val < 2 ^ 64)
    (hT : 2 ^ 63 ≤ T) (hT2 : T < 2 ^ 64) :
    2 ^ 63 ≤ (Mul64Lossy val T (e + E)).1 ∧ (Mul64Lossy val T (e + E)).1 < 2 ^ 64 ∧
      mantissaValue (Mul64Lossy val T (e + E)).1 (Mul64Lossy val T (e + E)).2 ≤
        mantissaValue val e * mantissaValue T E ∧
      mantissaValue val e * mantissaValue T E ≤
        mantissaValue (Mul64Lossy val T (e + E)).1 (Mul64Lossy val T (e + E)).2 *
          (1 + 3 / 2 ^ 62) := by
  rw [mantissaValue_mul]
  exact Mul64Lossy_spec val T (e + E) hv hv2 hT hT2

/-- One tier: the mantissa stays normalised, the denoted value never
exceeds the exact product with the table entry and falls short of it by a
factor below `1 + 3 / 2^62`. -/
theorem applyTier_spec (vals : List Nat) (exps : List Int) (inv index scale : Int)
    (st : Nat × Int × Nat) (hv : 2 ^ 63 ≤ st.1) (hv2 : st.1 < 2 ^ 64)
    (htab : index ≠ 0 →
      2 ^ 63 ≤ tableAt vals (index + (if scale < 0 then inv else 0) - 1) ∧
        tableAt vals (index + (if scale < 0 then inv else 0) - 1) < 2 ^ 64) :
    2 ^ 63 ≤ (applyTier vals exps inv index scale st).1 ∧
      (applyTier vals exps inv index scale st).1 < 2 ^ 64 ∧
      mantissaValue (applyTier vals exps inv index scale st).1
          (applyTier vals exps inv index scale st).2.1 ≤
        mantissaValue st.1 st.2.1 * tierFactor vals exps inv index scale ∧
      mantissaValue st.1 st.2.1 * tierFactor vals exps inv index scale ≤
        mantissaValue (applyTier vals exps inv index scale st).1
          (applyTier vals exps inv index scale st).2.1 * (1 + 3 / 2 ^ 62) := by
  unfold applyTier tierFactor
  by_cases hi : index = 0
  · simp only [hi, bne_self_eq_false, Bool.false_eq_true, if_false, mul_one]
    refine ⟨hv, hv2, le_refl _, ?_⟩
    have := mantissaValue_nonneg st.1 st.2.1
    nlinarith
  · have hne : (index != 0) = true := by simpa using hi
    simp only [hne, if_true]
    obtain ⟨hT, hT2⟩ := htab hi
    exact mulStep_spec st.1 _ st.2.1 _ hv hv2 hT hT2

/-- The two table tiers: the mantissa stays normalised, the denoted value
never exceeds the exact product with the table entries and falls short of it
by a factor below `(1 + 3 / 2^62)^2`. -/
theorem applyPowers_spec (val : Nat) (e scale absscale : Int) (hv : 2 ^ 63 ≤ val)
    (hv2 : val < 2 ^ 64) (ha0 : 0 ≤ absscale) (ha1 : absscale < 352) :
    2 ^ 63 ≤ (applyPowers val e scale absscale).1 ∧
      (applyPowers val e scale absscale).1 < 2 ^ 64 ∧
      mantissaValue (applyPowers val e scale absscale).1 (applyPowers val e scale absscale).2.1 ≤
        mantissaValue val e * tableFactor scale absscale ∧
      mantissaValue val e * tableFactor scale absscale ≤
        mantissaValue (applyPowers val e scale absscale).1
          (applyPowers val e scale absscale).2.1 * (1 + 3 / 2 ^ 62) ^ 2 := by
  have hμ0 : (0 : ℚ) ≤ 1 + 3 / 2 ^ 62 := by norm_num
  obtain ⟨a1, a2, a3, a4⟩ := applyTier_spec rgval64Power10 rgexp64Power10 15
    (absscale % 16) scale (val, e, 0) hv hv2 (by
      intro _
      apply rgval64Power10_normalized
      · split <;> omega
      · split <;> omega)
  obtain ⟨b1, b2, b3, b4⟩ := applyTier_spec rgval64Power10By16 rgexp64Power10By16 21
    (absscale / 16) scale
    (applyTier rgval64Power10 rgexp64Power10 15 (absscale % 16) scale (val, e, 0)) a1 a2 (by
      intro _
      apply rgval64Power10By16_normalized
      · split <;> omega
      · split <;> omega)
  unfold applyPowers tableFactor
  refine ⟨b1, b2, ?_, ?_⟩
  · have hf2 : (0 : ℚ) ≤ tierFactor rgval64Power10By16 rgexp64Power10By16 21
        (absscale / 16) scale := by
      unfold tierFactor
      split
      · exact mantissaValue_nonneg _ _
      · norm_num
    calc _ ≤ _ := b3
      _ ≤ (mantissaValue val e * tierFactor rgval64Power10 rgexp64Power10 15
            (absscale % 16) scale) * tierFactor rgval64Power10By16 rgexp64Power10By16 21
            (absscale / 16) scale := mul_le_mul_of_nonneg_right a3 hf2
      _ = _ := by ring
  · have hf2 : (0 : ℚ) ≤ tierFactor rgval64Power10By16 rgexp64Power10By16 21
        (absscale / 16) scale := by
      unfold tierFactor
      split
      · exact mantissaValue_nonneg _ _
      · norm_num
    calc mantissaValue val e * (tierFactor rgval64Power10 rgexp64Power10 15
            (absscale % 16) scale * tierFactor rgval64Power10By16 rgexp64Power10By16 21
            (absscale / 16) scale)
        = (mantissaValue val e * tierFactor rgval64Power10 rgexp64Power10 15
            (absscale % 16) scale) * tierFactor rgval64Power10By16 rgexp64Power10By16 21
            (absscale / 16) scale := by ring
      _ ≤ (mantissaValue (applyTier rgval64Power10 rgexp64Power10 15 (absscale % 16) scale
            (val, e, 0)).1 (applyTier rgval64Power10 rgexp64Power10 15 (absscale % 16) scale
            (val, e, 0)).2.1 * (1 + 3 / 2 ^ 62)) *
            tierFactor rgval64Power10By16 rgexp64Power10By16 21 (absscale / 16) scale :=
          mul_le_mul_of_nonneg_right a4 hf2
      _ = (mantissaValue (applyTier rgval64Power10 rgexp64Power10 15 (absscale % 16) scale
            (val, e, 0)).1 (applyTier rgval64Power10 rgexp64Power10 15 (absscale % 16) scale
            (val, e, 0)).2.1 *
            tierFactor rgval64Power10By16 rgexp64Power10By16 21 (absscale / 16) scale) *
            (1 + 3 / 2 ^ 62) := by ring
      _ ≤ (mantissaValue _ _ * (1 + 3 / 2 ^ 62)) * (1 + 3 / 2 ^ 62) :=
          mul_le_mul_of_nonneg_right b4 hμ0
      _ = _ := by ring

/-! ## Rounding a close approximation recovers the target significand -/

theorem zpow_two_split (E : Int) (k : Nat) :
    (2 : ℚ) ^ E = (2 : ℚ) ^ (E - k) * (2 : ℚ) ^ k := by
  have h2 : (2 : ℚ) ≠ 0 := by norm_num
  rw [← zpow_natCast, ← zpow_add₀ h2]
  congr 1
  ring

/-- If the value denoted by a normalised mantissa lies within half a unit in
the last place of `M * 2^E` (a quarter below a power of two), `round & scale
down` returns the significand `M` with the exponent `E + 53`. -/
theorem roundScaleDown_target (val : Nat) (e : Int) (M : Nat) (E : Int)
    (h63 : 2 ^ 63 ≤ val) (h64 : val < 2 ^ 64) (hM : 2 ^ 52 ≤ M) (hM2 : M < 2 ^ 53)
    (hlo : (M : ℚ) * (2 : ℚ) ^ E - (2 : ℚ) ^ (E - 1) < mantissaValue val e)
    (hhi : mantissaValue val e < (M : ℚ) * (2 : ℚ) ^ E + (2 : ℚ) ^ (E - 1))
    (hpow : M = 2 ^ 52 → (M : ℚ) * (2 : ℚ) ^ E - (2 : ℚ) ^ (E - 2) < mantissaValue val e) :
    roundScaleDown val e = (M, E + 53) := by
  have h2 : (2 : ℚ) ≠ 0 := by norm_num
  have h12 : (1 : ℚ) < 2 := by norm_num
  have hMq : (2 : ℚ) ^ 52 ≤ (M : ℚ) := by exact_mod_cast hM
  have hMq2 : (M : ℚ) ≤ 2 ^ 53 - 1 := by
    have : M + 1 ≤ 2 ^ 53 := hM2
    have h := (Nat.cast_le (α := ℚ)).mpr this
    push_cast at h
    linarith
  have hvq : (2 : ℚ) ^ 63 ≤ (val : ℚ) := by exact_mod_cast h63
  have hvq2 : (val : ℚ) < 2 ^ 64 := by exact_mod_cast h64
  have hEpos : (0 : ℚ) < (2 : ℚ) ^ E := by positivity
  have hE1 : (2 : ℚ) ^ (E - 1) = (2 : ℚ) ^ E / 2 := by
    rw [zpow_sub₀ h2]; norm_num
  have hE2 : (2 : ℚ) ^ (E - 2) = (2 : ℚ) ^ E / 4 := by
    rw [zpow_sub₀ h2]; norm_num
  unfold mantissaValue at hlo hhi hpow
  have hepos : (0 : ℚ) < (2 : ℚ) ^ (e - 64) := by positivity
  -- the exponent of the approximation is that of the target or one less
  have hle : e ≤ E + 53 := by
    by_contra hgt
    have h1 : (2 : ℚ) ^ (E + 53 - 63) ≤ (2 : ℚ) ^ (e - 64) :=
      zpow_le_zpow_right₀ (le_of_lt h12) (by omega)
    have h3 : (2 : ℚ) ^ (E + 53 - 63) = (2 : ℚ) ^ E / 2 ^ 10 := by
      have : E + 53 - 63 = E - 10 := by ring
      rw [this, zpow_sub₀ h2]; norm_num
    have h4 : (2 : ℚ) ^ 63 * ((2 : ℚ) ^ E / 2 ^ 10) ≤ (val : ℚ) * (2 : ℚ) ^ (e - 64) := by
      rw [← h3]
      exact mul_le_mul hvq h1 (by positivity) (by positivity)
    have h5 : (M : ℚ) * (2 : ℚ) ^ E ≤ (2 ^ 53 - 1) * (2 : ℚ) ^ E :=
      mul_le_mul_of_nonneg_right hMq2 (le_of_lt hEpos)
    rw [hE1] at hhi
    have h6 : (2 : ℚ) ^ 63 * ((2 : ℚ) ^ E / 2 ^ 10) = 2 ^ 53 * (2 : ℚ) ^ E := by
      field_simp; ring
    rw [h6] at h4
    linarith
  have hge : E + 52 ≤ e := by
    by_contra hlt
    have h1 : (2 : ℚ) ^ (e - 64) ≤ (2 : ℚ) ^ (E + 51 - 64) :=
      zpow_le_zpow_right₀ (le_of_lt h12) (by omega)
    have h3 : (2 : ℚ) ^ (E + 51 - 64) = (2 : ℚ) ^ E / 2 ^ 13 := by
      have : E + 51 - 64 = E - 13 := by ring
      rw [this, zpow_sub₀ h2]; norm_num
    have h4 : (val : ℚ) * (2 : ℚ) ^ (e - 64) ≤ 2 ^ 64 * ((2 : ℚ) ^ E / 2 ^ 13) := by
      rw [← h3]
      exact mul_le_mul (le_of_lt hvq2) h1 (le_of_lt hepos) (by positivity)
    have h5 : (2 : ℚ) ^ 52 * (2 : ℚ) ^ E ≤ (M : ℚ) * (2 : ℚ) ^ E :=
      mul_le_mul_of_nonneg_right hMq (le_of_lt hEpos)
    rw [hE1] at hlo
    have h6 : (2 : ℚ) ^ 64 * ((2 : ℚ) ^ E / 2 ^ 13) = 2 ^ 51 * (2 : ℚ) ^ E := by
      field_simp; ring
    rw [h6] at h4
    nlinarith
  rw [roundScaleDown_eq val e h63 h64]
  rcases (by omega : e = E + 53 ∨ e = E + 52) with he | he
  · -- same binade
    have hexp : (2 : ℚ) ^ (e - 64) = (2 : ℚ) ^ E / 2 ^ 11 := by
      have : e - 64 = E - 11 := by omega
      rw [this, zpow_sub₀ h2]; norm_num
    rw [hexp, hE1] at hlo hhi
    have hunit : (0 : ℚ) ≤ (2 : ℚ) ^ E / 2 ^ 11 := by positivity
    have hlo2 : (2048 : ℚ) * (M : ℚ) - 1024 < (val : ℚ) := by
      apply lt_of_mul_lt_mul_right _ hunit
      have e1 : ((2048 : ℚ) * (M : ℚ) - 1024) * ((2 : ℚ) ^ E / 2 ^ 11) =
          (M : ℚ) * (2 : ℚ) ^ E - (2 : ℚ) ^ E / 2 := by ring
      rw [e1]; exact hlo
    have hhi2 : (val : ℚ) < 2048 * (M : ℚ) + 1024 := by
      apply lt_of_mul_lt_mul_right _ hunit
      have e1 : ((2048 : ℚ) * (M : ℚ) + 1024) * ((2 : ℚ) ^ E / 2 ^ 11) =
          (M : ℚ) * (2 : ℚ) ^ E + (2 : ℚ) ^ E / 2 := by ring
      rw [e1]; exact hhi
    have hlo3 : 2048 * M < val + 1024 := by
      have : ((2048 * M : Nat) : ℚ) < ((val + 1024 : Nat) : ℚ) := by push_cast; linarith
      exact_mod_cast this
    have hhi3 : val < 2048 * M + 1024 := by
      have : ((val : Nat) : ℚ) < ((2048 * M + 1024 : Nat) : ℚ) := by push_cast; linarith
      exact_mod_cast this
    have hR : roundHalfEven11 val = M := by
      unfold roundHalfEven11
      split <;> omega
    have hne : ¬ (M = 2 ^ 53) := by omega
    rw [hR]
    simp only [hne, if_false, he]
  · -- the approximation lies in the binade below: the target is a power of two
    have hexp : (2 : ℚ) ^ (e - 64) = (2 : ℚ) ^ E / 2 ^ 12 := by
      have : e - 64 = E - 12 := by omega
      rw [this, zpow_sub₀ h2]; norm_num
    rw [hexp] at hlo hhi hpow
    rw [hE1] at hlo
    rw [hE2] at hpow
    have hunit : (0 : ℚ) ≤ (2 : ℚ) ^ E / 2 ^ 12 := by positivity
    have hlo2 : (4096 : ℚ) * (M : ℚ) - 2048 < (val : ℚ) := by
      apply lt_of_mul_lt_mul_right _ hunit
      have e1 : ((4096 : ℚ) * (M : ℚ) - 2048) * ((2 : ℚ) ^ E / 2 ^ 12) =
          (M : ℚ) * (2 : ℚ) ^ E - (2 : ℚ) ^ E / 2 := by ring
      rw [e1]; exact hlo
    have hlo3 : 4096 * M < val + 2048 := by
      have : ((4096 * M : Nat) : ℚ) < ((val + 2048 : Nat) : ℚ) := by push_cast; linarith
      exact_mod_cast this
    have hMeq : M = 2 ^ 52 := by
      norm_num only at hM h64 ⊢; omega
    have hp := hpow hMeq
    have hp2 : (4096 : ℚ) * (M : ℚ) - 1024 < (val : ℚ) := by
      apply lt_of_mul_lt_mul_right _ hunit
      have e1 : ((4096 : ℚ) * (M : ℚ) - 1024) * ((2 : ℚ) ^ E / 2 ^ 12) =
          (M : ℚ) * (2 : ℚ) ^ E - (2 : ℚ) ^ E / 4 := by ring
      rw [e1]; exact hp
    have hp3 : 4096 * M < val + 1024 := by
      have : ((4096 * M : Nat) : ℚ) < ((val + 1024 : Nat) : ℚ) := by push_cast; linarith
      exact_mod_cast this
    have hR : roundHalfEven11 val = 2 ^ 53 := by
      unfold roundHalfEven11
      norm_num only at hMeq h64 ⊢
      split <;> omega
    rw [hR]
    simp only [if_true, hMeq]
    congr 1
    omega

/-! ## The normalised form of a finite double -/

theorem exists_normalising_shift (b : Nat) (hb0 : 0 < b) (hb : b < 2 ^ 52) :
    ∃ k : Nat, 1 ≤ k ∧ k ≤ 52 ∧ 2 ^ 52 ≤ b * 2 ^ k ∧ b * 2 ^ k < 2 ^ 53 := by
  have h1 := Nat.pow_log_le_self 2 (Nat.pos_iff_ne_zero.mp hb0)
  have h2 := Nat.lt_pow_succ_log_self (by decide : 1 < 2) b
  have hL : Nat.log 2 b < 52 := by
    have : 2 ^ Nat.log 2 b < 2 ^ 52 := lt_of_le_of_lt h1 hb
    exact (Nat.pow_lt_pow_iff_right (by decide : 1 < 2)).mp this
  refine ⟨52 - Nat.log 2 b, by omega, by omega, ?_, ?_⟩
  · calc 2 ^ 52 = 2 ^ Nat.log 2 b * 2 ^ (52 - Nat.log 2 b) := by
          rw [← pow_add]; congr 1; omega
      _ ≤ b * 2 ^ (52 - Nat.log 2 b) := Nat.mul_le_mul_right _ h1
  · calc b * 2 ^ (52 - Nat.log 2 b) < 2 ^ (Nat.log 2 b).succ * 2 ^ (52 - Nat.log 2 b) :=
          Nat.mul_lt_mul_of_pos_right h2 (Nat.pow_pos (by decide))
      _ = 2 ^ 53 := by rw [← pow_add]; congr 1; omega

/-- Every non-zero finite magnitude pattern is `M * 2^E` with a 53-bit
significand `M`, and the final assembly of `NumberToDouble` maps `M` with the
exponent `E + 53` back to the pattern. -/
theorem double_normal_form (b : Nat) (hb : b < 2 ^ 63) (hfin : doubleExpField b ≠ 2047)
    (hnz : b ≠ 0) :
    ∃ (M : Nat) (E : Int), 2 ^ 52 ≤ M ∧ M < 2 ^ 53 ∧ -1126 ≤ E ∧ E ≤ 971 ∧
      doubleMagnitude b = (M : ℚ) * (2 : ℚ) ^ E ∧ assembleDouble M (E + 53) = b := by
  have h2 : (2 : ℚ) ≠ 0 := by norm_num
  have hfrac : doubleFraction b < 2 ^ 52 := Nat.mod_lt _ (Nat.pow_pos (by decide))
  have hdecomp : b = doubleExpField b * 2 ^ 52 + doubleFraction b := by
    unfold doubleExpField doubleFraction
    norm_num only at hb ⊢
    omega
  have hexp_lt : doubleExpField b < 2048 := Nat.mod_lt _ (by decide)
  by_cases hsub : doubleExpField b = 0
  · -- subnormal
    have hbf : b = doubleFraction b := by rw [hsub] at hdecomp; simpa using hdecomp
    have hb52 : b < 2 ^ 52 := by rw [hbf]; exact hfrac
    obtain ⟨k, hk1, hk2, hlo, hhi⟩ := exists_normalising_shift b (Nat.pos_of_ne_zero hnz) hb52
    refine ⟨b * 2 ^ k, -1074 - (k : Int), hlo, hhi, by omega, by omega, ?_, ?_⟩
    · unfold doubleMagnitude doubleSignificand doubleUlpExp
      simp only [hsub, if_true]
      rw [← hbf]
      push_cast
      rw [mul_assoc, ← zpow_natCast, ← zpow_add₀ h2]
      congr 2
      ring
    · unfold assembleDouble
      have hc1 : -1074 - (k : Int) + 53 + 0x3FE ≤ 0 := by omega
      have hc2 : ¬ (-1074 - (k : Int) + 53 + 0x3FE ≤ -52) := by norm_num; omega
      simp only [hc1, hc2, if_true, if_false]
      have hsh : (-(-1074 - (k : Int) + 53 + 0x3FE) + 1).toNat = k := by
        omega
      rw [hsh, Nat.shiftRight_eq_div_pow]
      exact Nat.mul_div_cancel _ (Nat.pow_pos (by decide))
  · -- normal
    have hE1 : 1 ≤ doubleExpField b := Nat.pos_of_ne_zero hsub
    have hE2 : doubleExpField b ≤ 2046 := by omega
    refine ⟨2 ^ 52 + doubleFraction b, (doubleExpField b : Int) - 1075, by omega, by omega,
      by omega, by omega, ?_, ?_⟩
    · unfold doubleMagnitude doubleSignificand doubleUlpExp
      simp only [hsub, if_false]
    · rw [assembleDouble_normal _ _ (by omega) (by omega) (by omega) (by omega)]
      have h1 : ((doubleExpField b : Int) - 1075 + 53 + 1022).toNat = doubleExpField b := by
        omega
      rw [h1]
      have h3 : 2 ^ 52 + doubleFraction b - 2 ^ 52 = doubleFraction b := by omega
      rw [h3]
      exact hdecomp.symm

/-! ## The scaled integer form of the table factors -/

theorem tierFactor_eq_entry (vals : List Nat) (exps : List Int) (inv index scale : Int) :
    tierFactor vals exps inv index scale =
      ((tierEntry vals exps inv index scale).1 : ℚ) *
        (2 : ℚ) ^ (tierEntry vals exps inv index scale).2 := by
  unfold tierFactor tierEntry mantissaValue
  split <;> simp

theorem zpow_toNat_shift (a : ℚ) (ha : a ≠ 0) (s : Int) (k : Nat) (h : 0 ≤ s + k) :
    a ^ (s + k).toNat = a ^ s * a ^ k := by
  rw [← zpow_natCast a (s + k).toNat, Int.toNat_of_nonneg h, zpow_add₀ ha, zpow_natCast]

theorem scaledPow10_cast (s : Int) (h : -341 ≤ s) :
    ((scaledPow10 s : Nat) : ℚ) = (10 : ℚ) ^ s * ((2 : ℚ) ^ 1400 * (10 : ℚ) ^ 341) := by
  unfold scaledPow10
  have h1 := zpow_toNat_shift 10 (by norm_num) s 341 (by omega)
  simp only [Nat.cast_ofNat] at h1
  rw [Nat.cast_mul, Nat.cast_pow, Nat.cast_pow, Nat.cast_ofNat, Nat.cast_ofNat, h1]
  ring

theorem scaledPow2_cast (E : Int) (h : -1400 ≤ E) :
    ((scaledPow2 E : Nat) : ℚ) = (2 : ℚ) ^ E * ((2 : ℚ) ^ 1400 * (10 : ℚ) ^ 341) := by
  unfold scaledPow2
  have h1 := zpow_toNat_shift 2 (by norm_num) E 1400 (by omega)
  simp only [Nat.cast_ofNat] at h1
  rw [Nat.cast_mul, Nat.cast_pow, Nat.cast_pow, Nat.cast_ofNat, Nat.cast_ofNat, h1]
  ring

theorem scaledTable_cast (s : Int) (h : 0 ≤ tableExp s + 1400) :
    ((scaledTable s : Nat) : ℚ) =
      tableFactor s (abs32 s) * ((2 : ℚ) ^ 1400 * (10 : ℚ) ^ 341) := by
  unfold scaledTable tableFactor
  rw [tierFactor_eq_entry, tierFactor_eq_entry]
  have h1 := zpow_toNat_shift 2 (by norm_num) (tableExp s) 1400 h
  simp only [Nat.cast_ofNat] at h1
  have h2 : (2 : ℚ) ^ tableExp s =
      (2 : ℚ) ^ (tierEntry rgval64Power10 rgexp64Power10 15 (abs32 s % 16) s).2 *
        (2 : ℚ) ^ (tierEntry rgval64Power10By16 rgexp64Power10By16 21 (abs32 s / 16) s).2 := by
    unfold tableExp
    rw [zpow_add₀ (by norm_num)]
  rw [Nat.cast_mul, Nat.cast_mul, Nat.cast_mul, Nat.cast_pow, Nat.cast_pow, Nat.cast_ofNat,
    Nat.cast_ofNat, h1, h2]
  ring

set_option maxRecDepth 100000 in
theorem windowCheck_all : ∀ i : Fin 634, windowCheck ((i.val : Int) - 341) = true := by
  decide!

theorem windowCheck_of_range (s : Int) (h1 : -341 ≤ s) (h2 : s ≤ 292) :
    windowCheck s = true := by
  have h := windowCheck_all ⟨(s + 341).toNat, by omega⟩
  have e : (((s + 341).toNat : Nat) : Int) - 341 = s := by omega
  simp only [e] at h
  exact h

/-! ## The margins in rational arithmetic -/

theorem margin_upper (p T e y over : ℚ) (D M : ℚ) (hp : 0 < p) (hT : 0 ≤ T) (he : 0 < e)
    (hM0 : 0 ≤ M) (hM : M ≤ 2 ^ 53) (hov0 : 0 ≤ over) (hov : T - p ≤ over)
    (hx : D * p ≤ M * e + p / 2) (hy : y ≤ D * T)
    (hU : 2 ^ 54 * over * e + p * T < e * p) : y < M * e + e / 2 := by
  have h1 : y * p ≤ (M * e + p / 2) * T :=
    calc y * p ≤ (D * T) * p := mul_le_mul_of_nonneg_right hy hp.le
      _ = (D * p) * T := by ring
      _ ≤ (M * e + p / 2) * T := mul_le_mul_of_nonneg_right hx hT
  have h2 : M * (T - p) ≤ 2 ^ 53 * over :=
    calc M * (T - p) ≤ M * over := mul_le_mul_of_nonneg_left hov hM0
      _ ≤ 2 ^ 53 * over := mul_le_mul_of_nonneg_right hM hov0
  have h3 : M * (T - p) * e ≤ 2 ^ 53 * over * e := mul_le_mul_of_nonneg_right h2 he.le
  have h4 : y * p < (M * e + e / 2) * p := by linarith
  exact lt_of_mul_lt_mul_right h4 hp.le

theorem margin_lower (p T e y under LN LD : ℚ) (D M : ℚ) (hp : 0 < p) (hT : 0 ≤ T)
    (he : 0 < e) (hLN : 0 < LN) (hLD : 0 ≤ LD) (hM0 : 0 ≤ M) (hM : M ≤ 2 ^ 53)
    (hun0 : 0 ≤ under) (hun : LN * p - LD * T ≤ under)
    (hx : M * e - p / 2 ≤ D * p) (hy : D * T * LD ≤ y * LN)
    (hL : 2 ^ 54 * under * e + LD * (p * T) < LN * (e * p)) : M * e - e / 2 < y := by
  have h1 : (M * e - p / 2) * T * LD * p ≤ y * LN * p * p := by
    have a1 : (M * e - p / 2) * T ≤ D * p * T := mul_le_mul_of_nonneg_right hx hT
    have a2 : D * T * LD * p ≤ y * LN * p := mul_le_mul_of_nonneg_right hy hp.le
    have a3 : D * T * LD * p * p ≤ y * LN * p * p := mul_le_mul_of_nonneg_right a2 hp.le
    have a4 : (M * e - p / 2) * T * LD ≤ D * p * T * LD :=
      mul_le_mul_of_nonneg_right a1 hLD
    have a5 : (M * e - p / 2) * T * LD * p ≤ D * p * T * LD * p :=
      mul_le_mul_of_nonneg_right a4 hp.le
    calc _ ≤ _ := a5
      _ = D * T * LD * p * p := by ring
      _ ≤ _ := a3
  have h2 : M * (LN * p - LD * T) ≤ 2 ^ 53 * under :=
    calc M * (LN * p - LD * T) ≤ M * under := mul_le_mul_of_nonneg_left hun hM0
      _ ≤ 2 ^ 53 * under := mul_le_mul_of_nonneg_right hM hun0
  have h3 : M * (LN * p - LD * T) * e ≤ 2 ^ 53 * under * e :=
    mul_le_mul_of_nonneg_right h2 he.le
  have h4 : (M * e - e / 2) * (LN * p) * p < y * (LN * p) * p := by
    have h5 : (M * e - e / 2) * (LN * p) < (M * e - p / 2) * T * LD := by linarith
    have h6 : (M * e - e / 2) * (LN * p) * p < (M * e - p / 2) * T * LD * p :=
      mul_lt_mul_of_pos_right h5 hp
    calc _ < _ := h6
      _ ≤ _ := h1
      _ = _ := by ring
  have h7 := lt_of_mul_lt_mul_right h4 hp.le
  exact lt_of_mul_lt_mul_right h7 (mul_pos hLN hp).le

theorem margin_lower_pow (p T e y under LN LD : ℚ) (D : ℚ) (hp : 0 < p) (hT : 0 ≤ T)
    (he : 0 < e) (hLN : 0 < LN) (hLD : 0 ≤ LD)
    (hun : LN * p - LD * T ≤ under)
    (hx : 2 ^ 52 * e - p / 2 ≤ D * p) (hy : D * T * LD ≤ y * LN)
    (hP : 2 ^ 54 * under * e + 2 * (LD * (p * T)) < LN * (e * p)) :
    2 ^ 52 * e - e / 4 < y := by
  have h1 : (2 ^ 52 * e - p / 2) * T * LD * p ≤ y * LN * p * p := by
    have a1 : (2 ^ 52 * e - p / 2) * T ≤ D * p * T := mul_le_mul_of_nonneg_right hx hT
    have a2 : D * T * LD * p ≤ y * LN * p := mul_le_mul_of_nonneg_right hy hp.le
    have a3 : D * T * LD * p * p ≤ y * LN * p * p := mul_le_mul_of_nonneg_right a2 hp.le
    have a4 : (2 ^ 52 * e - p / 2) * T * LD ≤ D * p * T * LD :=
      mul_le_mul_of_nonneg_right a1 hLD
    have a5 : (2 ^ 52 * e - p / 2) * T * LD * p ≤ D * p * T * LD * p :=
      mul_le_mul_of_nonneg_right a4 hp.le
    calc _ ≤ _ := a5
      _ = D * T * LD * p * p := by ring
      _ ≤ _ := a3
  have h3 : (LN * p - LD * T) * e ≤ under * e := mul_le_mul_of_nonneg_right hun he.le
  have h4 : (2 ^ 52 * e - e / 4) * (LN * p) * p < y * (LN * p) * p := by
    have h5 : (2 ^ 52 * e - e / 4) * (LN * p) < (2 ^ 52 * e - p / 2) * T * LD := by linarith
    have h6 : (2 ^ 52 * e - e / 4) * (LN * p) * p < (2 ^ 52 * e - p / 2) * T * LD * p :=
      mul_lt_mul_of_pos_right h5 hp
    calc _ < _ := h6
      _ ≤ _ := h1
      _ = _ := by ring
  have h7 := lt_of_mul_lt_mul_right h4 hp.le
  exact lt_of_mul_lt_mul_right h7 (mul_pos hLN hp).le

/-! ## Every reachable binade passes the margin check -/

theorem cast_tsub_ge (a b : Nat) : (a : ℚ) - (b : ℚ) ≤ ((a - b : Nat) : ℚ) := by
  rcases le_total b a with h | h
  · rw [Nat.cast_sub h]
  · rw [Nat.sub_eq_zero_of_le h]
    have : (a : ℚ) ≤ (b : ℚ) := by exact_mod_cast h
    simp only [Nat.cast_zero]
    linarith

/-- A 17-digit decimal `D * 10^s` within half a decimal unit of a finite
double `M * 2^E` has its exponent `s` between -341 and 292. -/
theorem decimal_scale_range (s E : Int) (D M : Nat) (hE1 : -1126 ≤ E) (hE2 : E ≤ 971)
    (hD1 : 10 ^ 16 ≤ D) (hD2 : D < 10 ^ 17) (hM1 : 2 ^ 52 ≤ M) (hM2 : M < 2 ^ 53)
    (hclose : |(D : ℚ) * (10 : ℚ) ^ s - (M : ℚ) * (2 : ℚ) ^ E| ≤ (10 : ℚ) ^ s / 2) :
    -341 ≤ s ∧ s ≤ 292 := by
  obtain ⟨hl, hu⟩ := abs_le.mp hclose
  have hp : (0 : ℚ) < (10 : ℚ) ^ s := by positivity
  have he : (0 : ℚ) < (2 : ℚ) ^ E := by positivity
  have hDq1 : (10 : ℚ) ^ 16 ≤ (D : ℚ) := by exact_mod_cast hD1
  have hDq2 : (D : ℚ) ≤ 10 ^ 17 := by exact_mod_cast hD2.le
  have hMq1 : (2 : ℚ) ^ 52 ≤ (M : ℚ) := by exact_mod_cast hM1
  have hMq2 : (M : ℚ) ≤ 2 ^ 53 := by exact_mod_cast hM2.le
  have a1 : (10 : ℚ) ^ 16 * (10 : ℚ) ^ s ≤ (D : ℚ) * (10 : ℚ) ^ s :=
    mul_le_mul_of_nonneg_right hDq1 hp.le
  have a2 : (D : ℚ) * (10 : ℚ) ^ s ≤ 10 ^ 17 * (10 : ℚ) ^ s :=
    mul_le_mul_of_nonneg_right hDq2 hp.le
  have a3 : (2 : ℚ) ^ 52 * (2 : ℚ) ^ E ≤ (M : ℚ) * (2 : ℚ) ^ E :=
    mul_le_mul_of_nonneg_right hMq1 he.le
  have a4 : (M : ℚ) * (2 : ℚ) ^ E ≤ 2 ^ 53 * (2 : ℚ) ^ E :=
    mul_le_mul_of_nonneg_right hMq2 he.le
  constructor
  · by_contra hc
    have hs : s ≤ -342 := by omega
    have b1 : (10 : ℚ) ^ s ≤ (10 : ℚ) ^ (-342 : Int) :=
      zpow_le_zpow_right₀ (by norm_num) hs
    have b2 : (2 : ℚ) ^ (-1126 : Int) ≤ (2 : ℚ) ^ E :=
      zpow_le_zpow_right₀ (by norm_num) hE1
    have b3 : ((10 : ℚ) ^ 17 + 1 / 2) * (10 : ℚ) ^ (-342 : Int) <
        (2 : ℚ) ^ 52 * (2 : ℚ) ^ (-1126 : Int) := by
      norm_num
    have c1 : ((10 : ℚ) ^ 17 + 1 / 2) * (10 : ℚ) ^ s ≤
        ((10 : ℚ) ^ 17 + 1 / 2) * (10 : ℚ) ^ (-342 : Int) :=
      mul_le_mul_of_nonneg_left b1 (by norm_num)
    have c2 : (2 : ℚ) ^ 52 * (2 : ℚ) ^ (-1126 : Int) ≤ (2 : ℚ) ^ 52 * (2 : ℚ) ^ E :=
      mul_le_mul_of_nonneg_left b2 (by norm_num)
    generalize (10 : ℚ) ^ (-342 : Int) = q at b3 c1
    generalize (2 : ℚ) ^ (-1126 : Int) = r at b3 c2
    generalize (10 : ℚ) ^ s = P at hl hu a1 a2 c1
    generalize (2 : ℚ) ^ E = e at hl hu a3 a4 c2
    linarith
  · by_contra hc
    have hs : 293 ≤ s := by omega
    have b1 : (10 : ℚ) ^ (293 : Int) ≤ (10 : ℚ) ^ s :=
      zpow_le_zpow_right₀ (by norm_num) hs
    have b2 : (2 : ℚ) ^ E ≤ (2 : ℚ) ^ (971 : Int) :=
      zpow_le_zpow_right₀ (by norm_num) hE2
    have b3 : (2 : ℚ) ^ 53 * (2 : ℚ) ^ (971 : Int) <
        ((10 : ℚ) ^ 16 - 1 / 2) * (10 : ℚ) ^ (293 : Int) := by
      norm_num
    have c1 : ((10 : ℚ) ^ 16 - 1 / 2) * (10 : ℚ) ^ (293 : Int) ≤
        ((10 : ℚ) ^ 16 - 1 / 2) * (10 : ℚ) ^ s :=
      mul_le_mul_of_nonneg_left b1 (by norm_num)
    have c2 : (2 : ℚ) ^ 53 * (2 : ℚ) ^ E ≤ (2 : ℚ) ^ 53 * (2 : ℚ) ^ (971 : Int) :=
      mul_le_mul_of_nonneg_left b2 (by norm_num)
    generalize (10 : ℚ) ^ (293 : Int) = q at b3 c1
    generalize (2 : ℚ) ^ (971 : Int) = r at b3 c2
    generalize (10 : ℚ) ^ s = P at hl hu a1 a2 c1
    generalize (2 : ℚ) ^ E = e at hl hu a3 a4 c2
    linarith

/-- The analytic core of the 17-digit round trip: the mantissa the table
multiplies produce for a 17-digit decimal that lies within half a decimal
unit of `M * 2^E` is within half a binary unit of `M * 2^E` (a quarter below
a power of two). -/
theorem window_margin (s E : Int) (D M : Nat) (y : ℚ) (hs1 : -341 ≤ s) (hs2 : s ≤ 292)
    (hE1 : -1126 ≤ E) (hD1 : 10 ^ 16 ≤ D) (hD2 : D < 10 ^ 17) (hM1 : 2 ^ 52 ≤ M)
    (hM2 : M < 2 ^ 53)
    (hclose : |(D : ℚ) * (10 : ℚ) ^ s - (M : ℚ) * (2 : ℚ) ^ E| ≤ (10 : ℚ) ^ s / 2)
    (hy1 : y ≤ (D : ℚ) * tableFactor s (abs32 s))
    (hy2 : (D : ℚ) * tableFactor s (abs32 s) ≤ y * (1 + 3 / 2 ^ 62) ^ 2) :
    (M : ℚ) * (2 : ℚ) ^ E - (2 : ℚ) ^ (E - 1) < y ∧
      y < (M : ℚ) * (2 : ℚ) ^ E + (2 : ℚ) ^ (E - 1) ∧
      (M = 2 ^ 52 → (M : ℚ) * (2 : ℚ) ^ E - (2 : ℚ) ^ (E - 2) < y) := by
  have h2 : (2 : ℚ) ≠ 0 := by norm_num
  have hE1' : (2 : ℚ) ^ (E - 1) = (2 : ℚ) ^ E / 2 := by
    rw [zpow_sub₀ h2]; norm_num
  have hE2' : (2 : ℚ) ^ (E - 2) = (2 : ℚ) ^ E / 4 := by
    rw [zpow_sub₀ h2]; norm_num
  rw [hE1', hE2']
  -- the check for this decimal exponent
  have hw := windowCheck_of_range s hs1 hs2
  unfold windowCheck at hw
  simp only [Bool.and_eq_true, decide_eq_true_eq, List.all_eq_true, List.mem_range] at hw
  obtain ⟨⟨⟨⟨hx0, hb0⟩, hc1⟩, hc2⟩, hall⟩ := hw
  -- the scaled naturals as rationals
  have hP := scaledPow10_cast s hs1
  have hTn := scaledTable_cast s hx0
  have hEn := scaledPow2_cast E (by omega)
  have hE0 := scaledPow2_cast (firstBinade s) (by omega)
  have hcpos : (0 : ℚ) < (2 : ℚ) ^ 1400 * (10 : ℚ) ^ 341 := by positivity
  have hT0 : (0 : ℚ) ≤ tableFactor s (abs32 s) := by
    unfold tableFactor tierFactor
    apply mul_nonneg <;> (split; exact mantissaValue_nonneg _ _; norm_num)
  have he0 : (0 : ℚ) < (2 : ℚ) ^ firstBinade s := by positivity
  have h64 : (2 : ℚ) ^ (firstBinade s + 6) = (2 : ℚ) ^ firstBinade s * 64 := by
    rw [zpow_add₀ h2]; norm_num
  have h4 : (2 : ℚ) ^ (E + 2) = (2 : ℚ) ^ E * 4 := by
    rw [zpow_add₀ h2]; norm_num
  have hmono1 := zpow_lt_zpow_iff_right₀ (a := (2 : ℚ)) (m := firstBinade s) (n := E + 2)
    (by norm_num)
  have hmono2 := zpow_lt_zpow_iff_right₀ (a := (2 : ℚ)) (m := E) (n := firstBinade s + 6)
    (by norm_num)
  rw [h4] at hmono1
  rw [h64] at hmono2
  generalize (2 : ℚ) ^ 1400 * (10 : ℚ) ^ 341 = c at hP hTn hEn hE0 hcpos
  generalize tableFactor s (abs32 s) = T at hTn hy1 hy2 hT0
  generalize scaledTable s = Tn at hTn hall
  generalize scaledPow10 s = P at hP hc1 hc2 hall
  generalize scaledPow2 (firstBinade s) = E0n at hE0 hc1 hc2
  have hp : (0 : ℚ) < (10 : ℚ) ^ s := by positivity
  have he : (0 : ℚ) < (2 : ℚ) ^ E := by positivity
  generalize (2 : ℚ) ^ firstBinade s = e0 at hE0 he0 hmono1 hmono2
  generalize (10 : ℚ) ^ s = p at hP hp hclose
  obtain ⟨hl, hu⟩ := abs_le.mp hclose
  have hDq1 : (10 : ℚ) ^ 16 ≤ (D : ℚ) := by exact_mod_cast hD1
  have hDq2 : (D : ℚ) ≤ 10 ^ 17 - 1 := by
    have : D + 1 ≤ 10 ^ 17 := hD2
    have h := (Nat.cast_le (α := ℚ)).mpr this
    push_cast at h
    linarith
  have hMq1 : (2 : ℚ) ^ 52 ≤ (M : ℚ) := by exact_mod_cast hM1
  have hMq2 : (M : ℚ) ≤ 2 ^ 53 - 1 := by
    have : M + 1 ≤ 2 ^ 53 := hM2
    have h := (Nat.cast_le (α := ℚ)).mpr this
    push_cast at h
    linarith
  have hM0 : (0 : ℚ) ≤ (M : ℚ) := Nat.cast_nonneg M
  -- the pair (s, E) is admissible
  have hadm1q : 2 * 10 ^ 16 * p < 2 ^ 54 * (2 : ℚ) ^ E + p := by
    have a1 : (10 : ℚ) ^ 16 * p ≤ (D : ℚ) * p := mul_le_mul_of_nonneg_right hDq1 hp.le
    have a2 : (M : ℚ) * (2 : ℚ) ^ E ≤ (2 ^ 53 - 1) * (2 : ℚ) ^ E :=
      mul_le_mul_of_nonneg_right hMq2 he.le
    generalize (2 : ℚ) ^ E = e at *
    linarith
  have hadm2q : 2 ^ 53 * (2 : ℚ) ^ E ≤ (2 * 10 ^ 17 + 1) * p := by
    have a1 : (D : ℚ) * p ≤ (10 ^ 17 - 1) * p := mul_le_mul_of_nonneg_right hDq2 hp.le
    have a2 : (2 : ℚ) ^ 52 * (2 : ℚ) ^ E ≤ (M : ℚ) * (2 : ℚ) ^ E :=
      mul_le_mul_of_nonneg_right hMq1 he.le
    generalize (2 : ℚ) ^ E = e at *
    linarith
  have hc1q := (Nat.cast_le (α := ℚ)).mpr hc1
  have hc2q := (Nat.cast_lt (α := ℚ)).mpr hc2
  push_cast at hc1q hc2q
  rw [hP, hE0] at hc1q hc2q
  -- so E lies in the window
  have hwin1 : firstBinade s < E + 2 := by
    apply hmono1.mp
    have a1 := mul_lt_mul_of_pos_right hadm1q hcpos
    have a2 : e0 * c < (2 : ℚ) ^ E * 4 * c := by
      generalize (2 : ℚ) ^ E = e at *
      linarith
    exact lt_of_mul_lt_mul_right a2 hcpos.le
  have hwin2 : E < firstBinade s + 6 := by
    apply hmono2.mp
    have a1 := mul_le_mul_of_nonneg_right hadm2q hcpos.le
    have a2 : (2 : ℚ) ^ E * c < e0 * 64 * c := by
      generalize (2 : ℚ) ^ E = e at *
      linarith
    exact lt_of_mul_lt_mul_right a2 hcpos.le
  have hm := hall (E - firstBinade s + 1).toNat (by omega)
  have hEj : firstBinade s - 1 + (((E - firstBinade s + 1).toNat : Nat) : Int) = E := by omega
  rw [hEj] at hm
  generalize scaledPow2 E = En at hEn hm
  generalize (2 : ℚ) ^ E = e at *
  have hadm1 : 2 * 10 ^ 16 * P < 2 ^ 54 * En + P := by
    apply (Nat.cast_lt (α := ℚ)).mp
    push_cast
    rw [hP, hEn]
    have a1 := mul_lt_mul_of_pos_right hadm1q hcpos
    linarith
  have hadm2 : 2 ^ 53 * En ≤ (2 * 10 ^ 17 + 1) * P := by
    apply (Nat.cast_le (α := ℚ)).mp
    push_cast
    rw [hP, hEn]
    have a1 := mul_le_mul_of_nonneg_right hadm2q hcpos.le
    linarith
  unfold marginCheck at hm
  simp only [Bool.or_eq_true, Bool.and_eq_true, Bool.not_eq_true', decide_eq_true_eq,
    decide_eq_false_iff_not, Bool.and_eq_false_iff, Bool.not_eq_eq_eq_not, Bool.not_true] at hm
  have hmm : (2 ^ 54 * (Tn - P) * En + P * Tn < En * P) ∧
      (2 ^ 54 * ((2 ^ 62 + 3) ^ 2 * P - 2 ^ 124 * Tn) * En + 2 ^ 124 * (P * Tn) <
        (2 ^ 62 + 3) ^ 2 * (En * P)) ∧
      (2 * 10 ^ 16 * P ≤ 2 ^ 53 * En + P →
        2 ^ 54 * ((2 ^ 62 + 3) ^ 2 * P - 2 ^ 124 * Tn) * En + 2 * (2 ^ 124 * (P * Tn)) <
          (2 ^ 62 + 3) ^ 2 * (En * P)) := by
    rcases hm with hm | hm
    · rcases hm with hm | hm
      · exact absurd hadm1 hm
      · exact absurd hadm2 hm
    · refine ⟨hm.1.1, hm.1.2, fun hpa => ?_⟩
      rcases hm.2 with h | h
      · exact absurd hpa h
      · exact h
  obtain ⟨hU, hL, hPw⟩ := hmm
  have hUq := (Nat.cast_lt (α := ℚ)).mpr hU
  have hLq := (Nat.cast_lt (α := ℚ)).mpr hL
  have hPq : 2 * 10 ^ 16 * P ≤ 2 ^ 53 * En + P →
      (((2 ^ 54 * ((2 ^ 62 + 3) ^ 2 * P - 2 ^ 124 * Tn) * En + 2 * (2 ^ 124 * (P * Tn)) :
        Nat) : ℚ) < (((2 ^ 62 + 3) ^ 2 * (En * P) : Nat) : ℚ)) :=
    fun h => (Nat.cast_lt (α := ℚ)).mpr (hPw h)
  have hov := cast_tsub_ge Tn P
  have hun := cast_tsub_ge ((2 ^ 62 + 3) ^ 2 * P) (2 ^ 124 * Tn)
  have hov0 : (0 : ℚ) ≤ ((Tn - P : Nat) : ℚ) := Nat.cast_nonneg _
  have hun0 : (0 : ℚ) ≤ (((2 ^ 62 + 3) ^ 2 * P - 2 ^ 124 * Tn : Nat) : ℚ) := Nat.cast_nonneg _
  simp only [Nat.cast_add, Nat.cast_mul, Nat.cast_pow, Nat.cast_ofNat] at hUq hLq hPq hun
  generalize ((Tn - P : Nat) : ℚ) = over at hUq hov hov0
  generalize (((2 ^ 62 + 3) ^ 2 * P - 2 ^ 124 * Tn : Nat) : ℚ) = under at hLq hPq hun hun0
  have hM53 : (M : ℚ) ≤ 2 ^ 53 := by linarith
  have hLN : (0 : ℚ) < (2 ^ 62 + 3) ^ 2 := by norm_num
  have hLD : (0 : ℚ) ≤ 2 ^ 124 := by norm_num
  have hTn0 : (0 : ℚ) ≤ (Tn : ℚ) := Nat.cast_nonneg Tn
  have hΛ : ((1 : ℚ) + 3 / 2 ^ 62) ^ 2 * 2 ^ 124 = (2 ^ 62 + 3) ^ 2 := by norm_num
  have hyc1 : y * c ≤ (D : ℚ) * (Tn : ℚ) := by
    rw [hTn]
    have := mul_le_mul_of_nonneg_right hy1 hcpos.le
    linarith
  have hyc2 : (D : ℚ) * (Tn : ℚ) * 2 ^ 124 ≤ y * c * (2 ^ 62 + 3) ^ 2 := by
    rw [hTn, ← hΛ]
    have := mul_le_mul_of_nonneg_right hy2 (mul_pos hcpos (by norm_num : (0 : ℚ) < 2 ^ 124)).le
    linarith
  have hPpos : (0 : ℚ) < (P : ℚ) := by rw [hP]; exact mul_pos hp hcpos
  have hEnpos : (0 : ℚ) < (En : ℚ) := by rw [hEn]; exact mul_pos he hcpos
  have hxu : (D : ℚ) * (P : ℚ) ≤ (M : ℚ) * (En : ℚ) + (P : ℚ) / 2 := by
    rw [hP, hEn]
    have := mul_le_mul_of_nonneg_right hu hcpos.le
    linarith
  have hxl : (M : ℚ) * (En : ℚ) - (P : ℚ) / 2 ≤ (D : ℚ) * (P : ℚ) := by
    rw [hP, hEn]
    have := mul_le_mul_of_nonneg_right hl hcpos.le
    linarith
  refine ⟨?_, ?_, ?_⟩
  · have h := margin_lower (P : ℚ) (Tn : ℚ) (En : ℚ) (y * c) under ((2 ^ 62 + 3) ^ 2)
      (2 ^ 124) (D : ℚ) (M : ℚ) hPpos hTn0 hEnpos hLN hLD hM0 hM53 hun0 hun hxl hyc2 hLq
    rw [hEn] at h
    have h' : ((M : ℚ) * e - e / 2) * c < y * c := by linarith
    exact lt_of_mul_lt_mul_right h' hcpos.le
  · have h := margin_upper (P : ℚ) (Tn : ℚ) (En : ℚ) (y * c) over (D : ℚ) (M : ℚ) hPpos
      hTn0 hEnpos hM0 hM53 hov0 hov hxu hyc1 hUq
    rw [hEn] at h
    have h' : y * c < ((M : ℚ) * e + e / 2) * c := by linarith
    exact lt_of_mul_lt_mul_right h' hcpos.le
  · intro hMp
    have hMp' : (M : ℚ) = 2 ^ 52 := by rw [hMp]; norm_num
    rw [hMp'] at hxl hu ⊢
    have hpadm : 2 * 10 ^ 16 * P ≤ 2 ^ 53 * En + P := by
      apply (Nat.cast_le (α := ℚ)).mp
      push_cast
      rw [hP, hEn]
      have a1 : (10 : ℚ) ^ 16 * p ≤ (D : ℚ) * p := mul_le_mul_of_nonneg_right hDq1 hp.le
      have a2 : (2 * 10 ^ 16 * p) * c ≤ (2 ^ 53 * e + p) * c :=
        mul_le_mul_of_nonneg_right (by linarith) hcpos.le
      linarith
    have h := margin_lower_pow (P : ℚ) (Tn : ℚ) (En : ℚ) (y * c) under ((2 ^ 62 + 3) ^ 2)
      (2 ^ 124) (D : ℚ) hPpos hTn0 hEnpos hLN hLD hun hxl hyc2 (hPq hpadm)
    rw [hEn] at h
    have h' : ((2 : ℚ) ^ 52 * e - e / 4) * c < y * c := by linarith
    exact lt_of_mul_lt_mul_right h' hcpos.le

/-! ## Seventeen correctly rounded digits convert back exactly -/

theorem skipLeadingZeros_of_head (s : List Nat) (h : wcharAt s 0 ≠ 48) :
    skipLeadingZeros s = s := by
  cases s with
  | nil => rfl
  | cons c cs =>
    have hc : c ≠ 48 := by simpa [wcharAt] using h
    have hb : (c == 48) = false := by simpa using hc
    simp only [skipLeadingZeros, List.dropWhile, hb]

theorem doubleExpField_mod (v : Nat) : doubleExpField (v % 2 ^ 63) = doubleExpField v := by
  unfold doubleExpField
  norm_num only
  omega

theorem doubleMagnitude_mod (v : Nat) : doubleMagnitude (v % 2 ^ 63) = doubleMagnitude v := by
  have h1 := doubleExpField_mod v
  have h2 : doubleFraction (v % 2 ^ 63) = doubleFraction v := by
    unfold doubleFraction
    norm_num only
    omega
  unfold doubleMagnitude doubleSignificand doubleUlpExp
  rw [h1, h2]

theorem applySign_signBit (v : Nat) (hv : v < 2 ^ 64) :
    applySign (doubleSignBit v) (v % 2 ^ 63) = v := by
  rw [applySign_eq _ _ (Nat.mod_lt _ (by norm_num))]
  unfold doubleSignBit
  norm_num only at hv ⊢
  by_cases h : v / 9223372036854775808 % 2 = 1
  · simp only [h, decide_True, if_true]
    omega
  · simp only [h, decide_False]
    simp only [Bool.false_eq_true, if_false]
    omega

theorem digitsValue_ge_of_head (s : List Nat) (hdec : IsDecimal s) (hne : s ≠ [])
    (hhead : wcharAt s 0 ≠ 48) : 10 ^ (s.length - 1) ≤ digitsValue s := by
  obtain ⟨c, cs, rfl⟩ := List.exists_cons_of_ne_nil hne
  have hc := hdec c (List.mem_cons_self _ _)
  have hc2 : c ≠ 48 := by simpa [wcharAt] using hhead
  rw [digitsValue_cons]
  simp only [List.length_cons, Nat.add_sub_cancel]
  have : 1 ≤ c - 48 := by omega
  calc 10 ^ cs.length = 1 * 10 ^ cs.length := by ring
    _ ≤ (c - 48) * 10 ^ cs.length := Nat.mul_le_mul_right _ this
    _ ≤ _ := Nat.le_add_right _ _

theorem mantissaValue_normalized (D t : Nat) :
    mantissaValue (D * 2 ^ t) (64 - (t : Int)) = (D : ℚ) := by
  unfold mantissaValue
  have h2 : (2 : ℚ) ≠ 0 := by norm_num
  have : (64 : Int) - (t : Int) - 64 = -(t : Int) := by ring
  rw [this, zpow_neg, zpow_natCast]
  push_cast
  field_simp

/-- A 17-digit buffer whose value lies within half a unit of its last digit
of the magnitude of a non-zero finite double converts to exactly that double. -/
theorem NumberToDouble_17_digits (number : NUMBER) (v : Nat) (hv : IsFiniteDouble v)
    (hlen : number.digits.length = 17) (hdec : IsDecimal number.digits)
    (hhead : wcharAt number.digits 0 ≠ 48) (hsign : number.sign = doubleSignBit v)
    (hnz : v % 2 ^ 63 ≠ 0)
    (hclose : |(digitsValue number.digits : ℚ) * (10 : ℚ) ^ (number.scale - 17) -
      doubleMagnitude v| ≤ (10 : ℚ) ^ (number.scale - 17) / 2) :
    NumberToDouble number = v := by
  have hne : number.digits ≠ [] := by
    intro h
    rw [h] at hlen
    simp at hlen
  obtain ⟨M, E, hM1, hM2, hE1, hE2, hmag, hasm⟩ := double_normal_form (v % 2 ^ 63)
    (Nat.mod_lt _ (by norm_num)) (by rw [doubleExpField_mod]; exact hv.2) hnz
  rw [doubleMagnitude_mod] at hmag
  rw [hmag] at hclose
  have hD1 : 10 ^ 16 ≤ digitsValue number.digits := by
    have := digitsValue_ge_of_head _ hdec hne hhead
    rwa [hlen] at this
  have hD2 : digitsValue number.digits < 10 ^ 17 := by
    have := digitsValue_lt _ hdec
    rwa [hlen] at this
  obtain ⟨hs1, hs2⟩ := decimal_scale_range _ E _ M hE1 hE2 hD1 hD2 hM1 hM2 hclose
  have hskip := skipLeadingZeros_of_head _ hhead
  have hpack : packMantissa number.digits = (digitsValue number.digits, 0) := by
    rw [packMantissa_eq _ hdec hne, List.take_of_length_le (by omega), hlen]
  have heff : effectiveScale number = number.scale - 17 := by
    unfold effectiveScale
    rw [hskip, hpack, hlen]
    unfold wrapInt32
    simp only [Nat.cast_ofNat, Nat.cast_zero]
    omega
  have habs0 : 0 ≤ abs32 (number.scale - 17) := by
    unfold abs32 wrapInt32
    split <;> omega
  have habs1 : abs32 (number.scale - 17) < 352 := by
    unfold abs32 wrapInt32
    split <;> omega
  obtain ⟨t, -, hn, h63, h64⟩ := normalizeMantissa_spec (digitsValue number.digits)
    (by omega) (by
      have : (10 : Nat) ^ 17 < 2 ^ 64 := by norm_num
      omega)
  obtain ⟨a1, a2, a3, a4⟩ := applyPowers_spec (digitsValue number.digits * 2 ^ t)
    (64 - (t : Int)) (number.scale - 17) (abs32 (number.scale - 17)) h63 h64 habs0 habs1
  rw [mantissaValue_normalized] at a3 a4
  obtain ⟨w1, w2, w3⟩ := window_margin (number.scale - 17) E (digitsValue number.digits) M _
    hs1 hs2 hE1 hD1 hD2 hM1 hM2 hclose a3 a4
  have hround := roundScaleDown_target _ _ M E a1 a2 hM1 hM2 w1 w2 w3
  unfold NumberToDouble NumberToDoubleRun
  have hlen0 : ¬ number.digits.length = 0 := by omega
  have hguard : ¬ (abs32 (number.scale - 17) ≥ 22 * 16) := by omega
  simp only [hskip, beq_iff_eq, hlen0, if_false, heff, hguard, hpack, hn, hround, hasm, hsign]
  exact applySign_signBit v hv.1

/-! ## The round trip through DoubleToNumber -/

theorem NumberToDouble_no_digits (p s : Int) (sg : Bool) :
    NumberToDouble ⟨p, s, sg, []⟩ = applySign sg 0 := by
  simp [NumberToDouble, NumberToDoubleRun, skipLeadingZeros]

theorem head_of_all_zero (s : List Nat) (hne : s ≠ []) (h : ∀ c ∈ s, c = 48) :
    wcharAt s 0 = 48 := by
  obtain ⟨c, cs, rfl⟩ := List.exists_cons_of_ne_nil hne
  simpa [wcharAt] using h c (List.mem_cons_self _ _)

/-- The buffer `DoubleToNumber` builds for a zero: no digits. -/
theorem DoubleToNumber_zero (ecvt : Nat → Int → EcvtResult) (v : Nat) (p : Nat)
    (hv : IsFiniteDouble v) (hp : 0 < p) (hz : v % 2 ^ 63 = 0)
    (hr : IsCorrectlyRounded v p (ecvt v p)) :
    DoubleToNumber ecvt v p = ⟨p, (ecvt v p).decpt, doubleSignBit v, []⟩ := by
  obtain ⟨hs, hlen, -, hrest⟩ := hr
  rw [if_pos hz] at hrest
  have hne : (ecvt v p).digits ≠ [] := by
    intro h
    rw [h] at hlen
    simp at hlen
    omega
  have hhead := head_of_all_zero _ hne hrest.1
  unfold DoubleToNumber
  have hfin : ¬ doubleExpField v = 0x7FF := hv.2
  simp only [hfin, if_false, hhead, ne_eq, not_true_eq_false, hs]

/-- The buffer `DoubleToNumber` builds for a non-zero finite double: the
digits of the generator. -/
theorem DoubleToNumber_nonzero (ecvt : Nat → Int → EcvtResult) (v : Nat) (p : Nat)
    (hv : IsFiniteDouble v) (hz : v % 2 ^ 63 ≠ 0)
    (hr : IsCorrectlyRounded v p (ecvt v p)) :
    DoubleToNumber ecvt v p =
      ⟨p, (ecvt v p).decpt, doubleSignBit v, (ecvt v p).digits⟩ := by
  obtain ⟨hs, -, hdec, hrest⟩ := hr
  rw [if_neg hz] at hrest
  unfold DoubleToNumber
  have hfin : ¬ doubleExpField v = 0x7FF := hv.2
  simp only [hfin, if_false, hrest.1, ne_eq, not_false_eq_true, if_true, hs,
    cstr_of_ne_zero _ hdec.ne_zero]

theorem applySign_zero (v : Nat) (hv : v < 2 ^ 64) (hz : v % 2 ^ 63 = 0) :
    applySign (doubleSignBit v) 0 = v := by
  have := applySign_signBit v hv
  rwa [hz] at this

/-- Seventeen correctly rounded digits always convert back to the double
they were generated from. -/
theorem round_trip_17 (ecvt : Nat → Int → EcvtResult) (v : Nat) (hv : IsFiniteDouble v)
    (h17 : IsCorrectlyRounded v 17 (ecvt v 17)) :
    NumberToDouble (DoubleToNumber ecvt v 17) = v := by
  by_cases hz : v % 2 ^ 63 = 0
  · have h := DoubleToNumber_zero ecvt v 17 hv (by decide) hz h17
    simp only [Nat.cast_ofNat] at h
    rw [h, NumberToDouble_no_digits]
    exact applySign_zero v hv.1 hz
  · have h := DoubleToNumber_nonzero ecvt v 17 hv hz h17
    simp only [Nat.cast_ofNat] at h
    rw [h]
    obtain ⟨-, hlen, hdec, hrest⟩ := h17
    rw [if_neg hz] at hrest
    simp only [Nat.cast_ofNat] at hrest
    exact NumberToDouble_17_digits _ v hv hlen hdec hrest.1 rfl hz hrest.2

/-- C2: for every finite double `v` and every digit generator whose 17-digit
answer for `v` is correctly rounded, `NumberToDouble (DoubleToNumber v p)` has
exactly the bit pattern of `v` for some `p` in `{15, 17}`, and `p = 17` works
whenever `p = 15` does not (it always works). -/
theorem DoubleToNumber_round_trips (ecvt : Nat → Int → EcvtResult) (v : Nat)
    (hv : IsFiniteDouble v) (h17 : IsCorrectlyRounded v 17 (ecvt v 17)) :
    (∃ p : Int, (p = 15 ∨ p = 17) ∧ NumberToDouble (DoubleToNumber ecvt v p) = v) ∧
      (NumberToDouble (DoubleToNumber ecvt v 15) ≠ v →
        NumberToDouble (DoubleToNumber ecvt v 17) = v) :=
  ⟨⟨17, Or.inr rfl, round_trip_17 ecvt v hv h17⟩, fun _ => round_trip_17 ecvt v hv h17⟩

theorem DoubleToNumber_round_trips_witness :
    NumberToDouble (DoubleToNumber
        (fun _ p => if p = 15
          then ⟨[51, 48, 48, 48, 48, 48, 48, 48, 48, 48, 48, 48, 48, 48, 48], 0, false⟩
          else ⟨[51, 48, 48, 48, 48, 48, 48, 48, 48, 48, 48, 48, 48, 48, 48, 48, 52], 0, false⟩)
        0x3FD3333333333334 15) ≠ 0x3FD3333333333334 ∧
      NumberToDouble (DoubleToNumber
        (fun _ p => if p = 15
          then ⟨[51, 48, 48, 48, 48, 48, 48, 48, 48, 48, 48, 48, 48, 48, 48], 0, false⟩
          else ⟨[51, 48, 48, 48, 48, 48, 48, 48, 48, 48, 48, 48, 48, 48, 48, 48, 52], 0, false⟩)
        0x3FD3333333333334 17) = 0x3FD3333333333334 :=
  have h15 : NumberToDouble (DoubleToNumber
        (fun _ p => if p = 15
          then ⟨[51, 48, 48, 48, 48, 48, 48, 48, 48, 48, 48, 48, 48, 48, 48], 0, false⟩
          else ⟨[51, 48, 48, 48, 48, 48, 48, 48, 48, 48, 48, 48, 48, 48, 48, 48, 52], 0, false⟩)
        0x3FD3333333333334 15) ≠ 0x3FD3333333333334 := by decide
  ⟨h15, (DoubleToNumber_round_trips _ 0x3FD3333333333334 ⟨by decide, by decide⟩ (by decide!)).2 h15⟩

/-! ## The buffer rendered by the round-trip format -/

/-- A decimal `D * 10^s` of at most 17 digits within half a decimal unit of a
non-zero finite double has a moderate exponent. -/
theorem decimal_scale_bounded (s E : Int) (D M : Nat) (hE1 : -1126 ≤ E) (hE2 : E ≤ 971)
    (hD1 : 1 ≤ D) (hD2 : D < 10 ^ 17) (hM1 : 2 ^ 52 ≤ M) (hM2 : M < 2 ^ 53)
    (hclose : |(D : ℚ) * (10 : ℚ) ^ s - (M : ℚ) * (2 : ℚ) ^ E| ≤ (10 : ℚ) ^ s / 2) :
    -342 < s ∧ s < 309 := by
  obtain ⟨hl, hu⟩ := abs_le.mp hclose
  have hp : (0 : ℚ) < (10 : ℚ) ^ s := by positivity
  have he : (0 : ℚ) < (2 : ℚ) ^ E := by positivity
  have hDq1 : (1 : ℚ) ≤ (D : ℚ) := by exact_mod_cast hD1
  have hDq2 : (D : ℚ) ≤ 10 ^ 17 := by exact_mod_cast hD2.le
  have hMq1 : (2 : ℚ) ^ 52 ≤ (M : ℚ) := by exact_mod_cast hM1
  have hMq2 : (M : ℚ) ≤ 2 ^ 53 := by exact_mod_cast hM2.le
  have a1 : 1 * (10 : ℚ) ^ s ≤ (D : ℚ) * (10 : ℚ) ^ s :=
    mul_le_mul_of_nonneg_right hDq1 hp.le
  have a2 : (D : ℚ) * (10 : ℚ) ^ s ≤ 10 ^ 17 * (10 : ℚ) ^ s :=
    mul_le_mul_of_nonneg_right hDq2 hp.le
  have a3 : (2 : ℚ) ^ 52 * (2 : ℚ) ^ E ≤ (M : ℚ) * (2 : ℚ) ^ E :=
    mul_le_mul_of_nonneg_right hMq1 he.le
  have a4 : (M : ℚ) * (2 : ℚ) ^ E ≤ 2 ^ 53 * (2 : ℚ) ^ E :=
    mul_le_mul_of_nonneg_right hMq2 he.le
  constructor
  · by_contra hc
    have hs : s ≤ -342 := by omega
    have b1 : (10 : ℚ) ^ s ≤ (10 : ℚ) ^ (-342 : Int) :=
      zpow_le_zpow_right₀ (by norm_num) hs
    have b2 : (2 : ℚ) ^ (-1126 : Int) ≤ (2 : ℚ) ^ E :=
      zpow_le_zpow_right₀ (by norm_num) hE1
    have b3 : ((10 : ℚ) ^ 17 + 1 / 2) * (10 : ℚ) ^ (-342 : Int) <
        (2 : ℚ) ^ 52 * (2 : ℚ) ^ (-1126 : Int) := by
      norm_num
    have c1 : ((10 : ℚ) ^ 17 + 1 / 2) * (10 : ℚ) ^ s ≤
        ((10 : ℚ) ^ 17 + 1 / 2) * (10 : ℚ) ^ (-342 : Int) :=
      mul_le_mul_of_nonneg_left b1 (by norm_num)
    have c2 : (2 : ℚ) ^ 52 * (2 : ℚ) ^ (-1126 : Int) ≤ (2 : ℚ) ^ 52 * (2 : ℚ) ^ E :=
      mul_le_mul_of_nonneg_left b2 (by norm_num)
    generalize (10 : ℚ) ^ (-342 : Int) = q at b3 c1
    generalize (2 : ℚ) ^ (-1126 : Int) = r at b3 c2
    generalize (10 : ℚ) ^ s = P at hl hu a1 a2 c1
    generalize (2 : ℚ) ^ E = e at hl hu a3 a4 c2
    linarith
  · by_contra hc
    have hs : 309 ≤ s := by omega
    have b1 : (10 : ℚ) ^ (309 : Int) ≤ (10 : ℚ) ^ s :=
      zpow_le_zpow_right₀ (by norm_num) hs
    have b2 : (2 : ℚ) ^ E ≤ (2 : ℚ) ^ (971 : Int) :=
      zpow_le_zpow_right₀ (by norm_num) hE2
    have b3 : (2 : ℚ) ^ 53 * (2 : ℚ) ^ (971 : Int) < (1 / 2) * (10 : ℚ) ^ (309 : Int) := by
      norm_num
    have c2 : (2 : ℚ) ^ 53 * (2 : ℚ) ^ E ≤ (2 : ℚ) ^ 53 * (2 : ℚ) ^ (971 : Int) :=
      mul_le_mul_of_nonneg_left b2 (by norm_num)
    generalize (10 : ℚ) ^ (309 : Int) = q at b3 b1
    generalize (2 : ℚ) ^ (971 : Int) = r at b3 c2
    generalize (10 : ℚ) ^ s = P at hl hu a1 a2 b1
    generalize (2 : ℚ) ^ E = e at hl hu a3 a4 c2
    linarith

/-- The decimal point a correctly rounding generator reports is never one of
the two sentinel scales. -/
theorem decpt_not_sentinel (v : Nat) (p : Nat) (r : EcvtResult) (hv : IsFiniteDouble v)
    (hp1 : 0 < p) (hp2 : p ≤ 17) (hr : IsCorrectlyRounded v p r) :
    r.decpt ≠ SCALE_NAN ∧ r.decpt ≠ SCALE_INF := by
  obtain ⟨-, hlen, hdec, hrest⟩ := hr
  unfold SCALE_NAN SCALE_INF
  by_cases hz : v % 2 ^ 63 = 0
  · rw [if_pos hz] at hrest
    omega
  · rw [if_neg hz] at hrest
    obtain ⟨M, E, hM1, hM2, hE1, hE2, hmag, -⟩ := double_normal_form (v % 2 ^ 63)
      (Nat.mod_lt _ (by norm_num)) (by rw [doubleExpField_mod]; exact hv.2) hz
    rw [doubleMagnitude_mod] at hmag
    have hne : r.digits ≠ [] := by
      intro h
      rw [h] at hlen
      simp at hlen
      omega
    have hD1 : 1 ≤ digitsValue r.digits := by
      have h1 := digitsValue_ge_of_head _ hdec hne hrest.1
      have h2 : 1 ≤ 10 ^ (r.digits.length - 1) := Nat.one_le_pow _ _ (by decide)
      omega
    have hD2 : digitsValue r.digits < 10 ^ 17 := by
      have h1 := digitsValue_lt _ hdec
      have h2 : 10 ^ r.digits.length ≤ 10 ^ 17 :=
        Nat.pow_le_pow_right (by decide) (by omega)
      omega
    have hcl := hrest.2
    rw [hmag] at hcl
    have := decimal_scale_bounded _ E _ M hE1 hE2 hD1 hD2 hM1 hM2 hcl
    omega

theorem doubleEq_self (v : Nat) (hv : IsFiniteDouble v) : doubleEq v v = true := by
  unfold doubleEq
  have h := hv.2
  simp [h]

theorem eq_of_doubleEq (a v : Nat) (hz : v % 2 ^ 63 ≠ 0) (h : doubleEq a v = true) : a = v := by
  unfold doubleEq at h
  simp only [Bool.and_eq_true, Bool.or_eq_true, beq_iff_eq] at h
  rcases h.2 with h1 | h1
  · exact absurd h1.2 hz
  · exact h1

theorem RoundNumber_no_digits (p s pos : Int) (sg : Bool) :
    RoundNumber ⟨p, s, sg, []⟩ pos = ⟨p, 0, false, []⟩ := by
  simp [RoundNumber, scanDigits, backWhile, cstr, wcharAt]

/-- A buffer of at most `pos` decimal digits that ends in a non-zero digit
passes through `RoundNumber` unchanged. -/
theorem RoundNumber_unchanged (number : NUMBER) (pos : Int) (hdec : IsDecimal number.digits)
    (hne : number.digits ≠ []) (hlen : (number.digits.length : Int) ≤ pos)
    (hlast : wcharAt number.digits (number.digits.length - 1) ≠ 48) :
    RoundNumber number pos = number := by
  have hdown : ¬ (0 ≤ pos ∧ pos.toNat < number.digits.length ∧
      53 ≤ wcharAt number.digits pos.toNat) := by
    rintro ⟨_, h2, _⟩; omega
  rw [RoundNumber_down number pos hdec hdown]
  have hmin : min pos.toNat number.digits.length = number.digits.length := by omega
  rw [hmin, backWhile_of_last_ne _ _ _ hlast]
  rcases number with ⟨p, sc, sg, ds⟩
  have : ds.length ≠ 0 := by simpa [List.length_eq_zero] using hne
  simp [this]

/-- Negative zero does not round-trip either: with a generator that answers
with all-zero digits and the minus sign, the rendered buffer converts back to
positive zero, not to the original bit pattern. -/
theorem roundTripBuffer_negative_zero_loses_sign :
    IsFiniteDouble 0x8000000000000000 ∧
      IsCorrectlyRounded 0x8000000000000000 15 ⟨List.replicate 15 48, 0, true⟩ ∧
      IsCorrectlyRounded 0x8000000000000000 17 ⟨List.replicate 17 48, 0, true⟩ ∧
      roundTripBuffer (fun _ p => ⟨List.replicate p.toNat 48, 0, true⟩) 0x8000000000000000 =
        some ⟨15, 0, false, []⟩ ∧
      NumberToDouble ⟨15, 0, false, []⟩ = 0 ∧
      NumberToDouble ⟨15, 0, false, []⟩ ≠ 0x8000000000000000 := by
  refine ⟨⟨by decide, by decide⟩, by decide, by decide, by decide, by decide, by decide⟩

/-- Where round-trip formatting does convert back: for every finite double
`v` and a correctly rounding digit generator, round-trip formatting renders a
buffer. For a zero of either sign
it is the canonical zero buffer (no digits, scale 0, sign cleared), which
converts to positive zero. For a non-zero `v`, when the buffer chosen by the
15-digit probe (or the 17-digit fallback) ends in a non-zero digit, the
General-format rounding step leaves it unchanged and it converts back to
exactly the bit pattern of `v`. -/
theorem roundTripBuffer_converts_back (ecvt : Nat → Int → EcvtResult) (v : Nat)
    (hv : IsFiniteDouble v) (h15 : IsCorrectlyRounded v 15 (ecvt v 15))
    (h17 : IsCorrectlyRounded v 17 (ecvt v 17)) :
    ∃ chosen digits, roundTripChoice ecvt v = some (chosen, digits) ∧
      roundTripBuffer ecvt v = some (RoundNumber chosen digits) ∧
      (v % 2 ^ 63 = 0 → RoundNumber chosen digits = ⟨15, 0, false, []⟩ ∧
        NumberToDouble (RoundNumber chosen digits) = 0) ∧
      (v % 2 ^ 63 ≠ 0 → wcharAt chosen.digits (chosen.digits.length - 1) ≠ 48 →
        RoundNumber chosen digits = chosen ∧
          NumberToDouble (RoundNumber chosen digits) = v) := by
  obtain ⟨hs1, hs2⟩ := decpt_not_sentinel v 15 _ hv (by decide) (by decide) h15
  by_cases hz : v % 2 ^ 63 = 0
  · have hD := DoubleToNumber_zero ecvt v 15 hv (by decide) hz h15
    simp only [Nat.cast_ofNat] at hD
    have hprobe : doubleEq (NumberToDouble (DoubleToNumber ecvt v 15)) v = true := by
      rw [hD, NumberToDouble_no_digits, applySign_zero v hv.1 hz]
      exact doubleEq_self v hv
    have hch : roundTripChoice ecvt v = some (DoubleToNumber ecvt v 15, 15) := by
      unfold roundTripChoice DOUBLE_PRECISION
      simp only [hprobe, if_true]
      rw [hD]
      simp only [hs1, hs2, if_false]
    refine ⟨_, _, hch, ?_, ?_, fun h => absurd hz h⟩
    · unfold roundTripBuffer
      rw [hch]
      rfl
    · intro _
      rw [hD, RoundNumber_no_digits, NumberToDouble_no_digits]
      exact ⟨rfl, by decide⟩
  · have hD := DoubleToNumber_nonzero ecvt v 15 hv hz h15
    simp only [Nat.cast_ofNat] at hD
    by_cases hprobe : doubleEq (NumberToDouble (DoubleToNumber ecvt v 15)) v = true
    · have hch : roundTripChoice ecvt v = some (DoubleToNumber ecvt v 15, 15) := by
        unfold roundTripChoice DOUBLE_PRECISION
        simp only [hprobe, if_true]
        rw [hD]
        simp only [hs1, hs2, if_false]
      refine ⟨_, _, hch, ?_, fun h => absurd h hz, ?_⟩
      · unfold roundTripBuffer
        rw [hch]
        rfl
      · intro _ hlast
        have hback := eq_of_doubleEq _ v hz hprobe
        obtain ⟨-, hlen, hdec, -⟩ := h15
        have hun : RoundNumber (DoubleToNumber ecvt v 15) 15 = DoubleToNumber ecvt v 15 := by
          rw [hD] at hlast ⊢
          apply RoundNumber_unchanged _ _ hdec
          · intro h
            have h' : (ecvt v 15).digits = [] := h
            rw [h'] at hlen
            simp at hlen
          · show (((ecvt v 15).digits.length : Nat) : Int) ≤ 15
            rw [hlen]
            decide
          · exact hlast
        rw [hun]
        exact ⟨rfl, hback⟩
    · have hD17 := DoubleToNumber_nonzero ecvt v 17 hv hz h17
      simp only [Nat.cast_ofNat] at hD17
      have hch : roundTripChoice ecvt v = some (DoubleToNumber ecvt v 17, 17) := by
        unfold roundTripChoice DOUBLE_PRECISION
        simp only [hprobe]
        rw [hD]
        simp only [hs1, hs2, if_false]
        rfl
      refine ⟨_, _, hch, ?_, fun h => absurd h hz, ?_⟩
      · unfold roundTripBuffer
        rw [hch]
        rfl
      · intro _ hlast
        have hback := round_trip_17 ecvt v hv h17
        obtain ⟨-, hlen, hdec, -⟩ := h17
        have hun : RoundNumber (DoubleToNumber ecvt v 17) 17 = DoubleToNumber ecvt v 17 := by
          rw [hD17] at hlast ⊢
          apply RoundNumber_unchanged _ _ hdec
          · intro h
            have h' : (ecvt v 17).digits = [] := h
            rw [h'] at hlen
            simp at hlen
          · show (((ecvt v 17).digits.length : Nat) : Int) ≤ 17
            rw [hlen]
            decide
          · exact hlast
        rw [hun]
        exact ⟨rfl, hback⟩

theorem roundTripBuffer_converts_back_witness :
    (roundTripBuffer
        (fun _ p => if p = 15
          then ⟨[51, 48, 48, 48, 48, 48, 48, 48, 48, 48, 48, 48, 48, 48, 48], 0, false⟩
          else ⟨[51, 48, 48, 48, 48, 48, 48, 48, 48, 48, 48, 48, 48, 48, 48, 48, 52], 0, false⟩)
        0x3FD3333333333334).map NumberToDouble = some 0x3FD3333333333334 := by
  obtain ⟨chosen, digits, hch, hbuf, -, hnz⟩ := roundTripBuffer_converts_back
    (fun _ p => if p = 15
      then ⟨[51, 48, 48, 48, 48, 48, 48, 48, 48, 48, 48, 48, 48, 48, 48], 0, false⟩
      else ⟨[51, 48, 48, 48, 48, 48, 48, 48, 48, 48, 48, 48, 48, 48, 48, 48, 52], 0, false⟩)
    0x3FD3333333333334 ⟨by decide, by decide⟩ (by decide!) (by decide!)
  have e : roundTripChoice
      (fun _ p => if p = 15
        then ⟨[51, 48, 48, 48, 48, 48, 48, 48, 48, 48, 48, 48, 48, 48, 48], 0, false⟩
        else ⟨[51, 48, 48, 48, 48, 48, 48, 48, 48, 48, 48, 48, 48, 48, 48, 48, 52], 0, false⟩)
      0x3FD3333333333334 =
      some (⟨17, 0, false, [51, 48, 48, 48, 48, 48, 48, 48, 48, 48, 48, 48, 48, 48, 48, 48, 52]⟩,
        17) := by decide
  rw [e] at hch
  cases hch
  rw [hbuf]
  exact congrArg some (hnz (by decide) (by decide)).2

/-- C3 fails: for the finite double `0x3F454434E3369B9D`, the double nearest
to 0.000649, and a correctly rounding digit generator, the 15-digit probe
succeeds on the digits `649000000000000`, so round-trip formatting keeps the
15-digit buffer; the General-format rounding step trims it to `649`, and the
rendered buffer converts through `NumberToDouble` to `0x3F454434E3369B9E`, the
next double up, not to the original bit pattern. -/
theorem roundTripBuffer_trimmed_differs :
    IsFiniteDouble 0x3F454434E3369B9D ∧
      IsCorrectlyRounded 0x3F454434E3369B9D 15
        ⟨[54, 52, 57, 48, 48, 48, 48, 48, 48, 48, 48, 48, 48, 48, 48], -3, false⟩ ∧
      IsCorrectlyRounded 0x3F454434E3369B9D 17
        ⟨[54, 52, 56, 57, 57, 57, 57, 57, 57, 57, 57, 57, 57, 57, 57, 57, 53], -3, false⟩ ∧
      roundTripChoice
        (fun _ p => if p = 15
          then ⟨[54, 52, 57, 48, 48, 48, 48, 48, 48, 48, 48, 48, 48, 48, 48], -3, false⟩
          else ⟨[54, 52, 56, 57, 57, 57, 57, 57, 57, 57, 57, 57, 57, 57, 57, 57, 53], -3, false⟩)
        0x3F454434E3369B9D =
        some (⟨15, -3, false, [54, 52, 57, 48, 48, 48, 48, 48, 48, 48, 48, 48, 48, 48, 48]⟩,
          15) ∧
      roundTripBuffer
        (fun _ p => if p = 15
          then ⟨[54, 52, 57, 48, 48, 48, 48, 48, 48, 48, 48, 48, 48, 48, 48], -3, false⟩
          else ⟨[54, 52, 56, 57, 57, 57, 57, 57, 57, 57, 57, 57, 57, 57, 57, 57, 53], -3, false⟩)
        0x3F454434E3369B9D = some ⟨15, -3, false, [54, 52, 57]⟩ ∧
      NumberToDouble ⟨15, -3, false, [54, 52, 57]⟩ = 0x3F454434E3369B9E ∧
      (roundTripBuffer
        (fun _ p => if p = 15
          then ⟨[54, 52, 57, 48, 48, 48, 48, 48, 48, 48, 48, 48, 48, 48, 48], -3, false⟩
          else ⟨[54, 52, 56, 57, 57, 57, 57, 57, 57, 57, 57, 57, 57, 57, 57, 57, 53], -3, false⟩)
        0x3F454434E3369B9D).map NumberToDouble ≠ some 0x3F454434E3369B9D := by
  refine ⟨⟨by decide, by decide⟩, by decide!, by decide!, by decide, by decide, by decide,
    by decide⟩

/-! ## The buffers of the integer conversions -/

theorem isIntegerBuffer_of_numeral (p : Int) (sg : Bool) (n : Nat) (hs : n = 0 → sg = false) :
    IsIntegerBuffer ⟨p, ((decimalNumeral n).length : Int), sg, decimalNumeral n⟩ n := by
  refine ⟨rfl, decimalNumeral_isDecimal n, decimalNumeral_head_ne_zero n, rfl, ?_, ?_⟩
  · intro h0
    subst h0
    simp [decimalNumeral_zero, hs rfl]
  · intro hn
    have hstep := decimalNumeral_step n hn
    refine ⟨by rw [hstep]; simp, ?_⟩
    show wcharAt (decimalNumeral n) ((decimalNumeral n).length - 1) = 48 ↔ 10 ∣ n
    rw [hstep]
    simp only [List.length_append, List.length_singleton, Nat.add_sub_cancel, wcharAt]
    rw [List.getD_append_right _ _ _ _ (le_refl _)]
    simp only [Nat.sub_self, List.getD_cons_zero]
    omega

/-- C11 as stated fails: the four integer conversions keep the trailing zeros
of the numeral; for the value 100 each of them builds the digits `100`. -/
theorem integer_conversions_keep_trailing_zeros :
    Int32ToNumber 100 = ⟨10, 3, false, [49, 48, 48]⟩ ∧
      UInt32ToNumber 100 = ⟨10, 3, false, [49, 48, 48]⟩ ∧
      Int64ToNumber 100 = ⟨19, 3, false, [49, 48, 48]⟩ ∧
      UInt64ToNumber 100 = ⟨20, 3, false, [49, 48, 48]⟩ ∧
      wcharAt [49, 48, 48] 2 = 48 := by
  decide!

/-- C11 (amended): for every integer value the buffer that `Int32ToNumber`,
`UInt32ToNumber`, `Int64ToNumber` and `UInt64ToNumber` build holds the decimal
numeral of the magnitude: decimal digits without a leading zero, `scale` equal
to the digit count, and for zero the empty buffer with `scale = 0` and
`sign = false`. Trailing zeros are kept: the last digit is `'0'` exactly when
10 divides the non-zero value. -/
theorem integer_conversions_build_numeral (v32 : Int) (u32 : Nat) (v64 : Int) (u64 : Nat)
    (h32 : -2147483648 ≤ v32 ∧ v32 ≤ 2147483647)
    (h64 : -9223372036854775808 ≤ v64 ∧ v64 ≤ 9223372036854775807)
    (hu64 : u64 < 18446744073709551616) :
    IsIntegerBuffer (Int32ToNumber v32) v32.natAbs ∧
      IsIntegerBuffer (UInt32ToNumber u32) u32 ∧
      IsIntegerBuffer (Int64ToNumber v64) v64.natAbs ∧
      IsIntegerBuffer (UInt64ToNumber u64) u64 := by
  refine ⟨?_, ?_, ?_, ?_⟩
  · rw [Int32ToNumber_eq v32 h32]
    exact isIntegerBuffer_of_numeral _ _ _ (by intro h; simp; omega)
  · rw [UInt32ToNumber_eq]
    exact isIntegerBuffer_of_numeral _ _ _ (fun _ => rfl)
  · rw [Int64ToNumber_eq v64 h64]
    exact isIntegerBuffer_of_numeral _ _ _ (by intro h; simp; omega)
  · rw [UInt64ToNumber_eq u64 hu64]
    exact isIntegerBuffer_of_numeral _ _ _ (fun _ => rfl)

theorem integer_conversions_build_numeral_witness :
    IsIntegerBuffer (Int32ToNumber (-2147483648)) 2147483648 ∧
      IsIntegerBuffer (UInt32ToNumber 0) 0 ∧
      IsIntegerBuffer (Int64ToNumber (-120)) 120 ∧
      IsIntegerBuffer (UInt64ToNumber 18446744073709551615) 18446744073709551615 :=
  integer_conversions_build_numeral (-2147483648) 0 (-120) 18446744073709551615
    (by decide) (by decide) (by decide)

/-! ## NaN and Infinity -/

theorem scale_sentinels_differ : SCALE_INF ≠ SCALE_NAN := by decide

/-- C12: for every bit pattern with exponent field `0x7FF` and every
precision, `DoubleToNumber` yields no digits, the sign of the value and the
NaN sentinel scale when the fraction is non-zero, the Infinity sentinel scale
when it is zero; and `FormatDouble` returns the configured NaN string, or the
Infinity string of the value's sign, whatever the format string is. -/
theorem FormatDouble_nonfinite (ecvt : Nat → Int → EcvtResult) (value : Nat)
    (hexp : doubleExpField value = 0x7FF) :
    (∀ precision : Int, DoubleToNumber ecvt value precision =
        ⟨precision, if doubleFraction value ≠ 0 then SCALE_NAN else SCALE_INF,
          doubleSignBit value, []⟩) ∧
      ∀ (format : Option (List Nat)) (numfmt : NumberFormatInfo) (digits0 : Int),
        FormatDouble ecvt value format (some numfmt) digits0 =
          .ok (if doubleFraction value ≠ 0 then numfmt.sNaN
            else if doubleSignBit value then numfmt.sNegativeInfinity
            else numfmt.sPositiveInfinity) := by
  have hD : ∀ precision : Int, DoubleToNumber ecvt value precision =
      ⟨precision, if doubleFraction value ≠ 0 then SCALE_NAN else SCALE_INF,
        doubleSignBit value, []⟩ := by
    intro precision
    unfold DoubleToNumber
    rw [if_pos hexp]
  refine ⟨hD, ?_⟩
  intro format numfmt digits0
  unfold FormatDouble
  simp only [hD]
  by_cases hf : doubleFraction value ≠ 0
  · simp only [hf, if_true, ne_eq, not_false_eq_true, ite_self]
  · simp only [hf, if_false, if_true, scale_sentinels_differ, ite_self]

theorem FormatDouble_nonfinite_witness :
    FormatDouble (fun _ _ => ⟨[], 0, false⟩) 0x7FF8000000000000 (some [69, 51])
        (some ⟨[3], [3], [3], [43], [45], [46], [44], [44], [46], [36], [44], [46], [37],
          [0x2030], [78, 97, 78], [73], [45, 73], 2, 2, 2, 1, 0, 0, 1, 1⟩) 0 =
      .ok [78, 97, 78] :=
  (FormatDouble_nonfinite (fun _ _ => ⟨[], 0, false⟩) 0x7FF8000000000000 (by decide)).2
    (some [69, 51]) _ 0

/-! ## The layout helpers on decimal digits -/

theorem nextDigit_nil : nextDigit [] = (48, []) := rfl

theorem nextDigit_cons (c : Nat) (cs : List Nat) (hc : c ≠ 0) : nextDigit (c :: cs) = (c, cs) := by
  simp [nextDigit, hc]

/-- On digits without a terminator inside, copying `n` digits yields the first
`n` of them, padded with `'0'` when fewer are left. -/
theorem copyDigits_eq (n : Nat) (buffer dig : List Nat) (h : ∀ c ∈ dig, c ≠ 0) :
    copyDigits n buffer dig =
      (buffer ++ dig.take n ++ List.replicate (n - dig.length) 48, dig.drop n) := by
  induction n generalizing buffer dig with
  | zero => simp [copyDigits]
  | succ n ih =>
    cases dig with
    | nil =>
      rw [copyDigits, nextDigit_nil, ih _ _ (by simp)]
      simp [List.replicate_succ]
    | cons c cs =>
      have hc : c ≠ 0 := h c (List.mem_cons_self _ _)
      have hcs : ∀ d ∈ cs, d ≠ 0 := fun d hd => h d (List.mem_cons_of_mem _ hd)
      rw [copyDigits, nextDigit_cons c cs hc, ih _ _ hcs]
      simp

theorem copyDigits_length (n : Nat) (buffer dig : List Nat) :
    (copyDigits n buffer dig).1.length = buffer.length + n := by
  induction n generalizing buffer dig with
  | zero => simp [copyDigits]
  | succ n ih =>
    rw [copyDigits, ih]
    simp
    omega

theorem wrapInt32_of_range (x : Int) (h1 : -2147483648 ≤ x) (h2 : x ≤ 2147483647) :
    wrapInt32 x = x := by
  unfold wrapInt32
  omega

/-- The text of an exponent: the marker, the sign string and the magnitude
padded with zeros to `minDigits` digits. -/
theorem FormatExponent_eq (buffer : List Nat) (value : Int) (expChar : Nat)
    (posSignStr : Option (List Nat)) (negSignStr : List Nat) (minDigits : Int)
    (h1 : -2147483648 ≤ value) (h2 : value ≤ 2147483647) :
    FormatExponent buffer value expChar posSignStr negSignStr minDigits =
      buffer ++ [expChar] ++ (if value < 0 then negSignStr else posSignStr.getD []) ++
        decimalPadded minDigits.toNat value.natAbs := by
  unfold FormatExponent
  simp only [Int32ToDecChars_eq, List.append_nil]
  by_cases hneg : value < 0
  · simp only [hneg, if_true]
    have : int32ToUInt32 (wrapInt32 (-value)) = value.natAbs := by
      unfold int32ToUInt32 wrapInt32
      omega
    rw [this]
  · simp only [hneg, if_false]
    have : int32ToUInt32 value = value.natAbs := by
      unfold int32ToUInt32
      omega
    rw [this]
    cases posSignStr <;> simp

theorem decimalPadded_length_ge (k v : Nat) : k ≤ (decimalPadded k v).length := by
  unfold decimalPadded
  simp
  omega

theorem decimalPadded_isDecimal (k v : Nat) : IsDecimal (decimalPadded k v) := by
  intro c hc
  unfold decimalPadded at hc
  rcases List.mem_append.mp hc with h | h
  · have := List.eq_of_mem_replicate h
    omega
  · exact decimalNumeral_isDecimal v c h

/-! ## General format: the choice of the layout -/

theorem take_one_padded (ds : List Nat) :
    ds.take 1 ++ List.replicate (1 - ds.length) 48 = [ds.headD 48] := by
  cases ds <;> simp

theorem wcharAt_zero_ne_zero_iff (ds : List Nat) (h : ∀ c ∈ ds, c ≠ 0) :
    wcharAt ds 0 ≠ 0 ↔ ds ≠ [] := by
  cases ds with
  | nil => simp [wcharAt]
  | cons c cs => simpa [wcharAt] using h c (List.mem_cons_self _ _)

theorem ne_zero_of_mem_drop {ds : List Nat} (h : ∀ c ∈ ds, c ≠ 0) (k : Nat) :
    ∀ c ∈ ds.drop k, c ≠ 0 := fun c hc => h c (List.mem_of_mem_drop hc)

/-- C17 as stated fails: at `scale = -3` the General format still uses the
fixed layout. The buffer of 0.0001 (digit `1`, `scale = -3`) is left alone by
the rounding step and is laid out as `0`, the decimal separator, `0001`,
without an exponent: `NumberToString` with format `G` and 15 digits returns
`0.0001`. -/
theorem FormatGeneral_scale_minus_three_is_fixed :
    RoundNumber ⟨15, -3, false, [49]⟩ 15 = ⟨15, -3, false, [49]⟩ ∧
      FormatGeneral [] ⟨15, -3, false, [49]⟩ 15 69
          ⟨[3], [3], [3], [43], [45], [46], [44], [44], [46], [36], [44], [46], [37],
            [0x2030], [78, 97, 78], [73], [45, 73], 2, 2, 2, 1, 0, 0, 1, 1⟩ false =
        [48, 46, 48, 48, 48, 49] ∧
      NumberToString ⟨15, -3, false, [49]⟩ 71 15
          ⟨[3], [3], [3], [43], [45], [46], [44], [44], [46], [36], [44], [46], [37],
            [0x2030], [78, 97, 78], [73], [45, 73], 2, 2, 2, 1, 0, 0, 1, 1⟩ false =
        .ok [48, 46, 48, 48, 48, 49] := by
  decide!

/-- C17 (amended): on a buffer of decimal digits the General format uses the
scientific layout exactly when `scale > digits` or `scale < -3` (and the
caller did not suppress it), that is when `scale` lies outside the closed
interval `[-3, digits]`. The scientific layout is the first digit (`'0'` for
an empty buffer), the decimal separator and the remaining digits when there
are any, the exponent marker, the sign string and `scale - 1` written with at
least 2 digits. The fixed layout is the `scale` integer digits (a single `'0'`
when `scale <= 0`), then, when digits remain or `scale < 0`, the decimal
separator, `-scale` zeros and the remaining digits; it has no exponent. -/
theorem FormatGeneral_layout (buffer : List Nat) (number : NUMBER) (digits : Int)
    (expChar : Nat) (numfmt : NumberFormatInfo) (bSuppressScientific : Bool)
    (hdec : IsDecimal number.digits)
    (hscale : -2147483648 < number.scale ∧ number.scale ≤ 2147483647) :
    ((bSuppressScientific = false ∧ (number.scale > digits ∨ number.scale < -3)) →
      FormatGeneral buffer number digits expChar numfmt bSuppressScientific =
        buffer ++ [number.digits.headD 48] ++
          (if number.digits.drop 1 ≠ [] then numfmt.sNumberDecimal ++ number.digits.drop 1
           else []) ++
          [expChar] ++ (if number.scale - 1 < 0 then numfmt.sNegative else numfmt.sPositive) ++
          decimalPadded 2 (number.scale - 1).natAbs) ∧
    (¬ (bSuppressScientific = false ∧ (number.scale > digits ∨ number.scale < -3)) →
      FormatGeneral buffer number digits expChar numfmt bSuppressScientific =
        buffer ++
          (if number.scale > 0 then
            number.digits.take number.scale.toNat ++
              List.replicate (number.scale.toNat - number.digits.length) 48
           else [48]) ++
          (if number.digits.drop number.scale.toNat ≠ [] ∨ number.scale < 0 then
            numfmt.sNumberDecimal ++ List.replicate (-number.scale).toNat 48 ++
              number.digits.drop number.scale.toNat
           else [])) := by
  have hnz := hdec.ne_zero
  constructor
  · rintro ⟨hb, hs⟩
    have hsci : (!bSuppressScientific &&
        (decide (number.scale > digits) || decide (number.scale < -3))) = true := by
      subst hb
      rcases hs with hs | hs <;> simp [hs]
    unfold FormatGeneral
    simp only [hsci, if_true]
    have h10 : (1 : Int) > 0 := by decide
    simp only [h10, if_true]
    have h1 : (1 : Int).toNat = 1 := rfl
    rw [h1, copyDigits_eq 1 buffer number.digits hnz]
    simp only [List.append_assoc, take_one_padded]
    have hw : wcharAt (number.digits.drop 1) 0 ≠ 0 ↔ number.digits.drop 1 ≠ [] :=
      wcharAt_zero_ne_zero_iff _ (ne_zero_of_mem_drop hnz 1)
    have h00 : ¬ ((0 : Int) < 0) := by decide
    simp only [hw, h00, or_false]
    rw [FormatExponent_eq _ _ _ _ _ _
      (by rw [wrapInt32_of_range _ (by omega) (by omega)]; omega)
      (by rw [wrapInt32_of_range _ (by omega) (by omega)]; omega),
      wrapInt32_of_range _ (by omega) (by omega)]
    have hc := cstr_of_ne_zero _ (ne_zero_of_mem_drop hnz 1)
    generalize number.digits.drop 1 = rest at hc hw ⊢
    by_cases hrest : rest ≠ []
    · simp [hrest, hc]
    · simp [hrest]
  · intro hs
    have hsci : (!bSuppressScientific &&
        (decide (number.scale > digits) || decide (number.scale < -3))) = false := by
      cases bSuppressScientific
      · simp only [true_and, not_or] at hs
        simp [hs.1, hs.2]
      · simp
    unfold FormatGeneral
    simp only [hsci, Bool.false_eq_true, if_false]
    by_cases hpos : number.scale > 0
    · simp only [hpos, if_true]
      rw [copyDigits_eq _ buffer number.digits hnz]
      have hw : wcharAt (number.digits.drop number.scale.toNat) 0 ≠ 0 ↔
          number.digits.drop number.scale.toNat ≠ [] :=
        wcharAt_zero_ne_zero_iff _ (ne_zero_of_mem_drop hnz _)
      have h00 : ¬ ((0 : Int) < 0) := by decide
      have hneg : ¬ number.scale < 0 := by omega
      simp only [hw, h00, hneg, or_false]
      have hz : (-number.scale).toNat = 0 := by omega
      have h0le : 0 ≤ number.scale := by omega
      by_cases hrest : number.digits.drop number.scale.toNat ≠ []
      · simp [hrest, hz, h0le, cstr_of_ne_zero _ (ne_zero_of_mem_drop hnz _)]
      · simp [hrest]
    · simp only [hpos, if_false]
      have h0 : number.scale.toNat = 0 := by omega
      have hw : wcharAt number.digits 0 ≠ 0 ↔ number.digits ≠ [] :=
        wcharAt_zero_ne_zero_iff _ hnz
      simp only [h0, List.drop_zero, hw]
      by_cases hrest : number.digits ≠ [] ∨ number.scale < 0
      · simp [hrest, cstr_of_ne_zero _ hnz]
      · simp [hrest]

theorem FormatGeneral_layout_witness :
    FormatGeneral [] ⟨15, -4, false, [49, 50]⟩ 15 69
        ⟨[3], [3], [3], [43], [45], [46], [44], [44], [46], [36], [44], [46], [37],
          [0x2030], [78, 97, 78], [73], [45, 73], 2, 2, 2, 1, 0, 0, 1, 1⟩ false =
      [49, 46, 50, 69, 45, 48, 53] := by
  have h := (FormatGeneral_layout [] ⟨15, -4, false, [49, 50]⟩ 15 69
    ⟨[3], [3], [3], [43], [45], [46], [44], [44], [46], [36], [44], [46], [37],
      [0x2030], [78, 97, 78], [73], [45, 73], 2, 2, 2, 1, 0, 0, 1, 1⟩ false
    (by decide) (by decide)).1 ⟨rfl, Or.inr (by decide)⟩
  rw [h]
  decide!

/-! ## The shape of a rounded buffer -/

theorem backWhile_zero (s : List Nat) (ch : Nat) : backWhile s ch 0 = 0 := rfl

/-- The three outcomes of `RoundNumber` on decimal digits: the canonical zero;
the digits cut to at most `pos` with the sign and the scale kept; or, after a
carry out of the first digit, the single digit `1` with the scale raised. -/
theorem RoundNumber_shape (n : NUMBER) (pos : Int) (hdec : IsDecimal n.digits)
    (hscale : -2147483648 ≤ n.scale ∧ n.scale < 2147483647) :
    IsDecimal (RoundNumber n pos).digits ∧ (RoundNumber n pos).precision = n.precision ∧
      (((RoundNumber n pos).digits = [] ∧ (RoundNumber n pos).scale = 0 ∧
          (RoundNumber n pos).sign = false) ∨
        ((RoundNumber n pos).digits ≠ [] ∧ (RoundNumber n pos).sign = n.sign ∧
          (RoundNumber n pos).scale = n.scale ∧
          ((RoundNumber n pos).digits.length : Int) ≤ pos ∧
          (RoundNumber n pos).digits.length ≤ n.digits.length) ∨
        ((RoundNumber n pos).digits = [49] ∧ (RoundNumber n pos).sign = n.sign ∧
          (RoundNumber n pos).scale = n.scale + 1 ∧ 0 ≤ pos ∧ n.digits ≠ [])) := by
  by_cases hup : 0 ≤ pos ∧ pos.toNat < n.digits.length ∧ 53 ≤ wcharAt n.digits pos.toNat
  · obtain ⟨hp, hlt, hd⟩ := hup
    rw [RoundNumber_up n pos hdec hp hlt hd]
    have hle := backWhile_le n.digits 57 pos.toNat
    by_cases hj : 0 < backWhile n.digits 57 pos.toNat
    · simp only [hj, if_true]
      have hstop := backWhile_stop n.digits 57 pos.toNat hj
      have hc := hdec.wcharAt (k := backWhile n.digits 57 pos.toNat - 1) (by omega)
      refine ⟨?_, trivial, Or.inr (Or.inl ⟨by simp, trivial, trivial, ?_, ?_⟩)⟩
      · intro c hc'
        rcases List.mem_append.mp hc' with h | h
        · exact hdec c (List.mem_of_mem_take h)
        · have : c = wcharAt n.digits (backWhile n.digits 57 pos.toNat - 1) + 1 := by
            simpa using h
          omega
      · simp only [List.length_append, List.length_take, List.length_singleton]
        omega
      · simp only [List.length_append, List.length_take, List.length_singleton]
        omega
    · simp only [hj, if_false]
      refine ⟨by decide, trivial, Or.inr (Or.inr ⟨trivial, trivial, ?_, hp, ?_⟩)⟩
      · exact wrapInt32_of_range _ (by omega) (by omega)
      · intro h0
        rw [h0] at hlt
        simp at hlt
  · rw [RoundNumber_down n pos hdec hup]
    have hle := backWhile_le n.digits 48 (min pos.toNat n.digits.length)
    refine ⟨hdec.take _, rfl, ?_⟩
    by_cases hj : backWhile n.digits 48 (min pos.toNat n.digits.length) = 0
    · left
      simp [hj]
    · right; left
      simp only [hj, if_false]
      refine ⟨?_, trivial, trivial, ?_, ?_⟩
      · intro h0
        have := congrArg List.length h0
        simp only [List.length_take, List.length_nil] at this
        omega
      · simp only [List.length_take]
        omega
      · simp only [List.length_take]
        omega

theorem decimalPadded_length (k v : Nat) :
    (decimalPadded k v).length = max k (decimalNumeral v).length := by
  unfold decimalPadded
  simp
  omega

theorem decimalPadded_length_le (k v : Nat) (hk : k ≤ 10) (hv : v ≤ 2147483648) :
    (decimalPadded k v).length ≤ 10 := by
  rw [decimalPadded_length]
  have := decimalNumeral_length_le v 10 (by omega)
  omega

/-! ## Exponential format -/

theorem nextDigit_of_ne_zero (ds : List Nat) (h : ∀ c ∈ ds, c ≠ 0) :
    nextDigit ds = (ds.headD 48, ds.drop 1) := by
  cases ds with
  | nil => rfl
  | cons c cs => simp [nextDigit, h c (List.mem_cons_self _ _)]

/-- The scientific layout of a buffer of decimal digits. -/
theorem FormatScientific_eq (buffer : List Nat) (r : NUMBER) (digits : Int) (expChar : Nat)
    (numfmt : NumberFormatInfo) (hdec : IsDecimal r.digits)
    (hdig : 1 ≤ digits ∧ digits ≤ 2147483647)
    (hs : -2147483648 < r.scale ∧ r.scale ≤ 2147483647) :
    FormatScientific buffer r digits expChar numfmt =
      buffer ++ [r.digits.headD 48] ++ (if digits ≠ 1 then numfmt.sNumberDecimal else []) ++
        ((r.digits.drop 1).take (digits - 1).toNat ++
          List.replicate ((digits - 1).toNat - (r.digits.drop 1).length) 48) ++
        [expChar] ++
        (if (if r.digits = [] then 0 else r.scale - 1) < 0 then numfmt.sNegative
         else numfmt.sPositive) ++
        decimalPadded 3 (if r.digits = [] then (0 : Int) else r.scale - 1).natAbs := by
  have hnz := hdec.ne_zero
  unfold FormatScientific
  simp only [nextDigit_of_ne_zero _ hnz]
  rw [wrapInt32_of_range (digits - 1) (by omega) (by omega),
    copyDigits_eq _ _ _ (ne_zero_of_mem_drop hnz 1)]
  have hw : wcharAt r.digits 0 = 0 ↔ r.digits = [] := by
    have := wcharAt_zero_ne_zero_iff r.digits hnz
    constructor
    · intro h
      by_contra hne
      exact (this.mpr hne) h
    · intro h
      rw [h]
      rfl
  simp only [hw]
  have he1 : -2147483648 ≤ (if r.digits = [] then (0 : Int) else wrapInt32 (r.scale - 1)) := by
    split
    · decide
    · rw [wrapInt32_of_range _ (by omega) (by omega)]; omega
  have he2 : (if r.digits = [] then (0 : Int) else wrapInt32 (r.scale - 1)) ≤ 2147483647 := by
    split
    · decide
    · rw [wrapInt32_of_range _ (by omega) (by omega)]; omega
  rw [FormatExponent_eq _ _ _ _ _ _ he1 he2, wrapInt32_of_range (r.scale - 1) (by omega) (by omega)]
  by_cases h1 : digits ≠ 1
  · simp [h1]
  · simp [h1]

/-- C16: on a buffer of decimal digits and for a precision `d >= 0` the
Exponential format rounds the buffer at `d + 1` digits and emits (after the
negative-sign string of a negative number) exactly one integer digit, the
decimal separator iff `d > 0`, exactly `d` fraction digits, the exponent
marker (the format letter), the negative-sign string for a negative exponent
and the positive-sign string otherwise, and the magnitude of the exponent
`scale - 1` (`0` for a zero value) padded with zeros to at least 3 digits. -/
theorem NumberToString_exponential (number : NUMBER) (format : Nat) (d : Int)
    (numfmt : NumberFormatInfo) (bDecimal : Bool) (hfmt : format = 69 ∨ format = 101)
    (hdec : IsDecimal number.digits) (hd : 0 ≤ d)
    (hscale : -2147483648 < number.scale ∧ number.scale < 2147483647)
    (hlen : 106 + d + ((numfmt.sNegative.length : Int) + numfmt.sPositive.length) * 2 +
      numfmt.sNumberDecimal.length ≤ 2147483647) :
    NumberToString number format d numfmt bDecimal =
        .ok ((if (RoundNumber number (d + 1)).sign then numfmt.sNegative else []) ++
          [(RoundNumber number (d + 1)).digits.headD 48] ++
          (if d > 0 then numfmt.sNumberDecimal else []) ++
          (((RoundNumber number (d + 1)).digits.drop 1).take d.toNat ++
            List.replicate (d.toNat - ((RoundNumber number (d + 1)).digits.drop 1).length) 48) ++
          [format] ++
          (if (if (RoundNumber number (d + 1)).digits = [] then 0
              else (RoundNumber number (d + 1)).scale - 1) < 0 then numfmt.sNegative
           else numfmt.sPositive) ++
          decimalPadded 3 (if (RoundNumber number (d + 1)).digits = [] then (0 : Int)
            else (RoundNumber number (d + 1)).scale - 1).natAbs) ∧
      (((RoundNumber number (d + 1)).digits.drop 1).take d.toNat ++
        List.replicate (d.toNat - ((RoundNumber number (d + 1)).digits.drop 1).length)
          48).length = d.toNat ∧
      3 ≤ (decimalPadded 3 (if (RoundNumber number (d + 1)).digits = [] then (0 : Int)
        else (RoundNumber number (d + 1)).scale - 1).natAbs).length := by
  obtain ⟨hrdec, -, hshape⟩ := RoundNumber_shape number (d + 1) hdec ⟨by omega, hscale.2⟩
  have hrs : -2147483648 < (RoundNumber number (d + 1)).scale ∧
      (RoundNumber number (d + 1)).scale ≤ 2147483647 := by
    rcases hshape with h | h | h
    · rw [h.2.1]; decide
    · rw [h.2.2.1]; omega
    · rw [h.2.2.1]; omega
  have hft : format &&& 0xFFDF = 69 := by
    rcases hfmt with h | h <;> subst h <;> decide
  have hd1 : wrapInt32 (d + 1) = d + 1 := wrapInt32_of_range _ (by omega) (by omega)
  have heff : effectiveDigits number format d numfmt bDecimal = d + 1 := by
    unfold effectiveDigits
    have hneg : ¬ d < 0 := by omega
    simp [hft, hneg, hd1]
  have hbuf : NumberToStringBufferLen number format d numfmt bDecimal =
      MIN_BUFFER_SIZE + (d + 1) +
        ((numfmt.sNegative.length : Int) + numfmt.sPositive.length) * 2 +
        numfmt.sNumberDecimal.length := by
    unfold NumberToStringBufferLen
    simp [hft, heff]
  have hrnd : NumberToStringRounded number format d numfmt bDecimal =
      RoundNumber number (d + 1) := by
    unfold NumberToStringRounded
    simp [hft, heff]
  have hlast : (((RoundNumber number (d + 1)).digits.drop 1).take d.toNat ++
      List.replicate (d.toNat - ((RoundNumber number (d + 1)).digits.drop 1).length)
        48).length = d.toNat := by
    simp only [List.length_append, List.length_take, List.length_replicate]
    omega
  refine ⟨?_, hlast, decimalPadded_length_ge _ _⟩
  unfold NumberToString
  simp only [hft, hbuf, heff, hrnd]
  have hguard : ¬ (MIN_BUFFER_SIZE + (d + 1) +
      ((numfmt.sNegative.length : Int) + numfmt.sPositive.length) * 2 +
      numfmt.sNumberDecimal.length > INT32_MAX) := by
    unfold MIN_BUFFER_SIZE INT32_MAX
    omega
  have hne : ¬ ((69 : Nat) = 67) := by decide
  have hne2 : ¬ ((69 : Nat) = 70) := by decide
  have hne3 : ¬ ((69 : Nat) = 78) := by decide
  simp only [hguard, if_false, hne, hne2, hne3, true_or, or_true, if_true]
  rw [FormatScientific_eq _ _ _ _ _ hrdec ⟨by omega, by omega⟩ hrs]
  have hdd : (d + 1 - 1).toNat = d.toNat := by
    congr 1
    omega
  have hd0 : (d + 1 ≠ 1) ↔ d > 0 := by omega
  simp only [hdd, hd0]
  have hpad := decimalPadded_length_le 3
    (if (RoundNumber number (d + 1)).digits = [] then (0 : Int)
      else (RoundNumber number (d + 1)).scale - 1).natAbs (by decide)
    (by split <;> omega)
  rw [if_pos]
  simp only [List.length_append, List.length_singleton, hlast]
  have hsg : (if (RoundNumber number (d + 1)).sign = true then numfmt.sNegative
      else []).length ≤ numfmt.sNegative.length := by split <;> simp
  have hdc : (if d > 0 then numfmt.sNumberDecimal else []).length ≤
      numfmt.sNumberDecimal.length := by split <;> simp
  have hes : (if (if (RoundNumber number (d + 1)).digits = [] then 0
      else (RoundNumber number (d + 1)).scale - 1) < 0 then numfmt.sNegative
      else numfmt.sPositive).length ≤ numfmt.sNegative.length + numfmt.sPositive.length := by
    have : ∀ (p : Prop) [Decidable p], (if p then numfmt.sNegative
        else numfmt.sPositive).length ≤ numfmt.sNegative.length + numfmt.sPositive.length := by
      intro p _
      split <;> omega
    exact this _
  have hdn : ((d.toNat : Nat) : Int) = d := Int.toNat_of_nonneg hd
  unfold MIN_BUFFER_SIZE
  push_cast
  omega

theorem NumberToString_exponential_witness :
    NumberToString ⟨15, 3, true, [49, 50, 53]⟩ 69 1
        ⟨[3], [3], [3], [43], [45], [46], [44], [44], [46], [36], [44], [46], [37],
          [0x2030], [78, 97, 78], [73], [45, 73], 2, 2, 2, 1, 0, 0, 1, 1⟩ false =
      .ok [45, 49, 46, 51, 69, 43, 48, 48, 50] :=
  (NumberToString_exponential ⟨15, 3, true, [49, 50, 53]⟩ 69 1
    ⟨[3], [3], [3], [43], [45], [46], [44], [44], [46], [36], [44], [46], [37],
      [0x2030], [78, 97, 78], [73], [45, 73], 2, 2, 2, 1, 0, 0, 1, 1⟩ false
    (Or.inl rfl) (by decide) (by decide) (by decide) (by decide)).1.trans
    (congrArg Except.ok (by decide!))

/-! ## Sections of a picture string -/

theorem separatorsFrom_quoted (q : Nat) (hq : q ≠ 0) (cs : List Nat) (i : Nat) :
    separatorsFrom (.quoted q) i cs =
      separatorsFrom .plain
        (i + (if cs.getD (cs.takeWhile (fun c => c != 0 && c != q)).length 0 = 0
          then (cs.takeWhile (fun c => c != 0 && c != q)).length
          else (cs.takeWhile (fun c => c != 0 && c != q)).length + 1))
        (cs.drop (if cs.getD (cs.takeWhile (fun c => c != 0 && c != q)).length 0 = 0
          then (cs.takeWhile (fun c => c != 0 && c != q)).length
          else (cs.takeWhile (fun c => c != 0 && c != q)).length + 1)) := by
  induction cs generalizing i with
  | nil => simp [separatorsFrom]
  | cons c cs ih =>
    by_cases h0 : c = 0
    · subst h0
      simp [separatorsFrom, List.takeWhile]
    · by_cases hc : c = q
      · subst hc
        simp [separatorsFrom, List.takeWhile, h0]
      · have hb : (c != 0 && c != q) = true := by simp [h0, hc]
        rw [separatorsFrom, if_neg h0, if_neg hc, ih (i + 1)]
        simp only [List.takeWhile, hb, List.length_cons, List.getD_cons_succ]
        split
        · simp [Nat.add_assoc, Nat.add_comm 1]
        · simp [Nat.add_assoc, Nat.add_comm 1]

theorem drop_eq_cons_wcharAt (format : List Nat) (src : Nat) (h : src < format.length) :
    format.drop src = wcharAt format src :: format.drop (src + 1) := by
  rw [List.drop_eq_getElem_cons h]
  congr 1
  unfold wcharAt
  rw [List.getD_eq_getElem _ _ h]

/-- The section that the loop of `FindSection` selects, from the separators
that lie ahead. -/
theorem FindSectionLoop_eq (format : List Nat) (fuel : Nat) :
    ∀ (src : Nat) (sect : Int), format.length < src + fuel → 1 ≤ sect → sect ≤ 2147483647 →
      FindSectionLoop format fuel src sect =
        match (separatorsFrom .plain src (format.drop src)).get? (sect - 1).toNat with
        | some k =>
          if wcharAt format (k + 1) ≠ 0 ∧ wcharAt format (k + 1) ≠ 59 then k + 1 else 0
        | none => 0 := by
  induction fuel with
  | zero =>
    intro src sect hf _ _
    have hd : format.drop src = [] := List.drop_eq_nil_of_le (by omega)
    simp [FindSectionLoop, hd, separatorsFrom]
  | succ fuel ih =>
    intro src sect hf h1 h2
    by_cases hlt : src < format.length
    swap
    · have hd : format.drop src = [] := List.drop_eq_nil_of_le (by omega)
      have hw : wcharAt format src = 0 := wcharAt_of_length_le _ (by omega)
      simp [FindSectionLoop, hd, separatorsFrom, hw]
    rw [drop_eq_cons_wcharAt format src hlt]
    unfold FindSectionLoop
    simp only
    by_cases hq : wcharAt format src = 39 ∨ wcharAt format src = 34
    · have hq0 : wcharAt format src ≠ 0 := by rcases hq with h | h <;> rw [h] <;> decide
      rw [if_pos hq, separatorsFrom, if_neg hq0, if_pos hq,
        separatorsFrom_quoted _ hq0]
      have hsk : skipQuoted format (wcharAt format src) (src + 1) = src + 1 +
          (if (format.drop (src + 1)).getD ((format.drop (src + 1)).takeWhile
              (fun c => c != 0 && c != wcharAt format src)).length 0 = 0
            then ((format.drop (src + 1)).takeWhile
              (fun c => c != 0 && c != wcharAt format src)).length
            else ((format.drop (src + 1)).takeWhile
              (fun c => c != 0 && c != wcharAt format src)).length + 1) := by
        unfold skipQuoted
        simp only
        have : ∀ n, wcharAt format (src + 1 + n) = (format.drop (src + 1)).getD n 0 := by
          intro n
          unfold wcharAt
          simp [List.getD_eq_getElem?_getD, List.getElem?_drop]
        rw [this]
        split <;> rfl
      rw [ih _ sect (by rw [hsk]; omega) h1 h2, hsk, List.drop_drop]
    rw [if_neg hq]
    by_cases hb : wcharAt format src = 92
    · have hq0 : wcharAt format src ≠ 0 := by rw [hb]; decide
      rw [if_pos hb, separatorsFrom, if_neg hq0, if_neg hq, if_pos hb]
      by_cases hn : wcharAt format (src + 1) ≠ 0
      · have hlt2 : src + 1 < format.length := by
          by_contra hge
          exact hn (wcharAt_of_length_le _ (by omega))
        rw [if_pos hn, ih _ sect (by omega) h1 h2, drop_eq_cons_wcharAt format (src + 1) hlt2,
          separatorsFrom, if_neg hn]
      · rw [if_neg hn, ih _ sect (by omega) h1 h2]
        have hn0 : wcharAt format (src + 1) = 0 := by simpa using hn
        by_cases hlt2 : src + 1 < format.length
        · rw [drop_eq_cons_wcharAt format (src + 1) hlt2, separatorsFrom, separatorsFrom, hn0]
          simp
        · have hd : format.drop (src + 1) = [] := List.drop_eq_nil_of_le (by omega)
          rw [hd]
          simp [separatorsFrom]
    rw [if_neg hb]
    by_cases hs : wcharAt format src = 59
    · have hq0 : wcharAt format src ≠ 0 := by rw [hs]; decide
      rw [if_pos hs, separatorsFrom, if_neg hq0, if_neg hq, if_neg hb, if_pos hs]
      have hw : wrapInt32 (sect - 1) = sect - 1 := wrapInt32_of_range _ (by omega) (by omega)
      rw [hw]
      by_cases h0 : sect - 1 ≠ 0
      · rw [if_pos h0, ih _ (sect - 1) (by omega) (by omega) (by omega)]
        have : (sect - 1).toNat = (sect - 1 - 1).toNat + 1 := by omega
        rw [this, List.get?_cons_succ]
      · have h00 : sect - 1 = 0 := by simpa using h0
        rw [if_neg h0, h00]
        simp
    rw [if_neg hs]
    by_cases hz : wcharAt format src = 0
    · rw [if_pos hz, separatorsFrom, if_pos hz]
      simp
    · rw [if_neg hz, separatorsFrom, if_neg hz, if_neg hq, if_neg hb, if_neg hs,
        ih _ sect (by omega) h1 h2]

/-- C20: for every picture string and section index `n` in `{0, 1, 2}`,
`FindSection` returns the offset at which section `n` starts: the text that
follows the `n`-th `';'` that is neither inside a quoted run nor escaped by a
backslash, provided there is such a separator and the text after it is not
empty; in every other case (`n = 0`, no `n`-th separator, or an empty
section) it returns offset 0, the start of the whole string. -/
theorem FindSection_selects_section (format : List Nat) (n : Nat) (hn : n ≤ 2) :
    FindSection format n = sectionStart format n := by
  unfold FindSection sectionStart
  by_cases h0 : n = 0
  · subst h0
    simp
  · have h0i : ¬ ((n : Int) = 0) := by omega
    rw [if_neg h0, if_neg h0i, FindSectionLoop_eq format _ 0 n (by omega) (by omega) (by omega)]
    have : ((n : Int) - 1).toNat = n - 1 := by omega
    rw [this]
    rfl

theorem FindSection_selects_section_witness :
    FindSection [35, 39, 59, 39, 59, 92, 59, 59, 48] 2 = 8 ∧
      sectionStart [35, 39, 59, 39, 59, 92, 59, 59, 48] 2 = 8 :=
  ⟨(FindSection_selects_section [35, 39, 59, 39, 59, 92, 59, 59, 48] 2 (by decide)).trans
    (by decide), by decide⟩

/-- A `';'` that follows an escaped backslash is a separator: in `\;a` the
second backslash is the escaped code unit, and section 1 starts at `a`. -/
theorem FindSection_after_escaped_backslash : FindSection [92, 92, 59, 97] 1 = 3 := by
  decide

/-! ## Digit grouping -/

theorem succ_mod_cases (m g : Nat) (hg : 0 < g) :
    (m % g + 1 = g ∧ (m + 1) % g = 0) ∨ (m % g + 1 < g ∧ (m + 1) % g = m % g + 1) := by
  have hlt := Nat.mod_lt m hg
  have h : (m + 1) % g = (m % g + 1) % g := by
    conv_lhs => rw [← Nat.div_add_mod m g, Nat.add_assoc, Nat.mul_add_mod]
  by_cases hc : m % g + 1 = g
  · left
    exact ⟨hc, by rw [h, hc, Nat.mod_self]⟩
  · right
    have : m % g + 1 < g := by omega
    exact ⟨this, by rw [h, Nat.mod_eq_of_lt this]⟩

theorem groupedFrom_length (g : Nat) (S : List Nat) (l : List Nat) :
    (groupedFrom g S l).length = l.length + l.length / g * S.length := by
  induction l with
  | nil => simp [groupedFrom]
  | cons c cs ih =>
    rw [groupedFrom, List.length_append, List.length_cons, ih, List.length_cons, Nat.succ_div]
    by_cases hd : (cs.length + 1) % g = 0
    · have : g ∣ cs.length + 1 := Nat.dvd_of_mod_eq_zero hd
      simp only [hd, this, if_true]
      ring
    · have : ¬ g ∣ cs.length + 1 := fun h => hd (Nat.mod_eq_zero_of_dvd h)
      simp only [hd, this, if_false, List.length_nil]
      ring

theorem groupedDigits_length (g : Nat) (S : List Nat) (l : List Nat) (hl : l ≠ []) :
    (groupedDigits g S l).length = l.length + (l.length - 1) / g * S.length := by
  cases l with
  | nil => exact absurd rfl hl
  | cons c cs =>
    rw [groupedDigits, List.length_cons, groupedFrom_length g S]
    simp only [List.length_cons, Nat.add_sub_cancel]
    ring

theorem tableAt_single (g : Int) : tableAt [g] ((0 : Nat) : Int) = g := by
  simp [tableAt]

/-- The sizing loop of `FormatFixed` for the one group size `g > 0`: it adds
one separator length for every complete group to the left of the last one. -/
theorem groupSizeLoop_single (g n sl : Nat) (hg : 0 < g) (hn : 0 < n) (hn2 : n ≤ 1073741823)
    (hb : n + (n - 1) / g * sl ≤ 2147483647) (fuel : Nat) :
    ∀ k cnt sz : Nat, cnt = (k + 1) * g → sz = n + k * sl → k ≤ (n - 1) / g →
      (n - 1) / g - k < fuel →
      groupSizeLoop [(g : Int)] (n : Int) (sl : Int) fuel 0 (cnt : Int) (sz : Int) =
        .ok (((((n - 1) / g + 1) * g : Nat) : Int), ((n + (n - 1) / g * sl : Nat) : Int)) := by
  induction fuel with
  | zero => intro k _ _ _ _ _ h; omega
  | succ fuel ih =>
    intro k cnt sz hcnt hsz hk hf
    have hiff : ((n : Int) > (cnt : Int)) ↔ k < (n - 1) / g := by
      rw [gt_iff_lt, Nat.cast_lt, hcnt]
      constructor
      · intro h
        have : (k + 1) * g ≤ n - 1 := by omega
        exact (Nat.le_div_iff_mul_le hg).mpr this
      · intro h
        have : (k + 1) * g ≤ n - 1 := (Nat.le_div_iff_mul_le hg).mp h
        omega
    unfold groupSizeLoop
    by_cases hlt : k < (n - 1) / g
    · have hkg : cnt ≤ n - 1 := by
        rw [hcnt]
        exact (Nat.le_div_iff_mul_le hg).mp hlt
      have hg0 : ¬ ((g : Int) = 0) := by omega
      have hgle : g ≤ cnt := by
        rw [hcnt]
        exact Nat.le_mul_of_pos_left g (by omega)
      have hdiv := Nat.div_le_self (n - 1) g
      have hksl : (k + 1) * sl ≤ (n - 1) / g * sl := Nat.mul_le_mul_right sl hlt
      have hsz2 : sz + sl = n + (k + 1) * sl := by rw [hsz]; ring
      have hidx : ¬ (((0 : Nat) : Int) < (([(g : Int)].length : Nat) : Int) - 1) := by simp
      have hcount : wrapInt32 ((cnt : Int) + (g : Int)) = ((cnt + g : Nat) : Int) := by
        rw [wrapInt32_of_range _ (by omega) (by omega)]
        simp
      have hsize : wrapInt32 ((sz : Int) + (sl : Int)) = ((sz + sl : Nat) : Int) := by
        rw [wrapInt32_of_range _ (by omega) (by omega)]
        simp
      simp only [hiff.mpr hlt, if_true, tableAt_single, hg0, if_false, hidx, hcount, hsize]
      have hnn : ¬ (((cnt + g : Nat) : Int) < 0 ∨ ((sz + sl : Nat) : Int) < 0) :=
        not_or.mpr ⟨not_lt.mpr (Nat.cast_nonneg _), not_lt.mpr (Nat.cast_nonneg _)⟩
      simp only [hnn, if_false]
      have e2 : (n - 1) / g - (k + 1) < fuel := by
        clear * - hf hlt
        omega
      exact ih (k + 1) (cnt + g) (sz + sl) (by rw [hcnt]; ring) hsz2 hlt e2
    · have hke : k = (n - 1) / g := by omega
      simp only [mt hiff.mp hlt, if_false]
      rw [← hke, hcnt, hsz]

/-- The backward write loop of `FormatFixed` for the one group size `g > 0`,
entered at index `i` with the grouped text of the digits to the right already
written: it yields the grouped text of all the digits. -/
theorem groupWriteLoop_single (g : Nat) (hg : 0 < g) (S dig ds : List Nat) (digStart : Nat)
    (hdg : ∀ j, j < ds.length → (if j < digStart then wcharAt dig j else 48) = wcharAt ds j)
    (i : Nat) :
    ∀ c : Nat, i + 1 ≤ ds.length → c = (ds.length - (i + 1)) % g →
      groupWriteLoop [(g : Int)] dig digStart S (i + 1) (groupedFrom g S (ds.drop (i + 1)))
          0 (g : Int) (c : Int) = groupedDigits g S ds := by
  induction i with
  | zero =>
    intro c hi _
    have hds : ds = wcharAt ds 0 :: ds.drop 1 := by
      have := drop_eq_cons_wcharAt ds 0 (by omega)
      simpa using this
    have hgp : (g : Int) > 0 := by omega
    unfold groupWriteLoop
    simp only [hgp, if_true, ne_eq, not_true_eq_false, and_false, if_false, hdg 0 (by omega)]
    unfold groupWriteLoop
    conv_rhs => rw [hds]
    rfl
  | succ i ih =>
    intro c hi hc
    have hgp : (g : Int) > 0 := by omega
    have hidx : ¬ (((0 : Nat) : Int) < (([(g : Int)].length : Nat) : Int) - 1) := by simp
    have hdrop := drop_eq_cons_wcharAt ds (i + 1) (by omega)
    have hlen : (ds.drop (i + 1 + 1)).length + 1 = ds.length - (i + 1) := by
      rw [List.length_drop]
      omega
    have hsucc : ds.length - (i + 1) = (ds.length - (i + 1 + 1)) + 1 := by omega
    unfold groupWriteLoop
    simp only [hgp, if_true, hdg (i + 1) (by omega), hidx, if_false]
    rcases succ_mod_cases (ds.length - (i + 1 + 1)) g hg with ⟨h1, h2⟩ | ⟨h1, h2⟩
    · have hcond : ((c : Int) + 1 = (g : Int) ∧ i + 1 ≠ 0) := by
        refine ⟨?_, by omega⟩
        rw [hc]
        exact_mod_cast h1
      rw [if_pos hcond]
      have hw : S ++ wcharAt ds (i + 1) :: groupedFrom g S (ds.drop (i + 1 + 1)) =
          groupedFrom g S (ds.drop (i + 1)) := by
        rw [hdrop, groupedFrom, hlen, hsucc, h2]
        simp
      rw [hw]
      exact ih 0 (by omega) (by rw [hsucc, h2])
    · have hcond : ¬ ((c : Int) + 1 = (g : Int) ∧ i + 1 ≠ 0) := by
        rintro ⟨h, -⟩
        rw [hc] at h
        have : (ds.length - (i + 1 + 1)) % g + 1 = g := by exact_mod_cast h
        omega
      rw [if_neg hcond]
      have hw : wcharAt ds (i + 1) :: groupedFrom g S (ds.drop (i + 1 + 1)) =
          groupedFrom g S (ds.drop (i + 1)) := by
        rw [hdrop, groupedFrom, hlen, hsucc, h2]
        simp
      rw [hw]
      have := ih (c + 1) (by omega) (by rw [hsucc, h2, hc])
      simpa using this

theorem tableAt_single_zero (g : Int) : tableAt [g] 0 = g := by
  simp [tableAt]

/-- The grouped integer part of `FormatFixed` for the one group size `g > 0`,
on a buffer whose digits, padded with `'0'` up to `scale`, are `ds`. -/
theorem formatFixedGrouped_single (buffer : List Nat) (r : NUMBER) (ds : List Nat) (g : Nat)
    (S : List Nat) (hg : 0 < g) (hscale : r.scale = (ds.length : Int)) (hne : ds ≠ [])
    (hlen : ds.length ≤ 1073741823)
    (hb : ds.length + (ds.length - 1) / g * S.length ≤ 2147483647)
    (hr0 : ∀ c ∈ r.digits, c ≠ 0)
    (hdg : ∀ j, j < ds.length →
      (if j < min ds.length r.digits.length then wcharAt r.digits j else 48) = wcharAt ds j) :
    formatFixedGrouped buffer r [(g : Int)] S =
      .ok (buffer ++ groupedDigits g S ds, r.digits.drop (min ds.length r.digits.length)) := by
  have hn : 0 < ds.length := List.length_pos.mpr hne
  have hsize := groupSizeLoop_single g ds.length S.length hg hn hlen hb
    ([(g : Int)].length + ds.length + 2) 0 g ds.length (by simp) (by simp) (Nat.zero_le _)
    (by
      have := Nat.div_le_self (ds.length - 1) g
      simp only [List.length_singleton]
      omega)
  have hwrite := groupWriteLoop_single g hg S r.digits ds (min ds.length r.digits.length) hdg
    (ds.length - 1) 0 (by omega) (by
      have : ds.length - (ds.length - 1 + 1) = 0 := by omega
      rw [this, Nat.zero_mod])
  have hn1 : ds.length - 1 + 1 = ds.length := by omega
  rw [hn1, List.drop_length] at hwrite
  have hcnt0 : ¬ (((((ds.length - 1) / g + 1) * g : Nat) : Int) = 0) := by
    have : 0 < ((ds.length - 1) / g + 1) * g := Nat.mul_pos (Nat.succ_pos _) hg
    exact_mod_cast Nat.pos_iff_ne_zero.mp this
  have hwl := groupedDigits_length g S ds hne
  unfold formatFixedGrouped
  simp only [hscale, Int.toNat_ofNat, tableAt_single_zero, ne_eq, List.length_singleton,
    one_ne_zero, not_false_eq_true, if_true, cstr_of_ne_zero _ hr0]
  simp only [List.length_singleton, Nat.cast_zero] at hsize
  rw [hsize]
  simp only [hcnt0, if_false]
  have hw2 : groupWriteLoop [(g : Int)] r.digits (min ds.length r.digits.length) S ds.length []
      0 (g : Int) 0 = groupedDigits g S ds := by
    simpa [groupedFrom] using hwrite
  rw [hw2, hwl]
  simp

theorem backWhile_pos_of_head (s : List Nat) (ch : Nat) (i : Nat) (hi : 0 < i)
    (h : wcharAt s 0 ≠ ch) : 0 < backWhile s ch i := by
  by_contra h0
  have hz : backWhile s ch i = 0 := by omega
  exact h (backWhile_run s ch i 0 (by omega) hi)

theorem wcharAt_take (s : List Nat) (k j : Nat) (h : j < k) :
    wcharAt (s.take k) j = wcharAt s j := by
  unfold wcharAt
  simp [List.getD_eq_getElem?_getD, List.getElem?_take, h]

theorem decimalNumeral_123456 : decimalNumeral 123456 = [49, 50, 51, 52, 53, 54] := by
  norm_num [decimalNumeral]

theorem decimalNumeral_1234567 : decimalNumeral 1234567 = [49, 50, 51, 52, 53, 54, 55] := by
  norm_num [decimalNumeral]

theorem Int32ToNumber_123456 :
    Int32ToNumber 123456 = ⟨10, 6, false, [49, 50, 51, 52, 53, 54]⟩ := by
  have h : int32ToUInt32 123456 = 123456 := by
    unfold int32ToUInt32
    norm_num
    rfl
  have hp : Int32ToDecChars [] 123456 0 = [49, 50, 51, 52, 53, 54] := by
    rw [Int32ToDecChars_eq]
    show decimalPadded 0 123456 ++ [] = _
    unfold decimalPadded
    rw [decimalNumeral_123456]
    rfl
  unfold Int32ToNumber
  simp only [ge_iff_le, Nat.ofNat_nonneg, if_true, h, hp]
  rfl

theorem Int32ToNumber_1234567 :
    Int32ToNumber 1234567 = ⟨10, 7, false, [49, 50, 51, 52, 53, 54, 55]⟩ := by
  have h : int32ToUInt32 1234567 = 1234567 := by
    unfold int32ToUInt32
    norm_num
    rfl
  have hp : Int32ToDecChars [] 1234567 0 = [49, 50, 51, 52, 53, 54, 55] := by
    rw [Int32ToDecChars_eq]
    show decimalPadded 0 1234567 ++ [] = _
    unfold decimalPadded
    rw [decimalNumeral_1234567]
    rfl
  unfold Int32ToNumber
  simp only [ge_iff_le, Nat.ofNat_nonneg, if_true, h, hp]
  rfl

/-- C13 as stated fails: the six digits of `123456` grouped by 3 come out as
`123,456`, with no separator before the first digit, although that digit is
the sixth from the right end; the reading of the claim that yields
`1,234,567` for `1234567` puts a separator there. -/
theorem NumberToString_no_leading_separator :
    NumberToString (Int32ToNumber 123456) 78 0
        ⟨[3], [3], [3], [43], [45], [46], [44], [44], [46], [36], [44], [46], [37],
          [0x2030], [78, 97, 78], [73], [45, 73], 2, 2, 2, 1, 0, 0, 1, 1⟩ false =
      .ok [49, 50, 51, 44, 52, 53, 54] ∧
    groupedFrom 3 [44] (decimalNumeral 123456) = [44, 49, 50, 51, 44, 52, 53, 54] ∧
    groupedFrom 3 [44] (decimalNumeral 1234567) = [49, 44, 50, 51, 52, 44, 53, 54, 55] := by
  rw [Int32ToNumber_123456, decimalNumeral_123456, decimalNumeral_1234567]
  decide!

/-- C13 (amended): for every positive integer `v` held in a digit buffer (as
the integer conversions build it, of at most 50 digits), the Number format
with 0 fractional digits, the group-size sequence `{g}` with `g > 0` and the
group separator `S` yields the decimal digits of `v` with `S` inserted exactly
before every digit other than the first whose distance from the right end
(counted from 1 at the last digit) is a multiple of `g`, and nowhere else. -/
theorem NumberToString_number_grouped (number : NUMBER) (v g format : Nat)
    (numfmt : NumberFormatInfo) (bDecimal : Bool) (hfmt : format = 78 ∨ format = 110)
    (hnum : IsIntegerBuffer number v) (hv : 0 < v) (hsign : number.sign = false)
    (hcap : number.digits.length ≤ 50) (hg : 0 < g)
    (hgrp : numfmt.cNumberGroup = [(g : Int)])
    (hlen : 105 + number.digits.length + numfmt.sNegative.length +
      numfmt.sNumberGroup.length * number.digits.length + numfmt.sNumberDecimal.length ≤
        2147483647) :
    NumberToString number format 0 numfmt bDecimal =
      .ok (groupedDigits g numfmt.sNumberGroup (decimalNumeral v)) := by
  obtain ⟨hds, hdec, hhead, hsc, -, hnz⟩ := hnum
  have hne : number.digits ≠ [] := (hnz (by omega)).1
  have hn : 0 < number.digits.length := List.length_pos.mpr hne
  rw [← hds]
  have hft : format &&& 0xFFDF = 78 := by
    rcases hfmt with h | h <;> subst h <;> decide
  have heff : effectiveDigits number format 0 numfmt bDecimal = 0 := by
    unfold effectiveDigits
    simp [hft]
  have hw : wrapInt32 (number.scale + 0) = number.digits.length := by
    rw [wrapInt32_of_range _ (by omega) (by omega)]
    omega
  have hbuf : NumberToStringBufferLen number format 0 numfmt bDecimal =
      MIN_BUFFER_SIZE + number.digits.length + numfmt.sNegative.length +
        (numfmt.sNumberGroup.length : Int) * number.digits.length +
        numfmt.sNumberDecimal.length := by
    unfold NumberToStringBufferLen
    have hnn : ¬ ((number.digits.length : Int) < 0) := by omega
    have hw2 : wrapInt32 (number.digits.length : Int) = number.digits.length :=
      wrapInt32_of_range _ (by omega) (by omega)
    simp [hft, heff, hnn, hsc, hw2]
  -- the rounding step trims the trailing zeros and nothing else
  have hdown : ¬ (0 ≤ (number.digits.length : Int) ∧
      ((number.digits.length : Int)).toNat < number.digits.length ∧
      53 ≤ wcharAt number.digits ((number.digits.length : Int)).toNat) := by
    rintro ⟨-, h, -⟩
    simp at h
  have hkpos : 0 < backWhile number.digits 48 number.digits.length :=
    backWhile_pos_of_head _ _ _ hn hhead
  have hkle := backWhile_le number.digits 48 number.digits.length
  have hrnd : NumberToStringRounded number format 0 numfmt bDecimal =
      { precision := number.precision, scale := number.scale, sign := false,
        digits := number.digits.take (backWhile number.digits 48 number.digits.length) } := by
    unfold NumberToStringRounded
    simp only [hft, heff, hw, true_or, or_true, if_true]
    rw [RoundNumber_down number _ hdec hdown]
    have hk0 : ¬ (backWhile number.digits 48 number.digits.length = 0) := by omega
    simp [hk0, hsign]
  have hfixed := formatFixedGrouped_single []
    { precision := number.precision, scale := number.scale, sign := false,
      digits := number.digits.take (backWhile number.digits 48 number.digits.length) }
    number.digits g numfmt.sNumberGroup hg hsc hne (by omega)
    (by
      have := Nat.mul_le_mul_right numfmt.sNumberGroup.length
        (le_trans (Nat.div_le_self (number.digits.length - 1) g) (Nat.sub_le _ 1))
      generalize (number.digits.length - 1) / g * numfmt.sNumberGroup.length = a at this ⊢
      have hc := Nat.mul_comm number.digits.length numfmt.sNumberGroup.length
      generalize number.digits.length * numfmt.sNumberGroup.length = b at this hc
      clear * - this hc hlen
      omega)
    (hdec.take _).ne_zero
    (by
      intro j hj
      simp only [List.length_take]
      by_cases hjk : j < backWhile number.digits 48 number.digits.length
      · have : j < min number.digits.length
            (min (backWhile number.digits 48 number.digits.length) number.digits.length) := by
          omega
        rw [if_pos this, wcharAt_take _ _ _ hjk]
      · have : ¬ (j < min number.digits.length
            (min (backWhile number.digits 48 number.digits.length) number.digits.length)) := by
          omega
        rw [if_neg this]
        exact (backWhile_run number.digits 48 number.digits.length j (by omega) hj).symm)
  have hglen := groupedDigits_length g numfmt.sNumberGroup number.digits hne
  have hsep : (number.digits.length - 1) / g * numfmt.sNumberGroup.length ≤
      numfmt.sNumberGroup.length * number.digits.length := by
    rw [Nat.mul_comm]
    exact Nat.mul_le_mul_left _ (le_trans (Nat.div_le_self _ _) (Nat.sub_le _ _))
  unfold NumberToString
  simp only [hft, hbuf, heff, hrnd]
  have hguard : ¬ (MIN_BUFFER_SIZE + (number.digits.length : Int) + numfmt.sNegative.length +
      (numfmt.sNumberGroup.length : Int) * number.digits.length +
      numfmt.sNumberDecimal.length > INT32_MAX) := by
    unfold MIN_BUFFER_SIZE INT32_MAX
    have : ((105 + number.digits.length + numfmt.sNegative.length +
      numfmt.sNumberGroup.length * number.digits.length + numfmt.sNumberDecimal.length : Nat) :
        Int) ≤ 2147483647 := by exact_mod_cast hlen
    push_cast at this
    omega
  have hne1 : ¬ ((78 : Nat) = 67) := by decide
  have hne2 : ¬ ((78 : Nat) = 70) := by decide
  have hpos : number.scale > 0 := by omega
  have h35 : ¬ ((35 : Nat) = 0) := by decide
  simp only [hguard, if_false, hne1, hne2, h35, true_or, or_true, if_true, FormatNumber,
    Bool.false_eq_true, posNumberFormat, FormatNumberLoop, FormatFixed, hgrp, hpos, hfixed,
    List.nil_append, gt_iff_lt, lt_self_iff_false]
  rw [if_pos]
  rw [hglen]
  have hnat : number.digits.length + (number.digits.length - 1) / g * numfmt.sNumberGroup.length ≤
      (105 + number.digits.length + numfmt.sNegative.length +
        numfmt.sNumberGroup.length * number.digits.length + numfmt.sNumberDecimal.length) * 2 := by
    generalize (number.digits.length - 1) / g * numfmt.sNumberGroup.length = a at hsep ⊢
    generalize numfmt.sNumberGroup.length * number.digits.length = b at hsep ⊢
    clear * - hsep
    omega
  unfold MIN_BUFFER_SIZE
  exact_mod_cast hnat

theorem NumberToString_number_grouped_witness :
    NumberToString (Int32ToNumber 1234567) 78 0
        ⟨[3], [3], [3], [43], [45], [46], [44], [44], [46], [36], [44], [46], [37],
          [0x2030], [78, 97, 78], [73], [45, 73], 2, 2, 2, 1, 0, 0, 1, 1⟩ false =
      .ok [49, 44, 50, 51, 52, 44, 53, 54, 55] := by
  have hnum : IsIntegerBuffer (Int32ToNumber 1234567) 1234567 := by
    have h := isIntegerBuffer_of_numeral 10 false 1234567 (by decide)
    rw [decimalNumeral_1234567] at h
    rw [Int32ToNumber_1234567]
    exact h
  have h := NumberToString_number_grouped (Int32ToNumber 1234567) 1234567 3 78
    ⟨[3], [3], [3], [43], [45], [46], [44], [44], [46], [36], [44], [46], [37],
      [0x2030], [78, 97, 78], [73], [45, 73], 2, 2, 2, 1, 0, 0, 1, 1⟩ false
    (Or.inl rfl) hnum (by decide) (by rw [Int32ToNumber_1234567])
    (by rw [Int32ToNumber_1234567]; decide) (by decide) rfl
    (by rw [Int32ToNumber_1234567]; decide)
  rw [h, decimalNumeral_1234567]
  rfl

/-! ## The fixed-point layout -/

theorem fixedFraction_length (r : NUMBER) (d : Nat) : (fixedFraction r d).length = d := by
  unfold fixedFraction
  simp only [List.length_append, List.length_replicate, List.length_take]
  omega

theorem fixedInteger_length (r : NUMBER) :
    (fixedInteger r).length = if 0 < r.scale then r.scale.toNat else 1 := by
  unfold fixedInteger
  split
  · simp only [List.length_append, List.length_replicate, List.length_take]
    omega
  · rfl

theorem isDecimal_replicate_zero (k : Nat) : IsDecimal (List.replicate k 48) := by
  intro c hc
  rw [List.eq_of_mem_replicate hc]
  decide

theorem IsDecimal.append {a b : List Nat} (ha : IsDecimal a) (hb : IsDecimal b) :
    IsDecimal (a ++ b) := by
  intro c hc
  rcases List.mem_append.mp hc with h | h
  · exact ha c h
  · exact hb c h

theorem IsDecimal.drop {s : List Nat} (h : IsDecimal s) (k : Nat) : IsDecimal (s.drop k) :=
  fun c hc => h c (List.mem_of_mem_drop hc)

theorem fixedInteger_isDecimal (r : NUMBER) (h : IsDecimal r.digits) :
    IsDecimal (fixedInteger r) := by
  unfold fixedInteger
  split
  · exact (h.take _).append (isDecimal_replicate_zero _)
  · intro c hc
    simp only [List.mem_singleton] at hc
    subst hc
    decide

theorem fixedFraction_isDecimal (r : NUMBER) (d : Nat) (h : IsDecimal r.digits) :
    IsDecimal (fixedFraction r d) := by
  unfold fixedFraction
  exact (isDecimal_replicate_zero _).append
    (((h.drop _).take _).append (isDecimal_replicate_zero _))

/-- The layout of `FormatFixed` without a group-size array. -/
theorem FormatFixed_none_eq (buffer : List Nat) (r : NUMBER) (d : Int) (sDecimal sGroup : List Nat)
    (hdec : ∀ c ∈ r.digits, c ≠ 0) :
    FormatFixed buffer r d none sDecimal sGroup =
      .ok (buffer ++ fixedInteger r ++
        (if d > 0 then sDecimal ++ fixedFraction r d.toNat else [])) := by
  unfold FormatFixed fixedInteger fixedFraction
  by_cases hs : r.scale > 0
  · have hs2 : 0 < r.scale := hs
    have hz : (-r.scale).toNat = 0 := by omega
    simp only [hs, hs2, if_true, copyDigits_eq _ _ _ hdec, hz, Nat.zero_min, neg_zero,
      Int.toNat_zero, List.replicate_zero, List.append_nil, Nat.sub_zero, List.nil_append]
    by_cases hd : d > 0
    · simp only [hd, if_true, copyDigits_eq _ _ _ (ne_zero_of_mem_drop hdec _)]
      simp [List.append_assoc]
    · simp [hd]
  · have hs2 : ¬ (0 < r.scale) := hs
    have hz : r.scale.toNat = 0 := by omega
    simp only [hs, hs2, if_false, hz, List.drop_zero]
    by_cases hd : d > 0
    · simp only [hd, if_true, copyDigits_eq _ _ _ hdec]
      simp [List.append_assoc]
    · simp [hd]

theorem digitsValue_zeros_append (k : Nat) (s : List Nat) :
    digitsValue (List.replicate k 48 ++ s) = digitsValue s := by
  rw [digitsValue_append, digitsValue_replicate_zero]
  simp

theorem digitsValue_append_zeros (k : Nat) (s : List Nat) :
    digitsValue (s ++ List.replicate k 48) = digitsValue s * 10 ^ k := by
  rw [digitsValue_append, digitsValue_replicate_zero]
  simp

/-- The digits that the fixed-point layout shows are all the digits of the
buffer when it holds at most `scale + d` of them. -/
theorem fixed_digits_value (r : NUMBER) (d : Nat)
    (hlen : (r.digits.length : Int) ≤ r.scale + d) :
    digitsValue (fixedInteger r) * 10 ^ d + digitsValue (fixedFraction r d) =
      digitsValue r.digits * 10 ^ (r.scale + d - r.digits.length).toNat := by
  unfold fixedInteger fixedFraction
  by_cases hs : 0 < r.scale
  · have hz : (-r.scale).toNat = 0 := by omega
    simp only [hs, if_true, hz, Nat.zero_min, List.replicate_zero, List.nil_append, Nat.sub_zero]
    by_cases hL : r.digits.length ≤ r.scale.toNat
    · rw [List.take_of_length_le hL, List.drop_eq_nil_of_le hL, digitsValue_append_zeros]
      simp only [List.take_nil, List.length_nil, Nat.sub_zero, List.nil_append,
        digitsValue_replicate_zero, Nat.add_zero]
      rw [Nat.mul_assoc, ← Nat.pow_add]
      congr 2
      omega
    · have hL2 : r.scale.toNat < r.digits.length := by omega
      have hdl : (r.digits.drop r.scale.toNat).length = r.digits.length - r.scale.toNat :=
        List.length_drop _ _
      have ht : (r.digits.drop r.scale.toNat).take d = r.digits.drop r.scale.toNat :=
        List.take_of_length_le (by rw [hdl]; omega)
      have h0 : r.scale.toNat - r.digits.length = 0 := by omega
      rw [ht, h0, List.replicate_zero, List.append_nil, digitsValue_append_zeros, hdl]
      have hsplit : digitsValue r.digits =
          digitsValue (r.digits.take r.scale.toNat) * 10 ^ (r.digits.length - r.scale.toNat) +
            digitsValue (r.digits.drop r.scale.toNat) := by
        conv_lhs => rw [← List.take_append_drop r.scale.toNat r.digits]
        rw [digitsValue_append, hdl]
      have he : (r.scale + d - r.digits.length).toNat = d - (r.digits.length - r.scale.toNat) := by
        omega
      have hd : d = (r.digits.length - r.scale.toNat) + (d - (r.digits.length - r.scale.toNat)) := by
        omega
      rw [hsplit, he]
      generalize d - (r.digits.length - r.scale.toNat) = e at hd ⊢
      rw [hd, Nat.pow_add]
      ring
  · have hz : r.scale.toNat = 0 := by omega
    have hm : min (-r.scale).toNat d = (-r.scale).toNat := by omega
    have ht : r.digits.take (d - (-r.scale).toNat) = r.digits :=
      List.take_of_length_le (by omega)
    have hv : digitsValue [48] = 0 := by simp [digitsValue]
    simp only [hs, if_false, hz, List.drop_zero, hm, ht, hv, Nat.zero_mul, Nat.zero_add,
      digitsValue_zeros_append, digitsValue_append_zeros]
    congr 2
    omega

/-- The numeral that the fixed-point layout shows denotes the magnitude of
the buffer when the buffer holds at most `scale + d` digits. -/
theorem fixedPointValue_eq_magnitude (r : NUMBER) (d : Nat)
    (hlen : (r.digits.length : Int) ≤ r.scale + d) :
    fixedPointValue (fixedInteger r) (fixedFraction r d) = r.magnitude := by
  have h10 : (10 : ℚ) ≠ 0 := by norm_num
  have hnat := fixed_digits_value r d hlen
  have hq : (digitsValue (fixedInteger r) : ℚ) * (10 : ℚ) ^ d +
      (digitsValue (fixedFraction r d) : ℚ) =
      (digitsValue r.digits : ℚ) * (10 : ℚ) ^ (r.scale + d - r.digits.length).toNat := by
    exact_mod_cast hnat
  unfold fixedPointValue NUMBER.magnitude
  rw [fixedFraction_length]
  have he : r.scale - (r.digits.length : Int) =
      ((r.scale + d - r.digits.length).toNat : Int) - (d : Int) := by
    omega
  rw [he, zpow_sub₀ h10, zpow_natCast, zpow_natCast, ← mul_div_assoc, ← hq]
  field_simp

/-- `RoundNumber(number, scale + d)` rounds the magnitude half-up to `d`
decimal places, also when `scale + d` is negative (the result is then zero). -/
theorem RoundNumber_roundHalfUp (number : NUMBER) (d : Nat) (hdec : IsDecimal number.digits)
    (hscale : -2147483648 ≤ number.scale ∧ number.scale < 2147483647) :
    (RoundNumber number (number.scale + d)).magnitude = roundHalfUp number.magnitude d := by
  have h10 : (10 : ℚ) ≠ 0 := by norm_num
  unfold roundHalfUp
  by_cases hpos : 0 ≤ number.scale + d
  · rw [RoundNumber_magnitude number _ hdec hpos hscale]
    have e1 : number.scale + (d : Int) - number.scale = (d : Int) := by omega
    have e2 : number.scale - (number.scale + (d : Int)) = -(d : Int) := by omega
    rw [e1, e2, zpow_neg, zpow_natCast]
    exact (div_eq_mul_inv _ _).symm
  · have hdown : ¬ (0 ≤ number.scale + (d : Int) ∧
        (number.scale + (d : Int)).toNat < number.digits.length ∧
        53 ≤ wcharAt number.digits (number.scale + (d : Int)).toNat) := fun h => hpos h.1
    have hz : (number.scale + (d : Int)).toNat = 0 := by omega
    rw [RoundNumber_down number _ hdec hdown]
    simp only [hz, Nat.zero_min, backWhile_zero, List.take_zero, if_true]
    have hx := magnitude_shift number (number.scale + d)
    have e1 : number.scale + (d : Int) - number.scale = (d : Int) := by omega
    rw [e1, zpow_natCast] at hx
    have hlt := digitsValue_lt number.digits hdec
    have hltq : (digitsValue number.digits : ℚ) < (10 : ℚ) ^ number.digits.length := by
      exact_mod_cast hlt
    have hnonneg : (0 : ℚ) ≤ (digitsValue number.digits : ℚ) := Nat.cast_nonneg _
    have hpw : (0 : ℚ) < (10 : ℚ) ^ (number.scale + (d : Int) - (number.digits.length : Int)) :=
      zpow_pos (by norm_num) _
    have hx0 : 0 ≤ number.magnitude * (10 : ℚ) ^ d := by
      rw [hx]
      exact mul_nonneg hnonneg hpw.le
    have hx1 : number.magnitude * (10 : ℚ) ^ d < 1 / 2 := by
      rw [hx]
      have hle : (10 : ℚ) ^ (number.scale + (d : Int) - (number.digits.length : Int)) ≤
          (10 : ℚ) ^ (-1 - (number.digits.length : Int)) :=
        zpow_le_zpow_right₀ (by norm_num) (by omega)
      calc (digitsValue number.digits : ℚ) *
            (10 : ℚ) ^ (number.scale + (d : Int) - (number.digits.length : Int))
          ≤ (digitsValue number.digits : ℚ) * (10 : ℚ) ^ (-1 - (number.digits.length : Int)) :=
            mul_le_mul_of_nonneg_left hle hnonneg
        _ < (10 : ℚ) ^ number.digits.length * (10 : ℚ) ^ (-1 - (number.digits.length : Int)) :=
            mul_lt_mul_of_pos_right hltq (zpow_pos (by norm_num) _)
        _ = (10 : ℚ) ^ (-1 : Int) := by
            rw [← zpow_natCast, ← zpow_add₀ h10]
            congr 1
            omega
        _ < 1 / 2 := by norm_num
    have hfloor : ⌊number.magnitude * (10 : ℚ) ^ d + 1 / 2⌋ = 0 := by
      rw [Int.floor_eq_iff]
      constructor
      · simp only [Int.cast_zero]
        linarith
      · simp only [Int.cast_zero]
        linarith
    rw [hfloor]
    simp [NUMBER.magnitude, digitsValue]

/-- After `RoundNumber(number, scale + d)` the buffer holds at most
`scale + d` digits (of the rounded scale), and its scale is 0, the old one or
the old one plus 1. -/
theorem RoundNumber_fits (number : NUMBER) (d : Nat) (hdec : IsDecimal number.digits)
    (hscale : -2147483648 ≤ number.scale ∧ number.scale < 2147483647) :
    IsDecimal (RoundNumber number (number.scale + d)).digits ∧
      ((RoundNumber number (number.scale + d)).digits.length : Int) ≤
        (RoundNumber number (number.scale + d)).scale + d ∧
      ((RoundNumber number (number.scale + d)).scale = 0 ∨
        (RoundNumber number (number.scale + d)).scale = number.scale ∨
        (RoundNumber number (number.scale + d)).scale = number.scale + 1) := by
  obtain ⟨hrdec, -, hshape⟩ := RoundNumber_shape number (number.scale + d) hdec hscale
  refine ⟨hrdec, ?_, ?_⟩
  · rcases hshape with h | h | h
    · rw [h.1, h.2.1]
      simp
    · rw [h.2.2.1]
      exact h.2.2.2.1
    · rw [h.1, h.2.2.1]
      have := h.2.2.2.1
      simp only [List.length_singleton, Nat.cast_one]
      omega
  · rcases hshape with h | h | h
    · exact Or.inl h.2.1
    · exact Or.inr (Or.inl h.2.2.1)
    · exact Or.inr (Or.inr h.2.2.1)

/-- C15: on a buffer of decimal digits and for a precision `d` (at most the 99
that a format specifier can carry), the Fixed format rounds the buffer at
`scale + d` digits and emits: the negative-sign string iff the rounded buffer
is negative, then the integer digits (the single digit `0` when the rounded
scale is `<= 0`) with no group separator, then, iff `d > 0`, the decimal
separator followed by exactly `d` fractional digits; the numeral emitted
denotes the input magnitude rounded half-up to `d` decimal places. -/
theorem NumberToString_fixed (number : NUMBER) (format d : Nat) (numfmt : NumberFormatInfo)
    (bDecimal : Bool) (hfmt : format = 70 ∨ format = 102) (hdec : IsDecimal number.digits)
    (hd : d ≤ 99)
    (hscale : -2147483648 ≤ number.scale ∧ number.scale + (d : Int) < 2147483647)
    (hlen : 105 + (if number.scale < 0 then 0 else number.scale + (d : Int)) +
      numfmt.sNegative.length + numfmt.sNumberDecimal.length ≤ 2147483647) :
    NumberToString number format d numfmt bDecimal =
        .ok ((if (RoundNumber number (number.scale + d)).sign then numfmt.sNegative else []) ++
          fixedInteger (RoundNumber number (number.scale + d)) ++
          (if 0 < d then
            numfmt.sNumberDecimal ++ fixedFraction (RoundNumber number (number.scale + d)) d
           else [])) ∧
      IsDecimal (fixedInteger (RoundNumber number (number.scale + d))) ∧
      IsDecimal (fixedFraction (RoundNumber number (number.scale + d)) d) ∧
      (fixedFraction (RoundNumber number (number.scale + d)) d).length = d ∧
      ((RoundNumber number (number.scale + d)).scale ≤ 0 →
        fixedInteger (RoundNumber number (number.scale + d)) = [48]) ∧
      fixedPointValue (fixedInteger (RoundNumber number (number.scale + d)))
          (fixedFraction (RoundNumber number (number.scale + d)) d) =
        roundHalfUp number.magnitude d := by
  have hsc2 : -2147483648 ≤ number.scale ∧ number.scale < 2147483647 := ⟨hscale.1, by omega⟩
  obtain ⟨hrdec, hrlen, hrsc⟩ := RoundNumber_fits number d hdec hsc2
  refine ⟨?_, fixedInteger_isDecimal _ hrdec, fixedFraction_isDecimal _ _ hrdec,
    fixedFraction_length _ _, ?_, ?_⟩
  · have hft : format &&& 0xFFDF = 70 := by
      rcases hfmt with h | h <;> subst h <;> decide
    have hdn : ¬ ((d : Int) < 0) := by omega
    have heff : effectiveDigits number format d numfmt bDecimal = d := by
      unfold effectiveDigits
      simp [hft]
    have hw : wrapInt32 (number.scale + (d : Int)) = number.scale + d :=
      wrapInt32_of_range _ (by omega) (by omega)
    have hbuf : NumberToStringBufferLen number format d numfmt bDecimal =
        MIN_BUFFER_SIZE + (if number.scale < 0 then 0 else number.scale + (d : Int)) +
          numfmt.sNegative.length + numfmt.sNumberDecimal.length := by
      unfold NumberToStringBufferLen
      simp [hft, heff, hw]
    have hrnd : NumberToStringRounded number format d numfmt bDecimal =
        RoundNumber number (number.scale + d) := by
      unfold NumberToStringRounded
      simp [hft, heff, hw]
    unfold NumberToString
    simp only [hft, hbuf, heff, hrnd]
    have hguard : ¬ (MIN_BUFFER_SIZE + (if number.scale < 0 then 0 else number.scale + (d : Int)) +
        numfmt.sNegative.length + numfmt.sNumberDecimal.length > INT32_MAX) := by
      unfold MIN_BUFFER_SIZE INT32_MAX
      omega
    have hne1 : ¬ ((70 : Nat) = 67) := by decide
    have hd0 : ((d : Int) > 0) ↔ 0 < d := by omega
    simp only [hguard, if_false, hne1, true_or, or_true, if_true,
      FormatFixed_none_eq _ _ _ _ _ hrdec.ne_zero, hd0, Int.toNat_ofNat, List.append_assoc]
    rw [if_pos]
    simp only [List.length_append, fixedInteger_length]
    have hsg : (if (RoundNumber number (number.scale + d)).sign = true then numfmt.sNegative
        else []).length ≤ numfmt.sNegative.length := by split <;> simp
    have hfr : (if 0 < d then
        numfmt.sNumberDecimal ++ fixedFraction (RoundNumber number (number.scale + d)) d
        else []).length ≤ numfmt.sNumberDecimal.length + d := by
      split
      · simp [fixedFraction_length]
      · simp
    have hint : ((if 0 < (RoundNumber number (number.scale + d)).scale then
        (RoundNumber number (number.scale + d)).scale.toNat else 1 : Nat) : Int) ≤
        (if number.scale < 0 then 1 else number.scale + 1) := by
      split <;> split <;> omega
    unfold MIN_BUFFER_SIZE
    push_cast
    split at hlen <;> split at hint <;> omega
  · intro h0
    unfold fixedInteger
    rw [if_neg (by omega)]
  · rw [fixedPointValue_eq_magnitude _ _ hrlen, RoundNumber_roundHalfUp number d hdec hsc2]

theorem NumberToString_fixed_witness :
    NumberToString ⟨15, 0, true, [57, 54]⟩ 70 1
        ⟨[3], [3], [3], [43], [45], [46], [44], [44], [46], [36], [44], [46], [37],
          [0x2030], [78, 97, 78], [73], [45, 73], 2, 2, 2, 1, 0, 0, 1, 1⟩ false =
      .ok [45, 49, 46, 48] :=
  (NumberToString_fixed ⟨15, 0, true, [57, 54]⟩ 70 1
    ⟨[3], [3], [3], [43], [45], [46], [44], [44], [46], [36], [44], [46], [37],
      [0x2030], [78, 97, 78], [73], [45, 73], 2, 2, 2, 1, 0, 0, 1, 1⟩ false
    (Or.inl rfl) (by decide) (by decide) (by decide) (by decide)).1.trans
    (congrArg Except.ok (by decide!))

/-! ## Percent format -/

theorem wcharAt_append_left (a b : List Nat) (j : Nat) (h : j < a.length) :
    wcharAt (a ++ b) j = wcharAt a j := by
  unfold wcharAt
  simp [List.getD_eq_getElem?_getD, List.getElem?_append_left h]

theorem wcharAt_append_replicate (a : List Nat) (k j c : Nat) (h1 : a.length ≤ j)
    (h2 : j < a.length + k) : wcharAt (a ++ List.replicate k c) j = c := by
  unfold wcharAt
  rw [List.getD_eq_getElem?_getD, List.getElem?_append_right h1,
    List.getElem?_replicate]
  have : j - a.length < k := by omega
  simp [this]

/-- The layout of `FormatFixed` with the one group size `g > 0`. -/
theorem FormatFixed_single_eq (buffer : List Nat) (r : NUMBER) (d : Int) (g : Nat)
    (sDecimal S : List Nat) (hg : 0 < g) (hdec : ∀ c ∈ r.digits, c ≠ 0)
    (hsc : r.scale ≤ 1073741823)
    (hb : (fixedInteger r).length + ((fixedInteger r).length - 1) / g * S.length ≤ 2147483647) :
    FormatFixed buffer r d (some [(g : Int)]) sDecimal S =
      .ok (buffer ++ groupedDigits g S (fixedInteger r) ++
        (if d > 0 then sDecimal ++ fixedFraction r d.toNat else [])) := by
  by_cases hs : r.scale > 0
  · have hs2 : 0 < r.scale := hs
    have hI : fixedInteger r = r.digits.take r.scale.toNat ++
        List.replicate (r.scale.toNat - r.digits.length) 48 := by
      unfold fixedInteger
      rw [if_pos hs2]
    have hIlen : (fixedInteger r).length = r.scale.toNat := by
      rw [fixedInteger_length, if_pos hs2]
    have hne : fixedInteger r ≠ [] := by
      intro h
      rw [h] at hIlen
      simp only [List.length_nil] at hIlen
      omega
    have hgrouped := formatFixedGrouped_single buffer r (fixedInteger r) g S hg
      (by rw [hIlen]; omega) hne (by rw [hIlen]; omega) hb hdec
      (by
        intro j hj
        rw [hIlen] at hj ⊢
        rw [hI]
        by_cases hjl : j < r.digits.length
        · rw [if_pos (by omega), wcharAt_append_left _ _ _ (by simp; omega),
            wcharAt_take _ _ _ hj]
        · rw [if_neg (by omega), wcharAt_append_replicate _ _ _ _ (by simp; omega)
            (by simp; omega)])
    have hdrop : r.digits.drop (min (fixedInteger r).length r.digits.length) =
        r.digits.drop r.scale.toNat := by
      rw [hIlen]
      by_cases hle : r.scale.toNat ≤ r.digits.length
      · rw [Nat.min_eq_left hle]
      · rw [Nat.min_eq_right (by omega), List.drop_length,
          List.drop_eq_nil_of_le (by omega)]
    have hz : (-r.scale).toNat = 0 := by omega
    unfold FormatFixed
    simp only [hs, if_true, hgrouped, hdrop]
    unfold fixedFraction
    simp only [hz, Nat.zero_min, List.replicate_zero, List.append_nil, Nat.sub_zero,
      List.nil_append]
    by_cases hd : d > 0
    · simp only [hd, if_true, copyDigits_eq _ _ _ (ne_zero_of_mem_drop hdec _)]
      simp [List.append_assoc]
    · simp [hd]
  · have hs2 : ¬ (0 < r.scale) := hs
    have hI : fixedInteger r = [48] := by
      unfold fixedInteger
      rw [if_neg hs2]
    have h := FormatFixed_none_eq buffer r d sDecimal S hdec
    have hg1 : groupedDigits g S [48] = [48] := rfl
    rw [hI] at h
    rw [hI, hg1, ← h]
    unfold FormatFixed
    simp only [hs, if_false]

/-- The template loop of `FormatPercent` fills the template in. -/
theorem FormatPercentLoop_eq (r : NUMBER) (d : Int) (numfmt : NumberFormatInfo)
    (numeral : List Nat)
    (hfixed : ∀ buffer, FormatFixed buffer r d (some numfmt.cPercentGroup)
      numfmt.sPercentDecimal numfmt.sPercentGroup = .ok (buffer ++ numeral))
    (tmpl : List Nat) :
    ∀ buffer, FormatPercentLoop r d numfmt tmpl buffer =
      .ok (buffer ++ fillPercentTemplate numeral numfmt.sNegative numfmt.sPercent tmpl) := by
  induction tmpl with
  | nil => intro buffer; simp [FormatPercentLoop, fillPercentTemplate]
  | cons ch t ih =>
    intro buffer
    unfold FormatPercentLoop fillPercentTemplate
    by_cases h0 : ch = 0
    · simp [h0]
    · by_cases h35 : ch = 35
      · simp only [h0, h35, if_false, if_true, hfixed, ih, List.append_assoc]
        simp
      · by_cases h45 : ch = 45
        · simp only [h0, h35, h45, if_false, if_true, ih, List.append_assoc]
          simp
        · by_cases h37 : ch = 37
          · simp only [h0, h35, h45, h37, if_false, if_true, ih, List.append_assoc]
            simp
          · simp only [h0, h35, h45, h37, if_false, ih, List.append_assoc]

theorem posPercentTemplate_length (numeral a b : List Nat) (k : Nat) (hk : k < 4) :
    (fillPercentTemplate numeral a b (posPercentFormats.getD k [])).length ≤
      numeral.length + a.length + b.length + 1 := by
  interval_cases k <;> simp [posPercentFormats, fillPercentTemplate] <;> omega

theorem negPercentTemplate_length (numeral a b : List Nat) (k : Nat) (hk : k < 12) :
    (fillPercentTemplate numeral a b (negPercentFormats.getD k [])).length ≤
      numeral.length + a.length + b.length + 1 := by
  interval_cases k <;> simp [negPercentFormats, fillPercentTemplate] <;> omega

/-- The worst-case length that `NumberToString` computes for the Percent
format covers the text: `n` integer digits with their separators, the decimal
separator, `d` fractional digits, the signs and one blank. -/
theorem percent_budget (scale rs : Int) (d g sl a b c n : Nat)
    (hn : n = if 0 < rs then rs.toNat else 1)
    (hrs : rs = 0 ∨ rs = scale + 2 ∨ rs = scale + 3) (hd : d ≤ 99)
    (hlen : 105 + (if scale + 2 < 0 then 0 else scale + 2 + (d : Int)) + (a : Int) +
      (sl : Int) * (if scale + 2 < 0 then 0 else scale + 2 + (d : Int)) + (b : Int) + (c : Int) ≤
        2147483647) :
    n + (n - 1) / g * sl ≤ 2147483647 ∧
      ((n + (n - 1) / g * sl + (b + d) + a + c + 1 : Nat) : Int) ≤
        (105 + (if scale + 2 < 0 then 0 else scale + 2 + (d : Int)) + (a : Int) +
          (sl : Int) * (if scale + 2 < 0 then 0 else scale + 2 + (d : Int)) + (b : Int) +
          (c : Int)) * 2 := by
  have h1 : (n - 1) / g ≤ n - 1 := Nat.div_le_self _ _
  have hD0 : (0 : Int) ≤ (if scale + 2 < 0 then 0 else scale + 2 + (d : Int)) := by
    split <;> omega
  have h2 : ((n - 1 : Nat) : Int) ≤ (if scale + 2 < 0 then 0 else scale + 2 + (d : Int)) := by
    rw [hn]
    split <;> split <;> omega
  have h3 : (((n - 1) / g : Nat) : Int) ≤ (if scale + 2 < 0 then 0 else scale + 2 + (d : Int)) :=
    le_trans (by exact_mod_cast h1) h2
  have h4 : (((n - 1) / g * sl : Nat) : Int) ≤
      (sl : Int) * (if scale + 2 < 0 then 0 else scale + 2 + (d : Int)) := by
    rw [Nat.cast_mul, mul_comm]
    exact mul_le_mul_of_nonneg_left h3 (Nat.cast_nonneg _)
  have h5 : (n : Int) ≤ (if scale + 2 < 0 then 0 else scale + 2 + (d : Int)) + 1 := by omega
  generalize (if scale + 2 < 0 then 0 else scale + 2 + (d : Int)) = D at *
  generalize (sl : Int) * D = P at *
  generalize (n - 1) / g * sl = Q at *
  constructor
  · have : ((n + Q : Nat) : Int) ≤ 2147483647 := by
      push_cast
      omega
    exact_mod_cast this
  · push_cast
    omega

theorem magnitude_scale_add_two (number : NUMBER) :
    ({ number with scale := number.scale + 2 } : NUMBER).magnitude = number.magnitude * 100 := by
  have h10 : (10 : ℚ) ≠ 0 := by norm_num
  unfold NUMBER.magnitude
  have e : number.scale + 2 - (number.digits.length : Int) =
      (number.scale - (number.digits.length : Int)) + 2 := by omega
  simp only [e]
  rw [zpow_add₀ h10]
  norm_num
  ring

/-- The Percent format with one group size: on a buffer of decimal digits
and for a precision `d` (at most the 99 that a format specifier can carry),
with the one group size `g > 0` and
template indices inside their tables, the Percent format adds 2 to `scale`,
rounds at `scale + 2 + d` digits and fills the percent template selected by
the sign of the rounded buffer with the rendered result: its grouped integer
digits and, iff `d > 0`, the decimal separator and exactly `d` fractional
digits; the numeral denotes 100 times the input magnitude rounded half-up to
`d` decimal places. -/
theorem NumberToString_percent (number : NUMBER) (format d g : Nat)
    (numfmt : NumberFormatInfo) (bDecimal : Bool) (hfmt : format = 80 ∨ format = 112)
    (hdec : IsDecimal number.digits) (hd : d ≤ 99)
    (hscale : -2147483648 ≤ number.scale ∧ number.scale + 2 + (d : Int) < 1073741823)
    (hg : 0 < g) (hgrp : numfmt.cPercentGroup = [(g : Int)])
    (hpos : 0 ≤ numfmt.cPositivePercentFormat ∧ numfmt.cPositivePercentFormat < 4)
    (hneg : 0 ≤ numfmt.cNegativePercentFormat ∧ numfmt.cNegativePercentFormat < 12)
    (hlen : 105 + (if number.scale + 2 < 0 then 0 else number.scale + 2 + (d : Int)) +
      (numfmt.sNegative.length : Int) +
      (numfmt.sPercentGroup.length : Int) *
        (if number.scale + 2 < 0 then 0 else number.scale + 2 + (d : Int)) +
      (numfmt.sPercentDecimal.length : Int) + (numfmt.sPercent.length : Int) ≤ 2147483647) :
    NumberToString number format d numfmt bDecimal =
        .ok (fillPercentTemplate
          (groupedDigits g numfmt.sPercentGroup
              (fixedInteger (RoundNumber { number with scale := number.scale + 2 }
                (number.scale + 2 + d))) ++
            (if 0 < d then
              numfmt.sPercentDecimal ++
                fixedFraction (RoundNumber { number with scale := number.scale + 2 }
                  (number.scale + 2 + d)) d
             else []))
          numfmt.sNegative numfmt.sPercent
          (if (RoundNumber { number with scale := number.scale + 2 }
              (number.scale + 2 + d)).sign then
            templateAt negPercentFormats numfmt.cNegativePercentFormat
           else templateAt posPercentFormats numfmt.cPositivePercentFormat)) ∧
      (fixedFraction (RoundNumber { number with scale := number.scale + 2 }
        (number.scale + 2 + d)) d).length = d ∧
      fixedPointValue
          (fixedInteger (RoundNumber { number with scale := number.scale + 2 }
            (number.scale + 2 + d)))
          (fixedFraction (RoundNumber { number with scale := number.scale + 2 }
            (number.scale + 2 + d)) d) =
        roundHalfUp (number.magnitude * 100) d := by
  have hfits := RoundNumber_fits { number with scale := number.scale + 2 } d hdec
    ⟨by show -2147483648 ≤ number.scale + 2; omega,
     by show number.scale + 2 < 2147483647; omega⟩
  have hhalf := RoundNumber_roundHalfUp { number with scale := number.scale + 2 } d hdec
    ⟨by show -2147483648 ≤ number.scale + 2; omega,
     by show number.scale + 2 < 2147483647; omega⟩
  rw [magnitude_scale_add_two] at hhalf
  have hsc : ({ number with scale := number.scale + 2 } : NUMBER).scale = number.scale + 2 := rfl
  rw [hsc] at hfits hhalf
  generalize hr : RoundNumber { number with scale := number.scale + 2 }
    (number.scale + 2 + d) = r at hfits hhalf ⊢
  obtain ⟨hrdec, hrlen, hrsc⟩ := hfits
  refine ⟨?_, fixedFraction_length _ _, ?_⟩
  swap
  · rw [fixedPointValue_eq_magnitude _ _ hrlen, hhalf]
  have hbudget := percent_budget number.scale r.scale d g numfmt.sPercentGroup.length
    numfmt.sNegative.length numfmt.sPercentDecimal.length numfmt.sPercent.length
    (fixedInteger r).length (fixedInteger_length r)
    (by rcases hrsc with h | h | h <;> omega) hd hlen
  have hfixed : ∀ buffer, FormatFixed buffer r d (some numfmt.cPercentGroup)
      numfmt.sPercentDecimal numfmt.sPercentGroup =
      .ok (buffer ++ (groupedDigits g numfmt.sPercentGroup (fixedInteger r) ++
        (if 0 < d then numfmt.sPercentDecimal ++ fixedFraction r d else []))) := by
    intro buffer
    rw [hgrp, FormatFixed_single_eq buffer r d g _ _ hg hrdec.ne_zero
      (by rcases hrsc with h | h | h <;> omega) hbudget.1]
    have hd0 : ((d : Int) > 0) ↔ 0 < d := by omega
    simp only [hd0, Int.toNat_ofNat, List.append_assoc]
  have hft : format &&& 0xFFDF = 80 := by
    rcases hfmt with h | h <;> subst h <;> decide
  have heff : effectiveDigits number format d numfmt bDecimal = d := by
    unfold effectiveDigits
    simp [hft]
  have hw2 : wrapInt32 (number.scale + 2) = number.scale + 2 :=
    wrapInt32_of_range _ (by omega) (by omega)
  have hw : wrapInt32 (number.scale + 2 + (d : Int)) = number.scale + 2 + d :=
    wrapInt32_of_range _ (by omega) (by omega)
  have hbuf : NumberToStringBufferLen number format d numfmt bDecimal =
      MIN_BUFFER_SIZE + (if number.scale + 2 < 0 then 0 else number.scale + 2 + (d : Int)) +
        (numfmt.sNegative.length : Int) +
        (numfmt.sPercentGroup.length : Int) *
          (if number.scale + 2 < 0 then 0 else number.scale + 2 + (d : Int)) +
        (numfmt.sPercentDecimal.length : Int) + (numfmt.sPercent.length : Int) := by
    unfold NumberToStringBufferLen
    simp [hft, heff, hw, hw2]
  have hrnd : NumberToStringRounded number format d numfmt bDecimal = r := by
    unfold NumberToStringRounded
    simp [hft, heff, hw, hw2, hr]
  unfold NumberToString
  simp only [hft, hbuf, heff, hrnd]
  have hguard : ¬ (MIN_BUFFER_SIZE +
      (if number.scale + 2 < 0 then 0 else number.scale + 2 + (d : Int)) +
      (numfmt.sNegative.length : Int) +
      (numfmt.sPercentGroup.length : Int) *
        (if number.scale + 2 < 0 then 0 else number.scale + 2 + (d : Int)) +
      (numfmt.sPercentDecimal.length : Int) + (numfmt.sPercent.length : Int) > INT32_MAX) := by
    unfold MIN_BUFFER_SIZE INT32_MAX
    exact not_lt.mpr hlen
  have hne1 : ¬ ((80 : Nat) = 67) := by decide
  have hne2 : ¬ ((80 : Nat) = 70) := by decide
  have hne3 : ¬ ((80 : Nat) = 78) := by decide
  have hne4 : ¬ ((80 : Nat) = 69) := by decide
  have hne5 : ¬ ((80 : Nat) = 71) := by decide
  simp only [hguard, if_false, hne1, hne2, hne3, hne4, hne5, or_true, if_true, FormatPercent,
    FormatPercentLoop_eq r d numfmt _ hfixed, List.nil_append]
  rw [if_pos]
  have htl : (fillPercentTemplate
      (groupedDigits g numfmt.sPercentGroup (fixedInteger r) ++
        (if 0 < d then numfmt.sPercentDecimal ++ fixedFraction r d else []))
      numfmt.sNegative numfmt.sPercent
      (if r.sign = true then templateAt negPercentFormats numfmt.cNegativePercentFormat
       else templateAt posPercentFormats numfmt.cPositivePercentFormat)).length ≤
      (groupedDigits g numfmt.sPercentGroup (fixedInteger r) ++
        (if 0 < d then numfmt.sPercentDecimal ++ fixedFraction r d else [])).length +
        numfmt.sNegative.length + numfmt.sPercent.length + 1 := by
    by_cases hsg : r.sign = true
    · rw [if_pos hsg]
      unfold templateAt
      rw [if_neg (not_lt.mpr hneg.1)]
      exact negPercentTemplate_length _ _ _ numfmt.cNegativePercentFormat.toNat (by omega)
    · rw [if_neg hsg]
      unfold templateAt
      rw [if_neg (not_lt.mpr hpos.1)]
      exact posPercentTemplate_length _ _ _ numfmt.cPositivePercentFormat.toNat (by omega)
  have hIne : fixedInteger r ≠ [] := by
    intro h
    have := fixedInteger_length r
    rw [h] at this
    simp only [List.length_nil] at this
    split at this <;> omega
  have hnl : (groupedDigits g numfmt.sPercentGroup (fixedInteger r) ++
      (if 0 < d then numfmt.sPercentDecimal ++ fixedFraction r d else [])).length ≤
      (fixedInteger r).length + ((fixedInteger r).length - 1) / g * numfmt.sPercentGroup.length +
        (numfmt.sPercentDecimal.length + d) := by
    rw [List.length_append, groupedDigits_length g _ _ hIne]
    split
    · simp [fixedFraction_length]
    · simp
  have hb2 := hbudget.2
  unfold MIN_BUFFER_SIZE
  refine le_trans (Nat.cast_le.mpr (le_trans htl ?_)) hb2
  clear * - hnl
  omega

theorem NumberToString_percent_witness :
    NumberToString ⟨15, 0, false, [49, 50, 53]⟩ 80 1
        ⟨[3], [3], [3], [43], [45], [46], [44], [44], [46], [36], [44], [46], [37],
          [0x2030], [78, 97, 78], [73], [45, 73], 2, 2, 2, 1, 0, 0, 1, 1⟩ false =
      .ok [49, 50, 46, 53, 37] :=
  (NumberToString_percent ⟨15, 0, false, [49, 50, 53]⟩ 80 1 3
    ⟨[3], [3], [3], [43], [45], [46], [44], [44], [46], [36], [44], [46], [37],
      [0x2030], [78, 97, 78], [73], [45, 73], 2, 2, 2, 1, 0, 0, 1, 1⟩ false
    (Or.inl rfl) (by decide) (by decide) (by decide) (by decide) rfl (by decide) (by decide)
    (by decide)).1.trans
    (congrArg Except.ok (by decide!))

/-! ## The scientific marker of a picture -/

theorem wrapInt32_range (x : Int) : -2147483648 ≤ wrapInt32 x ∧ wrapInt32 x ≤ 2147483647 := by
  unfold wrapInt32
  omega

theorem NumberToStringFormat_scientific_examples :
    NumberToStringFormat ⟨15, 4, false, [49, 50, 51, 52]⟩ [48, 46, 48, 48, 69, 43, 48, 48]
        ⟨[3], [3], [3], [43], [45], [46], [44], [44], [46], [36], [44], [46], [37],
          [0x2030], [78, 97, 78], [73], [45, 73], 2, 2, 2, 1, 0, 0, 1, 1⟩ =
      .ok [49, 46, 50, 51, 69, 43, 48, 51] ∧
    NumberToStringFormat ⟨15, 4, false, [49, 50, 51, 52]⟩ [48, 46, 48, 48, 69, 48, 48]
        ⟨[3], [3], [3], [43], [45], [46], [44], [44], [46], [36], [44], [46], [37],
          [0x2030], [78, 97, 78], [73], [45, 73], 2, 2, 2, 1, 0, 0, 1, 1⟩ =
      .ok [49, 46, 50, 51, 69, 48, 51] ∧
    NumberToStringFormat ⟨15, 4, false, [49, 50, 51, 52]⟩ [48, 46, 48, 48, 69, 45, 48, 48]
        ⟨[3], [3], [3], [43], [45], [46], [44], [44], [46], [36], [44], [46], [37],
          [0x2030], [78, 97, 78], [73], [45, 73], 2, 2, 2, 1, 0, 0, 1, 1⟩ =
      .ok [49, 46, 50, 51, 69, 48, 51] ∧
    NumberToStringFormat ⟨15, -2, false, [49, 50, 51, 52]⟩ [48, 46, 48, 48, 69, 43, 48, 48]
        ⟨[3], [3], [3], [43], [45], [46], [44], [44], [46], [36], [44], [46], [37],
          [0x2030], [78, 97, 78], [73], [45, 73], 2, 2, 2, 1, 0, 0, 1, 1⟩ =
      .ok [49, 46, 50, 51, 69, 45, 48, 51] ∧
    NumberToStringFormat ⟨15, -2, false, [49, 50, 51, 52]⟩ [48, 46, 48, 48, 69, 48, 48]
        ⟨[3], [3], [3], [43], [45], [46], [44], [44], [46], [36], [44], [46], [37],
          [0x2030], [78, 97, 78], [73], [45, 73], 2, 2, 2, 1, 0, 0, 1, 1⟩ =
      .ok [49, 46, 50, 51, 69, 45, 48, 51] := by
  decide!

/-- The iteration of the output loop of `NumberToStringFormat` that reads a
scientific marker (`E` or `e` followed by `0`, `+0` or `-0`) with the exponent
still to be written: it writes the marker, then the negative-sign string when
the exponent is negative, the positive-sign string when the exponent is not
negative and the marker is written with `+`, and no sign otherwise, then the
magnitude of the exponent padded to the number of zeros of the marker (at
most 10). -/
theorem pictureLoop_at_marker (number : NUMBER) (format : List Nat)
    (numfmt : NumberFormatInfo) (info : PictureInfo) (firstDigit lastDigit : Int)
    (thousandSeps : Bool) (fuel : Nat) (st : PictureState)
    (hch : wcharAt format st.src = 69 ∨ wcharAt format st.src = 101)
    (hsci : st.scientific = true)
    (hmark : wcharAt format (st.src + 1) = 48 ∨
      ((wcharAt format (st.src + 1) = 43 ∨ wcharAt format (st.src + 1) = 45) ∧
        wcharAt format (st.src + 2) = 48)) :
    pictureLoop number format numfmt info firstDigit lastDigit thousandSeps (fuel + 1) st =
        pictureLoop number format numfmt info firstDigit lastDigit thousandSeps fuel
          { st with
            src := skipZeros format (st.src + 2)
            dst := st.dst ++ [wcharAt format st.src] ++
              (if (if wcharAt number.digits 0 = 0 then 0
                  else wrapInt32 (number.scale - info.decimalPos)) < 0 then numfmt.sNegative
               else if wcharAt format (st.src + 1) = 43 then numfmt.sPositive else []) ++
              decimalPadded
                (min 10 (skipZeros format (st.src + 2) - (st.src + 2) +
                  (if wcharAt format (st.src + 1) = 48 then 1 else 0)))
                (if wcharAt number.digits 0 = 0 then (0 : Int)
                  else wrapInt32 (number.scale - info.decimalPos)).natAbs
            scientific := false } := by
  generalize hc : wcharAt format st.src = ch at hch ⊢
  generalize hc0 : wcharAt format (st.src + 1) = c0 at hmark ⊢
  generalize hc1 : wcharAt format (st.src + 2) = c1 at hmark ⊢
  have hr := wrapInt32_range (number.scale - info.decimalPos)
  have he1 : -2147483648 ≤ (if wcharAt number.digits 0 = 0 then (0 : Int)
      else wrapInt32 (number.scale - info.decimalPos)) := by
    split
    · decide
    · exact hr.1
  have he2 : (if wcharAt number.digits 0 = 0 then (0 : Int)
      else wrapInt32 (number.scale - info.decimalPos)) ≤ 2147483647 := by
    split
    · decide
    · exact hr.2
  have hn0 : ¬ (ch = 0) := by rcases hch with h | h <;> subst h <;> decide
  have hn1 : ¬ (ch = 59) := by rcases hch with h | h <;> subst h <;> decide
  have hn2 : ¬ (ch = 35) := by rcases hch with h | h <;> subst h <;> decide
  have hn3 : ¬ (ch = 48) := by rcases hch with h | h <;> subst h <;> decide
  have hn4 : ¬ (ch = 46) := by rcases hch with h | h <;> subst h <;> decide
  have hn5 : ¬ (ch = 0x2030) := by rcases hch with h | h <;> subst h <;> decide
  have hn6 : ¬ (ch = 37) := by rcases hch with h | h <;> subst h <;> decide
  have hn7 : ¬ (ch = 44) := by rcases hch with h | h <;> subst h <;> decide
  have hn8 : ¬ (ch = 39) := by rcases hch with h | h <;> subst h <;> decide
  have hn9 : ¬ (ch = 34) := by rcases hch with h | h <;> subst h <;> decide
  have hn10 : ¬ (ch = 92) := by rcases hch with h | h <;> subst h <;> decide
  have hmk : c0 = 48 ∨ (c0 = 43 ∧ c1 = 48) ∨ (c0 = 45 ∧ c1 = 48) := by
    rcases hmark with h | ⟨h | h, h2⟩
    · exact Or.inl h
    · exact Or.inr (Or.inl ⟨h, h2⟩)
    · exact Or.inr (Or.inr ⟨h, h2⟩)
  conv_lhs => unfold pictureLoop
  simp only [hc, hn0, hn1, hn2, hn3, hn4, hn5, hn6, hn7, hn8, hn9, hn10, or_self, or_false,
    false_or, and_false, if_false, pictureStep, hch, if_true, pictureExponent, hsci, hc0, hc1,
    hmk, Nat.add_assoc, Nat.reduceAdd, FormatExponent_eq _ _ _ _ _ _ he1 he2]
  congr 2
  have hsign : (if c0 ≠ 48 ∧ c0 = 43 then some numfmt.sPositive else none).getD [] =
      if c0 = 43 then numfmt.sPositive else [] := by
    by_cases h : c0 = 43
    · subst h
      simp
    · simp [h]
  have hmin : (if ((skipZeros format (st.src + 2) - (st.src + 2) : Nat) : Int) +
      (if c0 = 48 then 1 else 0) > 10 then (10 : Int)
      else ((skipZeros format (st.src + 2) - (st.src + 2) : Nat) : Int) +
        (if c0 = 48 then 1 else 0)).toNat =
      min 10 (skipZeros format (st.src + 2) - (st.src + 2) + (if c0 = 48 then 1 else 0)) := by
    split <;> split <;> omega
  rw [hsign, hmin]

/-! ## Digits beyond the placeholders of a picture -/

theorem separatorsFrom_placeholders (fmt : List Nat) (h : ∀ c ∈ fmt, c = 48 ∨ c = 35) (i : Nat) :
    separatorsFrom .plain i fmt = [] := by
  induction fmt generalizing i with
  | nil => rfl
  | cons c cs ih =>
    have hc := h c (List.mem_cons_self _ _)
    have hcs : ∀ d ∈ cs, d = 48 ∨ d = 35 := fun d hd => h d (List.mem_cons_of_mem _ hd)
    rw [separatorsFrom]
    rcases hc with hc | hc <;> subst hc <;> simp [ih hcs]

theorem FindSection_placeholders (format : List Nat) (h : ∀ c ∈ format, c = 48 ∨ c = 35)
    (s : Int) (hs : 0 ≤ s ∧ s ≤ 2) : FindSection format s = 0 := by
  unfold FindSection
  by_cases h0 : s = 0
  · rw [if_pos h0]
  · rw [if_neg h0, FindSectionLoop_eq format _ 0 s (by omega) (by omega) (by omega),
      List.drop_zero, separatorsFrom_placeholders format h]
    rfl

theorem wcharAt_mem (s : List Nat) (i : Nat) (h : i < s.length) : wcharAt s i ∈ s := by
  unfold wcharAt
  rw [List.getD_eq_getElem _ _ h]
  exact List.getElem_mem h

/-- The section parser on a picture of integer placeholders: it counts them
and leaves the other locals as they were. -/
theorem parseSectionLoop_placeholders (format : List Nat)
    (h : ∀ c ∈ format, c = 48 ∨ c = 35) (fuel : Nat) :
    ∀ (src : Nat) (st : PictureInfo), src ≤ format.length → format.length - src < fuel →
      (parseSectionLoop format fuel src st).digitCount =
          st.digitCount + ((format.length - src : Nat) : Int) ∧
        (parseSectionLoop format fuel src st).decimalPos = st.decimalPos ∧
        (parseSectionLoop format fuel src st).scientific = st.scientific ∧
        (parseSectionLoop format fuel src st).percent = st.percent ∧
        (parseSectionLoop format fuel src st).permille = st.permille ∧
        (parseSectionLoop format fuel src st).thousandPos = st.thousandPos ∧
        (parseSectionLoop format fuel src st).thousandSeps = st.thousandSeps ∧
        (parseSectionLoop format fuel src st).scaleAdjust = st.scaleAdjust := by
  induction fuel with
  | zero => intro src st _ hf; omega
  | succ fuel ih =>
    intro src st hsrc hf
    unfold parseSectionLoop
    by_cases hlt : src < format.length
    · have hmem := h _ (wcharAt_mem format src hlt)
      rcases hmem with hc | hc
      · simp only [hc, Nat.reduceEqDiff, or_self, if_false, if_true]
        obtain ⟨i1, i2, i3, i4, i5, i6, i7, i8⟩ := ih (src + 1)
          { st with
            firstDigit := if st.firstDigit = 0x7FFFFFFF then st.digitCount else st.firstDigit
            digitCount := st.digitCount + 1
            lastDigit := st.digitCount + 1 } (by omega) (by omega)
        refine ⟨?_, i2, i3, i4, i5, i6, i7, i8⟩
        rw [i1]
        show st.digitCount + 1 + _ = _
        omega
      · simp only [hc, Nat.reduceEqDiff, or_self, if_false, if_true]
        obtain ⟨i1, i2, i3, i4, i5, i6, i7, i8⟩ := ih (src + 1)
          { st with digitCount := st.digitCount + 1 } (by omega) (by omega)
        refine ⟨?_, i2, i3, i4, i5, i6, i7, i8⟩
        rw [i1]
        show st.digitCount + 1 + _ = _
        omega
    · have hw : wcharAt format src = 0 := wcharAt_of_length_le _ (by omega)
      have : format.length - src = 0 := by omega
      simp [hw, this]

/-- The locals after `ParseSection` on a picture of `k` integer placeholders:
`digitCount = decimalPos = k`, nothing scientific, no scaling, no grouping. -/
theorem parsePicture_placeholders (format : List Nat) (h : ∀ c ∈ format, c = 48 ∨ c = 35) :
    (parsePicture format 0 0).digitCount = (format.length : Int) ∧
      (parsePicture format 0 0).decimalPos = (format.length : Int) ∧
      (parsePicture format 0 0).scientific = false ∧
      (parsePicture format 0 0).percent = 0 ∧
      (parsePicture format 0 0).permille = 0 ∧
      (parsePicture format 0 0).thousandSeps = false ∧
      (parsePicture format 0 0).scaleAdjust = 0 := by
  obtain ⟨i1, i2, i3, i4, i5, i6, i7, i8⟩ := parseSectionLoop_placeholders format h
    (format.length + 1) 0
    { digitCount := 0, decimalPos := -1, firstDigit := 0x7FFFFFFF, lastDigit := 0,
      scientific := false, percent := 0, permille := 0, thousandPos := -1, thousandCount := 0,
      thousandSeps := false, scaleAdjust := 0 } (Nat.zero_le _) (by omega)
  simp only [Nat.sub_zero, zero_add] at i1 i2 i3 i4 i5 i6 i7 i8
  unfold parsePicture
  simp only [i2, i6, Int.reduceNeg, Int.reduceLT, if_true, ge_iff_le, Int.reduceLE, if_false]
  exact ⟨i1, i1, i3, i4, i5, i7, i8⟩

/-- The overflow loop without pending separators copies the next digits. -/
theorem emitOverflowDigits_eq (numfmt : NumberFormatInfo) (thousandSeps : Bool) (n : Nat) :
    ∀ st : PictureState, st.seps = [] →
      emitOverflowDigits numfmt thousandSeps n st =
        { st with
          dst := (copyDigits n st.dst st.dig).1
          dig := (copyDigits n st.dst st.dig).2
          digPos := st.digPos - n
          adjust := st.adjust - n } := by
  induction n with
  | zero =>
    intro st _
    simp [emitOverflowDigits, copyDigits]
  | succ n ih =>
    intro st hs
    unfold emitOverflowDigits
    simp only [hs, addGroupSeparator]
    rw [ih _ rfl]
    simp only [copyDigits, hs, Nat.cast_add, Nat.cast_one, PictureState.mk.injEq, true_and,
      and_true]
    constructor <;> omega

theorem copyDigits_add (a b : Nat) : ∀ (buffer dig : List Nat),
    copyDigits (a + b) buffer dig =
      copyDigits b (copyDigits a buffer dig).1 (copyDigits a buffer dig).2 := by
  induction a with
  | zero => intro buffer dig; simp [copyDigits]
  | succ a ih =>
    intro buffer dig
    have : a + 1 + b = (a + b) + 1 := by omega
    rw [this, copyDigits, ih, copyDigits]

theorem nextDigit_fst_ne_zero (dig : List Nat) : (nextDigit dig).1 ≠ 0 := by
  cases dig with
  | nil => simp [nextDigit]
  | cons c cs =>
    by_cases h : c = 0
    · simp [nextDigit, h]
    · simp [nextDigit, h]

theorem placeholder_digit (dig : List Nat) (digPos lastDigit : Int) (h : digPos > lastDigit) :
    (if wcharAt dig 0 ≠ 0 then wcharAt dig 0 else (if digPos > lastDigit then 48 else 0)) =
      (nextDigit dig).1 := by
  cases dig with
  | nil => simp [wcharAt, nextDigit, h]
  | cons c cs =>
    by_cases hc : c = 0
    · simp [wcharAt, nextDigit, hc, h]
    · simp [wcharAt, nextDigit, hc]

/-- The output loop on a picture of integer placeholders, without pending
separators: on reaching the first placeholder it writes the `adjust` digits
that have no placeholder, then one digit for every placeholder. -/
theorem pictureLoop_placeholders (number : NUMBER) (format : List Nat)
    (numfmt : NumberFormatInfo) (info : PictureInfo) (firstDigit lastDigit : Int)
    (thousandSeps : Bool) (h : ∀ c ∈ format, c = 48 ∨ c = 35) (hld : lastDigit ≤ 0)
    (fuel : Nat) :
    ∀ st : PictureState, 0 ≤ st.adjust → (st.adjust = 0 ∨ st.src < format.length) →
      st.seps = [] → st.src ≤ format.length → format.length - st.src < fuel →
      st.adjust + ((format.length - st.src : Nat) : Int) ≤ st.digPos →
      (pictureLoop number format numfmt info firstDigit lastDigit thousandSeps fuel st).dst =
        (copyDigits (st.adjust.toNat + (format.length - st.src)) st.dst st.dig).1 := by
  induction fuel with
  | zero => intro st _ _ _ _ hf; omega
  | succ fuel ih =>
    intro st hadj hor hseps hsrc hf hpos
    unfold pictureLoop
    by_cases hlt : st.src < format.length
    · have hmem := h _ (wcharAt_mem format st.src hlt)
      have hn0 : ¬ (wcharAt format st.src = 0 ∨ wcharAt format st.src = 59) := by
        rcases hmem with hc | hc <;> rw [hc] <;> decide
      have hph : wcharAt format st.src = 35 ∨ wcharAt format st.src = 48 := by
        rcases hmem with hc | hc
        · exact Or.inr hc
        · exact Or.inl hc
      have hph3 : wcharAt format st.src = 35 ∨ wcharAt format st.src = 48 ∨
          wcharAt format st.src = 46 := by
        rcases hmem with hc | hc
        · exact Or.inr (Or.inl hc)
        · exact Or.inl hc
      have hsub : format.length - st.src = (format.length - (st.src + 1)) + 1 := by omega
      simp only [hn0, if_false, hph3, and_true]
      by_cases hpos0 : st.adjust > 0
      · rw [if_pos hpos0, emitOverflowDigits_eq numfmt thousandSeps st.adjust.toNat
          { st with src := st.src + 1 } hseps]
        have hadj0 : st.adjust - ((st.adjust.toNat : Nat) : Int) = 0 := by omega
        have hnl : ¬ (st.adjust - ((st.adjust.toNat : Nat) : Int) < 0) := by omega
        have hdp : st.digPos - ((st.adjust.toNat : Nat) : Int) > lastDigit := by omega
        unfold pictureStep
        simp only [hph, if_true, hnl, if_false, placeholder_digit _ _ _ hdp,
          nextDigit_fst_ne_zero, ne_eq, not_false_eq_true, hseps, addGroupSeparator]
        refine (ih _ ?_ ?_ ?_ ?_ ?_ ?_).trans ?_
        · simp only [hadj0]
          omega
        · exact Or.inl hadj0
        · rfl
        · simp only
          omega
        · simp only
          omega
        · simp only [hadj0]
          omega
        · simp only [hadj0, Int.toNat_zero, Nat.zero_add]
          rw [copyDigits_add, hsub, copyDigits]
      · have hadj0 : st.adjust = 0 := by omega
        have hnl : ¬ (st.adjust < 0) := by omega
        have hdp : st.digPos > lastDigit := by omega
        rw [if_neg hpos0]
        unfold pictureStep
        simp only [hph, if_true, hnl, if_false, placeholder_digit _ _ _ hdp,
          nextDigit_fst_ne_zero, ne_eq, not_false_eq_true, hseps, addGroupSeparator]
        refine (ih _ ?_ ?_ ?_ ?_ ?_ ?_).trans ?_
        · simp only [hadj0]
          omega
        · exact Or.inl hadj0
        · rfl
        · simp only
          omega
        · simp only
          omega
        · simp only [hadj0]
          omega
        · simp only [hadj0, Int.toNat_zero, Nat.zero_add]
          rw [hsub, copyDigits]
    · have hw : wcharAt format st.src = 0 := wcharAt_of_length_le _ (by omega)
      have hadj0 : st.adjust = 0 := by
        rcases hor with h0 | h0
        · exact h0
        · exact absurd h0 hlt
      have : format.length - st.src = 0 := by omega
      simp [hw, this, hadj0, copyDigits]

/-- Rounding a non-zero buffer (its first digit is not `'0'`) at a position
`pos >= 1` leaves it non-zero and keeps its sign; the scale stays or grows
by 1. -/
theorem RoundNumber_nonzero (number : NUMBER) (pos : Int) (hdec : IsDecimal number.digits)
    (hne : number.digits ≠ []) (hhead : wcharAt number.digits 0 ≠ 48) (hpos : 1 ≤ pos)
    (hscale : -2147483648 ≤ number.scale ∧ number.scale < 2147483647) :
    (RoundNumber number pos).digits ≠ [] ∧ (RoundNumber number pos).sign = number.sign ∧
      ((RoundNumber number pos).scale = number.scale ∨
        (RoundNumber number pos).scale = number.scale + 1) := by
  have hlen : 0 < number.digits.length := List.length_pos.mpr hne
  have hnonempty : (RoundNumber number pos).digits ≠ [] := by
    by_cases hup : 0 ≤ pos ∧ pos.toNat < number.digits.length ∧
        53 ≤ wcharAt number.digits pos.toNat
    · rw [RoundNumber_up number pos hdec hup.1 hup.2.1 hup.2.2]
      split <;> simp
    · rw [RoundNumber_down number pos hdec hup]
      have hk := backWhile_pos_of_head number.digits 48 (min pos.toNat number.digits.length)
        (by omega) hhead
      simp only [ne_eq, List.take_eq_nil_iff, not_or]
      exact ⟨by omega, hne⟩
  obtain ⟨-, -, hshape⟩ := RoundNumber_shape number pos hdec hscale
  rcases hshape with h | h | h
  · exact absurd h.1 hnonempty
  · exact ⟨hnonempty, h.2.1, Or.inl h.2.2.1⟩
  · exact ⟨hnonempty, h.2.1, Or.inr h.2.2.1⟩

/-- C19 as stated fails: the section `ab` has no digit placeholder, fewer than
the six integer digits of `123456`, and `NumberToStringFormat` emits `ab`:
none of the digits. -/
theorem NumberToStringFormat_without_placeholder :
    NumberToStringFormat ⟨10, 6, false, [49, 50, 51, 52, 53, 54]⟩ [97, 98]
        ⟨[3], [3], [3], [43], [45], [46], [44], [44], [46], [36], [44], [46], [37],
          [0x2030], [78, 97, 78], [73], [45, 73], 2, 2, 2, 1, 0, 0, 1, 1⟩ =
      .ok [97, 98] ∧
    Int32ToNumber 123456 = ⟨10, 6, false, [49, 50, 51, 52, 53, 54]⟩ :=
  ⟨by decide!, Int32ToNumber_123456⟩

/-- The whole text for a picture of integer placeholders: for every picture
made of `k >= 1` integer digit placeholders (`0` or `#`) only and every
non-zero value whose integer part has
more than `k` digits, `NumberToStringFormat` rounds the value to an integer and
emits, after the negative-sign string of a negative value, every integer digit
of the rounded value, in order, none truncated: more digits than the picture
has placeholders, and the numeral they form is the magnitude rounded half-up
to 0 decimal places. -/
theorem NumberToStringFormat_integer_placeholders (number : NUMBER) (format : List Nat)
    (numfmt : NumberFormatInfo) (hfmt : ∀ c ∈ format, c = 48 ∨ c = 35) (hk : format ≠ [])
    (hdec : IsDecimal number.digits) (hne : number.digits ≠ [])
    (hhead : wcharAt number.digits 0 ≠ 48)
    (hscale : (format.length : Int) < number.scale)
    (hlen : number.scale + numfmt.sNegative.length + numfmt.sPositive.length +
      numfmt.sNumberDecimal.length + 11 ≤ 2147483647) :
    NumberToStringFormat number format numfmt =
        .ok ((if (RoundNumber number number.scale).sign then numfmt.sNegative else []) ++
          fixedInteger (RoundNumber number number.scale)) ∧
      format.length < (fixedInteger (RoundNumber number number.scale)).length ∧
      IsDecimal (fixedInteger (RoundNumber number number.scale)) ∧
      (digitsValue (fixedInteger (RoundNumber number number.scale)) : ℚ) =
        roundHalfUp number.magnitude 0 := by
  have hklen : 0 < format.length := List.length_pos.mpr hk
  have hsc : -2147483648 ≤ number.scale ∧ number.scale < 2147483647 := by
    constructor <;> omega
  obtain ⟨hrne, hrsign, hrscale⟩ := RoundNumber_nonzero number number.scale hdec hne hhead
    (by omega) hsc
  have hfits := RoundNumber_fits number 0 hdec hsc
  have hhalf := RoundNumber_roundHalfUp number 0 hdec hsc
  simp only [Nat.cast_zero, add_zero] at hfits hhalf
  obtain ⟨hrdec, hrlen, -⟩ := hfits
  have hval := fixedPointValue_eq_magnitude (RoundNumber number number.scale) 0
    (by simpa using hrlen)
  obtain ⟨p1, p2, p3, p4, p5, p6, p7⟩ := parsePicture_placeholders format hfmt
  have hw0 : wcharAt number.digits 0 ≠ 0 :=
    (wcharAt_zero_ne_zero_iff _ hdec.ne_zero).mpr hne
  have hrw0 : wcharAt (RoundNumber number number.scale).digits 0 ≠ 0 :=
    (wcharAt_zero_ne_zero_iff _ hrdec.ne_zero).mpr hrne
  have hsect : FindSection format (if number.sign = true then 1 else 0) = 0 :=
    FindSection_placeholders format hfmt _ (by split <;> decide)
  have hscaled : ({ number with scale := wrapInt32 (number.scale + 0) } : NUMBER) = number := by
    rw [add_zero, wrapInt32_of_range _ (by omega) (by omega)]
  have hpos : wrapInt32 (wrapInt32 (wrapInt32 (number.scale + 0) + (format.length : Int)) -
      (format.length : Int)) = number.scale := by
    unfold wrapInt32
    omega
  have hsetup : pictureSetup number format =
      (0, parsePicture format 0 0, RoundNumber number number.scale) := by
    unfold pictureSetup
    simp only [hsect, hw0, ne_eq, not_false_eq_true, if_true, p7, hscaled, p3,
      Bool.false_eq_true, if_false, p1, p2, hpos, hrw0]
  have hIlen : (fixedInteger (RoundNumber number number.scale)).length =
      (RoundNumber number number.scale).scale.toNat := by
    rw [fixedInteger_length, if_pos (by rcases hrscale with h | h <;> omega)]
  refine ⟨?_, ?_, fixedInteger_isDecimal _ hrdec, ?_⟩
  · generalize hr : RoundNumber number number.scale = r at *
    have hrpos : (format.length : Int) < r.scale := by rcases hrscale with h | h <;> omega
    have hadj : wrapInt32 (r.scale - (format.length : Int)) = r.scale - format.length :=
      wrapInt32_of_range _ (by omega) (by rcases hrscale with h | h <;> omega)
    have hld : (if (parsePicture format 0 0).lastDigit > (format.length : Int) then
        (format.length : Int) - (parsePicture format 0 0).lastDigit else 0) ≤ 0 := by
      split <;> omega
    unfold NumberToStringFormat
    simp only [hsetup, p2, p3, p6, Bool.false_eq_true, if_false, Bool.false_and, hrpos,
      gt_iff_lt, if_true, hadj, p4, p5, ne_eq, not_true_eq_false, and_true]
    have hadjpos : 0 < r.scale - (format.length : Int) := by omega
    have hguard : ¬ ((format.length : Int) +
        ((if r.sign = true then (numfmt.sNegative.length : Int) else numfmt.sPositive.length) +
          numfmt.sNumberDecimal.length + 0 + 0 + 0 +
          ((if 0 < r.scale - (format.length : Int) then r.scale - (format.length : Int) else 0) +
            (([] : List Int).length : Int) * numfmt.sNumberGroup.length)) + 10 > 0x7FFFFFFF) := by
      rw [if_pos hadjpos]
      simp only [List.length_nil, Nat.cast_zero, zero_mul, add_zero]
      split <;> (rcases hrscale with h | h <;> omega)
    simp only [hguard, if_false]
    rw [pictureLoop_placeholders r format numfmt _ _ _ false hfmt hld (format.length + 1) _
      (by simp only; omega) (Or.inr (by simp only; omega)) rfl (by simp only; omega)
      (by simp only; omega) (by simp only; omega)]
    simp only [Nat.sub_zero]
    have htot : (r.scale - (format.length : Int)).toNat + format.length = r.scale.toNat := by
      omega
    rw [htot, copyDigits_eq _ _ _ hrdec.ne_zero]
    unfold fixedInteger
    rw [if_pos (show 0 < r.scale by omega)]
    by_cases hs : r.sign = true
    · simp [hs, hrsign ▸ hs, List.append_assoc]
    · simp [hs, List.append_assoc]
  · rw [hIlen]
    rcases hrscale with h | h <;> omega
  · rw [← hhalf, ← hval]
    unfold fixedPointValue
    simp [fixedFraction, digitsValue]

theorem NumberToStringFormat_integer_placeholders_witness :
    NumberToStringFormat ⟨10, 6, false, [49, 50, 51, 52, 53, 54]⟩ [48, 48]
        ⟨[3], [3], [3], [43], [45], [46], [44], [44], [46], [36], [44], [46], [37],
          [0x2030], [78, 97, 78], [73], [45, 73], 2, 2, 2, 1, 0, 0, 1, 1⟩ =
      .ok [49, 50, 51, 52, 53, 54] :=
  (NumberToStringFormat_integer_placeholders ⟨10, 6, false, [49, 50, 51, 52, 53, 54]⟩ [48, 48]
    ⟨[3], [3], [3], [43], [45], [46], [44], [44], [46], [36], [44], [46], [37],
      [0x2030], [78, 97, 78], [73], [45, 73], 2, 2, 2, 1, 0, 0, 1, 1⟩
    (by decide) (by decide) (by decide) (by decide) (by decide) (by decide) (by decide)).1.trans
    (congrArg Except.ok (by decide!))

/-! ## Pictures that end in a scientific marker -/

theorem separatorsFrom_plain_text (fmt : List Nat)
    (h : ∀ c ∈ fmt, c ≠ 39 ∧ c ≠ 34 ∧ c ≠ 92 ∧ c ≠ 59) (i : Nat) :
    separatorsFrom .plain i fmt = [] := by
  induction fmt generalizing i with
  | nil => rfl
  | cons c cs ih =>
    obtain ⟨h1, h2, h3, h4⟩ := h c (List.mem_cons_self _ _)
    have hcs : ∀ d ∈ cs, d ≠ 39 ∧ d ≠ 34 ∧ d ≠ 92 ∧ d ≠ 59 :=
      fun d hd => h d (List.mem_cons_of_mem _ hd)
    rw [separatorsFrom]
    simp [h1, h2, h3, h4, ih hcs]

theorem FindSection_plain_text (format : List Nat)
    (h : ∀ c ∈ format, c ≠ 39 ∧ c ≠ 34 ∧ c ≠ 92 ∧ c ≠ 59) (s : Int) (hs : 0 ≤ s ∧ s ≤ 2) :
    FindSection format s = 0 := by
  unfold FindSection
  by_cases h0 : s = 0
  · rw [if_pos h0]
  · rw [if_neg h0, FindSectionLoop_eq format _ 0 s (by omega) (by omega) (by omega),
      List.drop_zero, separatorsFrom_plain_text format h]
    rfl

/-- The section parser never clears `scientific`. -/
theorem parseSectionLoop_scientific (format : List Nat) (fuel : Nat) :
    ∀ (src : Nat) (st : PictureInfo), st.scientific = true →
      (parseSectionLoop format fuel src st).scientific = true := by
  induction fuel with
  | zero => intro src st h; exact h
  | succ fuel ih =>
    intro src st h
    unfold parseSectionLoop
    dsimp only
    by_cases c1 : wcharAt format src = 0 ∨ wcharAt format src = 59
    · rw [if_pos c1]
      exact h
    rw [if_neg c1]
    by_cases c2 : wcharAt format src = 35
    · rw [if_pos c2]
      exact ih _ _ h
    rw [if_neg c2]
    by_cases c3 : wcharAt format src = 48
    · rw [if_pos c3]
      exact ih _ _ h
    rw [if_neg c3]
    by_cases c4 : wcharAt format src = 46
    · rw [if_pos c4]
      apply ih
      split <;> exact h
    rw [if_neg c4]
    by_cases c5 : wcharAt format src = 44
    · rw [if_pos c5]
      apply ih
      split
      · split <;> exact h
      · exact h
    rw [if_neg c5]
    by_cases c6 : wcharAt format src = 37
    · rw [if_pos c6]
      exact ih _ _ h
    rw [if_neg c6]
    by_cases c7 : wcharAt format src = 0x2030
    · rw [if_pos c7]
      exact ih _ _ h
    rw [if_neg c7]
    by_cases c8 : wcharAt format src = 39 ∨ wcharAt format src = 34
    · rw [if_pos c8]
      exact ih _ _ h
    rw [if_neg c8]
    by_cases c9 : wcharAt format src = 92
    · rw [if_pos c9]
      exact ih _ _ h
    rw [if_neg c9]
    by_cases c10 : wcharAt format src = 69 ∨ wcharAt format src = 101
    · rw [if_pos c10]
      split
      · exact ih _ _ rfl
      · exact ih _ _ h
    · rw [if_neg c10]
      exact ih _ _ h

theorem mem_of_wcharAt_ne_zero (s : List Nat) (i : Nat) (h : wcharAt s i ≠ 0) :
    wcharAt s i ∈ s := by
  by_cases hlt : i < s.length
  · exact wcharAt_mem s i hlt
  · exact absurd (wcharAt_of_length_le s (by omega)) h

/-- On a picture without `,`, `%` and the per-mille sign the section parser
leaves the percent and per-mille counts, the thousands marker and the scale
adjustment as they were. -/
theorem parseSectionLoop_no_scaling (format : List Nat)
    (hA : ∀ c ∈ format, c ≠ 44 ∧ c ≠ 37 ∧ c ≠ 0x2030) (fuel : Nat) :
    ∀ (src : Nat) (st : PictureInfo),
      (parseSectionLoop format fuel src st).percent = st.percent ∧
        (parseSectionLoop format fuel src st).permille = st.permille ∧
        (parseSectionLoop format fuel src st).thousandPos = st.thousandPos ∧
        (parseSectionLoop format fuel src st).thousandSeps = st.thousandSeps ∧
        (parseSectionLoop format fuel src st).scaleAdjust = st.scaleAdjust := by
  induction fuel with
  | zero => intro src st; exact ⟨rfl, rfl, rfl, rfl, rfl⟩
  | succ fuel ih =>
    intro src st
    have hno : ∀ c, wcharAt format src = c → c ≠ 0 → c ≠ 44 ∧ c ≠ 37 ∧ c ≠ 0x2030 := by
      intro c hc h0
      rw [← hc]
      exact hA _ (mem_of_wcharAt_ne_zero format src (by rw [hc]; exact h0))
    unfold parseSectionLoop
    dsimp only
    by_cases c1 : wcharAt format src = 0 ∨ wcharAt format src = 59
    · rw [if_pos c1]
      exact ⟨rfl, rfl, rfl, rfl, rfl⟩
    rw [if_neg c1]
    by_cases c2 : wcharAt format src = 35
    · rw [if_pos c2]
      exact ih _ _
    rw [if_neg c2]
    by_cases c3 : wcharAt format src = 48
    · rw [if_pos c3]
      exact ih _ _
    rw [if_neg c3]
    by_cases c4 : wcharAt format src = 46
    · rw [if_pos c4]
      have := ih (src + 1)
        (if st.decimalPos < 0 then { st with decimalPos := st.digitCount } else st)
      split at this <;> split <;> first | exact this | contradiction
    rw [if_neg c4]
    by_cases c5 : wcharAt format src = 44
    · exact absurd rfl (hno 44 c5 (by decide)).1
    rw [if_neg c5]
    by_cases c6 : wcharAt format src = 37
    · exact absurd rfl (hno 37 c6 (by decide)).2.1
    rw [if_neg c6]
    by_cases c7 : wcharAt format src = 0x2030
    · exact absurd rfl (hno 0x2030 c7 (by decide)).2.2
    rw [if_neg c7]
    by_cases c8 : wcharAt format src = 39 ∨ wcharAt format src = 34
    · rw [if_pos c8]
      exact ih _ _
    rw [if_neg c8]
    by_cases c9 : wcharAt format src = 92
    · rw [if_pos c9]
      exact ih _ _
    rw [if_neg c9]
    by_cases c10 : wcharAt format src = 69 ∨ wcharAt format src = 101
    · rw [if_pos c10]
      split
      · exact ih _ _
      · exact ih _ _
    · rw [if_neg c10]
      exact ih _ _

/-- The section parser sets `scientific` when a run of placeholders and
decimal points leads to a scientific marker. -/
theorem parseSectionLoop_reaches_marker (format : List Nat) (p : Nat)
    (hpre : ∀ i, i < p → wcharAt format i = 48 ∨ wcharAt format i = 35 ∨ wcharAt format i = 46)
    (hm : wcharAt format p = 69 ∨ wcharAt format p = 101)
    (hmark : wcharAt format (p + 1) = 48 ∨
      ((wcharAt format (p + 1) = 43 ∨ wcharAt format (p + 1) = 45) ∧
        wcharAt format (p + 2) = 48)) (fuel : Nat) :
    ∀ (src : Nat) (st : PictureInfo), src ≤ p → p - src < fuel →
      (parseSectionLoop format fuel src st).scientific = true := by
  induction fuel with
  | zero => intro src st _ hf; omega
  | succ fuel ih =>
    intro src st hsrc hf
    unfold parseSectionLoop
    dsimp only
    by_cases hlt : src < p
    · rcases hpre src hlt with hc | hc | hc
      · simp only [hc, Nat.reduceEqDiff, or_self, if_false, if_true]
        exact ih _ _ (by omega) (by omega)
      · simp only [hc, Nat.reduceEqDiff, or_self, if_false, if_true]
        exact ih _ _ (by omega) (by omega)
      · simp only [hc, Nat.reduceEqDiff, or_self, if_false, if_true]
        exact ih _ _ (by omega) (by omega)
    · have hp : src = p := by omega
      subst hp
      have hmark2 : wcharAt format (src + 1) = 48 ∨
          (wcharAt format (src + 1) = 43 ∨ wcharAt format (src + 1) = 45) ∧
            wcharAt format (src + 2) = 48 := hmark
      rcases hm with hc | hc
      · simp only [hc, Nat.reduceEqDiff, or_self, if_false, or_false, or_true, true_or, if_true,
          hmark2]
        exact parseSectionLoop_scientific _ _ _ _ rfl
      · simp only [hc, Nat.reduceEqDiff, or_self, if_false, or_false, or_true, true_or, if_true,
          hmark2]
        exact parseSectionLoop_scientific _ _ _ _ rfl

/-- The locals after `ParseSection` on a picture without `,`, `%` and the
per-mille sign in which a run of placeholders and decimal points leads to a
scientific marker. -/
theorem parsePicture_marker (format : List Nat) (p : Nat)
    (hA : ∀ c ∈ format, c ≠ 44 ∧ c ≠ 37 ∧ c ≠ 0x2030)
    (hpre : ∀ i, i < p → wcharAt format i = 48 ∨ wcharAt format i = 35 ∨ wcharAt format i = 46)
    (hm : wcharAt format p = 69 ∨ wcharAt format p = 101)
    (hmark : wcharAt format (p + 1) = 48 ∨
      ((wcharAt format (p + 1) = 43 ∨ wcharAt format (p + 1) = 45) ∧
        wcharAt format (p + 2) = 48)) :
    (parsePicture format 0 0).scientific = true ∧
      (parsePicture format 0 0).thousandSeps = false ∧
      (parsePicture format 0 0).percent = 0 ∧
      (parsePicture format 0 0).permille = 0 ∧
      (parsePicture format 0 0).scaleAdjust = 0 := by
  have hp : p < format.length := by
    by_contra hge
    have := wcharAt_of_length_le format (show format.length ≤ p by omega)
    rcases hm with h | h <;> rw [h] at this <;> exact absurd this (by decide)
  obtain ⟨i1, i2, i3, i4, i5⟩ := parseSectionLoop_no_scaling format hA (format.length + 1) 0
    { digitCount := 0, decimalPos := -1, firstDigit := 0x7FFFFFFF, lastDigit := 0,
      scientific := false, percent := 0, permille := 0, thousandPos := -1, thousandCount := 0,
      thousandSeps := false, scaleAdjust := 0 }
  have i6 := parseSectionLoop_reaches_marker format p hpre hm hmark (format.length + 1) 0
    { digitCount := 0, decimalPos := -1, firstDigit := 0x7FFFFFFF, lastDigit := 0,
      scientific := false, percent := 0, permille := 0, thousandPos := -1, thousandCount := 0,
      thousandSeps := false, scaleAdjust := 0 } (Nat.zero_le _) (by omega)
  dsimp only at i1 i2 i3 i4 i5
  unfold parsePicture
  dsimp only
  have hth : ∀ st : PictureInfo, st.thousandPos = -1 → ¬ (st.thousandPos ≥ 0) := by
    intro st h
    rw [h]
    decide
  split
  · rw [if_neg (hth _ i3)]
    exact ⟨i6, i4, i1, i2, i5⟩
  · rw [if_neg (hth _ i3)]
    exact ⟨i6, i4, i1, i2, i5⟩

theorem ite_snd_nil {α : Type} (c : Prop) [Decidable c] (a b : List Nat × List α)
    (h1 : a.2 = []) (h2 : b.2 = []) : (if c then a else b).2 = [] := by
  split <;> assumption

theorem ite_fst_append {α : Type} (c : Prop) [Decidable c] (a b : List Nat × List α)
    (d : List Nat) (h1 : ∃ Y, a.1 = d ++ Y) (h2 : ∃ Y, b.1 = d ++ Y) :
    ∃ Y, (if c then a else b).1 = d ++ Y := by
  split <;> assumption

/-- A placeholder or a decimal point, met with no digit owed and no pending
separator, only appends to the text. -/
theorem pictureStep_placeholder (number : NUMBER) (format : List Nat)
    (numfmt : NumberFormatInfo) (info : PictureInfo) (firstDigit lastDigit : Int)
    (thousandSeps : Bool) (ch : Nat) (st : PictureState)
    (hch : ch = 48 ∨ ch = 35 ∨ ch = 46) (hadj : st.adjust = 0) (hseps : st.seps = []) :
    (pictureStep number format numfmt info firstDigit lastDigit thousandSeps ch st).src =
        st.src ∧
      (pictureStep number format numfmt info firstDigit lastDigit thousandSeps ch st).adjust =
        0 ∧
      (pictureStep number format numfmt info firstDigit lastDigit thousandSeps ch st).seps =
        [] ∧
      (pictureStep number format numfmt info firstDigit lastDigit thousandSeps ch
        st).scientific = st.scientific ∧
      ∃ Y, (pictureStep number format numfmt info firstDigit lastDigit thousandSeps ch
        st).dst = st.dst ++ Y := by
  have hnl : ¬ (st.adjust < 0) := by omega
  unfold pictureStep
  by_cases hph : ch = 35 ∨ ch = 48
  · rw [if_pos hph]
    dsimp only
    refine ⟨rfl, ?_, ?_, rfl, ?_⟩
    · rw [if_neg hnl]
      exact hadj
    · rw [hseps]
      exact ite_snd_nil _ _ _ rfl rfl
    · rw [hseps]
      exact ite_fst_append _ _ _ _ ⟨[_], rfl⟩ ⟨[], (List.append_nil _).symm⟩
  · have h46 : ch = 46 := by
      rcases hch with h | h | h
      · exact absurd (Or.inr h) hph
      · exact absurd (Or.inl h) hph
      · exact h
    rw [if_neg hph, if_pos h46]
    split
    · exact ⟨rfl, hadj, hseps, rfl, [], (List.append_nil _).symm⟩
    · split
      · exact ⟨rfl, hadj, hseps, rfl, _, rfl⟩
      · exact ⟨rfl, hadj, hseps, rfl, [], (List.append_nil _).symm⟩

/-- The output loop over a run of placeholders and decimal points, with no
digit owed and no pending separator: it arrives at the end of the run having
only appended to the text. -/
theorem pictureLoop_prefix (number : NUMBER) (format : List Nat)
    (numfmt : NumberFormatInfo) (info : PictureInfo) (firstDigit lastDigit : Int)
    (thousandSeps : Bool) (p : Nat)
    (hpre : ∀ i, i < p → wcharAt format i = 48 ∨ wcharAt format i = 35 ∨ wcharAt format i = 46)
    (n : Nat) :
    ∀ (fuel : Nat) (st : PictureState), st.adjust = 0 → st.seps = [] → st.src + n = p →
      n ≤ fuel →
      ∃ st2 : PictureState,
        pictureLoop number format numfmt info firstDigit lastDigit thousandSeps fuel st =
          pictureLoop number format numfmt info firstDigit lastDigit thousandSeps (fuel - n)
            st2 ∧
        st2.src = p ∧ st2.adjust = 0 ∧ st2.seps = [] ∧ st2.scientific = st.scientific ∧
        ∃ X, st2.dst = st.dst ++ X := by
  induction n with
  | zero =>
    intro fuel st hadj hseps hsrc _
    exact ⟨st, rfl, by omega, hadj, hseps, rfl, [], (List.append_nil _).symm⟩
  | succ n ih =>
    intro fuel st hadj hseps hsrc hfuel
    obtain ⟨f, rfl⟩ : ∃ f, fuel = f + 1 := ⟨fuel - 1, by omega⟩
    have hc := hpre st.src (by omega)
    have hn0 : ¬ (wcharAt format st.src = 0 ∨ wcharAt format st.src = 59) := by
      rcases hc with h | h | h <;> rw [h] <;> decide
    have hnadj : ¬ (st.adjust > 0 ∧ (wcharAt format st.src = 35 ∨ wcharAt format st.src = 48 ∨
        wcharAt format st.src = 46)) := by
      rintro ⟨h, -⟩
      omega
    obtain ⟨s1, s2, s3, s4, Y, s5⟩ := pictureStep_placeholder number format numfmt info
      firstDigit lastDigit thousandSeps (wcharAt format st.src) { st with src := st.src + 1 }
      hc hadj hseps
    obtain ⟨st2, e1, e2, e3, e4, e5, X, e6⟩ := ih f _ s2 s3 (by rw [s1]; show st.src + 1 + n = p; omega)
      (by omega)
    refine ⟨st2, ?_, e2, e3, e4, ?_, Y ++ X, ?_⟩
    · conv_lhs => unfold pictureLoop
      dsimp only
      rw [if_neg hn0, if_neg hnadj, e1]
      congr 1
      omega
    · rw [e5, s4]
    · rw [e6, s5, List.append_assoc]

theorem pictureLoop_at_end (number : NUMBER) (format : List Nat) (numfmt : NumberFormatInfo)
    (info : PictureInfo) (firstDigit lastDigit : Int) (thousandSeps : Bool) (fuel : Nat)
    (st : PictureState) (h : wcharAt format st.src = 0) :
    pictureLoop number format numfmt info firstDigit lastDigit thousandSeps fuel st = st := by
  cases fuel with
  | zero => rfl
  | succ f =>
    unfold pictureLoop
    simp [h]

theorem wcharAt_append_right (a b : List Nat) (k : Nat) :
    wcharAt (a ++ b) (a.length + k) = wcharAt b k := by
  unfold wcharAt
  simp [List.getD_eq_getElem?_getD, List.getElem?_append_right]

theorem takeWhile_zeros (k : Nat) :
    (List.replicate k 48).takeWhile (fun c => c == 48) = List.replicate k 48 := by
  induction k with
  | zero => rfl
  | succ k ih => simp [List.replicate_succ, List.takeWhile, ih]

/-- The shape of a picture that is a run of placeholders and decimal points
followed by a scientific marker with `m >= 1` zeros: the code units read at
and after the marker, and where the zeros end. -/
theorem marker_picture_shape (pre sgn : List Nat) (ch m : Nat)
    (hsgn : sgn = [] ∨ sgn = [43] ∨ sgn = [45]) (hm : 1 ≤ m) :
    wcharAt (pre ++ ch :: (sgn ++ List.replicate m 48)) pre.length = ch ∧
      (wcharAt (pre ++ ch :: (sgn ++ List.replicate m 48)) (pre.length + 1) = 48 ∨
        ((wcharAt (pre ++ ch :: (sgn ++ List.replicate m 48)) (pre.length + 1) = 43 ∨
          wcharAt (pre ++ ch :: (sgn ++ List.replicate m 48)) (pre.length + 1) = 45) ∧
          wcharAt (pre ++ ch :: (sgn ++ List.replicate m 48)) (pre.length + 2) = 48)) ∧
      (wcharAt (pre ++ ch :: (sgn ++ List.replicate m 48)) (pre.length + 1) = 43 ↔
        sgn = [43]) ∧
      skipZeros (pre ++ ch :: (sgn ++ List.replicate m 48)) (pre.length + 2) =
        (pre ++ ch :: (sgn ++ List.replicate m 48)).length ∧
      skipZeros (pre ++ ch :: (sgn ++ List.replicate m 48)) (pre.length + 2) -
          (pre.length + 2) +
          (if wcharAt (pre ++ ch :: (sgn ++ List.replicate m 48)) (pre.length + 1) = 48
            then 1 else 0) = m := by
  obtain ⟨k, rfl⟩ : ∃ k, m = k + 1 := ⟨m - 1, by omega⟩
  have hdrop : ∀ tail : List Nat, (pre ++ ch :: tail).drop (pre.length + 2) = tail.drop 1 := by
    intro tail
    rw [List.drop_append_eq_append_drop]
    simp
  have h0 : wcharAt (pre ++ ch :: (sgn ++ List.replicate (k + 1) 48)) pre.length =
      wcharAt (ch :: (sgn ++ List.replicate (k + 1) 48)) 0 :=
    wcharAt_append_right pre (ch :: (sgn ++ List.replicate (k + 1) 48)) 0
  have h1 := wcharAt_append_right pre (ch :: (sgn ++ List.replicate (k + 1) 48)) 1
  have h2 := wcharAt_append_right pre (ch :: (sgn ++ List.replicate (k + 1) 48)) 2
  unfold skipZeros
  rw [h0, h1, h2, hdrop]
  rcases hsgn with h | h | h
  · subst h
    simp only [List.nil_append, List.replicate_succ, List.drop_succ_cons, List.drop_zero,
      takeWhile_zeros, List.length_replicate, List.length_append, List.length_cons]
    simp [wcharAt]
    omega
  · subst h
    simp only [List.singleton_append, List.drop_succ_cons, List.drop_zero,
      takeWhile_zeros, List.length_replicate, List.length_append, List.length_cons,
      List.length_singleton]
    simp [wcharAt, List.replicate_succ]
    omega
  · subst h
    simp only [List.singleton_append, List.drop_succ_cons, List.drop_zero,
      takeWhile_zeros, List.length_replicate, List.length_append, List.length_cons,
      List.length_singleton]
    simp [wcharAt, List.replicate_succ]
    omega

theorem marker_picture_alphabet (pre sgn : List Nat) (ch m : Nat)
    (hpre : ∀ c ∈ pre, c = 48 ∨ c = 35 ∨ c = 46) (hch : ch = 69 ∨ ch = 101)
    (hsgn : sgn = [] ∨ sgn = [43] ∨ sgn = [45]) :
    ∀ c ∈ pre ++ ch :: (sgn ++ List.replicate m 48),
      c = 48 ∨ c = 35 ∨ c = 46 ∨ c = 69 ∨ c = 101 ∨ c = 43 ∨ c = 45 := by
  intro c hc
  rcases List.mem_append.mp hc with h | h
  · rcases hpre c h with h1 | h1 | h1
    · exact Or.inl h1
    · exact Or.inr (Or.inl h1)
    · exact Or.inr (Or.inr (Or.inl h1))
  · rcases List.mem_cons.mp h with h1 | h1
    · rcases hch with h2 | h2
      · exact Or.inr (Or.inr (Or.inr (Or.inl (h1.trans h2))))
      · exact Or.inr (Or.inr (Or.inr (Or.inr (Or.inl (h1.trans h2)))))
    · rcases List.mem_append.mp h1 with h2 | h2
      · rcases hsgn with h3 | h3 | h3
        · rw [h3] at h2
          exact absurd h2 (List.not_mem_nil _)
        · rw [h3] at h2
          exact Or.inr (Or.inr (Or.inr (Or.inr (Or.inr (Or.inl (List.mem_singleton.mp h2))))))
        · rw [h3] at h2
          exact Or.inr (Or.inr (Or.inr (Or.inr (Or.inr (Or.inr (List.mem_singleton.mp h2))))))
      · exact Or.inl (List.eq_of_mem_replicate h2)

/-- The whole text for a marker at the end of a picture: for every picture
that is a run of digit placeholders and decimal points followed by a
scientific marker (`E` or `e`, an optional `+` or `-`,
and `m >= 1` zeros) and every non-zero value, `NumberToStringFormat` ends its
text with the marker, then the negative-sign string when the exponent is
negative, the positive-sign string when the exponent is not negative and the
marker is written with `+`, and no sign when the exponent is not negative and
the marker is `E0...` or `E-0...`, then the magnitude of the exponent padded
to `m` digits (at most 10). So `1234` (digits `1234`, scale 4) comes out as
`1.23E+03` with `0.00E+00` and as `1.23E03` with `0.00E00` and with
`0.00E-00`, and `0.001234` as `1.23E-03` with `0.00E+00` and with `0.00E00`. -/
theorem NumberToStringFormat_exponent_sign (number : NUMBER) (pre sgn : List Nat) (ch m : Nat)
    (numfmt : NumberFormatInfo) (hpre : ∀ c ∈ pre, c = 48 ∨ c = 35 ∨ c = 46)
    (hch : ch = 69 ∨ ch = 101) (hsgn : sgn = [] ∨ sgn = [43] ∨ sgn = [45]) (hm : 1 ≤ m)
    (hdec : IsDecimal number.digits) (hne : number.digits ≠ [])
    (hscale : -2147483648 ≤ number.scale ∧ number.scale ≤ 2147483647)
    (hlen : ((pre ++ ch :: (sgn ++ List.replicate m 48)).length : Int) +
      2 * ((numfmt.sNegative.length : Int) + numfmt.sPositive.length) +
      numfmt.sNumberDecimal.length + 10 ≤ 2147483647) :
    (∃ X, NumberToStringFormat number (pre ++ ch :: (sgn ++ List.replicate m 48)) numfmt =
        .ok (X ++ [ch] ++
          (if scientificExponent number (pre ++ ch :: (sgn ++ List.replicate m 48)) < 0 then
            numfmt.sNegative
           else if sgn = [43] then numfmt.sPositive else []) ++
          decimalPadded (min 10 m)
            (scientificExponent number (pre ++ ch :: (sgn ++ List.replicate m 48))).natAbs)) ∧
      NumberToStringFormat ⟨15, 4, false, [49, 50, 51, 52]⟩ [48, 46, 48, 48, 69, 43, 48, 48]
          ⟨[3], [3], [3], [43], [45], [46], [44], [44], [46], [36], [44], [46], [37],
            [0x2030], [78, 97, 78], [73], [45, 73], 2, 2, 2, 1, 0, 0, 1, 1⟩ =
        .ok [49, 46, 50, 51, 69, 43, 48, 51] ∧
      NumberToStringFormat ⟨15, 4, false, [49, 50, 51, 52]⟩ [48, 46, 48, 48, 69, 48, 48]
          ⟨[3], [3], [3], [43], [45], [46], [44], [44], [46], [36], [44], [46], [37],
            [0x2030], [78, 97, 78], [73], [45, 73], 2, 2, 2, 1, 0, 0, 1, 1⟩ =
        .ok [49, 46, 50, 51, 69, 48, 51] ∧
      NumberToStringFormat ⟨15, 4, false, [49, 50, 51, 52]⟩ [48, 46, 48, 48, 69, 45, 48, 48]
          ⟨[3], [3], [3], [43], [45], [46], [44], [44], [46], [36], [44], [46], [37],
            [0x2030], [78, 97, 78], [73], [45, 73], 2, 2, 2, 1, 0, 0, 1, 1⟩ =
        .ok [49, 46, 50, 51, 69, 48, 51] ∧
      NumberToStringFormat ⟨15, -2, false, [49, 50, 51, 52]⟩ [48, 46, 48, 48, 69, 43, 48, 48]
          ⟨[3], [3], [3], [43], [45], [46], [44], [44], [46], [36], [44], [46], [37],
            [0x2030], [78, 97, 78], [73], [45, 73], 2, 2, 2, 1, 0, 0, 1, 1⟩ =
        .ok [49, 46, 50, 51, 69, 45, 48, 51] ∧
      NumberToStringFormat ⟨15, -2, false, [49, 50, 51, 52]⟩ [48, 46, 48, 48, 69, 48, 48]
          ⟨[3], [3], [3], [43], [45], [46], [44], [44], [46], [36], [44], [46], [37],
            [0x2030], [78, 97, 78], [73], [45, 73], 2, 2, 2, 1, 0, 0, 1, 1⟩ =
        .ok [49, 46, 50, 51, 69, 45, 48, 51] := by
  refine ⟨?_, NumberToStringFormat_scientific_examples⟩
  obtain ⟨f0, f3, f43, fskip, fcount⟩ := marker_picture_shape pre sgn ch m hsgn hm
  have halpha := marker_picture_alphabet pre sgn ch m hpre hch hsgn
  generalize hfmt : pre ++ ch :: (sgn ++ List.replicate m 48) = fmt at *
  have hplen : pre.length < fmt.length := by
    rw [← hfmt]
    simp
  have hA : ∀ c ∈ fmt, c ≠ 44 ∧ c ≠ 37 ∧ c ≠ 0x2030 := by
    intro c hc
    rcases halpha c hc with h | h | h | h | h | h | h <;> subst h <;> decide
  have hB : ∀ c ∈ fmt, c ≠ 39 ∧ c ≠ 34 ∧ c ≠ 92 ∧ c ≠ 59 := by
    intro c hc
    rcases halpha c hc with h | h | h | h | h | h | h <;> subst h <;> decide
  have hprei : ∀ i, i < pre.length →
      wcharAt fmt i = 48 ∨ wcharAt fmt i = 35 ∨ wcharAt fmt i = 46 := by
    intro i hi
    rw [← hfmt, wcharAt_append_left _ _ _ hi]
    exact hpre _ (wcharAt_mem pre i hi)
  have hmk : wcharAt fmt pre.length = 69 ∨ wcharAt fmt pre.length = 101 := by
    rw [f0]
    exact hch
  obtain ⟨q1, q2, q3, q4, q5⟩ := parsePicture_marker fmt pre.length hA hprei hmk f3
  have hs1 : FindSection fmt (if number.sign = true then 1 else 0) = 0 :=
    FindSection_plain_text fmt hB _ (by split <;> decide)
  have hs2 : FindSection fmt 2 = 0 := FindSection_plain_text fmt hB _ (by decide)
  have hw0 : wcharAt number.digits 0 ≠ 0 :=
    (wcharAt_zero_ne_zero_iff _ hdec.ne_zero).mpr hne
  have hscaled : ({ number with scale := wrapInt32 (number.scale + 0) } : NUMBER) = number := by
    rw [add_zero, wrapInt32_of_range _ hscale.1 hscale.2]
  have hsetup : pictureSetup number fmt =
      (0, parsePicture fmt 0 0, RoundNumber number (parsePicture fmt 0 0).digitCount) := by
    unfold pictureSetup
    simp only [hs1, hs2, hw0, ne_eq, not_false_eq_true, if_true, q5, hscaled, q1,
      not_true_eq_false, if_false, ite_self]
  have hexp : scientificExponent number fmt =
      if wcharAt (RoundNumber number (parsePicture fmt 0 0).digitCount).digits 0 = 0 then 0
      else wrapInt32 ((RoundNumber number (parsePicture fmt 0 0).digitCount).scale -
        (parsePicture fmt 0 0).decimalPos) := by
    unfold scientificExponent
    rw [hsetup]
  rw [hexp]
  generalize hr : RoundNumber number (parsePicture fmt 0 0).digitCount = r
  unfold NumberToStringFormat
  simp only [hsetup, hr, q1, q2, q3, q4, if_true, Bool.false_and, Bool.false_eq_true, if_false,
    ne_eq, not_true_eq_false, gt_iff_lt, lt_self_iff_false, List.length_nil, Nat.cast_zero,
    zero_mul, add_zero]
  have hguard : ¬ (2147483647 < (fmt.length : Int) +
      ((if r.sign = true then (numfmt.sNegative.length : Int) else numfmt.sPositive.length) +
        numfmt.sNumberDecimal.length +
        (if numfmt.sNegative.length < numfmt.sPositive.length then
          (numfmt.sPositive.length : Int) else numfmt.sNegative.length)) + 10) := by
    split <;> split <;> omega
  rw [if_neg hguard]
  simp only [Except.ok.injEq]
  have key : ∀ (fd ld : Int) (dst0 : List Nat), ∃ X,
      (pictureLoop r fmt numfmt (parsePicture fmt 0 0) fd ld false (fmt.length + 1)
        { src := 0, dst := dst0, dig := r.digits,
          digPos := (parsePicture fmt 0 0).decimalPos, adjust := 0, seps := [],
          scientific := true, decimalWritten := false }).dst =
        (X ++ [ch] ++
          if (if wcharAt r.digits 0 = 0 then 0
              else wrapInt32 (r.scale - (parsePicture fmt 0 0).decimalPos)) < 0 then
            numfmt.sNegative
          else if sgn = [43] then numfmt.sPositive else []) ++
        decimalPadded (min 10 m)
          (if wcharAt r.digits 0 = 0 then (0 : Int)
            else wrapInt32 (r.scale - (parsePicture fmt 0 0).decimalPos)).natAbs := by
    intro fd ld dst0
    obtain ⟨st2, e1, e2, e3, e4, e5, X, e6⟩ := pictureLoop_prefix r fmt numfmt
      (parsePicture fmt 0 0) fd ld false pre.length hprei pre.length (fmt.length + 1)
      { src := 0, dst := dst0, dig := r.digits,
        digPos := (parsePicture fmt 0 0).decimalPos, adjust := 0, seps := [],
        scientific := true, decimalWritten := false } rfl rfl (Nat.zero_add _) (by omega)
    have hfu : fmt.length + 1 - pre.length = (fmt.length - pre.length) + 1 := by omega
    have hend : wcharAt fmt (skipZeros fmt (st2.src + 2)) = 0 := by
      rw [e2, fskip]
      exact wcharAt_of_length_le _ (le_refl _)
    rw [e1, hfu, pictureLoop_at_marker r fmt numfmt (parsePicture fmt 0 0) fd ld false
      (fmt.length - pre.length) st2 (by rw [e2]; exact hmk) e5 (by rw [e2]; exact f3),
      pictureLoop_at_end _ _ _ _ _ _ _ _ _ hend]
    refine ⟨st2.dst, ?_⟩
    simp only [e2, f0, fcount, f43]
  exact key _ _ _

theorem NumberToStringFormat_exponent_sign_witness :
    ∃ X, NumberToStringFormat ⟨15, 4, false, [49, 50, 51, 52]⟩
        ([48, 46, 48, 48] ++ 69 :: ([43] ++ List.replicate 2 48))
        ⟨[3], [3], [3], [43], [45], [46], [44], [44], [46], [36], [44], [46], [37],
          [0x2030], [78, 97, 78], [73], [45, 73], 2, 2, 2, 1, 0, 0, 1, 1⟩ =
      .ok (X ++ [69] ++
        (if scientificExponent ⟨15, 4, false, [49, 50, 51, 52]⟩
            ([48, 46, 48, 48] ++ 69 :: ([43] ++ List.replicate 2 48)) < 0 then [45]
         else if [43] = [43] then [43] else []) ++
        decimalPadded (min 10 2)
          (scientificExponent ⟨15, 4, false, [49, 50, 51, 52]⟩
            ([48, 46, 48, 48] ++ 69 :: ([43] ++ List.replicate 2 48))).natAbs) :=
  (NumberToStringFormat_exponent_sign ⟨15, 4, false, [49, 50, 51, 52]⟩ [48, 46, 48, 48] [43]
    69 2
    ⟨[3], [3], [3], [43], [45], [46], [44], [44], [46], [36], [44], [46], [37],
      [0x2030], [78, 97, 78], [73], [45, 73], 2, 2, 2, 1, 0, 0, 1, 1⟩
    (by decide) (Or.inl rfl) (Or.inr (Or.inl rfl)) (by decide) (by decide) (by decide)
    (by decide) (by decide)).1

/-! ## Mul64Lossy: the truncated product -/

/-- The three partial products of `Mul64Lossy` in arithmetic form. -/
theorem Mul64LossySum_eq (a b : Nat) (ha2 : a < 2 ^ 64) (hb2 : b < 2 ^ 64) :
    Mul64LossySum a b = a / 2 ^ 32 * (b / 2 ^ 32) + a / 2 ^ 32 * (b % 2 ^ 32) / 2 ^ 32 +
      a % 2 ^ 32 * (b / 2 ^ 32) / 2 ^ 32 := by
  unfold Mul64LossySum Mul32x32To64 toUInt32
  simp only [Nat.shiftRight_eq_div_pow]
  have ea : a / 2 ^ 32 % 4294967296 = a / 2 ^ 32 := by
    norm_num only at ha2 ⊢; omega
  have eb : b / 2 ^ 32 % 4294967296 = b / 2 ^ 32 := by
    norm_num only at hb2 ⊢; omega
  rw [ea, eb]
  have e32 : (4294967296 : Nat) = 2 ^ 32 := by norm_num
  rw [e32]

/-- C30: on two 64-bit operands with the top bit set, the sum `Mul64Lossy`
forms stays below `2^64`; it falls short of `floor(a * b / 2^64)` by at most 2;
the value returned is that sum, shifted left once exactly when its top bit is
clear, with the exponent decremented by one exactly in that case; the value
returned has the top bit set. -/
theorem Mul64Lossy_truncation (a b : Nat) (e : Int) (ha : 2 ^ 63 ≤ a) (ha2 : a < 2 ^ 64)
    (hb : 2 ^ 63 ≤ b) (hb2 : b < 2 ^ 64) :
    Mul64LossySum a b < 2 ^ 64 ∧
      Mul64LossySum a b ≤ a * b / 2 ^ 64 ∧ a * b / 2 ^ 64 ≤ Mul64LossySum a b + 2 ∧
      Mul64Lossy a b e =
        (if Mul64LossySum a b < 2 ^ 63 then (2 * Mul64LossySum a b, e - 1)
         else (Mul64LossySum a b, e)) ∧
      2 ^ 63 ≤ (Mul64Lossy a b e).1 ∧ (Mul64Lossy a b e).1 < 2 ^ 64 := by
  obtain ⟨h1, h2, h3, h4⟩ := mul64_partial_products a b ha ha2 hb hb2
  rw [← Mul64LossySum_eq a b ha2 hb2] at h1 h2 h3 h4
  generalize hv : Mul64LossySum a b = v at h1 h2 h3 h4 ⊢
  have hlo : v ≤ a * b / 2 ^ 64 := (Nat.le_div_iff_mul_le (by norm_num)).mpr h1
  have hhi : a * b / 2 ^ 64 ≤ v + 2 := by
    have : a * b / 2 ^ 64 < v + 3 := (Nat.div_lt_iff_lt_mul (by norm_num)).mpr h2
    omega
  have hmask : (0x8000000000000000 : Nat) = (2 ^ 1 - 1) <<< 63 := by
    rw [Nat.shiftLeft_eq]; norm_num
  have hiff := and_high_mask_eq_zero v 63 1 (by simpa using h4)
  have heq : Mul64Lossy a b e = (if v < 2 ^ 63 then (2 * v, e - 1) else (v, e)) := by
    have hval : toUInt64 (Mul32x32To64 (a >>> 32) (b >>> 32) +
        (Mul32x32To64 (a >>> 32) b >>> 32) + (Mul32x32To64 a (b >>> 32) >>> 32)) = v := by
      have : Mul32x32To64 (a >>> 32) (b >>> 32) +
        (Mul32x32To64 (a >>> 32) b >>> 32) + (Mul32x32To64 a (b >>> 32) >>> 32) = v := hv
      rw [this]
      unfold toUInt64
      have e64 : (18446744073709551616 : Nat) = 2 ^ 64 := by norm_num
      rw [e64]
      exact Nat.mod_eq_of_lt h4
    unfold Mul64Lossy
    simp only [hval]
    rw [hmask]
    by_cases hlt : v < 2 ^ 63
    · have h0 := hiff.mpr hlt
      simp only [h0, beq_self_eq_true, if_true, hlt]
      have : toUInt64 (v <<< 1) = 2 * v := by
        unfold toUInt64
        rw [Nat.shiftLeft_eq]
        norm_num only at hlt ⊢
        omega
      rw [this]
    · have h0 : ¬ (v &&& (2 ^ 1 - 1) <<< 63 = 0) := fun h => hlt (hiff.mp h)
      simp only [beq_iff_eq, h0, if_false, hlt]
  refine ⟨h4, hlo, hhi, heq, ?_⟩
  rw [heq]
  by_cases hlt : v < 2 ^ 63
  · rw [if_pos hlt]
    norm_num only at h3 hlt ⊢
    constructor <;> omega
  · rw [if_neg hlt]
    exact ⟨by omega, h4⟩

theorem Mul64Lossy_truncation_witness :
    Mul64LossySum (2 ^ 63) (2 ^ 63) < 2 ^ 64 ∧
      Mul64LossySum (2 ^ 63) (2 ^ 63) ≤ 2 ^ 63 * 2 ^ 63 / 2 ^ 64 ∧
      2 ^ 63 * 2 ^ 63 / 2 ^ 64 ≤ Mul64LossySum (2 ^ 63) (2 ^ 63) + 2 ∧
      Mul64Lossy (2 ^ 63) (2 ^ 63) 0 =
        (if Mul64LossySum (2 ^ 63) (2 ^ 63) < 2 ^ 63 then
          (2 * Mul64LossySum (2 ^ 63) (2 ^ 63), 0 - 1)
         else (Mul64LossySum (2 ^ 63) (2 ^ 63), 0)) ∧
      2 ^ 63 ≤ (Mul64Lossy (2 ^ 63) (2 ^ 63) 0).1 ∧ (Mul64Lossy (2 ^ 63) (2 ^ 63) 0).1 < 2 ^ 64 :=
  Mul64Lossy_truncation (2 ^ 63) (2 ^ 63) 0 (by norm_num) (by norm_num) (by norm_num)
    (by norm_num)

/-! ## The round & scale down step -/

/-- C27: for a normalised 64-bit mantissa (top bit set) the `round & scale
down` step of `NumberToDouble` yields `val / 2^11` rounded to the nearest
integer, a tie going to the even one; when that integer is `2^53` the mantissa
becomes `2^52` and the exponent is incremented by one, otherwise the exponent
is unchanged. The mantissa produced has exactly 53 bits. -/
theorem roundScaleDown_nearest_even (val : Nat) (exp : Int) (h63 : 2 ^ 63 ≤ val)
    (h64 : val < 2 ^ 64) :
    ∃ m : Nat,
      (∀ k : Nat,
        (2048 * (m : Int) - (val : Int)).natAbs ≤ (2048 * (k : Int) - (val : Int)).natAbs ∧
        ((2048 * (k : Int) - (val : Int)).natAbs = (2048 * (m : Int) - (val : Int)).natAbs →
          k ≠ m → m % 2 = 0)) ∧
      m = roundHalfEven11 val ∧ 2 ^ 52 ≤ m ∧ m ≤ 2 ^ 53 ∧
      roundScaleDown val exp = (if m = 2 ^ 53 then (2 ^ 52, exp + 1) else (m, exp)) ∧
      2 ^ 52 ≤ (roundScaleDown val exp).1 ∧ (roundScaleDown val exp).1 < 2 ^ 53 := by
  refine ⟨roundHalfEven11 val, ?_, rfl, (roundHalfEven11_range val h63 h64).1,
    (roundHalfEven11_range val h63 h64).2, roundScaleDown_eq val exp h63 h64, ?_⟩
  · intro k
    have h := roundHalfEven11_closest (val / 2048) (val % 2048) k (Nat.mod_lt _ (by decide))
    have hv : 2048 * (val / 2048) + val % 2048 = val := Nat.div_add_mod val 2048
    have hvi : (2048 * ((val / 2048 : Nat) : Int) + ((val % 2048 : Nat) : Int)) = (val : Int) := by
      exact_mod_cast hv
    rw [hv, hvi] at h
    exact ⟨h.1, h.2.1⟩
  · rw [roundScaleDown_eq val exp h63 h64]
    have hr := roundHalfEven11_range val h63 h64
    by_cases hm : roundHalfEven11 val = 2 ^ 53
    · rw [if_pos hm]; norm_num
    · rw [if_neg hm]
      exact ⟨hr.1, lt_of_le_of_ne hr.2 hm⟩

theorem roundScaleDown_nearest_even_witness :
    ∃ m : Nat,
      (∀ k : Nat,
        (2048 * (m : Int) - ((2 ^ 64 - 1 : Nat) : Int)).natAbs ≤
          (2048 * (k : Int) - ((2 ^ 64 - 1 : Nat) : Int)).natAbs ∧
        ((2048 * (k : Int) - ((2 ^ 64 - 1 : Nat) : Int)).natAbs =
            (2048 * (m : Int) - ((2 ^ 64 - 1 : Nat) : Int)).natAbs →
          k ≠ m → m % 2 = 0)) ∧
      m = roundHalfEven11 (2 ^ 64 - 1) ∧ 2 ^ 52 ≤ m ∧ m ≤ 2 ^ 53 ∧
      roundScaleDown (2 ^ 64 - 1) 7 = (if m = 2 ^ 53 then (2 ^ 52, 7 + 1) else (m, 7)) ∧
      2 ^ 52 ≤ (roundScaleDown (2 ^ 64 - 1) 7).1 ∧ (roundScaleDown (2 ^ 64 - 1) 7).1 < 2 ^ 53 :=
  roundScaleDown_nearest_even (2 ^ 64 - 1) 7 (by decide) (by decide)

/-! ## The final assembly -/

/-- C28 as stated fails: with biased exponent `e = -51` the shift amount
`1 - e` is 52, and the 53-bit mantissa `2^52` gives the smallest subnormal
(bit pattern 1), not zero. -/
theorem assembleDouble_shift_52_not_flushed :
    (1 : Int) - (-1073 + 0x3FE) = 52 ∧ assembleDouble (2 ^ 52) (-1073) = 1 := by
  decide

/-- C28 (amended): with `e` the biased exponent (binary exponent + `0x3FE`) and
a 53-bit mantissa (bit 52 set): if `e >= 0x7FF` the result is Infinity; if
`1 <= e <= 0x7FE` the result is `e * 2^52` plus the low 52 mantissa bits; if
`e <= 0` the mantissa is shifted right by `1 - e`, and the result is zero
exactly when that shift amount is at least 53. -/
theorem assembleDouble_cases (val : Nat) (exp0 : Int) (h52 : 2 ^ 52 ≤ val)
    (h53 : val < 2 ^ 53) :
    (0x7FF ≤ exp0 + 0x3FE → assembleDouble val exp0 = 0x7FF0000000000000) ∧
      (1 ≤ exp0 + 0x3FE → exp0 + 0x3FE ≤ 0x7FE →
        assembleDouble val exp0 = (exp0 + 0x3FE).toNat * 2 ^ 52 + val % 2 ^ 52) ∧
      (exp0 + 0x3FE ≤ 0 →
        assembleDouble val exp0 =
            (if 53 ≤ 1 - (exp0 + 0x3FE) then 0 else val / 2 ^ (1 - (exp0 + 0x3FE)).toNat) ∧
          (assembleDouble val exp0 = 0 ↔ 53 ≤ 1 - (exp0 + 0x3FE))) := by
  refine ⟨?_, ?_, ?_⟩
  · intro h
    unfold assembleDouble
    have h1 : ¬ (exp0 + 0x3FE ≤ 0) := by omega
    simp only [h1, if_false, ge_iff_le, h, if_true]
  · intro h1 h2
    rw [assembleDouble_normal val exp0 h52 h53 (by omega) (by omega)]
    norm_num only at h52 h53 ⊢
    omega
  · intro h
    have heq : assembleDouble val exp0 =
        (if 53 ≤ 1 - (exp0 + 0x3FE) then 0 else val / 2 ^ (1 - (exp0 + 0x3FE)).toNat) := by
      unfold assembleDouble
      simp only [h, if_true, Nat.shiftRight_eq_div_pow]
      by_cases hf : exp0 + 0x3FE ≤ -52
      · rw [if_pos hf, if_pos (by omega)]
      · rw [if_neg hf, if_neg (by omega)]
        have : (-(exp0 + 0x3FE) + 1).toNat = (1 - (exp0 + 0x3FE)).toNat := by
          congr 1; ring
        rw [this]
    refine ⟨heq, ?_⟩
    rw [heq]
    by_cases hf : 53 ≤ 1 - (exp0 + 0x3FE)
    · rw [if_pos hf]; exact ⟨fun _ => hf, fun _ => rfl⟩
    · rw [if_neg hf]
      constructor
      · intro h0
        exfalso
        obtain ⟨s, hs⟩ : ∃ s : Nat, (1 - (exp0 + 0x3FE)).toNat = s := ⟨_, rfl⟩
        have hs52 : s ≤ 52 := by omega
        rw [hs] at h0
        have hle : 2 ^ s ≤ val := le_trans (Nat.pow_le_pow_right (by decide) hs52) h52
        have hpos : 0 < val / 2 ^ s := Nat.div_pos hle (Nat.pow_pos (by decide))
        omega
      · intro h0; exact absurd h0 hf

theorem assembleDouble_cases_witness :
    (0x7FF ≤ (-1073 : Int) + 0x3FE → assembleDouble (2 ^ 52 + 1) (-1073) = 0x7FF0000000000000) ∧
      (1 ≤ (-1073 : Int) + 0x3FE → (-1073 : Int) + 0x3FE ≤ 0x7FE →
        assembleDouble (2 ^ 52 + 1) (-1073) =
          ((-1073 : Int) + 0x3FE).toNat * 2 ^ 52 + (2 ^ 52 + 1) % 2 ^ 52) ∧
      ((-1073 : Int) + 0x3FE ≤ 0 →
        assembleDouble (2 ^ 52 + 1) (-1073) =
            (if 53 ≤ 1 - ((-1073 : Int) + 0x3FE) then 0
             else (2 ^ 52 + 1) / 2 ^ (1 - ((-1073 : Int) + 0x3FE)).toNat) ∧
          (assembleDouble (2 ^ 52 + 1) (-1073) = 0 ↔ 53 ≤ 1 - ((-1073 : Int) + 0x3FE))) :=
  assembleDouble_cases (2 ^ 52 + 1) (-1073) (by decide) (by decide)

/-! ## The packed mantissa -/

/-- C29 as stated fails: of the 19 significant digits `1000000000000000001`
`NumberToDouble` packs the first 18 only (`10^17`, one digit left unread), not
the integer `10^18 + 1` written by the first `min(19, 19)` digits. -/
theorem packMantissa_19_digits_reads_18 :
    IsDecimal (49 :: List.replicate 17 48 ++ [49]) ∧
      skipLeadingZeros (49 :: List.replicate 17 48 ++ [49]) =
        49 :: List.replicate 17 48 ++ [49] ∧
      packMantissa (49 :: List.replicate 17 48 ++ [49]) = (10 ^ 17, 1) ∧
      digitsValue ((49 :: List.replicate 17 48 ++ [49]).take (min 19 19)) = 10 ^ 18 + 1 := by
  decide

/-- C29 (amended): for a digit sequence with `n >= 1` significant digits after
the leading zeros are stripped, the mantissa `NumberToDouble` packs equals the
integer written by the first `min(n, 18)` significant digits and leaves
`n - 18` digits unread; no 32-bit or 64-bit operation wraps (the unbounded sum
of the two groups is that integer, below `10^18`); and the factor read from
the table for a second group of `count` digits, `count` in `1..9`, is exactly
`10^count`. -/
theorem packMantissa_first_18_digits (digits : List Nat) (hdec : IsDecimal digits)
    (hne : skipLeadingZeros digits ≠ []) :
    packMantissa (skipLeadingZeros digits) =
        (digitsValue ((skipLeadingZeros digits).take (min (skipLeadingZeros digits).length 18)),
          (skipLeadingZeros digits).length - 18) ∧
      (packMantissa (skipLeadingZeros digits)).1 < 10 ^ 18 ∧
      (9 < (skipLeadingZeros digits).length →
        DigitsToInt (skipLeadingZeros digits) 9 *
            10 ^ (min ((skipLeadingZeros digits).length - 9) 9) +
          DigitsToInt ((skipLeadingZeros digits).drop 9)
            (min ((skipLeadingZeros digits).length - 9) 9) =
          digitsValue ((skipLeadingZeros digits).take
            (min (skipLeadingZeros digits).length 18))) ∧
      (∀ count : Nat, 1 ≤ count → count ≤ 9 →
        toUInt32 (tableAt rgval64Power10 ((count : Int) - 1) >>>
          (64 - tableAt rgexp64Power10 ((count : Int) - 1)).toNat) = 10 ^ count) := by
  have hsdec : IsDecimal (skipLeadingZeros digits) := skipLeadingZeros_isDecimal digits hdec
  generalize skipLeadingZeros digits = src at hne hsdec
  have hlen : 0 < src.length := List.length_pos.mpr hne
  have htk : src.take (min src.length 18) = src.take 18 := by
    by_cases h : src.length ≤ 18
    · rw [min_eq_left h, List.take_of_length_le (le_refl _), List.take_of_length_le h]
    · rw [min_eq_right (by omega)]
  have hval : digitsValue (src.take 18) < 10 ^ 18 := by
    have h := digitsValue_lt _ (hsdec.take 18)
    refine lt_of_lt_of_le h (Nat.pow_le_pow_right (by decide) ?_)
    simp only [List.length_take]; omega
  refine ⟨?_, ?_, ?_, fun count h1 h9 => power10_denormalized count h1 h9⟩
  · rw [htk]; exact packMantissa_eq src hsdec hne
  · rw [packMantissa_eq src hsdec hne]; exact hval
  · intro h9
    set c2 := min (src.length - 9) 9 with hc2
    have hc2a : 1 ≤ c2 := by omega
    have hc2b : c2 ≤ 9 := by omega
    rw [DigitsToInt_eq src 9 hsdec (by decide) (by decide) (by omega)]
    have hdropdec : IsDecimal (src.drop 9) := fun c hc => hsdec c (List.mem_of_mem_drop hc)
    rw [DigitsToInt_eq (src.drop 9) c2 hdropdec hc2a hc2b (by simp; omega)]
    have hl2 : ((src.drop 9).take c2).length = c2 := by simp; omega
    have htake : src.take 18 = src.take 9 ++ (src.drop 9).take c2 := by
      have h18 : src.take 18 = src.take (9 + c2) := by
        by_cases h : src.length - 9 ≤ 9
        · have : c2 = src.length - 9 := by omega
          rw [List.take_of_length_le (by omega), List.take_of_length_le (by omega)]
        · have : c2 = 9 := by omega
          rw [this]
      rw [h18, List.take_add]
    rw [htk, htake, digitsValue_append, hl2]

theorem packMantissa_first_18_digits_witness :
    packMantissa (skipLeadingZeros [48, 49, 50]) =
        (digitsValue ((skipLeadingZeros [48, 49, 50]).take
          (min (skipLeadingZeros [48, 49, 50]).length 18)),
          (skipLeadingZeros [48, 49, 50]).length - 18) ∧
      (packMantissa (skipLeadingZeros [48, 49, 50])).1 < 10 ^ 18 ∧
      (9 < (skipLeadingZeros [48, 49, 50]).length →
        DigitsToInt (skipLeadingZeros [48, 49, 50]) 9 *
            10 ^ (min ((skipLeadingZeros [48, 49, 50]).length - 9) 9) +
          DigitsToInt ((skipLeadingZeros [48, 49, 50]).drop 9)
            (min ((skipLeadingZeros [48, 49, 50]).length - 9) 9) =
          digitsValue ((skipLeadingZeros [48, 49, 50]).take
            (min (skipLeadingZeros [48, 49, 50]).length 18))) ∧
      (∀ count : Nat, 1 ≤ count → count ≤ 9 →
        toUInt32 (tableAt rgval64Power10 ((count : Int) - 1) >>>
          (64 - tableAt rgexp64Power10 ((count : Int) - 1)).toNat) = 10 ^ count) :=
  packMantissa_first_18_digits [48, 49, 50] (by decide) (by decide)

/-! ## The table self-check -/

/-- C24: the debug self-check `CheckTables` dumps nothing, so its assertions
never fire: the entries of `rgval64Power10` and `rgval64Power10By16` (the
power halves and the reciprocal halves) and of `rgexp64Power10` and
`rgexp64Power10By16` are the mantissas, respectively exponents, obtained from
the seeds `10`, `10^16`, `0.1`, `0.1^16` by repeated `Mul64Precise`
multiplication, entry number `i + 1` after `i` multiplications. -/
theorem CheckTables_never_fires :
    CheckTables = [[], [], [], [], [], []] ∧
      rgval64Power10.take 15 =
        (List.range 15).map (fun i => (seedPower 0xa000000000000000 4 i).1) ∧
      rgexp64Power10 = (List.range 15).map (fun i => (seedPower 0xa000000000000000 4 i).2) ∧
      rgval64Power10By16.take 21 =
        (List.range 21).map (fun i => (seedPower 0x8e1bc9bf04000000 54 i).1) ∧
      rgexp64Power10By16 =
        (List.range 21).map (fun i => (seedPower 0x8e1bc9bf04000000 54 i).2) ∧
      rgval64Power10.drop 15 =
        (List.range 15).map (fun i => (seedPower 0xCCCCCCCCCCCCCCCD (-3) i).1) ∧
      rgval64Power10By16.drop 21 =
        (List.range 21).map (fun i => (seedPower 0xe69594bec44de160 (-53) i).1) := by
  refine ⟨by decide!, by decide!, by decide!, by decide!, by decide!, by decide!, by decide!⟩

/-! ## Hexadecimal formatting -/

theorem hexNumeral_zero (upper : Bool) : hexNumeral upper 0 = [] := by
  simp [hexNumeral]

theorem hexNumeral_step (upper : Bool) (v : Nat) (hv : v ≠ 0) :
    hexNumeral upper v = hexNumeral upper (v / 16) ++ [hexDigit upper (v % 16)] := by
  unfold hexNumeral
  rw [Nat.digits_def' (by decide) (Nat.pos_of_ne_zero hv)]
  simp

theorem hexPadded_step (upper : Bool) (k v : Nat) (h : 1 ≤ k ∨ v ≠ 0) :
    hexPadded upper k v = hexPadded upper (k - 1) (v / 16) ++ [hexDigit upper (v % 16)] := by
  unfold hexPadded
  by_cases hv : v = 0
  · subst hv
    have hk : 1 ≤ k := by
      rcases h with h | h
      · exact h
      · exact absurd rfl h
    obtain ⟨j, rfl⟩ : ∃ j, k = j + 1 := ⟨k - 1, by omega⟩
    simp [hexNumeral_zero, List.replicate_succ', hexDigit]
  · rw [hexNumeral_step upper v hv]
    simp only [List.length_append, List.length_singleton, List.append_assoc]
    congr 2
    omega

theorem hexPadded_length (upper : Bool) (k v : Nat) :
    (hexPadded upper k v).length = max k (hexNumeral upper v).length := by
  unfold hexPadded
  simp
  omega

theorem hexNumeral_length_le (upper : Bool) (v k : Nat) (h : v < 16 ^ k) :
    (hexNumeral upper v).length ≤ k := by
  unfold hexNumeral
  simp only [List.length_map, List.length_reverse]
  by_cases hv : v = 0
  · subst hv; simp
  · have h1 := Nat.base_pow_length_digits_le 16 v (by decide) hv
    have h2 : 16 ^ (Nat.digits 16 v).length < 16 ^ (k + 1) := by
      rw [pow_succ]; omega
    have h3 := (Nat.pow_lt_pow_iff_right (by decide : 1 < 16)).mp h2
    omega

/-- The character `Int32ToHexChars` writes for the digit `d` with the
`hexBase` that `FormatInt32` passes for `'X'` (55) or `'x'` (87). -/
theorem hexChar_eq (upper : Bool) (d : Nat) (hd : d < 16) :
    intToWchar ((d : Int) + (if d < 10 then 48 else (if upper then 55 else 87))) =
      hexDigit upper d := by
  unfold intToWchar hexDigit
  cases upper <;> by_cases h : d < 10 <;> simp only [h, if_true, if_false, Bool.false_eq_true] <;>
    omega

/-- `Int32ToHexChars` prepends the base-16 numeral of `value`, zero padded to
`digits` characters, to the buffer content. -/
theorem Int32ToHexChars_eq (upper : Bool) (p : List Nat) (value : Nat) (digits : Int) :
    Int32ToHexChars p value (if upper then 55 else 87) digits =
      hexPadded upper digits.toNat value ++ p := by
  generalize hm : value + digits.toNat = m
  induction m using Nat.strong_induction_on generalizing p value digits with
  | _ m ih =>
    subst hm
    rw [Int32ToHexChars]
    have hand : value &&& 0xF = value % 16 := by
      have : (0xF : Nat) = 2 ^ 4 - 1 := by norm_num
      rw [this, Nat.and_pow_two_sub_one_eq_mod]
    have hshift : value >>> 4 = value / 16 := by
      rw [Nat.shiftRight_eq_div_pow]
    by_cases hc : digits - 1 ≥ 0 ∨ value ≠ 0
    · simp only [hc, if_true]
      rw [hand, hshift, hexChar_eq upper (value % 16) (Nat.mod_lt _ (by decide))]
      have hdec : value / 16 + (digits - 1).toNat < value + digits.toNat := by
        rcases Nat.eq_zero_or_pos value with hv | hv
        · subst hv
          rcases hc with hc | hc
          · simp only [Nat.zero_div]; omega
          · exact absurd rfl hc
        · have := Nat.div_lt_self hv (by decide : 1 < 16)
          omega
      rw [ih _ hdec _ _ _ rfl]
      have hk : 1 ≤ digits.toNat ∨ value ≠ 0 := by
        rcases hc with hc | hc
        · left; omega
        · right; exact hc
      rw [hexPadded_step upper digits.toNat value hk]
      have : (digits - 1).toNat = digits.toNat - 1 := by omega
      rw [this]
      simp
    · simp only [hc, if_false]
      have h1 : digits.toNat = 0 := by omega
      have h2 : value = 0 := by
        by_contra h0; exact hc (Or.inr h0)
      simp [h1, h2, hexPadded, hexNumeral_zero]

theorem hexNumeral_split (upper : Bool) (q r : Nat) (hq : 0 < q) (hr : r < 4294967296) :
    hexNumeral upper (q * 4294967296 + r) = hexNumeral upper q ++ hexPadded upper 8 r := by
  have hlen : (Nat.digits 16 r).length ≤ 8 := by
    have := hexNumeral_length_le upper r 8 (by norm_num; omega)
    simpa [hexNumeral] using this
  have key := Nat.digits_append_zeroes_append_digits (b := 16)
    (k := 8 - (Nat.digits 16 r).length) (m := q) (n := r) (by decide) hq
  have hexp : (Nat.digits 16 r).length + (8 - (Nat.digits 16 r).length) = 8 := by omega
  rw [hexp] at key
  have harg : r + 16 ^ 8 * q = q * 4294967296 + r := by norm_num; ring
  rw [harg] at key
  unfold hexPadded hexNumeral
  rw [← key]
  simp [List.map_append, List.reverse_append, List.map_replicate, hexDigit]

theorem hexPadded_split (upper : Bool) (k q r : Nat) (hq : 0 < q) (hr : r < 4294967296) :
    hexPadded upper k (q * 4294967296 + r) = hexPadded upper (k - 8) q ++ hexPadded upper 8 r := by
  have h8 : (hexPadded upper 8 r).length = 8 := by
    rw [hexPadded_length]
    have := hexNumeral_length_le upper r 8 (by norm_num; omega)
    omega
  unfold hexPadded at h8 ⊢
  rw [hexNumeral_split upper q r hq hr]
  unfold hexPadded
  rw [List.length_append, h8, List.append_assoc]
  congr 2
  omega

theorem Int32ToHexStr_eq (upper : Bool) (value : Nat) (digits : Int) (hv : value < 4294967296) :
    Int32ToHexStr value (if upper then 55 else 87) digits =
      hexPadded upper (max digits 1).toNat value := by
  unfold Int32ToHexStr toUInt32
  rw [Nat.mod_eq_of_lt hv]
  simp only
  rw [Int32ToHexChars_eq, List.append_nil]
  congr 1
  by_cases h : digits < 1
  · rw [if_pos h, max_eq_right (by omega)]
  · rw [if_neg h, max_eq_left (by omega)]

theorem Int64ToHexStr_eq (upper : Bool) (value : Nat) (digits : Int)
    (hv : value < 18446744073709551616) :
    Int64ToHexStr value (if upper then 55 else 87) digits =
      hexPadded upper (max digits 1).toNat value := by
  have hsplit : value = value / 4294967296 * 4294967296 + value % 4294967296 := by omega
  have hlo : LO32 value = value % 4294967296 := rfl
  have hhi : HI32 value = value / 4294967296 := by
    rw [HI32_eq, Nat.mod_eq_of_lt (by omega)]
  unfold Int64ToHexStr
  rw [hlo, hhi]
  by_cases h0 : value / 4294967296 ≠ 0
  · rw [if_pos h0]
    simp only
    have hlow : Int32ToHexChars [] (value % 4294967296) (if upper then 55 else 87) 8 =
        hexPadded upper 8 (value % 4294967296) := by
      rw [Int32ToHexChars_eq, List.append_nil]; rfl
    have h8 : (hexPadded upper 8 (value % 4294967296)).length = 8 := by
      rw [hexPadded_length]
      have := hexNumeral_length_le upper (value % 4294967296) 8 (by norm_num; omega)
      omega
    rw [hlow, h8, Nat.sub_self, List.drop_zero, Int32ToHexChars_eq]
    have hq : 0 < value / 4294967296 := Nat.pos_of_ne_zero h0
    have hqlt : value / 4294967296 < 4294967296 := by omega
    conv_rhs => rw [hsplit, hexPadded_split upper _ _ _ hq (Nat.mod_lt _ (by decide))]
    congr 1
    -- the padding widths give the same text: the high numeral is not empty
    have hne : 1 ≤ (hexNumeral upper (value / 4294967296)).length := by
      rw [hexNumeral_step upper _ h0]
      simp
    have hle : (hexNumeral upper (value / 4294967296)).length ≤ 8 :=
      hexNumeral_length_le upper _ 8 (by norm_num; omega)
    unfold hexPadded
    congr 2
    omega
  · rw [if_neg h0]
    have hz : value / 4294967296 = 0 := by
      by_contra h; exact h0 h
    have hlt : value < 4294967296 := by omega
    simp only
    rw [Int32ToHexChars_eq, List.append_nil, Nat.mod_eq_of_lt hlt]
    congr 1
    by_cases h : digits < 1
    · rw [if_pos h, max_eq_right (by omega)]
    · rw [if_neg h, max_eq_left (by omega)]

theorem Int64ToHexStr_low (value : Nat) (hexBase : Int) (digits : Int) (hv : value < 4294967296) :
    Int64ToHexStr value hexBase digits = Int32ToHexStr value hexBase digits := by
  have hhi : HI32 value = 0 := by
    rw [HI32_eq, Nat.mod_eq_of_lt (by omega), Nat.div_eq_of_lt hv]
  unfold Int64ToHexStr Int32ToHexStr
  rw [hhi]
  simp only [ne_eq, not_true_eq_false, if_false]
  rfl

theorem parsePrecisionLoop_le (s : List Nat) (n : Int) (p : Nat) (hn : n ≤ 9) :
    (parsePrecisionLoop s n p).1 ≤ 99 := by
  induction s generalizing n p with
  | nil => simp only [parsePrecisionLoop]; omega
  | cons c cs ih =>
    simp only [parsePrecisionLoop]
    by_cases hc : 48 ≤ c ∧ c ≤ 57
    · rw [if_pos hc]
      by_cases hb : n * 10 + (c : Int) - 48 ≥ 10
      · rw [if_pos hb]; simp only; omega
      · rw [if_neg hb]; exact ih _ _ (by omega)
    · rw [if_neg hc]; simp only; omega

/-- The precision `ParseFormatSpecifier` extracts is at most 99. -/
theorem ParseFormatSpecifier_digits_le (str : Option (List Nat)) (digits0 : Int)
    (h : (ParseFormatSpecifier str digits0).1 ≠ 0) :
    (ParseFormatSpecifier str digits0).2 ≤ 99 := by
  unfold ParseFormatSpecifier at h ⊢
  cases str with
  | none => simp
  | some s =>
    simp only at h ⊢
    by_cases h0 : wcharAt s 0 ≠ 0
    · rw [if_pos h0] at h ⊢
      by_cases hl : (65 ≤ wcharAt s 0 ∧ wcharAt s 0 ≤ 90) ∨ (97 ≤ wcharAt s 0 ∧ wcharAt s 0 ≤ 122)
      · rw [if_pos hl] at h ⊢
        by_cases hd : 48 ≤ wcharAt s 1 ∧ wcharAt s 1 ≤ 57
        · rw [if_pos hd] at h ⊢
          by_cases he : wcharAt s (parsePrecisionLoop (s.drop 2) ((wcharAt s 1 : Int) - 48) 2).2 = 0
          · rw [if_pos he]
            exact parsePrecisionLoop_le _ _ _ (by omega)
          · rw [if_neg he] at h; exact absurd rfl h
        · rw [if_neg hd] at h ⊢
          by_cases he : wcharAt s 1 = 0
          · simp only [he, if_true]; omega
          · simp only [he, if_false] at h; exact absurd rfl h
      · rw [if_neg hl] at h; exact absurd rfl h
    · rw [if_neg h0]; simp

/-- C25: for a value reinterpreted as unsigned and a requested width
`digits`, hexadecimal formatting emits the base-16 numeral of the value
left-padded with `'0'` to `max(digits, 1)` characters: `Int64ToHexStr` for
every 64-bit value, `Int32ToHexStr` for every 32-bit value, and `FormatInt32`
with the letter `'X'` (letters `A-F`) or `'x'` (letters `a-f`);
`Int64ToHexStr` and `Int32ToHexStr` agree on every value below `2^32`. The
width a format string can request is at most 99, and for widths up to 100 the
text fits the scratch buffer of 100 code units. -/
theorem hex_formatting (upper : Bool) (digits : Int) (value : Nat)
    (hv : value < 18446744073709551616) :
    Int64ToHexStr value (if upper then 55 else 87) digits =
        hexPadded upper (max digits 1).toNat value ∧
      (value < 4294967296 →
        Int32ToHexStr value (if upper then 55 else 87) digits =
            hexPadded upper (max digits 1).toNat value ∧
          ∀ hexBase : Int,
            Int64ToHexStr value hexBase digits = Int32ToHexStr value hexBase digits) ∧
      (∀ (v : Int) (format : Option (List Nat)) (numfmt : NumberFormatInfo) (digits0 : Int),
        ParseFormatSpecifier format digits0 = (if upper then 88 else 120, digits) →
        digits ≤ 99 ∧
          FormatInt32 v format (some numfmt) digits0 =
            .ok (hexPadded upper (max digits 1).toNat (int32ToUInt32 v))) ∧
      (digits ≤ 100 → (Int64ToHexStr value (if upper then 55 else 87) digits).length ≤ 100) := by
  refine ⟨Int64ToHexStr_eq upper value digits hv, ?_, ?_, ?_⟩
  · intro h32
    exact ⟨Int32ToHexStr_eq upper value digits h32,
      fun hexBase => Int64ToHexStr_low value hexBase digits h32⟩
  · intro v format numfmt digits0 hp
    have hle : digits ≤ 99 := by
      have := ParseFormatSpecifier_digits_le format digits0 (by rw [hp]; cases upper <;> simp)
      rw [hp] at this
      exact this
    refine ⟨hle, ?_⟩
    have h32 : int32ToUInt32 v < 4294967296 := by
      unfold int32ToUInt32; omega
    unfold FormatInt32
    simp only [hp]
    have hb : ((if upper then 88 else 120 : Nat) : Int) - (88 - 65 + 10) =
        (if upper then 55 else 87) := by
      cases upper <;> rfl
    have hval : (if upper then 88 else 120 : Nat) &&& 0xFFDF = 88 := by
      cases upper <;> rfl
    rw [hval, hb]
    simp only [show ¬ ((88 : Nat) = 71) by decide, false_and, if_false, false_or,
      show ¬ ((88 : Nat) = 68) by decide, if_true]
    rw [Int32ToHexStr_eq upper _ digits h32]
  · intro h100
    rw [Int64ToHexStr_eq upper value digits hv, hexPadded_length]
    have := hexNumeral_length_le upper value 16 (by norm_num; omega)
    omega

theorem hex_formatting_witness :
    Int64ToHexStr 48879 (if true then 55 else 87) 6 =
        hexPadded true (max (6 : Int) 1).toNat 48879 ∧
      (48879 < 4294967296 →
        Int32ToHexStr 48879 (if true then 55 else 87) 6 =
            hexPadded true (max (6 : Int) 1).toNat 48879 ∧
          ∀ hexBase : Int,
            Int64ToHexStr 48879 hexBase 6 = Int32ToHexStr 48879 hexBase 6) ∧
      (∀ (v : Int) (format : Option (List Nat)) (numfmt : NumberFormatInfo) (digits0 : Int),
        ParseFormatSpecifier format digits0 = (if true then 88 else 120, 6) →
        (6 : Int) ≤ 99 ∧
          FormatInt32 v format (some numfmt) digits0 =
            .ok (hexPadded true (max (6 : Int) 1).toNat (int32ToUInt32 v))) ∧
      ((6 : Int) ≤ 100 → (Int64ToHexStr 48879 (if true then 55 else 87) 6).length ≤ 100) :=
  hex_formatting true 6 48879 (by decide)

theorem hexPadded_examples :
    hexPadded true 4 255 = [48, 48, 70, 70] ∧ hexPadded false 1 4294967295 =
      [102, 102, 102, 102, 102, 102, 102, 102] ∧ hexPadded true 1 0 = [48] := by
  have h1 : Nat.digits 16 255 = [15, 15] := by norm_num
  have h2 : Nat.digits 16 4294967295 = [15, 15, 15, 15, 15, 15, 15, 15] := by norm_num
  have h3 : Nat.digits 16 0 = [] := by norm_num
  unfold hexPadded hexNumeral
  rw [h1, h2, h3]
  decide

/-- Examples: `255` at width 4 with upper-case letters is `00FF`; `0xFFFFFFFF`
without a width, with lower-case letters, is `ffffffff`; `0` is `0`. -/
theorem Int32ToHexStr_examples :
    Int32ToHexStr 255 55 4 = [48, 48, 70, 70] ∧
      Int32ToHexStr 4294967295 87 (-1) = [102, 102, 102, 102, 102, 102, 102, 102] ∧
      Int64ToHexStr 0 55 (-1) = [48] :=
  ⟨(Int32ToHexStr_eq true 255 4 (by decide)).trans hexPadded_examples.1,
    (Int32ToHexStr_eq false 4294967295 (-1) (by decide)).trans hexPadded_examples.2.1,
    (Int64ToHexStr_eq true 0 (-1) (by decide)).trans hexPadded_examples.2.2⟩

/-! ## Round-trip formatting: the choice between 15 and 17 digits -/

/-- On the buffer `DoubleToNumber` builds from 15 correctly rounded digits of a
finite double, the C comparison `dTest == value` holds exactly when the two
bit patterns are the same. -/
theorem doubleEq_iff_same_bits (ecvt : Nat → Int → EcvtResult) (v : Nat)
    (hv : IsFiniteDouble v) (h15 : IsCorrectlyRounded v 15 (ecvt v 15)) :
    doubleEq (NumberToDouble (DoubleToNumber ecvt v DOUBLE_PRECISION)) v = true ↔
      NumberToDouble (DoubleToNumber ecvt v DOUBLE_PRECISION) = v := by
  constructor
  · intro h
    by_cases hz : v % 2 ^ 63 = 0
    · have hn := DoubleToNumber_zero ecvt v 15 hv (by decide) hz h15
      have hn2 : DoubleToNumber ecvt v DOUBLE_PRECISION =
          ⟨(15 : Nat), (ecvt v (15 : Nat)).decpt, doubleSignBit v, []⟩ := hn
      rw [hn2, NumberToDouble_no_digits]
      exact applySign_zero v hv.1 hz
    · exact eq_of_doubleEq _ v hz h
  · intro h
    rw [h]
    exact doubleEq_self v hv

/-- C26: for every finite double `v` (with a correctly rounding digit
generator) round-trip formatting renders the 15-digit buffer with General
precision 15 exactly when `NumberToDouble` of that buffer has the same bit
pattern as `v`, and otherwise regenerates the buffer at 17 significant digits
and renders it with precision 17; the comparison `dTest == value` the code
makes agrees with the comparison of the bit patterns. -/
theorem FormatDouble_round_trip (ecvt : Nat → Int → EcvtResult) (v : Nat)
    (format : Option (List Nat)) (numfmt : NumberFormatInfo) (digits0 : Int)
    (hv : IsFiniteDouble v) (h15 : IsCorrectlyRounded v 15 (ecvt v 15))
    (hfmt : (ParseFormatSpecifier format digits0).1 &&& 0xFFDF = 82) :
    FormatDouble ecvt v format (some numfmt) digits0 =
        (if NumberToDouble (DoubleToNumber ecvt v 15) = v then
          NumberToString (DoubleToNumber ecvt v 15) 71 15 numfmt false
         else NumberToString (DoubleToNumber ecvt v 17) 71 17 numfmt false) ∧
      (doubleEq (NumberToDouble (DoubleToNumber ecvt v 15)) v = true ↔
        NumberToDouble (DoubleToNumber ecvt v 15) = v) ∧
      roundTripChoice ecvt v =
        some (if NumberToDouble (DoubleToNumber ecvt v 15) = v then
          (DoubleToNumber ecvt v 15, 15) else (DoubleToNumber ecvt v 17, 17)) := by
  have hiff := doubleEq_iff_same_bits ecvt v hv h15
  have hP : (DOUBLE_PRECISION : Int) = 15 := rfl
  rw [hP] at hiff
  have hscale : (DoubleToNumber ecvt v 15).scale = (ecvt v 15).decpt := by
    unfold DoubleToNumber
    rw [if_neg hv.2]
  have hsent := decpt_not_sentinel v 15 (ecvt v 15) hv (by decide) (by decide) h15
  have hs : (ecvt v (15 : Nat)).decpt = (ecvt v (15 : Int)).decpt := rfl
  have hnan : ¬ (DoubleToNumber ecvt v 15).scale = SCALE_NAN := by
    rw [hscale]; exact hsent.1
  have hinf : ¬ (DoubleToNumber ecvt v 15).scale = SCALE_INF := by
    rw [hscale]; exact hsent.2
  refine ⟨?_, hiff, ?_⟩
  · unfold FormatDouble
    simp only [hfmt, if_true, hP, hnan, hinf, if_false]
    by_cases he : NumberToDouble (DoubleToNumber ecvt v 15) = v
    · rw [if_pos (hiff.mpr he), if_pos he]
    · have : ¬ doubleEq (NumberToDouble (DoubleToNumber ecvt v 15)) v = true :=
        fun h => he (hiff.mp h)
      rw [if_neg this, if_neg he]
  · unfold roundTripChoice
    simp only [hP, hnan, hinf, if_false]
    by_cases he : NumberToDouble (DoubleToNumber ecvt v 15) = v
    · rw [if_pos (hiff.mpr he), if_pos he]
    · have : ¬ doubleEq (NumberToDouble (DoubleToNumber ecvt v 15)) v = true :=
        fun h => he (hiff.mp h)
      rw [if_neg this, if_neg he]

theorem FormatDouble_round_trip_witness :
    FormatDouble (fun _ p => ⟨List.replicate p.toNat 48, 0, false⟩) 0 (some [82])
        (some ⟨[3], [3], [3], [43], [45], [46], [44], [44], [46], [36], [44], [46], [37],
          [0x2030], [78, 97, 78], [73], [45, 73], 2, 2, 2, 1, 0, 0, 1, 1⟩) 0 =
        (if NumberToDouble (DoubleToNumber (fun _ p => ⟨List.replicate p.toNat 48, 0, false⟩)
            0 15) = 0 then
          NumberToString (DoubleToNumber (fun _ p => ⟨List.replicate p.toNat 48, 0, false⟩)
            0 15) 71 15
            ⟨[3], [3], [3], [43], [45], [46], [44], [44], [46], [36], [44], [46], [37],
              [0x2030], [78, 97, 78], [73], [45, 73], 2, 2, 2, 1, 0, 0, 1, 1⟩ false
         else NumberToString (DoubleToNumber (fun _ p => ⟨List.replicate p.toNat 48, 0, false⟩)
            0 17) 71 17
            ⟨[3], [3], [3], [43], [45], [46], [44], [44], [46], [36], [44], [46], [37],
              [0x2030], [78, 97, 78], [73], [45, 73], 2, 2, 2, 1, 0, 0, 1, 1⟩ false) ∧
      (doubleEq (NumberToDouble (DoubleToNumber
          (fun _ p => ⟨List.replicate p.toNat 48, 0, false⟩) 0 15)) 0 = true ↔
        NumberToDouble (DoubleToNumber
          (fun _ p => ⟨List.replicate p.toNat 48, 0, false⟩) 0 15) = 0) ∧
      roundTripChoice (fun _ p => ⟨List.replicate p.toNat 48, 0, false⟩) 0 =
        some (if NumberToDouble (DoubleToNumber
            (fun _ p => ⟨List.replicate p.toNat 48, 0, false⟩) 0 15) = 0 then
          (DoubleToNumber (fun _ p => ⟨List.replicate p.toNat 48, 0, false⟩) 0 15, 15)
          else (DoubleToNumber (fun _ p => ⟨List.replicate p.toNat 48, 0, false⟩) 0 17, 17)) :=
  FormatDouble_round_trip (fun _ p => ⟨List.replicate p.toNat 48, 0, false⟩) 0 (some [82])
    _ 0 ⟨by decide, by decide⟩ (by decide) (by decide)

/-! ## The capacity NumberToString computes -/

theorem tableAt_range (gd : List Int) (hg : ∀ g ∈ gd, 0 ≤ g ∧ g ≤ 2147483647) (i : Int) :
    0 ≤ tableAt gd i ∧ tableAt gd i ≤ 2147483647 := by
  unfold tableAt
  by_cases hi : i < 0
  · rw [if_pos hi]; decide
  · rw [if_neg hi]
    by_cases hlt : i.toNat < gd.length
    · rw [List.getD_eq_getElem _ _ hlt]
      exact hg _ (List.getElem_mem hlt)
    · rw [List.getD_eq_default _ _ (by omega)]; decide

/-- The sizing loop of `FormatFixed` raises nothing but the argument error. -/
theorem groupSizeLoop_error (gd : List Int) (digPos sl : Int) (fuel : Nat) :
    ∀ (idx : Nat) (count bsz : Int) (e : FormatError),
      groupSizeLoop gd digPos sl fuel idx count bsz = .error e →
      e = FormatError.argumentOutOfRange := by
  induction fuel with
  | zero => intro idx count bsz e h; simp [groupSizeLoop] at h
  | succ fuel ih =>
    intro idx count bsz e h
    unfold groupSizeLoop at h
    by_cases h1 : digPos > count
    · rw [if_pos h1] at h
      by_cases h2 : tableAt gd idx = 0
      · rw [if_pos h2] at h; cases h
      · rw [if_neg h2] at h
        dsimp only at h
        generalize (if (idx : Int) < (gd.length : Int) - 1 then idx + 1 else idx) = idx1 at h
        by_cases h3 : wrapInt32 (count + tableAt gd idx1) < 0 ∨ wrapInt32 (bsz + sl) < 0
        · rw [if_pos h3] at h; cases h; rfl
        · rw [if_neg h3] at h; exact ih _ _ _ _ h
    · rw [if_neg h1] at h; cases h

/-- The backward write loop writes one code unit per digit and at most one
separator before each digit but the first. -/
theorem groupWriteLoop_length_le (gd : List Int) (dig : List Nat) (digStart : Nat)
    (sGroup : List Nat) (n : Nat) :
    ∀ (written : List Nat) (idx : Nat) (gs dc : Int),
      (groupWriteLoop gd dig digStart sGroup n written idx gs dc).length ≤
        written.length + n + (n - 1) * sGroup.length := by
  induction n with
  | zero => intro written idx gs dc; simp [groupWriteLoop]
  | succ i ih =>
    intro written idx gs dc
    unfold groupWriteLoop
    dsimp only
    have hmul : i * sGroup.length = (i - 1) * sGroup.length + (if i = 0 then 0 else sGroup.length) := by
      rcases Nat.eq_zero_or_pos i with h | h
      · subst h; simp
      · obtain ⟨j, rfl⟩ : ∃ j, i = j + 1 := ⟨i - 1, by omega⟩
        simp [Nat.add_mul]
    have hsucc : i + 1 - 1 = i := by omega
    rw [hsucc, hmul]
    by_cases h1 : gs > 0
    · rw [if_pos h1]
      by_cases h2 : dc + 1 = gs ∧ i ≠ 0
      · rw [if_pos h2, if_neg h2.2]
        by_cases h3 : (idx : Int) < (gd.length : Int) - 1
        · rw [if_pos h3]
          refine le_trans (ih _ _ _ _) ?_
          simp only [List.length_append, List.length_cons]
          omega
        · rw [if_neg h3]
          refine le_trans (ih _ _ _ _) ?_
          simp only [List.length_append, List.length_cons]
          omega
      · rw [if_neg h2]
        refine le_trans (ih _ _ _ _) ?_
        simp only [List.length_cons]
        omega
    · rw [if_neg h1]
      refine le_trans (ih _ _ _ _) ?_
      simp only [List.length_cons]
      omega
theorem wrapInt32_add_nonneg (x y : Int) (hx0 : 0 ≤ x) (hx1 : x ≤ 2147483647) (hy0 : 0 ≤ y)
    (hy1 : y ≤ 2147483647) (h : ¬ wrapInt32 (x + y) < 0) : wrapInt32 (x + y) = x + y := by
  unfold wrapInt32 at h ⊢
  omega

/-- The backward write loop and the sizing loop of `FormatFixed` agree: the
write loop emits exactly the separators the sizing loop counted. -/
theorem groupWriteLoop_length_eq (gd : List Int) (hg : ∀ g ∈ gd, 0 ≤ g ∧ g ≤ 2147483647)
    (dig : List Nat) (digStart : Nat) (sGroup : List Nat) (hsl : sGroup.length ≤ 2147483647)
    (digPos : Int) (n : Nat) :
    ∀ (fuel : Nat) (written : List Nat) (idx : Nat) (count bsz dc c' b' : Int),
      n + 1 ≤ fuel → (n : Int) ≤ digPos → 0 ≤ count → count ≤ 2147483647 → 0 ≤ bsz →
      bsz ≤ 2147483647 →
      (tableAt gd idx = 0 ∨
        (0 ≤ dc ∧ dc < tableAt gd idx ∧ count = digPos - n + tableAt gd idx - dc)) →
      groupSizeLoop gd digPos sGroup.length fuel idx count bsz = .ok (c', b') →
      ((groupWriteLoop gd dig digStart sGroup n written idx (tableAt gd idx) dc).length : Int) =
        written.length + n + (b' - bsz) := by
  induction n with
  | zero =>
    intro fuel written idx count bsz dc c' b' hf hn hc0 hc1 hb0 hb1 hinv hsz
    obtain ⟨f, rfl⟩ : ∃ f, fuel = f + 1 := ⟨fuel - 1, by omega⟩
    unfold groupSizeLoop at hsz
    have hres : (Except.ok (count, bsz) : Except FormatError (Int × Int)) = .ok (c', b') := by
      by_cases h1 : digPos > count
      · rw [if_pos h1] at hsz
        rcases hinv with h0 | ⟨hd0, hd1, hcnt⟩
        · rw [if_pos h0] at hsz; exact hsz
        · exfalso
          simp only [Nat.cast_zero, sub_zero] at hcnt
          omega
      · rw [if_neg h1] at hsz; exact hsz
    have hb : bsz = b' := by
      injection hres with h
      exact (Prod.mk.inj h).2
    simp only [groupWriteLoop, Nat.cast_zero, add_zero]
    omega
  | succ i ih =>
    intro fuel written idx count bsz dc c' b' hf hn hc0 hc1 hb0 hb1 hinv hsz
    obtain ⟨f, rfl⟩ : ∃ f, fuel = f + 1 := ⟨fuel - 1, by omega⟩
    have hgr := tableAt_range gd hg idx
    have hi1 : ((i + 1 : Nat) : Int) = (i : Int) + 1 := by push_cast; rfl
    rw [hi1] at hn hinv
    unfold groupWriteLoop
    dsimp only
    generalize (if i < digStart then wcharAt dig i else 48) = ch
    by_cases h1 : tableAt gd idx > 0
    · rw [if_pos h1]
      have hinv2 : 0 ≤ dc ∧ dc < tableAt gd idx ∧
          count = digPos - ((i : Int) + 1) + tableAt gd idx - dc := by
        rcases hinv with h0 | h
        · omega
        · exact h
      by_cases h2 : dc + 1 = tableAt gd idx ∧ i ≠ 0
      · rw [if_pos h2]
        unfold groupSizeLoop at hsz
        have hgt : digPos > count := by omega
        have hne0 : ¬ tableAt gd idx = 0 := by omega
        rw [if_pos hgt, if_neg hne0] at hsz
        dsimp only at hsz
        by_cases h3 : (idx : Int) < (gd.length : Int) - 1
        · rw [if_pos h3] at hsz ⊢
          have hcast : ((idx + 1 : Nat) : Int) = (idx : Int) + 1 := by push_cast; rfl
          have hgr1 := tableAt_range gd hg ((idx : Int) + 1)
          rw [hcast] at hsz
          by_cases herr : wrapInt32 (count + tableAt gd ((idx : Int) + 1)) < 0 ∨
              wrapInt32 (bsz + (sGroup.length : Int)) < 0
          · rw [if_pos herr] at hsz; cases hsz
          · rw [if_neg herr] at hsz
            have hw1 := wrapInt32_add_nonneg count _ hc0 hc1 hgr1.1 hgr1.2 (fun h => herr (Or.inl h))
            have hw2 := wrapInt32_add_nonneg bsz (sGroup.length : Int) hb0 hb1 (by omega) (by omega)
              (fun h => herr (Or.inr h))
            have hr1 : wrapInt32 (count + tableAt gd ((idx : Int) + 1)) ≤ 2147483647 := by
              unfold wrapInt32; omega
            have hr2 : wrapInt32 (bsz + (sGroup.length : Int)) ≤ 2147483647 := by
              unfold wrapInt32; omega
            have hih := ih f (sGroup ++ ch :: written) (idx + 1) _ _ 0 c' b' (by omega) (by omega)
              (by omega) hr1 (by omega) hr2
              (by
                rw [hcast, hw1]
                by_cases hz : tableAt gd ((idx : Int) + 1) = 0
                · left; exact hz
                · right; omega) hsz
            rw [hcast, hw2] at hih
            rw [hih]
            simp only [List.length_append, List.length_cons]
            push_cast
            omega
        · rw [if_neg h3] at hsz ⊢
          by_cases herr : wrapInt32 (count + tableAt gd (idx : Int)) < 0 ∨
              wrapInt32 (bsz + (sGroup.length : Int)) < 0
          · rw [if_pos herr] at hsz; cases hsz
          · rw [if_neg herr] at hsz
            have hw1 := wrapInt32_add_nonneg count _ hc0 hc1 hgr.1 hgr.2 (fun h => herr (Or.inl h))
            have hw2 := wrapInt32_add_nonneg bsz (sGroup.length : Int) hb0 hb1 (by omega) (by omega)
              (fun h => herr (Or.inr h))
            have hr1 : wrapInt32 (count + tableAt gd (idx : Int)) ≤ 2147483647 := by
              unfold wrapInt32; omega
            have hr2 : wrapInt32 (bsz + (sGroup.length : Int)) ≤ 2147483647 := by
              unfold wrapInt32; omega
            have hih := ih f (sGroup ++ ch :: written) idx _ _ 0 c' b' (by omega) (by omega)
              (by omega) hr1 (by omega) hr2
              (by
                rw [hw1]
                right; omega) hsz
            rw [hw2] at hih
            rw [hih]
            simp only [List.length_append, List.length_cons]
            push_cast
            omega
      · rw [if_neg h2]
        by_cases h4 : dc + 1 = tableAt gd idx
        · have hi0 : i = 0 := by
            by_contra h; exact h2 ⟨h4, h⟩
          subst hi0
          unfold groupSizeLoop at hsz
          have hngt : ¬ digPos > count := by
            simp only [Nat.cast_zero, zero_add] at hinv2
            omega
          rw [if_neg hngt] at hsz
          have hb : bsz = b' := by
            injection hsz with h
            exact (Prod.mk.inj h).2
          simp only [groupWriteLoop, List.length_cons]
          push_cast
          omega
        · have hih := ih (f + 1) (ch :: written) idx count bsz (dc + 1) c' b' (by omega) (by omega)
            hc0 hc1 hb0 hb1 (Or.inr (by omega)) hsz
          rw [hih]
          simp only [List.length_cons]
          push_cast
          omega
    · rw [if_neg h1]
      have hz : tableAt gd idx = 0 := by omega
      have hih := ih (f + 1) (ch :: written) idx count bsz dc c' b' (by omega) (by omega)
        hc0 hc1 hb0 hb1 (Or.inl hz) hsz
      rw [hih]
      simp only [List.length_cons]
      push_cast
      omega

/-- The running group-size total of the sizing loop never decreases. -/
theorem groupSizeLoop_count_le (gd : List Int) (hg : ∀ g ∈ gd, 0 ≤ g ∧ g ≤ 2147483647)
    (digPos sl : Int) (fuel : Nat) :
    ∀ (idx : Nat) (count bsz c' b' : Int), 0 ≤ count → count ≤ 2147483647 →
      groupSizeLoop gd digPos sl fuel idx count bsz = .ok (c', b') → count ≤ c' := by
  induction fuel with
  | zero =>
    intro idx count bsz c' b' _ _ h
    simp only [groupSizeLoop] at h
    injection h with h
    have := (Prod.mk.inj h).1
    omega
  | succ fuel ih =>
    intro idx count bsz c' b' hc0 hc1 h
    unfold groupSizeLoop at h
    by_cases h1 : digPos > count
    · rw [if_pos h1] at h
      by_cases h2 : tableAt gd idx = 0
      · rw [if_pos h2] at h
        injection h with h
        have := (Prod.mk.inj h).1
        omega
      · rw [if_neg h2] at h
        dsimp only at h
        generalize (if (idx : Int) < (gd.length : Int) - 1 then idx + 1 else idx) = idx1 at h
        have hgr := tableAt_range gd hg idx1
        by_cases h3 : wrapInt32 (count + tableAt gd idx1) < 0 ∨ wrapInt32 (bsz + sl) < 0
        · rw [if_pos h3] at h; cases h
        · rw [if_neg h3] at h
          have hw := wrapInt32_add_nonneg count _ hc0 hc1 hgr.1 hgr.2 (fun x => h3 (Or.inl x))
          have hr : wrapInt32 (count + tableAt gd idx1) ≤ 2147483647 := by
            unfold wrapInt32; omega
          have := ih _ _ _ _ _ (by omega) hr h
          omega
    · rw [if_neg h1] at h
      injection h with h
      have := (Prod.mk.inj h).1
      omega

/-- The grouped integer part of `FormatFixed`: the underflow check never
fires, the only exception is the argument error of the sizing loop, and the
text has one code unit per digit and at most one separator between two
digits. -/
theorem formatFixedGrouped_length (buffer : List Nat) (number : NUMBER) (gd : List Int)
    (sGroup : List Nat) (hg : ∀ g ∈ gd, 0 ≤ g ∧ g ≤ 2147483647)
    (hsl : sGroup.length ≤ 2147483647) (hpos : 0 < number.scale)
    (hsc : number.scale ≤ 2147483647) :
    (∀ e, formatFixedGrouped buffer number gd sGroup = .error e →
        e = FormatError.argumentOutOfRange) ∧
      ∀ r, formatFixedGrouped buffer number gd sGroup = .ok r →
        r.1.length ≤ buffer.length + number.scale.toNat +
          (number.scale.toNat - 1) * sGroup.length := by
  have hn : ((number.scale.toNat : Nat) : Int) = number.scale := Int.toNat_of_nonneg (by omega)
  have hg0 := tableAt_range gd hg ((0 : Nat) : Int)
  have hle := groupWriteLoop_length_le gd number.digits
    (min number.scale.toNat (cstr number.digits).length) sGroup number.scale.toNat [] 0
  -- the sized region and the written text, for any outcome of the sizing loop
  have key : ∀ (c' b' : Int),
      groupSizeLoop gd number.scale (sGroup.length : Int) (gd.length + number.scale.toNat + 2) 0
        (tableAt gd ((0 : Nat) : Int)) number.scale = .ok (c', b') →
      ((groupWriteLoop gd number.digits (min number.scale.toNat (cstr number.digits).length)
        sGroup number.scale.toNat [] 0 (tableAt gd ((0 : Nat) : Int)) 0).length : Int) = b' ∧
        (c' = 0 → tableAt gd ((0 : Nat) : Int) = 0) := by
    intro c' b' hsz
    have h := groupWriteLoop_length_eq gd hg number.digits
      (min number.scale.toNat (cstr number.digits).length) sGroup hsl number.scale
      number.scale.toNat (gd.length + number.scale.toNat + 2) [] 0 _ _ 0 c' b' (by omega)
      (by omega) hg0.1 hg0.2 (by omega) hsc
      (by
        by_cases hz : tableAt gd ((0 : Nat) : Int) = 0
        · left; exact hz
        · right; omega) hsz
    have hc := groupSizeLoop_count_le gd hg number.scale _ _ _ _ _ _ _ hg0.1 hg0.2 hsz
    refine ⟨?_, fun h0 => by omega⟩
    rw [h]
    simp only [List.length_nil, Nat.cast_zero]
    omega
  unfold formatFixedGrouped
  dsimp only
  simp only [Nat.cast_zero] at key hg0
  by_cases hlen : gd.length ≠ 0
  · simp only [hlen, ne_eq, not_false_eq_true, if_true]
    cases hs : groupSizeLoop gd number.scale (sGroup.length : Int)
        (gd.length + number.scale.toNat + 2) 0 (tableAt gd 0) number.scale with
    | error e =>
      refine ⟨fun e' h => ?_, fun r h => by cases h⟩
      injection h with h
      rw [← h]
      exact groupSizeLoop_error _ _ _ _ _ _ _ _ hs
    | ok p =>
      obtain ⟨c', b'⟩ := p
      obtain ⟨hk1, hk2⟩ := key c' b' hs
      have hgs : (if c' = 0 then 0 else tableAt gd 0) = tableAt gd 0 := by
        by_cases h0 : c' = 0
        · rw [if_pos h0, hk2 h0]
        · rw [if_neg h0]
      simp only [hgs]
      have hnot : ¬ ((groupWriteLoop gd number.digits
          (min number.scale.toNat (cstr number.digits).length) sGroup number.scale.toNat [] 0
          (tableAt gd 0) 0).length : Int) > b' := by omega
      rw [if_neg hnot]
      refine ⟨fun e h => (by cases h), fun r h => ?_⟩
      injection h with h
      rw [← h]
      simp only [List.length_append, List.length_replicate]
      have hle2 := hle (tableAt gd 0) 0
      simp only [List.length_nil, Nat.zero_add] at hle2
      omega
  · have hnil : gd = [] := by
      have : gd.length = 0 := by
        by_contra h; exact hlen h
      exact List.length_eq_zero.mp this
    subst hnil
    simp only [List.length_nil, ne_eq, not_true_eq_false, if_false]
    have ht : tableAt ([] : List Int) 0 = 0 := rfl
    have hk := key 0 number.scale (by
      rw [ht]
      unfold groupSizeLoop
      simp only [List.length_nil, Nat.zero_add]
      rw [if_pos (show number.scale > 0 from hpos)]
      have : tableAt ([] : List Int) ((0 : Nat) : Int) = 0 := rfl
      rw [if_pos this])
    rw [ht] at hk
    have hnot : ¬ ((groupWriteLoop [] number.digits
        (min number.scale.toNat (cstr number.digits).length) sGroup number.scale.toNat [] 0
        0 0).length : Int) > number.scale := by omega
    try simp only [ht]
    rw [if_neg hnot]
    refine ⟨fun e h => (by cases h), fun r h => ?_⟩
    injection h with h
    rw [← h]
    simp only [List.length_append, List.length_replicate]
    have hle2 := hle 0 0
    simp only [List.length_nil, Nat.zero_add] at hle2
    omega

/-- The length of the text `FormatFixed` appends: the integer digits with
their separators, then the decimal separator and `digits` fraction digits. It
raises nothing but the argument error of the sizing loop. -/
theorem FormatFixed_length (buffer : List Nat) (number : NUMBER) (digits : Int)
    (groupDigits : Option (List Int)) (sDecimal sGroup : List Nat)
    (hg : ∀ gd, groupDigits = some gd → ∀ g ∈ gd, 0 ≤ g ∧ g ≤ 2147483647)
    (hsl : sGroup.length ≤ 2147483647) (hsc : number.scale ≤ 2147483647) :
    (∀ e, FormatFixed buffer number digits groupDigits sDecimal sGroup = .error e →
        e = FormatError.argumentOutOfRange) ∧
      ∀ dst, FormatFixed buffer number digits groupDigits sDecimal sGroup = .ok dst →
        dst.length ≤ buffer.length + max 1 number.scale.toNat +
          (number.scale.toNat - 1) * sGroup.length +
          (if digits > 0 then sDecimal.length + digits.toNat else 0) := by
  have tail : ∀ (b : List Nat) (dig : List Nat) (digPos : Int),
      ∃ dst, (if digits > 0 then
          (Except.ok (copyDigits (digits.toNat - min (-digPos).toNat digits.toNat)
            (b ++ sDecimal ++ List.replicate (min (-digPos).toNat digits.toNat) 48) dig).1 :
            Except FormatError (List Nat))
        else .ok b) = .ok dst ∧
        dst.length = b.length + (if digits > 0 then sDecimal.length + digits.toNat else 0) := by
    intro b dig digPos
    by_cases hd : digits > 0
    · rw [if_pos hd, if_pos hd]
      refine ⟨_, rfl, ?_⟩
      rw [copyDigits_length]
      simp only [List.length_append, List.length_replicate]
      omega
    · rw [if_neg hd, if_neg hd]
      exact ⟨b, rfl, by omega⟩
  unfold FormatFixed
  dsimp only
  by_cases hs : number.scale > 0
  · rw [if_pos hs]
    cases groupDigits with
    | none =>
      dsimp only
      obtain ⟨dst, h1, h2⟩ := tail (copyDigits number.scale.toNat buffer number.digits).1
        (copyDigits number.scale.toNat buffer number.digits).2 0
      rw [h1]
      refine ⟨fun e h => (by cases h), fun r h => ?_⟩
      injection h with h
      rw [← h, h2, copyDigits_length]
      have : 0 ≤ (number.scale.toNat - 1) * sGroup.length := Nat.zero_le _
      omega
    | some gd =>
      dsimp only
      obtain ⟨hE, hL⟩ := formatFixedGrouped_length buffer number gd sGroup (hg gd rfl) hsl hs hsc
      cases hff : formatFixedGrouped buffer number gd sGroup with
      | error e =>
        dsimp only
        refine ⟨fun e' h => ?_, fun r h => (by cases h)⟩
        injection h with h
        rw [← h]
        exact hE e hff
      | ok r =>
        dsimp only
        obtain ⟨dst, h1, h2⟩ := tail r.1 r.2 number.scale
        rw [h1]
        refine ⟨fun e h => (by cases h), fun r' h => ?_⟩
        injection h with h
        rw [← h, h2]
        have := hL r hff
        omega
  · rw [if_neg hs]
    dsimp only
    obtain ⟨dst, h1, h2⟩ := tail (buffer ++ [48]) number.digits number.scale
    rw [h1]
    refine ⟨fun e h => (by cases h), fun r h => ?_⟩
    injection h with h
    rw [← h, h2]
    simp only [List.length_append, List.length_singleton]
    have : 0 ≤ (number.scale.toNat - 1) * sGroup.length := Nat.zero_le _
    omega

theorem count_cons_mul (t : List Nat) (ch a : Nat) (L : Nat) :
    (ch :: t).count a * L = t.count a * L + (if ch = a then L else 0) := by
  rw [List.count_cons]
  by_cases h : ch = a
  · subst h
    simp [Nat.add_mul]
  · have : (ch == a) = false := by simpa using h
    simp [this, h]

/-- The template loop of `FormatNumber`: each `#` adds the fixed-point text,
each `-` the negative sign, every other code unit itself. -/
theorem FormatNumberLoop_length (number : NUMBER) (digits : Int) (numfmt : NumberFormatInfo)
    (F : Nat)
    (hF : ∀ buffer,
      (∀ e, FormatFixed buffer number digits (some numfmt.cNumberGroup) numfmt.sNumberDecimal
          numfmt.sNumberGroup = .error e → e = FormatError.argumentOutOfRange) ∧
      ∀ dst, FormatFixed buffer number digits (some numfmt.cNumberGroup) numfmt.sNumberDecimal
          numfmt.sNumberGroup = .ok dst → dst.length ≤ buffer.length + F)
    (tmpl : List Nat) :
    ∀ buffer,
      (∀ e, FormatNumberLoop number digits numfmt tmpl buffer = .error e →
        e = FormatError.argumentOutOfRange) ∧
      ∀ dst, FormatNumberLoop number digits numfmt tmpl buffer = .ok dst →
        dst.length ≤ buffer.length + tmpl.count 35 * F +
          tmpl.count 45 * numfmt.sNegative.length + tmpl.length := by
  induction tmpl with
  | nil =>
    intro buffer
    refine ⟨fun e h => (by simp [FormatNumberLoop] at h), fun dst h => ?_⟩
    simp only [FormatNumberLoop] at h
    injection h with h
    rw [← h]; omega
  | cons ch t ih =>
    intro buffer
    rw [count_cons_mul, count_cons_mul, List.length_cons]
    unfold FormatNumberLoop
    by_cases h0 : ch = 0
    · rw [if_pos h0]
      refine ⟨fun e h => (by cases h), fun dst h => ?_⟩
      injection h with h
      rw [← h]; omega
    · rw [if_neg h0]
      by_cases h35 : ch = 35
      · rw [if_pos h35]
        have h45 : ¬ ch = 45 := by omega
        rw [if_pos h35, if_neg h45]
        obtain ⟨hE, hL⟩ := hF buffer
        cases hff : FormatFixed buffer number digits (some numfmt.cNumberGroup)
            numfmt.sNumberDecimal numfmt.sNumberGroup with
        | error e =>
          dsimp only
          refine ⟨fun e' h => ?_, fun r h => (by cases h)⟩
          injection h with h
          rw [← h]
          exact hE e hff
        | ok b =>
          dsimp only
          have hb := hL b hff
          refine ⟨(ih b).1, fun dst h => ?_⟩
          have := (ih b).2 dst h
          omega
      · rw [if_neg h35, if_neg h35]
        by_cases h45 : ch = 45
        · rw [if_pos h45, if_pos h45]
          refine ⟨(ih _).1, fun dst h => ?_⟩
          have := (ih _).2 dst h
          simp only [List.length_append] at this
          omega
        · rw [if_neg h45, if_neg h45]
          refine ⟨(ih _).1, fun dst h => ?_⟩
          have := (ih _).2 dst h
          simp only [List.length_append, List.length_singleton] at this
          omega

/-- The template loop of `FormatCurrency`: as for `FormatNumber`, and each `$`
adds the currency symbol. -/
theorem FormatCurrencyLoop_length (number : NUMBER) (digits : Int) (numfmt : NumberFormatInfo)
    (F : Nat)
    (hF : ∀ buffer,
      (∀ e, FormatFixed buffer number digits (some numfmt.cCurrencyGroup)
          numfmt.sCurrencyDecimal numfmt.sCurrencyGroup = .error e →
          e = FormatError.argumentOutOfRange) ∧
      ∀ dst, FormatFixed buffer number digits (some numfmt.cCurrencyGroup)
          numfmt.sCurrencyDecimal numfmt.sCurrencyGroup = .ok dst →
          dst.length ≤ buffer.length + F)
    (tmpl : List Nat) :
    ∀ buffer,
      (∀ e, FormatCurrencyLoop number digits numfmt tmpl buffer = .error e →
        e = FormatError.argumentOutOfRange) ∧
      ∀ dst, FormatCurrencyLoop number digits numfmt tmpl buffer = .ok dst →
        dst.length ≤ buffer.length + tmpl.count 35 * F +
          tmpl.count 45 * numfmt.sNegative.length +
          tmpl.count 36 * numfmt.sCurrency.length + tmpl.length := by
  induction tmpl with
  | nil =>
    intro buffer
    refine ⟨fun e h => (by simp [FormatCurrencyLoop] at h), fun dst h => ?_⟩
    simp only [FormatCurrencyLoop] at h
    injection h with h
    rw [← h]; omega
  | cons ch t ih =>
    intro buffer
    rw [count_cons_mul, count_cons_mul, count_cons_mul, List.length_cons]
    unfold FormatCurrencyLoop
    by_cases h0 : ch = 0
    · rw [if_pos h0]
      refine ⟨fun e h => (by cases h), fun dst h => ?_⟩
      injection h with h
      rw [← h]; omega
    · rw [if_neg h0]
      by_cases h35 : ch = 35
      · rw [if_pos h35]
        have h45 : ¬ ch = 45 := by omega
        have h36 : ¬ ch = 36 := by omega
        rw [if_pos h35, if_neg h45, if_neg h36]
        obtain ⟨hE, hL⟩ := hF buffer
        cases hff : FormatFixed buffer number digits (some numfmt.cCurrencyGroup)
            numfmt.sCurrencyDecimal numfmt.sCurrencyGroup with
        | error e =>
          dsimp only
          refine ⟨fun e' h => ?_, fun r h => (by cases h)⟩
          injection h with h
          rw [← h]
          exact hE e hff
        | ok b =>
          dsimp only
          have hb := hL b hff
          refine ⟨(ih b).1, fun dst h => ?_⟩
          have := (ih b).2 dst h
          omega
      · rw [if_neg h35, if_neg h35]
        by_cases h45 : ch = 45
        · have h36 : ¬ ch = 36 := by omega
          rw [if_pos h45, if_pos h45, if_neg h36]
          refine ⟨(ih _).1, fun dst h => ?_⟩
          have := (ih _).2 dst h
          simp only [List.length_append] at this
          omega
        · rw [if_neg h45, if_neg h45]
          by_cases h36 : ch = 36
          · rw [if_pos h36, if_pos h36]
            refine ⟨(ih _).1, fun dst h => ?_⟩
            have := (ih _).2 dst h
            simp only [List.length_append] at this
            omega
          · rw [if_neg h36, if_neg h36]
            refine ⟨(ih _).1, fun dst h => ?_⟩
            have := (ih _).2 dst h
            simp only [List.length_append, List.length_singleton] at this
            omega

/-- The template loop of `FormatPercent`: as for `FormatNumber`, and each `%`
adds the percent symbol. -/
theorem FormatPercentLoop_length (number : NUMBER) (digits : Int) (numfmt : NumberFormatInfo)
    (F : Nat)
    (hF : ∀ buffer,
      (∀ e, FormatFixed buffer number digits (some numfmt.cPercentGroup)
          numfmt.sPercentDecimal numfmt.sPercentGroup = .error e →
          e = FormatError.argumentOutOfRange) ∧
      ∀ dst, FormatFixed buffer number digits (some numfmt.cPercentGroup)
          numfmt.sPercentDecimal numfmt.sPercentGroup = .ok dst →
          dst.length ≤ buffer.length + F)
    (tmpl : List Nat) :
    ∀ buffer,
      (∀ e, FormatPercentLoop number digits numfmt tmpl buffer = .error e →
        e = FormatError.argumentOutOfRange) ∧
      ∀ dst, FormatPercentLoop number digits numfmt tmpl buffer = .ok dst →
        dst.length ≤ buffer.length + tmpl.count 35 * F +
          tmpl.count 45 * numfmt.sNegative.length +
          tmpl.count 37 * numfmt.sPercent.length + tmpl.length := by
  induction tmpl with
  | nil =>
    intro buffer
    refine ⟨fun e h => (by simp [FormatPercentLoop] at h), fun dst h => ?_⟩
    simp only [FormatPercentLoop] at h
    injection h with h
    rw [← h]; omega
  | cons ch t ih =>
    intro buffer
    rw [count_cons_mul, count_cons_mul, count_cons_mul, List.length_cons]
    unfold FormatPercentLoop
    by_cases h0 : ch = 0
    · rw [if_pos h0]
      refine ⟨fun e h => (by cases h), fun dst h => ?_⟩
      injection h with h
      rw [← h]; omega
    · rw [if_neg h0]
      by_cases h35 : ch = 35
      · rw [if_pos h35]
        have h45 : ¬ ch = 45 := by omega
        have h37 : ¬ ch = 37 := by omega
        rw [if_pos h35, if_neg h45, if_neg h37]
        obtain ⟨hE, hL⟩ := hF buffer
        cases hff : FormatFixed buffer number digits (some numfmt.cPercentGroup)
            numfmt.sPercentDecimal numfmt.sPercentGroup with
        | error e =>
          dsimp only
          refine ⟨fun e' h => ?_, fun r h => (by cases h)⟩
          injection h with h
          rw [← h]
          exact hE e hff
        | ok b =>
          dsimp only
          have hb := hL b hff
          refine ⟨(ih b).1, fun dst h => ?_⟩
          have := (ih b).2 dst h
          omega
      · rw [if_neg h35, if_neg h35]
        by_cases h45 : ch = 45
        · have h37 : ¬ ch = 37 := by omega
          rw [if_pos h45, if_pos h45, if_neg h37]
          refine ⟨(ih _).1, fun dst h => ?_⟩
          have := (ih _).2 dst h
          simp only [List.length_append] at this
          omega
        · rw [if_neg h45, if_neg h45]
          by_cases h37 : ch = 37
          · rw [if_pos h37, if_pos h37]
            refine ⟨(ih _).1, fun dst h => ?_⟩
            have := (ih _).2 dst h
            simp only [List.length_append] at this
            omega
          · rw [if_neg h37, if_neg h37]
            refine ⟨(ih _).1, fun dst h => ?_⟩
            have := (ih _).2 dst h
            simp only [List.length_append, List.length_singleton] at this
            omega

/-- Every template of the five tables holds at most one `#`, one `-` and one
symbol, and at most five code units; a read outside a table is the empty
template. -/
theorem templateAt_shape (templates : List (List Nat))
    (h : ∀ t ∈ templates, t.count 35 ≤ 1 ∧ t.count 45 ≤ 1 ∧ t.count 36 ≤ 1 ∧ t.count 37 ≤ 1 ∧
      t.length ≤ 5) (i : Int) :
    (templateAt templates i).count 35 ≤ 1 ∧ (templateAt templates i).count 45 ≤ 1 ∧
      (templateAt templates i).count 36 ≤ 1 ∧ (templateAt templates i).count 37 ≤ 1 ∧
      (templateAt templates i).length ≤ 5 := by
  unfold templateAt
  by_cases hi : i < 0
  · rw [if_pos hi]; decide
  · rw [if_neg hi]
    by_cases hlt : i.toNat < templates.length
    · rw [List.getD_eq_getElem _ _ hlt]
      exact h _ (List.getElem_mem hlt)
    · rw [List.getD_eq_default _ _ (by omega)]; decide

theorem templates_shape :
    (∀ t ∈ negNumberFormats, t.count 35 ≤ 1 ∧ t.count 45 ≤ 1 ∧ t.count 36 ≤ 1 ∧
      t.count 37 ≤ 1 ∧ t.length ≤ 5) ∧
    (∀ t ∈ posCurrencyFormats, t.count 35 ≤ 1 ∧ t.count 45 ≤ 1 ∧ t.count 36 ≤ 1 ∧
      t.count 37 ≤ 1 ∧ t.length ≤ 5) ∧
    (∀ t ∈ negCurrencyFormats, t.count 35 ≤ 1 ∧ t.count 45 ≤ 1 ∧ t.count 36 ≤ 1 ∧
      t.count 37 ≤ 1 ∧ t.length ≤ 5) ∧
    (∀ t ∈ posPercentFormats, t.count 35 ≤ 1 ∧ t.count 45 ≤ 1 ∧ t.count 36 ≤ 1 ∧
      t.count 37 ≤ 1 ∧ t.length ≤ 5) ∧
    (∀ t ∈ negPercentFormats, t.count 35 ≤ 1 ∧ t.count 45 ≤ 1 ∧ t.count 36 ≤ 1 ∧
      t.count 37 ≤ 1 ∧ t.length ≤ 5) := by
  decide

/-- `NumberToString` stays within its capacity as soon as the layout routine
of the format kind raises nothing but the argument error and returns a text
that fits the capacity. -/
theorem NumberToString_within (number : NUMBER) (format : Nat) (digits : Int)
    (numfmt : NumberFormatInfo) (bDecimal : Bool)
    (htext : (format &&& 0xFFDF = 67 ∨ format &&& 0xFFDF = 70 ∨ format &&& 0xFFDF = 78 ∨
        format &&& 0xFFDF = 69 ∨ format &&& 0xFFDF = 71 ∨ format &&& 0xFFDF = 80) →
      NumberToStringBufferLen number format digits numfmt bDecimal ≤ INT32_MAX →
      (∀ e,
        (if format &&& 0xFFDF = 67 then
            FormatCurrency [] (NumberToStringRounded number format digits numfmt bDecimal)
              (effectiveDigits number format digits numfmt bDecimal) numfmt
          else if format &&& 0xFFDF = 70 then
            FormatFixed
              (if (NumberToStringRounded number format digits numfmt bDecimal).sign then
                numfmt.sNegative else [])
              (NumberToStringRounded number format digits numfmt bDecimal)
              (effectiveDigits number format digits numfmt bDecimal) none numfmt.sNumberDecimal []
          else if format &&& 0xFFDF = 78 then
            FormatNumber [] (NumberToStringRounded number format digits numfmt bDecimal)
              (effectiveDigits number format digits numfmt bDecimal) numfmt
          else if format &&& 0xFFDF = 69 then
            .ok (FormatScientific
              (if (NumberToStringRounded number format digits numfmt bDecimal).sign then
                numfmt.sNegative else [])
              (NumberToStringRounded number format digits numfmt bDecimal)
              (effectiveDigits number format digits numfmt bDecimal) format numfmt)
          else if format &&& 0xFFDF = 71 then
            .ok (FormatGeneral
              (if (NumberToStringRounded number format digits numfmt bDecimal).sign then
                numfmt.sNegative else [])
              (NumberToStringRounded number format digits numfmt bDecimal)
              (effectiveDigits number format digits numfmt bDecimal)
              (toWchar (format + 65536 - 2)) numfmt
              (decide (digits < 1 ∧ bDecimal ∧ digits = -1)))
          else FormatPercent [] (NumberToStringRounded number format digits numfmt bDecimal)
            (effectiveDigits number format digits numfmt bDecimal) numfmt) = .error e →
          e = FormatError.argumentOutOfRange) ∧
      (∀ dst,
        (if format &&& 0xFFDF = 67 then
            FormatCurrency [] (NumberToStringRounded number format digits numfmt bDecimal)
              (effectiveDigits number format digits numfmt bDecimal) numfmt
          else if format &&& 0xFFDF = 70 then
            FormatFixed
              (if (NumberToStringRounded number format digits numfmt bDecimal).sign then
                numfmt.sNegative else [])
              (NumberToStringRounded number format digits numfmt bDecimal)
              (effectiveDigits number format digits numfmt bDecimal) none numfmt.sNumberDecimal []
          else if format &&& 0xFFDF = 78 then
            FormatNumber [] (NumberToStringRounded number format digits numfmt bDecimal)
              (effectiveDigits number format digits numfmt bDecimal) numfmt
          else if format &&& 0xFFDF = 69 then
            .ok (FormatScientific
              (if (NumberToStringRounded number format digits numfmt bDecimal).sign then
                numfmt.sNegative else [])
              (NumberToStringRounded number format digits numfmt bDecimal)
              (effectiveDigits number format digits numfmt bDecimal) format numfmt)
          else if format &&& 0xFFDF = 71 then
            .ok (FormatGeneral
              (if (NumberToStringRounded number format digits numfmt bDecimal).sign then
                numfmt.sNegative else [])
              (NumberToStringRounded number format digits numfmt bDecimal)
              (effectiveDigits number format digits numfmt bDecimal)
              (toWchar (format + 65536 - 2)) numfmt
              (decide (digits < 1 ∧ bDecimal ∧ digits = -1)))
          else FormatPercent [] (NumberToStringRounded number format digits numfmt bDecimal)
            (effectiveDigits number format digits numfmt bDecimal) numfmt) = .ok dst →
          (dst.length : Int) ≤ NumberToStringBufferLen number format digits numfmt bDecimal)) :
    WithinCapacity (NumberToString number format digits numfmt bDecimal)
      (NumberToStringBufferLen number format digits numfmt bDecimal) := by
  unfold WithinCapacity NumberToString
  dsimp only
  by_cases hset : format &&& 0xFFDF = 67 ∨ format &&& 0xFFDF = 70 ∨ format &&& 0xFFDF = 78 ∨
      format &&& 0xFFDF = 69 ∨ format &&& 0xFFDF = 71 ∨ format &&& 0xFFDF = 80
  · rw [if_pos hset]
    by_cases hcap : NumberToStringBufferLen number format digits numfmt bDecimal > INT32_MAX
    · rw [if_pos hcap]
      exact ⟨fun h => (by cases h), fun dst h => (by cases h), fun _ => rfl⟩
    · rw [if_neg hcap]
      obtain ⟨hE, hL⟩ := htext hset (by omega)
      generalize (if format &&& 0xFFDF = 67 then
            FormatCurrency [] (NumberToStringRounded number format digits numfmt bDecimal)
              (effectiveDigits number format digits numfmt bDecimal) numfmt
          else if format &&& 0xFFDF = 70 then
            FormatFixed
              (if (NumberToStringRounded number format digits numfmt bDecimal).sign then
                numfmt.sNegative else [])
              (NumberToStringRounded number format digits numfmt bDecimal)
              (effectiveDigits number format digits numfmt bDecimal) none numfmt.sNumberDecimal []
          else if format &&& 0xFFDF = 78 then
            FormatNumber [] (NumberToStringRounded number format digits numfmt bDecimal)
              (effectiveDigits number format digits numfmt bDecimal) numfmt
          else if format &&& 0xFFDF = 69 then
            .ok (FormatScientific
              (if (NumberToStringRounded number format digits numfmt bDecimal).sign then
                numfmt.sNegative else [])
              (NumberToStringRounded number format digits numfmt bDecimal)
              (effectiveDigits number format digits numfmt bDecimal) format numfmt)
          else if format &&& 0xFFDF = 71 then
            .ok (FormatGeneral
              (if (NumberToStringRounded number format digits numfmt bDecimal).sign then
                numfmt.sNegative else [])
              (NumberToStringRounded number format digits numfmt bDecimal)
              (effectiveDigits number format digits numfmt bDecimal)
              (toWchar (format + 65536 - 2)) numfmt
              (decide (digits < 1 ∧ bDecimal ∧ digits = -1)))
          else FormatPercent [] (NumberToStringRounded number format digits numfmt bDecimal)
            (effectiveDigits number format digits numfmt bDecimal) numfmt) = text at hE hL ⊢
      cases text with
      | error e =>
        dsimp only
        have := hE e rfl
        subst this
        exact ⟨fun h => (by cases h), fun dst h => (by cases h), fun h => absurd h hcap⟩
      | ok dst =>
        dsimp only
        have hl := hL dst rfl
        have hnn : (0 : Int) ≤ dst.length := Int.natCast_nonneg _
        rw [if_pos (by omega)]
        refine ⟨fun h => (by cases h), fun dst' h => ?_, fun h => absurd h hcap⟩
        injection h with h
        rw [← h]; exact hl
  · rw [if_neg hset]
    refine ⟨fun h => (by cases h), fun dst h => (by cases h), fun h => ?_⟩
    exfalso
    unfold NumberToStringBufferLen at h
    have h67 : ¬ format &&& 0xFFDF = 67 := fun x => hset (Or.inl x)
    have h70 : ¬ format &&& 0xFFDF = 70 := fun x => hset (Or.inr (Or.inl x))
    have h78 : ¬ format &&& 0xFFDF = 78 := fun x => hset (Or.inr (Or.inr (Or.inl x)))
    have h69 : ¬ format &&& 0xFFDF = 69 := fun x => hset (Or.inr (Or.inr (Or.inr (Or.inl x))))
    have h71 : ¬ format &&& 0xFFDF = 71 :=
      fun x => hset (Or.inr (Or.inr (Or.inr (Or.inr (Or.inl x)))))
    have h80 : ¬ format &&& 0xFFDF = 80 :=
      fun x => hset (Or.inr (Or.inr (Or.inr (Or.inr (Or.inr x)))))
    simp only [h67, h70, h78, h69, h71, h80, if_false] at h
    revert h
    decide

/-- The fixed-point text of a buffer rounded at `scale + d` digits, for a
precision `d` of at most 99: it fits `100` code units, the decimal separator
and, when the scale is not negative, `scale + d` digits each with a
separator. -/
theorem FormatFixed_rounded_length (number : NUMBER) (d : Int)
    (groupDigits : Option (List Int)) (sDecimal sGroup : List Nat)
    (hdec : IsDecimal number.digits)
    (hs : -2147483648 ≤ number.scale ∧ number.scale ≤ 2147483547) (hd : 0 ≤ d ∧ d ≤ 99)
    (hg : ∀ gd, groupDigits = some gd → ∀ g ∈ gd, 0 ≤ g ∧ g ≤ 2147483647)
    (hsl : sGroup.length ≤ 2147483647) (buffer : List Nat) :
    (∀ e, FormatFixed buffer (RoundNumber number (number.scale + d)) d groupDigits sDecimal
        sGroup = .error e → e = FormatError.argumentOutOfRange) ∧
      ∀ dst, FormatFixed buffer (RoundNumber number (number.scale + d)) d groupDigits sDecimal
          sGroup = .ok dst →
        (dst.length : Int) ≤ buffer.length +
          (if number.scale < 0 then 0 else (number.scale + d) * (1 + (sGroup.length : Int))) +
          100 + sDecimal.length := by
  obtain ⟨-, -, hshape⟩ := RoundNumber_shape number (number.scale + d) hdec ⟨hs.1, by omega⟩
  have hrs : (RoundNumber number (number.scale + d)).scale = 0 ∨
      (RoundNumber number (number.scale + d)).scale = number.scale ∨
      ((RoundNumber number (number.scale + d)).scale = number.scale + 1 ∧
        0 ≤ number.scale + d) := by
    rcases hshape with h | h | h
    · exact Or.inl h.2.1
    · exact Or.inr (Or.inl h.2.2.1)
    · exact Or.inr (Or.inr ⟨h.2.2.1, h.2.2.2.1⟩)
  generalize RoundNumber number (number.scale + d) = r at hrs
  obtain ⟨hE, hL⟩ := FormatFixed_length buffer r d groupDigits sDecimal sGroup hg hsl
    (by rcases hrs with h | h | h <;> omega)
  refine ⟨hE, fun dst h => ?_⟩
  have hl := hL dst h
  have hfr : (if d > 0 then sDecimal.length + d.toNat else 0) ≤ sDecimal.length + 99 := by
    split <;> omega
  by_cases hneg : number.scale < 0
  · rw [if_pos hneg]
    have h1 : r.scale.toNat = 0 := by rcases hrs with h | h | h <;> omega
    rw [h1] at hl
    simp only [Nat.zero_sub, Nat.zero_mul] at hl
    have : max 1 0 = 1 := rfl
    omega
  · rw [if_neg hneg]
    have h1 : r.scale.toNat ≤ number.scale.toNat + 1 := by rcases hrs with h | h | h <;> omega
    have hmul : (r.scale.toNat - 1) * sGroup.length ≤ number.scale.toNat * sGroup.length :=
      Nat.mul_le_mul_right _ (by omega)
    have hexp : (number.scale + d) * (1 + (sGroup.length : Int)) =
        number.scale + d + ((number.scale.toNat * sGroup.length : Nat) : Int) +
          d * (sGroup.length : Int) := by
      have : ((number.scale.toNat : Nat) : Int) = number.scale := Int.toNat_of_nonneg (by omega)
      push_cast
      rw [this]
      ring
    have hdn : 0 ≤ d * (sGroup.length : Int) := mul_nonneg hd.1 (Int.natCast_nonneg _)
    rw [hexp]
    generalize (r.scale.toNat - 1) * sGroup.length = A at hl hmul
    generalize number.scale.toNat * sGroup.length = B at hmul
    generalize d * (sGroup.length : Int) = C at hdn
    omega

theorem sign_prefix_length (b : Bool) (s : List Nat) :
    (if b = true then s else []).length ≤ s.length := by
  cases b <;> simp

/-- Case `'F'`: the text fits the capacity. -/
theorem capacity_fixed (number : NUMBER) (format : Nat) (digits : Int)
    (numfmt : NumberFormatInfo) (bDecimal : Bool) (hft : format &&& 0xFFDF = 70)
    (hv : IsValidNumberFormatInfo numfmt) (hb : IsValidDigitBuffer number bDecimal)
    (hdig : -1 ≤ digits ∧ digits ≤ 99) :
    (∀ e, FormatFixed
        (if (NumberToStringRounded number format digits numfmt bDecimal).sign then
          numfmt.sNegative else [])
        (NumberToStringRounded number format digits numfmt bDecimal)
        (effectiveDigits number format digits numfmt bDecimal) none numfmt.sNumberDecimal [] =
          .error e → e = FormatError.argumentOutOfRange) ∧
      ∀ dst, FormatFixed
        (if (NumberToStringRounded number format digits numfmt bDecimal).sign then
          numfmt.sNegative else [])
        (NumberToStringRounded number format digits numfmt bDecimal)
        (effectiveDigits number format digits numfmt bDecimal) none numfmt.sNumberDecimal [] =
          .ok dst →
        (dst.length : Int) ≤ NumberToStringBufferLen number format digits numfmt bDecimal := by
  obtain ⟨hdec, hs1, hs2, -, -, -⟩ := hb
  obtain ⟨hnd, -, -, -, -, -, -, -, -, -⟩ := hv
  obtain ⟨d, hd, heff⟩ : ∃ d : Int, (0 ≤ d ∧ d ≤ 99) ∧
      effectiveDigits number format digits numfmt bDecimal = d := by
    refine ⟨if digits < 0 then numfmt.cNumberDecimals else digits, ?_, ?_⟩
    · split <;> omega
    · unfold effectiveDigits
      simp [hft]
  have hw : wrapInt32 (number.scale + d) = number.scale + d :=
    wrapInt32_of_range _ (by omega) (by omega)
  have hbuf : NumberToStringBufferLen number format digits numfmt bDecimal =
      MIN_BUFFER_SIZE + (if number.scale < 0 then 0 else number.scale + d) +
        numfmt.sNegative.length + numfmt.sNumberDecimal.length := by
    unfold NumberToStringBufferLen
    simp [hft, heff, hw]
  have hrnd : NumberToStringRounded number format digits numfmt bDecimal =
      RoundNumber number (number.scale + d) := by
    unfold NumberToStringRounded
    simp [hft, heff, hw]
  rw [hrnd, heff, hbuf]
  obtain ⟨hE, hL⟩ := FormatFixed_rounded_length number d none numfmt.sNumberDecimal []
    hdec ⟨hs1, by omega⟩ hd (fun gd h => by cases h) (by simp)
    (if (RoundNumber number (number.scale + d)).sign then numfmt.sNegative else [])
  refine ⟨hE, fun dst h => ?_⟩
  have hl := hL dst h
  have hsg := sign_prefix_length (RoundNumber number (number.scale + d)).sign numfmt.sNegative
  generalize (if (RoundNumber number (number.scale + d)).sign = true then numfmt.sNegative
    else []) = sg at hl hsg
  simp only [List.length_nil, Nat.cast_zero, add_zero, mul_one] at hl
  unfold MIN_BUFFER_SIZE
  by_cases hneg : number.scale < 0
  · simp only [hneg, if_true] at hl ⊢
    omega
  · simp only [hneg, if_false] at hl ⊢
    omega

/-- Case `'N'`: the text fits the capacity. -/
theorem capacity_number (number : NUMBER) (format : Nat) (digits : Int)
    (numfmt : NumberFormatInfo) (bDecimal : Bool) (hft : format &&& 0xFFDF = 78)
    (hv : IsValidNumberFormatInfo numfmt) (hb : IsValidDigitBuffer number bDecimal)
    (hdig : -1 ≤ digits ∧ digits ≤ 99) :
    (∀ e, FormatNumber [] (NumberToStringRounded number format digits numfmt bDecimal)
        (effectiveDigits number format digits numfmt bDecimal) numfmt = .error e →
          e = FormatError.argumentOutOfRange) ∧
      ∀ dst, FormatNumber [] (NumberToStringRounded number format digits numfmt bDecimal)
        (effectiveDigits number format digits numfmt bDecimal) numfmt = .ok dst →
        (dst.length : Int) ≤ NumberToStringBufferLen number format digits numfmt bDecimal := by
  obtain ⟨hdec, hs1, hs2, -, -, -⟩ := hb
  obtain ⟨hnd, -, -, hgn, -, -, hsn, -, -, -⟩ := hv
  obtain ⟨d, hd, heff⟩ : ∃ d : Int, (0 ≤ d ∧ d ≤ 99) ∧
      effectiveDigits number format digits numfmt bDecimal = d := by
    refine ⟨if digits < 0 then numfmt.cNumberDecimals else digits, ?_, ?_⟩
    · split <;> omega
    · unfold effectiveDigits
      simp [hft]
  have hw : wrapInt32 (number.scale + d) = number.scale + d :=
    wrapInt32_of_range _ (by omega) (by omega)
  have hbuf : NumberToStringBufferLen number format digits numfmt bDecimal =
      MIN_BUFFER_SIZE + (if number.scale < 0 then 0 else number.scale + d) +
        numfmt.sNegative.length +
        (numfmt.sNumberGroup.length : Int) * (if number.scale < 0 then 0 else number.scale + d) +
        numfmt.sNumberDecimal.length := by
    unfold NumberToStringBufferLen
    simp [hft, heff, hw]
  have hrnd : NumberToStringRounded number format digits numfmt bDecimal =
      RoundNumber number (number.scale + d) := by
    unfold NumberToStringRounded
    simp [hft, heff, hw]
  rw [hrnd, heff, hbuf]
  have hX : (0 : Int) ≤ (if number.scale < 0 then 0
      else (number.scale + d) * (1 + (numfmt.sNumberGroup.length : Int))) + 100 +
      numfmt.sNumberDecimal.length := by
    have : (0 : Int) ≤ (if number.scale < 0 then 0
        else (number.scale + d) * (1 + (numfmt.sNumberGroup.length : Int))) := by
      split
      · exact le_refl _
      · exact mul_nonneg (by omega) (by omega)
    omega
  generalize hXdef : (if number.scale < 0 then 0
      else (number.scale + d) * (1 + (numfmt.sNumberGroup.length : Int))) + 100 +
      (numfmt.sNumberDecimal.length : Int) = X at hX
  have hF := fun buffer => FormatFixed_rounded_length number d (some numfmt.cNumberGroup)
    numfmt.sNumberDecimal numfmt.sNumberGroup hdec ⟨hs1, by omega⟩ hd
    (fun gd h => by injection h with h; rw [← h]; exact hgn) hsn buffer
  have hF2 : ∀ buffer,
      (∀ e, FormatFixed buffer (RoundNumber number (number.scale + d)) d
          (some numfmt.cNumberGroup) numfmt.sNumberDecimal numfmt.sNumberGroup = .error e →
          e = FormatError.argumentOutOfRange) ∧
      ∀ dst, FormatFixed buffer (RoundNumber number (number.scale + d)) d
          (some numfmt.cNumberGroup) numfmt.sNumberDecimal numfmt.sNumberGroup = .ok dst →
          dst.length ≤ buffer.length + X.toNat := by
    intro buffer
    refine ⟨(hF buffer).1, fun dst h => ?_⟩
    have := (hF buffer).2 dst h
    omega
  unfold FormatNumber
  generalize htm : (if (RoundNumber number (number.scale + d)).sign = true then
      templateAt negNumberFormats numfmt.cNegativeNumberFormat else posNumberFormat) = tmpl
  have hshape : tmpl.count 35 ≤ 1 ∧ tmpl.count 45 ≤ 1 ∧ tmpl.count 36 ≤ 1 ∧
      tmpl.count 37 ≤ 1 ∧ tmpl.length ≤ 5 := by
    rw [← htm]
    split
    · exact templateAt_shape _ templates_shape.1 _
    · decide
  obtain ⟨hE, hL⟩ := FormatNumberLoop_length (RoundNumber number (number.scale + d)) d numfmt
    X.toNat hF2 tmpl []
  refine ⟨hE, fun dst h => ?_⟩
  have hl := hL dst h
  have h35 : tmpl.count 35 * X.toNat ≤ X.toNat := by
    calc tmpl.count 35 * X.toNat ≤ 1 * X.toNat := Nat.mul_le_mul_right _ hshape.1
      _ = X.toNat := Nat.one_mul _
  have h45 : tmpl.count 45 * numfmt.sNegative.length ≤ numfmt.sNegative.length := by
    calc tmpl.count 45 * numfmt.sNegative.length ≤ 1 * numfmt.sNegative.length :=
          Nat.mul_le_mul_right _ hshape.2.1
      _ = numfmt.sNegative.length := Nat.one_mul _
  have hlen := hshape.2.2.2.2
  have hring : (number.scale + d) * (1 + (numfmt.sNumberGroup.length : Int)) =
      (number.scale + d) + (numfmt.sNumberGroup.length : Int) * (number.scale + d) := by ring
  generalize tmpl.count 35 * X.toNat = A at hl h35
  generalize tmpl.count 45 * numfmt.sNegative.length = B at hl h45
  simp only [List.length_nil, Nat.zero_add] at hl
  unfold MIN_BUFFER_SIZE
  by_cases hneg : number.scale < 0
  · simp only [hneg, if_true, mul_zero, add_zero] at hXdef ⊢
    omega
  · simp only [hneg, if_false] at hXdef ⊢
    rw [hring] at hXdef
    generalize (numfmt.sNumberGroup.length : Int) * (number.scale + d) = P at hXdef ⊢
    omega

/-- Case `'C'`: the text fits the capacity. -/
theorem capacity_currency (number : NUMBER) (format : Nat) (digits : Int)
    (numfmt : NumberFormatInfo) (bDecimal : Bool) (hft : format &&& 0xFFDF = 67)
    (hv : IsValidNumberFormatInfo numfmt) (hb : IsValidDigitBuffer number bDecimal)
    (hdig : -1 ≤ digits ∧ digits ≤ 99) :
    (∀ e, FormatCurrency [] (NumberToStringRounded number format digits numfmt bDecimal)
        (effectiveDigits number format digits numfmt bDecimal) numfmt = .error e →
          e = FormatError.argumentOutOfRange) ∧
      ∀ dst, FormatCurrency [] (NumberToStringRounded number format digits numfmt bDecimal)
        (effectiveDigits number format digits numfmt bDecimal) numfmt = .ok dst →
        (dst.length : Int) ≤ NumberToStringBufferLen number format digits numfmt bDecimal := by
  obtain ⟨hdec, hs1, hs2, -, -, -⟩ := hb
  obtain ⟨-, hnd, -, -, hgn, -, -, hsn, -, -⟩ := hv
  obtain ⟨d, hd, heff⟩ : ∃ d : Int, (0 ≤ d ∧ d ≤ 99) ∧
      effectiveDigits number format digits numfmt bDecimal = d := by
    refine ⟨if digits < 0 then numfmt.cCurrencyDecimals else digits, ?_, ?_⟩
    · split <;> omega
    · unfold effectiveDigits
      simp [hft]
  have hw : wrapInt32 (number.scale + d) = number.scale + d :=
    wrapInt32_of_range _ (by omega) (by omega)
  have hbuf : NumberToStringBufferLen number format digits numfmt bDecimal =
      MIN_BUFFER_SIZE + (if number.scale < 0 then 0 else number.scale + d) +
        numfmt.sNegative.length +
        (numfmt.sCurrencyGroup.length : Int) *
          (if number.scale < 0 then 0 else number.scale + d) +
        numfmt.sCurrencyDecimal.length + numfmt.sCurrency.length := by
    unfold NumberToStringBufferLen
    simp [hft, heff, hw]
  have hrnd : NumberToStringRounded number format digits numfmt bDecimal =
      RoundNumber number (number.scale + d) := by
    unfold NumberToStringRounded
    simp [hft, heff, hw]
  rw [hrnd, heff, hbuf]
  have hX : (0 : Int) ≤ (if number.scale < 0 then 0
      else (number.scale + d) * (1 + (numfmt.sCurrencyGroup.length : Int))) + 100 +
      numfmt.sCurrencyDecimal.length := by
    have : (0 : Int) ≤ (if number.scale < 0 then 0
        else (number.scale + d) * (1 + (numfmt.sCurrencyGroup.length : Int))) := by
      split
      · exact le_refl _
      · exact mul_nonneg (by omega) (by omega)
    omega
  generalize hXdef : (if number.scale < 0 then 0
      else (number.scale + d) * (1 + (numfmt.sCurrencyGroup.length : Int))) + 100 +
      (numfmt.sCurrencyDecimal.length : Int) = X at hX
  have hF := fun buffer => FormatFixed_rounded_length number d (some numfmt.cCurrencyGroup)
    numfmt.sCurrencyDecimal numfmt.sCurrencyGroup hdec ⟨hs1, by omega⟩ hd
    (fun gd h => by injection h with h; rw [← h]; exact hgn) hsn buffer
  have hF2 : ∀ buffer,
      (∀ e, FormatFixed buffer (RoundNumber number (number.scale + d)) d
          (some numfmt.cCurrencyGroup) numfmt.sCurrencyDecimal numfmt.sCurrencyGroup =
            .error e → e = FormatError.argumentOutOfRange) ∧
      ∀ dst, FormatFixed buffer (RoundNumber number (number.scale + d)) d
          (some numfmt.cCurrencyGroup) numfmt.sCurrencyDecimal numfmt.sCurrencyGroup =
            .ok dst → dst.length ≤ buffer.length + X.toNat := by
    intro buffer
    refine ⟨(hF buffer).1, fun dst h => ?_⟩
    have := (hF buffer).2 dst h
    omega
  unfold FormatCurrency
  generalize htm : (if (RoundNumber number (number.scale + d)).sign = true then
      templateAt negCurrencyFormats numfmt.cNegCurrencyFormat
      else templateAt posCurrencyFormats numfmt.cPosCurrencyFormat) = tmpl
  have hshape : tmpl.count 35 ≤ 1 ∧ tmpl.count 45 ≤ 1 ∧ tmpl.count 36 ≤ 1 ∧
      tmpl.count 37 ≤ 1 ∧ tmpl.length ≤ 5 := by
    rw [← htm]
    split
    · exact templateAt_shape _ templates_shape.2.2.1 _
    · exact templateAt_shape _ templates_shape.2.1 _
  obtain ⟨hE, hL⟩ := FormatCurrencyLoop_length (RoundNumber number (number.scale + d)) d numfmt
    X.toNat hF2 tmpl []
  refine ⟨hE, fun dst h => ?_⟩
  have hl := hL dst h
  have h35 : tmpl.count 35 * X.toNat ≤ X.toNat := by
    calc tmpl.count 35 * X.toNat ≤ 1 * X.toNat := Nat.mul_le_mul_right _ hshape.1
      _ = X.toNat := Nat.one_mul _
  have h45 : tmpl.count 45 * numfmt.sNegative.length ≤ numfmt.sNegative.length := by
    calc tmpl.count 45 * numfmt.sNegative.length ≤ 1 * numfmt.sNegative.length :=
          Nat.mul_le_mul_right _ hshape.2.1
      _ = numfmt.sNegative.length := Nat.one_mul _
  have h36 : tmpl.count 36 * numfmt.sCurrency.length ≤ numfmt.sCurrency.length := by
    calc tmpl.count 36 * numfmt.sCurrency.length ≤ 1 * numfmt.sCurrency.length :=
          Nat.mul_le_mul_right _ hshape.2.2.1
      _ = numfmt.sCurrency.length := Nat.one_mul _
  have hlen := hshape.2.2.2.2
  have hring : (number.scale + d) * (1 + (numfmt.sCurrencyGroup.length : Int)) =
      (number.scale + d) + (numfmt.sCurrencyGroup.length : Int) * (number.scale + d) := by ring
  generalize tmpl.count 35 * X.toNat = A at hl h35
  generalize tmpl.count 45 * numfmt.sNegative.length = B at hl h45
  generalize tmpl.count 36 * numfmt.sCurrency.length = C at hl h36
  simp only [List.length_nil, Nat.zero_add] at hl
  unfold MIN_BUFFER_SIZE
  by_cases hneg : number.scale < 0
  · simp only [hneg, if_true, mul_zero, add_zero] at hXdef ⊢
    omega
  · simp only [hneg, if_false] at hXdef ⊢
    rw [hring] at hXdef
    generalize (numfmt.sCurrencyGroup.length : Int) * (number.scale + d) = P at hXdef ⊢
    omega

/-- Case `'P'`: the text fits the capacity. -/
theorem capacity_percent (number : NUMBER) (format : Nat) (digits : Int)
    (numfmt : NumberFormatInfo) (bDecimal : Bool) (hft : format &&& 0xFFDF = 80)
    (hv : IsValidNumberFormatInfo numfmt) (hb : IsValidDigitBuffer number bDecimal)
    (hdig : -1 ≤ digits ∧ digits ≤ 99) :
    (∀ e, FormatPercent [] (NumberToStringRounded number format digits numfmt bDecimal)
        (effectiveDigits number format digits numfmt bDecimal) numfmt = .error e →
          e = FormatError.argumentOutOfRange) ∧
      ∀ dst, FormatPercent [] (NumberToStringRounded number format digits numfmt bDecimal)
        (effectiveDigits number format digits numfmt bDecimal) numfmt = .ok dst →
        (dst.length : Int) ≤ NumberToStringBufferLen number format digits numfmt bDecimal := by
  obtain ⟨hdec, hs1, hs2, -, -, -⟩ := hb
  obtain ⟨-, -, hnd, -, -, hgn, -, -, hsn, -⟩ := hv
  obtain ⟨d, hd, heff⟩ : ∃ d : Int, (0 ≤ d ∧ d ≤ 99) ∧
      effectiveDigits number format digits numfmt bDecimal = d := by
    refine ⟨if digits < 0 then numfmt.cPercentDecimals else digits, ?_, ?_⟩
    · split <;> omega
    · unfold effectiveDigits
      simp [hft]
  have hw2 : wrapInt32 (number.scale + 2) = number.scale + 2 :=
    wrapInt32_of_range _ (by omega) (by omega)
  have hw : wrapInt32 (number.scale + 2 + d) = number.scale + 2 + d :=
    wrapInt32_of_range _ (by omega) (by omega)
  have hbuf : NumberToStringBufferLen number format digits numfmt bDecimal =
      MIN_BUFFER_SIZE + (if number.scale + 2 < 0 then 0 else number.scale + 2 + d) +
        numfmt.sNegative.length +
        (numfmt.sPercentGroup.length : Int) *
          (if number.scale + 2 < 0 then 0 else number.scale + 2 + d) +
        numfmt.sPercentDecimal.length + numfmt.sPercent.length := by
    unfold NumberToStringBufferLen
    simp [hft, heff, hw2, hw]
  obtain ⟨number2, hn2s, hn2d, hrnd⟩ : ∃ number2 : NUMBER, number2.scale = number.scale + 2 ∧
      number2.digits = number.digits ∧
      NumberToStringRounded number format digits numfmt bDecimal =
        RoundNumber number2 (number2.scale + d) := by
    refine ⟨{ number with scale := number.scale + 2 }, rfl, rfl, ?_⟩
    unfold NumberToStringRounded
    simp [hft, heff, hw2, hw]
  rw [hrnd, heff, hbuf, ← hn2s]
  have hdec2 : IsDecimal number2.digits := by rw [hn2d]; exact hdec
  have hs1' : -2147483648 ≤ number2.scale := by omega
  have hs2' : number2.scale ≤ 2147483547 := by omega
  clear hrnd hbuf hw hw2 hn2s hn2d hs1 hs2 hdec heff
  have hX : (0 : Int) ≤ (if number2.scale < 0 then 0
      else (number2.scale + d) * (1 + (numfmt.sPercentGroup.length : Int))) + 100 +
      numfmt.sPercentDecimal.length := by
    have : (0 : Int) ≤ (if number2.scale < 0 then 0
        else (number2.scale + d) * (1 + (numfmt.sPercentGroup.length : Int))) := by
      split
      · exact le_refl _
      · exact mul_nonneg (by omega) (by omega)
    omega
  generalize hXdef : (if number2.scale < 0 then 0
      else (number2.scale + d) * (1 + (numfmt.sPercentGroup.length : Int))) + 100 +
      (numfmt.sPercentDecimal.length : Int) = X at hX
  have hF := fun buffer => FormatFixed_rounded_length number2 d (some numfmt.cPercentGroup)
    numfmt.sPercentDecimal numfmt.sPercentGroup hdec2 ⟨hs1', hs2'⟩ hd
    (fun gd h => by injection h with h; rw [← h]; exact hgn) hsn buffer
  have hF2 : ∀ buffer,
      (∀ e, FormatFixed buffer (RoundNumber number2 (number2.scale + d)) d
          (some numfmt.cPercentGroup) numfmt.sPercentDecimal numfmt.sPercentGroup =
            .error e → e = FormatError.argumentOutOfRange) ∧
      ∀ dst, FormatFixed buffer (RoundNumber number2 (number2.scale + d)) d
          (some numfmt.cPercentGroup) numfmt.sPercentDecimal numfmt.sPercentGroup =
            .ok dst → dst.length ≤ buffer.length + X.toNat := by
    intro buffer
    refine ⟨(hF buffer).1, fun dst h => ?_⟩
    have := (hF buffer).2 dst h
    omega
  unfold FormatPercent
  generalize htm : (if (RoundNumber number2 (number2.scale + d)).sign = true then
      templateAt negPercentFormats numfmt.cNegativePercentFormat
      else templateAt posPercentFormats numfmt.cPositivePercentFormat) = tmpl
  have hshape : tmpl.count 35 ≤ 1 ∧ tmpl.count 45 ≤ 1 ∧ tmpl.count 36 ≤ 1 ∧
      tmpl.count 37 ≤ 1 ∧ tmpl.length ≤ 5 := by
    rw [← htm]
    split
    · exact templateAt_shape _ templates_shape.2.2.2.2 _
    · exact templateAt_shape _ templates_shape.2.2.2.1 _
  obtain ⟨hE, hL⟩ := FormatPercentLoop_length (RoundNumber number2 (number2.scale + d)) d numfmt
    X.toNat hF2 tmpl []
  refine ⟨hE, fun dst h => ?_⟩
  have hl := hL dst h
  have h35 : tmpl.count 35 * X.toNat ≤ X.toNat := by
    calc tmpl.count 35 * X.toNat ≤ 1 * X.toNat := Nat.mul_le_mul_right _ hshape.1
      _ = X.toNat := Nat.one_mul _
  have h45 : tmpl.count 45 * numfmt.sNegative.length ≤ numfmt.sNegative.length := by
    calc tmpl.count 45 * numfmt.sNegative.length ≤ 1 * numfmt.sNegative.length :=
          Nat.mul_le_mul_right _ hshape.2.1
      _ = numfmt.sNegative.length := Nat.one_mul _
  have h37 : tmpl.count 37 * numfmt.sPercent.length ≤ numfmt.sPercent.length := by
    calc tmpl.count 37 * numfmt.sPercent.length ≤ 1 * numfmt.sPercent.length :=
          Nat.mul_le_mul_right _ hshape.2.2.2.1
      _ = numfmt.sPercent.length := Nat.one_mul _
  have hlen := hshape.2.2.2.2
  have hring : (number2.scale + d) * (1 + (numfmt.sPercentGroup.length : Int)) =
      (number2.scale + d) + (numfmt.sPercentGroup.length : Int) * (number2.scale + d) := by ring
  generalize tmpl.count 35 * X.toNat = A at hl h35
  generalize tmpl.count 45 * numfmt.sNegative.length = B at hl h45
  generalize tmpl.count 37 * numfmt.sPercent.length = C at hl h37
  simp only [List.length_nil, Nat.zero_add] at hl
  unfold MIN_BUFFER_SIZE
  by_cases hneg : number2.scale < 0
  · simp only [hneg, if_true, mul_zero, add_zero] at hXdef ⊢
    omega
  · simp only [hneg, if_false] at hXdef ⊢
    rw [hring] at hXdef
    generalize (numfmt.sPercentGroup.length : Int) * (number2.scale + d) = P at hXdef ⊢
    omega

theorem cstr_length_le (s : List Nat) : (cstr s).length ≤ s.length := by
  unfold cstr
  exact (List.takeWhile_sublist _).length_le

/-- The exponent part: the marker, one sign string and at most 10 digits. -/
theorem FormatExponent_length (buffer : List Nat) (value : Int) (expChar : Nat)
    (posSignStr negSignStr : List Nat) (minDigits : Int)
    (h1 : -2147483648 ≤ value) (h2 : value ≤ 2147483647) (hmin : minDigits ≤ 10) :
    (FormatExponent buffer value expChar (some posSignStr) negSignStr minDigits).length ≤
      buffer.length + 11 + max negSignStr.length posSignStr.length := by
  rw [FormatExponent_eq buffer value expChar _ negSignStr minDigits h1 h2]
  have hp := decimalPadded_length_le minDigits.toNat value.natAbs (by omega) (by omega)
  simp only [List.length_append, List.length_singleton, Option.getD_some]
  have hsg : (if value < 0 then negSignStr else posSignStr).length ≤
      max negSignStr.length posSignStr.length := by
    split
    · exact le_max_left _ _
    · exact le_max_right _ _
  omega

/-- The scientific layout: one digit, the decimal separator, `digits - 1`
further digits and the exponent part. -/
theorem FormatScientific_length (buffer : List Nat) (r : NUMBER) (digits : Int) (expChar : Nat)
    (numfmt : NumberFormatInfo) (hd : 1 ≤ digits ∧ digits ≤ 2147483647) :
    (FormatScientific buffer r digits expChar numfmt).length ≤
      buffer.length + numfmt.sNumberDecimal.length + digits.toNat + 11 +
        max numfmt.sNegative.length numfmt.sPositive.length := by
  unfold FormatScientific
  dsimp only
  have he : -2147483648 ≤ (if wcharAt r.digits 0 = 0 then (0 : Int)
      else wrapInt32 (r.scale - 1)) ∧ (if wcharAt r.digits 0 = 0 then (0 : Int)
      else wrapInt32 (r.scale - 1)) ≤ 2147483647 := by
    have := wrapInt32_range (r.scale - 1)
    split <;> omega
  refine le_trans (FormatExponent_length _ _ _ _ _ _ he.1 he.2 (by decide)) ?_
  rw [copyDigits_length, wrapInt32_of_range (digits - 1) (by omega) (by omega)]
  have hdec : (if digits ≠ 1 then buffer ++ [(nextDigit r.digits).1] ++ numfmt.sNumberDecimal
      else buffer ++ [(nextDigit r.digits).1]).length ≤
      buffer.length + 1 + numfmt.sNumberDecimal.length := by
    split <;> simp only [List.length_append, List.length_singleton] <;> omega
  omega

/-- The general layout of a buffer of non-zero code units. In scientific form
it writes the digits, the decimal separator and the exponent part; in fixed
form the digits, the zeros a negative scale asks for and the separator. -/
theorem FormatGeneral_length (buffer : List Nat) (r : NUMBER) (d : Int) (expChar : Nat)
    (numfmt : NumberFormatInfo) (sup : Bool) (hnz : ∀ c ∈ r.digits, c ≠ 0) :
    (FormatGeneral buffer r d expChar numfmt sup).length ≤
      buffer.length + numfmt.sNumberDecimal.length +
        (if (!sup && (decide (r.scale > d) || decide (r.scale < -3))) = true then
          max 1 r.digits.length + 11 + max numfmt.sNegative.length numfmt.sPositive.length
         else if r.scale > 0 then max r.scale.toNat r.digits.length
         else 1 + (-r.scale).toNat + r.digits.length) := by
  unfold FormatGeneral
  dsimp only
  by_cases hsci : (!sup && (decide (r.scale > d) || decide (r.scale < -3))) = true
  · simp only [hsci, if_true]
    have h1 : (1 : Int) > 0 := by decide
    simp only [h1, if_true]
    have he := wrapInt32_range (r.scale - 1)
    refine le_trans (FormatExponent_length _ _ _ _ _ _ he.1 he.2 (by decide)) ?_
    rw [copyDigits_eq _ _ _ hnz]
    dsimp only
    have hlt : ¬ ((0 : Int) < 0) := by decide
    have h1n : (1 : Int).toNat = 1 := rfl
    rw [h1n]
    have hb : (if wcharAt (List.drop 1 r.digits) 0 ≠ 0 ∨ (0 : Int) < 0 then
        buffer ++ List.take 1 r.digits ++ List.replicate (1 - r.digits.length) 48 ++
            numfmt.sNumberDecimal ++ List.replicate (-(0 : Int)).toNat 48 ++
          cstr (List.drop 1 r.digits)
        else buffer ++ List.take 1 r.digits ++ List.replicate (1 - r.digits.length) 48).length ≤
        buffer.length + numfmt.sNumberDecimal.length + max 1 r.digits.length := by
      have hc := cstr_length_le (List.drop 1 r.digits)
      split
      · simp only [List.length_append, List.length_take, List.length_replicate,
          List.length_drop] at hc ⊢
        have : (-(0 : Int)).toNat = 0 := rfl
        rw [this]
        omega
      · simp only [List.length_append, List.length_take, List.length_replicate]
        omega
    omega
  · have hsci2 : (!sup && (decide (r.scale > d) || decide (r.scale < -3))) = false := by
      simpa using hsci
    simp only [hsci2, Bool.false_eq_true, if_false]
    by_cases hpos : r.scale > 0
    · simp only [hpos, if_true]
      rw [copyDigits_eq _ _ _ hnz]
      dsimp only
      have hc := cstr_length_le (List.drop r.scale.toNat r.digits)
      have : (-(0 : Int)).toNat = 0 := rfl
      split
      · simp only [List.length_append, List.length_take, List.length_replicate,
          List.length_drop] at hc ⊢
        rw [this]
        omega
      · simp only [List.length_append, List.length_take, List.length_replicate]
        omega
    · simp only [hpos, if_false]
      have hc := cstr_length_le r.digits
      split
      · simp only [List.length_append, List.length_singleton, List.length_replicate]
        omega
      · simp only [List.length_append, List.length_singleton]
        omega

/-- Case `'E'`: the text fits the capacity. -/
theorem capacity_scientific (number : NUMBER) (format : Nat) (digits : Int)
    (numfmt : NumberFormatInfo) (bDecimal : Bool) (hft : format &&& 0xFFDF = 69)
    (hdig : -1 ≤ digits ∧ digits ≤ 99) :
    ((FormatScientific
        (if (NumberToStringRounded number format digits numfmt bDecimal).sign then
          numfmt.sNegative else [])
        (NumberToStringRounded number format digits numfmt bDecimal)
        (effectiveDigits number format digits numfmt bDecimal) format numfmt).length : Int) ≤
      NumberToStringBufferLen number format digits numfmt bDecimal := by
  obtain ⟨d, hd, heff⟩ : ∃ d : Int, (1 ≤ d ∧ d ≤ 100) ∧
      effectiveDigits number format digits numfmt bDecimal = d := by
    refine ⟨wrapInt32 ((if digits < 0 then 6 else digits) + 1), ?_, ?_⟩
    · unfold wrapInt32; split <;> omega
    · unfold effectiveDigits
      simp [hft]
  have hbuf : NumberToStringBufferLen number format digits numfmt bDecimal =
      MIN_BUFFER_SIZE + d +
        ((numfmt.sNegative.length : Int) + numfmt.sPositive.length) * 2 +
        numfmt.sNumberDecimal.length := by
    unfold NumberToStringBufferLen
    simp [hft, heff]
  rw [heff, hbuf]
  generalize NumberToStringRounded number format digits numfmt bDecimal = r
  have hl := FormatScientific_length (if r.sign then numfmt.sNegative else []) r d format numfmt
    ⟨hd.1, by omega⟩
  have hsg := sign_prefix_length r.sign numfmt.sNegative
  have hmax : max numfmt.sNegative.length numfmt.sPositive.length ≤
      numfmt.sNegative.length + numfmt.sPositive.length := by omega
  unfold MIN_BUFFER_SIZE
  omega

/-- Case `'G'`: the text fits the capacity. -/
theorem capacity_general (number : NUMBER) (format : Nat) (digits : Int)
    (numfmt : NumberFormatInfo) (bDecimal : Bool) (hft : format &&& 0xFFDF = 71)
    (hv : IsValidNumberFormatInfo numfmt) (hb : IsValidDigitBuffer number bDecimal)
    (hdig : -1 ≤ digits ∧ digits ≤ 99) :
    ((FormatGeneral
        (if (NumberToStringRounded number format digits numfmt bDecimal).sign then
          numfmt.sNegative else [])
        (NumberToStringRounded number format digits numfmt bDecimal)
        (effectiveDigits number format digits numfmt bDecimal)
        (toWchar (format + 65536 - 2)) numfmt
        (decide (digits < 1 ∧ bDecimal ∧ digits = -1))).length : Int) ≤
      NumberToStringBufferLen number format digits numfmt bDecimal := by
  obtain ⟨hdec, hs1, hs2, hp1, hp2, hdm⟩ := hb
  obtain ⟨-, -, -, -, -, -, -, -, -, hsum, -⟩ := hv
  have hu : (toUInt32 ((numfmt.sNegative.length + numfmt.sPositive.length) * 2) : Int) =
      ((numfmt.sNegative.length : Int) + numfmt.sPositive.length) * 2 := by
    unfold toUInt32
    rw [Nat.mod_eq_of_lt (by omega)]
    push_cast
    ring
  have hmax : max numfmt.sNegative.length numfmt.sPositive.length ≤
      numfmt.sNegative.length + numfmt.sPositive.length := by omega
  by_cases hun : digits < 1 ∧ bDecimal = true ∧ digits = -1
  · -- a Decimal without precision: rounding is off
    obtain ⟨hlen, hsa, hsb⟩ := hdm hun.2.1
    have heff : effectiveDigits number format digits numfmt bDecimal = 29 := by
      unfold effectiveDigits DECIMAL_PRECISION
      simp [hft, hun.2.1, hun.2.2]
    have hbuf : NumberToStringBufferLen number format digits numfmt bDecimal =
        MIN_BUFFER_SIZE + 29 +
          ((numfmt.sNegative.length : Int) + numfmt.sPositive.length) * 2 +
          numfmt.sNumberDecimal.length := by
      unfold NumberToStringBufferLen
      simp only [hft, heff]
      simp [hu]
    obtain ⟨r, hrd, hrs, hrnd⟩ : ∃ r : NUMBER, r.digits = number.digits ∧
        r.scale = number.scale ∧
        NumberToStringRounded number format digits numfmt bDecimal = r := by
      refine ⟨_, ?_, ?_, rfl⟩
      · unfold NumberToStringRounded
        simp only [hft, hun]
        simp
        split <;> rfl
      · unfold NumberToStringRounded
        simp only [hft, hun]
        simp
        split <;> rfl
    rw [hrnd, heff, hbuf]
    have hsup : decide (digits < 1 ∧ bDecimal = true ∧ digits = -1) = true := by
      simpa using hun
    rw [hsup]
    have hl := FormatGeneral_length (if r.sign then numfmt.sNegative else []) r 29
      (toWchar (format + 65536 - 2)) numfmt true (by rw [hrd]; exact hdec.ne_zero)
    have hsg := sign_prefix_length r.sign numfmt.sNegative
    simp only [Bool.not_true, Bool.false_and, Bool.false_eq_true, if_false] at hl
    rw [hrd, hrs] at hl
    generalize (if r.sign = true then numfmt.sNegative else []) = sg at hl hsg ⊢
    unfold MIN_BUFFER_SIZE
    by_cases hpos : number.scale > 0
    · rw [if_pos hpos] at hl
      omega
    · rw [if_neg hpos] at hl
      omega
  · -- rounding is on
    obtain ⟨d, hd, heff⟩ : ∃ d : Int, (0 ≤ d ∧ d ≤ 2147483647) ∧
        effectiveDigits number format digits numfmt bDecimal = d := by
      refine ⟨if digits < 1 then number.precision else digits, ?_, ?_⟩
      · split <;> omega
      · unfold effectiveDigits
        simp only [hft]
        simp
        by_cases h1 : digits < 1
        · have : ¬ (bDecimal = true ∧ digits = -1) := fun h => hun ⟨h1, h⟩
          simp [h1, this]
        · simp [h1]
    have hbuf : NumberToStringBufferLen number format digits numfmt bDecimal =
        MIN_BUFFER_SIZE + d +
          ((numfmt.sNegative.length : Int) + numfmt.sPositive.length) * 2 +
          numfmt.sNumberDecimal.length := by
      unfold NumberToStringBufferLen
      simp only [hft, heff]
      simp [hu]
    have hrnd : NumberToStringRounded number format digits numfmt bDecimal =
        RoundNumber number d := by
      unfold NumberToStringRounded
      simp only [hft, heff]
      simp [hun]
    rw [hrnd, heff, hbuf]
    obtain ⟨hrdec, -, hshape⟩ := RoundNumber_shape number d hdec ⟨hs1, by omega⟩
    generalize RoundNumber number d = r at hrdec hshape
    have hl := FormatGeneral_length (if r.sign then numfmt.sNegative else []) r d
      (toWchar (format + 65536 - 2)) numfmt (decide (digits < 1 ∧ bDecimal = true ∧ digits = -1))
      hrdec.ne_zero
    have hsg := sign_prefix_length r.sign numfmt.sNegative
    have hA : ((if (!decide (digits < 1 ∧ bDecimal = true ∧ digits = -1) &&
          (decide (r.scale > d) || decide (r.scale < -3))) = true then
            max 1 r.digits.length + 11 + max numfmt.sNegative.length numfmt.sPositive.length
          else if r.scale > 0 then max r.scale.toNat r.digits.length
          else 1 + (-r.scale).toNat + r.digits.length : Nat) : Int) ≤
        d + 12 + max numfmt.sNegative.length numfmt.sPositive.length := by
      have hlen : (r.digits.length : Int) ≤ max d 1 := by
        rcases hshape with h | h | h
        · rw [h.1]; simp
        · have := h.2.2.2.1; omega
        · rw [h.1]; simp
      by_cases hsci : (!decide (digits < 1 ∧ bDecimal = true ∧ digits = -1) &&
          (decide (r.scale > d) || decide (r.scale < -3))) = true
      · rw [if_pos hsci]
        push_cast
        omega
      · rw [if_neg hsci]
        have hrange : r.scale ≤ d ∧ -3 ≤ r.scale := by
          have hd0 : decide (digits < 1 ∧ bDecimal = true ∧ digits = -1) = false := by
            simpa using hun
          rw [hd0] at hsci
          simp only [Bool.not_false, Bool.true_and, Bool.or_eq_true, decide_eq_true_eq,
            not_or, not_lt] at hsci
          omega
        by_cases hpos : r.scale > 0
        · rw [if_pos hpos]
          push_cast
          omega
        · rw [if_neg hpos]
          push_cast
          omega
    generalize (if (!decide (digits < 1 ∧ bDecimal = true ∧ digits = -1) &&
          (decide (r.scale > d) || decide (r.scale < -3))) = true then
            max 1 r.digits.length + 11 + max numfmt.sNegative.length numfmt.sPositive.length
          else if r.scale > 0 then max r.scale.toNat r.digits.length
          else 1 + (-r.scale).toNat + r.digits.length) = A at hl hA
    unfold MIN_BUFFER_SIZE
    push_cast at hA
    omega

theorem int_mul_range (L : Nat) (x : Int) (hL : L ≤ 2147483647) (h1 : -2147483648 ≤ x)
    (h2 : x ≤ 2147483647) :
    -4611686018427387904 ≤ (L : Int) * x ∧ (L : Int) * x ≤ 4611686018427387904 := by
  have hL0 : (0 : Int) ≤ L := Int.natCast_nonneg _
  have hL1 : (L : Int) ≤ 2147483647 := by exact_mod_cast hL
  constructor
  · nlinarith
  · nlinarith

/-- The capacity `NumberToString` computes fits the `INT64` it is held in. -/
theorem NumberToStringBufferLen_range (number : NUMBER) (format : Nat) (digits : Int)
    (numfmt : NumberFormatInfo) (bDecimal : Bool)
    (hv : IsValidNumberFormatInfo numfmt) (hb : IsValidDigitBuffer number bDecimal)
    (hdig : -1 ≤ digits ∧ digits ≤ 99) :
    -9223372036854775808 ≤ NumberToStringBufferLen number format digits numfmt bDecimal ∧
      NumberToStringBufferLen number format digits numfmt bDecimal ≤ 9223372036854775807 := by
  obtain ⟨-, -, -, hp1, hp2, -⟩ := hb
  obtain ⟨-, -, -, -, -, -, hng, hcg, hpg, hsum, hnd, hcd, hcur, hpd, hpc⟩ := hv
  unfold NumberToStringBufferLen
  dsimp only
  generalize (if format &&& 0xFFDF = 80 then wrapInt32 (number.scale + 2)
    else number.scale) = sc
  have hdc : -2147483648 ≤ (if sc < 0 then (0 : Int)
      else wrapInt32 (sc + effectiveDigits number format digits numfmt bDecimal)) ∧
      (if sc < 0 then (0 : Int)
      else wrapInt32 (sc + effectiveDigits number format digits numfmt bDecimal)) ≤
        2147483647 := by
    by_cases hneg : sc < 0
    · rw [if_pos hneg]; decide
    · rw [if_neg hneg]; exact wrapInt32_range _
  generalize (if sc < 0 then (0 : Int)
      else wrapInt32 (sc + effectiveDigits number format digits numfmt bDecimal)) = dc at hdc
  have h1 := int_mul_range _ dc hng hdc.1 hdc.2
  have h2 := int_mul_range _ dc hcg hdc.1 hdc.2
  have h3 := int_mul_range _ dc hpg hdc.1 hdc.2
  have hu : (toUInt32 ((numfmt.sNegative.length + numfmt.sPositive.length) * 2) : Int) ≤
      4294967295 := by
    unfold toUInt32
    have := Nat.mod_lt ((numfmt.sNegative.length + numfmt.sPositive.length) * 2)
      (by decide : 0 < 4294967296)
    omega
  generalize (numfmt.sNumberGroup.length : Int) * dc = P1 at h1
  generalize (numfmt.sCurrencyGroup.length : Int) * dc = P2 at h2
  generalize (numfmt.sPercentGroup.length : Int) * dc = P3 at h3
  generalize toUInt32 ((numfmt.sNegative.length + numfmt.sPositive.length) * 2) = U at hu
  unfold MIN_BUFFER_SIZE
  by_cases h67 : format &&& 0xFFDF = 67
  · rw [if_pos h67]; omega
  · rw [if_neg h67]
    by_cases h70 : format &&& 0xFFDF = 70
    · rw [if_pos h70]; omega
    · rw [if_neg h70]
      by_cases h78 : format &&& 0xFFDF = 78
      · rw [if_pos h78]; omega
      · rw [if_neg h78]
        by_cases h69 : format &&& 0xFFDF = 69
        · rw [if_pos h69]
          have heff : effectiveDigits number format digits numfmt bDecimal =
              wrapInt32 ((if digits < 0 then 6 else digits) + 1) := by
            unfold effectiveDigits
            simp [h69]
          have := wrapInt32_range ((if digits < 0 then 6 else digits) + 1)
          rw [heff]
          omega
        · rw [if_neg h69]
          by_cases h71 : format &&& 0xFFDF = 71
          · rw [if_pos h71]
            have heff : -1 ≤ effectiveDigits number format digits numfmt bDecimal ∧
                effectiveDigits number format digits numfmt bDecimal ≤ 2147483647 := by
              unfold effectiveDigits DECIMAL_PRECISION
              simp only [h71, h67, h70, h78, h69, if_false, if_true, false_or]
              split
              · split <;> omega
              · omega
            omega
          · rw [if_neg h71]
            by_cases h80 : format &&& 0xFFDF = 80
            · rw [if_pos h80]; omega
            · rw [if_neg h80]; omega

/-- `NumberToString` stays within the capacity it computes, for every format
letter. -/
theorem NumberToString_capacity_all (number : NUMBER) (format : Nat) (digits : Int)
    (numfmt : NumberFormatInfo) (bDecimal : Bool)
    (hv : IsValidNumberFormatInfo numfmt) (hb : IsValidDigitBuffer number bDecimal)
    (hdig : -1 ≤ digits ∧ digits ≤ 99) :
    WithinCapacity (NumberToString number format digits numfmt bDecimal)
      (NumberToStringBufferLen number format digits numfmt bDecimal) := by
  apply NumberToString_within
  intro hset _
  by_cases h67 : format &&& 0xFFDF = 67
  · rw [if_pos h67]
    exact capacity_currency number format digits numfmt bDecimal h67 hv hb hdig
  · rw [if_neg h67]
    by_cases h70 : format &&& 0xFFDF = 70
    · rw [if_pos h70]
      exact capacity_fixed number format digits numfmt bDecimal h70 hv hb hdig
    · rw [if_neg h70]
      by_cases h78 : format &&& 0xFFDF = 78
      · rw [if_pos h78]
        exact capacity_number number format digits numfmt bDecimal h78 hv hb hdig
      · rw [if_neg h78]
        by_cases h69 : format &&& 0xFFDF = 69
        · rw [if_pos h69]
          refine ⟨fun e h => (by cases h), fun dst h => ?_⟩
          injection h with h
          rw [← h]
          exact capacity_scientific number format digits numfmt bDecimal h69 hdig
        · rw [if_neg h69]
          by_cases h71 : format &&& 0xFFDF = 71
          · rw [if_pos h71]
            refine ⟨fun e h => (by cases h), fun dst h => ?_⟩
            injection h with h
            rw [← h]
            exact capacity_general number format digits numfmt bDecimal h71 hv hb hdig
          · rw [if_neg h71]
            have h80 : format &&& 0xFFDF = 80 := by
              rcases hset with h | h | h | h | h | h
              · exact absurd h h67
              · exact absurd h h70
              · exact absurd h h78
              · exact absurd h h69
              · exact absurd h h71
              · exact h
            exact capacity_percent number format digits numfmt bDecimal h80 hv hb hdig

/-- C23: for every format kind (`C`, `F`, `N`, `E`, `G`, `P`; any other
letter raises the format error before anything is written), every buffer of
decimal digits, every precision in `-1..99` (with configured default decimals
in `0..99`) and every configuration with non-negative group sizes whose
pattern indices select a template of their table (the configuration record of
the contract; outside it the source reads past the table), the number
of code units `NumberToString` writes is at most the capacity it computed
beforehand, so neither fail-fast check is reached; whenever the computed
capacity exceeds `INT32_MAX` the call raises the out-of-memory exception; and
the capacity never leaves the range of the `INT64` it is computed in. -/
theorem NumberToString_within_capacity (number : NUMBER) (format : Nat) (digits : Int)
    (numfmt : NumberFormatInfo) (bDecimal : Bool)
    (hv : IsValidNumberFormatInfo numfmt) (_hp : HasPatternIndices numfmt)
    (hb : IsValidDigitBuffer number bDecimal)
    (hdig : -1 ≤ digits ∧ digits ≤ 99) :
    NumberToString number format digits numfmt bDecimal ≠ .error FormatError.failFast ∧
      (∀ dst, NumberToString number format digits numfmt bDecimal = .ok dst →
        (dst.length : Int) ≤ NumberToStringBufferLen number format digits numfmt bDecimal) ∧
      (NumberToStringBufferLen number format digits numfmt bDecimal > INT32_MAX →
        NumberToString number format digits numfmt bDecimal =
          .error FormatError.outOfMemory) ∧
      -9223372036854775808 ≤ NumberToStringBufferLen number format digits numfmt bDecimal ∧
      NumberToStringBufferLen number format digits numfmt bDecimal ≤ 9223372036854775807 := by
  have hw := NumberToString_capacity_all number format digits numfmt bDecimal hv hb hdig
  exact ⟨hw.1, hw.2.1, hw.2.2,
    NumberToStringBufferLen_range number format digits numfmt bDecimal hv hb hdig⟩

theorem NumberToString_within_capacity_witness :
    NumberToString ⟨15, 7, true, [49, 50, 51, 52, 53, 54, 55]⟩ 78 2
        ⟨[3], [3], [3], [43], [45], [46], [44], [44], [46], [36], [44], [46], [37],
          [0x2030], [78, 97, 78], [73], [45, 73], 2, 2, 2, 1, 0, 0, 1, 1⟩ false ≠
        .error FormatError.failFast ∧
      (∀ dst, NumberToString ⟨15, 7, true, [49, 50, 51, 52, 53, 54, 55]⟩ 78 2
          ⟨[3], [3], [3], [43], [45], [46], [44], [44], [46], [36], [44], [46], [37],
            [0x2030], [78, 97, 78], [73], [45, 73], 2, 2, 2, 1, 0, 0, 1, 1⟩ false = .ok dst →
        (dst.length : Int) ≤ NumberToStringBufferLen ⟨15, 7, true, [49, 50, 51, 52, 53, 54, 55]⟩
          78 2
          ⟨[3], [3], [3], [43], [45], [46], [44], [44], [46], [36], [44], [46], [37],
            [0x2030], [78, 97, 78], [73], [45, 73], 2, 2, 2, 1, 0, 0, 1, 1⟩ false) ∧
      (NumberToStringBufferLen ⟨15, 7, true, [49, 50, 51, 52, 53, 54, 55]⟩ 78 2
          ⟨[3], [3], [3], [43], [45], [46], [44], [44], [46], [36], [44], [46], [37],
            [0x2030], [78, 97, 78], [73], [45, 73], 2, 2, 2, 1, 0, 0, 1, 1⟩ false > INT32_MAX →
        NumberToString ⟨15, 7, true, [49, 50, 51, 52, 53, 54, 55]⟩ 78 2
          ⟨[3], [3], [3], [43], [45], [46], [44], [44], [46], [36], [44], [46], [37],
            [0x2030], [78, 97, 78], [73], [45, 73], 2, 2, 2, 1, 0, 0, 1, 1⟩ false =
          .error FormatError.outOfMemory) ∧
      -9223372036854775808 ≤ NumberToStringBufferLen ⟨15, 7, true, [49, 50, 51, 52, 53, 54, 55]⟩
          78 2
          ⟨[3], [3], [3], [43], [45], [46], [44], [44], [46], [36], [44], [46], [37],
            [0x2030], [78, 97, 78], [73], [45, 73], 2, 2, 2, 1, 0, 0, 1, 1⟩ false ∧
      NumberToStringBufferLen ⟨15, 7, true, [49, 50, 51, 52, 53, 54, 55]⟩ 78 2
          ⟨[3], [3], [3], [43], [45], [46], [44], [44], [46], [36], [44], [46], [37],
            [0x2030], [78, 97, 78], [73], [45, 73], 2, 2, 2, 1, 0, 0, 1, 1⟩ false ≤
        9223372036854775807 :=
  NumberToString_within_capacity ⟨15, 7, true, [49, 50, 51, 52, 53, 54, 55]⟩ 78 2
    ⟨[3], [3], [3], [43], [45], [46], [44], [44], [46], [36], [44], [46], [37],
      [0x2030], [78, 97, 78], [73], [45, 73], 2, 2, 2, 1, 0, 0, 1, 1⟩ false
    (by decide) (by decide) (by decide) (by decide)

/-- Example: `-1234567` in format `N2` is `-1,234,567.00`, 13 code units for a
capacity of 125. -/
theorem NumberToString_capacity_example :
    NumberToString ⟨15, 7, true, [49, 50, 51, 52, 53, 54, 55]⟩ 78 2
        ⟨[3], [3], [3], [43], [45], [46], [44], [44], [46], [36], [44], [46], [37],
          [0x2030], [78, 97, 78], [73], [45, 73], 2, 2, 2, 1, 0, 0, 1, 1⟩ false =
        .ok [45, 49, 44, 50, 51, 52, 44, 53, 54, 55, 46, 48, 48] ∧
      NumberToStringBufferLen ⟨15, 7, true, [49, 50, 51, 52, 53, 54, 55]⟩ 78 2
        ⟨[3], [3], [3], [43], [45], [46], [44], [44], [46], [36], [44], [46], [37],
          [0x2030], [78, 97, 78], [73], [45, 73], 2, 2, 2, 1, 0, 0, 1, 1⟩ false = 125 := by
  constructor <;> decide!

/-- The sizing loop raises nothing when neither of its two sums can leave the
`int` range: the group sizes are at most `G` with `digPos + G` in range, and
the digits with one separator between any two of them fit. -/
theorem groupSizeLoop_ok (gd : List Int) (G : Int) (hg : ∀ g ∈ gd, 0 ≤ g ∧ g ≤ G)
    (digPos : Int) (sl : Nat) (hG : digPos + G ≤ 2147483647)
    (hB : digPos + (digPos - 1) * (sl : Int) ≤ 2147483647) (fuel : Nat) :
    ∀ (idx : Nat) (count bsz : Int) (k : Nat) (e : FormatError), 0 ≤ count →
      count ≤ digPos + G → bsz = digPos + (k : Int) * (sl : Int) → 0 ≤ bsz →
      (tableAt gd idx = 0 ∨ (k : Int) + 1 ≤ count) →
      groupSizeLoop gd digPos sl fuel idx count bsz ≠ .error e := by
  have hG0 : 0 ≤ G ∨ gd = [] := by
    cases gd with
    | nil => right; rfl
    | cons g _ =>
      left
      have := hg g (List.mem_cons_self _ _)
      omega
  have htab : ∀ i : Int, 0 ≤ tableAt gd i ∧ (tableAt gd i ≤ G ∨ tableAt gd i = 0) := by
    intro i
    unfold tableAt
    by_cases hi : i < 0
    · rw [if_pos hi]; exact ⟨le_refl _, Or.inr rfl⟩
    · rw [if_neg hi]
      by_cases hlt : i.toNat < gd.length
      · rw [List.getD_eq_getElem _ _ hlt]
        have := hg _ (List.getElem_mem hlt)
        exact ⟨this.1, Or.inl this.2⟩
      · rw [List.getD_eq_default _ _ (by omega)]; exact ⟨le_refl _, Or.inr rfl⟩
  induction fuel with
  | zero => intro idx count bsz k e _ _ _ _ _ h; simp [groupSizeLoop] at h
  | succ fuel ih =>
    intro idx count bsz k e hc0 hc1 hb hb0 hinv h
    unfold groupSizeLoop at h
    by_cases h1 : digPos > count
    · rw [if_pos h1] at h
      by_cases h2 : tableAt gd idx = 0
      · rw [if_pos h2] at h; cases h
      · rw [if_neg h2] at h
        dsimp only at h
        generalize (if (idx : Int) < (gd.length : Int) - 1 then idx + 1 else idx) = idx1 at h
        obtain ⟨ht0, ht1⟩ := htab idx1
        have hk : (k : Int) + 1 ≤ count := by
          rcases hinv with hz | hk
          · exact absurd hz h2
          · exact hk
        have hsl0 : (0 : Int) ≤ sl := Int.natCast_nonneg _
        have hmul : ((k : Int) + 1) * (sl : Int) ≤ (digPos - 1) * (sl : Int) :=
          mul_le_mul_of_nonneg_right (by omega) hsl0
        have hk0 : (0 : Int) ≤ (k : Int) * (sl : Int) := mul_nonneg (Int.natCast_nonneg _) hsl0
        have hexp : ((k : Int) + 1) * (sl : Int) = (k : Int) * (sl : Int) + sl := by ring
        have hb1 : wrapInt32 (bsz + (sl : Int)) = bsz + sl := by
          apply wrapInt32_of_range
          · omega
          · rw [hexp] at hmul
            generalize (k : Int) * (sl : Int) = P at hb hmul hk0
            generalize (digPos - 1) * (sl : Int) = Q at hB hmul
            omega
        have hc2 : wrapInt32 (count + tableAt gd idx1) = count + tableAt gd idx1 := by
          apply wrapInt32_of_range
          · omega
          · rcases ht1 with h | h <;> omega
        rw [hb1, hc2] at h
        have hnerr : ¬ (count + tableAt gd idx1 < 0 ∨ bsz + (sl : Int) < 0) := by
          rintro (h | h) <;> omega
        rw [if_neg hnerr] at h
        refine ih idx1 _ _ (k + 1) e (by omega) (by rcases ht1 with h | h <;> omega) ?_
          (by omega) ?_ h
        · rw [hb]; push_cast; ring
        · by_cases hz : tableAt gd idx1 = 0
          · left; exact hz
          · right; push_cast; omega
    · rw [if_neg h1] at h; cases h

theorem ite_failFast_ne {α : Type} (p : Prop) [Decidable p] (x : α) :
    (if p then (Except.error FormatError.failFast : Except FormatError α) else .ok x) ≠
      .error FormatError.argumentOutOfRange := by
  by_cases h : p
  · rw [if_pos h]; intro h2; cases h2
  · rw [if_neg h]; intro h2; cases h2

/-- The grouped integer part raises nothing under the bounds of
`groupSizeLoop_ok`. -/
theorem formatFixedGrouped_ok (buffer : List Nat) (number : NUMBER) (gd : List Int)
    (sGroup : List Nat) (G : Int) (hg : ∀ g ∈ gd, 0 ≤ g ∧ g ≤ G) (hpos : 0 < number.scale)
    (hG : number.scale + G ≤ 2147483647)
    (hB : number.scale + (number.scale - 1) * (sGroup.length : Int) ≤ 2147483647)
    (hsl : sGroup.length ≤ 2147483647) (e : FormatError) :
    formatFixedGrouped buffer number gd sGroup ≠ .error e := by
  intro h
  have hg2 : ∀ g ∈ gd, 0 ≤ g ∧ g ≤ 2147483647 := by
    intro g hm
    have := hg g hm
    omega
  have he := (formatFixedGrouped_length buffer number gd sGroup hg2 hsl hpos (by
    have : 0 ≤ (number.scale - 1) * (sGroup.length : Int) :=
      mul_nonneg (by omega) (Int.natCast_nonneg _)
    omega)).1 e h
  subst he
  unfold formatFixedGrouped at h
  dsimp only at h
  by_cases hlen : gd.length ≠ 0
  · simp only [hlen, ne_eq, not_false_eq_true, if_true] at h
    have hne : gd ≠ [] := fun h0 => hlen (by rw [h0]; rfl)
    have hG0 : 0 ≤ G := by
      obtain ⟨g, gs, rfl⟩ := List.exists_cons_of_ne_nil hne
      have := hg g (List.mem_cons_self _ _)
      omega
    have ht : 0 ≤ tableAt gd 0 ∧ tableAt gd 0 ≤ G := by
      unfold tableAt
      rw [if_neg (by decide)]
      by_cases hlt : (0 : Int).toNat < gd.length
      · rw [List.getD_eq_getElem _ _ hlt]
        exact hg _ (List.getElem_mem hlt)
      · rw [List.getD_eq_default _ _ (by omega)]; exact ⟨le_refl _, hG0⟩
    cases hs : groupSizeLoop gd number.scale (sGroup.length : Int)
        (gd.length + number.scale.toNat + 2) 0 (tableAt gd 0) number.scale with
    | error e' =>
      exact groupSizeLoop_ok gd G hg number.scale sGroup.length hG hB _ 0 _ _ 0 e' ht.1
        (by omega) (by simp) (by omega)
        (by
          simp only [Nat.cast_zero]
          by_cases hz : tableAt gd 0 = 0
          · left; exact hz
          · right; omega) hs
    | ok p =>
      rw [hs] at h
      dsimp only at h
      exact ite_failFast_ne _ _ h
  · simp only [hlen, if_false] at h
    exact ite_failFast_ne _ _ h

/-- `FormatFixed` raises nothing under the bounds of `groupSizeLoop_ok`. -/
theorem FormatFixed_ok (buffer : List Nat) (number : NUMBER) (digits : Int)
    (groupDigits : Option (List Int)) (sDecimal sGroup : List Nat) (G : Int)
    (hg : ∀ gd, groupDigits = some gd → ∀ g ∈ gd, 0 ≤ g ∧ g ≤ G)
    (hG : number.scale + G ≤ 2147483647)
    (hB : number.scale + (number.scale - 1) * (sGroup.length : Int) ≤ 2147483647)
    (hsl : sGroup.length ≤ 2147483647) (e : FormatError) :
    FormatFixed buffer number digits groupDigits sDecimal sGroup ≠ .error e := by
  intro h
  unfold FormatFixed at h
  dsimp only at h
  by_cases hs : number.scale > 0
  · rw [if_pos hs] at h
    cases groupDigits with
    | none =>
      dsimp only at h
      split at h <;> cases h
    | some gd =>
      dsimp only at h
      cases hff : formatFixedGrouped buffer number gd sGroup with
      | error e' =>
        exact formatFixedGrouped_ok buffer number gd sGroup G (hg gd rfl) hs hG hB hsl e' hff
      | ok r =>
        rw [hff] at h
        dsimp only at h
        split at h <;> cases h
  · rw [if_neg hs] at h
    dsimp only at h
    split at h <;> cases h

theorem FormatNumberLoop_ok (number : NUMBER) (digits : Int) (numfmt : NumberFormatInfo)
    (hF : ∀ buffer e, FormatFixed buffer number digits (some numfmt.cNumberGroup)
      numfmt.sNumberDecimal numfmt.sNumberGroup ≠ .error e) (tmpl : List Nat) :
    ∀ buffer e, FormatNumberLoop number digits numfmt tmpl buffer ≠ .error e := by
  induction tmpl with
  | nil => intro buffer e h; simp [FormatNumberLoop] at h
  | cons ch t ih =>
    intro buffer e h
    unfold FormatNumberLoop at h
    by_cases h0 : ch = 0
    · rw [if_pos h0] at h; cases h
    · rw [if_neg h0] at h
      by_cases h35 : ch = 35
      · rw [if_pos h35] at h
        cases hff : FormatFixed buffer number digits (some numfmt.cNumberGroup)
            numfmt.sNumberDecimal numfmt.sNumberGroup with
        | error e' => exact hF buffer e' hff
        | ok b =>
          rw [hff] at h
          exact ih b e h
      · rw [if_neg h35] at h
        by_cases h45 : ch = 45
        · rw [if_pos h45] at h; exact ih _ e h
        · rw [if_neg h45] at h; exact ih _ e h

theorem FormatCurrencyLoop_ok (number : NUMBER) (digits : Int) (numfmt : NumberFormatInfo)
    (hF : ∀ buffer e, FormatFixed buffer number digits (some numfmt.cCurrencyGroup)
      numfmt.sCurrencyDecimal numfmt.sCurrencyGroup ≠ .error e) (tmpl : List Nat) :
    ∀ buffer e, FormatCurrencyLoop number digits numfmt tmpl buffer ≠ .error e := by
  induction tmpl with
  | nil => intro buffer e h; simp [FormatCurrencyLoop] at h
  | cons ch t ih =>
    intro buffer e h
    unfold FormatCurrencyLoop at h
    by_cases h0 : ch = 0
    · rw [if_pos h0] at h; cases h
    · rw [if_neg h0] at h
      by_cases h35 : ch = 35
      · rw [if_pos h35] at h
        cases hff : FormatFixed buffer number digits (some numfmt.cCurrencyGroup)
            numfmt.sCurrencyDecimal numfmt.sCurrencyGroup with
        | error e' => exact hF buffer e' hff
        | ok b =>
          rw [hff] at h
          exact ih b e h
      · rw [if_neg h35] at h
        by_cases h45 : ch = 45
        · rw [if_pos h45] at h; exact ih _ e h
        · rw [if_neg h45] at h
          by_cases h36 : ch = 36
          · rw [if_pos h36] at h; exact ih _ e h
          · rw [if_neg h36] at h; exact ih _ e h

theorem FormatPercentLoop_ok (number : NUMBER) (digits : Int) (numfmt : NumberFormatInfo)
    (hF : ∀ buffer e, FormatFixed buffer number digits (some numfmt.cPercentGroup)
      numfmt.sPercentDecimal numfmt.sPercentGroup ≠ .error e) (tmpl : List Nat) :
    ∀ buffer e, FormatPercentLoop number digits numfmt tmpl buffer ≠ .error e := by
  induction tmpl with
  | nil => intro buffer e h; simp [FormatPercentLoop] at h
  | cons ch t ih =>
    intro buffer e h
    unfold FormatPercentLoop at h
    by_cases h0 : ch = 0
    · rw [if_pos h0] at h; cases h
    · rw [if_neg h0] at h
      by_cases h35 : ch = 35
      · rw [if_pos h35] at h
        cases hff : FormatFixed buffer number digits (some numfmt.cPercentGroup)
            numfmt.sPercentDecimal numfmt.sPercentGroup with
        | error e' => exact hF buffer e' hff
        | ok b =>
          rw [hff] at h
          exact ih b e h
      · rw [if_neg h35] at h
        by_cases h45 : ch = 45
        · rw [if_pos h45] at h; exact ih _ e h
        · rw [if_neg h45] at h
          by_cases h37 : ch = 37
          · rw [if_pos h37] at h; exact ih _ e h
          · rw [if_neg h37] at h; exact ih _ e h

theorem RoundNumber_scale_le (n : NUMBER) (pos : Int) (hdec : IsDecimal n.digits)
    (hs : -2147483648 ≤ n.scale ∧ n.scale < 2147483647) :
    (RoundNumber n pos).scale ≤ max n.scale 0 + 1 := by
  obtain ⟨-, -, hshape⟩ := RoundNumber_shape n pos hdec hs
  rcases hshape with h | h | h
  · rw [h.2.1]; omega
  · rw [h.2.2.1]; omega
  · rw [h.2.2.1]; omega

/-- The scale of the buffer `NumberToString` lays out is at most 3 above the
scale it was given (2 for the percent shift, 1 for a rounding carry). -/
theorem NumberToStringRounded_scale (number : NUMBER) (format : Nat) (digits : Int)
    (numfmt : NumberFormatInfo) (bDecimal : Bool) (hb : IsValidDigitBuffer number bDecimal) :
    (NumberToStringRounded number format digits numfmt bDecimal).scale ≤
      max number.scale 0 + 3 := by
  obtain ⟨hdec, hs1, hs2, -, -, -⟩ := hb
  have hr := fun pos => RoundNumber_scale_le number pos hdec ⟨hs1, by omega⟩
  unfold NumberToStringRounded
  dsimp only
  by_cases h1 : format &&& 0xFFDF = 67 ∨ format &&& 0xFFDF = 70 ∨ format &&& 0xFFDF = 78
  · rw [if_pos h1]
    have := hr (wrapInt32 (number.scale + effectiveDigits number format digits numfmt bDecimal))
    omega
  · rw [if_neg h1]
    by_cases h2 : format &&& 0xFFDF = 69
    · rw [if_pos h2]
      have := hr (effectiveDigits number format digits numfmt bDecimal)
      omega
    · rw [if_neg h2]
      by_cases h3 : format &&& 0xFFDF = 71
      · rw [if_pos h3]
        by_cases h4 : digits < 1 ∧ bDecimal = true ∧ digits = -1
        · rw [if_pos h4]
          by_cases h5 : wcharAt number.digits 0 = 0
          · rw [if_pos h5]
            show number.scale ≤ _
            omega
          · rw [if_neg h5]; omega
        · rw [if_neg h4]
          have := hr (effectiveDigits number format digits numfmt bDecimal)
          omega
      · rw [if_neg h3]
        by_cases h6 : format &&& 0xFFDF = 80
        · rw [if_pos h6]
          have hw : wrapInt32 (number.scale + 2) = number.scale + 2 :=
            wrapInt32_of_range _ (by omega) (by omega)
          rw [hw]
          have := RoundNumber_scale_le { number with scale := number.scale + 2 }
            (wrapInt32 (number.scale + 2 + effectiveDigits number format digits numfmt bDecimal))
            hdec ⟨by show -2147483648 ≤ number.scale + 2; omega,
              by show number.scale + 2 < 2147483647; omega⟩
          have hsc : ({ number with scale := number.scale + 2 } : NUMBER).scale =
              number.scale + 2 := rfl
          rw [hsc] at this
          omega
        · rw [if_neg h6]; omega

theorem effectiveDigits_range (number : NUMBER) (format : Nat) (digits : Int)
    (numfmt : NumberFormatInfo) (bDecimal : Bool) (hv : IsValidNumberFormatInfo numfmt)
    (hdig : -1 ≤ digits ∧ digits ≤ 99) (hp : 0 ≤ number.precision ∧ number.precision ≤ 100) :
    -1 ≤ effectiveDigits number format digits numfmt bDecimal ∧
      effectiveDigits number format digits numfmt bDecimal ≤ 100 := by
  obtain ⟨h1, h2, h3, -⟩ := hv
  unfold effectiveDigits DECIMAL_PRECISION
  dsimp only
  by_cases a1 : format &&& 0xFFDF = 67
  · rw [if_pos a1]; split <;> omega
  · rw [if_neg a1]
    by_cases a2 : format &&& 0xFFDF = 70 ∨ format &&& 0xFFDF = 78
    · rw [if_pos a2]; split <;> omega
    · rw [if_neg a2]
      by_cases a3 : format &&& 0xFFDF = 69
      · rw [if_pos a3]
        unfold wrapInt32
        split <;> omega
      · rw [if_neg a3]
        by_cases a4 : format &&& 0xFFDF = 71
        · rw [if_pos a4]
          split
          · split <;> omega
          · omega
        · rw [if_neg a4]
          by_cases a5 : format &&& 0xFFDF = 80
          · rw [if_pos a5]; split <;> omega
          · rw [if_neg a5]; omega

theorem int_mul_le_modest (L : Nat) (x : Int) (hL : L ≤ 1048576) (hx : x ≤ 502) :
    (L : Int) * x ≤ 526385152 := by
  have hL0 : (0 : Int) ≤ L := Int.natCast_nonneg _
  have hL1 : (L : Int) ≤ 1048576 := by exact_mod_cast hL
  by_cases h0 : 0 ≤ x
  · nlinarith
  · have : (L : Int) * x ≤ 0 := mul_nonpos_of_nonneg_of_nonpos hL0 (by omega)
    omega

/-- For a configuration of moderate size and a buffer with a scale of at most
400 the capacity is below `INT32_MAX`. -/
theorem NumberToStringBufferLen_modest (number : NUMBER) (format : Nat) (digits : Int)
    (numfmt : NumberFormatInfo) (bDecimal : Bool) (hm : IsModestNumberFormatInfo numfmt)
    (hb : IsValidDigitBuffer number bDecimal) (hdig : -1 ≤ digits ∧ digits ≤ 99)
    (hsc : number.scale ≤ 400) (hpr : number.precision ≤ 100) :
    NumberToStringBufferLen number format digits numfmt bDecimal ≤ 2147483647 := by
  obtain ⟨hv, -, -, -, hpos, hneg, hnd, hng, hcg, hcd, hcur, hpg, hpd, hpc⟩ := hm
  obtain ⟨-, hs1, -, hp1, -, -⟩ := hb
  have heff := effectiveDigits_range number format digits numfmt bDecimal hv hdig ⟨hp1, hpr⟩
  unfold NumberToStringBufferLen
  dsimp only
  generalize effectiveDigits number format digits numfmt bDecimal = d at heff
  have hsc2 : (if format &&& 0xFFDF = 80 then wrapInt32 (number.scale + 2)
      else number.scale) ≤ 402 := by
    split
    · rw [wrapInt32_of_range _ (by omega) (by omega)]; omega
    · omega
  generalize (if format &&& 0xFFDF = 80 then wrapInt32 (number.scale + 2)
    else number.scale) = sc at hsc2
  have hdc : (if sc < 0 then (0 : Int) else wrapInt32 (sc + d)) ≤ 502 := by
    by_cases hn : sc < 0
    · rw [if_pos hn]; decide
    · rw [if_neg hn, wrapInt32_of_range _ (by omega) (by omega)]; omega
  generalize (if sc < 0 then (0 : Int) else wrapInt32 (sc + d)) = dc at hdc
  have h1 := int_mul_le_modest _ dc hng hdc
  have h2 := int_mul_le_modest _ dc hcg hdc
  have h3 := int_mul_le_modest _ dc hpg hdc
  have hu : (toUInt32 ((numfmt.sNegative.length + numfmt.sPositive.length) * 2) : Int) ≤
      4194304 := by
    unfold toUInt32
    rw [Nat.mod_eq_of_lt (by omega)]
    omega
  generalize (numfmt.sNumberGroup.length : Int) * dc = P1 at h1
  generalize (numfmt.sCurrencyGroup.length : Int) * dc = P2 at h2
  generalize (numfmt.sPercentGroup.length : Int) * dc = P3 at h3
  generalize toUInt32 ((numfmt.sNegative.length + numfmt.sPositive.length) * 2) = U at hu
  unfold MIN_BUFFER_SIZE
  split
  · omega
  · split
    · omega
    · split
      · omega
      · split
        · omega
        · split
          · omega
          · split <;> omega

theorem scale_separator_bound (s : Int) (L : Nat) (hs : s ≤ 403) (hL : L ≤ 1048576) :
    s + (s - 1) * (L : Int) ≤ 2147483647 := by
  have hL0 : (0 : Int) ≤ L := Int.natCast_nonneg _
  have hL1 : (L : Int) ≤ 1048576 := by exact_mod_cast hL
  by_cases h0 : 0 ≤ s - 1
  · have : (s - 1) * (L : Int) ≤ 402 * 1048576 := mul_le_mul (by omega) hL1 hL0 (by decide)
    omega
  · have : (s - 1) * (L : Int) ≤ 0 := mul_nonpos_of_nonpos_of_nonneg (by omega) hL0
    omega

/-- `NumberToString` returns a string as soon as the format kind is known, the
capacity is within `INT32_MAX`, the layout routine raises nothing and the
final check passes. -/
theorem NumberToString_ok_of_text (number : NUMBER) (format : Nat) (digits : Int)
    (numfmt : NumberFormatInfo) (bDecimal : Bool)
    (hset : format &&& 0xFFDF = 67 ∨ format &&& 0xFFDF = 70 ∨ format &&& 0xFFDF = 78 ∨
      format &&& 0xFFDF = 69 ∨ format &&& 0xFFDF = 71 ∨ format &&& 0xFFDF = 80)
    (hcap : NumberToStringBufferLen number format digits numfmt bDecimal ≤ INT32_MAX)
    (hnf : NumberToString number format digits numfmt bDecimal ≠ .error FormatError.failFast)
    (htext : ∀ e,
        (if format &&& 0xFFDF = 67 then
            FormatCurrency [] (NumberToStringRounded number format digits numfmt bDecimal)
              (effectiveDigits number format digits numfmt bDecimal) numfmt
          else if format &&& 0xFFDF = 70 then
            FormatFixed
              (if (NumberToStringRounded number format digits numfmt bDecimal).sign then
                numfmt.sNegative else [])
              (NumberToStringRounded number format digits numfmt bDecimal)
              (effectiveDigits number format digits numfmt bDecimal) none numfmt.sNumberDecimal []
          else if format &&& 0xFFDF = 78 then
            FormatNumber [] (NumberToStringRounded number format digits numfmt bDecimal)
              (effectiveDigits number format digits numfmt bDecimal) numfmt
          else if format &&& 0xFFDF = 69 then
            .ok (FormatScientific
              (if (NumberToStringRounded number format digits numfmt bDecimal).sign then
                numfmt.sNegative else [])
              (NumberToStringRounded number format digits numfmt bDecimal)
              (effectiveDigits number format digits numfmt bDecimal) format numfmt)
          else if format &&& 0xFFDF = 71 then
            .ok (FormatGeneral
              (if (NumberToStringRounded number format digits numfmt bDecimal).sign then
                numfmt.sNegative else [])
              (NumberToStringRounded number format digits numfmt bDecimal)
              (effectiveDigits number format digits numfmt bDecimal)
              (toWchar (format + 65536 - 2)) numfmt
              (decide (digits < 1 ∧ bDecimal ∧ digits = -1)))
          else FormatPercent [] (NumberToStringRounded number format digits numfmt bDecimal)
            (effectiveDigits number format digits numfmt bDecimal) numfmt) ≠ .error e) :
    ∃ dst, NumberToString number format digits numfmt bDecimal = .ok dst := by
  unfold NumberToString at hnf ⊢
  dsimp only at hnf ⊢
  have hc : ¬ NumberToStringBufferLen number format digits numfmt bDecimal > INT32_MAX := by
    omega
  rw [if_pos hset, if_neg hc] at hnf ⊢
  generalize (if format &&& 0xFFDF = 67 then
            FormatCurrency [] (NumberToStringRounded number format digits numfmt bDecimal)
              (effectiveDigits number format digits numfmt bDecimal) numfmt
          else if format &&& 0xFFDF = 70 then
            FormatFixed
              (if (NumberToStringRounded number format digits numfmt bDecimal).sign then
                numfmt.sNegative else [])
              (NumberToStringRounded number format digits numfmt bDecimal)
              (effectiveDigits number format digits numfmt bDecimal) none numfmt.sNumberDecimal []
          else if format &&& 0xFFDF = 78 then
            FormatNumber [] (NumberToStringRounded number format digits numfmt bDecimal)
              (effectiveDigits number format digits numfmt bDecimal) numfmt
          else if format &&& 0xFFDF = 69 then
            .ok (FormatScientific
              (if (NumberToStringRounded number format digits numfmt bDecimal).sign then
                numfmt.sNegative else [])
              (NumberToStringRounded number format digits numfmt bDecimal)
              (effectiveDigits number format digits numfmt bDecimal) format numfmt)
          else if format &&& 0xFFDF = 71 then
            .ok (FormatGeneral
              (if (NumberToStringRounded number format digits numfmt bDecimal).sign then
                numfmt.sNegative else [])
              (NumberToStringRounded number format digits numfmt bDecimal)
              (effectiveDigits number format digits numfmt bDecimal)
              (toWchar (format + 65536 - 2)) numfmt
              (decide (digits < 1 ∧ bDecimal ∧ digits = -1)))
          else FormatPercent [] (NumberToStringRounded number format digits numfmt bDecimal)
            (effectiveDigits number format digits numfmt bDecimal) numfmt) = text
    at hnf htext ⊢
  cases text with
  | error e => exact absurd rfl (htext e)
  | ok dst =>
    dsimp only at hnf ⊢
    by_cases hl : (dst.length : Int) ≤
        NumberToStringBufferLen number format digits numfmt bDecimal * 2
    · rw [if_pos hl]; exact ⟨dst, rfl⟩
    · rw [if_neg hl] at hnf; exact absurd rfl hnf

/-- For a configuration of moderate size, a buffer of decimal digits with a
scale of at most 400 and a precision in `-1..99`, `NumberToString` returns a
string for each of the format kinds `C`, `F`, `N`, `E`, `G`, `P`. -/
theorem NumberToString_ok (number : NUMBER) (format : Nat) (digits : Int)
    (numfmt : NumberFormatInfo) (bDecimal : Bool) (hm : IsModestNumberFormatInfo numfmt)
    (hb : IsValidDigitBuffer number bDecimal) (hdig : -1 ≤ digits ∧ digits ≤ 99)
    (hsc : number.scale ≤ 400) (hpr : number.precision ≤ 100)
    (hset : format &&& 0xFFDF = 67 ∨ format &&& 0xFFDF = 70 ∨ format &&& 0xFFDF = 78 ∨
      format &&& 0xFFDF = 69 ∨ format &&& 0xFFDF = 71 ∨ format &&& 0xFFDF = 80) :
    ∃ dst, NumberToString number format digits numfmt bDecimal = .ok dst := by
  have hv := hm.1
  have hm' := hm
  obtain ⟨-, hgn, hgc, hgp, -, -, -, hng, hcg, -, -, hpg, -, -⟩ := hm
  have hv' := hv
  obtain ⟨-, -, -, hn0, hc0, hp0, -⟩ := hv'
  have hrs := NumberToStringRounded_scale number format digits numfmt bDecimal hb
  have hrs2 : (NumberToStringRounded number format digits numfmt bDecimal).scale ≤ 403 := by
    omega
  refine NumberToString_ok_of_text number format digits numfmt bDecimal hset
    (NumberToStringBufferLen_modest number format digits numfmt bDecimal hm' hb hdig hsc hpr)
    (NumberToString_capacity_all number format digits numfmt bDecimal hv hb hdig).1 ?_
  intro e
  generalize NumberToStringRounded number format digits numfmt bDecimal = r at hrs2
  generalize effectiveDigits number format digits numfmt bDecimal = d
  by_cases h67 : format &&& 0xFFDF = 67
  · rw [if_pos h67]
    unfold FormatCurrency
    exact FormatCurrencyLoop_ok r d numfmt
      (fun buffer e' => FormatFixed_ok buffer r d _ _ _ 1073741824
        (fun gd h g hgm => by
          injection h with h
          rw [← h] at hgm
          exact ⟨(hc0 g hgm).1, hgc g hgm⟩)
        (by omega) (scale_separator_bound _ _ hrs2 hcg) (by omega) e') _ _ e
  · rw [if_neg h67]
    by_cases h70 : format &&& 0xFFDF = 70
    · rw [if_pos h70]
      exact FormatFixed_ok _ r d none _ [] 0 (fun gd h => by cases h) (by omega)
        (by simp only [List.length_nil, Nat.cast_zero, mul_zero, add_zero]; omega)
        (by simp) e
    · rw [if_neg h70]
      by_cases h78 : format &&& 0xFFDF = 78
      · rw [if_pos h78]
        unfold FormatNumber
        exact FormatNumberLoop_ok r d numfmt
          (fun buffer e' => FormatFixed_ok buffer r d _ _ _ 1073741824
            (fun gd h g hgm => by
              injection h with h
              rw [← h] at hgm
              exact ⟨(hn0 g hgm).1, hgn g hgm⟩)
            (by omega) (scale_separator_bound _ _ hrs2 hng) (by omega) e') _ _ e
      · rw [if_neg h78]
        by_cases h69 : format &&& 0xFFDF = 69
        · rw [if_pos h69]; intro h; cases h
        · rw [if_neg h69]
          by_cases h71 : format &&& 0xFFDF = 71
          · rw [if_pos h71]; intro h; cases h
          · rw [if_neg h71]
            unfold FormatPercent
            exact FormatPercentLoop_ok r d numfmt
              (fun buffer e' => FormatFixed_ok buffer r d _ _ _ 1073741824
                (fun gd h g hgm => by
                  injection h with h
                  rw [← h] at hgm
                  exact ⟨(hp0 g hgm).1, hgp g hgm⟩)
                (by omega) (scale_separator_bound _ _ hrs2 hpg) (by omega) e') _ _ e

theorem ite_failFast_kind {α : Type} (p : Prop) [Decidable p] (x : α) (e : FormatError)
    (h : (if p then (Except.error FormatError.failFast : Except FormatError α) else .ok x) =
      .error e) : e = FormatError.failFast := by
  by_cases hp : p
  · rw [if_pos hp] at h; injection h with h; exact h.symm
  · rw [if_neg hp] at h; cases h

/-- The grouped integer part raises the argument error or stops at the
fail-fast check, nothing else. -/
theorem formatFixedGrouped_error_kind (buffer : List Nat) (number : NUMBER) (gd : List Int)
    (sGroup : List Nat) (e : FormatError)
    (h : formatFixedGrouped buffer number gd sGroup = .error e) :
    e = FormatError.argumentOutOfRange ∨ e = FormatError.failFast := by
  unfold formatFixedGrouped at h
  dsimp only at h
  by_cases hlen : gd.length ≠ 0
  · simp only [hlen, ne_eq, not_false_eq_true, if_true] at h
    cases hs : groupSizeLoop gd number.scale (sGroup.length : Int)
        (gd.length + number.scale.toNat + 2) 0 (tableAt gd 0) number.scale with
    | error e' =>
      rw [hs] at h
      injection h with h
      left
      rw [← h]
      exact groupSizeLoop_error _ _ _ _ _ _ _ _ hs
    | ok p =>
      rw [hs] at h
      dsimp only at h
      right
      exact ite_failFast_kind _ _ e h
  · simp only [hlen, if_false] at h
    right
    exact ite_failFast_kind _ _ e h

theorem FormatFixed_error_kind (buffer : List Nat) (number : NUMBER) (digits : Int)
    (groupDigits : Option (List Int)) (sDecimal sGroup : List Nat) (e : FormatError)
    (h : FormatFixed buffer number digits groupDigits sDecimal sGroup = .error e) :
    e = FormatError.argumentOutOfRange ∨ e = FormatError.failFast := by
  unfold FormatFixed at h
  dsimp only at h
  by_cases hs : number.scale > 0
  · rw [if_pos hs] at h
    cases groupDigits with
    | none =>
      dsimp only at h
      split at h <;> cases h
    | some gd =>
      dsimp only at h
      cases hff : formatFixedGrouped buffer number gd sGroup with
      | error e' =>
        rw [hff] at h
        injection h with h
        rw [← h]
        exact formatFixedGrouped_error_kind _ _ _ _ _ hff
      | ok r =>
        rw [hff] at h
        dsimp only at h
        split at h <;> cases h
  · rw [if_neg hs] at h
    dsimp only at h
    split at h <;> cases h

theorem FormatNumberLoop_error_kind (number : NUMBER) (digits : Int) (numfmt : NumberFormatInfo)
    (tmpl : List Nat) :
    ∀ buffer e, FormatNumberLoop number digits numfmt tmpl buffer = .error e →
      e = FormatError.argumentOutOfRange ∨ e = FormatError.failFast := by
  induction tmpl with
  | nil => intro buffer e h; simp [FormatNumberLoop] at h
  | cons ch t ih =>
    intro buffer e h
    unfold FormatNumberLoop at h
    by_cases h0 : ch = 0
    · rw [if_pos h0] at h; cases h
    · rw [if_neg h0] at h
      by_cases h35 : ch = 35
      · rw [if_pos h35] at h
        cases hff : FormatFixed buffer number digits (some numfmt.cNumberGroup)
            numfmt.sNumberDecimal numfmt.sNumberGroup with
        | error e' =>
          rw [hff] at h
          injection h with h
          rw [← h]
          exact FormatFixed_error_kind _ _ _ _ _ _ _ hff
        | ok b =>
          rw [hff] at h
          exact ih b e h
      · rw [if_neg h35] at h
        by_cases h45 : ch = 45
        · rw [if_pos h45] at h; exact ih _ e h
        · rw [if_neg h45] at h; exact ih _ e h

theorem FormatCurrencyLoop_error_kind (number : NUMBER) (digits : Int)
    (numfmt : NumberFormatInfo) (tmpl : List Nat) :
    ∀ buffer e, FormatCurrencyLoop number digits numfmt tmpl buffer = .error e →
      e = FormatError.argumentOutOfRange ∨ e = FormatError.failFast := by
  induction tmpl with
  | nil => intro buffer e h; simp [FormatCurrencyLoop] at h
  | cons ch t ih =>
    intro buffer e h
    unfold FormatCurrencyLoop at h
    by_cases h0 : ch = 0
    · rw [if_pos h0] at h; cases h
    · rw [if_neg h0] at h
      by_cases h35 : ch = 35
      · rw [if_pos h35] at h
        cases hff : FormatFixed buffer number digits (some numfmt.cCurrencyGroup)
            numfmt.sCurrencyDecimal numfmt.sCurrencyGroup with
        | error e' =>
          rw [hff] at h
          injection h with h
          rw [← h]
          exact FormatFixed_error_kind _ _ _ _ _ _ _ hff
        | ok b =>
          rw [hff] at h
          exact ih b e h
      · rw [if_neg h35] at h
        by_cases h45 : ch = 45
        · rw [if_pos h45] at h; exact ih _ e h
        · rw [if_neg h45] at h
          by_cases h36 : ch = 36
          · rw [if_pos h36] at h; exact ih _ e h
          · rw [if_neg h36] at h; exact ih _ e h

theorem FormatPercentLoop_error_kind (number : NUMBER) (digits : Int)
    (numfmt : NumberFormatInfo) (tmpl : List Nat) :
    ∀ buffer e, FormatPercentLoop number digits numfmt tmpl buffer = .error e →
      e = FormatError.argumentOutOfRange ∨ e = FormatError.failFast := by
  induction tmpl with
  | nil => intro buffer e h; simp [FormatPercentLoop] at h
  | cons ch t ih =>
    intro buffer e h
    unfold FormatPercentLoop at h
    by_cases h0 : ch = 0
    · rw [if_pos h0] at h; cases h
    · rw [if_neg h0] at h
      by_cases h35 : ch = 35
      · rw [if_pos h35] at h
        cases hff : FormatFixed buffer number digits (some numfmt.cPercentGroup)
            numfmt.sPercentDecimal numfmt.sPercentGroup with
        | error e' =>
          rw [hff] at h
          injection h with h
          rw [← h]
          exact FormatFixed_error_kind _ _ _ _ _ _ _ hff
        | ok b =>
          rw [hff] at h
          exact ih b e h
      · rw [if_neg h35] at h
        by_cases h45 : ch = 45
        · rw [if_pos h45] at h; exact ih _ e h
        · rw [if_neg h45] at h
          by_cases h37 : ch = 37
          · rw [if_pos h37] at h; exact ih _ e h
          · rw [if_neg h37] at h; exact ih _ e h

/-- `NumberToString` raises the format-specifier error exactly when the format
letter is, case-insensitively, none of `C`, `F`, `N`, `E`, `G`, `P`. -/
theorem NumberToString_badFormat_iff (number : NUMBER) (format : Nat) (digits : Int)
    (numfmt : NumberFormatInfo) (bDecimal : Bool) :
    NumberToString number format digits numfmt bDecimal =
        .error FormatError.badFormatSpecifier ↔
      ¬ (format &&& 0xFFDF = 67 ∨ format &&& 0xFFDF = 70 ∨ format &&& 0xFFDF = 78 ∨
        format &&& 0xFFDF = 69 ∨ format &&& 0xFFDF = 71 ∨ format &&& 0xFFDF = 80) := by
  unfold NumberToString
  dsimp only
  by_cases hset : format &&& 0xFFDF = 67 ∨ format &&& 0xFFDF = 70 ∨ format &&& 0xFFDF = 78 ∨
      format &&& 0xFFDF = 69 ∨ format &&& 0xFFDF = 71 ∨ format &&& 0xFFDF = 80
  · rw [if_pos hset]
    refine ⟨fun h => ?_, fun h => absurd hset h⟩
    exfalso
    by_cases hcap : NumberToStringBufferLen number format digits numfmt bDecimal > INT32_MAX
    · rw [if_pos hcap] at h; cases h
    · rw [if_neg hcap] at h
      have htext : ∀ e,
          (if format &&& 0xFFDF = 67 then
            FormatCurrency [] (NumberToStringRounded number format digits numfmt bDecimal)
              (effectiveDigits number format digits numfmt bDecimal) numfmt
          else if format &&& 0xFFDF = 70 then
            FormatFixed
              (if (NumberToStringRounded number format digits numfmt bDecimal).sign then
                numfmt.sNegative else [])
              (NumberToStringRounded number format digits numfmt bDecimal)
              (effectiveDigits number format digits numfmt bDecimal) none numfmt.sNumberDecimal []
          else if format &&& 0xFFDF = 78 then
            FormatNumber [] (NumberToStringRounded number format digits numfmt bDecimal)
              (effectiveDigits number format digits numfmt bDecimal) numfmt
          else if format &&& 0xFFDF = 69 then
            .ok (FormatScientific
              (if (NumberToStringRounded number format digits numfmt bDecimal).sign then
                numfmt.sNegative else [])
              (NumberToStringRounded number format digits numfmt bDecimal)
              (effectiveDigits number format digits numfmt bDecimal) format numfmt)
          else if format &&& 0xFFDF = 71 then
            .ok (FormatGeneral
              (if (NumberToStringRounded number format digits numfmt bDecimal).sign then
                numfmt.sNegative else [])
              (NumberToStringRounded number format digits numfmt bDecimal)
              (effectiveDigits number format digits numfmt bDecimal)
              (toWchar (format + 65536 - 2)) numfmt
              (decide (digits < 1 ∧ bDecimal ∧ digits = -1)))
          else FormatPercent [] (NumberToStringRounded number format digits numfmt bDecimal)
            (effectiveDigits number format digits numfmt bDecimal) numfmt) = .error e →
          e = FormatError.argumentOutOfRange ∨ e = FormatError.failFast := by
        intro e
        by_cases h67 : format &&& 0xFFDF = 67
        · rw [if_pos h67]
          exact FormatCurrencyLoop_error_kind _ _ _ _ _ e
        · rw [if_neg h67]
          by_cases h70 : format &&& 0xFFDF = 70
          · rw [if_pos h70]
            exact FormatFixed_error_kind _ _ _ _ _ _ e
          · rw [if_neg h70]
            by_cases h78 : format &&& 0xFFDF = 78
            · rw [if_pos h78]
              exact FormatNumberLoop_error_kind _ _ _ _ _ e
            · rw [if_neg h78]
              by_cases h69 : format &&& 0xFFDF = 69
              · rw [if_pos h69]; intro h; cases h
              · rw [if_neg h69]
                by_cases h71 : format &&& 0xFFDF = 71
                · rw [if_pos h71]; intro h; cases h
                · rw [if_neg h71]
                  exact FormatPercentLoop_error_kind _ _ _ _ _ e
      generalize (if format &&& 0xFFDF = 67 then
            FormatCurrency [] (NumberToStringRounded number format digits numfmt bDecimal)
              (effectiveDigits number format digits numfmt bDecimal) numfmt
          else if format &&& 0xFFDF = 70 then
            FormatFixed
              (if (NumberToStringRounded number format digits numfmt bDecimal).sign then
                numfmt.sNegative else [])
              (NumberToStringRounded number format digits numfmt bDecimal)
              (effectiveDigits number format digits numfmt bDecimal) none numfmt.sNumberDecimal []
          else if format &&& 0xFFDF = 78 then
            FormatNumber [] (NumberToStringRounded number format digits numfmt bDecimal)
              (effectiveDigits number format digits numfmt bDecimal) numfmt
          else if format &&& 0xFFDF = 69 then
            .ok (FormatScientific
              (if (NumberToStringRounded number format digits numfmt bDecimal).sign then
                numfmt.sNegative else [])
              (NumberToStringRounded number format digits numfmt bDecimal)
              (effectiveDigits number format digits numfmt bDecimal) format numfmt)
          else if format &&& 0xFFDF = 71 then
            .ok (FormatGeneral
              (if (NumberToStringRounded number format digits numfmt bDecimal).sign then
                numfmt.sNegative else [])
              (NumberToStringRounded number format digits numfmt bDecimal)
              (effectiveDigits number format digits numfmt bDecimal)
              (toWchar (format + 65536 - 2)) numfmt
              (decide (digits < 1 ∧ bDecimal ∧ digits = -1)))
          else FormatPercent [] (NumberToStringRounded number format digits numfmt bDecimal)
            (effectiveDigits number format digits numfmt bDecimal) numfmt) = text
        at h htext
      cases text with
      | error e =>
        dsimp only at h
        injection h with h
        subst h
        rcases htext _ rfl with h | h <;> cases h
      | ok dst =>
        dsimp only at h
        split at h <;> cases h
  · rw [if_neg hset]
    exact ⟨fun _ => hset, fun _ => rfl⟩

theorem ite_outOfMemory_ne {α : Type} (p : Prop) [Decidable p] (x : α) :
    (if p then (Except.error FormatError.outOfMemory : Except FormatError α) else .ok x) ≠
      .error FormatError.badFormatSpecifier := by
  by_cases h : p
  · rw [if_pos h]; intro h2; cases h2
  · rw [if_neg h]; intro h2; cases h2

/-- The picture formatter never raises the format-specifier error. -/
theorem NumberToStringFormat_not_badFormat (number : NUMBER) (format : List Nat)
    (numfmt : NumberFormatInfo) :
    NumberToStringFormat number format numfmt ≠ .error FormatError.badFormatSpecifier := by
  unfold NumberToStringFormat
  dsimp only
  intro h
  split at h
  · cases h
  · exact ite_outOfMemory_ne _ _ h

/-! ## Format letters -/

/-- A format string that is a single letter parses to that letter without a
precision. -/
theorem ParseFormatSpecifier_letter (ch : Nat) (digits0 : Int)
    (hch : (65 ≤ ch ∧ ch ≤ 90) ∨ (97 ≤ ch ∧ ch ≤ 122)) :
    ParseFormatSpecifier (some [ch]) digits0 = (ch, -1) := by
  unfold ParseFormatSpecifier
  have h0 : wcharAt [ch] 0 = ch := rfl
  have h1 : wcharAt [ch] 1 = 0 := rfl
  have hne : ch ≠ 0 := by omega
  simp only [h0, h1, hne, ne_eq, not_false_eq_true, if_true, hch]
  simp [h1]

/-- The buffer `Int32ToNumber` builds is a valid digit buffer of at most 10
digits. -/
theorem Int32ToNumber_valid (v : Int) (hv : -2147483648 ≤ v ∧ v ≤ 2147483647) :
    IsValidDigitBuffer (Int32ToNumber v) false ∧ (Int32ToNumber v).scale ≤ 400 ∧
      (Int32ToNumber v).precision ≤ 100 := by
  rw [Int32ToNumber_eq v hv]
  have hlen := decimalNumeral_length_le v.natAbs 10 (by omega)
  unfold IsValidDigitBuffer
  dsimp only
  refine ⟨⟨decimalNumeral_isDecimal _, by omega, by omega, by decide, by decide,
    fun h => by cases h⟩, by omega, by decide⟩

/-- The decimal point a correctly rounding generator reports for a finite
double lies within 400 of zero. -/
theorem decpt_bounded (v : Nat) (p : Nat) (r : EcvtResult) (hv : IsFiniteDouble v)
    (hp1 : 0 < p) (hp2 : p ≤ 17) (hr : IsCorrectlyRounded v p r) :
    -400 ≤ r.decpt ∧ r.decpt ≤ 400 := by
  obtain ⟨-, hlen, hdec, hrest⟩ := hr
  by_cases hz : v % 2 ^ 63 = 0
  · rw [if_pos hz] at hrest
    omega
  · rw [if_neg hz] at hrest
    obtain ⟨M, E, hM1, hM2, hE1, hE2, hmag, -⟩ := double_normal_form (v % 2 ^ 63)
      (Nat.mod_lt _ (by norm_num)) (by rw [doubleExpField_mod]; exact hv.2) hz
    rw [doubleMagnitude_mod] at hmag
    have hne : r.digits ≠ [] := by
      intro h
      rw [h] at hlen
      simp at hlen
      omega
    have hD1 : 1 ≤ digitsValue r.digits := by
      have h1 := digitsValue_ge_of_head _ hdec hne hrest.1
      have h2 : 1 ≤ 10 ^ (r.digits.length - 1) := Nat.one_le_pow _ _ (by decide)
      omega
    have hD2 : digitsValue r.digits < 10 ^ 17 := by
      have h1 := digitsValue_lt _ hdec
      have h2 : 10 ^ r.digits.length ≤ 10 ^ 17 :=
        Nat.pow_le_pow_right (by decide) (by omega)
      omega
    have hcl := hrest.2
    rw [hmag] at hcl
    have := decimal_scale_bounded _ E _ M hE1 hE2 hD1 hD2 hM1 hM2 hcl
    omega

/-- The buffer `DoubleToNumber` builds from a correctly rounding generator is
a valid digit buffer with a moderate scale, and its scale is not a sentinel. -/
theorem DoubleToNumber_valid (ecvt : Nat → Int → EcvtResult) (v : Nat) (p : Nat)
    (hv : IsFiniteDouble v) (hp1 : 0 < p) (hp2 : p ≤ 17)
    (hr : IsCorrectlyRounded v p (ecvt v p)) :
    IsValidDigitBuffer (DoubleToNumber ecvt v p) false ∧ (DoubleToNumber ecvt v p).scale ≤ 400 ∧
      (DoubleToNumber ecvt v p).precision ≤ 100 ∧
      (DoubleToNumber ecvt v p).scale ≠ SCALE_NAN ∧
      (DoubleToNumber ecvt v p).scale ≠ SCALE_INF := by
  have hb := decpt_bounded v p _ hv hp1 hp2 hr
  have hs := decpt_not_sentinel v p _ hv hp1 hp2 hr
  have hdec := hr.2.2.1
  unfold DoubleToNumber IsValidDigitBuffer
  rw [if_neg hv.2]
  dsimp only
  unfold SCALE_NAN SCALE_INF at hs
  refine ⟨⟨?_, by omega, by omega, by omega, by omega, fun h => by cases h⟩, hb.2, by omega,
    ?_, ?_⟩
  rotate_left
  · unfold SCALE_NAN; exact hs.1
  · unfold SCALE_INF; exact hs.2
  split
  · rw [cstr_of_ne_zero _ hdec.ne_zero]; exact hdec
  · intro c hc; cases hc

/-- C21 as stated fails: for the finite double `1.0` the letters `D` and `X`
raise the format-specifier error; for the 32-bit integer `5` the letter `R`
raises it; and for a NaN the letter `Q` raises nothing (the NaN symbol is
returned before the letter is looked at). -/
theorem single_letter_support_depends_on_type :
    FormatDouble (fun _ _ => ⟨49 :: List.replicate 14 48, 1, false⟩) 0x3FF0000000000000
        (some [68])
        (some ⟨[3], [3], [3], [43], [45], [46], [44], [44], [46], [36], [44], [46], [37],
          [0x2030], [78, 97, 78], [73], [45, 73], 2, 2, 2, 1, 0, 0, 1, 1⟩) 0 =
        .error FormatError.badFormatSpecifier ∧
      FormatDouble (fun _ _ => ⟨49 :: List.replicate 14 48, 1, false⟩) 0x3FF0000000000000
        (some [88])
        (some ⟨[3], [3], [3], [43], [45], [46], [44], [44], [46], [36], [44], [46], [37],
          [0x2030], [78, 97, 78], [73], [45, 73], 2, 2, 2, 1, 0, 0, 1, 1⟩) 0 =
        .error FormatError.badFormatSpecifier ∧
      FormatInt32 5 (some [82])
        (some ⟨[3], [3], [3], [43], [45], [46], [44], [44], [46], [36], [44], [46], [37],
          [0x2030], [78, 97, 78], [73], [45, 73], 2, 2, 2, 1, 0, 0, 1, 1⟩) 0 =
        .error FormatError.badFormatSpecifier ∧
      FormatDouble (fun _ _ => ⟨[], 0, false⟩) 0x7FF8000000000000 (some [81])
        (some ⟨[3], [3], [3], [43], [45], [46], [44], [44], [46], [36], [44], [46], [37],
          [0x2030], [78, 97, 78], [73], [45, 73], 2, 2, 2, 1, 0, 0, 1, 1⟩) 0 =
        .ok [78, 97, 78] := by
  refine ⟨by decide, by decide, by decide, by decide⟩

/-- C21 (amended): for every format string consisting of a single ASCII
letter, with `U` the letter in upper case. `FormatInt32` raises the
format-specifier error exactly when `U` is none of `C, D, E, F, G, N, P, X`;
it returns the decimal string for `D` and `G` and the hexadecimal string for
`X`, and for `C, E, F, N, P` it returns a string under a configuration of
moderate size whose pattern indices select a template of their table.
`FormatDouble` of a finite value (with a correctly rounding digit generator)
raises the format-specifier error exactly when `U` is none of
`C, E, F, G, N, P, R`, and returns a string for these letters under such a
configuration. -/
theorem single_letter_formats (ch : Nat) (numfmt : NumberFormatInfo) (digits0 : Int)
    (hch : (65 ≤ ch ∧ ch ≤ 90) ∨ (97 ≤ ch ∧ ch ≤ 122)) :
    (∀ v : Int,
      (FormatInt32 v (some [ch]) (some numfmt) digits0 =
          .error FormatError.badFormatSpecifier ↔
        ¬ (ch &&& 0xFFDF = 67 ∨ ch &&& 0xFFDF = 68 ∨ ch &&& 0xFFDF = 69 ∨
          ch &&& 0xFFDF = 70 ∨ ch &&& 0xFFDF = 71 ∨ ch &&& 0xFFDF = 78 ∨
          ch &&& 0xFFDF = 80 ∨ ch &&& 0xFFDF = 88)) ∧
      (ch &&& 0xFFDF = 68 ∨ ch &&& 0xFFDF = 71 →
        FormatInt32 v (some [ch]) (some numfmt) digits0 =
          .ok (Int32ToDecStr v (-1) numfmt.sNegative)) ∧
      (ch &&& 0xFFDF = 88 →
        FormatInt32 v (some [ch]) (some numfmt) digits0 =
          .ok (Int32ToHexStr (int32ToUInt32 v) ((ch : Int) - 33) (-1))) ∧
      (IsModestNumberFormatInfo numfmt → HasPatternIndices numfmt →
        -2147483648 ≤ v → v ≤ 2147483647 →
        (ch &&& 0xFFDF = 67 ∨ ch &&& 0xFFDF = 69 ∨ ch &&& 0xFFDF = 70 ∨
          ch &&& 0xFFDF = 78 ∨ ch &&& 0xFFDF = 80) →
        ∃ dst, FormatInt32 v (some [ch]) (some numfmt) digits0 = .ok dst)) ∧
    (∀ (ecvt : Nat → Int → EcvtResult) (value : Nat), IsFiniteDouble value →
      IsCorrectlyRounded value 15 (ecvt value 15) →
      IsCorrectlyRounded value 17 (ecvt value 17) →
      (FormatDouble ecvt value (some [ch]) (some numfmt) digits0 =
          .error FormatError.badFormatSpecifier ↔
        ¬ (ch &&& 0xFFDF = 67 ∨ ch &&& 0xFFDF = 69 ∨ ch &&& 0xFFDF = 70 ∨
          ch &&& 0xFFDF = 71 ∨ ch &&& 0xFFDF = 78 ∨ ch &&& 0xFFDF = 80 ∨
          ch &&& 0xFFDF = 82)) ∧
      (IsModestNumberFormatInfo numfmt → HasPatternIndices numfmt →
        (ch &&& 0xFFDF = 67 ∨ ch &&& 0xFFDF = 69 ∨ ch &&& 0xFFDF = 70 ∨
          ch &&& 0xFFDF = 71 ∨ ch &&& 0xFFDF = 78 ∨ ch &&& 0xFFDF = 80 ∨
          ch &&& 0xFFDF = 82) →
        ∃ dst, FormatDouble ecvt value (some [ch]) (some numfmt) digits0 = .ok dst)) := by
  have hparse := ParseFormatSpecifier_letter ch digits0 hch
  have hne : ch ≠ 0 := by omega
  have hdig : (-1 : Int) ≤ -1 ∧ (-1 : Int) ≤ 99 := by decide
  constructor
  · intro v
    -- the dispatch of FormatInt32 on a single letter
    have hI : FormatInt32 v (some [ch]) (some numfmt) digits0 =
        if ch &&& 0xFFDF = 71 ∨ ch &&& 0xFFDF = 68 then
          .ok (Int32ToDecStr v (-1) numfmt.sNegative)
        else if ch &&& 0xFFDF = 88 then
          .ok (Int32ToHexStr (int32ToUInt32 v) ((ch : Int) - 33) (-1))
        else NumberToString (Int32ToNumber v) ch (-1) numfmt false := by
      unfold FormatInt32
      simp only [hparse]
      have h1 : ¬ (ch &&& 0xFFDF = 71 ∧ (-1 : Int) > 0) := by
        rintro ⟨-, h⟩; exact absurd h (by decide)
      have h33 : (88 : Int) - 65 + 10 = 33 := by decide
      rw [if_neg h1, h33]
      simp only [hne, ne_eq, not_false_eq_true, if_true]
    have hN := NumberToString_badFormat_iff (Int32ToNumber v) ch (-1) numfmt false
    refine ⟨?_, ?_, ?_, ?_⟩
    · rw [hI]
      by_cases h1 : ch &&& 0xFFDF = 71 ∨ ch &&& 0xFFDF = 68
      · rw [if_pos h1]
        constructor
        · intro h; cases h
        · intro h; exfalso; apply h
          rcases h1 with h1 | h1
          · exact Or.inr (Or.inr (Or.inr (Or.inr (Or.inl h1))))
          · exact Or.inr (Or.inl h1)
      · rw [if_neg h1]
        by_cases h2 : ch &&& 0xFFDF = 88
        · rw [if_pos h2]
          constructor
          · intro h; cases h
          · intro h; exfalso; apply h
            exact Or.inr (Or.inr (Or.inr (Or.inr (Or.inr (Or.inr (Or.inr h2))))))
        · rw [if_neg h2, hN]
          constructor
          · intro h hc
            apply h
            rcases hc with hc | hc | hc | hc | hc | hc | hc | hc
            · exact Or.inl hc
            · exact absurd (Or.inr hc) h1
            · exact Or.inr (Or.inr (Or.inr (Or.inl hc)))
            · exact Or.inr (Or.inl hc)
            · exact absurd (Or.inl hc) h1
            · exact Or.inr (Or.inr (Or.inl hc))
            · exact Or.inr (Or.inr (Or.inr (Or.inr (Or.inr hc))))
            · exact absurd hc h2
          · intro h hc
            apply h
            rcases hc with hc | hc | hc | hc | hc | hc
            · exact Or.inl hc
            · exact Or.inr (Or.inr (Or.inr (Or.inl hc)))
            · exact Or.inr (Or.inr (Or.inr (Or.inr (Or.inr (Or.inl hc)))))
            · exact Or.inr (Or.inr (Or.inl hc))
            · exact Or.inr (Or.inr (Or.inr (Or.inr (Or.inl hc))))
            · exact Or.inr (Or.inr (Or.inr (Or.inr (Or.inr (Or.inr (Or.inl hc))))))
    · intro h
      rw [hI, if_pos (by rcases h with h | h; exact Or.inr h; exact Or.inl h)]
    · intro h
      have h1 : ¬ (ch &&& 0xFFDF = 71 ∨ ch &&& 0xFFDF = 68) := by
        rw [h]; decide
      rw [hI, if_neg h1, if_pos h]
    · intro hm _ hv1 hv2 hset
      have h1 : ¬ (ch &&& 0xFFDF = 71 ∨ ch &&& 0xFFDF = 68) := by
        rcases hset with h | h | h | h | h <;> rw [h] <;> decide
      have h2 : ¬ ch &&& 0xFFDF = 88 := by
        rcases hset with h | h | h | h | h <;> rw [h] <;> decide
      rw [hI, if_neg h1, if_neg h2]
      obtain ⟨hb, hsc, hpr⟩ := Int32ToNumber_valid v ⟨hv1, hv2⟩
      refine NumberToString_ok _ ch (-1) numfmt false hm hb hdig hsc hpr ?_
      rcases hset with h | h | h | h | h
      · exact Or.inl h
      · exact Or.inr (Or.inr (Or.inr (Or.inl h)))
      · exact Or.inr (Or.inl h)
      · exact Or.inr (Or.inr (Or.inl h))
      · exact Or.inr (Or.inr (Or.inr (Or.inr (Or.inr h))))
  · intro ecvt value hfin h15 h17
    obtain ⟨hb15, hsc15, hpr15, hnan15, hinf15⟩ :=
      DoubleToNumber_valid ecvt value 15 hfin (by decide) (by decide) h15
    obtain ⟨hb17, hsc17, hpr17, -, -⟩ :=
      DoubleToNumber_valid ecvt value 17 hfin (by decide) (by decide) h17
    have hP : (DOUBLE_PRECISION : Int) = ((15 : Nat) : Int) := rfl
    have h17c : (17 : Int) = ((17 : Nat) : Int) := rfl
    -- the dispatch of FormatDouble on a single letter
    have hD : FormatDouble ecvt value (some [ch]) (some numfmt) digits0 =
        if ch &&& 0xFFDF = 82 then
          (if doubleEq (NumberToDouble (DoubleToNumber ecvt value (15 : Nat))) value then
            NumberToString (DoubleToNumber ecvt value (15 : Nat)) 71 (15 : Nat) numfmt false
           else NumberToString (DoubleToNumber ecvt value (17 : Nat)) 71 17 numfmt false)
        else NumberToString (DoubleToNumber ecvt value (15 : Nat)) ch (-1) numfmt false := by
      unfold FormatDouble
      simp only [hparse]
      by_cases h82 : ch &&& 0xFFDF = 82
      · rw [if_pos h82, if_pos h82, hP, if_neg hnan15, if_neg hinf15]
        rfl
      · rw [if_neg h82, if_neg h82]
        have hprec : ¬ ((ch &&& 0xFFDF = 69 ∧ (-1 : Int) > 14) ∨
            (ch &&& 0xFFDF = 71 ∧ (-1 : Int) > 15)) := by
          rintro (⟨-, h⟩ | ⟨-, h⟩) <;> exact absurd h (by decide)
        rw [if_neg hprec, hP, if_neg hnan15, if_neg hinf15]
        simp only [hne, ne_eq, not_false_eq_true, if_true]
    constructor
    · rw [hD]
      by_cases h82 : ch &&& 0xFFDF = 82
      · rw [if_pos h82]
        have hg : ∀ n d, NumberToString n 71 d numfmt false ≠
            .error FormatError.badFormatSpecifier := by
          intro n d h
          exact (NumberToString_badFormat_iff n 71 d numfmt false).mp h
            (Or.inr (Or.inr (Or.inr (Or.inr (Or.inl (by decide))))))
        constructor
        · intro h
          exfalso
          split at h
          · exact hg _ _ h
          · exact hg _ _ h
        · intro h; exfalso; apply h
          exact Or.inr (Or.inr (Or.inr (Or.inr (Or.inr (Or.inr h82)))))
      · rw [if_neg h82, NumberToString_badFormat_iff]
        constructor
        · intro h hc
          apply h
          rcases hc with hc | hc | hc | hc | hc | hc | hc
          · exact Or.inl hc
          · exact Or.inr (Or.inr (Or.inr (Or.inl hc)))
          · exact Or.inr (Or.inl hc)
          · exact Or.inr (Or.inr (Or.inr (Or.inr (Or.inl hc))))
          · exact Or.inr (Or.inr (Or.inl hc))
          · exact Or.inr (Or.inr (Or.inr (Or.inr (Or.inr hc))))
          · exact absurd hc h82
        · intro h hc
          apply h
          rcases hc with hc | hc | hc | hc | hc | hc
          · exact Or.inl hc
          · exact Or.inr (Or.inr (Or.inl hc))
          · exact Or.inr (Or.inr (Or.inr (Or.inr (Or.inl hc))))
          · exact Or.inr (Or.inl hc)
          · exact Or.inr (Or.inr (Or.inr (Or.inl hc)))
          · exact Or.inr (Or.inr (Or.inr (Or.inr (Or.inr (Or.inl hc)))))
    · intro hm _ hset
      rw [hD]
      by_cases h82 : ch &&& 0xFFDF = 82
      · rw [if_pos h82]
        have hG : (71 : Nat) &&& 0xFFDF = 67 ∨ (71 : Nat) &&& 0xFFDF = 70 ∨
            (71 : Nat) &&& 0xFFDF = 78 ∨ (71 : Nat) &&& 0xFFDF = 69 ∨
            (71 : Nat) &&& 0xFFDF = 71 ∨ (71 : Nat) &&& 0xFFDF = 80 := by decide
        split
        · exact NumberToString_ok _ 71 _ numfmt false hm hb15 (by decide) hsc15 hpr15 hG
        · exact NumberToString_ok _ 71 17 numfmt false hm hb17 (by decide) hsc17 hpr17 hG
      · rw [if_neg h82]
        refine NumberToString_ok _ ch (-1) numfmt false hm hb15 hdig hsc15 hpr15 ?_
        rcases hset with h | h | h | h | h | h | h
        · exact Or.inl h
        · exact Or.inr (Or.inr (Or.inr (Or.inl h)))
        · exact Or.inr (Or.inl h)
        · exact Or.inr (Or.inr (Or.inr (Or.inr (Or.inl h))))
        · exact Or.inr (Or.inr (Or.inl h))
        · exact Or.inr (Or.inr (Or.inr (Or.inr (Or.inr h))))
        · exact absurd h h82

/-- Witness for `single_letter_formats`: the letter `N` with the integer
`1234` and with the double `0.0`. -/
theorem single_letter_formats_witness :
    ((65 ≤ 78 ∧ 78 ≤ 90) ∨ (97 ≤ 78 ∧ 78 ≤ 122)) ∧
      (FormatInt32 1234 (some [78])
          (some ⟨[3], [3], [3], [43], [45], [46], [44], [44], [46], [36], [44], [46], [37],
            [0x2030], [78, 97, 78], [73], [45, 73], 2, 2, 2, 1, 0, 0, 1, 1⟩) 0 =
          .error FormatError.badFormatSpecifier ↔
        ¬ ((78 : Nat) &&& 0xFFDF = 67 ∨ (78 : Nat) &&& 0xFFDF = 68 ∨
          (78 : Nat) &&& 0xFFDF = 69 ∨ (78 : Nat) &&& 0xFFDF = 70 ∨
          (78 : Nat) &&& 0xFFDF = 71 ∨ (78 : Nat) &&& 0xFFDF = 78 ∨
          (78 : Nat) &&& 0xFFDF = 80 ∨ (78 : Nat) &&& 0xFFDF = 88)) ∧
      (∃ dst, FormatInt32 1234 (some [78])
          (some ⟨[3], [3], [3], [43], [45], [46], [44], [44], [46], [36], [44], [46], [37],
            [0x2030], [78, 97, 78], [73], [45, 73], 2, 2, 2, 1, 0, 0, 1, 1⟩) 0 = .ok dst) ∧
      (FormatDouble (fun _ p => ⟨List.replicate p.toNat 48, 0, false⟩) 0 (some [78])
          (some ⟨[3], [3], [3], [43], [45], [46], [44], [44], [46], [36], [44], [46], [37],
            [0x2030], [78, 97, 78], [73], [45, 73], 2, 2, 2, 1, 0, 0, 1, 1⟩) 0 =
          .error FormatError.badFormatSpecifier ↔
        ¬ ((78 : Nat) &&& 0xFFDF = 67 ∨ (78 : Nat) &&& 0xFFDF = 69 ∨
          (78 : Nat) &&& 0xFFDF = 70 ∨ (78 : Nat) &&& 0xFFDF = 71 ∨
          (78 : Nat) &&& 0xFFDF = 78 ∨ (78 : Nat) &&& 0xFFDF = 80 ∨
          (78 : Nat) &&& 0xFFDF = 82)) ∧
      (∃ dst, FormatDouble (fun _ p => ⟨List.replicate p.toNat 48, 0, false⟩) 0 (some [78])
          (some ⟨[3], [3], [3], [43], [45], [46], [44], [44], [46], [36], [44], [46], [37],
            [0x2030], [78, 97, 78], [73], [45, 73], 2, 2, 2, 1, 0, 0, 1, 1⟩) 0 = .ok dst) :=
  have h := single_letter_formats 78
    ⟨[3], [3], [3], [43], [45], [46], [44], [44], [46], [36], [44], [46], [37],
      [0x2030], [78, 97, 78], [73], [45, 73], 2, 2, 2, 1, 0, 0, 1, 1⟩ 0
    (Or.inl ⟨by decide, by decide⟩)
  have hd := h.2 (fun _ p => ⟨List.replicate p.toNat 48, 0, false⟩) 0
    ⟨by decide, by decide⟩ (by decide) (by decide)
  ⟨Or.inl ⟨by decide, by decide⟩, (h.1 1234).1,
    (h.1 1234).2.2.2 (by decide) (by decide) (by decide) (by decide)
      (Or.inr (Or.inr (Or.inr (Or.inl (by decide))))),
    hd.1, hd.2 (by decide) (by decide) (Or.inr (Or.inr (Or.inr (Or.inr (Or.inl (by decide))))))⟩

/-! ## Trailing characters after the precision -/

/-- The precision loop run on decimal digits `ds` followed by `g`, where `g`
does not begin with a digit, stops inside `ds` or right after it. -/
theorem parsePrecisionLoop_stop (g : List Nat)
    (hgd : ¬ (48 ≤ wcharAt g 0 ∧ wcharAt g 0 ≤ 57)) :
    ∀ (ds : List Nat), IsDecimal ds → ∀ (n : Int) (p : Nat),
      ∃ k, k ≤ ds.length ∧ (parsePrecisionLoop (ds ++ g) n p).2 = p + k := by
  intro ds
  induction ds with
  | nil =>
    intro _ n p
    refine ⟨0, le_refl _, ?_⟩
    rw [List.nil_append]
    cases g with
    | nil => rfl
    | cons c cs =>
      have hc : ¬ (48 ≤ c ∧ c ≤ 57) := hgd
      unfold parsePrecisionLoop
      rw [if_neg hc]
      rfl
  | cons c cs ih =>
    intro hds n p
    have hc : 48 ≤ c ∧ c ≤ 57 := hds c (List.mem_cons_self _ _)
    have hcs : IsDecimal cs := fun x hx => hds x (List.mem_cons_of_mem _ hx)
    rw [List.cons_append]
    unfold parsePrecisionLoop
    rw [if_pos hc]
    by_cases hb : n * 10 + (c : Int) - 48 ≥ 10
    · rw [if_pos hb]
      exact ⟨1, by simp, rfl⟩
    · rw [if_neg hb]
      obtain ⟨k, hk, he⟩ := ih hcs (n * 10 + (c : Int) - 48) (p + 1)
      refine ⟨k + 1, by simpa using hk, ?_⟩
      rw [he]; omega

/-- A letter, at least one decimal digit and then a character that is neither
a digit nor NUL: `ParseFormatSpecifier` returns 0 and leaves `*digits` alone. -/
theorem ParseFormatSpecifier_trailing (ch : Nat) (ds g : List Nat) (digits0 : Int)
    (hch : (65 ≤ ch ∧ ch ≤ 90) ∨ (97 ≤ ch ∧ ch ≤ 122))
    (hds : IsDecimal ds) (hne : ds ≠ [])
    (hg0 : wcharAt g 0 ≠ 0) (hgd : ¬ (48 ≤ wcharAt g 0 ∧ wcharAt g 0 ≤ 57)) :
    ParseFormatSpecifier (some (ch :: ds ++ g)) digits0 = (0, digits0) := by
  cases ds with
  | nil => exact absurd rfl hne
  | cons d ds =>
    have hd : 48 ≤ d ∧ d ≤ 57 := hds d (List.mem_cons_self _ _)
    have hds2 : IsDecimal ds := fun x hx => hds x (List.mem_cons_of_mem _ hx)
    have h0 : wcharAt (ch :: (d :: ds) ++ g) 0 = ch := rfl
    have h1 : wcharAt (ch :: (d :: ds) ++ g) 1 = d := rfl
    have hdrop : (ch :: (d :: ds) ++ g).drop 2 = ds ++ g := rfl
    have hne0 : ch ≠ 0 := by omega
    obtain ⟨k, hk, he⟩ := parsePrecisionLoop_stop g hgd ds hds2 ((d : Int) - 48) 2
    have hat : wcharAt (ch :: (d :: ds) ++ g) (2 + k) ≠ 0 := by
      have hidx : wcharAt (ch :: (d :: ds) ++ g) (2 + k) = wcharAt (ds ++ g) k := by
        have : 2 + k = k + 1 + 1 := by omega
        rw [this]; rfl
      rw [hidx]
      unfold wcharAt
      by_cases hlt : k < ds.length
      · have hmem : (ds ++ g).getD k 0 ∈ ds := by
          rw [List.getD_eq_getElem _ _ (by rw [List.length_append]; omega),
            List.getElem_append_left hlt]
          exact List.getElem_mem _
        have := hds2 _ hmem
        omega
      · have hk2 : k = ds.length := by omega
        have : (ds ++ g).getD k 0 = g.getD 0 0 := by
          rw [hk2]
          simp [List.getD_eq_getElem?_getD, List.getElem?_append_right]
        rw [this]
        exact hg0
    unfold ParseFormatSpecifier
    simp only [h0, h1, hdrop, hne0, ne_eq, not_false_eq_true, if_true, hch, hd, and_self, he,
      hat, if_false]

/-- C22 as stated fails: the string `F2x` (letter, precision, one further
character) is not parsed as a standard specifier, and formatting the double
`1.0` or the integer `5` with it raises nothing: the string is used as a
custom picture and comes back as literal text. -/
theorem trailing_garbage_is_not_an_error :
    ParseFormatSpecifier (some [70, 50, 120]) 0 = (0, 0) ∧
      FormatDouble (fun _ _ => ⟨49 :: List.replicate 14 48, 1, false⟩) 0x3FF0000000000000
        (some [70, 50, 120])
        (some ⟨[3], [3], [3], [43], [45], [46], [44], [44], [46], [36], [44], [46], [37],
          [0x2030], [78, 97, 78], [73], [45, 73], 2, 2, 2, 1, 0, 0, 1, 1⟩) 0 =
        .ok [70, 50, 120] ∧
      FormatInt32 5 (some [70, 50, 120])
        (some ⟨[3], [3], [3], [43], [45], [46], [44], [44], [46], [36], [44], [46], [37],
          [0x2030], [78, 97, 78], [73], [45, 73], 2, 2, 2, 1, 0, 0, 1, 1⟩) 0 =
        .ok [70, 50, 120] := by
  refine ⟨by decide, by decide, by decide!⟩

/-- C22 (amended): for every format string made of an ASCII letter, at least
one decimal digit, and then a character that is neither a digit nor NUL,
`ParseFormatSpecifier` returns 0, so `FormatInt32` and `FormatDouble` hand the
whole string to the custom-picture formatter `NumberToStringFormat` (a NaN or
an Infinity still gives its symbol), and neither raises the format-specifier
error. -/
theorem trailing_garbage_is_custom_picture (ch : Nat) (ds g : List Nat)
    (numfmt : NumberFormatInfo) (digits0 : Int)
    (hch : (65 ≤ ch ∧ ch ≤ 90) ∨ (97 ≤ ch ∧ ch ≤ 122))
    (hds : IsDecimal ds) (hne : ds ≠ [])
    (hg0 : wcharAt g 0 ≠ 0) (hgd : ¬ (48 ≤ wcharAt g 0 ∧ wcharAt g 0 ≤ 57)) :
    ParseFormatSpecifier (some (ch :: ds ++ g)) digits0 = (0, digits0) ∧
    (∀ v : Int,
      FormatInt32 v (some (ch :: ds ++ g)) (some numfmt) digits0 =
          NumberToStringFormat (Int32ToNumber v) (ch :: ds ++ g) numfmt ∧
        FormatInt32 v (some (ch :: ds ++ g)) (some numfmt) digits0 ≠
          .error FormatError.badFormatSpecifier) ∧
    (∀ (ecvt : Nat → Int → EcvtResult) (value : Nat),
      FormatDouble ecvt value (some (ch :: ds ++ g)) (some numfmt) digits0 =
          (if (DoubleToNumber ecvt value DOUBLE_PRECISION).scale = SCALE_NAN then
            .ok numfmt.sNaN
          else if (DoubleToNumber ecvt value DOUBLE_PRECISION).scale = SCALE_INF then
            .ok (if (DoubleToNumber ecvt value DOUBLE_PRECISION).sign
              then numfmt.sNegativeInfinity else numfmt.sPositiveInfinity)
          else NumberToStringFormat (DoubleToNumber ecvt value DOUBLE_PRECISION)
            (ch :: ds ++ g) numfmt) ∧
        FormatDouble ecvt value (some (ch :: ds ++ g)) (some numfmt) digits0 ≠
          .error FormatError.badFormatSpecifier) := by
  have hparse := ParseFormatSpecifier_trailing ch ds g digits0 hch hds hne hg0 hgd
  have hI : ∀ v : Int, FormatInt32 v (some (ch :: ds ++ g)) (some numfmt) digits0 =
      NumberToStringFormat (Int32ToNumber v) (ch :: ds ++ g) numfmt := by
    intro v
    unfold FormatInt32
    simp only [hparse]
    rfl
  have hD : ∀ (ecvt : Nat → Int → EcvtResult) (value : Nat),
      FormatDouble ecvt value (some (ch :: ds ++ g)) (some numfmt) digits0 =
        (if (DoubleToNumber ecvt value DOUBLE_PRECISION).scale = SCALE_NAN then
          .ok numfmt.sNaN
        else if (DoubleToNumber ecvt value DOUBLE_PRECISION).scale = SCALE_INF then
          .ok (if (DoubleToNumber ecvt value DOUBLE_PRECISION).sign
            then numfmt.sNegativeInfinity else numfmt.sPositiveInfinity)
        else NumberToStringFormat (DoubleToNumber ecvt value DOUBLE_PRECISION)
          (ch :: ds ++ g) numfmt) := by
    intro ecvt value
    unfold FormatDouble
    simp only [hparse]
    rfl
  refine ⟨hparse, fun v => ⟨hI v, ?_⟩, fun ecvt value => ⟨hD ecvt value, ?_⟩⟩
  · rw [hI]
    exact NumberToStringFormat_not_badFormat _ _ _
  · rw [hD]
    by_cases h1 : (DoubleToNumber ecvt value DOUBLE_PRECISION).scale = SCALE_NAN
    · rw [if_pos h1]; intro h; cases h
    · rw [if_neg h1]
      by_cases h2 : (DoubleToNumber ecvt value DOUBLE_PRECISION).scale = SCALE_INF
      · rw [if_pos h2]; intro h; cases h
      · rw [if_neg h2]
        exact NumberToStringFormat_not_badFormat _ _ _

/-- Witness for `trailing_garbage_is_custom_picture`: the string `N12 ` (the
letter `N`, the digits `12`, a blank). -/
theorem trailing_garbage_is_custom_picture_witness :
    ParseFormatSpecifier (some (78 :: [49, 50] ++ [32])) 7 = (0, 7) ∧
    (∀ v : Int,
      FormatInt32 v (some (78 :: [49, 50] ++ [32]))
          (some ⟨[3], [3], [3], [43], [45], [46], [44], [44], [46], [36], [44], [46], [37],
            [0x2030], [78, 97, 78], [73], [45, 73], 2, 2, 2, 1, 0, 0, 1, 1⟩) 7 =
          NumberToStringFormat (Int32ToNumber v) (78 :: [49, 50] ++ [32])
            ⟨[3], [3], [3], [43], [45], [46], [44], [44], [46], [36], [44], [46], [37],
              [0x2030], [78, 97, 78], [73], [45, 73], 2, 2, 2, 1, 0, 0, 1, 1⟩ ∧
        FormatInt32 v (some (78 :: [49, 50] ++ [32]))
          (some ⟨[3], [3], [3], [43], [45], [46], [44], [44], [46], [36], [44], [46], [37],
            [0x2030], [78, 97, 78], [73], [45, 73], 2, 2, 2, 1, 0, 0, 1, 1⟩) 7 ≠
          .error FormatError.badFormatSpecifier) :=
  have h := trailing_garbage_is_custom_picture 78 [49, 50] [32]
    ⟨[3], [3], [3], [43], [45], [46], [44], [44], [46], [36], [44], [46], [37],
      [0x2030], [78, 97, 78], [73], [45, 73], 2, 2, 2, 1, 0, 0, 1, 1⟩ 7
    (Or.inl ⟨by decide, by decide⟩) (by decide) (by decide) (by decide) (by decide)
  ⟨h.1, h.2.1⟩

/-! ## Integers below 10^15 convert exactly -/

/-- A normalised mantissa whose low 11 bits are zero is scaled down without
rounding. -/
theorem roundHalfEven11_exact (q : Nat) : roundHalfEven11 (2048 * q) = q := by
  unfold roundHalfEven11
  have h1 : 2048 * q % 2048 = 0 := by omega
  have h2 : 2048 * q / 2048 = q := by omega
  rw [h1, h2]
  simp

/-- The bit pattern assembled from an unscaled mantissa below `2^53` denotes
that integer exactly, and the rounding step discards only zero bits. -/
theorem unscaled_bits_exact (val : Nat) (hpos : 0 < val) (hlt : val < 2 ^ 53) (s : Bool) :
    (normalizeMantissa val 64).1 % 2048 = 0 ∧
      roundScaleDown (normalizeMantissa val 64).1 (normalizeMantissa val 64).2 =
        ((normalizeMantissa val 64).1 / 2048, (normalizeMantissa val 64).2) ∧
      IsFiniteDouble (applySign s (assembleDouble
        (roundScaleDown (normalizeMantissa val 64).1 (normalizeMantissa val 64).2).1
        (roundScaleDown (normalizeMantissa val 64).1 (normalizeMantissa val 64).2).2)) ∧
      doubleSignBit (applySign s (assembleDouble
        (roundScaleDown (normalizeMantissa val 64).1 (normalizeMantissa val 64).2).1
        (roundScaleDown (normalizeMantissa val 64).1 (normalizeMantissa val 64).2).2)) = s ∧
      doubleMagnitude (applySign s (assembleDouble
        (roundScaleDown (normalizeMantissa val 64).1 (normalizeMantissa val 64).2).1
        (roundScaleDown (normalizeMantissa val 64).1 (normalizeMantissa val 64).2).2)) =
        (val : ℚ) := by
  obtain ⟨t, ht, hnorm, h63, h64⟩ := normalizeMantissa_spec val hpos (by
    have : (2 : Nat) ^ 53 < 2 ^ 64 := by norm_num
    omega)
  -- the shift is at least 11
  have ht11 : 11 ≤ t := by
    by_contra hcon
    have h10 : t ≤ 10 := by omega
    have hp : (2 : Nat) ^ t ≤ 2 ^ 10 := Nat.pow_le_pow_right (by decide) h10
    have hm : val * 2 ^ t ≤ val * 2 ^ 10 := Nat.mul_le_mul_left _ hp
    norm_num only at hlt h63 hm
    omega
  obtain ⟨u, rfl⟩ : ∃ u, t = u + 11 := ⟨t - 11, by omega⟩
  have hW : val * 2 ^ (u + 11) = 2048 * (val * 2 ^ u) := by
    rw [pow_add]; norm_num; ring
  rw [hnorm]
  simp only
  rw [hW] at h63 h64 ⊢
  generalize hq : val * 2 ^ u = q at h63 h64 ⊢
  have hq1 : 2 ^ 52 ≤ q := by norm_num only at h63 ⊢; omega
  have hq2 : q < 2 ^ 53 := by norm_num only at h64 ⊢; omega
  have hround : roundScaleDown (2048 * q) (64 - ((u + 11 : Nat) : Int)) =
      (q, 64 - ((u + 11 : Nat) : Int)) := by
    rw [roundScaleDown_eq _ _ h63 h64, roundHalfEven11_exact]
    have : ¬ q = 2 ^ 53 := by omega
    rw [if_neg this]
  have hdiv : 2048 * q / 2048 = q := by omega
  refine ⟨by omega, by rw [hround, hdiv], ?_⟩
  rw [hround]
  simp only
  rw [assembleDouble_normal q _ hq1 hq2 (by push_cast; omega) (by push_cast; omega)]
  obtain ⟨hfin, hsign, hsig, hexp⟩ := decode_normal s
    (64 - ((u + 11 : Nat) : Int) + 1022).toNat (q - 2 ^ 52) (by push_cast; omega)
    (by push_cast; omega) (by omega)
  refine ⟨hfin, hsign, ?_⟩
  unfold doubleMagnitude
  rw [hsig, hexp]
  have hsum : 2 ^ 52 + (q - 2 ^ 52) = q := by omega
  rw [hsum, ← hq]
  have hE : (((64 - ((u + 11 : Nat) : Int) + 1022).toNat : Nat) : Int) - 1075 = -(u : Int) := by
    rw [Int.toNat_of_nonneg (by push_cast; omega)]
    push_cast
    ring
  rw [hE]
  push_cast
  rw [zpow_neg, zpow_natCast]
  have h2 : ((2 : ℚ) ^ u) ≠ 0 := by positivity
  field_simp

/-- C34: for every buffer of `n <= 15` decimal digits without a leading zero
whose scale equals `n` (a non-negative integer below `10^15`),
`NumberToDouble` returns a finite double with the sign of the buffer whose
magnitude is exactly that integer; no table multiply is executed, and when the
buffer has digits the rounding step only shifts out zero bits. -/
theorem NumberToDouble_exact_integer (number : NUMBER) (hdec : IsDecimal number.digits)
    (hlen : number.digits.length ≤ 15) (hhead : wcharAt number.digits 0 ≠ 48)
    (hscale : number.scale = (number.digits.length : Int)) :
    IsFiniteDouble (NumberToDouble number) ∧
      doubleSignBit (NumberToDouble number) = number.sign ∧
      doubleMagnitude (NumberToDouble number) = (digitsValue number.digits : ℚ) ∧
      number.magnitude = (digitsValue number.digits : ℚ) ∧
      digitsValue number.digits < 10 ^ 15 ∧
      (NumberToDoubleRun number).mul64Calls = 0 ∧
      (number.digits ≠ [] →
        (normalizeMantissa (packMantissa (skipLeadingZeros number.digits)).1 64).1 % 2048 = 0 ∧
        roundScaleDown
            (normalizeMantissa (packMantissa (skipLeadingZeros number.digits)).1 64).1
            (normalizeMantissa (packMantissa (skipLeadingZeros number.digits)).1 64).2 =
          ((normalizeMantissa (packMantissa (skipLeadingZeros number.digits)).1 64).1 / 2048,
            (normalizeMantissa (packMantissa (skipLeadingZeros number.digits)).1 64).2)) := by
  have hmag := magnitude_of_scale_eq_length number hscale
  have hval15 : digitsValue number.digits < 10 ^ 15 :=
    lt_of_lt_of_le (digitsValue_lt _ hdec) (Nat.pow_le_pow_right (by decide) hlen)
  have hskip := skipLeadingZeros_of_head _ hhead
  by_cases hne : number.digits = []
  · -- the integer zero
    have hrun : NumberToDoubleRun number = ⟨applySign number.sign 0, 0⟩ := by
      unfold NumberToDoubleRun
      rw [hskip, hne]
      rfl
    have hval : NumberToDouble number = applySign number.sign 0 := by
      unfold NumberToDouble; rw [hrun]
    have hdv : digitsValue number.digits = 0 := by rw [hne]; rfl
    refine ⟨?_, ?_, ?_, hmag, hval15, by rw [hrun], fun h => absurd hne h⟩
    · rw [hval]; cases number.sign <;> exact ⟨by decide, by decide⟩
    · rw [hval]; cases number.sign <;> decide
    · rw [hval, hdv]
      cases number.sign <;>
        norm_num [applySign, doubleMagnitude, doubleSignificand, doubleExpField,
          doubleFraction]
  · have hpack := packMantissa_eq number.digits hdec hne
    have htake : number.digits.take 18 = number.digits := List.take_of_length_le (by omega)
    have hrem : number.digits.length - 18 = 0 := by omega
    rw [htake, hrem] at hpack
    have heff : effectiveScale number = 0 := by
      unfold effectiveScale
      rw [hskip, hpack, hscale]
      simp [wrapInt32]
    have hne2 : skipLeadingZeros number.digits ≠ [] := by rw [hskip]; exact hne
    have hrun := NumberToDoubleRun_unscaled number hne2 heff
    have hpos : 0 < digitsValue number.digits := by
      have := digitsValue_pos_of_head _ hdec hne hhead 18 (by decide)
      rwa [htake] at this
    have h53 : digitsValue number.digits < 2 ^ 53 := by
      have : (10 : Nat) ^ 15 < 2 ^ 53 := by norm_num
      omega
    obtain ⟨hz, hrd, hfin, hsign, hexact⟩ :=
      unscaled_bits_exact (digitsValue number.digits) hpos h53 number.sign
    have hval : NumberToDouble number = applySign number.sign (assembleDouble
        (roundScaleDown (normalizeMantissa (digitsValue number.digits) 64).1
          (normalizeMantissa (digitsValue number.digits) 64).2).1
        (roundScaleDown (normalizeMantissa (digitsValue number.digits) 64).1
          (normalizeMantissa (digitsValue number.digits) 64).2).2) := by
      unfold NumberToDouble
      rw [hrun, hskip, hpack]
    refine ⟨by rw [hval]; exact hfin, by rw [hval]; exact hsign, by rw [hval]; exact hexact,
      hmag, hval15, by rw [hrun], fun _ => ?_⟩
    rw [hskip, hpack]
    exact ⟨hz, hrd⟩

/-- Witness for `NumberToDouble_exact_integer`: the integer `123`. -/
theorem NumberToDouble_exact_integer_witness :
    IsFiniteDouble (NumberToDouble ⟨15, 3, true, [49, 50, 51]⟩) ∧
      doubleSignBit (NumberToDouble ⟨15, 3, true, [49, 50, 51]⟩) = true ∧
      doubleMagnitude (NumberToDouble ⟨15, 3, true, [49, 50, 51]⟩) =
        (digitsValue [49, 50, 51] : ℚ) ∧
      (NumberToDoubleRun ⟨15, 3, true, [49, 50, 51]⟩).mul64Calls = 0 :=
  have h := NumberToDouble_exact_integer ⟨15, 3, true, [49, 50, 51]⟩ (by decide) (by decide)
    (by decide) (by decide)
  ⟨h.1, h.2.1, h.2.2.1, h.2.2.2.2.2.1⟩

/-- The integer `123` converts to the pattern of the double `-123.0`. -/
theorem NumberToDouble_exact_integer_example :
    NumberToDouble ⟨15, 3, true, [49, 50, 51]⟩ = 0xC05EC00000000000 := by
  decide

/-! ## DoubleToNumber on the two zeros -/

/-- C35 as stated fails: for negative zero, with a generator that answers
with fifteen `'0'` digits, decimal point 0 and the sign of the value (set),
`DoubleToNumber` stores an empty digit string and scale 0 but keeps the sign:
the buffer is not the canonical zero. -/
theorem DoubleToNumber_negative_zero_keeps_sign :
    doubleSignBit 0x8000000000000000 = true ∧
      DoubleToNumber (fun v p => ⟨List.replicate p.toNat 48, 0, doubleSignBit v⟩)
        0x8000000000000000 15 = ⟨15, 0, true, []⟩ ∧
      (DoubleToNumber (fun v p => ⟨List.replicate p.toNat 48, 0, doubleSignBit v⟩)
        0x8000000000000000 15).sign ≠ false := by
  refine ⟨by decide, by decide, by decide⟩

/-- C35 (amended): for both zero bit patterns and every precision, with a
digit generator that returns a string of `'0'` only, `DoubleToNumber` stores an
empty digit string, the decimal point of the generator as scale and the sign of
the generator. When the generator reports the sign of the value and decimal
point 0, positive zero gives the canonical zero buffer and negative zero gives
the same buffer with the sign set; `RoundNumber` then clears that sign. -/
theorem DoubleToNumber_zero_buffer (ecvt : Nat → Int → EcvtResult) (v : Nat) (precision : Int)
    (hv : v = 0 ∨ v = 0x8000000000000000)
    (hzero : ∀ c ∈ (ecvt v precision).digits, c = 48) :
    DoubleToNumber ecvt v precision =
        ⟨precision, (ecvt v precision).decpt, (ecvt v precision).sign, []⟩ ∧
      ((ecvt v precision).sign = doubleSignBit v → (ecvt v precision).decpt = 0 →
        DoubleToNumber ecvt v precision = ⟨precision, 0, decide (v = 0x8000000000000000), []⟩) ∧
      ∀ pos, RoundNumber (DoubleToNumber ecvt v precision) pos = ⟨precision, 0, false, []⟩ := by
  have hfin : ¬ doubleExpField v = 0x7FF := by
    rcases hv with h | h <;> rw [h] <;> decide
  have hdig : (if wcharAt (ecvt v precision).digits 0 ≠ 48 then cstr (ecvt v precision).digits
      else []) = [] := by
    cases hd : (ecvt v precision).digits with
    | nil => rfl
    | cons c cs =>
      have hc : c = 48 := hzero c (by rw [hd]; exact List.mem_cons_self _ _)
      rw [hc]
      rfl
  have hmain : DoubleToNumber ecvt v precision =
      ⟨precision, (ecvt v precision).decpt, (ecvt v precision).sign, []⟩ := by
    unfold DoubleToNumber
    rw [if_neg hfin]
    simp only [hdig]
  refine ⟨hmain, ?_, ?_⟩
  · intro hs hd
    rw [hmain, hs, hd]
    rcases hv with h | h <;> rw [h] <;> rfl
  · intro pos
    rw [hmain]
    exact RoundNumber_no_digits _ _ _ _

/-- Witness for `DoubleToNumber_zero_buffer`: negative zero at precision 15. -/
theorem DoubleToNumber_zero_buffer_witness :
    DoubleToNumber (fun v p => ⟨List.replicate p.toNat 48, 0, doubleSignBit v⟩)
        0x8000000000000000 15 = ⟨15, 0, true, []⟩ ∧
      RoundNumber (DoubleToNumber (fun v p => ⟨List.replicate p.toNat 48, 0, doubleSignBit v⟩)
        0x8000000000000000 15) 15 = ⟨15, 0, false, []⟩ :=
  have h := DoubleToNumber_zero_buffer
    (fun v p => ⟨List.replicate p.toNat 48, 0, doubleSignBit v⟩) 0x8000000000000000 15
    (Or.inr rfl) (by decide)
  ⟨h.1, h.2.2 15⟩

/-! ## Digits after the eighteenth significant digit -/

/-- Leading `'0'` characters in front of a string that starts with another
character are exactly what the skipping loop removes. -/
theorem skipLeadingZeros_replicate (k : Nat) (s : List Nat) (h : wcharAt s 0 ≠ 48) :
    skipLeadingZeros (List.replicate k 48 ++ s) = s := by
  induction k with
  | zero => simpa using skipLeadingZeros_of_head s h
  | succ k ih =>
    rw [List.replicate_succ, List.cons_append]
    unfold skipLeadingZeros at ih ⊢
    rw [List.dropWhile_cons]
    simpa using ih

/-- The run of `NumberToDouble` on `k` leading zeros, 18 significant digits
`s` and further digits `t`, written without `t`. -/
theorem NumberToDoubleRun_18_digits (p scale : Int) (sign : Bool) (k : Nat) (s t : List Nat)
    (hs : IsDecimal s) (hlen : s.length = 18) (hhead : wcharAt s 0 ≠ 48) (ht : IsDecimal t) :
    NumberToDoubleRun ⟨p, scale, sign, List.replicate k 48 ++ (s ++ t)⟩ =
      (if abs32 (wrapInt32 (scale - ((k : Int) + 18))) ≥ 22 * 16 then
        ⟨applySign sign
          (if wrapInt32 (scale - ((k : Int) + 18)) > 0 then 0x7FF0000000000000 else 0), 0⟩
       else
        ⟨applySign sign (assembleDouble
          (roundScaleDown
            (applyPowers (normalizeMantissa (digitsValue s) 64).1
              (normalizeMantissa (digitsValue s) 64).2 (wrapInt32 (scale - ((k : Int) + 18)))
              (abs32 (wrapInt32 (scale - ((k : Int) + 18))))).1
            (applyPowers (normalizeMantissa (digitsValue s) 64).1
              (normalizeMantissa (digitsValue s) 64).2 (wrapInt32 (scale - ((k : Int) + 18)))
              (abs32 (wrapInt32 (scale - ((k : Int) + 18))))).2.1).1
          (roundScaleDown
            (applyPowers (normalizeMantissa (digitsValue s) 64).1
              (normalizeMantissa (digitsValue s) 64).2 (wrapInt32 (scale - ((k : Int) + 18)))
              (abs32 (wrapInt32 (scale - ((k : Int) + 18))))).1
            (applyPowers (normalizeMantissa (digitsValue s) 64).1
              (normalizeMantissa (digitsValue s) 64).2 (wrapInt32 (scale - ((k : Int) + 18)))
              (abs32 (wrapInt32 (scale - ((k : Int) + 18))))).2.1).2),
          (applyPowers (normalizeMantissa (digitsValue s) 64).1
              (normalizeMantissa (digitsValue s) 64).2 (wrapInt32 (scale - ((k : Int) + 18)))
              (abs32 (wrapInt32 (scale - ((k : Int) + 18))))).2.2⟩) := by
  have hhead2 : wcharAt (s ++ t) 0 ≠ 48 := by
    cases s with
    | nil => simp at hlen
    | cons c cs => exact hhead
  have hskip := skipLeadingZeros_replicate k (s ++ t) hhead2
  have hdec : IsDecimal (s ++ t) := hs.append ht
  have hne : s ++ t ≠ [] := by
    intro h
    have := congrArg List.length h
    rw [List.length_append, hlen] at this
    simp at this
  have hpack := packMantissa_eq (s ++ t) hdec hne
  have htake : (s ++ t).take 18 = s := by
    rw [← hlen, List.take_left]
  rw [htake] at hpack
  have heff : effectiveScale ⟨p, scale, sign, List.replicate k 48 ++ (s ++ t)⟩ =
      wrapInt32 (scale - ((k : Int) + 18)) := by
    unfold effectiveScale
    simp only [hskip, hpack]
    congr 1
    simp only [List.length_append, List.length_replicate, hlen]
    push_cast
    omega
  have hlen0 : ((s ++ t).length == 0) = false := by
    simp [hlen]
  unfold NumberToDoubleRun
  simp only [hskip, hlen0, heff, hpack, Bool.false_eq_true, if_false]

/-- C36: two digit buffers with the same sign, the same scale, the same number
`k` of leading `'0'` characters and the same first 18 significant digits `s`
give the same bit pattern, whatever decimal digits `t1`, `t2` (and however
many) follow the 18th significant digit, and whatever the precision fields. -/
theorem NumberToDouble_ignores_digits_after_18 (p1 p2 scale : Int) (sign : Bool) (k : Nat)
    (s t1 t2 : List Nat) (hs : IsDecimal s) (hlen : s.length = 18) (hhead : wcharAt s 0 ≠ 48)
    (ht1 : IsDecimal t1) (ht2 : IsDecimal t2) :
    NumberToDouble ⟨p1, scale, sign, List.replicate k 48 ++ (s ++ t1)⟩ =
      NumberToDouble ⟨p2, scale, sign, List.replicate k 48 ++ (s ++ t2)⟩ := by
  unfold NumberToDouble
  rw [NumberToDoubleRun_18_digits p1 scale sign k s t1 hs hlen hhead ht1,
    NumberToDoubleRun_18_digits p2 scale sign k s t2 hs hlen hhead ht2]

/-- Witness for `NumberToDouble_ignores_digits_after_18`: one leading zero,
the digits `123456789012345678`, followed by `9` in one buffer and by `000` in
the other. -/
theorem NumberToDouble_ignores_digits_after_18_witness :
    NumberToDouble ⟨15, 5, true, List.replicate 1 48 ++
        ([49, 50, 51, 52, 53, 54, 55, 56, 57, 48, 49, 50, 51, 52, 53, 54, 55, 56] ++ [57])⟩ =
      NumberToDouble ⟨17, 5, true, List.replicate 1 48 ++
        ([49, 50, 51, 52, 53, 54, 55, 56, 57, 48, 49, 50, 51, 52, 53, 54, 55, 56] ++
          [48, 48, 48])⟩ :=
  NumberToDouble_ignores_digits_after_18 15 17 5 true 1
    [49, 50, 51, 52, 53, 54, 55, 56, 57, 48, 49, 50, 51, 52, 53, 54, 55, 56] [57] [48, 48, 48]
    (by decide) (by decide) (by decide) (by decide) (by decide)

/-! ## Decimal strings of integers -/

set_option maxRecDepth 10000 in
theorem Int64ToDecStrLoop_unfold (p : List Nat) (value : Nat) (digits : Int) :
    Int64ToDecStrLoop p value digits =
      if HI32 value ≠ 0 then
        Int64ToDecStrLoop (Int32ToDecChars p (Int64DivMod1E9 value).1 9)
          (Int64DivMod1E9 value).2 (digits - 9)
      else (p, value, digits) := by
  rw [Int64ToDecStrLoop]

/-- Padding a numeral that is split at nine digits. -/
theorem decimalPadded_split (k q r : Nat) (hq : 0 < q) (hr : r < 1000000000) :
    decimalPadded k (q * 1000000000 + r) = decimalPadded (k - 9) q ++ decimalPadded 9 r := by
  have hlen9 : (decimalPadded 9 r).length = 9 := by
    rw [decimalPadded_length]
    have := decimalNumeral_length_le r 9 (by omega)
    omega
  unfold decimalPadded
  rw [decimalNumeral_split q r hq hr, List.length_append]
  have h9 : (decimalPadded 9 r).length = 9 := hlen9
  unfold decimalPadded at h9 ⊢
  rw [h9, List.append_assoc]
  congr 2
  omega

/-- The chunked conversion of `Int64ToDecStr`: the division loop followed by
the final `Int32ToDecChars(p, LO32(value), digits)` prepends the decimal
numeral of `value`, zero padded to `digits` characters. -/
theorem Int64ToDecStrLoop_padded (p : List Nat) (value : Nat) (digits : Int)
    (hv : value < 18446744073709551616) :
    Int32ToDecChars (Int64ToDecStrLoop p value digits).1
        (LO32 (Int64ToDecStrLoop p value digits).2.1) (Int64ToDecStrLoop p value digits).2.2 =
      decimalPadded digits.toNat value ++ p := by
  induction value using Nat.strong_induction_on generalizing p digits with
  | _ value ih =>
    rw [Int64ToDecStrLoop_unfold]
    by_cases hhi : HI32 value ≠ 0
    · simp only [hhi, ne_eq, not_false_eq_true, if_true]
      have hbig : 4294967296 ≤ value := by
        by_contra hlt
        apply hhi
        rw [HI32_eq]
        omega
      have hq : 0 < value / 1000000000 := by omega
      have hr : value % 1000000000 < 1000000000 := Nat.mod_lt _ (by decide)
      have hdm : Int64DivMod1E9 value = (value % 1000000000, value / 1000000000) := by
        unfold Int64DivMod1E9 toUInt32
        congr 1
        omega
      rw [hdm]
      simp only
      rw [ih (value / 1000000000) (by omega) _ _ (by omega), Int32ToDecChars_eq]
      have hsplit := decimalPadded_split digits.toNat (value / 1000000000)
        (value % 1000000000) hq hr
      have hval : value / 1000000000 * 1000000000 + value % 1000000000 = value := by omega
      rw [hval] at hsplit
      have h9 : ((9 : Int)).toNat = 9 := rfl
      have hd : (digits - 9).toNat = digits.toNat - 9 := by omega
      rw [hsplit, h9, hd, List.append_assoc]
    · have hz : HI32 value = 0 := by simpa using hhi
      simp only [hz, ne_eq, not_true_eq_false, if_false]
      have hsmall : value < 4294967296 := by
        rw [HI32_eq] at hz
        omega
      have hlo : LO32 value = value := by
        unfold LO32 toUInt32
        omega
      rw [hlo, Int32ToDecChars_eq]

/-- The test `sign < 0` on `int sign = HI32(value)` is the test `value < 0`. -/
theorem Int64ToDecStr_sign (v : Int)
    (hv : -9223372036854775808 ≤ v ∧ v ≤ 9223372036854775807) :
    wrapInt32 (HI32 (int64ToUInt64 v)) < 0 ↔ v < 0 := by
  rw [HI32_eq]
  unfold wrapInt32 int64ToUInt64
  omega

/-- C39: for every 32-bit signed `v` (`INT32_MIN` included) and every width,
`Int32ToDecStr` returns the negative-sign string when `v < 0` followed by the
decimal numeral of `|v|` left-padded with `'0'` to `max(digits, 1)`
characters; `Int64ToDecStr` returns the same shape for every 64-bit signed `v`
(`INT64_MIN` included); and the two agree on every `v` that fits in 32 bits. -/
theorem decimal_string_formatting (digits : Int) (sNegative : List Nat) :
    (∀ v : Int, -2147483648 ≤ v → v ≤ 2147483647 →
      Int32ToDecStr v digits sNegative = signedDecimal v digits sNegative ∧
      Int64ToDecStr v digits sNegative = Int32ToDecStr v digits sNegative) ∧
    (∀ v : Int, -9223372036854775808 ≤ v → v ≤ 9223372036854775807 →
      Int64ToDecStr v digits sNegative = signedDecimal v digits sNegative) := by
  have hwidth : (if digits < 1 then (1 : Int) else digits) = max digits 1 := by
    split <;> omega
  have h32 : ∀ v : Int, -2147483648 ≤ v → v ≤ 2147483647 →
      Int32ToDecStr v digits sNegative = signedDecimal v digits sNegative := by
    intro v h1 h2
    unfold Int32ToDecStr signedDecimal
    simp only
    rw [int32_magnitude_cast v ⟨h1, h2⟩, Int32ToDecChars_eq, List.append_nil, hwidth]
    by_cases hneg : v < 0
    · rw [if_pos hneg, if_pos hneg]
    · rw [if_neg hneg, if_neg hneg, List.nil_append]
  have h64 : ∀ v : Int, -9223372036854775808 ≤ v → v ≤ 9223372036854775807 →
      Int64ToDecStr v digits sNegative = signedDecimal v digits sNegative := by
    intro v h1 h2
    have hs := Int64ToDecStr_sign v ⟨h1, h2⟩
    have hmag := int64_magnitude_cast v ⟨h1, h2⟩
    have hlt : v.natAbs < 18446744073709551616 := by omega
    unfold Int64ToDecStr signedDecimal
    simp only
    by_cases hneg : v < 0
    · have hge : ¬ v ≥ 0 := by omega
      rw [if_neg hge] at hmag
      rw [if_pos (hs.mpr hneg), if_pos (hs.mpr hneg), if_pos hneg, hmag,
        Int64ToDecStrLoop_padded _ _ _ hlt, List.append_nil, hwidth]
    · have hge : v ≥ 0 := by omega
      rw [if_pos hge] at hmag
      have hns : ¬ wrapInt32 (HI32 (int64ToUInt64 v)) < 0 := fun h => hneg (hs.mp h)
      rw [if_neg hns, if_neg hns, if_neg hneg, hmag,
        Int64ToDecStrLoop_padded _ _ _ hlt, List.append_nil, hwidth, List.nil_append]
  refine ⟨fun v h1 h2 => ⟨h32 v h1 h2, ?_⟩, h64⟩
  rw [h32 v h1 h2, h64 v (by omega) (by omega)]

/-- Concrete results of the two functions: `INT32_MIN` and `INT64_MIN` with
the sign string `-`, and a value padded to five characters. -/
theorem signedDecimal_examples :
    signedDecimal (-2147483648) 0 [45] = [45, 50, 49, 52, 55, 52, 56, 51, 54, 52, 56] ∧
      signedDecimal (-9223372036854775808) 0 [45] =
        [45, 57, 50, 50, 51, 51, 55, 50, 48, 51, 54, 56, 53, 52, 55, 55, 53, 56, 48, 56] ∧
      signedDecimal (-42) 5 [45] = [45, 48, 48, 48, 52, 50] := by
  have h1 : Nat.digits 10 2147483648 = [8, 4, 6, 3, 8, 4, 7, 4, 1, 2] := by norm_num
  have h2 : Nat.digits 10 9223372036854775808 =
      [8, 0, 8, 5, 7, 7, 4, 5, 8, 6, 3, 0, 2, 7, 3, 3, 2, 2, 9] := by norm_num
  have h3 : Nat.digits 10 42 = [2, 4] := by norm_num
  refine ⟨?_, ?_, ?_⟩
  · have : ((-2147483648 : Int)).natAbs = 2147483648 := rfl
    unfold signedDecimal decimalPadded decimalNumeral
    rw [this, h1]
    decide
  · have : ((-9223372036854775808 : Int)).natAbs = 9223372036854775808 := rfl
    unfold signedDecimal decimalPadded decimalNumeral
    rw [this, h2]
    decide
  · have : ((-42 : Int)).natAbs = 42 := rfl
    unfold signedDecimal decimalPadded decimalNumeral
    rw [this, h3]
    decide

/-- Witness for `decimal_string_formatting`: width 5, the sign string `-`,
the values `-42` and `INT64_MIN`. -/
theorem decimal_string_formatting_witness :
    Int32ToDecStr (-42) 5 [45] = signedDecimal (-42) 5 [45] ∧
      Int64ToDecStr (-42) 5 [45] = Int32ToDecStr (-42) 5 [45] ∧
      Int64ToDecStr (-9223372036854775808) 5 [45] =
        signedDecimal (-9223372036854775808) 5 [45] :=
  have h := decimal_string_formatting 5 [45]
  ⟨(h.1 (-42) (by decide) (by decide)).1, (h.1 (-42) (by decide) (by decide)).2,
    h.2 (-9223372036854775808) (by decide) (by decide)⟩

/-! ## The write loop of FormatFixed fills the sized region exactly -/

/-- With an empty group-size array the write loop emits the digits alone. -/
theorem groupWriteLoop_ungrouped (gd : List Int) (dig : List Nat) (digStart : Nat)
    (sGroup : List Nat) (n : Nat) :
    ∀ (written : List Nat) (idx : Nat) (dc : Int),
      (groupWriteLoop gd dig digStart sGroup n written idx 0 dc).length = written.length + n := by
  induction n with
  | zero => intro written idx dc; simp [groupWriteLoop]
  | succ i ih =>
    intro written idx dc
    unfold groupWriteLoop
    dsimp only
    rw [if_neg (by decide : ¬ (0 : Int) > 0), ih]
    simp only [List.length_cons]
    omega

/-- Whatever the sizing step of `FormatFixed` yields, the backward write loop
emits exactly `bufferSize` code units. -/
theorem groupWriteLoop_sized (number : NUMBER) (gd : List Int) (sGroup : List Nat)
    (hg : ∀ g ∈ gd, 0 ≤ g ∧ g ≤ 2147483647) (hsl : sGroup.length ≤ 2147483647)
    (hpos : 0 < number.scale) (hsc : number.scale ≤ 2147483647) (c' b' : Int)
    (hsz : (if gd.length ≠ 0 then
        groupSizeLoop gd number.scale (sGroup.length : Int)
          (gd.length + number.scale.toNat + 2) 0 (tableAt gd 0) number.scale
      else .ok (tableAt gd 0, number.scale)) = .ok (c', b')) :
    ((groupWriteLoop gd number.digits (min number.scale.toNat (cstr number.digits).length)
      sGroup number.scale.toNat [] 0
      (if gd.length ≠ 0 then (if c' = 0 then 0 else tableAt gd 0) else 0) 0).length : Int) =
      b' := by
  have hn : ((number.scale.toNat : Nat) : Int) = number.scale := Int.toNat_of_nonneg (by omega)
  have hg0 := tableAt_range gd hg ((0 : Nat) : Int)
  simp only [Nat.cast_zero] at hg0
  by_cases hlen : gd.length ≠ 0
  · rw [if_pos hlen] at hsz
    rw [if_pos hlen]
    have h := groupWriteLoop_length_eq gd hg number.digits
      (min number.scale.toNat (cstr number.digits).length) sGroup hsl number.scale
      number.scale.toNat (gd.length + number.scale.toNat + 2) [] 0 _ _ 0 c' b' (by omega)
      (by omega) hg0.1 hg0.2 (by omega) hsc
      (by
        by_cases hz : tableAt gd ((0 : Nat) : Int) = 0
        · left; exact hz
        · right
          simp only [Nat.cast_zero] at hz ⊢
          omega) hsz
    have hc := groupSizeLoop_count_le gd hg number.scale _ _ _ _ _ _ _ hg0.1 hg0.2 hsz
    have hgs : (if c' = 0 then 0 else tableAt gd 0) = tableAt gd 0 := by
      by_cases h0 : c' = 0
      · rw [if_pos h0]; omega
      · rw [if_neg h0]
    simp only [Nat.cast_zero] at h
    rw [hgs, h]
    simp only [List.length_nil, Nat.cast_zero]
    omega
  · rw [if_neg hlen] at hsz
    rw [if_neg hlen]
    injection hsz with hsz
    have hb : number.scale = b' := (Prod.mk.inj hsz).2
    rw [groupWriteLoop_ungrouped]
    simp only [List.length_nil, Nat.zero_add]
    omega

/-- Once the sizing step has succeeded, the grouped integer part of
`FormatFixed` is the buffer followed by what the write loop emitted, with no
cell of the sized region left over. -/
theorem formatFixedGrouped_written (buffer : List Nat) (number : NUMBER) (gd : List Int)
    (sGroup : List Nat) (hg : ∀ g ∈ gd, 0 ≤ g ∧ g ≤ 2147483647)
    (hsl : sGroup.length ≤ 2147483647) (hpos : 0 < number.scale)
    (hsc : number.scale ≤ 2147483647) (c' b' : Int)
    (hsz : (if gd.length ≠ 0 then
        groupSizeLoop gd number.scale (sGroup.length : Int)
          (gd.length + number.scale.toNat + 2) 0 (tableAt gd 0) number.scale
      else .ok (tableAt gd 0, number.scale)) = .ok (c', b')) :
    formatFixedGrouped buffer number gd sGroup =
      .ok (buffer ++ groupWriteLoop gd number.digits
        (min number.scale.toNat (cstr number.digits).length) sGroup number.scale.toNat [] 0
        (if gd.length ≠ 0 then (if c' = 0 then 0 else tableAt gd 0) else 0) 0,
        number.digits.drop (min number.scale.toNat (cstr number.digits).length)) := by
  have hlen := groupWriteLoop_sized number gd sGroup hg hsl hpos hsc c' b' hsz
  unfold formatFixedGrouped
  dsimp only
  rw [hsz]
  dsimp only
  rw [if_neg (by rw [hlen]; exact lt_irrefl _)]
  have hrep : b'.toNat - (groupWriteLoop gd number.digits
      (min number.scale.toNat (cstr number.digits).length) sGroup number.scale.toNat [] 0
      (if gd.length ≠ 0 then (if c' = 0 then 0 else tableAt gd 0) else 0) 0).length = 0 := by
    omega
  rw [hrep]
  simp

/-- The group size the write loop starts with is the first entry of the
array (0 for an empty array). -/
theorem groupWriteLoop_first_size (number : NUMBER) (gd : List Int) (sGroup : List Nat)
    (hg : ∀ g ∈ gd, 0 ≤ g ∧ g ≤ 2147483647) (c' b' : Int)
    (hsz : (if gd.length ≠ 0 then
        groupSizeLoop gd number.scale (sGroup.length : Int)
          (gd.length + number.scale.toNat + 2) 0 (tableAt gd 0) number.scale
      else .ok (tableAt gd 0, number.scale)) = .ok (c', b')) :
    (if gd.length ≠ 0 then (if c' = 0 then 0 else tableAt gd 0) else 0) = tableAt gd 0 := by
  have hg0 := tableAt_range gd hg ((0 : Nat) : Int)
  simp only [Nat.cast_zero] at hg0
  by_cases hlen : gd.length ≠ 0
  · rw [if_pos hlen] at hsz
    rw [if_pos hlen]
    have hc := groupSizeLoop_count_le gd hg number.scale _ _ _ _ _ _ _ hg0.1 hg0.2 hsz
    by_cases h0 : c' = 0
    · rw [if_pos h0]; omega
    · rw [if_neg h0]
  · rw [if_neg hlen]
    have hnil : gd = [] := by
      have : gd.length = 0 := by
        by_contra h; exact hlen h
      exact List.length_eq_zero.mp this
    rw [hnil]
    rfl

/-- C31: for every digit buffer with `scale > 0`, every sequence of
non-negative group sizes and every group separator, once the sizing loop of
`FormatFixed` has produced `bufferSize` (it raises the argument exception when
a running total overflows), the backward write loop emits exactly `bufferSize`
code units: the region is filled with no cell left over, the underflow check
`p < buffer - 1` does not fire, and the result is the buffer followed by the
written text. -/
theorem FormatFixed_write_matches_size (buffer : List Nat) (number : NUMBER) (gd : List Int)
    (sGroup : List Nat) (hg : ∀ g ∈ gd, 0 ≤ g ∧ g ≤ 2147483647)
    (hsl : sGroup.length ≤ 2147483647) (hpos : 0 < number.scale)
    (hsc : number.scale ≤ 2147483647) :
    formatFixedGrouped buffer number gd sGroup ≠ .error FormatError.failFast ∧
      (∀ e, formatFixedGrouped buffer number gd sGroup = .error e →
        e = FormatError.argumentOutOfRange) ∧
      ∀ c' b' : Int,
        (if gd.length ≠ 0 then
          groupSizeLoop gd number.scale (sGroup.length : Int)
            (gd.length + number.scale.toNat + 2) 0 (tableAt gd 0) number.scale
         else .ok (tableAt gd 0, number.scale)) = .ok (c', b') →
        ((groupWriteLoop gd number.digits
          (min number.scale.toNat (cstr number.digits).length) sGroup number.scale.toNat [] 0
          (if gd.length ≠ 0 then (if c' = 0 then 0 else tableAt gd 0) else 0) 0).length : Int) =
          b' ∧
        formatFixedGrouped buffer number gd sGroup =
          .ok (buffer ++ groupWriteLoop gd number.digits
            (min number.scale.toNat (cstr number.digits).length) sGroup number.scale.toNat [] 0
            (if gd.length ≠ 0 then (if c' = 0 then 0 else tableAt gd 0) else 0) 0,
            number.digits.drop (min number.scale.toNat (cstr number.digits).length)) := by
  have hkind := (formatFixedGrouped_length buffer number gd sGroup hg hsl hpos hsc).1
  refine ⟨fun h => ?_, hkind, fun c' b' hsz => ?_⟩
  · have := hkind _ h
    cases this
  · exact ⟨groupWriteLoop_sized number gd sGroup hg hsl hpos hsc c' b' hsz,
      formatFixedGrouped_written buffer number gd sGroup hg hsl hpos hsc c' b' hsz⟩

/-- Witness for `FormatFixed_write_matches_size`: the digits `1234567` with
group sizes `3, 2` and the separator `,`. -/
theorem FormatFixed_write_matches_size_witness :
    formatFixedGrouped [] ⟨15, 7, false, [49, 50, 51, 52, 53, 54, 55]⟩ [3, 2] [44] ≠
        .error FormatError.failFast ∧
      formatFixedGrouped [] ⟨15, 7, false, [49, 50, 51, 52, 53, 54, 55]⟩ [3, 2] [44] =
        .ok ([49, 50, 44, 51, 52, 44, 53, 54, 55], []) :=
  have h := FormatFixed_write_matches_size [] ⟨15, 7, false, [49, 50, 51, 52, 53, 54, 55]⟩
    [3, 2] [44] (by decide) (by decide) (by decide) (by decide)
  ⟨h.1, (h.2.2 7 9 (by decide)).2⟩

/-! ## A value that rounds to zero is formatted as positive zero -/

/-- A rounded buffer of decimal digits without a first digit is the canonical
zero: no digits, scale 0, sign cleared. -/
theorem RoundNumber_canonical_of_head (n : NUMBER) (pos : Int) (hdec : IsDecimal n.digits)
    (hz : wcharAt (RoundNumber n pos).digits 0 = 0) :
    RoundNumber n pos = ⟨n.precision, 0, false, []⟩ := by
  by_cases hup : 0 ≤ pos ∧ pos.toNat < n.digits.length ∧ 53 ≤ wcharAt n.digits pos.toNat
  · exfalso
    rw [RoundNumber_up n pos hdec hup.1 hup.2.1 hup.2.2] at hz
    by_cases hj : 0 < backWhile n.digits 57 pos.toNat
    · rw [if_pos hj] at hz
      dsimp only at hz
      have hle := backWhile_le n.digits 57 pos.toNat
      by_cases h1 : backWhile n.digits 57 pos.toNat - 1 = 0
      · rw [h1] at hz
        simp [wcharAt] at hz
      · have hlt : 0 < (n.digits.take (backWhile n.digits 57 pos.toNat - 1)).length := by
          rw [List.length_take]; omega
        rw [wcharAt_append_left _ _ _ hlt] at hz
        have hmem : wcharAt (n.digits.take (backWhile n.digits 57 pos.toNat - 1)) 0 ∈
            n.digits.take (backWhile n.digits 57 pos.toNat - 1) := wcharAt_mem _ _ hlt
        have := hdec _ (List.mem_of_mem_take hmem)
        omega
    · rw [if_neg hj] at hz
      simp [wcharAt] at hz
  · rw [RoundNumber_down n pos hdec hup] at hz ⊢
    have hkle := backWhile_le n.digits 48 (min pos.toNat n.digits.length)
    generalize backWhile n.digits 48 (min pos.toNat n.digits.length) = k at hz hkle ⊢
    dsimp only at hz
    by_cases hk : k = 0
    · subst hk
      simp
    · exfalso
      have hlt : 0 < (n.digits.take k).length := by
        rw [List.length_take]
        omega
      have hmem : wcharAt (n.digits.take k) 0 ∈ n.digits.take k := wcharAt_mem _ _ hlt
      have := hdec _ (List.mem_of_mem_take hmem)
      omega

/-- With rounding enabled, a buffer whose rounded digits are empty is laid out
as the canonical zero. -/
theorem NumberToStringRounded_canonical (number : NUMBER) (format : Nat) (digits : Int)
    (numfmt : NumberFormatInfo) (bDecimal : Bool) (hdec : IsDecimal number.digits)
    (hset : format &&& 0xFFDF = 67 ∨ format &&& 0xFFDF = 70 ∨ format &&& 0xFFDF = 78 ∨
      format &&& 0xFFDF = 69 ∨ format &&& 0xFFDF = 71 ∨ format &&& 0xFFDF = 80)
    (hround : ¬ (format &&& 0xFFDF = 71 ∧ digits < 1 ∧ bDecimal = true ∧ digits = -1))
    (hz : wcharAt (NumberToStringRounded number format digits numfmt bDecimal).digits 0 = 0) :
    NumberToStringRounded number format digits numfmt bDecimal =
      ⟨number.precision, 0, false, []⟩ := by
  unfold NumberToStringRounded at hz ⊢
  dsimp only at hz ⊢
  by_cases h1 : format &&& 0xFFDF = 67 ∨ format &&& 0xFFDF = 70 ∨ format &&& 0xFFDF = 78
  · rw [if_pos h1] at hz ⊢
    exact RoundNumber_canonical_of_head _ _ hdec hz
  · rw [if_neg h1] at hz ⊢
    by_cases h2 : format &&& 0xFFDF = 69
    · rw [if_pos h2] at hz ⊢
      exact RoundNumber_canonical_of_head _ _ hdec hz
    · rw [if_neg h2] at hz ⊢
      by_cases h3 : format &&& 0xFFDF = 71
      · rw [if_pos h3] at hz ⊢
        have hnr : ¬ (digits < 1 ∧ bDecimal = true ∧ digits = -1) := fun h => hround ⟨h3, h⟩
        rw [if_neg hnr] at hz ⊢
        exact RoundNumber_canonical_of_head _ _ hdec hz
      · rw [if_neg h3] at hz ⊢
        have h4 : format &&& 0xFFDF = 80 := by
          rcases hset with h | h | h | h | h | h
          · exact absurd (Or.inl h) h1
          · exact absurd (Or.inr (Or.inl h)) h1
          · exact absurd (Or.inr (Or.inr h)) h1
          · exact absurd h h2
          · exact absurd h h3
          · exact h
        rw [if_pos h4] at hz ⊢
        exact RoundNumber_canonical_of_head
          { number with scale := wrapInt32 (number.scale + 2) } _ hdec hz

/-- The canonical zero passes through the rounding step of `NumberToString`
unchanged. -/
theorem NumberToStringRounded_zero (p : Int) (format : Nat) (digits : Int)
    (numfmt : NumberFormatInfo) (bDecimal : Bool) :
    NumberToStringRounded ⟨p, 0, false, []⟩ format digits numfmt bDecimal =
      ⟨p, 0, false, []⟩ := by
  unfold NumberToStringRounded
  dsimp only
  split
  · exact RoundNumber_no_digits _ _ _ _
  · split
    · exact RoundNumber_no_digits _ _ _ _
    · split
      · split
        · rfl
        · exact RoundNumber_no_digits _ _ _ _
      · split
        · exact RoundNumber_no_digits _ _ _ _
        · rfl

/-- The working precision depends on the buffer through its precision field
only. -/
theorem effectiveDigits_precision (n1 n2 : NUMBER) (format : Nat) (digits : Int)
    (numfmt : NumberFormatInfo) (bDecimal : Bool) (h : n1.precision = n2.precision) :
    effectiveDigits n1 format digits numfmt bDecimal =
      effectiveDigits n2 format digits numfmt bDecimal := by
  unfold effectiveDigits
  rw [h]

/-- Two buffers that agree after the rounding step and on the working
precision give the same text whenever `NumberToString` returns a string for
both. -/
theorem NumberToString_text_of_rounded (n1 n2 : NUMBER) (format : Nat) (digits : Int)
    (numfmt : NumberFormatInfo) (bDecimal : Bool)
    (hr : NumberToStringRounded n1 format digits numfmt bDecimal =
      NumberToStringRounded n2 format digits numfmt bDecimal)
    (hd : effectiveDigits n1 format digits numfmt bDecimal =
      effectiveDigits n2 format digits numfmt bDecimal) (t1 t2 : List Nat)
    (h1 : NumberToString n1 format digits numfmt bDecimal = .ok t1)
    (h2 : NumberToString n2 format digits numfmt bDecimal = .ok t2) : t1 = t2 := by
  unfold NumberToString at h1 h2
  dsimp only at h1 h2
  rw [hr, hd] at h1
  by_cases hset : format &&& 0xFFDF = 67 ∨ format &&& 0xFFDF = 70 ∨ format &&& 0xFFDF = 78 ∨
      format &&& 0xFFDF = 69 ∨ format &&& 0xFFDF = 71 ∨ format &&& 0xFFDF = 80
  · rw [if_pos hset] at h1 h2
    by_cases hc1 : NumberToStringBufferLen n1 format digits numfmt bDecimal > INT32_MAX
    · rw [if_pos hc1] at h1; cases h1
    · rw [if_neg hc1] at h1
      by_cases hc2 : NumberToStringBufferLen n2 format digits numfmt bDecimal > INT32_MAX
      · rw [if_pos hc2] at h2; cases h2
      · rw [if_neg hc2] at h2
        revert h1 h2
        generalize (if format &&& 0xFFDF = 67 then
            FormatCurrency [] (NumberToStringRounded n2 format digits numfmt bDecimal)
              (effectiveDigits n2 format digits numfmt bDecimal) numfmt
          else if format &&& 0xFFDF = 70 then
            FormatFixed
              (if (NumberToStringRounded n2 format digits numfmt bDecimal).sign then
                numfmt.sNegative else [])
              (NumberToStringRounded n2 format digits numfmt bDecimal)
              (effectiveDigits n2 format digits numfmt bDecimal) none numfmt.sNumberDecimal []
          else if format &&& 0xFFDF = 78 then
            FormatNumber [] (NumberToStringRounded n2 format digits numfmt bDecimal)
              (effectiveDigits n2 format digits numfmt bDecimal) numfmt
          else if format &&& 0xFFDF = 69 then
            .ok (FormatScientific
              (if (NumberToStringRounded n2 format digits numfmt bDecimal).sign then
                numfmt.sNegative else [])
              (NumberToStringRounded n2 format digits numfmt bDecimal)
              (effectiveDigits n2 format digits numfmt bDecimal) format numfmt)
          else if format &&& 0xFFDF = 71 then
            .ok (FormatGeneral
              (if (NumberToStringRounded n2 format digits numfmt bDecimal).sign then
                numfmt.sNegative else [])
              (NumberToStringRounded n2 format digits numfmt bDecimal)
              (effectiveDigits n2 format digits numfmt bDecimal)
              (toWchar (format + 65536 - 2)) numfmt
              (decide (digits < 1 ∧ bDecimal = true ∧ digits = -1)))
          else FormatPercent [] (NumberToStringRounded n2 format digits numfmt bDecimal)
            (effectiveDigits n2 format digits numfmt bDecimal) numfmt) = T
        intro h1 h2
        cases T with
        | error e => cases h1
        | ok dst =>
          dsimp only at h1 h2
          have e1 : dst = t1 := by
            by_cases hl : (dst.length : Int) ≤
                NumberToStringBufferLen n1 format digits numfmt bDecimal * 2
            · rw [if_pos hl] at h1; injection h1
            · rw [if_neg hl] at h1; cases h1
          have e2 : dst = t2 := by
            by_cases hl : (dst.length : Int) ≤
                NumberToStringBufferLen n2 format digits numfmt bDecimal * 2
            · rw [if_pos hl] at h2; injection h2
            · rw [if_neg hl] at h2; cases h2
          rw [← e1, ← e2]
  · rw [if_neg hset] at h1; cases h1

/-- C37: for every digit buffer (a negative one in particular) whose digits
become empty when rounded at the requested precision, in each of the formats
`C`, `F`, `N`, `E`, `G` (with rounding enabled) and `P`: the buffer that
`NumberToString` lays out is the canonical zero, the same as for the positive
zero buffer of that precision, so whenever both calls return a string the two
strings are equal; and under a configuration of moderate size whose pattern
indices select a template of their table both calls do return that one
string. -/
theorem NumberToString_negative_rounds_to_zero (number : NUMBER) (format : Nat) (digits : Int)
    (numfmt : NumberFormatInfo) (bDecimal : Bool) (hdec : IsDecimal number.digits)
    (hset : format &&& 0xFFDF = 67 ∨ format &&& 0xFFDF = 70 ∨ format &&& 0xFFDF = 78 ∨
      format &&& 0xFFDF = 69 ∨ format &&& 0xFFDF = 71 ∨ format &&& 0xFFDF = 80)
    (hround : ¬ (format &&& 0xFFDF = 71 ∧ digits < 1 ∧ bDecimal = true ∧ digits = -1))
    (hz : wcharAt (NumberToStringRounded number format digits numfmt bDecimal).digits 0 = 0) :
    NumberToStringRounded number format digits numfmt bDecimal =
        ⟨number.precision, 0, false, []⟩ ∧
      NumberToStringRounded ⟨number.precision, 0, false, []⟩ format digits numfmt bDecimal =
        ⟨number.precision, 0, false, []⟩ ∧
      (∀ t1 t2, NumberToString number format digits numfmt bDecimal = .ok t1 →
        NumberToString ⟨number.precision, 0, false, []⟩ format digits numfmt bDecimal =
          .ok t2 → t1 = t2) ∧
      (IsModestNumberFormatInfo numfmt → HasPatternIndices numfmt →
        IsValidDigitBuffer number bDecimal →
        -1 ≤ digits ∧ digits ≤ 99 → number.scale ≤ 400 → number.precision ≤ 100 →
        ∃ t, NumberToString number format digits numfmt bDecimal = .ok t ∧
          NumberToString ⟨number.precision, 0, false, []⟩ format digits numfmt bDecimal =
            .ok t) := by
  have hc := NumberToStringRounded_canonical number format digits numfmt bDecimal hdec hset
    hround hz
  have hzr := NumberToStringRounded_zero number.precision format digits numfmt bDecimal
  have hd := effectiveDigits_precision number ⟨number.precision, 0, false, []⟩ format digits
    numfmt bDecimal rfl
  have hsame := NumberToString_text_of_rounded number ⟨number.precision, 0, false, []⟩ format
    digits numfmt bDecimal (by rw [hc, hzr]) hd
  refine ⟨hc, hzr, hsame, fun hm _ hb hdig hsc hpr => ?_⟩
  obtain ⟨t1, ht1⟩ := NumberToString_ok number format digits numfmt bDecimal hm hb hdig hsc hpr
    hset
  have hbz : IsValidDigitBuffer (⟨number.precision, 0, false, []⟩ : NUMBER) bDecimal := by
    obtain ⟨-, -, -, hp0, hp1, -⟩ := hb
    unfold IsValidDigitBuffer
    dsimp only
    refine ⟨by decide, by decide, by decide, hp0, hp1, fun _ => ⟨by decide, by decide,
      by decide⟩⟩
  obtain ⟨t2, ht2⟩ := NumberToString_ok ⟨number.precision, 0, false, []⟩ format digits numfmt
    bDecimal hm hbz hdig (show (0 : Int) ≤ 400 by decide) hpr hset
  have := hsame t1 t2 ht1 ht2
  subst this
  exact ⟨t1, ht1, ht2⟩

/-- Witness for `NumberToString_negative_rounds_to_zero`: the value `-0.004`
in format `N` with 2 decimals. -/
theorem NumberToString_negative_rounds_to_zero_witness :
    NumberToStringRounded ⟨15, -2, true, [52]⟩ 78 2
        ⟨[3], [3], [3], [43], [45], [46], [44], [44], [46], [36], [44], [46], [37],
          [0x2030], [78, 97, 78], [73], [45, 73], 2, 2, 2, 1, 0, 0, 1, 1⟩ false =
        ⟨15, 0, false, []⟩ ∧
      ∃ t, NumberToString ⟨15, -2, true, [52]⟩ 78 2
          ⟨[3], [3], [3], [43], [45], [46], [44], [44], [46], [36], [44], [46], [37],
            [0x2030], [78, 97, 78], [73], [45, 73], 2, 2, 2, 1, 0, 0, 1, 1⟩ false = .ok t ∧
        NumberToString ⟨15, 0, false, []⟩ 78 2
          ⟨[3], [3], [3], [43], [45], [46], [44], [44], [46], [36], [44], [46], [37],
            [0x2030], [78, 97, 78], [73], [45, 73], 2, 2, 2, 1, 0, 0, 1, 1⟩ false = .ok t :=
  have h := NumberToString_negative_rounds_to_zero ⟨15, -2, true, [52]⟩ 78 2
    ⟨[3], [3], [3], [43], [45], [46], [44], [44], [46], [36], [44], [46], [37],
      [0x2030], [78, 97, 78], [73], [45, 73], 2, 2, 2, 1, 0, 0, 1, 1⟩ false
    (by decide) (by decide) (by decide) (by decide)
  ⟨h.1, h.2.2.2 (by decide) (by decide) (by decide) (by decide) (by decide) (by decide)⟩

/-- The value `-0.004` in the formats `N2`, `C2`, `P0` and `E2`: the text of
positive zero, without the negative pattern. -/
theorem NumberToString_negative_rounds_to_zero_examples :
    NumberToString ⟨15, -2, true, [52]⟩ 78 2
        ⟨[3], [3], [3], [43], [45], [46], [44], [44], [46], [36], [44], [46], [37],
          [0x2030], [78, 97, 78], [73], [45, 73], 2, 2, 2, 1, 0, 0, 1, 1⟩ false =
        .ok [48, 46, 48, 48] ∧
      NumberToString ⟨15, -2, true, [52]⟩ 67 2
        ⟨[3], [3], [3], [43], [45], [46], [44], [44], [46], [36], [44], [46], [37],
          [0x2030], [78, 97, 78], [73], [45, 73], 2, 2, 2, 1, 0, 0, 1, 1⟩ false =
        .ok [36, 48, 46, 48, 48] ∧
      NumberToString ⟨15, -2, true, [52]⟩ 80 0
        ⟨[3], [3], [3], [43], [45], [46], [44], [44], [46], [36], [44], [46], [37],
          [0x2030], [78, 97, 78], [73], [45, 73], 2, 2, 2, 1, 0, 0, 1, 1⟩ false =
        .ok [48, 37] := by
  refine ⟨by decide, by decide, by decide⟩

/-! ## The sign prefix of a picture -/

theorem addGroupSeparator_extends (numfmt : NumberFormatInfo) (thousandSeps : Bool) (digPos : Int)
    (p d : List Nat) (seps : List Int) :
    addGroupSeparator numfmt thousandSeps digPos (p ++ d) seps =
      (p ++ (addGroupSeparator numfmt thousandSeps digPos d seps).1,
        (addGroupSeparator numfmt thousandSeps digPos d seps).2) := by
  cases seps with
  | nil => rfl
  | cons top rest =>
    unfold addGroupSeparator
    dsimp only
    split
    · simp
    · rfl

/-- The overflow loop only appends to the text. -/
theorem emitOverflowDigits_dst_extends (numfmt : NumberFormatInfo) (thousandSeps : Bool)
    (p : List Nat) (n : Nat) :
    ∀ st : PictureState,
      emitOverflowDigits numfmt thousandSeps n { st with dst := p ++ st.dst } =
        { emitOverflowDigits numfmt thousandSeps n st with
          dst := p ++ (emitOverflowDigits numfmt thousandSeps n st).dst } := by
  induction n with
  | zero => intro st; rfl
  | succ n ih =>
    intro st
    unfold emitOverflowDigits
    dsimp only
    rw [List.append_assoc, addGroupSeparator_extends]
    exact ih
      { st with
        dst := (addGroupSeparator numfmt thousandSeps st.digPos
          (st.dst ++ [(nextDigit st.dig).1]) st.seps).1
        dig := (nextDigit st.dig).2
        seps := (addGroupSeparator numfmt thousandSeps st.digPos
          (st.dst ++ [(nextDigit st.dig).1]) st.seps).2
        digPos := st.digPos - 1
        adjust := st.adjust - 1 }

theorem FormatExponent_extends (p buffer : List Nat) (value : Int) (expChar : Nat)
    (posSignStr : Option (List Nat)) (negSignStr : List Nat) (minDigits : Int) :
    FormatExponent (p ++ buffer) value expChar posSignStr negSignStr minDigits =
      p ++ FormatExponent buffer value expChar posSignStr negSignStr minDigits := by
  unfold FormatExponent
  dsimp only
  split
  · simp
  · cases posSignStr <;> simp

/-- One step of the output loop only appends to the text. -/
theorem pictureStep_dst_extends (number : NUMBER) (format : List Nat) (numfmt : NumberFormatInfo)
    (info : PictureInfo) (firstDigit lastDigit : Int) (thousandSeps : Bool) (ch : Nat)
    (p : List Nat) (st : PictureState) :
    pictureStep number format numfmt info firstDigit lastDigit thousandSeps ch
        { st with dst := p ++ st.dst } =
      { pictureStep number format numfmt info firstDigit lastDigit thousandSeps ch st with
        dst := p ++ (pictureStep number format numfmt info firstDigit lastDigit thousandSeps ch
          st).dst } := by
  unfold pictureStep
  dsimp only
  by_cases h1 : ch = 35 ∨ ch = 48
  · simp only [h1, if_true]
    by_cases ha : st.adjust < 0
    · simp only [ha, if_true]
      generalize (if st.digPos ≤ firstDigit then 48 else 0) = o
      by_cases ho : o ≠ 0
      · rw [if_pos ho, if_pos ho, List.append_assoc, addGroupSeparator_extends]
      · rw [if_neg ho, if_neg ho]
    · simp only [ha, if_false]
      generalize (if wcharAt st.dig 0 ≠ 0 then wcharAt st.dig 0
        else if st.digPos > lastDigit then 48 else 0) = o
      by_cases ho : o ≠ 0
      · rw [if_pos ho, if_pos ho, List.append_assoc, addGroupSeparator_extends]
      · rw [if_neg ho, if_neg ho]
  · simp only [h1, if_false]
    by_cases h2 : ch = 46
    · simp only [h2, if_true]
      split
      · rfl
      · split
        · simp
        · rfl
    · simp only [h2, if_false]
      by_cases h3 : ch = 0x2030
      · simp only [h3, if_true]; simp
      · simp only [h3, if_false]
        by_cases h4 : ch = 37
        · simp only [h4, if_true]; simp
        · simp only [h4, if_false]
          by_cases h5 : ch = 44
          · simp only [h5, if_true]
          · simp only [h5, if_false]
            by_cases h6 : ch = 39 ∨ ch = 34
            · simp only [h6, if_true]; simp
            · simp only [h6, if_false]
              by_cases h7 : ch = 92
              · simp only [h7, if_true]
                split
                · simp
                · rfl
              · simp only [h7, if_false]
                by_cases h8 : ch = 69 ∨ ch = 101
                · simp only [h8, if_true]
                  unfold pictureExponent
                  dsimp only
                  split
                  · split
                    · simp [FormatExponent_extends]
                    · simp
                  · split <;> simp
                · simp only [h8, if_false]
                  simp

/-- The output loop only appends to the text: started on a buffer that
already holds `p`, it yields `p` followed by what it yields on the buffer
without `p`. -/
theorem pictureLoop_dst_extends (number : NUMBER) (format : List Nat) (numfmt : NumberFormatInfo)
    (info : PictureInfo) (firstDigit lastDigit : Int) (thousandSeps : Bool) (p : List Nat)
    (fuel : Nat) :
    ∀ st : PictureState,
      pictureLoop number format numfmt info firstDigit lastDigit thousandSeps fuel
          { st with dst := p ++ st.dst } =
        { pictureLoop number format numfmt info firstDigit lastDigit thousandSeps fuel st with
          dst := p ++ (pictureLoop number format numfmt info firstDigit lastDigit thousandSeps
            fuel st).dst } := by
  induction fuel with
  | zero => intro st; rfl
  | succ fuel ih =>
    intro st
    unfold pictureLoop
    dsimp only
    split
    · rfl
    · split
      · have h1 := emitOverflowDigits_dst_extends numfmt thousandSeps p st.adjust.toNat
          { st with src := st.src + 1 }
        have h2 := pictureStep_dst_extends number format numfmt info firstDigit lastDigit
          thousandSeps (wcharAt format st.src) p
          (emitOverflowDigits numfmt thousandSeps st.adjust.toNat { st with src := st.src + 1 })
        have h3 := ih (pictureStep number format numfmt info firstDigit lastDigit thousandSeps
          (wcharAt format st.src)
          (emitOverflowDigits numfmt thousandSeps st.adjust.toNat { st with src := st.src + 1 }))
        rw [← h3, ← h2, ← h1]
      · have h2 := pictureStep_dst_extends number format numfmt info firstDigit lastDigit
          thousandSeps (wcharAt format st.src) p { st with src := st.src + 1 }
        have h3 := ih (pictureStep number format numfmt info firstDigit lastDigit thousandSeps
          (wcharAt format st.src) { st with src := st.src + 1 })
        rw [← h3, ← h2]

/-- A guarded result that is a string is the string of the unguarded branch. -/
theorem ite_error_eq_ok (c : Prop) [Decidable c] (e : FormatError) (x t : List Nat)
    (h : (if c then (.error e : Except FormatError (List Nat)) else .ok x) = .ok t) : x = t := by
  by_cases hc : c
  · rw [if_pos hc] at h; cases h
  · rw [if_neg hc] at h
    injection h

/-- A rounded buffer that still has a first digit keeps the sign it had. -/
theorem RoundNumber_sign_of_head (n : NUMBER) (pos : Int)
    (h : wcharAt (RoundNumber n pos).digits 0 ≠ 0) : (RoundNumber n pos).sign = n.sign := by
  unfold RoundNumber at h ⊢
  dsimp only at h ⊢
  generalize (if (scanDigits n.digits pos : Int) = pos ∧
      wcharAt n.digits (scanDigits n.digits pos) ≥ 53 then
      (if backWhile n.digits 57 (scanDigits n.digits pos) > 0 then
        (backWhile n.digits 57 (scanDigits n.digits pos), n.scale,
          n.digits.set (backWhile n.digits 57 (scanDigits n.digits pos) - 1)
            (toWchar (wcharAt n.digits (backWhile n.digits 57 (scanDigits n.digits pos) - 1) + 1)))
       else (1, wrapInt32 (n.scale + 1), n.digits.set 0 49))
    else (backWhile n.digits 48 (scanDigits n.digits pos), n.scale, n.digits)) = st at h ⊢
  by_cases hi : st.1 = 0
  · exfalso
    apply h
    rw [hi]
    rfl
  · rw [if_neg hi]

/-- The section `FindSection` returns for a negative value is the negative
section of the specification. -/
theorem FindSection_negative (format : List Nat) :
    FindSection format 1 = sectionStart format 1 := by
  unfold FindSection sectionStart
  rw [if_neg (by decide), if_neg (by decide)]
  rw [FindSectionLoop_eq format (format.length + 1) 0 1 (by omega) (by decide) (by decide)]
  rfl

/-- C38: for every picture string and every negative value that is still
non-zero (hence negative) after rounding, `NumberToStringFormat` renders the
section `FindSection(format, 1)`: the negative section when the picture has a
non-empty one, the first section otherwise. The text it returns is the text
the output loop generates for that section from an empty buffer, preceded by
the negative-sign string exactly when the section rendered is the first one;
with a non-empty negative section nothing is put in front. -/
theorem NumberToStringFormat_negative_sign_first (number : NUMBER) (format : List Nat)
    (numfmt : NumberFormatInfo) (hneg : number.sign = true)
    (hnz : wcharAt number.digits 0 ≠ 0)
    (hrz : wcharAt (pictureSetup number format).2.2.digits 0 ≠ 0) :
    (pictureSetup number format).1 = sectionStart format 1 ∧
      (pictureSetup number format).2.2.sign = true ∧
      ∀ t, NumberToStringFormat number format numfmt = .ok t →
        ∃ seps : List Int,
          t = (if sectionStart format 1 = 0 then numfmt.sNegative else []) ++
            (pictureLoop (pictureSetup number format).2.2 format numfmt
              (pictureSetup number format).2.1
              (if (pictureSetup number format).2.1.firstDigit <
                  (pictureSetup number format).2.1.decimalPos then
                (pictureSetup number format).2.1.decimalPos -
                  (pictureSetup number format).2.1.firstDigit else 0)
              (if (pictureSetup number format).2.1.lastDigit >
                  (pictureSetup number format).2.1.decimalPos then
                (pictureSetup number format).2.1.decimalPos -
                  (pictureSetup number format).2.1.lastDigit else 0)
              ((pictureSetup number format).2.1.thousandSeps &&
                decide (numfmt.cNumberGroup.length ≠ 0))
              (format.length + 1)
              { src := sectionStart format 1
                dst := []
                dig := (pictureSetup number format).2.2.digits
                digPos :=
                  if (pictureSetup number format).2.1.scientific then
                    (pictureSetup number format).2.1.decimalPos
                  else if (pictureSetup number format).2.2.scale >
                      (pictureSetup number format).2.1.decimalPos then
                    (pictureSetup number format).2.2.scale
                  else (pictureSetup number format).2.1.decimalPos
                adjust :=
                  if (pictureSetup number format).2.1.scientific then 0
                  else wrapInt32 ((pictureSetup number format).2.2.scale -
                    (pictureSetup number format).2.1.decimalPos)
                seps := seps
                scientific := (pictureSetup number format).2.1.scientific
                decimalWritten := false }).dst := by
  -- the section and the sign after the set-up
  have hsetup : (pictureSetup number format).1 = FindSection format 1 ∧
      (pictureSetup number format).2.2.sign = true := by
    unfold pictureSetup at hrz ⊢
    dsimp only at hrz ⊢
    have hsel : (if wcharAt number.digits 0 = 0 then (2 : Int) else
        if number.sign = true then 1 else 0) = 1 := by
      rw [if_neg hnz, if_pos hneg]
    rw [hsel] at hrz ⊢
    rw [if_pos hnz] at hrz ⊢
    by_cases hr0 : wcharAt (RoundNumber
        { number with
          scale := wrapInt32 (number.scale + (parsePicture format (FindSection format 1) 0).scaleAdjust) }
        (if (parsePicture format (FindSection format 1) 0).scientific = true then
          (parsePicture format (FindSection format 1) 0).digitCount
         else wrapInt32 (wrapInt32 (wrapInt32 (number.scale +
            (parsePicture format (FindSection format 1) 0).scaleAdjust) +
            (parsePicture format (FindSection format 1) 0).digitCount) -
            (parsePicture format (FindSection format 1) 0).decimalPos))).digits 0 = 0
    · exfalso
      rw [if_pos hr0] at hrz
      apply hrz
      by_cases hs : FindSection format 2 ≠ FindSection format 1
      · rw [if_pos hs]
        exact hr0
      · rw [if_neg hs]
        exact hr0
    · rw [if_neg hr0]
      refine ⟨rfl, ?_⟩
      dsimp only
      rw [RoundNumber_sign_of_head _ _ hr0]
      exact hneg
  obtain ⟨hsect, hsign⟩ := hsetup
  rw [FindSection_negative] at hsect
  refine ⟨hsect, hsign, fun t ht => ?_⟩
  unfold NumberToStringFormat at ht
  dsimp only at ht
  rw [hsect, hsign] at ht
  split at ht
  · cases ht
  · rename_i seps hseps
    refine ⟨seps, ?_⟩
    have ht2 := ite_error_eq_ok _ _ _ _ ht
    · rw [← ht2]
      have hpre := pictureLoop_dst_extends (pictureSetup number format).2.2 format numfmt
        (pictureSetup number format).2.1
        (if (pictureSetup number format).2.1.firstDigit <
            (pictureSetup number format).2.1.decimalPos then
          (pictureSetup number format).2.1.decimalPos -
            (pictureSetup number format).2.1.firstDigit else 0)
        (if (pictureSetup number format).2.1.lastDigit >
            (pictureSetup number format).2.1.decimalPos then
          (pictureSetup number format).2.1.decimalPos -
            (pictureSetup number format).2.1.lastDigit else 0)
        ((pictureSetup number format).2.1.thousandSeps &&
          decide (numfmt.cNumberGroup.length ≠ 0))
        (if sectionStart format 1 = 0 then numfmt.sNegative else [])
        (format.length + 1)
        { src := sectionStart format 1
          dst := []
          dig := (pictureSetup number format).2.2.digits
          digPos :=
            if (pictureSetup number format).2.1.scientific then
              (pictureSetup number format).2.1.decimalPos
            else if (pictureSetup number format).2.2.scale >
                (pictureSetup number format).2.1.decimalPos then
              (pictureSetup number format).2.2.scale
            else (pictureSetup number format).2.1.decimalPos
          adjust :=
            if (pictureSetup number format).2.1.scientific then 0
            else wrapInt32 ((pictureSetup number format).2.2.scale -
              (pictureSetup number format).2.1.decimalPos)
          seps := seps
          scientific := (pictureSetup number format).2.1.scientific
          decimalWritten := false }
      simp only [List.append_nil] at hpre
      have hp : (if (true = true) ∧ sectionStart format 1 = 0 then numfmt.sNegative else []) =
          (if sectionStart format 1 = 0 then numfmt.sNegative else []) := by
        simp
      rw [hp, hpre]

/-- Witness for `NumberToStringFormat_negative_sign_first`: the value `-5` with
the picture `0;(0)`. -/
theorem NumberToStringFormat_negative_sign_first_witness :
    (pictureSetup ⟨15, 1, true, [53]⟩ [48, 59, 40, 48, 41]).1 =
        sectionStart [48, 59, 40, 48, 41] 1 ∧
      (pictureSetup ⟨15, 1, true, [53]⟩ [48, 59, 40, 48, 41]).2.2.sign = true :=
  have h := NumberToStringFormat_negative_sign_first ⟨15, 1, true, [53]⟩ [48, 59, 40, 48, 41]
    ⟨[3], [3], [3], [43], [45], [46], [44], [44], [46], [36], [44], [46], [37],
      [0x2030], [78, 97, 78], [73], [45, 73], 2, 2, 2, 1, 0, 0, 1, 1⟩
    (by decide) (by decide) (by decide)
  ⟨h.1, h.2.1⟩

/-- The value `-5`: the picture `0` gives `-5`, the picture `0;(0)` gives
`(5)`, and the picture `0;` with an empty negative section gives `-5`. -/
theorem NumberToStringFormat_negative_sign_first_examples :
    sectionStart [48] 1 = 0 ∧
      NumberToStringFormat ⟨15, 1, true, [53]⟩ [48]
        ⟨[3], [3], [3], [43], [45], [46], [44], [44], [46], [36], [44], [46], [37],
          [0x2030], [78, 97, 78], [73], [45, 73], 2, 2, 2, 1, 0, 0, 1, 1⟩ = .ok [45, 53] ∧
      sectionStart [48, 59, 40, 48, 41] 1 = 2 ∧
      NumberToStringFormat ⟨15, 1, true, [53]⟩ [48, 59, 40, 48, 41]
        ⟨[3], [3], [3], [43], [45], [46], [44], [44], [46], [36], [44], [46], [37],
          [0x2030], [78, 97, 78], [73], [45, 73], 2, 2, 2, 1, 0, 0, 1, 1⟩ =
        .ok [40, 53, 41] ∧
      sectionStart [48, 59] 1 = 0 ∧
      NumberToStringFormat ⟨15, 1, true, [53]⟩ [48, 59]
        ⟨[3], [3], [3], [43], [45], [46], [44], [44], [46], [36], [44], [46], [37],
          [0x2030], [78, 97, 78], [73], [45, 73], 2, 2, 2, 1, 0, 0, 1, 1⟩ = .ok [45, 53] := by
  refine ⟨by decide, by decide, by decide, by decide, by decide, by decide⟩

/-! ## The separators of the backward and of the forward pass -/

theorem separatorPositions_of_zero (gd : List Int) (n : Int) (fuel idx : Nat) (total : Int)
    (h : tableAt gd idx = 0) : separatorPositions gd n fuel idx total = [] := by
  cases fuel with
  | zero => rfl
  | succ f =>
    unfold separatorPositions
    rw [if_neg (fun hc => hc.2 h)]

/-- Every separator position lies at or above the running total it starts
from, and below the number of digits. -/
theorem separatorPositions_range (gd : List Int) (hg : ∀ g ∈ gd, 0 ≤ g ∧ g ≤ 2147483647)
    (n : Int) (fuel : Nat) :
    ∀ (idx : Nat) (total p : Int), p ∈ separatorPositions gd n fuel idx total →
      total ≤ p ∧ p < n := by
  induction fuel with
  | zero => intro idx total p h; simp [separatorPositions] at h
  | succ fuel ih =>
    intro idx total p h
    unfold separatorPositions at h
    by_cases hc : n > total ∧ tableAt gd idx ≠ 0
    · rw [if_pos hc] at h
      rcases List.mem_cons.mp h with h1 | h1
      · subst h1; exact ⟨le_refl _, hc.1⟩
      · have := ih _ _ _ h1
        have hr := tableAt_range gd hg
          ((if (idx : Int) < (gd.length : Int) - 1 then idx + 1 else idx : Nat) : Int)
        omega
    · rw [if_neg hc] at h
      simp at h

/-- The backward write loop of `FormatFixed`, entered at index `i` with the
separated text of the digits to its right already written, yields the
separated text of all the digits: it puts a separator in front of a digit
exactly at the separator positions. -/
theorem groupWriteLoop_separated (gd : List Int) (hg : ∀ g ∈ gd, 0 ≤ g ∧ g ≤ 2147483647)
    (dig ds : List Nat) (digStart : Nat) (S : List Nat) (P : List Int)
    (hdg : ∀ j, j < ds.length → (if j < digStart then wcharAt dig j else 48) = wcharAt ds j)
    (i : Nat) :
    ∀ (idx : Nat) (dc total : Int) (fuel : Nat), i + 1 ≤ ds.length →
      (tableAt gd idx = 0 ∨
        (0 ≤ dc ∧ dc < tableAt gd idx ∧
          total = (ds.length : Int) - ((i : Int) + 1) + tableAt gd idx - dc ∧
          (ds.length : Int) - total + 1 < fuel)) →
      (∀ p : Int, (ds.length : Int) - ((i : Int) + 1) < p →
        (p ∈ P ↔ p ∈ separatorPositions gd ds.length fuel idx total)) →
      groupWriteLoop gd dig digStart S (i + 1) (separatedBefore S P (ds.drop (i + 1))) idx
          (tableAt gd idx) dc = separatedBefore S P ds := by
  induction i with
  | zero =>
    intro idx dc total fuel hi hinv hP
    have hds : ds = wcharAt ds 0 :: ds.drop 1 := by
      have := drop_eq_cons_wcharAt ds 0 (by omega)
      simpa using this
    have hnot : ¬ ((ds.length : Int) ∈ P) := by
      intro hmem
      have := (hP ds.length (by omega)).mp hmem
      have := separatorPositions_range gd hg _ _ _ _ _ this
      omega
    have hlen1 : (((ds.drop 1).length + 1 : Nat) : Int) = (ds.length : Int) := by
      rw [List.length_drop]
      push_cast
      omega
    have hout : separatedBefore S P ds = wcharAt ds 0 :: separatedBefore S P (ds.drop 1) := by
      conv_lhs => rw [hds]
      rw [separatedBefore, hlen1, if_neg hnot, List.nil_append]
    rw [hout]
    have hch := hdg 0 (by omega)
    unfold groupWriteLoop
    simp only [hch, zero_add, ne_eq, not_true_eq_false, and_false, if_false]
    split <;> simp [groupWriteLoop]
  | succ i ih =>
    intro idx dc total fuel hi hinv hP
    have hds : ds.drop (i + 1) = wcharAt ds (i + 1) :: ds.drop (i + 1 + 1) :=
      drop_eq_cons_wcharAt ds (i + 1) (by omega)
    have hlen1 : (((ds.drop (i + 1 + 1)).length + 1 : Nat) : Int) =
        (ds.length : Int) - ((i : Int) + 1) := by
      rw [List.length_drop]
      push_cast
      omega
    have hout : separatedBefore S P (ds.drop (i + 1)) =
        (if ((ds.length : Int) - ((i : Int) + 1)) ∈ P then S else []) ++
          wcharAt ds (i + 1) :: separatedBefore S P (ds.drop (i + 1 + 1)) := by
      conv_lhs => rw [hds]
      rw [separatedBefore, hlen1]
    have hch := hdg (i + 1) (by omega)
    have hgr := tableAt_range gd hg idx
    have hcast : (((i + 1 : Nat) : Int)) = (i : Int) + 1 := by push_cast; rfl
    rw [hcast] at hinv hP
    unfold groupWriteLoop
    simp only [hch]
    by_cases h1 : tableAt gd idx > 0
    · rw [if_pos h1]
      rcases hinv with h0 | ⟨hd0, hd1, htot, hfuel⟩
      · omega
      · by_cases h2 : dc + 1 = tableAt gd idx ∧ i + 1 ≠ 0
        · rw [if_pos h2]
          -- a separator stands in front of this digit
          have htot2 : total = (ds.length : Int) - ((i : Int) + 1) := by omega
          obtain ⟨f, rfl⟩ : ∃ f, fuel = f + 1 := ⟨fuel - 1, by omega⟩
          have hunf : separatorPositions gd ds.length (f + 1) idx total =
              total :: separatorPositions gd ds.length f
                (if (idx : Int) < (gd.length : Int) - 1 then idx + 1 else idx)
                (total + tableAt gd
                  ((if (idx : Int) < (gd.length : Int) - 1 then idx + 1 else idx : Nat) :
                    Int)) := by
            conv_lhs => unfold separatorPositions
            rw [if_pos ⟨by omega, by omega⟩]
          have hmem : ((ds.length : Int) - ((i : Int) + 1)) ∈ P := by
            rw [hP _ (by omega), hunf, ← htot2]
            exact List.mem_cons_self _ _
          have hw : S ++ wcharAt ds (i + 1) :: separatedBefore S P (ds.drop (i + 1 + 1)) =
              separatedBefore S P (ds.drop (i + 1)) := by
            rw [hout, if_pos hmem]
          rw [hw]
          have hgr2 := tableAt_range gd hg
            ((if (idx : Int) < (gd.length : Int) - 1 then idx + 1 else idx : Nat) : Int)
          have hnext := ih (if (idx : Int) < (gd.length : Int) - 1 then idx + 1 else idx) 0
            (total + tableAt gd
              ((if (idx : Int) < (gd.length : Int) - 1 then idx + 1 else idx : Nat) : Int)) f
            (by omega)
            (by
              by_cases hz : tableAt gd
                  ((if (idx : Int) < (gd.length : Int) - 1 then idx + 1 else idx : Nat) : Int) = 0
              · left; exact hz
              · right
                have hf1 : ((f + 1 : Nat) : Int) = (f : Int) + 1 := by push_cast; rfl
                rw [hf1] at hfuel
                exact ⟨le_refl _, by omega, by omega, by omega⟩)
            (by
              intro p hp
              rw [hP p (by omega), hunf, List.mem_cons]
              constructor
              · rintro (h | h)
                · omega
                · exact h
              · intro h; exact Or.inr h)
          by_cases h3 : (idx : Int) < (gd.length : Int) - 1
          · rw [if_pos h3]
            rw [if_pos h3] at hnext
            exact hnext
          · rw [if_neg h3]
            rw [if_neg h3] at hnext
            exact hnext
        · rw [if_neg h2]
          have hlt : dc + 1 < tableAt gd idx := by
            by_contra hcon
            apply h2
            exact ⟨by omega, by omega⟩
          have hnmem : ¬ (((ds.length : Int) - ((i : Int) + 1)) ∈ P) := by
            intro hmem
            have := (hP _ (by omega)).mp hmem
            have := separatorPositions_range gd hg _ _ _ _ _ this
            omega
          have hw : wcharAt ds (i + 1) :: separatedBefore S P (ds.drop (i + 1 + 1)) =
              separatedBefore S P (ds.drop (i + 1)) := by
            rw [hout, if_neg hnmem, List.nil_append]
          rw [hw]
          exact ih idx (dc + 1) total fuel (by omega)
            (Or.inr ⟨by omega, hlt, by omega, hfuel⟩)
            (fun p hp => hP p (by omega))
    · rw [if_neg h1]
      have hz : tableAt gd idx = 0 := by omega
      have hnmem : ¬ (((ds.length : Int) - ((i : Int) + 1)) ∈ P) := by
        intro hmem
        have := (hP _ (by omega)).mp hmem
        rw [separatorPositions_of_zero _ _ _ _ _ hz] at this
        simp at this
      have hw : wcharAt ds (i + 1) :: separatedBefore S P (ds.drop (i + 1 + 1)) =
          separatedBefore S P (ds.drop (i + 1)) := by
        rw [hout, if_neg hnmem, List.nil_append]
      rw [hw]
      exact ih idx dc total fuel (by omega) (Or.inl hz) (fun p hp => hP p (by omega))

theorem separatorPositions_length_le (gd : List Int) (n : Int) (fuel : Nat) :
    ∀ (idx : Nat) (total : Int), (separatorPositions gd n fuel idx total).length ≤ fuel := by
  induction fuel with
  | zero => intro idx total; simp [separatorPositions]
  | succ fuel ih =>
    intro idx total
    unfold separatorPositions
    split
    · simp only [List.length_cons]
      have := ih (if (idx : Int) < (gd.length : Int) - 1 then idx + 1 else idx)
        (total + tableAt gd
          ((if (idx : Int) < (gd.length : Int) - 1 then idx + 1 else idx : Nat) : Int))
      omega
    · simp

/-- The separator positions are listed in ascending order. -/
theorem separatorPositions_sorted (gd : List Int) (hg : ∀ g ∈ gd, 0 ≤ g ∧ g ≤ 2147483647)
    (n : Int) (fuel : Nat) :
    ∀ (idx : Nat) (total : Int),
      (separatorPositions gd n fuel idx total).Pairwise (fun a b => a < b) := by
  induction fuel with
  | zero => intro idx total; simp [separatorPositions]
  | succ fuel ih =>
    intro idx total
    unfold separatorPositions
    split
    · rw [List.pairwise_cons]
      refine ⟨fun p hp => ?_, ih _ _⟩
      have hr := tableAt_range gd hg
        ((if (idx : Int) < (gd.length : Int) - 1 then idx + 1 else idx : Nat) : Int)
      by_cases hz : tableAt gd
          ((if (idx : Int) < (gd.length : Int) - 1 then idx + 1 else idx : Nat) : Int) = 0
      · rw [separatorPositions_of_zero _ _ _ _ _ hz] at hp
        simp at hp
      · have := (separatorPositions_range gd hg n fuel _ _ p hp).1
        omega
    · exact List.Pairwise.nil

/-- The loop that precomputes `thousandsSepPos` pushes the separator
positions, the largest one ending on top. -/
theorem thousandsLoop_eq (gd : List Int) (hg : ∀ g ∈ gd, 0 ≤ g ∧ g ≤ 2147483647) (n : Int)
    (hn : n ≤ 2147483647) (fuel : Nat) :
    ∀ (idx : Nat) (total : Int) (acc : List Int), 0 ≤ total → 1 ≤ fuel →
      (tableAt gd idx = 0 ∨ n - total + 1 < fuel) →
      thousandsLoop gd n fuel idx (tableAt gd idx) total acc =
        some ((separatorPositions gd n fuel idx total).reverse ++ acc) := by
  induction fuel with
  | zero => intro idx total acc _ h1 _; omega
  | succ fuel ih =>
    intro idx total acc h0 _ hf
    conv_lhs => unfold thousandsLoop
    conv_rhs => unfold separatorPositions
    by_cases h1 : n > total
    · rw [if_pos h1]
      by_cases h2 : tableAt gd idx = 0
      · rw [if_pos h2, if_neg (fun hc => hc.2 h2)]
        rfl
      · rw [if_neg h2, if_pos (show n > total ∧ tableAt gd idx ≠ 0 from ⟨h1, h2⟩)]
        have hfl : n - total + 1 < ((fuel + 1 : Nat) : Int) := by
          rcases hf with h | h
          · exact absurd h h2
          · exact h
        have hf1 : ((fuel + 1 : Nat) : Int) = (fuel : Int) + 1 := by push_cast; rfl
        rw [hf1] at hfl
        have hw : wrapInt32 total = total := wrapInt32_of_range total (by omega) (by omega)
        rw [hw]
        have hgr := tableAt_range gd hg idx
        have hc1 : ((idx + 1 : Nat) : Int) = (idx : Int) + 1 := by push_cast; rfl
        by_cases h3 : (idx : Int) < (gd.length : Int) - 1
        · simp only [if_pos h3]
          have hgr2 := tableAt_range gd hg ((idx + 1 : Nat) : Int)
          have := ih (idx + 1) (total + tableAt gd ((idx + 1 : Nat) : Int)) (total :: acc)
            (by omega) (by omega)
            (by
              by_cases hz : tableAt gd ((idx + 1 : Nat) : Int) = 0
              · left; exact hz
              · right; omega)
          rw [hc1] at this ⊢
          rw [this]
          simp
        · simp only [if_neg h3]
          have := ih idx (total + tableAt gd idx) (total :: acc) (by omega) (by omega)
            (Or.inr (by omega))
          rw [this]
          simp
    · rw [if_neg h1, if_neg (fun hc => h1 hc.1)]
      rfl

theorem separatedBefore_eq_separated (S : List Nat) (P : List Int) (ds : List Nat)
    (h : ¬ ((ds.length : Int) ∈ P)) : separatedBefore S P ds = separated S P ds := by
  cases ds with
  | nil => rfl
  | cons c cs =>
    rw [separatedBefore, separated]
    have : (((cs.length + 1 : Nat)) : Int) = (((c :: cs).length : Nat) : Int) := rfl
    rw [this, if_neg h, List.nil_append]

/-- The grouped integer part of `FormatFixed` for any non-negative group
sizes, on a buffer whose digits, padded with `'0'` up to `scale`, are `ds`:
once the sizing loop has succeeded, the text is `ds` with a separator at every
separator position. -/
theorem formatFixedGrouped_separated (buffer : List Nat) (r : NUMBER) (ds : List Nat)
    (gd : List Int) (S : List Nat) (hg : ∀ g ∈ gd, 0 ≤ g ∧ g ≤ 2147483647)
    (hsl : S.length ≤ 2147483647) (hscale : r.scale = (ds.length : Int)) (hne : ds ≠ [])
    (hsc : r.scale ≤ 2147483647) (hr0 : ∀ c ∈ r.digits, c ≠ 0)
    (hdg : ∀ j, j < ds.length →
      (if j < min ds.length r.digits.length then wcharAt r.digits j else 48) = wcharAt ds j)
    (c' b' : Int)
    (hsz : (if gd.length ≠ 0 then
        groupSizeLoop gd r.scale (S.length : Int) (gd.length + r.scale.toNat + 2) 0
          (tableAt gd 0) r.scale
      else .ok (tableAt gd 0, r.scale)) = .ok (c', b')) :
    formatFixedGrouped buffer r gd S =
      .ok (buffer ++ separated S
        (separatorPositions gd ds.length (ds.length + 3) 0 (tableAt gd 0)) ds,
        r.digits.drop (min ds.length r.digits.length)) := by
  have hn : 0 < ds.length := List.length_pos.mpr hne
  have hpos : 0 < r.scale := by omega
  have hw := formatFixedGrouped_written buffer r gd S hg hsl hpos hsc c' b' hsz
  have hfirst := groupWriteLoop_first_size r gd S hg c' b' hsz
  rw [hfirst] at hw
  have htn : r.scale.toNat = ds.length := by omega
  rw [htn, cstr_of_ne_zero _ hr0] at hw
  have hg0 := tableAt_range gd hg ((0 : Nat) : Int)
  have hsep := groupWriteLoop_separated gd hg r.digits ds (min ds.length r.digits.length) S
    (separatorPositions gd ds.length (ds.length + 3) 0 (tableAt gd ((0 : Nat) : Int))) hdg
    (ds.length - 1) 0 0 (tableAt gd ((0 : Nat) : Int)) (ds.length + 3) (by omega)
    (by
      by_cases hz : tableAt gd ((0 : Nat) : Int) = 0
      · left; exact hz
      · right
        have h3 : ((ds.length + 3 : Nat) : Int) = (ds.length : Int) + 3 := by push_cast; rfl
        rw [h3]
        refine ⟨le_refl _, by omega, ?_, by omega⟩
        have : ((ds.length - 1 : Nat) : Int) = (ds.length : Int) - 1 := by omega
        rw [this]; ring)
    (fun p _ => Iff.rfl)
  have hn1 : ds.length - 1 + 1 = ds.length := by omega
  rw [hn1, List.drop_length] at hsep
  simp only [Nat.cast_zero] at hsep
  have hsb : separatedBefore S
      (separatorPositions gd ds.length (ds.length + 3) 0 (tableAt gd 0)) [] = [] := rfl
  rw [hsb] at hsep
  rw [hw, hsep, separatedBefore_eq_separated]
  intro hmem
  have := separatorPositions_range gd hg _ _ _ _ _ hmem
  omega

theorem separatedBefore_split (S : List Nat) (P : List Int) (ds : List Nat)
    (h0 : ¬ ((0 : Int) ∈ P)) :
    separatedBefore S P ds = (if (ds.length : Int) ∈ P then S else []) ++ separated S P ds := by
  cases ds with
  | nil =>
    have : (([] : List Nat).length : Int) = 0 := rfl
    rw [this, if_neg h0]
    rfl
  | cons c cs =>
    rw [separatedBefore, separated]
    rfl

/-- What `addGroupSeparator` does at the digit position `p`, when the stack
holds the separator positions below `p` in descending order: it appends the
separator exactly when `p - 1` is a separator position, and leaves on the stack
the positions below `p - 1`. -/
theorem addGroupSeparator_at (numfmt : NumberFormatInfo) (P stack : List Int) (p : Int)
    (dst : List Nat) (hp1 : 1 ≤ p) (hp2 : p ≤ 2147483646)
    (ha : ∀ x ∈ stack, 1 ≤ x ∧ x < p)
    (hb : stack.Pairwise (fun a b => a > b))
    (hc : ∀ q : Int, q < p → (q ∈ P ↔ q ∈ stack)) :
    (addGroupSeparator numfmt true p dst stack).1 =
        dst ++ (if (p - 1) ∈ P then numfmt.sNumberGroup else []) ∧
      (∀ x ∈ (addGroupSeparator numfmt true p dst stack).2, 1 ≤ x ∧ x < p - 1) ∧
      (addGroupSeparator numfmt true p dst stack).2.Pairwise (fun a b => a > b) ∧
      (∀ q : Int, q < p - 1 →
        (q ∈ P ↔ q ∈ (addGroupSeparator numfmt true p dst stack).2)) := by
  cases stack with
  | nil =>
    have hn : ¬ ((p - 1) ∈ P) := by
      intro h
      have := (hc (p - 1) (by omega)).mp h
      simp at this
    unfold addGroupSeparator
    rw [if_neg hn]
    refine ⟨by simp, fun x hx => by simp at hx, List.Pairwise.nil,
      fun q hq => hc q (by omega)⟩
  | cons top rest =>
    have htop := ha top (List.mem_cons_self _ _)
    have hpw := List.pairwise_cons.mp hb
    have hw : wrapInt32 (top + 1) = top + 1 := wrapInt32_of_range _ (by omega) (by omega)
    unfold addGroupSeparator
    dsimp only
    rw [hw]
    by_cases hcond : true = true ∧ p > 1 ∧ p = top + 1
    · rw [if_pos hcond]
      obtain ⟨-, -, hpt⟩ := hcond
      have hmem : (p - 1) ∈ P := by
        rw [hc (p - 1) (by omega)]
        have : p - 1 = top := by omega
        rw [this]
        exact List.mem_cons_self _ _
      rw [if_pos hmem]
      refine ⟨rfl, fun x hx => ?_, hpw.2, fun q hq => ?_⟩
      · have h1 := ha x (List.mem_cons_of_mem _ hx)
        have h2 := hpw.1 x hx
        constructor
        · exact h1.1
        · have : top > x := h2
          omega
      · rw [hc q (by omega), List.mem_cons]
        constructor
        · rintro (h | h)
          · omega
          · exact h
        · intro h; exact Or.inr h
    · rw [if_neg hcond]
      have hn : ¬ ((p - 1) ∈ P) := by
        intro h
        have hm := (hc (p - 1) (by omega)).mp h
        rcases List.mem_cons.mp hm with h1 | h1
        · apply hcond
          exact ⟨rfl, by omega, by omega⟩
        · have h2 : top > p - 1 := hpw.1 _ h1
          omega
      rw [if_neg hn]
      refine ⟨by simp, fun x hx => ?_, hb, fun q hq => hc q (by omega)⟩
      have h1 := ha x hx
      have hne : x ≠ p - 1 := by
        intro he
        apply hn
        rw [hc (p - 1) (by omega), ← he]
        exact hx
      omega

/-- One digit of the forward pass: the next digit (or `'0'` when the buffer
is exhausted) followed by the separator when one is due. The text already
written and the separated text of the digits still to come make up the same
whole before and after. -/
theorem emit_digit_separated (numfmt : NumberFormatInfo) (P stack : List Int)
    (dig : List Nat) (z : Nat) (dst T : List Nat)
    (hpos : 1 ≤ dig.length + z) (hmax : dig.length + z ≤ 2147483646)
    (hnz : ∀ c ∈ dig, c ≠ 0)
    (ha : ∀ x ∈ stack, 1 ≤ x ∧ x < ((dig.length + z : Nat) : Int))
    (hb : stack.Pairwise (fun a b => a > b))
    (hc : ∀ q : Int, q < ((dig.length + z : Nat) : Int) → (q ∈ P ↔ q ∈ stack))
    (hT : dst ++ separated numfmt.sNumberGroup P (dig ++ List.replicate z 48) = T) :
    ∃ z' : Nat, (nextDigit dig).2.length + z' + 1 = dig.length + z ∧
      (addGroupSeparator numfmt true ((dig.length + z : Nat) : Int)
        (dst ++ [(nextDigit dig).1]) stack).1 ++
          separated numfmt.sNumberGroup P ((nextDigit dig).2 ++ List.replicate z' 48) = T ∧
      (∀ c ∈ (nextDigit dig).2, c ≠ 0) ∧
      (∀ x ∈ (addGroupSeparator numfmt true ((dig.length + z : Nat) : Int)
        (dst ++ [(nextDigit dig).1]) stack).2,
          1 ≤ x ∧ x < (((nextDigit dig).2.length + z' : Nat) : Int)) ∧
      (addGroupSeparator numfmt true ((dig.length + z : Nat) : Int)
        (dst ++ [(nextDigit dig).1]) stack).2.Pairwise (fun a b => a > b) ∧
      (∀ q : Int, q < (((nextDigit dig).2.length + z' : Nat) : Int) →
        (q ∈ P ↔ q ∈ (addGroupSeparator numfmt true ((dig.length + z : Nat) : Int)
          (dst ++ [(nextDigit dig).1]) stack).2)) := by
  have h0 : ¬ ((0 : Int) ∈ P) := by
    intro h
    have := (hc 0 (by omega)).mp h
    have := ha 0 this
    omega
  obtain ⟨g1, g2, g3, g4⟩ := addGroupSeparator_at numfmt P stack
    ((dig.length + z : Nat) : Int) (dst ++ [(nextDigit dig).1]) (by omega) (by omega) ha hb hc
  -- the digit emitted and the digits that remain
  have hrem : ∃ z' : Nat, (nextDigit dig).2.length + z' + 1 = dig.length + z ∧
      dig ++ List.replicate z 48 =
        (nextDigit dig).1 :: ((nextDigit dig).2 ++ List.replicate z' 48) ∧
      (∀ c ∈ (nextDigit dig).2, c ≠ 0) := by
    cases dig with
    | nil =>
      obtain ⟨y, rfl⟩ : ∃ y, z = y + 1 := ⟨z - 1, by simp at hpos; omega⟩
      refine ⟨y, by simp [nextDigit], ?_, by simp [nextDigit]⟩
      simp [nextDigit, List.replicate_succ]
    | cons c cs =>
      have hc0 : c ≠ 0 := hnz c (List.mem_cons_self _ _)
      rw [nextDigit_cons c cs hc0]
      refine ⟨z, by simp; omega, rfl, fun d hd => hnz d (List.mem_cons_of_mem _ hd)⟩
  obtain ⟨z', hz1, hz2, hz3⟩ := hrem
  have hlen : (((nextDigit dig).2 ++ List.replicate z' 48).length : Int) =
      ((dig.length + z : Nat) : Int) - 1 := by
    rw [List.length_append, List.length_replicate]
    omega
  have hpm : (((nextDigit dig).2.length + z' : Nat) : Int) =
      ((dig.length + z : Nat) : Int) - 1 := by omega
  refine ⟨z', hz1, ?_, hz3, ?_, g3, ?_⟩
  · rw [g1, ← hT, hz2, separated,
      separatedBefore_split _ _ ((nextDigit dig).2 ++ List.replicate z' 48) h0, hlen]
    simp [List.append_assoc]
  · rw [hpm]; exact g2
  · rw [hpm]; exact g4

theorem fixedInteger_wcharAt (r : NUMBER) (hpos : 0 < r.scale) (j : Nat)
    (hj : j < (fixedInteger r).length) :
    (if j < min (fixedInteger r).length r.digits.length then wcharAt r.digits j else 48) =
      wcharAt (fixedInteger r) j := by
  have hl := fixedInteger_length r
  rw [if_pos hpos] at hl
  rw [hl] at hj ⊢
  unfold fixedInteger
  rw [if_pos hpos]
  unfold wcharAt
  have htl : (r.digits.take r.scale.toNat).length = min r.scale.toNat r.digits.length :=
    List.length_take _ _
  by_cases h : j < min r.scale.toNat r.digits.length
  · rw [if_pos h, List.getD_append _ _ _ _ (by omega),
      List.getD_eq_getElem _ _ (by omega),
      List.getD_eq_getElem _ _ (by omega), List.getElem_take]
  · rw [if_neg h, List.getD_append_right _ _ _ _ (by omega),
      List.getD_eq_getElem _ _ (by rw [List.length_replicate]; omega),
      List.getElem_replicate]

/-- The integer part `FormatFixed` writes for a positive scale and a group-size
array, when its sizing loop does not overflow: the integer digits of the
buffer, with one separator at each separator position. -/
theorem FormatFixed_separated (buffer : List Nat) (r : NUMBER) (gd : List Int)
    (sDecimal S : List Nat) (G : Int) (hg : ∀ g ∈ gd, 0 ≤ g ∧ g ≤ G)
    (hpos : 0 < r.scale) (hG : r.scale + G ≤ 2147483647) (hG0 : 0 ≤ G)
    (hB : r.scale + (r.scale - 1) * (S.length : Int) ≤ 2147483647)
    (hsl : S.length ≤ 2147483647) (hr0 : ∀ c ∈ r.digits, c ≠ 0) :
    FormatFixed buffer r 0 (some gd) sDecimal S =
      .ok (buffer ++ separated S
        (separatorPositions gd r.scale (r.scale.toNat + 3) 0 (tableAt gd 0))
        (fixedInteger r)) := by
  have hg2 : ∀ g ∈ gd, 0 ≤ g ∧ g ≤ 2147483647 := by
    intro g hm
    have := hg g hm
    omega
  have hok := formatFixedGrouped_ok buffer r gd S G hg hpos hG hB hsl
  have hl := fixedInteger_length r
  rw [if_pos hpos] at hl
  have hlz : ((fixedInteger r).length : Int) = r.scale := by rw [hl]; omega
  have hsz : ∃ c' b', (if gd.length ≠ 0 then
        groupSizeLoop gd r.scale (S.length : Int) (gd.length + r.scale.toNat + 2) 0
          (tableAt gd 0) r.scale
      else .ok (tableAt gd 0, r.scale)) = .ok (c', b') := by
    cases hs : (if gd.length ≠ 0 then
        groupSizeLoop gd r.scale (S.length : Int) (gd.length + r.scale.toNat + 2) 0
          (tableAt gd 0) r.scale
      else .ok (tableAt gd 0, r.scale)) with
    | error e =>
      exfalso
      apply hok e
      unfold formatFixedGrouped
      dsimp only
      rw [hs]
    | ok cb => exact ⟨cb.1, cb.2, rfl⟩
  obtain ⟨c', b', hsz⟩ := hsz
  have hsep := formatFixedGrouped_separated buffer r (fixedInteger r) gd S hg2 hsl hlz.symm
    (by intro h; rw [h] at hl; simp at hl; omega) (by omega) hr0
    (fun j hj => fixedInteger_wcharAt r hpos j hj) c' b' hsz
  unfold FormatFixed
  dsimp only
  rw [if_pos hpos, hsep]
  dsimp only
  rw [if_neg (by decide), hlz, hl]

/-! ## A zero in the group sizes -/

theorem tableAt_append_cons (front : List Int) (x : Int) (tail : List Int) :
    tableAt (front ++ x :: tail) ((front.length : Nat) : Int) = x := by
  unfold tableAt
  rw [if_neg (by omega), Int.toNat_ofNat,
    List.getD_eq_getElem _ _ (by rw [List.length_append, List.length_cons]; omega)]
  exact List.getElem_append_right (le_refl _) |>.trans (by simp)

theorem runningTotals_le : ∀ (gs : List Int) (acc : Int), (∀ g ∈ gs, 0 ≤ g) →
    ∀ p ∈ runningTotals acc gs, acc ≤ p ∧ p ≤ acc + gs.sum := by
  intro gs
  induction gs with
  | nil => intro acc _ p hp; simp [runningTotals] at hp
  | cons g gs ih =>
    intro acc hg p hp
    have hg0 := hg g (List.mem_cons_self _ _)
    rw [runningTotals, List.mem_cons] at hp
    have hsum : 0 ≤ gs.sum := List.sum_nonneg (fun x hx => hg x (List.mem_cons_of_mem _ hx))
    rw [List.sum_cons]
    rcases hp with rfl | hp
    · omega
    · have := ih (acc + g) (fun x hx => hg x (List.mem_cons_of_mem _ hx)) p hp
      omega

/-- The separator positions for group sizes with a zero in them: the running
totals of the sizes before the first zero, as long as they stay below the number
of digits. What follows the zero plays no part. -/
theorem separatorPositions_before_zero (n : Int) (rest : List Int) :
    ∀ (suf front : List Int) (fuel : Nat) (acc : Int), (∀ g ∈ suf, 0 < g) → 1 ≤ fuel →
      (tableAt (front ++ suf ++ 0 :: rest) ((front.length : Nat) : Int) = 0 ∨
        n - (acc + tableAt (front ++ suf ++ 0 :: rest) ((front.length : Nat) : Int)) + 1 <
          (fuel : Int)) →
      separatorPositions (front ++ suf ++ 0 :: rest) n fuel front.length
          (acc + tableAt (front ++ suf ++ 0 :: rest) ((front.length : Nat) : Int)) =
        (runningTotals acc suf).takeWhile (fun t => decide (t < n)) := by
  intro suf
  induction suf with
  | nil =>
    intro front fuel acc _ hf _
    obtain ⟨f, rfl⟩ : ∃ f, fuel = f + 1 := ⟨fuel - 1, by omega⟩
    have h0 : tableAt (front ++ [] ++ 0 :: rest) ((front.length : Nat) : Int) = 0 := by
      rw [List.append_nil]; exact tableAt_append_cons front 0 rest
    unfold separatorPositions
    rw [if_neg (by rw [h0]; simp)]
    rfl
  | cons g gs ih =>
    intro front fuel acc hg hf hfuel
    obtain ⟨f, rfl⟩ : ∃ f, fuel = f + 1 := ⟨fuel - 1, by omega⟩
    have hg0 := hg g (List.mem_cons_self _ _)
    have hgd : front ++ g :: gs ++ 0 :: rest = (front ++ [g]) ++ gs ++ 0 :: rest := by simp
    have hhead : tableAt (front ++ g :: gs ++ 0 :: rest) ((front.length : Nat) : Int) = g := by
      rw [List.append_assoc]; exact tableAt_append_cons front g _
    have hidx : ((front.length : Nat) : Int) <
        (((front ++ g :: gs ++ 0 :: rest).length : Nat) : Int) - 1 := by
      simp only [List.length_append, List.length_cons]
      omega
    have hlen1 : (front ++ [g]).length = front.length + 1 := by simp
    rw [hhead] at hfuel ⊢
    have hf1 : ((f + 1 : Nat) : Int) = (f : Int) + 1 := by push_cast; rfl
    rw [hf1] at hfuel
    unfold separatorPositions
    rw [runningTotals]
    by_cases hn : n > acc + g
    · rw [if_pos ⟨hn, by rw [hhead]; omega⟩]
      simp only [if_pos hidx]
      rw [List.takeWhile_cons, if_pos (by simpa using hn)]
      congr 1
      have := ih (front ++ [g]) f (acc + g) (fun x hx => hg x (List.mem_cons_of_mem _ hx))
        (by omega)
      rw [hlen1, ← hgd] at this
      apply this
      by_cases hz : tableAt (front ++ g :: gs ++ 0 :: rest) ((front.length + 1 : Nat) : Int) = 0
      · exact Or.inl hz
      · right
        have hnn : 0 ≤ tableAt (front ++ g :: gs ++ 0 :: rest)
            ((front.length + 1 : Nat) : Int) := by
          rw [hgd, ← hlen1]
          cases gs with
          | nil =>
            rw [List.append_nil, tableAt_append_cons]
          | cons g1 gs1 =>
            have h1 := tableAt_append_cons (front ++ [g]) g1 (gs1 ++ 0 :: rest)
            rw [List.append_assoc]
            show 0 ≤ tableAt ((front ++ [g]) ++ g1 :: (gs1 ++ 0 :: rest)) _
            rw [h1]
            exact le_of_lt (hg g1 (List.mem_cons_of_mem _ (List.mem_cons_self _ _)))
        omega
    · rw [if_neg (fun h => hn h.1)]
      rw [List.takeWhile_cons, if_neg (by simpa using hn)]

/-- C32, counterexample: with the group sizes {3, 0} the digits 1234567 are
written as "1234,567": the size 3 is used once, and after the 0 no separator is
written any more. With the single size {3}, which is repeated, the text is
"1,234,567". -/
theorem FormatFixed_zero_size_ends_grouping :
    FormatFixed [] ⟨15, 7, false, [49, 50, 51, 52, 53, 54, 55]⟩ 0 (some [3, 0]) [46] [44] =
        .ok [49, 50, 51, 52, 44, 53, 54, 55] ∧
      FormatFixed [] ⟨15, 7, false, [49, 50, 51, 52, 53, 54, 55]⟩ 0 (some [3]) [46] [44] =
        .ok [49, 44, 50, 51, 52, 44, 53, 54, 55] := by
  decide

/-- C32, amended: for group sizes in which a 0 follows the positive sizes
`pre`, `FormatFixed` writes the integer digits with one separator per size of
`pre`, at the running totals of these sizes counted from the right (as far as
they stay below the number of digits), and none further left: no separator
stands more than `pre.sum` digits from the right end, and once the buffer has
more than `pre.sum` integer digits the separators are the same however many
digits there are. The sizes after the 0 are never used. -/
theorem FormatFixed_sizes_before_zero (buffer : List Nat) (number : NUMBER)
    (pre rest : List Int) (sDecimal sGroup : List Nat)
    (hpre : ∀ g ∈ pre, 0 < g ∧ g ≤ 1073741824)
    (hrest : ∀ g ∈ rest, 0 ≤ g ∧ g ≤ 1073741824)
    (hpos : 0 < number.scale) (hsc : number.scale ≤ 1073741823)
    (hB : number.scale + (number.scale - 1) * (sGroup.length : Int) ≤ 2147483647)
    (hsl : sGroup.length ≤ 2147483647) (hnz : ∀ c ∈ number.digits, c ≠ 0) :
    FormatFixed buffer number 0 (some (pre ++ 0 :: rest)) sDecimal sGroup =
        .ok (buffer ++ separated sGroup
          ((runningTotals 0 pre).takeWhile (fun t => decide (t < number.scale)))
          (fixedInteger number)) ∧
      (∀ p ∈ (runningTotals 0 pre).takeWhile (fun t => decide (t < number.scale)),
        0 ≤ p ∧ p ≤ pre.sum) ∧
      (pre.sum < number.scale →
        (runningTotals 0 pre).takeWhile (fun t => decide (t < number.scale)) =
          runningTotals 0 pre) := by
  have hpre0 : ∀ g ∈ pre, 0 ≤ g := fun g hm => le_of_lt (hpre g hm).1
  refine ⟨?_, fun p hp => ?_, fun hlt => ?_⟩
  · rw [FormatFixed_separated buffer number (pre ++ 0 :: rest) sDecimal sGroup 1073741824
      (fun g hm => by
        simp only [List.mem_append, List.mem_cons] at hm
        rcases hm with hm | rfl | hm
        · have := hpre g hm; omega
        · decide
        · exact hrest g hm)
      hpos (by omega) (by decide) hB hsl hnz]
    have h := separatorPositions_before_zero number.scale rest pre [] (number.scale.toNat + 3) 0
      (fun g hm => (hpre g hm).1) (by omega) (by
        right
        have : 0 ≤ tableAt ([] ++ pre ++ 0 :: rest) (((([] : List Int).length : Nat)) : Int) := by
          cases pre with
          | nil => exact le_of_eq (tableAt_append_cons [] 0 rest).symm
          | cons g gs =>
            have h1 := tableAt_append_cons [] g (gs ++ 0 :: rest)
            show 0 ≤ tableAt ([] ++ g :: (gs ++ 0 :: rest)) _
            rw [h1]
            exact le_of_lt (hpre g (List.mem_cons_self _ _)).1
        have h3 : ((number.scale.toNat + 3 : Nat) : Int) = (number.scale.toNat : Int) + 3 := by
          push_cast; rfl
        rw [h3]
        omega)
    simp only [List.nil_append, List.length_nil, zero_add, Nat.cast_zero] at h
    rw [h]
  · have hm := (List.takeWhile_sublist _).subset hp
    have := runningTotals_le pre 0 hpre0 p hm
    omega
  · rw [List.takeWhile_eq_self_iff]
    intro p hm
    have := runningTotals_le pre 0 hpre0 p hm
    simp only [decide_eq_true_eq]
    omega

theorem FormatFixed_sizes_before_zero_witness :
    FormatFixed [] ⟨15, 9, false, [49, 50, 51, 52, 53, 54, 55, 56, 57]⟩ 0
        (some ([3, 2] ++ 0 :: [4])) [46] [44] =
      .ok [49, 50, 51, 52, 44, 53, 54, 44, 55, 56, 57] :=
  (FormatFixed_sizes_before_zero [] ⟨15, 9, false, [49, 50, 51, 52, 53, 54, 55, 56, 57]⟩
    [3, 2] [4] [46] [44] (by decide) (by decide) (by decide) (by decide) (by decide)
    (by decide) (by decide)).1.trans (by decide)

/-! ## The forward pass of the picture formatter -/

/-- Writing one digit keeps the forward pass on course: one digit fewer is
pending. -/
theorem forwardPending_emit (numfmt : NumberFormatInfo) (P : List Int) (T : List Nat)
    (st : PictureState) (p : Nat) (h : forwardPending numfmt.sNumberGroup P T st p)
    (hp1 : 1 ≤ p) (hp2 : p ≤ 2147483646) (src : Nat) (digPos adjust : Int) (sc dw : Bool) :
    forwardPending numfmt.sNumberGroup P T
      { src := src
        dst := (addGroupSeparator numfmt true (p : Int) (st.dst ++ [(nextDigit st.dig).1])
          st.seps).1
        dig := (nextDigit st.dig).2
        digPos := digPos
        adjust := adjust
        seps := (addGroupSeparator numfmt true (p : Int) (st.dst ++ [(nextDigit st.dig).1])
          st.seps).2
        scientific := sc
        decimalWritten := dw } (p - 1) := by
  obtain ⟨h1, h2, h3, h4, h5, h6⟩ := h
  have hpz : st.dig.length + (p - st.dig.length) = p := by omega
  have := emit_digit_separated numfmt P st.seps st.dig (p - st.dig.length) st.dst T
    (by omega) (by omega) h2 (by rw [hpz]; exact h3) h4 (by rw [hpz]; exact h5) h6
  rw [hpz] at this
  obtain ⟨z', e1, e2, e3, e4, e5, e6⟩ := this
  have hz : z' = p - 1 - (nextDigit st.dig).2.length := by omega
  have hq : (nextDigit st.dig).2.length + z' = p - 1 := by omega
  rw [hq] at e4 e6
  subst hz
  refine ⟨?_, e3, e4, e5, e6, e2⟩
  show (nextDigit st.dig).2.length ≤ p - 1
  omega

/-- The loop `while (adjust > 0)` writes the digits that have no placeholder,
with their separators. -/
theorem emitOverflowDigits_pending (numfmt : NumberFormatInfo) (P : List Int) (T : List Nat) :
    ∀ (k : Nat) (st : PictureState) (p : Nat), forwardPending numfmt.sNumberGroup P T st p →
      (p : Int) = st.digPos → k ≤ p → p ≤ 2147483646 →
      forwardPending numfmt.sNumberGroup P T (emitOverflowDigits numfmt true k st) (p - k) ∧
        (emitOverflowDigits numfmt true k st).digPos = st.digPos - k ∧
        (emitOverflowDigits numfmt true k st).adjust = st.adjust - k ∧
        (emitOverflowDigits numfmt true k st).src = st.src := by
  intro k
  induction k with
  | zero =>
    intro st p h _ _ _
    simp only [emitOverflowDigits]
    exact ⟨h, by simp, by simp⟩
  | succ k ih =>
    intro st p h hp hk hmax
    rw [emitOverflowDigits]
    have hstep := forwardPending_emit numfmt P T st p h (by omega) hmax st.src (st.digPos - 1)
      (st.adjust - 1) st.scientific st.decimalWritten
    rw [hp] at hstep
    have := ih _ (p - 1) hstep (by dsimp only; omega) (by omega) (by omega)
    obtain ⟨i1, i2, i3, i4⟩ := this
    refine ⟨?_, ?_, ?_, ?_⟩
    · have : p - (k + 1) = p - 1 - k := by omega
      rw [this]; exact i1
    · rw [i2]; push_cast; ring
    · rw [i3]; push_cast; ring
    · rw [i4]

/-- A digit placeholder met while `adjust <= 0`, in a picture whose only
mandatory digit is the last one: it is skipped when the number has fewer
digits than the picture has placeholders left, and else it writes the next
digit and the separator that is due after it. -/
theorem pictureStep_placeholder_pending (number : NUMBER) (format : List Nat)
    (numfmt : NumberFormatInfo) (info : PictureInfo) (P : List Int) (T : List Nat) (ch : Nat)
    (hch : ch = 35 ∨ ch = 48) (st : PictureState) (p : Nat)
    (h : forwardPending numfmt.sNumberGroup P T st p) (hp : (p : Int) = st.digPos + st.adjust)
    (hadj : st.adjust ≤ 0) (hp1 : 1 ≤ p) (hmax : st.digPos ≤ 2147483646) :
    ∃ p' : Nat,
      forwardPending numfmt.sNumberGroup P T
        (pictureStep number format numfmt info 1 0 true ch st) p' ∧
      (p' : Int) = (pictureStep number format numfmt info 1 0 true ch st).digPos +
        (pictureStep number format numfmt info 1 0 true ch st).adjust ∧
      (pictureStep number format numfmt info 1 0 true ch st).adjust ≤ 0 ∧
      (pictureStep number format numfmt info 1 0 true ch st).digPos = st.digPos - 1 ∧
      (pictureStep number format numfmt info 1 0 true ch st).src = st.src ∧
      (1 ≤ (pictureStep number format numfmt info 1 0 true ch st).digPos → 1 ≤ p') := by
  by_cases ha : st.adjust < 0
  · have hst : pictureStep number format numfmt info 1 0 true ch st =
        { st with digPos := st.digPos - 1, adjust := st.adjust + 1 } := by
      unfold pictureStep
      rw [if_pos hch]
      dsimp only
      simp only [if_pos ha]
      rw [if_neg (show ¬ st.digPos ≤ 1 by omega)]
      simp
    rw [hst]
    exact ⟨p, h, by dsimp only; omega, by dsimp only; omega, rfl, rfl, fun _ => hp1⟩
  · have ha0 : st.adjust = 0 := by omega
    have hpd : (p : Int) = st.digPos := by omega
    have hst : pictureStep number format numfmt info 1 0 true ch st =
        { src := st.src
          dst := (addGroupSeparator numfmt true st.digPos (st.dst ++ [(nextDigit st.dig).1])
            st.seps).1
          dig := (nextDigit st.dig).2
          digPos := st.digPos - 1
          adjust := st.adjust
          seps := (addGroupSeparator numfmt true st.digPos (st.dst ++ [(nextDigit st.dig).1])
            st.seps).2
          scientific := st.scientific
          decimalWritten := st.decimalWritten } := by
      unfold pictureStep
      rw [if_pos hch]
      dsimp only
      simp only [if_neg ha]
      rw [placeholder_digit st.dig st.digPos 0 (by omega), if_pos (nextDigit_fst_ne_zero _)]
    have hstep := forwardPending_emit numfmt P T st p h hp1 (by omega) st.src (st.digPos - 1)
      st.adjust st.scientific st.decimalWritten
    rw [hpd] at hstep
    rw [hst]
    exact ⟨p - 1, hstep, by dsimp only; omega, by dsimp only; omega, rfl, rfl,
      fun h1 => by dsimp only at h1; omega⟩

/-- One turn of the output loop at a digit placeholder: the digits without a
placeholder are written first when this is the first placeholder. -/
theorem pictureLoop_placeholder_iter (number : NUMBER) (format : List Nat)
    (numfmt : NumberFormatInfo) (info : PictureInfo) (P : List Int) (T : List Nat) (fuel : Nat)
    (st : PictureState) (p : Nat)
    (hch : wcharAt format st.src = 35 ∨ wcharAt format st.src = 48)
    (h : forwardPending numfmt.sNumberGroup P T st p)
    (hp : (p : Int) = st.digPos + min st.adjust 0) (hp1 : 1 ≤ p)
    (hmax : st.digPos ≤ 2147483646) (hadj : 0 < st.adjust → st.adjust < st.digPos) :
    ∃ (st' : PictureState) (p' : Nat),
      pictureLoop number format numfmt info 1 0 true (fuel + 1) st =
        pictureLoop number format numfmt info 1 0 true fuel st' ∧
      st'.src = st.src + 1 ∧ forwardPending numfmt.sNumberGroup P T st' p' ∧
      (p' : Int) = st'.digPos + min st'.adjust 0 ∧ st'.adjust ≤ 0 ∧
      st'.digPos = st.digPos - max st.adjust 0 - 1 ∧ (1 ≤ st'.digPos → 1 ≤ p') := by
  have hne : ¬ (wcharAt format st.src = 0 ∨ wcharAt format st.src = 59) := by
    rcases hch with h1 | h1 <;> rw [h1] <;> decide
  have h1 : forwardPending numfmt.sNumberGroup P T { st with src := st.src + 1 } p := h
  rw [pictureLoop]
  dsimp only
  rw [if_neg hne]
  by_cases hov : st.adjust > 0
  · rw [if_pos ⟨hov, by rcases hch with h2 | h2 <;> simp [h2]⟩]
    have hpd : (p : Int) = st.digPos := by
      rw [hp, min_eq_right (le_of_lt hov)]; ring
    obtain ⟨e1, e2, e3, e4⟩ := emitOverflowDigits_pending numfmt P T st.adjust.toNat
      { st with src := st.src + 1 } p h1 hpd (by have := hadj hov; omega) (by omega)
    dsimp only at e2 e3 e4
    obtain ⟨p', s1, s2, s3, s4, s5, s6⟩ := pictureStep_placeholder_pending number format numfmt
      info P T (wcharAt format st.src) hch _ (p - st.adjust.toNat) e1
      (by rw [e2, e3]; have := hadj hov; omega) (by rw [e3]; omega)
      (by have := hadj hov; omega) (by rw [e2]; omega)
    refine ⟨_, p', rfl, by rw [s5, e4], s1, ?_, s3, ?_, s6⟩
    · rw [s2, min_eq_left s3]
    · rw [s4, e2, max_eq_left (le_of_lt hov)]; omega
  · rw [if_neg (fun hc => hov hc.1)]
    have hle : st.adjust ≤ 0 := by omega
    obtain ⟨p', s1, s2, s3, s4, s5, s6⟩ := pictureStep_placeholder_pending number format numfmt
      info P T (wcharAt format st.src) hch { st with src := st.src + 1 } p h1
      (by rw [hp, min_eq_left hle]) hle hp1 hmax
    refine ⟨_, p', rfl, s5, s1, ?_, s3, ?_, s6⟩
    · rw [s2, min_eq_left s3]
    · rw [s4, max_eq_right hle]; ring

/-- One turn of the output loop at a `','`: nothing is written. -/
theorem pictureLoop_comma_iter (number : NUMBER) (format : List Nat)
    (numfmt : NumberFormatInfo) (info : PictureInfo) (firstDigit lastDigit : Int)
    (thousandSeps : Bool) (fuel : Nat) (st : PictureState) (hch : wcharAt format st.src = 44) :
    pictureLoop number format numfmt info firstDigit lastDigit thousandSeps (fuel + 1) st =
      pictureLoop number format numfmt info firstDigit lastDigit thousandSeps fuel
        { st with src := st.src + 1 } := by
  rw [pictureLoop]
  dsimp only
  rw [hch, if_neg (by decide), if_neg (fun hc => absurd hc.2 (by decide))]
  rfl

/-- The output loop on the picture "#,##0", started with `p >= 1` integer
digits pending: it writes them all, with their separators. -/
theorem pictureLoop_grouped_integer (number : NUMBER) (numfmt : NumberFormatInfo)
    (info : PictureInfo) (P : List Int) (T : List Nat) (st : PictureState) (p : Nat)
    (hsrc : st.src = 0) (h : forwardPending numfmt.sNumberGroup P T st p)
    (hp : (p : Int) = st.digPos + min st.adjust 0) (hp1 : 1 ≤ p)
    (hdig : st.digPos - max st.adjust 0 = 4) (hmax : st.digPos ≤ 2147483646) :
    (pictureLoop number [35, 44, 35, 35, 48] numfmt info 1 0 true 6 st).dst = T := by
  obtain ⟨s1, p1, e1, a1, b1, c1, d1, f1, g1⟩ := pictureLoop_placeholder_iter number
    [35, 44, 35, 35, 48] numfmt info P T 5 st p (by rw [hsrc]; decide) h hp hp1 hmax
    (fun hov => by rw [max_eq_left (le_of_lt hov)] at hdig; omega)
  rw [e1, pictureLoop_comma_iter number _ numfmt info 1 0 true 4 s1 (by rw [a1, hsrc]; decide)]
  have hmx : max st.adjust 0 ≥ 0 := le_max_right _ _
  obtain ⟨s2, p2, e2, a2, b2, c2, d2, f2, g2⟩ := pictureLoop_placeholder_iter number
    [35, 44, 35, 35, 48] numfmt info P T 3 { s1 with src := s1.src + 1 } p1
    (by dsimp only; rw [a1, hsrc]; decide) b1 c1 (g1 (by omega)) (by dsimp only; omega)
    (fun hov => by dsimp only at hov; omega)
  dsimp only at a2 f2
  rw [max_eq_right d1] at f2
  rw [e2]
  obtain ⟨s3, p3, e3, a3, b3, c3, d3, f3, g3⟩ := pictureLoop_placeholder_iter number
    [35, 44, 35, 35, 48] numfmt info P T 2 s2 p2
    (by rw [a2, a1, hsrc]; decide) b2 c2 (g2 (by omega)) (by omega) (fun hov => by omega)
  rw [max_eq_right d2] at f3
  rw [e3]
  obtain ⟨s4, p4, e4, a4, b4, c4, d4, f4, g4⟩ := pictureLoop_placeholder_iter number
    [35, 44, 35, 35, 48] numfmt info P T 1 s3 p3
    (by rw [a3, a2, a1, hsrc]; decide) b3 c3 (g3 (by omega)) (by omega) (fun hov => by omega)
  rw [max_eq_right d3] at f4
  rw [e4]
  have hp4 : p4 = 0 := by
    rw [min_eq_left d4] at c4
    omega
  subst hp4
  obtain ⟨q1, -, -, -, -, q6⟩ := b4
  have hnil : s4.dig = [] := List.length_eq_zero.mp (by omega)
  rw [hnil] at q6
  rw [pictureLoop_at_end _ _ _ _ _ _ _ _ _ (by rw [a4, a3, a2, a1, hsrc]; decide)]
  simpa [separated] using q6

/-! ## The picture "#,##0" and the format N0 -/

theorem pictureSetup_grouped (number : NUMBER) (hdec : IsDecimal number.digits)
    (hsign : number.sign = false)
    (hs : -2147483648 ≤ number.scale ∧ number.scale ≤ 2147483643) :
    pictureSetup number [35, 44, 35, 35, 48] =
      (0, ⟨4, 4, 3, 4, false, 0, 0, 1, 1, true, 0⟩, RoundNumber number number.scale) := by
  have hp : parsePicture [35, 44, 35, 35, 48] 0 0 = ⟨4, 4, 3, 4, false, 0, 0, 1, 1, true, 0⟩ := by
    decide
  have hf0 : FindSection [35, 44, 35, 35, 48] 0 = 0 := by decide
  have hf2 : FindSection [35, 44, 35, 35, 48] 2 = 0 := by decide
  obtain ⟨pr, sc, sg, ds⟩ := number
  dsimp only at hdec hsign hs
  subst hsign
  unfold pictureSetup
  dsimp only
  by_cases hh : wcharAt ds 0 = 0
  · have hnil : ds = [] := by
      cases ds with
      | nil => rfl
      | cons c cs =>
        exfalso
        have := hdec c (List.mem_cons_self _ _)
        simp [wcharAt] at hh
        omega
    subst hnil
    rw [if_pos hh, hf2, hp, if_neg (by rw [hh]; simp), RoundNumber_no_digits]
  · rw [if_neg hh, if_pos hh]
    simp only [Bool.false_eq_true, if_false]
    rw [hf0, hp]
    dsimp only
    have hw1 : wrapInt32 (sc + 0) = sc := by
      rw [add_zero]; exact wrapInt32_of_range _ (by omega) (by omega)
    have hw2 : wrapInt32 (sc + 4) = sc + 4 :=
      wrapInt32_of_range _ (by omega) (by omega)
    have hw3 : wrapInt32 (sc + 4 - 4) = sc := by
      rw [add_sub_cancel_right]; exact wrapInt32_of_range _ (by omega) (by omega)
    rw [hw1, hw2, hw3, hf2]
    simp

theorem pictureLoop_grouped_zero (number : NUMBER) (numfmt : NumberFormatInfo)
    (info : PictureInfo) (seps : List Int) :
    (pictureLoop number [35, 44, 35, 35, 48] numfmt info 1 0 true 6
      { src := 0, dst := [], dig := [], digPos := 4, adjust := -4, seps := seps,
        scientific := false, decimalWritten := false }).dst = [48] := by
  cases seps <;> simp [pictureLoop, pictureStep, wcharAt, addGroupSeparator, nextDigit]

theorem NumberToString_number_text (number : NUMBER) (digits : Int)
    (numfmt : NumberFormatInfo) (bDecimal : Bool) (t : List Nat)
    (h : NumberToString number 78 digits numfmt bDecimal = .ok t) :
    FormatNumber [] (NumberToStringRounded number 78 digits numfmt bDecimal)
      (effectiveDigits number 78 digits numfmt bDecimal) numfmt = .ok t := by
  unfold NumberToString at h
  dsimp only at h
  rw [if_pos (by decide)] at h
  by_cases hc : NumberToStringBufferLen number 78 digits numfmt bDecimal > INT32_MAX
  · rw [if_pos hc] at h; cases h
  · rw [if_neg hc, if_neg (by decide), if_neg (by decide), if_pos (by decide)] at h
    cases hf : FormatNumber [] (NumberToStringRounded number 78 digits numfmt bDecimal)
      (effectiveDigits number 78 digits numfmt bDecimal) numfmt with
    | error e => rw [hf] at h; cases h
    | ok dst =>
      rw [hf] at h
      dsimp only at h
      by_cases hl : (dst.length : Int) ≤
          NumberToStringBufferLen number 78 digits numfmt bDecimal * 2
      · rw [if_pos hl] at h; exact h
      · rw [if_neg hl] at h; cases h

theorem FormatNumber_positive (r : NUMBER) (d : Int) (numfmt : NumberFormatInfo)
    (hsign : r.sign = false) :
    FormatNumber [] r d numfmt =
      FormatFixed [] r d (some numfmt.cNumberGroup) numfmt.sNumberDecimal numfmt.sNumberGroup := by
  unfold FormatNumber
  rw [hsign]
  simp only [Bool.false_eq_true, if_false, posNumberFormat]
  rw [FormatNumberLoop, if_neg (by decide), if_pos rfl]
  cases FormatFixed [] r d (some numfmt.cNumberGroup) numfmt.sNumberDecimal
      numfmt.sNumberGroup with
  | error e => rfl
  | ok b => simp [FormatNumberLoop]

/-- The buffer `NumberToString` and the picture "#,##0" both work on: the number
rounded at its scale. It is not negative when the number is not, it has no
digit after the decimal point and its scale is not negative. -/
theorem RoundNumber_at_scale (number : NUMBER) (hdec : IsDecimal number.digits)
    (hsign : number.sign = false) (hs1 : -2147483648 ≤ number.scale)
    (hs2 : number.scale ≤ 400) :
    IsDecimal (RoundNumber number number.scale).digits ∧
      (RoundNumber number number.scale).sign = false ∧
      ((RoundNumber number number.scale).digits.length : Int) ≤
        (RoundNumber number number.scale).scale ∧
      (RoundNumber number number.scale).scale ≤ 401 ∧
      ((RoundNumber number number.scale).scale = 0 →
        (RoundNumber number number.scale).digits = []) := by
  obtain ⟨hrd, -, hshape⟩ := RoundNumber_shape number number.scale hdec ⟨hs1, by omega⟩
  refine ⟨hrd, ?_⟩
  rcases hshape with ⟨h1, h2, h3⟩ | ⟨h1, h2, h3, h4, h5⟩ | ⟨h1, h2, h3, h4, h5⟩
  · rw [h1, h2, h3]; simp
  · have : 0 < (RoundNumber number number.scale).digits.length := List.length_pos.mpr h1
    refine ⟨by rw [h2, hsign], by omega, by omega, fun h0 => ?_⟩
    omega
  · rw [h1, h2, h3, hsign]
    refine ⟨rfl, by simp; omega, by omega, fun h0 => ?_⟩
    omega

/-- The picture "#,##0" on a number that is not negative: the integer digits
of the number rounded at its scale, with one separator at each separator
position. -/
theorem NumberToStringFormat_grouped (number : NUMBER) (numfmt : NumberFormatInfo)
    (hm : IsModestNumberFormatInfo numfmt) (hdec : IsDecimal number.digits)
    (hsign : number.sign = false) (hs1 : -2147483648 ≤ number.scale)
    (hs2 : number.scale ≤ 400) (hgrp : numfmt.cNumberGroup ≠ []) :
    NumberToStringFormat number [35, 44, 35, 35, 48] numfmt =
      .ok (separated numfmt.sNumberGroup
        (separatorPositions numfmt.cNumberGroup (RoundNumber number number.scale).scale
          ((RoundNumber number number.scale).scale.toNat + 3) 0
          (tableAt numfmt.cNumberGroup 0))
        (fixedInteger (RoundNumber number number.scale))) := by
  have hfacts := RoundNumber_at_scale number hdec hsign hs1 hs2
  unfold NumberToStringFormat
  rw [pictureSetup_grouped number hdec hsign ⟨hs1, by omega⟩]
  generalize RoundNumber number number.scale = r at hfacts ⊢
  obtain ⟨hrd, hrs, hlen, h401, hzero⟩ := hfacts
  dsimp only
  obtain ⟨hv, hgn, -, -, hpl, -, hndl, hngl, -⟩ := hm
  obtain ⟨-, -, -, hg, -⟩ := hv
  have hts : (true && decide (numfmt.cNumberGroup.length ≠ 0)) = true := by
    simp [hgrp]
  have hw : wrapInt32 (r.scale - 4) = r.scale - 4 := wrapInt32_of_range _ (by omega) (by omega)
  have h1 : (if (3 : Int) < 4 then (4 : Int) - 3 else 0) = 1 := by decide
  have h2 : (if (4 : Int) > 4 then (4 : Int) - 4 else 0) = 0 := by decide
  have h5 : [35, 44, 35, 35, 48].length = 5 := rfl
  simp only [hts, h1, h2, h5, hw, hrs, Bool.false_eq_true, if_false, if_true, false_and]
  have htd : wrapInt32 ((if r.scale > 4 then r.scale else 4) +
      if r.scale - 4 < 0 then r.scale - 4 else 0) = r.scale := by
    by_cases h4 : r.scale > 4
    · rw [if_pos h4, if_neg (by omega), add_zero]
      exact wrapInt32_of_range _ (by omega) (by omega)
    · rw [if_neg h4]
      by_cases h3 : r.scale - 4 < 0
      · rw [if_pos h3]
        have : (4 : Int) + (r.scale - 4) = r.scale := by ring
        rw [this]
        exact wrapInt32_of_range _ (by omega) (by omega)
      · rw [if_neg h3]
        have : r.scale = 4 := by omega
        rw [this]; decide
  simp only [htd]
  have ht0 := tableAt_range numfmt.cNumberGroup hg ((0 : Nat) : Int)
  have ht1 := tableAt_range numfmt.cNumberGroup hg 0
  have hprod : ∀ seps : List Int, seps.length ≤ 404 →
      (seps.length : Int) * (numfmt.sNumberGroup.length : Int) ≤ 423624704 := by
    intro seps hl
    have h1 : (seps.length : Int) * (numfmt.sNumberGroup.length : Int) ≤ 404 * 1048576 :=
      mul_le_mul (by omega) (by omega) (Int.natCast_nonneg _) (by decide)
    omega
  by_cases hn : r.scale = 0
  · have hd := hzero hn
    have hth := thousandsLoop_eq numfmt.cNumberGroup hg 1 (by decide) 4 0
      (tableAt numfmt.cNumberGroup ((0 : Nat) : Int)) [] ht0.1 (by decide) (Or.inr (by
        have : ((4 : Nat) : Int) = 4 := rfl
        omega))
    simp only [Nat.cast_zero] at hth
    rw [hn, hd]
    rw [if_pos (by decide), show ((1 : Int).toNat + 3) = 4 from rfl, hth]
    dsimp only
    have hl := separatorPositions_length_le numfmt.cNumberGroup 1 4 0
      (tableAt numfmt.cNumberGroup 0)
    have hp := hprod ((separatorPositions numfmt.cNumberGroup 1 4 0
      (tableAt numfmt.cNumberGroup 0)).reverse ++ []) (by simp; omega)
    generalize (((separatorPositions numfmt.cNumberGroup 1 4 0
      (tableAt numfmt.cNumberGroup 0)).reverse ++ []).length : Int) *
        (numfmt.sNumberGroup.length : Int) = pr at hp
    rw [if_neg (by simp; omega)]
    simp only [if_neg (show ¬ ((0 : Int) > 4) by decide), show (0 : Int) - 4 = -4 from rfl]
    rw [pictureLoop_grouped_zero]
    have hfi : fixedInteger r = [48] := by
      unfold fixedInteger
      rw [if_neg (by omega)]
    rw [hfi]
    rfl
  · have hpos : 1 ≤ r.scale := by omega
    have hth := thousandsLoop_eq numfmt.cNumberGroup hg r.scale (by omega) (r.scale.toNat + 3) 0
      (tableAt numfmt.cNumberGroup ((0 : Nat) : Int)) [] ht0.1 (by omega) (Or.inr (by
        have : ((r.scale.toNat + 3 : Nat) : Int) = r.scale + 3 := by omega
        omega))
    simp only [Nat.cast_zero] at hth
    rw [if_neg (by omega), hth]
    dsimp only
    have hl := separatorPositions_length_le numfmt.cNumberGroup r.scale (r.scale.toNat + 3) 0
      (tableAt numfmt.cNumberGroup 0)
    have hp := hprod ((separatorPositions numfmt.cNumberGroup r.scale (r.scale.toNat + 3) 0
      (tableAt numfmt.cNumberGroup 0)).reverse ++ []) (by simp; omega)
    generalize hP : separatorPositions numfmt.cNumberGroup r.scale (r.scale.toNat + 3) 0
      (tableAt numfmt.cNumberGroup 0) = P at hp hl ⊢
    have hif : ¬ ((5 : Nat) : Int) +
        ((((numfmt.sPositive.length : Int) + (numfmt.sNumberDecimal.length : Int) + 0 +
          if (0 : Int) ≠ 0 then (numfmt.sPercent.length : Int) * 0 else 0) +
          if (0 : Int) ≠ 0 then (numfmt.sPerMille.length : Int) * 0 else 0) +
          ((if r.scale - 4 > 0 then r.scale - 4 else 0) +
            ((P.reverse ++ []).length : Int) * (numfmt.sNumberGroup.length : Int))) + 10 >
        2147483647 := by
      generalize ((P.reverse ++ []).length : Int) * (numfmt.sNumberGroup.length : Int) = pr at hp
      simp only [ne_eq, not_true_eq_false, if_false]
      split <;> omega
    rw [if_neg hif]
    congr 1
    have hmem : ∀ x ∈ P, 1 ≤ x ∧ x < r.scale := by
      intro x hx
      rw [← hP] at hx
      have hr := separatorPositions_range numfmt.cNumberGroup hg _ _ _ _ _ hx
      refine ⟨?_, hr.2⟩
      by_contra hc
      have h0 : tableAt numfmt.cNumberGroup 0 = 0 := by omega
      rw [separatorPositions_of_zero _ _ _ 0 _ (by rw [Nat.cast_zero]; exact h0)] at hx
      simp at hx
    have hsorted : P.Pairwise (fun a b => a < b) := by
      rw [← hP]; exact separatorPositions_sorted numfmt.cNumberGroup hg _ _ _ _
    have hcast : ((r.scale.toNat : Nat) : Int) = r.scale := by omega
    refine pictureLoop_grouped_integer r numfmt _ P _ _ r.scale.toNat rfl ?_ ?_ (by omega) ?_ ?_
    · refine ⟨by dsimp only; omega, hrd.ne_zero, ?_, ?_, ?_, ?_⟩
      · intro x hx
        rw [hcast]
        exact hmem x (by simpa using hx)
      · dsimp only
        rw [List.append_nil, List.pairwise_reverse]
        exact hsorted
      · intro q _
        simp
      · dsimp only
        rw [List.nil_append]
        unfold fixedInteger
        rw [if_pos (by omega), List.take_of_length_le (by omega)]
    · dsimp only
      rw [hcast]
      by_cases h4 : r.scale > 4
      · rw [if_pos h4, min_eq_right (by omega)]; ring
      · rw [if_neg h4, min_eq_left (by omega)]; ring
    · dsimp only
      by_cases h4 : r.scale > 4
      · rw [if_pos h4, max_eq_left (by omega)]; ring
      · rw [if_neg h4, max_eq_right (by omega)]; ring
    · dsimp only
      split <;> omega

/-- The format `N0` on a number that is not negative: the same text. -/
theorem NumberToString_grouped (number : NUMBER) (numfmt : NumberFormatInfo)
    (hm : IsModestNumberFormatInfo numfmt) (hb : IsValidDigitBuffer number false)
    (hsign : number.sign = false) (hsc : number.scale ≤ 400) (hpr : number.precision ≤ 100) :
    NumberToString number 78 0 numfmt false =
      .ok (separated numfmt.sNumberGroup
        (separatorPositions numfmt.cNumberGroup (RoundNumber number number.scale).scale
          ((RoundNumber number number.scale).scale.toNat + 3) 0
          (tableAt numfmt.cNumberGroup 0))
        (fixedInteger (RoundNumber number number.scale))) := by
  obtain ⟨dst, hd⟩ := NumberToString_ok number 78 0 numfmt false hm hb ⟨by decide, by decide⟩
    hsc hpr (Or.inr (Or.inr (Or.inl (by decide))))
  have ht := NumberToString_number_text number 0 numfmt false dst hd
  have he : effectiveDigits number 78 0 numfmt false = 0 := by
    unfold effectiveDigits
    dsimp only
    rw [if_neg (by decide), if_pos (by decide), if_neg (by decide)]
  have hr : NumberToStringRounded number 78 0 numfmt false =
      RoundNumber number number.scale := by
    unfold NumberToStringRounded
    dsimp only
    rw [if_pos (by decide), he, add_zero,
      wrapInt32_of_range _ (by have := hb.2.1; omega) (by omega)]
  rw [hr, he] at ht
  rw [hd]
  congr 1
  obtain ⟨hrd, hrs, hlen, h401, hzero⟩ := RoundNumber_at_scale number hb.1 hsign hb.2.1 hsc
  generalize RoundNumber number number.scale = r at ht hrd hrs hlen h401 hzero ⊢
  rw [FormatNumber_positive r 0 numfmt hrs] at ht
  obtain ⟨hv, hgn, -, -, -, -, -, hngl, -⟩ := hm
  obtain ⟨-, -, -, hg, -⟩ := hv
  by_cases hn : r.scale = 0
  · unfold FormatFixed at ht
    dsimp only at ht
    rw [if_neg (by omega)] at ht
    dsimp only at ht
    rw [if_neg (by decide)] at ht
    have hfi : fixedInteger r = [48] := by
      unfold fixedInteger
      rw [if_neg (by omega)]
    rw [hfi]
    injection ht with ht
    rw [← ht]
    rfl
  · have hprod : (r.scale - 1) * (numfmt.sNumberGroup.length : Int) ≤ 400 * 1048576 :=
      mul_le_mul (by omega) (by omega) (Int.natCast_nonneg _) (by decide)
    rw [FormatFixed_separated [] r numfmt.cNumberGroup numfmt.sNumberDecimal
      numfmt.sNumberGroup 1073741824 (fun g hm => ⟨(hg g hm).1, hgn g hm⟩) (by omega) (by omega)
      (by decide) (by omega) (by omega) hrd.ne_zero] at ht
    injection ht with ht
    rw [← ht]
    rfl

/-- C40, counterexample: with the number group sizes {1, 2147483647} the
format `N0` raises the argument-out-of-range exception on 12345, because the
running total of the sizes overflows `int` in the sizing loop of `FormatFixed`,
while the picture "#,##0", which sums the sizes in 64 bits, returns
"1234,5". -/
theorem number_format_overflow_picture_text :
    NumberToString ⟨10, 5, false, [49, 50, 51, 52, 53]⟩ 78 0
        ⟨[1, 2147483647], [3], [3], [43], [45], [46], [44], [44], [46], [36], [44], [46], [37],
          [0x2030], [78, 97, 78], [73], [45, 73], 2, 2, 2, 1, 0, 0, 1, 1⟩ false =
        .error FormatError.argumentOutOfRange ∧
      NumberToStringFormat ⟨10, 5, false, [49, 50, 51, 52, 53]⟩ [35, 44, 35, 35, 48]
        ⟨[1, 2147483647], [3], [3], [43], [45], [46], [44], [44], [46], [36], [44], [46], [37],
          [0x2030], [78, 97, 78], [73], [45, 73], 2, 2, 2, 1, 0, 0, 1, 1⟩ =
        .ok [49, 50, 51, 52, 44, 53] := by
  constructor <;> decide

/-- C40, amended: for every digit buffer that is not negative, with a scale
of at most 400 and a precision of at most 100, and every configuration of
moderate size (no string longer than `2^20` code units, no group size above
`2^30`) with a non-empty sequence of number group sizes, the picture "#,##0"
and the format `N0` return the same text: the integer digits of the number
rounded at its scale, with the separator at the positions the group sizes
give. -/
theorem picture_matches_number_format (number : NUMBER) (numfmt : NumberFormatInfo)
    (hm : IsModestNumberFormatInfo numfmt) (hb : IsValidDigitBuffer number false)
    (hsign : number.sign = false) (hsc : number.scale ≤ 400) (hpr : number.precision ≤ 100)
    (hgrp : numfmt.cNumberGroup ≠ []) :
    NumberToStringFormat number [35, 44, 35, 35, 48] numfmt =
        NumberToString number 78 0 numfmt false ∧
      NumberToString number 78 0 numfmt false =
        .ok (separated numfmt.sNumberGroup
          (separatorPositions numfmt.cNumberGroup (RoundNumber number number.scale).scale
            ((RoundNumber number number.scale).scale.toNat + 3) 0
            (tableAt numfmt.cNumberGroup 0))
          (fixedInteger (RoundNumber number number.scale))) := by
  have h1 := NumberToStringFormat_grouped number numfmt hm hb.1 hsign hb.2.1 hsc hgrp
  have h2 := NumberToString_grouped number numfmt hm hb hsign hsc hpr
  exact ⟨h1.trans h2.symm, h2⟩

theorem picture_matches_number_format_witness :
    NumberToStringFormat ⟨10, 7, false, [49, 50, 51, 52, 53, 54, 55]⟩ [35, 44, 35, 35, 48]
        ⟨[3, 2], [3], [3], [43], [45], [46], [44], [44], [46], [36], [44], [46], [37],
          [0x2030], [78, 97, 78], [73], [45, 73], 2, 2, 2, 1, 0, 0, 1, 1⟩ =
        NumberToString ⟨10, 7, false, [49, 50, 51, 52, 53, 54, 55]⟩ 78 0
          ⟨[3, 2], [3], [3], [43], [45], [46], [44], [44], [46], [36], [44], [46], [37],
            [0x2030], [78, 97, 78], [73], [45, 73], 2, 2, 2, 1, 0, 0, 1, 1⟩ false ∧
      NumberToString ⟨10, 7, false, [49, 50, 51, 52, 53, 54, 55]⟩ 78 0
          ⟨[3, 2], [3], [3], [43], [45], [46], [44], [44], [46], [36], [44], [46], [37],
            [0x2030], [78, 97, 78], [73], [45, 73], 2, 2, 2, 1, 0, 0, 1, 1⟩ false =
        .ok [49, 50, 44, 51, 52, 44, 53, 54, 55] :=
  have h := picture_matches_number_format ⟨10, 7, false, [49, 50, 51, 52, 53, 54, 55]⟩
    ⟨[3, 2], [3], [3], [43], [45], [46], [44], [44], [46], [36], [44], [46], [37],
      [0x2030], [78, 97, 78], [73], [45, 73], 2, 2, 2, 1, 0, 0, 1, 1⟩
    (by decide) (by decide) rfl (by decide) (by decide) (by decide)
  ⟨h.1, h.2.trans (by decide)⟩

/-! ## Commas in a picture -/

theorem emitOverflowDigits_src (numfmt : NumberFormatInfo) (ts : Bool) (n : Nat) :
    ∀ (st : PictureState) (a : Nat),
      emitOverflowDigits numfmt ts n { st with src := a } =
        { emitOverflowDigits numfmt ts n st with src := a } := by
  induction n with
  | zero => intro st a; rfl
  | succ n ih =>
    intro st a
    rw [emitOverflowDigits, emitOverflowDigits]
    exact ih
      { src := st.src
        dst := (addGroupSeparator numfmt ts st.digPos (st.dst ++ [(nextDigit st.dig).1])
          st.seps).1
        dig := (nextDigit st.dig).2
        digPos := st.digPos - 1
        adjust := st.adjust - 1
        seps := (addGroupSeparator numfmt ts st.digPos (st.dst ++ [(nextDigit st.dig).1])
          st.seps).2
        scientific := st.scientific
        decimalWritten := st.decimalWritten } a

/-- The output step for a digit placeholder or the decimal point reads neither
the format string nor the read offset, and of the parsed locals only
`decimalPos` and `digitCount`. -/
theorem pictureStep_plain (number : NUMBER) (f1 f2 : List Nat) (numfmt : NumberFormatInfo)
    (info1 info2 : PictureInfo) (hdp : info1.decimalPos = info2.decimalPos)
    (hdc : info1.digitCount = info2.digitCount) (fd ld : Int) (ts : Bool) (c : Nat)
    (hc : c = 35 ∨ c = 48 ∨ c = 46) (st : PictureState) (a : Nat) :
    pictureStep number f1 numfmt info1 fd ld ts c { st with src := a } =
      { pictureStep number f2 numfmt info2 fd ld ts c st with src := a } := by
  unfold pictureStep
  rcases hc with h | h | h
  · subst h
    rw [if_pos (Or.inl rfl), if_pos (Or.inl rfl)]
  · subst h
    rw [if_pos (Or.inr rfl), if_pos (Or.inr rfl)]
  · subst h
    rw [if_neg (show ¬ ((46 : Nat) = 35 ∨ (46 : Nat) = 48) by decide),
      if_pos (show (46 : Nat) = 46 from rfl), hdp, hdc]
    dsimp only
    split
    · rfl
    · split <;> rfl

theorem pictureLoop_plain_iter (number : NUMBER) (f : List Nat) (numfmt : NumberFormatInfo)
    (info : PictureInfo) (fd ld : Int) (ts : Bool) (g : Nat) (st : PictureState) (s c : Nat)
    (hw : wcharAt f s = c) (hc : c = 35 ∨ c = 48 ∨ c = 46) :
    pictureLoop number f numfmt info fd ld ts (g + 1) { st with src := s } =
      pictureLoop number f numfmt info fd ld ts g
        { pictureStep number f numfmt info fd ld ts c
            (if st.adjust > 0 then emitOverflowDigits numfmt ts st.adjust.toNat st else st) with
          src := s + 1 } := by
  have hne : ¬ (c = 0 ∨ c = 59) := by
    rcases hc with h | h | h <;> rw [h] <;> decide
  rw [pictureLoop]
  dsimp only
  rw [hw, if_neg hne]
  by_cases ha : st.adjust > 0
  · rw [if_pos ⟨ha, hc⟩, if_pos ha, emitOverflowDigits_src,
      pictureStep_plain number f f numfmt info info rfl rfl fd ld ts c hc]
  · rw [if_neg (fun h => ha h.1), if_neg ha,
      pictureStep_plain number f f numfmt info info rfl rfl fd ld ts c hc]

/-- The text the output loop writes does not change when `','` characters are
added to or taken from a picture of digit placeholders, decimal points and
commas: the loop passes over them. -/
theorem pictureLoop_ignores_commas (number : NUMBER) (numfmt : NumberFormatInfo)
    (info1 info2 : PictureInfo) (hdp : info1.decimalPos = info2.decimalPos)
    (hdc : info1.digitCount = info2.digitCount) (fd ld : Int) (ts : Bool) :
    ∀ (n : Nat) (f1 f2 : List Nat) (s1 s2 fuel1 fuel2 : Nat) (st : PictureState),
      (f1.length - s1) + (f2.length - s2) ≤ n →
      (∀ c ∈ f1, c = 35 ∨ c = 48 ∨ c = 46 ∨ c = 44) →
      (∀ c ∈ f2, c = 35 ∨ c = 48 ∨ c = 46 ∨ c = 44) →
      (f1.drop s1).filter (fun c => c != 44) = (f2.drop s2).filter (fun c => c != 44) →
      f1.length - s1 < fuel1 → f2.length - s2 < fuel2 →
      (pictureLoop number f1 numfmt info1 fd ld ts fuel1 { st with src := s1 }).dst =
        (pictureLoop number f2 numfmt info2 fd ld ts fuel2 { st with src := s2 }).dst := by
  intro n
  induction n with
  | zero =>
    intro f1 f2 s1 s2 fuel1 fuel2 st hn _ _ _ _ _
    rw [pictureLoop_at_end _ _ _ _ _ _ _ _ _ (wcharAt_of_length_le f1 (by dsimp only; omega)),
      pictureLoop_at_end _ _ _ _ _ _ _ _ _ (wcharAt_of_length_le f2 (by dsimp only; omega))]
  | succ m ih =>
    intro f1 f2 s1 s2 fuel1 fuel2 st hn hp1 hp2 hfil hf1 hf2
    have caseA : s1 < f1.length → wcharAt f1 s1 = 44 →
        (pictureLoop number f1 numfmt info1 fd ld ts fuel1 { st with src := s1 }).dst =
          (pictureLoop number f2 numfmt info2 fd ld ts fuel2 { st with src := s2 }).dst := by
      intro h1 hc1
      obtain ⟨g1, rfl⟩ : ∃ g, fuel1 = g + 1 := ⟨fuel1 - 1, by omega⟩
      rw [pictureLoop_comma_iter number f1 numfmt info1 fd ld ts g1 { st with src := s1 } hc1]
      refine ih f1 f2 (s1 + 1) s2 g1 fuel2 st (by omega) hp1 hp2 ?_ (by omega) hf2
      rw [drop_eq_cons_wcharAt f1 s1 h1, hc1] at hfil
      simpa using hfil
    have caseB : s2 < f2.length → wcharAt f2 s2 = 44 →
        (pictureLoop number f1 numfmt info1 fd ld ts fuel1 { st with src := s1 }).dst =
          (pictureLoop number f2 numfmt info2 fd ld ts fuel2 { st with src := s2 }).dst := by
      intro h2 hc2
      obtain ⟨g2, rfl⟩ : ∃ g, fuel2 = g + 1 := ⟨fuel2 - 1, by omega⟩
      rw [pictureLoop_comma_iter number f2 numfmt info2 fd ld ts g2 { st with src := s2 } hc2]
      refine ih f1 f2 s1 (s2 + 1) fuel1 g2 st (by omega) hp1 hp2 ?_ hf1 (by omega)
      rw [drop_eq_cons_wcharAt f2 s2 h2, hc2] at hfil
      simpa using hfil
    by_cases h1 : s1 < f1.length
    · by_cases hc1 : wcharAt f1 s1 = 44
      · exact caseA h1 hc1
      · by_cases h2 : s2 < f2.length
        · by_cases hc2 : wcharAt f2 s2 = 44
          · exact caseB h2 hc2
          · rw [drop_eq_cons_wcharAt f1 s1 h1, drop_eq_cons_wcharAt f2 s2 h2,
              List.filter_cons_of_pos (by simpa using hc1),
              List.filter_cons_of_pos (by simpa using hc2)] at hfil
            injection hfil with hhead htail
            have hpl : wcharAt f1 s1 = 35 ∨ wcharAt f1 s1 = 48 ∨ wcharAt f1 s1 = 46 := by
              have := hp1 _ (wcharAt_mem f1 s1 h1)
              rcases this with h | h | h | h
              · exact Or.inl h
              · exact Or.inr (Or.inl h)
              · exact Or.inr (Or.inr h)
              · exact absurd h hc1
            obtain ⟨g1, rfl⟩ : ∃ g, fuel1 = g + 1 := ⟨fuel1 - 1, by omega⟩
            obtain ⟨g2, rfl⟩ : ∃ g, fuel2 = g + 1 := ⟨fuel2 - 1, by omega⟩
            rw [pictureLoop_plain_iter number f1 numfmt info1 fd ld ts g1 st s1 _ rfl hpl,
              pictureLoop_plain_iter number f2 numfmt info2 fd ld ts g2 st s2 _ hhead.symm hpl]
            have hst := pictureStep_plain number f1 f2 numfmt info1 info2 hdp hdc fd ld ts
              (wcharAt f1 s1) hpl
              (if st.adjust > 0 then emitOverflowDigits numfmt ts st.adjust.toNat st else st)
              (if st.adjust > 0 then emitOverflowDigits numfmt ts st.adjust.toNat st else st).src
            have hst2 : pictureStep number f1 numfmt info1 fd ld ts (wcharAt f1 s1)
                (if st.adjust > 0 then emitOverflowDigits numfmt ts st.adjust.toNat st else st) =
              pictureStep number f2 numfmt info2 fd ld ts (wcharAt f1 s1)
                (if st.adjust > 0 then emitOverflowDigits numfmt ts st.adjust.toNat st else st) := by
              have e2 := pictureStep_plain number f2 f2 numfmt info2 info2 rfl rfl fd ld ts
                (wcharAt f1 s1) hpl
                (if st.adjust > 0 then emitOverflowDigits numfmt ts st.adjust.toNat st else st)
                (if st.adjust > 0 then emitOverflowDigits numfmt ts st.adjust.toNat st else st).src
              exact hst.trans e2.symm
            rw [hst2]
            exact ih f1 f2 (s1 + 1) (s2 + 1) g1 g2 _ (by omega) hp1 hp2 htail (by omega)
              (by omega)
        · exfalso
          rw [drop_eq_cons_wcharAt f1 s1 h1,
            List.drop_eq_nil_of_le (show f2.length ≤ s2 by omega),
            List.filter_cons_of_pos (by simpa using hc1)] at hfil
          simp at hfil
    · by_cases h2 : s2 < f2.length
      · by_cases hc2 : wcharAt f2 s2 = 44
        · exact caseB h2 hc2
        · exfalso
          rw [drop_eq_cons_wcharAt f2 s2 h2,
            List.drop_eq_nil_of_le (show f1.length ≤ s1 by omega),
            List.filter_cons_of_pos (by simpa using hc2)] at hfil
          simp at hfil
      · rw [pictureLoop_at_end _ _ _ _ _ _ _ _ _ (wcharAt_of_length_le f1 (by dsimp only; omega)),
          pictureLoop_at_end _ _ _ _ _ _ _ _ _ (wcharAt_of_length_le f2 (by dsimp only; omega))]

theorem wcharAt_cons_succ (c : Nat) (cs : List Nat) (s : Nat) :
    wcharAt (c :: cs) (s + 1) = wcharAt cs s := by
  simp [wcharAt]

/-- On a picture of digit placeholders, decimal points and commas the section
parser reads one code unit at a time: what it does from an offset on depends
on the code units from there on only. -/
theorem parseSectionLoop_shift (c : Nat) (cs : List Nat)
    (h : ∀ x ∈ cs, x = 35 ∨ x = 48 ∨ x = 46 ∨ x = 44) (fuel : Nat) :
    ∀ (s : Nat) (st : PictureInfo),
      parseSectionLoop (c :: cs) fuel (s + 1) st = parseSectionLoop cs fuel s st := by
  induction fuel with
  | zero => intro s st; rfl
  | succ fuel ih =>
    intro s st
    unfold parseSectionLoop
    dsimp only
    rw [wcharAt_cons_succ]
    by_cases hlt : s < cs.length
    · rcases h _ (wcharAt_mem cs s hlt) with hc | hc | hc | hc
      · simp only [hc, Nat.reduceEqDiff, or_self, if_false, if_true]
        exact ih _ _
      · simp only [hc, Nat.reduceEqDiff, or_self, if_false, if_true]
        exact ih _ _
      · simp only [hc, Nat.reduceEqDiff, or_self, if_false, if_true]
        exact ih _ _
      · simp only [hc, Nat.reduceEqDiff, or_self, if_false, if_true]
        exact ih _ _
    · have hw : wcharAt cs s = 0 := wcharAt_of_length_le _ (by omega)
      simp [hw]

theorem parseSectionLoop_cons_hash (cs : List Nat)
    (h : ∀ x ∈ cs, x = 35 ∨ x = 48 ∨ x = 46 ∨ x = 44) (fuel : Nat) (st : PictureInfo) :
    parseSectionLoop (35 :: cs) (fuel + 1) 0 st =
      parseSectionLoop cs fuel 0 { st with digitCount := st.digitCount + 1 } := by
  rw [parseSectionLoop]
  simp only [wcharAt, List.getD_cons_zero, Nat.reduceEqDiff, or_self, if_false, if_true]
  exact parseSectionLoop_shift 35 cs h fuel 0 _

theorem parseSectionLoop_cons_zero (cs : List Nat)
    (h : ∀ x ∈ cs, x = 35 ∨ x = 48 ∨ x = 46 ∨ x = 44) (fuel : Nat) (st : PictureInfo) :
    parseSectionLoop (48 :: cs) (fuel + 1) 0 st =
      parseSectionLoop cs fuel 0
        { st with
          firstDigit := if st.firstDigit = 0x7FFFFFFF then st.digitCount else st.firstDigit
          digitCount := st.digitCount + 1
          lastDigit := st.digitCount + 1 } := by
  rw [parseSectionLoop]
  simp only [wcharAt, List.getD_cons_zero, Nat.reduceEqDiff, or_self, if_false, if_true]
  exact parseSectionLoop_shift 48 cs h fuel 0 _

theorem parseSectionLoop_cons_point (cs : List Nat)
    (h : ∀ x ∈ cs, x = 35 ∨ x = 48 ∨ x = 46 ∨ x = 44) (fuel : Nat) (st : PictureInfo) :
    parseSectionLoop (46 :: cs) (fuel + 1) 0 st =
      parseSectionLoop cs fuel 0
        (if st.decimalPos < 0 then { st with decimalPos := st.digitCount } else st) := by
  rw [parseSectionLoop]
  simp only [wcharAt, List.getD_cons_zero, Nat.reduceEqDiff, or_self, if_false, if_true]
  exact parseSectionLoop_shift 46 cs h fuel 0 _

theorem parseSectionLoop_cons_comma (cs : List Nat)
    (h : ∀ x ∈ cs, x = 35 ∨ x = 48 ∨ x = 46 ∨ x = 44) (fuel : Nat) (st : PictureInfo) :
    parseSectionLoop (44 :: cs) (fuel + 1) 0 st =
      parseSectionLoop cs fuel 0
        (if st.digitCount > 0 ∧ st.decimalPos < 0 then
          (if st.thousandPos ≥ 0 ∧ st.thousandPos = st.digitCount then
            { st with thousandCount := st.thousandCount + 1 }
           else
            { st with
              thousandSeps := if st.thousandPos ≥ 0 then true else st.thousandSeps
              thousandPos := st.digitCount
              thousandCount := 1 })
         else st) := by
  rw [parseSectionLoop]
  simp only [wcharAt, List.getD_cons_zero, Nat.reduceEqDiff, or_self, if_false, if_true]
  exact parseSectionLoop_shift 44 cs h fuel 0 _

theorem parseSectionLoop_nil (fuel : Nat) (st : PictureInfo) :
    parseSectionLoop [] fuel 0 st = st := by
  cases fuel with
  | zero => rfl
  | succ f => simp [parseSectionLoop, wcharAt]

/-- Two pictures with a common beginning of digit placeholders and commas: the
section parser reaches the end of the beginning with the same locals. No
decimal point has been seen, and the thousands marker is not ahead of the digit
count. -/
theorem parseSectionLoop_common_start (t1 t2 : List Nat)
    (h1 : ∀ x ∈ t1, x = 35 ∨ x = 48 ∨ x = 46 ∨ x = 44)
    (h2 : ∀ x ∈ t2, x = 35 ∨ x = 48 ∨ x = 46 ∨ x = 44) :
    ∀ (pre : List Nat) (g1 g2 : Nat) (st : PictureInfo),
      (∀ x ∈ pre, x = 35 ∨ x = 48 ∨ x = 44) → st.decimalPos < 0 →
      st.thousandPos ≤ st.digitCount → 0 ≤ st.digitCount →
      ∃ st' : PictureInfo,
        parseSectionLoop (pre ++ t1) (pre.length + g1) 0 st = parseSectionLoop t1 g1 0 st' ∧
        parseSectionLoop (pre ++ t2) (pre.length + g2) 0 st = parseSectionLoop t2 g2 0 st' ∧
        st'.decimalPos = st.decimalPos ∧ st'.thousandPos ≤ st'.digitCount ∧
        st.digitCount ≤ st'.digitCount ∧ st'.scaleAdjust = st.scaleAdjust ∧
        st'.scientific = st.scientific ∧ st'.percent = st.percent ∧
        st'.permille = st.permille := by
  intro pre
  induction pre with
  | nil =>
    intro g1 g2 st _ _ ht _
    refine ⟨st, ?_, ?_, rfl, ht, le_refl _, rfl, rfl, rfl, rfl⟩
    · simp
    · simp
  | cons c pre ih =>
    intro g1 g2 st hpre hd ht hdc
    have hpl : ∀ (t : List Nat), (∀ x ∈ t, x = 35 ∨ x = 48 ∨ x = 46 ∨ x = 44) →
        ∀ x ∈ pre ++ t, x = 35 ∨ x = 48 ∨ x = 46 ∨ x = 44 := by
      intro t ht x hx
      rcases List.mem_append.mp hx with hx | hx
      · rcases hpre x (List.mem_cons_of_mem _ hx) with h | h | h
        · exact Or.inl h
        · exact Or.inr (Or.inl h)
        · exact Or.inr (Or.inr (Or.inr h))
      · exact ht x hx
    have hpre2 : ∀ x ∈ pre, x = 35 ∨ x = 48 ∨ x = 44 :=
      fun x hx => hpre x (List.mem_cons_of_mem _ hx)
    have hf : ∀ g : Nat, (c :: pre).length + g = (pre.length + g) + 1 := by
      intro g; simp only [List.length_cons]; omega
    rw [hf g1, hf g2, List.cons_append, List.cons_append]
    rcases hpre c (List.mem_cons_self _ _) with hc | hc | hc
    · subst hc
      rw [parseSectionLoop_cons_hash _ (hpl t1 h1), parseSectionLoop_cons_hash _ (hpl t2 h2)]
      obtain ⟨st', e1, e2, e3, e4, e5, e6, e7, e8, e9⟩ := ih g1 g2
        { st with digitCount := st.digitCount + 1 } hpre2 hd
        (by dsimp only; omega) (by dsimp only; omega)
      exact ⟨st', e1, e2, e3, e4, by dsimp only at e5; omega, e6, e7, e8, e9⟩
    · subst hc
      rw [parseSectionLoop_cons_zero _ (hpl t1 h1), parseSectionLoop_cons_zero _ (hpl t2 h2)]
      obtain ⟨st', e1, e2, e3, e4, e5, e6, e7, e8, e9⟩ := ih g1 g2
        { st with
          firstDigit := if st.firstDigit = 0x7FFFFFFF then st.digitCount else st.firstDigit
          digitCount := st.digitCount + 1
          lastDigit := st.digitCount + 1 } hpre2 hd
        (by dsimp only; omega) (by dsimp only; omega)
      exact ⟨st', e1, e2, e3, e4, by dsimp only at e5; omega, e6, e7, e8, e9⟩
    · subst hc
      rw [parseSectionLoop_cons_comma _ (hpl t1 h1), parseSectionLoop_cons_comma _ (hpl t2 h2)]
      by_cases hdig : st.digitCount > 0 ∧ st.decimalPos < 0
      · rw [if_pos hdig]
        by_cases hrun : st.thousandPos ≥ 0 ∧ st.thousandPos = st.digitCount
        · rw [if_pos hrun]
          exact ih g1 g2 { st with thousandCount := st.thousandCount + 1 } hpre2 hd ht hdc
        · rw [if_neg hrun]
          obtain ⟨st', e1, e2, e3, e4, e5, e6, e7, e8, e9⟩ := ih g1 g2
            { st with
              thousandSeps := if st.thousandPos ≥ 0 then true else st.thousandSeps
              thousandPos := st.digitCount
              thousandCount := 1 } hpre2 hd (le_refl _) hdc
          exact ⟨st', e1, e2, e3, e4, e5, e6, e7, e8, e9⟩
      · rw [if_neg hdig]
        exact ih g1 g2 st hpre2 hd ht hdc

/-- A run of commas met right after a digit placeholder, before any decimal
point: the thousands marker is set to the digit count and the commas are
counted. Grouping is turned on only if a marker was set before. -/
theorem parseSectionLoop_comma_run (t : List Nat)
    (h : ∀ x ∈ t, x = 35 ∨ x = 48 ∨ x = 46 ∨ x = 44) :
    ∀ (j g : Nat) (st : PictureInfo), st.digitCount > 0 → st.decimalPos < 0 →
      st.thousandPos = st.digitCount →
      parseSectionLoop (List.replicate j 44 ++ t) (j + g) 0 st =
        parseSectionLoop t g 0 { st with thousandCount := st.thousandCount + j } := by
  intro j
  induction j with
  | zero =>
    intro g st _ _ _
    simp
  | succ j ih =>
    intro g st hd hp ht
    have hpl : ∀ x ∈ List.replicate j 44 ++ t, x = 35 ∨ x = 48 ∨ x = 46 ∨ x = 44 := by
      intro x hx
      rcases List.mem_append.mp hx with hx | hx
      · exact Or.inr (Or.inr (Or.inr (List.eq_of_mem_replicate hx)))
      · exact h x hx
    have hf : j + 1 + g = (j + g) + 1 := by omega
    rw [hf, List.replicate_succ, List.cons_append, parseSectionLoop_cons_comma _ hpl,
      if_pos ⟨hd, hp⟩, if_pos ⟨by omega, ht⟩,
      ih g { st with thousandCount := st.thousandCount + 1 } hd hp ht]
    congr 1
    dsimp only
    congr 1
    push_cast
    ring

theorem parseSectionLoop_comma_run_start (t : List Nat)
    (h : ∀ x ∈ t, x = 35 ∨ x = 48 ∨ x = 46 ∨ x = 44) (k g : Nat) (hk : 1 ≤ k)
    (st : PictureInfo) (hd : st.digitCount > 0) (hp : st.decimalPos < 0)
    (ht : st.thousandPos < st.digitCount) :
    parseSectionLoop (List.replicate k 44 ++ t) (k + g) 0 st =
      parseSectionLoop t g 0
        { st with
          thousandSeps := if st.thousandPos ≥ 0 then true else st.thousandSeps
          thousandPos := st.digitCount
          thousandCount := k } := by
  obtain ⟨j, rfl⟩ : ∃ j, k = j + 1 := ⟨k - 1, by omega⟩
  have hpl : ∀ x ∈ List.replicate j 44 ++ t, x = 35 ∨ x = 48 ∨ x = 46 ∨ x = 44 := by
    intro x hx
    rcases List.mem_append.mp hx with hx | hx
    · exact Or.inr (Or.inr (Or.inr (List.eq_of_mem_replicate hx)))
    · exact h x hx
  have hf : j + 1 + g = (j + g) + 1 := by omega
  rw [hf, List.replicate_succ, List.cons_append, parseSectionLoop_cons_comma _ hpl,
    if_pos ⟨hd, hp⟩, if_neg (by omega),
    parseSectionLoop_comma_run t h j g
      { st with
        thousandSeps := if st.thousandPos ≥ 0 then true else st.thousandSeps
        thousandPos := st.digitCount
        thousandCount := 1 } hd hp rfl]
  congr 1
  dsimp only
  congr 1
  push_cast
  ring

/-- What follows the marker, a run of decimal points and digit placeholders,
leaves the thousands marker, the comma count, the grouping flag and the scale
adjustment as they are, and a decimal position once it is set. -/
theorem parseSectionLoop_plain_tail :
    ∀ (cs : List Nat), (∀ x ∈ cs, x = 35 ∨ x = 48 ∨ x = 46) →
      ∀ (fuel : Nat) (st : PictureInfo),
        (parseSectionLoop cs fuel 0 st).thousandPos = st.thousandPos ∧
        (parseSectionLoop cs fuel 0 st).thousandCount = st.thousandCount ∧
        (parseSectionLoop cs fuel 0 st).thousandSeps = st.thousandSeps ∧
        (parseSectionLoop cs fuel 0 st).scaleAdjust = st.scaleAdjust ∧
        (0 ≤ st.decimalPos → (parseSectionLoop cs fuel 0 st).decimalPos = st.decimalPos) ∧
        (cs = [] → parseSectionLoop cs fuel 0 st = st) := by
  intro cs
  induction cs with
  | nil =>
    intro _ fuel st
    rw [parseSectionLoop_nil]
    exact ⟨rfl, rfl, rfl, rfl, fun _ => rfl, fun _ => rfl⟩
  | cons c cs ih =>
    intro h fuel st
    have hcs : ∀ x ∈ cs, x = 35 ∨ x = 48 ∨ x = 46 := fun x hx => h x (List.mem_cons_of_mem _ hx)
    have hpl : ∀ x ∈ cs, x = 35 ∨ x = 48 ∨ x = 46 ∨ x = 44 := by
      intro x hx
      rcases hcs x hx with h | h | h
      · exact Or.inl h
      · exact Or.inr (Or.inl h)
      · exact Or.inr (Or.inr (Or.inl h))
    cases fuel with
    | zero => exact ⟨rfl, rfl, rfl, rfl, fun _ => rfl, fun hc => by cases hc⟩
    | succ fuel =>
      rcases h c (List.mem_cons_self _ _) with hc | hc | hc
      · subst hc
        rw [parseSectionLoop_cons_hash _ hpl]
        obtain ⟨i1, i2, i3, i4, i5, -⟩ := ih hcs fuel { st with digitCount := st.digitCount + 1 }
        exact ⟨i1, i2, i3, i4, i5, fun hc => by cases hc⟩
      · subst hc
        rw [parseSectionLoop_cons_zero _ hpl]
        obtain ⟨i1, i2, i3, i4, i5, -⟩ := ih hcs fuel
          { st with
            firstDigit := if st.firstDigit = 0x7FFFFFFF then st.digitCount else st.firstDigit
            digitCount := st.digitCount + 1
            lastDigit := st.digitCount + 1 }
        exact ⟨i1, i2, i3, i4, i5, fun hc => by cases hc⟩
      · subst hc
        rw [parseSectionLoop_cons_point _ hpl]
        by_cases hd : st.decimalPos < 0
        · rw [if_pos hd]
          obtain ⟨i1, i2, i3, i4, i5, -⟩ := ih hcs fuel { st with decimalPos := st.digitCount }
          exact ⟨i1, i2, i3, i4, fun h0 => by omega, fun hc => by cases hc⟩
        · rw [if_neg hd]
          obtain ⟨i1, i2, i3, i4, i5, -⟩ := ih hcs fuel st
          exact ⟨i1, i2, i3, i4, i5, fun hc => by cases hc⟩

/-- The locals other than the thousands marker, the comma count and the
grouping flag do not depend on these three. -/
theorem parseSectionLoop_plain_agree :
    ∀ (cs : List Nat), (∀ x ∈ cs, x = 35 ∨ x = 48 ∨ x = 46) →
      ∀ (fuel : Nat) (st1 st2 : PictureInfo),
        st1.digitCount = st2.digitCount → st1.decimalPos = st2.decimalPos →
        st1.firstDigit = st2.firstDigit → st1.lastDigit = st2.lastDigit →
        st1.scientific = st2.scientific → st1.percent = st2.percent →
        st1.permille = st2.permille →
        (parseSectionLoop cs fuel 0 st1).digitCount =
            (parseSectionLoop cs fuel 0 st2).digitCount ∧
          (parseSectionLoop cs fuel 0 st1).decimalPos =
            (parseSectionLoop cs fuel 0 st2).decimalPos ∧
          (parseSectionLoop cs fuel 0 st1).firstDigit =
            (parseSectionLoop cs fuel 0 st2).firstDigit ∧
          (parseSectionLoop cs fuel 0 st1).lastDigit =
            (parseSectionLoop cs fuel 0 st2).lastDigit ∧
          (parseSectionLoop cs fuel 0 st1).scientific =
            (parseSectionLoop cs fuel 0 st2).scientific ∧
          (parseSectionLoop cs fuel 0 st1).percent = (parseSectionLoop cs fuel 0 st2).percent ∧
          (parseSectionLoop cs fuel 0 st1).permille =
            (parseSectionLoop cs fuel 0 st2).permille := by
  intro cs
  induction cs with
  | nil =>
    intro _ fuel st1 st2 a1 a2 a3 a4 a5 a6 a7
    rw [parseSectionLoop_nil, parseSectionLoop_nil]
    exact ⟨a1, a2, a3, a4, a5, a6, a7⟩
  | cons c cs ih =>
    intro h fuel st1 st2 a1 a2 a3 a4 a5 a6 a7
    have hcs : ∀ x ∈ cs, x = 35 ∨ x = 48 ∨ x = 46 := fun x hx => h x (List.mem_cons_of_mem _ hx)
    have hpl : ∀ x ∈ cs, x = 35 ∨ x = 48 ∨ x = 46 ∨ x = 44 := by
      intro x hx
      rcases hcs x hx with h | h | h
      · exact Or.inl h
      · exact Or.inr (Or.inl h)
      · exact Or.inr (Or.inr (Or.inl h))
    cases fuel with
    | zero => exact ⟨a1, a2, a3, a4, a5, a6, a7⟩
    | succ fuel =>
      rcases h c (List.mem_cons_self _ _) with hc | hc | hc
      · subst hc
        rw [parseSectionLoop_cons_hash _ hpl, parseSectionLoop_cons_hash _ hpl]
        exact ih hcs fuel _ _ (by dsimp only; rw [a1]) a2 a3 a4 a5 a6 a7
      · subst hc
        rw [parseSectionLoop_cons_zero _ hpl, parseSectionLoop_cons_zero _ hpl]
        exact ih hcs fuel _ _ (by dsimp only; rw [a1]) a2 (by dsimp only; rw [a1, a3])
          (by dsimp only; rw [a1]) a5 a6 a7
      · subst hc
        rw [parseSectionLoop_cons_point _ hpl, parseSectionLoop_cons_point _ hpl]
        by_cases hd : st1.decimalPos < 0
        · rw [if_pos hd, if_pos (by rw [← a2]; exact hd)]
          exact ih hcs fuel _ _ a1 a1 a3 a4 a5 a6 a7
        · rw [if_neg hd, if_neg (by rw [← a2]; exact hd)]
          exact ih hcs fuel _ _ a1 a2 a3 a4 a5 a6 a7

theorem parseSectionLoop_cons_placeholder (d : Nat) (hd : d = 35 ∨ d = 48) (t1 t2 : List Nat)
    (h1 : ∀ x ∈ t1, x = 35 ∨ x = 48 ∨ x = 46 ∨ x = 44)
    (h2 : ∀ x ∈ t2, x = 35 ∨ x = 48 ∨ x = 46 ∨ x = 44) (g1 g2 : Nat) (st : PictureInfo) :
    ∃ st' : PictureInfo,
      parseSectionLoop (d :: t1) (g1 + 1) 0 st = parseSectionLoop t1 g1 0 st' ∧
      parseSectionLoop (d :: t2) (g2 + 1) 0 st = parseSectionLoop t2 g2 0 st' ∧
      st'.digitCount = st.digitCount + 1 ∧ st'.decimalPos = st.decimalPos ∧
      st'.thousandPos = st.thousandPos ∧ st'.thousandSeps = st.thousandSeps ∧
      st'.scaleAdjust = st.scaleAdjust := by
  rcases hd with hd | hd
  · subst hd
    exact ⟨_, parseSectionLoop_cons_hash t1 h1 g1 st, parseSectionLoop_cons_hash t2 h2 g2 st,
      rfl, rfl, rfl, rfl, rfl⟩
  · subst hd
    exact ⟨_, parseSectionLoop_cons_zero t1 h1 g1 st, parseSectionLoop_cons_zero t2 h2 g2 st,
      rfl, rfl, rfl, rfl, rfl⟩

/-- After the marker the decimal point, explicit or implied, stands at the
digit count the marker was set to. -/
theorem parseSectionLoop_marker_position (post : List Nat)
    (hpost : ∀ x ∈ post, x = 35 ∨ x = 48 ∨ x = 46)
    (hhead : post = [] ∨ ∃ rest, post = 46 :: rest) (g : Nat) (st : PictureInfo)
    (hd : st.decimalPos < 0) (hc : 0 ≤ st.digitCount) :
    (if (parseSectionLoop post (g + 1) 0 st).decimalPos < 0 then
        (parseSectionLoop post (g + 1) 0 st).digitCount
      else (parseSectionLoop post (g + 1) 0 st).decimalPos) = st.digitCount := by
  rcases hhead with h | ⟨rest, h⟩
  · subst h
    rw [parseSectionLoop_nil, if_pos hd]
  · subst h
    have hrest : ∀ x ∈ rest, x = 35 ∨ x = 48 ∨ x = 46 :=
      fun x hx => hpost x (List.mem_cons_of_mem _ hx)
    have hpl : ∀ x ∈ rest, x = 35 ∨ x = 48 ∨ x = 46 ∨ x = 44 := by
      intro x hx
      rcases hrest x hx with h | h | h
      · exact Or.inl h
      · exact Or.inr (Or.inl h)
      · exact Or.inr (Or.inr (Or.inl h))
    rw [parseSectionLoop_cons_point _ hpl, if_pos hd]
    have := (parseSectionLoop_plain_tail rest hrest g
      { st with decimalPos := st.digitCount }).2.2.2.2.1 hc
    rw [this, if_neg (by dsimp only; omega)]

/-- A run of `k` commas that follows a digit placeholder and
stands right before the decimal point, or at the end of the picture, makes the
scale adjustment `-3k`; the other locals, the grouping flag among them, are
those of the picture without the run. -/
theorem parsePicture_scaling_commas (pre post : List Nat) (d k : Nat)
    (hpre : ∀ x ∈ pre, x = 35 ∨ x = 48 ∨ x = 44) (hd : d = 35 ∨ d = 48) (hk : 1 ≤ k)
    (hk2 : k ≤ 715827882) (hpost : ∀ x ∈ post, x = 35 ∨ x = 48 ∨ x = 46)
    (hhead : post = [] ∨ ∃ rest, post = 46 :: rest) :
    (parsePicture (pre ++ d :: (List.replicate k 44 ++ post)) 0 0).scaleAdjust =
        -(3 * (k : Int)) ∧
      (parsePicture (pre ++ d :: post) 0 0).scaleAdjust = 0 ∧
      (parsePicture (pre ++ d :: (List.replicate k 44 ++ post)) 0 0).digitCount =
        (parsePicture (pre ++ d :: post) 0 0).digitCount ∧
      (parsePicture (pre ++ d :: (List.replicate k 44 ++ post)) 0 0).decimalPos =
        (parsePicture (pre ++ d :: post) 0 0).decimalPos ∧
      (parsePicture (pre ++ d :: (List.replicate k 44 ++ post)) 0 0).firstDigit =
        (parsePicture (pre ++ d :: post) 0 0).firstDigit ∧
      (parsePicture (pre ++ d :: (List.replicate k 44 ++ post)) 0 0).lastDigit =
        (parsePicture (pre ++ d :: post) 0 0).lastDigit ∧
      (parsePicture (pre ++ d :: (List.replicate k 44 ++ post)) 0 0).scientific =
        (parsePicture (pre ++ d :: post) 0 0).scientific ∧
      (parsePicture (pre ++ d :: (List.replicate k 44 ++ post)) 0 0).percent =
        (parsePicture (pre ++ d :: post) 0 0).percent ∧
      (parsePicture (pre ++ d :: (List.replicate k 44 ++ post)) 0 0).permille =
        (parsePicture (pre ++ d :: post) 0 0).permille ∧
      (parsePicture (pre ++ d :: (List.replicate k 44 ++ post)) 0 0).thousandSeps =
        (parsePicture (pre ++ d :: post) 0 0).thousandSeps := by
  have hp4 : ∀ x ∈ post, x = 35 ∨ x = 48 ∨ x = 46 ∨ x = 44 := by
    intro x hx
    rcases hpost x hx with h | h | h
    · exact Or.inl h
    · exact Or.inr (Or.inl h)
    · exact Or.inr (Or.inr (Or.inl h))
  have hrp : ∀ x ∈ List.replicate k 44 ++ post, x = 35 ∨ x = 48 ∨ x = 46 ∨ x = 44 := by
    intro x hx
    rcases List.mem_append.mp hx with hx | hx
    · exact Or.inr (Or.inr (Or.inr (List.eq_of_mem_replicate hx)))
    · exact hp4 x hx
  have hdp : ∀ (t : List Nat), (∀ x ∈ t, x = 35 ∨ x = 48 ∨ x = 46 ∨ x = 44) →
      ∀ x ∈ d :: t, x = 35 ∨ x = 48 ∨ x = 46 ∨ x = 44 := by
    intro t ht x hx
    rcases List.mem_cons.mp hx with hx | hx
    · rcases hd with h | h
      · exact Or.inl (hx.trans h)
      · exact Or.inr (Or.inl (hx.trans h))
    · exact ht x hx
  obtain ⟨sa, e1, e2, a1, a2, a3, a4, a5, a6, a7⟩ := parseSectionLoop_common_start
    (d :: (List.replicate k 44 ++ post)) (d :: post) (hdp _ hrp) (hdp _ hp4) pre
    ((k + (post.length + 1)) + 1) ((post.length + 1) + 1)
    { digitCount := 0, decimalPos := -1, firstDigit := 0x7FFFFFFF, lastDigit := 0,
      scientific := false, percent := 0, permille := 0, thousandPos := -1, thousandCount := 0,
      thousandSeps := false, scaleAdjust := 0 } hpre (by decide) (by decide) (by decide)
  dsimp only at a1 a3 a4
  obtain ⟨sb, f1, f2, b1, b2, b3, b4, b5⟩ := parseSectionLoop_cons_placeholder d hd
    (List.replicate k 44 ++ post) post hrp hp4 (k + (post.length + 1)) (post.length + 1) sa
  rw [f1] at e1
  rw [f2] at e2
  rw [parseSectionLoop_comma_run_start post hp4 k (post.length + 1) hk sb (by omega) (by omega)
    (by omega)] at e1
  have hl1 : (pre ++ d :: (List.replicate k 44 ++ post)).length + 1 =
      pre.length + ((k + (post.length + 1)) + 1) := by
    simp only [List.length_append, List.length_cons, List.length_replicate]; omega
  have hl2 : (pre ++ d :: post).length + 1 = pre.length + ((post.length + 1) + 1) := by
    simp only [List.length_append, List.length_cons]; omega
  have ht1 := parseSectionLoop_plain_tail post hpost (post.length + 1)
    { sb with
      thousandSeps := if sb.thousandPos ≥ 0 then true else sb.thousandSeps
      thousandPos := sb.digitCount
      thousandCount := k }
  have ht2 := parseSectionLoop_plain_tail post hpost (post.length + 1) sb
  have hm1 := parseSectionLoop_marker_position post hpost hhead post.length
    { sb with
      thousandSeps := if sb.thousandPos ≥ 0 then true else sb.thousandSeps
      thousandPos := sb.digitCount
      thousandCount := k } (by dsimp only; omega) (by dsimp only; omega)
  have hm2 := parseSectionLoop_marker_position post hpost hhead post.length sb (by omega)
    (by omega)
  have hag := parseSectionLoop_plain_agree post hpost (post.length + 1)
    { sb with
      thousandSeps := if sb.thousandPos ≥ 0 then true else sb.thousandSeps
      thousandPos := sb.digitCount
      thousandCount := k } sb rfl rfl rfl rfl rfl rfl rfl
  unfold parsePicture
  rw [hl1, hl2, e1, e2]
  generalize parseSectionLoop post (post.length + 1) 0
    { sb with
      thousandSeps := if sb.thousandPos ≥ 0 then true else sb.thousandSeps
      thousandPos := sb.digitCount
      thousandCount := k } = F1 at ht1 hm1 hag ⊢
  generalize parseSectionLoop post (post.length + 1) 0 sb = F2 at ht2 hm2 hag ⊢
  obtain ⟨t1, t2, t3, t4, -, -⟩ := ht1
  obtain ⟨u1, u2, u3, u4, -, -⟩ := ht2
  obtain ⟨g1, g2, g3, g4, g5, g6, g7⟩ := hag
  dsimp only at t1 t2 t3 t4 hm1
  have hw1 : wrapInt32 ((k : Int) * 3) = (k : Int) * 3 :=
    wrapInt32_of_range _ (by omega) (by omega)
  have hw : wrapInt32 (0 - wrapInt32 ((k : Int) * 3)) = -(3 * (k : Int)) := by
    rw [hw1, wrapInt32_of_range _ (by omega) (by omega)]
    ring
  obtain ⟨dc1, dp1, fd1, ld1, sc1, pc1, pm1, tp1, tc1, ts1, sj1⟩ := F1
  obtain ⟨dc2, dp2, fd2, ld2, sc2, pc2, pm2, tp2, tc2, ts2, sj2⟩ := F2
  dsimp only at *
  subst g1 g2 g3 g4 g5 g6 g7 t1 t2 t4 u1 u3 u4
  have hsb0 : sb.scaleAdjust = 0 := by omega
  have hsbd : 0 < sb.digitCount := by omega
  have hsbt : sb.thousandPos < sb.digitCount := by omega
  by_cases hneg : dp1 < 0
  · rw [if_pos hneg] at hm1
    subst hm1
    by_cases htp : sb.thousandPos ≥ 0
    · simp only [if_pos hneg, if_pos htp, if_pos (show sb.digitCount ≥ 0 by omega),
        if_neg (show ¬ sb.thousandPos = sb.digitCount by omega), if_true, hsb0, hw]
      simp [hsb0, t3, htp]
    · simp only [if_pos hneg, if_neg htp, if_pos (show sb.digitCount ≥ 0 by omega),
        if_true, hsb0, hw]
      simp [hsb0, t3, htp]
  · rw [if_neg hneg] at hm1
    subst hm1
    by_cases htp : sb.thousandPos ≥ 0
    · simp only [if_neg hneg, if_pos htp, if_pos (show sb.digitCount ≥ 0 by omega),
        if_neg (show ¬ sb.thousandPos = sb.digitCount by omega), if_true, hsb0, hw]
      simp [hsb0, t3, htp]
    · simp only [if_neg hneg, if_neg htp, if_pos (show sb.digitCount ≥ 0 by omega),
        if_true, hsb0, hw]
      simp [hsb0, t3, htp]

theorem pictureSetup_scaling_commas (number : NUMBER) (f1 f2 : List Nat) (k : Nat)
    (h1 : ∀ x ∈ f1, x = 35 ∨ x = 48 ∨ x = 46 ∨ x = 44)
    (h2 : ∀ x ∈ f2, x = 35 ∨ x = 48 ∨ x = 46 ∨ x = 44)
    (hs : -2147483648 ≤ number.scale - 3 * (k : Int) ∧ number.scale ≤ 2147483647)
    (hsa1 : (parsePicture f1 0 0).scaleAdjust = -(3 * (k : Int)))
    (hsa2 : (parsePicture f2 0 0).scaleAdjust = 0)
    (hdc : (parsePicture f1 0 0).digitCount = (parsePicture f2 0 0).digitCount)
    (hdp : (parsePicture f1 0 0).decimalPos = (parsePicture f2 0 0).decimalPos)
    (hsc : (parsePicture f1 0 0).scientific = (parsePicture f2 0 0).scientific) :
    ∃ r : NUMBER,
      pictureSetup number f1 = (0, parsePicture f1 0 0, r) ∧
      pictureSetup { number with scale := number.scale - 3 * (k : Int) } f2 =
        (0, parsePicture f2 0 0, r) := by
  have hplain : ∀ f : List Nat, (∀ x ∈ f, x = 35 ∨ x = 48 ∨ x = 46 ∨ x = 44) →
      ∀ c ∈ f, c ≠ 39 ∧ c ≠ 34 ∧ c ≠ 92 ∧ c ≠ 59 := by
    intro f hf c hc
    rcases hf c hc with h | h | h | h <;> subst h <;> decide
  have hfs1 := FindSection_plain_text f1 (hplain f1 h1)
  have hfs2 := FindSection_plain_text f2 (hplain f2 h2)
  have hE : (0 : Int) ≤ (if wcharAt number.digits 0 = 0 then 2 else if number.sign then 1 else 0) ∧
      (if wcharAt number.digits 0 = 0 then (2 : Int) else if number.sign then 1 else 0) ≤ 2 := by
    split
    · decide
    · split <;> decide
  unfold pictureSetup
  dsimp only
  rw [hfs1 _ hE, hfs2 _ hE, hfs1 2 (by decide), hfs2 2 (by decide)]
  by_cases hh : wcharAt number.digits 0 = 0
  · rw [if_neg (by rw [hh]; simp), if_neg (by rw [hh]; simp)]
    exact ⟨_, rfl, rfl⟩
  · rw [if_pos hh, if_pos hh, hsa1, hsa2, hdc, hdp, hsc]
    have hw1 : wrapInt32 (number.scale + -(3 * (k : Int))) = number.scale - 3 * (k : Int) := by
      rw [← sub_eq_add_neg]; exact wrapInt32_of_range _ (by omega) (by omega)
    have hw2 : wrapInt32 (number.scale - 3 * (k : Int) + 0) = number.scale - 3 * (k : Int) := by
      rw [add_zero]; exact wrapInt32_of_range _ (by omega) (by omega)
    rw [hw1, hw2]
    simp only [ne_eq, not_true_eq_false, if_false, ite_self]
    exact ⟨_, rfl, rfl⟩

/-- C33, counterexample: in the picture ",.0" a comma stands immediately left
of the decimal point, but no digit placeholder precedes it: the parser does not
count it, the scale adjustment is 0 and 1234567 is written "1234567.0". Had 3
been subtracted from the scale, the text would be that of ".0" for 1234.567,
"1234.6". -/
theorem leading_comma_does_not_scale :
    (parsePicture [44, 46, 48] 0 0).scaleAdjust = 0 ∧
      NumberToStringFormat ⟨10, 7, false, [49, 50, 51, 52, 53, 54, 55]⟩ [44, 46, 48]
          ⟨[3], [3], [3], [43], [45], [46], [44], [44], [46], [36], [44], [46], [37],
            [0x2030], [78, 97, 78], [73], [45, 73], 2, 2, 2, 1, 0, 0, 1, 1⟩ =
        .ok [49, 50, 51, 52, 53, 54, 55, 46, 48] ∧
      NumberToStringFormat ⟨10, 4, false, [49, 50, 51, 52, 53, 54, 55]⟩ [46, 48]
          ⟨[3], [3], [3], [43], [45], [46], [44], [44], [46], [36], [44], [46], [37],
            [0x2030], [78, 97, 78], [73], [45, 73], 2, 2, 2, 1, 0, 0, 1, 1⟩ =
        .ok [49, 50, 51, 52, 46, 54] := by
  refine ⟨by decide, by decide, by decide⟩

/-- The whole text for a picture of placeholders and commas: in a picture of
digit placeholders, commas and decimal points, let a run of `k >= 1` commas
follow a digit placeholder and stand
immediately left of the first decimal point, or at the end of the picture when
it has none. Then the parser sets the scale adjustment to `-3k`, the run leaves
the grouping flag as the picture without the run has it, and, unless the call
raises the out-of-memory exception, the text is the one the picture without the
run gives for the number with `3k` subtracted from its scale, which is the
number divided by `1000^k`. -/
theorem NumberToStringFormat_scaling_commas (number : NUMBER) (numfmt : NumberFormatInfo)
    (pre post : List Nat) (d k : Nat)
    (hpre : ∀ x ∈ pre, x = 35 ∨ x = 48 ∨ x = 44) (hd : d = 35 ∨ d = 48) (hk : 1 ≤ k)
    (hk2 : k ≤ 715827882) (hpost : ∀ x ∈ post, x = 35 ∨ x = 48 ∨ x = 46)
    (hhead : post = [] ∨ ∃ rest, post = 46 :: rest)
    (hs : -2147483648 ≤ number.scale - 3 * (k : Int) ∧ number.scale ≤ 2147483647)
    (hoom : NumberToStringFormat number (pre ++ d :: (List.replicate k 44 ++ post)) numfmt ≠
      .error FormatError.outOfMemory) :
    (parsePicture (pre ++ d :: (List.replicate k 44 ++ post)) 0 0).scaleAdjust =
        -(3 * (k : Int)) ∧
      (parsePicture (pre ++ d :: (List.replicate k 44 ++ post)) 0 0).thousandSeps =
        (parsePicture (pre ++ d :: post) 0 0).thousandSeps ∧
      NumberToStringFormat number (pre ++ d :: (List.replicate k 44 ++ post)) numfmt =
        NumberToStringFormat { number with scale := number.scale - 3 * (k : Int) }
          (pre ++ d :: post) numfmt := by
  obtain ⟨p1, p2, p3, p4, p5, p6, p7, p8, p9, p10⟩ :=
    parsePicture_scaling_commas pre post d k hpre hd hk hk2 hpost hhead
  refine ⟨p1, p10, ?_⟩
  have hp4 : ∀ x ∈ post, x = 35 ∨ x = 48 ∨ x = 46 ∨ x = 44 := by
    intro x hx
    rcases hpost x hx with h | h | h
    · exact Or.inl h
    · exact Or.inr (Or.inl h)
    · exact Or.inr (Or.inr (Or.inl h))
  have hf1 : ∀ x ∈ pre ++ d :: (List.replicate k 44 ++ post),
      x = 35 ∨ x = 48 ∨ x = 46 ∨ x = 44 := by
    intro x hx
    simp only [List.mem_append, List.mem_cons] at hx
    rcases hx with hx | hx | hx | hx
    · rcases hpre x hx with h | h | h
      · exact Or.inl h
      · exact Or.inr (Or.inl h)
      · exact Or.inr (Or.inr (Or.inr h))
    · rcases hd with h | h
      · exact Or.inl (hx.trans h)
      · exact Or.inr (Or.inl (hx.trans h))
    · exact Or.inr (Or.inr (Or.inr (List.eq_of_mem_replicate hx)))
    · exact hp4 x hx
  have hf2 : ∀ x ∈ pre ++ d :: post, x = 35 ∨ x = 48 ∨ x = 46 ∨ x = 44 := by
    intro x hx
    apply hf1
    simp only [List.mem_append, List.mem_cons] at hx ⊢
    tauto
  obtain ⟨r, hr1, hr2⟩ := pictureSetup_scaling_commas number _ _ k hf1 hf2 hs p1 p2 p3 p4 p7
  have hfil : ((pre ++ d :: (List.replicate k 44 ++ post)).drop 0).filter (fun c => c != 44) =
      ((pre ++ d :: post).drop 0).filter (fun c => c != 44) := by
    simp [List.filter_append, List.filter_cons, List.filter_replicate]
  have hlen : (pre ++ d :: post).length ≤ (pre ++ d :: (List.replicate k 44 ++ post)).length := by
    simp only [List.length_append, List.length_cons, List.length_replicate]; omega
  generalize pre ++ d :: (List.replicate k 44 ++ post) = pic1 at *
  generalize pre ++ d :: post = pic2 at *
  unfold NumberToStringFormat at hoom ⊢
  rw [hr1] at hoom ⊢
  rw [hr2]
  generalize parsePicture pic1 0 0 = info1 at *
  generalize parsePicture pic2 0 0 = info2 at *
  obtain ⟨dc1, dp1, fd1, ld1, sc1, pc1, pm1, tp1, tc1, ts1, sj1⟩ := info1
  obtain ⟨dc2, dp2, fd2, ld2, sc2, pc2, pm2, tp2, tc2, ts2, sj2⟩ := info2
  dsimp only at p1 p2 p3 p4 p5 p6 p7 p8 p9 p10
  subst p1 p2 p3 p4 p5 p6 p7 p8 p9 p10
  dsimp only at hoom ⊢
  revert hoom
  split
  · intro h; exact absurd rfl h
  · rename_i sp seps hsp
    intro hoom
    have hl : (pic2.length : Int) ≤ (pic1.length : Int) := by exact_mod_cast hlen
    by_cases hc1 : (pic1.length : Int) +
        (((((if r.sign = true then (numfmt.sNegative.length : Int)
              else (numfmt.sPositive.length : Int)) +
            (numfmt.sNumberDecimal.length : Int) +
          if sc1 = true then
            if numfmt.sPositive.length > numfmt.sNegative.length then
              (numfmt.sPositive.length : Int)
            else (numfmt.sNegative.length : Int)
          else 0) +
          if pc1 ≠ 0 then (numfmt.sPercent.length : Int) * pc1 else 0) +
          if pm1 ≠ 0 then (numfmt.sPerMille.length : Int) * pm1 else 0) +
          ((if (if sc1 = true then 0 else wrapInt32 (r.scale - dp1)) > 0 then
              if sc1 = true then 0 else wrapInt32 (r.scale - dp1)
            else 0) +
            (seps.length : Int) * (numfmt.sNumberGroup.length : Int))) + 10 > 2147483647
    · rw [if_pos hc1] at hoom
      exact absurd rfl hoom
    · have key : ∀ M : Int, ¬ ((pic1.length : Int) + M + 10 > 2147483647) →
          ¬ ((pic2.length : Int) + M + 10 > 2147483647) := fun M h1 h2 => h1 (by omega)
      rw [if_neg hc1, if_neg (key _ hc1)]
      congr 1
      exact pictureLoop_ignores_commas r numfmt
        ⟨dc1, dp1, fd1, ld1, sc1, pc1, pm1, tp1, tc1, ts1, -(3 * (k : Int))⟩
        ⟨dc1, dp1, fd1, ld1, sc1, pc1, pm1, tp2, tc2, ts1, 0⟩ rfl rfl _ _ _
        (pic1.length + pic2.length)
        pic1 pic2 0 0 (pic1.length + 1) (pic2.length + 1)
        { src := 0
          dst := if r.sign = true ∧ 0 = 0 then numfmt.sNegative else []
          dig := r.digits
          digPos := if sc1 = true then dp1 else if r.scale > dp1 then r.scale else dp1
          adjust := if sc1 = true then 0 else wrapInt32 (r.scale - dp1)
          seps := seps
          scientific := sc1
          decimalWritten := false }
        (by omega) hf1 hf2 hfil (by omega) (by omega)

theorem NumberToStringFormat_scaling_commas_witness :
    (parsePicture ([35, 44, 35, 35] ++ 48 :: (List.replicate 1 44 ++ [46, 48])) 0 0).scaleAdjust =
        -(3 * ((1 : Nat) : Int)) ∧
      NumberToStringFormat ⟨10, 7, false, [49, 50, 51, 52, 53, 54, 55]⟩
          ([35, 44, 35, 35] ++ 48 :: (List.replicate 1 44 ++ [46, 48]))
          ⟨[3], [3], [3], [43], [45], [46], [44], [44], [46], [36], [44], [46], [37],
            [0x2030], [78, 97, 78], [73], [45, 73], 2, 2, 2, 1, 0, 0, 1, 1⟩ =
        .ok [49, 44, 50, 51, 52, 46, 54] :=
  have h := NumberToStringFormat_scaling_commas ⟨10, 7, false, [49, 50, 51, 52, 53, 54, 55]⟩
    ⟨[3], [3], [3], [43], [45], [46], [44], [44], [46], [36], [44], [46], [37],
      [0x2030], [78, 97, 78], [73], [45, 73], 2, 2, 2, 1, 0, 0, 1, 1⟩
    [35, 44, 35, 35] [46, 48] 48 1 (by decide) (by decide) (by decide) (by decide) (by decide)
    (Or.inr ⟨[48], rfl⟩) (by decide) (by decide)
  ⟨h.1, h.2.2.trans (by decide)⟩

/-! ## Percent format with any group sizes -/

/-- A buffer without integer digits has no separator position. -/
theorem separatorPositions_nonpos (gd : List Int) (hg : ∀ g ∈ gd, 0 ≤ g ∧ g ≤ 2147483647)
    (n : Int) (hn : n ≤ 0) (fuel : Nat) :
    separatorPositions gd n fuel 0 (tableAt gd 0) = [] := by
  cases fuel with
  | zero => rfl
  | succ fuel =>
    have h0 := (tableAt_range gd hg ((0 : Nat) : Int)).1
    simp only [Nat.cast_zero] at h0
    unfold separatorPositions
    rw [if_neg]
    intro h
    omega

/-- The layout of `FormatFixed` with a group-size array: the integer digits
with the separators at the positions of the array, then, iff `d > 0`, the
decimal separator and `d` fractional digits. -/
theorem FormatFixed_separated_fraction (buffer : List Nat) (r : NUMBER) (d : Int)
    (gd : List Int) (sDecimal S : List Nat) (G : Int) (hg : ∀ g ∈ gd, 0 ≤ g ∧ g ≤ G)
    (hG : r.scale + G ≤ 2147483647) (hG0 : 0 ≤ G) (hG1 : G ≤ 2147483647)
    (hB : r.scale + (r.scale - 1) * (S.length : Int) ≤ 2147483647)
    (hsl : S.length ≤ 2147483647) (hr0 : ∀ c ∈ r.digits, c ≠ 0) :
    FormatFixed buffer r d (some gd) sDecimal S =
      .ok (buffer ++ separated S
        (separatorPositions gd r.scale (r.scale.toNat + 3) 0 (tableAt gd 0))
        (fixedInteger r) ++
        (if d > 0 then sDecimal ++ fixedFraction r d.toNat else [])) := by
  have hg2 : ∀ g ∈ gd, 0 ≤ g ∧ g ≤ 2147483647 := by
    intro g hm
    have := hg g hm
    omega
  by_cases hpos : 0 < r.scale
  · have hok := formatFixedGrouped_ok buffer r gd S G hg hpos hG hB hsl
    have hl := fixedInteger_length r
    rw [if_pos hpos] at hl
    have hlz : ((fixedInteger r).length : Int) = r.scale := by rw [hl]; omega
    have hsz : ∃ c' b', (if gd.length ≠ 0 then
          groupSizeLoop gd r.scale (S.length : Int) (gd.length + r.scale.toNat + 2) 0
            (tableAt gd 0) r.scale
        else .ok (tableAt gd 0, r.scale)) = .ok (c', b') := by
      cases hs : (if gd.length ≠ 0 then
          groupSizeLoop gd r.scale (S.length : Int) (gd.length + r.scale.toNat + 2) 0
            (tableAt gd 0) r.scale
        else .ok (tableAt gd 0, r.scale)) with
      | error e =>
        exfalso
        apply hok e
        unfold formatFixedGrouped
        dsimp only
        rw [hs]
      | ok cb => exact ⟨cb.1, cb.2, rfl⟩
    obtain ⟨c', b', hsz⟩ := hsz
    have hsep := formatFixedGrouped_separated buffer r (fixedInteger r) gd S hg2 hsl hlz.symm
      (by intro h; rw [h] at hl; simp at hl; omega) (by omega) hr0
      (fun j hj => fixedInteger_wcharAt r hpos j hj) c' b' hsz
    rw [hlz, hl] at hsep
    have hdrop : r.digits.drop (min r.scale.toNat r.digits.length) =
        r.digits.drop r.scale.toNat := by
      by_cases hle : r.scale.toNat ≤ r.digits.length
      · rw [Nat.min_eq_left hle]
      · rw [Nat.min_eq_right (by omega), List.drop_length,
          List.drop_eq_nil_of_le (by omega)]
    have hz : (-r.scale).toNat = 0 := by omega
    unfold FormatFixed
    dsimp only
    rw [if_pos hpos, hsep, hdrop]
    dsimp only
    unfold fixedFraction
    simp only [hz, Nat.zero_min, List.replicate_zero, List.append_nil, Nat.sub_zero,
      List.nil_append]
    by_cases hd : d > 0
    · rw [if_pos hd, if_pos hd, copyDigits_eq _ _ _ (ne_zero_of_mem_drop hr0 _)]
      simp [List.append_assoc]
    · rw [if_neg hd, if_neg hd]
      simp
  · have hI : fixedInteger r = [48] := by
      unfold fixedInteger
      rw [if_neg hpos]
    have h := FormatFixed_none_eq buffer r d sDecimal S hr0
    rw [hI] at h
    have hs1 : separated S [] [48] = [48] := rfl
    rw [hI, separatorPositions_nonpos gd hg2 r.scale (by omega), hs1, ← h]
    have : ¬ (r.scale > 0) := hpos
    unfold FormatFixed
    simp only [this, if_false]

/-- With one integer digit no separator is sized or written: the separator
string is not read. -/
theorem FormatFixed_one_digit (buffer : List Nat) (r : NUMBER) (d : Int) (gd : List Int)
    (sDecimal S : List Nat) (hg : ∀ g ∈ gd, 0 ≤ g ∧ g ≤ 2147483647) (hle : r.scale ≤ 1) :
    FormatFixed buffer r d (some gd) sDecimal S =
      FormatFixed buffer r d (some gd) sDecimal [] := by
  by_cases h1 : ¬ r.scale = 1
  · have hn : ¬ (r.scale > 0) := by omega
    unfold FormatFixed
    simp only [hn, if_false]
  rw [not_not] at h1
  have h0 := (tableAt_range gd hg ((0 : Nat) : Int)).1
  simp only [Nat.cast_zero] at h0
  have hsize : ∀ sl : Int, groupSizeLoop gd 1 sl (gd.length + (1 : Int).toNat + 2) 0
      (tableAt gd 0) 1 = .ok (tableAt gd 0, 1) := by
    intro sl
    have e : gd.length + (1 : Int).toNat + 2 = (gd.length + 2) + 1 := by
      have : (1 : Int).toNat = 1 := rfl
      omega
    rw [e]
    unfold groupSizeLoop
    by_cases hc : (1 : Int) > tableAt gd 0
    · have hz : tableAt gd 0 = 0 := by omega
      have hz2 : tableAt gd ((0 : Nat) : Int) = 0 := by simpa using hz
      rw [if_pos hc, if_pos hz2]
    · rw [if_neg hc]
  have hwrite : ∀ (T : List Nat) (gs : Int),
      groupWriteLoop gd r.digits (min (1 : Int).toNat (cstr r.digits).length) T
        (1 : Int).toNat [] 0 gs 0 =
      [if 0 < min (1 : Int).toNat (cstr r.digits).length then wcharAt r.digits 0 else 48] := by
    intro T gs
    have : (1 : Int).toNat = 0 + 1 := rfl
    rw [this]
    unfold groupWriteLoop
    by_cases hgs : gs > 0
    · rw [if_pos hgs, if_neg (by intro h; exact h.2 rfl)]
      unfold groupWriteLoop
      rfl
    · rw [if_neg hgs]
      unfold groupWriteLoop
      rfl
  unfold FormatFixed formatFixedGrouped
  simp only [h1, hsize, hwrite]

theorem separatedBefore_length_le (S : List Nat) (P : List Int) (ds : List Nat) :
    (separatedBefore S P ds).length ≤ ds.length + ds.length * S.length := by
  induction ds with
  | nil => simp [separatedBefore]
  | cons c cs ih =>
    unfold separatedBefore
    rw [List.length_append, List.length_cons, List.length_cons, Nat.add_mul, Nat.one_mul]
    split
    · omega
    · simp only [List.length_nil]
      omega

theorem separated_length_le (S : List Nat) (P : List Int) (ds : List Nat) :
    (separated S P ds).length ≤ ds.length + (ds.length - 1) * S.length := by
  cases ds with
  | nil => simp [separated]
  | cons c cs =>
    unfold separated
    have := separatedBefore_length_le S P cs
    simp only [List.length_cons, Nat.add_sub_cancel]
    omega

/-- C14: on a buffer of decimal digits and for a precision `d` (at most the 99
that a format specifier can carry), with any array of group sizes (empty, with
a zero, with several sizes; the sizes non-negative and at most `2^30`, which
keeps the sizing loop inside `int`) and template indices inside their tables,
the Percent format adds 2 to `scale`, rounds at `scale + 2 + d` digits and
fills the percent template selected by the sign of the rounded buffer with the
rendered result: its integer digits with the group separators at the
positions the sizes give and, iff `d > 0`, the decimal separator and exactly
`d` fractional digits; the numeral denotes 100 times the input magnitude
rounded half-up to `d` decimal places. -/
theorem NumberToString_percent_grouped (number : NUMBER) (format d : Nat)
    (numfmt : NumberFormatInfo) (bDecimal : Bool) (hfmt : format = 80 ∨ format = 112)
    (hdec : IsDecimal number.digits) (hd : d ≤ 99)
    (hscale : -2147483648 ≤ number.scale ∧ number.scale + 2 + (d : Int) < 1073741823)
    (hgrp : ∀ g ∈ numfmt.cPercentGroup, 0 ≤ g ∧ g ≤ 1073741824)
    (hpos : 0 ≤ numfmt.cPositivePercentFormat ∧ numfmt.cPositivePercentFormat < 4)
    (hneg : 0 ≤ numfmt.cNegativePercentFormat ∧ numfmt.cNegativePercentFormat < 12)
    (hlen : 105 + (if number.scale + 2 < 0 then 0 else number.scale + 2 + (d : Int)) +
      (numfmt.sNegative.length : Int) +
      (numfmt.sPercentGroup.length : Int) *
        (if number.scale + 2 < 0 then 0 else number.scale + 2 + (d : Int)) +
      (numfmt.sPercentDecimal.length : Int) + (numfmt.sPercent.length : Int) ≤ 2147483647) :
    NumberToString number format d numfmt bDecimal =
        .ok (fillPercentTemplate
          (separated numfmt.sPercentGroup
              (separatorPositions numfmt.cPercentGroup
                (RoundNumber { number with scale := number.scale + 2 }
                  (number.scale + 2 + d)).scale
                ((RoundNumber { number with scale := number.scale + 2 }
                  (number.scale + 2 + d)).scale.toNat + 3) 0
                (tableAt numfmt.cPercentGroup 0))
              (fixedInteger (RoundNumber { number with scale := number.scale + 2 }
                (number.scale + 2 + d))) ++
            (if 0 < d then
              numfmt.sPercentDecimal ++
                fixedFraction (RoundNumber { number with scale := number.scale + 2 }
                  (number.scale + 2 + d)) d
             else []))
          numfmt.sNegative numfmt.sPercent
          (if (RoundNumber { number with scale := number.scale + 2 }
              (number.scale + 2 + d)).sign then
            templateAt negPercentFormats numfmt.cNegativePercentFormat
           else templateAt posPercentFormats numfmt.cPositivePercentFormat)) ∧
      (fixedFraction (RoundNumber { number with scale := number.scale + 2 }
        (number.scale + 2 + d)) d).length = d ∧
      fixedPointValue
          (fixedInteger (RoundNumber { number with scale := number.scale + 2 }
            (number.scale + 2 + d)))
          (fixedFraction (RoundNumber { number with scale := number.scale + 2 }
            (number.scale + 2 + d)) d) =
        roundHalfUp (number.magnitude * 100) d := by
  have hfits := RoundNumber_fits { number with scale := number.scale + 2 } d hdec
    ⟨by show -2147483648 ≤ number.scale + 2; omega,
     by show number.scale + 2 < 2147483647; omega⟩
  have hhalf := RoundNumber_roundHalfUp { number with scale := number.scale + 2 } d hdec
    ⟨by show -2147483648 ≤ number.scale + 2; omega,
     by show number.scale + 2 < 2147483647; omega⟩
  rw [magnitude_scale_add_two] at hhalf
  have hsc : ({ number with scale := number.scale + 2 } : NUMBER).scale = number.scale + 2 := rfl
  rw [hsc] at hfits hhalf
  generalize hr : RoundNumber { number with scale := number.scale + 2 }
    (number.scale + 2 + d) = r at hfits hhalf ⊢
  obtain ⟨hrdec, hrlen, hrsc⟩ := hfits
  refine ⟨?_, fixedFraction_length _ _, ?_⟩
  swap
  · rw [fixedPointValue_eq_magnitude _ _ hrlen, hhalf]
  have hbudget := percent_budget number.scale r.scale d 1 numfmt.sPercentGroup.length
    numfmt.sNegative.length numfmt.sPercentDecimal.length numfmt.sPercent.length
    (fixedInteger r).length (fixedInteger_length r)
    (by rcases hrsc with h | h | h <;> omega) hd hlen
  rw [Nat.div_one] at hbudget
  have hgrp2 : ∀ g ∈ numfmt.cPercentGroup, 0 ≤ g ∧ g ≤ 2147483647 := by
    intro g hm
    have := hgrp g hm
    omega
  have hIl := fixedInteger_length r
  have hfixed : ∀ buffer, FormatFixed buffer r d (some numfmt.cPercentGroup)
      numfmt.sPercentDecimal numfmt.sPercentGroup =
      .ok (buffer ++ (separated numfmt.sPercentGroup
          (separatorPositions numfmt.cPercentGroup r.scale (r.scale.toNat + 3) 0
            (tableAt numfmt.cPercentGroup 0)) (fixedInteger r) ++
        (if 0 < d then numfmt.sPercentDecimal ++ fixedFraction r d else []))) := by
    intro buffer
    have hd0 : ((d : Int) > 0) ↔ 0 < d := by omega
    by_cases hsl : numfmt.sPercentGroup.length ≤ 2147483647
    · rw [FormatFixed_separated_fraction buffer r d numfmt.cPercentGroup _ _ 1073741824 hgrp
        (by rcases hrsc with h | h | h <;> omega) (by decide) (by decide)
        (by
          have h1 := hbudget.1
          by_cases hp : 0 < r.scale
          · rw [hIl, if_pos hp] at h1
            have e1 : ((r.scale.toNat : Nat) : Int) = r.scale := Int.toNat_of_nonneg (by omega)
            have e2 : (((r.scale.toNat - 1 : Nat)) : Int) = r.scale - 1 := by omega
            have h2 : ((r.scale.toNat + (r.scale.toNat - 1) * numfmt.sPercentGroup.length : Nat) :
                Int) ≤ 2147483647 := by exact_mod_cast h1
            rw [Nat.cast_add, Nat.cast_mul, e1, e2] at h2
            exact h2
          · have : (r.scale - 1) * (numfmt.sPercentGroup.length : Int) ≤ 0 :=
              mul_nonpos_of_nonpos_of_nonneg (by omega) (Int.natCast_nonneg _)
            omega)
        hsl hrdec.ne_zero]
      simp only [hd0, Int.toNat_ofNat, List.append_assoc]
    · -- a separator too long for the budget leaves room for one integer digit only
      have hD : (if number.scale + 2 < 0 then (0 : Int)
          else number.scale + 2 + (d : Int)) = 0 := by
        by_contra hne
        have hD1 : (1 : Int) ≤ (if number.scale + 2 < 0 then 0
            else number.scale + 2 + (d : Int)) := by
          by_cases hc : number.scale + 2 < 0
          · rw [if_pos hc] at hne; exact absurd rfl hne
          · rw [if_neg hc] at hne ⊢; omega
        have hmul : (numfmt.sPercentGroup.length : Int) * 1 ≤
            (numfmt.sPercentGroup.length : Int) *
              (if number.scale + 2 < 0 then 0 else number.scale + 2 + (d : Int)) :=
          mul_le_mul_of_nonneg_left hD1 (Int.natCast_nonneg _)
        generalize (numfmt.sPercentGroup.length : Int) *
          (if number.scale + 2 < 0 then 0 else number.scale + 2 + (d : Int)) = M at hmul hlen
        generalize (if number.scale + 2 < 0 then (0 : Int)
          else number.scale + 2 + (d : Int)) = D at hD1 hlen
        omega
      have hle : r.scale ≤ 1 := by
        split at hD <;> rcases hrsc with h | h | h <;> omega
      have hlen1 : (fixedInteger r).length = 1 := by
        rw [hIl]
        split <;> omega
      rw [FormatFixed_one_digit buffer r d numfmt.cPercentGroup _ _ hgrp2 hle,
        FormatFixed_separated_fraction buffer r d numfmt.cPercentGroup _ [] 1073741824 hgrp
          (by omega) (by decide) (by decide) (by simp; omega) (by simp) hrdec.ne_zero]
      obtain ⟨c, hc⟩ := List.length_eq_one.mp hlen1
      rw [hc]
      simp only [hd0, Int.toNat_ofNat, List.append_assoc, separated, separatedBefore]
  have hft : format &&& 0xFFDF = 80 := by
    rcases hfmt with h | h <;> subst h <;> decide
  have heff : effectiveDigits number format d numfmt bDecimal = d := by
    unfold effectiveDigits
    simp [hft]
  have hw2 : wrapInt32 (number.scale + 2) = number.scale + 2 :=
    wrapInt32_of_range _ (by omega) (by omega)
  have hw : wrapInt32 (number.scale + 2 + (d : Int)) = number.scale + 2 + d :=
    wrapInt32_of_range _ (by omega) (by omega)
  have hbuf : NumberToStringBufferLen number format d numfmt bDecimal =
      MIN_BUFFER_SIZE + (if number.scale + 2 < 0 then 0 else number.scale + 2 + (d : Int)) +
        (numfmt.sNegative.length : Int) +
        (numfmt.sPercentGroup.length : Int) *
          (if number.scale + 2 < 0 then 0 else number.scale + 2 + (d : Int)) +
        (numfmt.sPercentDecimal.length : Int) + (numfmt.sPercent.length : Int) := by
    unfold NumberToStringBufferLen
    simp [hft, heff, hw, hw2]
  have hrnd : NumberToStringRounded number format d numfmt bDecimal = r := by
    unfold NumberToStringRounded
    simp [hft, heff, hw, hw2, hr]
  unfold NumberToString
  simp only [hft, hbuf, heff, hrnd]
  have hguard : ¬ (MIN_BUFFER_SIZE +
      (if number.scale + 2 < 0 then 0 else number.scale + 2 + (d : Int)) +
      (numfmt.sNegative.length : Int) +
      (numfmt.sPercentGroup.length : Int) *
        (if number.scale + 2 < 0 then 0 else number.scale + 2 + (d : Int)) +
      (numfmt.sPercentDecimal.length : Int) + (numfmt.sPercent.length : Int) > INT32_MAX) := by
    unfold MIN_BUFFER_SIZE INT32_MAX
    exact not_lt.mpr hlen
  have hne1 : ¬ ((80 : Nat) = 67) := by decide
  have hne2 : ¬ ((80 : Nat) = 70) := by decide
  have hne3 : ¬ ((80 : Nat) = 78) := by decide
  have hne4 : ¬ ((80 : Nat) = 69) := by decide
  have hne5 : ¬ ((80 : Nat) = 71) := by decide
  simp only [hguard, if_false, hne1, hne2, hne3, hne4, hne5, or_true, if_true, FormatPercent,
    FormatPercentLoop_eq r d numfmt _ hfixed, List.nil_append]
  rw [if_pos]
  generalize hN : separated numfmt.sPercentGroup
      (separatorPositions numfmt.cPercentGroup r.scale (r.scale.toNat + 3) 0
        (tableAt numfmt.cPercentGroup 0)) (fixedInteger r) ++
      (if 0 < d then numfmt.sPercentDecimal ++ fixedFraction r d else []) = numeral at hfixed ⊢
  have htl : (fillPercentTemplate numeral numfmt.sNegative numfmt.sPercent
      (if r.sign = true then templateAt negPercentFormats numfmt.cNegativePercentFormat
       else templateAt posPercentFormats numfmt.cPositivePercentFormat)).length ≤
      numeral.length + numfmt.sNegative.length + numfmt.sPercent.length + 1 := by
    by_cases hsg : r.sign = true
    · rw [if_pos hsg]
      unfold templateAt
      rw [if_neg (not_lt.mpr hneg.1)]
      exact negPercentTemplate_length _ _ _ numfmt.cNegativePercentFormat.toNat (by omega)
    · rw [if_neg hsg]
      unfold templateAt
      rw [if_neg (not_lt.mpr hpos.1)]
      exact posPercentTemplate_length _ _ _ numfmt.cPositivePercentFormat.toNat (by omega)
  have hnl : numeral.length ≤
      (fixedInteger r).length + ((fixedInteger r).length - 1) * numfmt.sPercentGroup.length +
        (numfmt.sPercentDecimal.length + d) := by
    rw [← hN, List.length_append]
    have := separated_length_le numfmt.sPercentGroup
      (separatorPositions numfmt.cPercentGroup r.scale (r.scale.toNat + 3) 0
        (tableAt numfmt.cPercentGroup 0)) (fixedInteger r)
    split
    · simp only [List.length_append, fixedFraction_length]
      omega
    · simp only [List.length_nil]
      omega
  have hb2 := hbudget.2
  unfold MIN_BUFFER_SIZE
  refine le_trans (Nat.cast_le.mpr (le_trans htl ?_)) hb2
  clear * - hnl
  omega

/-- Witness for `NumberToString_percent_grouped`: `0.125` with one fractional
digit, decimal separator `.` and the positive template `#%` is `12.5%`. -/
theorem NumberToString_percent_grouped_witness :
    NumberToString ⟨15, 0, false, [49, 50, 53]⟩ 80 1
        ⟨[3], [3], [3], [43], [45], [46], [44], [44], [46], [36], [44], [46], [37],
          [0x2030], [78, 97, 78], [73], [45, 73], 2, 2, 2, 1, 0, 0, 1, 1⟩ false =
      .ok [49, 50, 46, 53, 37] :=
  (NumberToString_percent_grouped ⟨15, 0, false, [49, 50, 53]⟩ 80 1
    ⟨[3], [3], [3], [43], [45], [46], [44], [44], [46], [36], [44], [46], [37],
      [0x2030], [78, 97, 78], [73], [45, 73], 2, 2, 2, 1, 0, 0, 1, 1⟩ false
    (Or.inl rfl) (by decide) (by decide) (by decide) (by decide) (by decide) (by decide)
    (by decide)).1.trans
    (congrArg Except.ok (by decide!))

/-- The value `12345.678` in format `P1` under the percent group sizes `{}`,
`{0}`, `{3, 2}` and `{3, 0}`: `1234567.8%`, `1234567.8%`, `12,34,567.8%` and
`1234,567.8%`. -/
theorem NumberToString_percent_group_arrays :
    NumberToString ⟨15, 5, false, [49, 50, 51, 52, 53, 54, 55, 56]⟩ 80 1
        ⟨[3], [3], [], [43], [45], [46], [44], [44], [46], [36], [44], [46], [37],
          [0x2030], [78, 97, 78], [73], [45, 73], 2, 2, 2, 1, 0, 0, 1, 1⟩ false =
        .ok [49, 50, 51, 52, 53, 54, 55, 46, 56, 37] ∧
      NumberToString ⟨15, 5, false, [49, 50, 51, 52, 53, 54, 55, 56]⟩ 80 1
        ⟨[3], [3], [0], [43], [45], [46], [44], [44], [46], [36], [44], [46], [37],
          [0x2030], [78, 97, 78], [73], [45, 73], 2, 2, 2, 1, 0, 0, 1, 1⟩ false =
        .ok [49, 50, 51, 52, 53, 54, 55, 46, 56, 37] ∧
      NumberToString ⟨15, 5, false, [49, 50, 51, 52, 53, 54, 55, 56]⟩ 80 1
        ⟨[3], [3], [3, 2], [43], [45], [46], [44], [44], [46], [36], [44], [46], [37],
          [0x2030], [78, 97, 78], [73], [45, 73], 2, 2, 2, 1, 0, 0, 1, 1⟩ false =
        .ok [49, 50, 44, 51, 52, 44, 53, 54, 55, 46, 56, 37] ∧
      NumberToString ⟨15, 5, false, [49, 50, 51, 52, 53, 54, 55, 56]⟩ 80 1
        ⟨[3], [3], [3, 0], [43], [45], [46], [44], [44], [46], [36], [44], [46], [37],
          [0x2030], [78, 97, 78], [73], [45, 73], 2, 2, 2, 1, 0, 0, 1, 1⟩ false =
        .ok [49, 50, 51, 52, 44, 53, 54, 55, 46, 56, 37] := by
  refine ⟨by decide, by decide, by decide, by decide⟩

/-! ## The two passes of `NumberToStringFormat`, token by token -/

theorem wcharAt_drop (s : List Nat) (k i : Nat) : wcharAt (s.drop k) i = wcharAt s (k + i) := by
  unfold wcharAt
  simp [List.getD_eq_getElem?_getD, List.getElem?_drop]

theorem wcharAt_of_drop (format : List Nat) (s : Nat) (L : List Nat) (h : format.drop s = L)
    (i : Nat) : wcharAt format (s + i) = wcharAt L i := by
  rw [← h, wcharAt_drop]

theorem drop_of_drop (format : List Nat) (s : Nat) (a b : List Nat)
    (h : format.drop s = a ++ b) : format.drop (s + a.length) = b := by
  rw [← List.drop_drop, h, List.drop_left]

theorem lt_length_of_drop (format : List Nat) (s : Nat) (c : Nat) (rest : List Nat)
    (h : format.drop s = c :: rest) : s < format.length := by
  by_contra hc
  rw [List.drop_eq_nil_of_le (by omega)] at h
  cases h

theorem length_of_drop (format : List Nat) (s : Nat) (L : List Nat) (h : format.drop s = L)
    (hs : s ≤ format.length) : format.length = s + L.length := by
  rw [← h, List.length_drop]
  omega

theorem takeWhile_append_stop (p : Nat → Bool) (a b : List Nat) (ha : ∀ c ∈ a, p c = true)
    (hb : b = [] ∨ ∃ c rest, b = c :: rest ∧ p c = false) : (a ++ b).takeWhile p = a := by
  induction a with
  | nil =>
    rcases hb with hb | ⟨c, rest, hb, hp⟩
    · subst hb; rfl
    · subst hb; simp [List.takeWhile, hp]
  | cons x xs ih =>
    have hx := ha x (List.mem_cons_self _ _)
    rw [List.cons_append, List.takeWhile_cons, if_pos hx,
      ih (fun c hc => ha c (List.mem_cons_of_mem _ hc))]

theorem skipQuoted_ge (format : List Nat) (ch src : Nat) : src ≤ skipQuoted format ch src := by
  unfold skipQuoted
  dsimp only
  split <;> omega

theorem skipZeros_ge (format : List Nat) (src : Nat) : src ≤ skipZeros format src := by
  unfold skipZeros
  omega

/-- One iteration of the first loop: it stops at the end of the section, and
otherwise goes on from a later offset. -/
theorem parseSectionLoop_step (format : List Nat) (src : Nat) (st : PictureInfo) :
    ∃ (src2 : Nat) (st2 : PictureInfo), src + 1 ≤ src2 ∧
      ∀ fuel, parseSectionLoop format (fuel + 1) src st =
        if wcharAt format src = 0 ∨ wcharAt format src = 59 then st
        else parseSectionLoop format fuel src2 st2 := by
  have hq := skipQuoted_ge format (wcharAt format src) (src + 1)
  have hz := skipZeros_ge format (src + 2)
  by_cases c1 : wcharAt format src = 0 ∨ wcharAt format src = 59
  · refine ⟨src + 1, st, le_refl _, fun fuel => ?_⟩
    rw [parseSectionLoop]
    try dsimp only
    rw [if_pos c1, if_pos c1]
  by_cases c2 : wcharAt format src = 35
  · refine ⟨src + 1, { st with digitCount := st.digitCount + 1 }, le_refl _, fun fuel => ?_⟩
    rw [parseSectionLoop]
    try dsimp only
    rw [if_neg c1, if_pos c2, if_neg c1]
  by_cases c3 : wcharAt format src = 48
  · refine ⟨src + 1,
      { st with
        firstDigit := if st.firstDigit = 0x7FFFFFFF then st.digitCount else st.firstDigit
        digitCount := st.digitCount + 1
        lastDigit := st.digitCount + 1 }, le_refl _, fun fuel => ?_⟩
    rw [parseSectionLoop]
    try dsimp only
    rw [if_neg c1, if_neg c2, if_pos c3, if_neg c1]
  by_cases c4 : wcharAt format src = 46
  · refine ⟨src + 1,
      (if st.decimalPos < 0 then { st with decimalPos := st.digitCount } else st),
      le_refl _, fun fuel => ?_⟩
    rw [parseSectionLoop]
    try dsimp only
    rw [if_neg c1, if_neg c2, if_neg c3, if_pos c4, if_neg c1]
  by_cases c5 : wcharAt format src = 44
  · refine ⟨src + 1,
      (if st.digitCount > 0 ∧ st.decimalPos < 0 then
        (if st.thousandPos ≥ 0 ∧ st.thousandPos = st.digitCount then
          { st with thousandCount := st.thousandCount + 1 }
         else
          { st with
            thousandSeps := if st.thousandPos ≥ 0 then true else st.thousandSeps
            thousandPos := st.digitCount
            thousandCount := 1 })
       else st), le_refl _, fun fuel => ?_⟩
    rw [parseSectionLoop]
    try dsimp only
    rw [if_neg c1, if_neg c2, if_neg c3, if_neg c4, if_pos c5, if_neg c1]
  by_cases c6 : wcharAt format src = 37
  · refine ⟨src + 1,
      { st with percent := st.percent + 1, scaleAdjust := wrapInt32 (st.scaleAdjust + 2) },
      le_refl _, fun fuel => ?_⟩
    rw [parseSectionLoop]
    try dsimp only
    rw [if_neg c1, if_neg c2, if_neg c3, if_neg c4, if_neg c5, if_pos c6, if_neg c1]
  by_cases c7 : wcharAt format src = 0x2030
  · refine ⟨src + 1,
      { st with permille := st.permille + 1, scaleAdjust := wrapInt32 (st.scaleAdjust + 3) },
      le_refl _, fun fuel => ?_⟩
    rw [parseSectionLoop]
    try dsimp only
    rw [if_neg c1, if_neg c2, if_neg c3, if_neg c4, if_neg c5, if_neg c6, if_pos c7, if_neg c1]
  by_cases c8 : wcharAt format src = 39 ∨ wcharAt format src = 34
  · refine ⟨skipQuoted format (wcharAt format src) (src + 1), st, hq, fun fuel => ?_⟩
    rw [parseSectionLoop]
    try dsimp only
    rw [if_neg c1, if_neg c2, if_neg c3, if_neg c4, if_neg c5, if_neg c6, if_neg c7, if_pos c8,
      if_neg c1]
  by_cases c9 : wcharAt format src = 92
  · refine ⟨if wcharAt format (src + 1) ≠ 0 then src + 2 else src + 1, st,
      by split <;> omega, fun fuel => ?_⟩
    rw [parseSectionLoop]
    try dsimp only
    rw [if_neg c1, if_neg c2, if_neg c3, if_neg c4, if_neg c5, if_neg c6, if_neg c7, if_neg c8,
      if_pos c9, if_neg c1]
  by_cases c10 : wcharAt format src = 69 ∨ wcharAt format src = 101
  · by_cases cm : wcharAt format (src + 1) = 48 ∨
        ((wcharAt format (src + 1) = 43 ∨ wcharAt format (src + 1) = 45) ∧
          wcharAt format (src + 2) = 48)
    · refine ⟨skipZeros format (src + 2), { st with scientific := true }, by omega,
        fun fuel => ?_⟩
      rw [parseSectionLoop]
      try dsimp only
      rw [if_neg c1, if_neg c2, if_neg c3, if_neg c4, if_neg c5, if_neg c6, if_neg c7,
        if_neg c8, if_neg c9, if_pos c10, if_pos cm, if_neg c1]
    · refine ⟨src + 1, st, le_refl _, fun fuel => ?_⟩
      rw [parseSectionLoop]
      try dsimp only
      rw [if_neg c1, if_neg c2, if_neg c3, if_neg c4, if_neg c5, if_neg c6, if_neg c7,
        if_neg c8, if_neg c9, if_pos c10, if_neg cm, if_neg c1]
  · refine ⟨src + 1, st, le_refl _, fun fuel => ?_⟩
    rw [parseSectionLoop]
    try dsimp only
    rw [if_neg c1, if_neg c2, if_neg c3, if_neg c4, if_neg c5, if_neg c6, if_neg c7,
      if_neg c8, if_neg c9, if_neg c10, if_neg c1]

/-- The first loop does not depend on the bound of its iterations once the
bound covers the rest of the string. -/
theorem parseSectionLoop_fuel (format : List Nat) (f1 : Nat) :
    ∀ (f2 src : Nat) (st : PictureInfo), format.length < src + f1 → format.length < src + f2 →
      parseSectionLoop format f1 src st = parseSectionLoop format f2 src st := by
  induction f1 with
  | zero =>
    intro f2 src st h1 _
    have h0 : wcharAt format src = 0 := wcharAt_of_length_le _ (by omega)
    cases f2 with
    | zero => rfl
    | succ m =>
      obtain ⟨src2, st2, -, hstep⟩ := parseSectionLoop_step format src st
      rw [hstep, if_pos (Or.inl h0)]
      rfl
  | succ n ih =>
    intro f2 src st h1 h2
    obtain ⟨src2, st2, hge, hstep⟩ := parseSectionLoop_step format src st
    cases f2 with
    | zero =>
      have h0 : wcharAt format src = 0 := wcharAt_of_length_le _ (by omega)
      rw [hstep, if_pos (Or.inl h0)]
      rfl
    | succ m =>
      rw [hstep, hstep]
      split
      · rfl
      · apply ih <;> omega

theorem pictureStep_src_ge (number : NUMBER) (format : List Nat) (numfmt : NumberFormatInfo)
    (info : PictureInfo) (firstDigit lastDigit : Int) (thousandSeps : Bool) (ch : Nat)
    (st : PictureState) :
    st.src ≤ (pictureStep number format numfmt info firstDigit lastDigit thousandSeps ch
      st).src := by
  have hq := skipQuoted_ge format ch st.src
  have hz1 := skipZeros_ge format (st.src + 1)
  have hz0 := skipZeros_ge format st.src
  unfold pictureStep
  dsimp only
  by_cases h1 : ch = 35 ∨ ch = 48
  · rw [if_pos h1]
  rw [if_neg h1]
  by_cases h2 : ch = 46
  · rw [if_pos h2]
    split
    · exact le_refl _
    · split <;> exact le_refl _
  rw [if_neg h2]
  by_cases h3 : ch = 0x2030
  · rw [if_pos h3]
  rw [if_neg h3]
  by_cases h4 : ch = 37
  · rw [if_pos h4]
  rw [if_neg h4]
  by_cases h5 : ch = 44
  · rw [if_pos h5]
  rw [if_neg h5]
  by_cases h6 : ch = 39 ∨ ch = 34
  · rw [if_pos h6]
    exact hq
  rw [if_neg h6]
  by_cases h7 : ch = 92
  · rw [if_pos h7]
    split
    · exact Nat.le_succ _
    · exact le_refl _
  rw [if_neg h7]
  by_cases h8 : ch = 69 ∨ ch = 101
  · rw [if_pos h8]
    unfold pictureExponent
    dsimp only
    split
    · split
      · show st.src ≤ skipZeros format (st.src + 1)
        omega
      · exact le_refl _
    · have hz2 := skipZeros_ge format
        (if decide (wcharAt format st.src = 43 ∨ wcharAt format st.src = 45) = true
          then st.src + 1 else st.src)
      show st.src ≤ skipZeros format
        (if decide (wcharAt format st.src = 43 ∨ wcharAt format st.src = 45) = true
          then st.src + 1 else st.src)
      refine le_trans ?_ hz2
      split <;> omega
  · rw [if_neg h8]

/-- The output loop does not depend on the bound of its iterations once the
bound covers the rest of the string. -/
theorem pictureLoop_fuel (number : NUMBER) (format : List Nat) (numfmt : NumberFormatInfo)
    (info : PictureInfo) (firstDigit lastDigit : Int) (thousandSeps : Bool) (f1 : Nat) :
    ∀ (f2 : Nat) (st : PictureState), format.length < st.src + f1 →
      format.length < st.src + f2 →
      pictureLoop number format numfmt info firstDigit lastDigit thousandSeps f1 st =
        pictureLoop number format numfmt info firstDigit lastDigit thousandSeps f2 st := by
  induction f1 with
  | zero =>
    intro f2 st h1 _
    have h0 : wcharAt format st.src = 0 := wcharAt_of_length_le _ (by omega)
    cases f2 with
    | zero => rfl
    | succ m =>
      unfold pictureLoop
      simp [h0]
  | succ n ih =>
    intro f2 st h1 h2
    cases f2 with
    | zero =>
      have h0 : wcharAt format st.src = 0 := wcharAt_of_length_le _ (by omega)
      unfold pictureLoop
      simp [h0]
    | succ m =>
      unfold pictureLoop
      dsimp only
      by_cases hend : wcharAt format st.src = 0 ∨ wcharAt format st.src = 59
      · rw [if_pos hend, if_pos hend]
      · rw [if_neg hend, if_neg hend]
        have hge := pictureStep_src_ge number format numfmt info firstDigit lastDigit
          thousandSeps (wcharAt format st.src)
          (if st.adjust > 0 ∧ (wcharAt format st.src = 35 ∨ wcharAt format st.src = 48 ∨
              wcharAt format st.src = 46) then
            emitOverflowDigits numfmt thousandSeps st.adjust.toNat { st with src := st.src + 1 }
           else { st with src := st.src + 1 })
        have hsrc : (if st.adjust > 0 ∧ (wcharAt format st.src = 35 ∨
              wcharAt format st.src = 48 ∨ wcharAt format st.src = 46) then
            emitOverflowDigits numfmt thousandSeps st.adjust.toNat { st with src := st.src + 1 }
           else { st with src := st.src + 1 }).src = st.src + 1 := by
          split
          · rw [emitOverflowDigits_src]
          · rfl
        rw [hsrc] at hge
        apply ih <;> omega

theorem skipQuoted_closed (format : List Nat) (q p : Nat) (body rest : List Nat)
    (h : format.drop p = body ++ q :: rest) (hq : q ≠ 0) (hb : ∀ c ∈ body, c ≠ 0 ∧ c ≠ q) :
    skipQuoted format q p = p + body.length + 1 ∧
      (format.drop p).takeWhile (fun c => c != 0 && c != q) = body := by
  have ht : (format.drop p).takeWhile (fun c => c != 0 && c != q) = body := by
    rw [h]
    apply takeWhile_append_stop
    · intro c hc
      have := hb c hc
      simp [this.1, this.2]
    · exact Or.inr ⟨q, rest, rfl, by simp⟩
  refine ⟨?_, ht⟩
  unfold skipQuoted
  dsimp only
  rw [ht]
  have hw : wcharAt format (p + body.length) = q := by
    rw [wcharAt_of_drop format p _ h, ← Nat.zero_add body.length,
      show 0 + body.length = body.length + 0 by omega, wcharAt_append_right]
    rfl
  rw [hw, if_neg hq]

theorem skipQuoted_open (format : List Nat) (q p : Nat) (body next : List Nat)
    (h : format.drop p = body ++ next) (hb : ∀ c ∈ body, c ≠ 0 ∧ c ≠ q)
    (hn : wcharAt next 0 = 0) :
    skipQuoted format q p = p + body.length ∧
      (format.drop p).takeWhile (fun c => c != 0 && c != q) = body := by
  have ht : (format.drop p).takeWhile (fun c => c != 0 && c != q) = body := by
    rw [h]
    apply takeWhile_append_stop
    · intro c hc
      have := hb c hc
      simp [this.1, this.2]
    · cases next with
      | nil => exact Or.inl rfl
      | cons c rest =>
        have hc : c = 0 := hn
        exact Or.inr ⟨c, rest, rfl, by simp [hc]⟩
  refine ⟨?_, ht⟩
  unfold skipQuoted
  dsimp only
  rw [ht]
  have hw : wcharAt format (p + body.length) = 0 := by
    rw [wcharAt_of_drop format p _ h, show body.length = body.length + 0 by omega,
      wcharAt_append_right]
    exact hn
  rw [hw, if_pos rfl]

theorem skipZeros_run (format : List Nat) (p k : Nat) (next : List Nat)
    (h : format.drop p = List.replicate k 48 ++ next) (hn : wcharAt next 0 ≠ 48) :
    skipZeros format p = p + k := by
  unfold skipZeros
  rw [h, takeWhile_append_stop]
  · simp
  · intro c hc
    rw [List.eq_of_mem_replicate hc]
    rfl
  · cases next with
    | nil => exact Or.inl rfl
    | cons c rest =>
      have hc : c ≠ 48 := hn
      exact Or.inr ⟨c, rest, rfl, by simp [hc]⟩

theorem parseSectionLoop_at_end (format : List Nat) (fuel src : Nat) (st : PictureInfo)
    (h : wcharAt format src = 0 ∨ wcharAt format src = 59) :
    parseSectionLoop format fuel src st = st := by
  cases fuel with
  | zero => rfl
  | succ f =>
    obtain ⟨_, _, -, hstep⟩ := parseSectionLoop_step format src st
    rw [hstep, if_pos h]

/-- The first loop on a plain code unit: its case of the `switch`. -/
theorem parseSectionLoop_plain (format : List Nat) (fuel src : Nat) (st : PictureInfo) (c : Nat)
    (hc : wcharAt format src = c)
    (hp : c ≠ 0 ∧ c ≠ 59 ∧ c ≠ 39 ∧ c ≠ 34 ∧ c ≠ 92 ∧ c ≠ 69 ∧ c ≠ 101) :
    parseSectionLoop format (fuel + 1) src st =
      parseSectionLoop format fuel (src + 1) (parseSectionLoop [c] 1 0 st) := by
  obtain ⟨h0, h59, h39, h34, h92, h69, h101⟩ := hp
  have h1 : wcharAt [c] 0 = c := rfl
  have c1 : ¬ (c = 0 ∨ c = 59) := by omega
  have c8 : ¬ (c = 39 ∨ c = 34) := by omega
  have c10 : ¬ (c = 69 ∨ c = 101) := by omega
  rw [parseSectionLoop, parseSectionLoop]
  simp only [hc, h1, c1, c8, c10, h92, if_false, parseSectionLoop]
  split_ifs <;> rfl

theorem parseSectionLoop_fuel_at (format : List Nat) (f1 f2 src1 src2 : Nat)
    (st : PictureInfo) (he : src1 = src2) (h1 : format.length < src1 + f1)
    (h2 : format.length < src1 + f2) :
    parseSectionLoop format f1 src1 st = parseSectionLoop format f2 src2 st := by
  subst he
  exact parseSectionLoop_fuel format f1 f2 src1 st h1 h2

theorem wcharAt_cons_zero (c : Nat) (cs : List Nat) : wcharAt (c :: cs) 0 = c := rfl

theorem wcharAt_cons_one (c d : Nat) (cs : List Nat) : wcharAt (c :: d :: cs) 1 = d := rfl

/-- The first loop on one token. -/
theorem parseSectionLoop_token (format : List Nat) (s : Nat) (t : PictureToken)
    (next : List Nat) (hs : format.drop s = t.text ++ next) (hwf : t.WellFormed next)
    (st : PictureInfo) (fuel : Nat) (hf : format.length < s + fuel) :
    parseSectionLoop format fuel s st =
      parseSectionLoop format fuel (s + t.text.length) (parseToken t st) := by
  have hr : ∀ i, wcharAt format (s + i) = wcharAt (t.text ++ next) i :=
    wcharAt_of_drop format s _ hs
  have hr0 : wcharAt format s = wcharAt (t.text ++ next) 0 := hr 0
  have hlt : s < format.length := by
    cases t <;> exact lt_length_of_drop format s _ _ (by rw [hs]; rfl)
  have hlen := length_of_drop format s _ hs (le_of_lt hlt)
  rw [List.length_append] at hlen
  obtain ⟨f, rfl⟩ : ∃ f, fuel = f + 1 := ⟨fuel - 1, by omega⟩
  cases t with
  | plain c =>
    have hc : wcharAt format s = c := hr0
    rw [parseSectionLoop_plain format f s st c hc hwf]
    exact parseSectionLoop_fuel format f (f + 1) _ _
      (by have := lt_length_of_drop format s _ _ hs; omega) (by omega)
  | quoted q body =>
    obtain ⟨hq, hb⟩ := hwf
    have hc : wcharAt format s = q := hr0
    have hq0 : q ≠ 0 := by omega
    have hd : format.drop (s + 1) = body ++ q :: next := by
      have := drop_of_drop format s [q] (body ++ [q] ++ next) (by
        rw [hs]; simp [PictureToken.text])
      simpa using this
    obtain ⟨hsk, -⟩ := skipQuoted_closed format q (s + 1) body next hd hq0 hb
    have c1 : ¬ (q = 0 ∨ q = 59) := by omega
    have c2 : ¬ q = 35 := by omega
    have c3 : ¬ q = 48 := by omega
    have c4 : ¬ q = 46 := by omega
    have c5 : ¬ q = 44 := by omega
    have c6 : ¬ q = 37 := by omega
    have c7 : ¬ q = 0x2030 := by omega
    have c8 : q = 39 ∨ q = 34 := hq
    rw [parseSectionLoop]
    simp only [hc, c1, c2, c3, c4, c5, c6, c7, c8, if_false, if_true, hsk]
    have hl : (PictureToken.quoted q body).text.length = 1 + body.length + 1 := by
      simp [PictureToken.text]; omega
    rw [hl, show s + (1 + body.length + 1) = s + 1 + body.length + 1 by omega]
    exact parseSectionLoop_fuel format f (f + 1) _ _
      (by
        have := length_of_drop format s _ hs
          (le_of_lt (lt_length_of_drop format s _ _ (by rw [hs]; rfl)))
        rw [List.length_append, hl] at this
        omega) (by omega)
  | openQuote q body =>
    obtain ⟨hq, hb, hn⟩ := hwf
    have hc : wcharAt format s = q := hr0
    have hd : format.drop (s + 1) = body ++ next := by
      have := drop_of_drop format s [q] (body ++ next) (by
        rw [hs]; simp [PictureToken.text])
      simpa using this
    obtain ⟨hsk, -⟩ := skipQuoted_open format q (s + 1) body next hd hb hn
    have c1 : ¬ (q = 0 ∨ q = 59) := by omega
    have c2 : ¬ q = 35 := by omega
    have c3 : ¬ q = 48 := by omega
    have c4 : ¬ q = 46 := by omega
    have c5 : ¬ q = 44 := by omega
    have c6 : ¬ q = 37 := by omega
    have c7 : ¬ q = 0x2030 := by omega
    have c8 : q = 39 ∨ q = 34 := hq
    rw [parseSectionLoop]
    simp only [hc, c1, c2, c3, c4, c5, c6, c7, c8, if_false, if_true, hsk]
    have hl : (PictureToken.openQuote q body).text.length = 1 + body.length := by
      simp [PictureToken.text]; omega
    rw [hl, show s + (1 + body.length) = s + 1 + body.length by omega]
    exact parseSectionLoop_fuel format f (f + 1) _ _
      (by
        have := length_of_drop format s _ hs
          (le_of_lt (lt_length_of_drop format s _ _ (by rw [hs]; rfl)))
        rw [List.length_append, hl] at this
        omega) (by omega)
  | escaped c =>
    have hc0 : c ≠ 0 := hwf
    have hc : wcharAt format s = 92 := hr0
    have hc1 : wcharAt format (s + 1) = c := hr 1
    rw [parseSectionLoop]
    simp only [hc, hc1, hc0, ne_eq, not_false_eq_true, if_true, if_false, Nat.reduceEqDiff,
      false_or, or_self]
    have hlen := length_of_drop format s _ hs
      (le_of_lt (lt_length_of_drop format s _ _ (by rw [hs]; rfl)))
    simp only [PictureToken.text, List.length_append, List.length_cons, List.length_nil] at hlen
    exact parseSectionLoop_fuel format f (f + 1) _ _ (by omega) (by omega)
  | backslash =>
    have hn : wcharAt next 0 = 0 := hwf
    have hc : wcharAt format s = 92 := hr0
    have hc1 : wcharAt format (s + 1) = 0 := by
      rw [hr 1]
      cases next with
      | nil => rfl
      | cons x xs => exact hn
    rw [parseSectionLoop]
    simp only [hc, hc1, ne_eq, not_true_eq_false, if_true, if_false, Nat.reduceEqDiff,
      false_or, or_self]
    exact parseSectionLoop_fuel format f (f + 1) _ _
      (by have := lt_length_of_drop format s _ _ (by rw [hs]; rfl); omega) (by omega)
  | exponent ch sign zeros =>
    obtain ⟨hch, hsg, hn48, hn⟩ := hwf
    have hc : wcharAt format s = ch := hr0
    have c1 : ¬ (ch = 0 ∨ ch = 59) := by omega
    have c2 : ¬ ch = 35 := by omega
    have c3 : ¬ ch = 48 := by omega
    have c4 : ¬ ch = 46 := by omega
    have c5 : ¬ ch = 44 := by omega
    have c6 : ¬ ch = 37 := by omega
    have c7 : ¬ ch = 0x2030 := by omega
    have c8 : ¬ (ch = 39 ∨ ch = 34) := by omega
    have c9 : ¬ ch = 92 := by omega
    have hstep : ∀ g, parseSectionLoop format (g + 1) s st =
        if wcharAt format (s + 1) = 48 ∨
            ((wcharAt format (s + 1) = 43 ∨ wcharAt format (s + 1) = 45) ∧
              wcharAt format (s + 2) = 48) then
          parseSectionLoop format g (skipZeros format (s + 2)) { st with scientific := true }
        else parseSectionLoop format g (s + 1) st := by
      intro g
      rw [parseSectionLoop]
      simp only [hc, c1, c2, c3, c4, c5, c6, c7, c8, c9, hch, if_false, if_true]
    simp only [PictureToken.text, List.length_cons, List.length_append,
      List.length_replicate] at hlen ⊢
    rcases hsg with rfl | rfl | rfl
    · cases zeros with
      | zero =>
        have h1 : wcharAt format (s + 1) = wcharAt next 0 := by
          rw [hr 1]; rfl
        have hnn := hn rfl rfl
        have hm : ¬ (wcharAt format (s + 1) = 48 ∨
            ((wcharAt format (s + 1) = 43 ∨ wcharAt format (s + 1) = 45) ∧
              wcharAt format (s + 2) = 48)) := by
          rw [h1]
          rintro (h | ⟨h | h, -⟩)
          · exact hn48 h
          · exact hnn.1 h
          · exact hnn.2 h
        rw [hstep, if_neg hm]
        simp only [parseToken, List.length_nil, List.replicate_zero, Nat.add_zero,
          show ¬ (1 ≤ 0) by decide, if_false]
        exact parseSectionLoop_fuel format f (f + 1) _ _ (by omega) (by omega)
      | succ k =>
        have h1 : wcharAt format (s + 1) = 48 := by
          rw [hr 1]; rfl
        have hd : format.drop (s + 2) = List.replicate k 48 ++ next := by
          have := drop_of_drop format s [ch, 48] (List.replicate k 48 ++ next) (by
            rw [hs]; simp [PictureToken.text, List.replicate_succ])
          simpa using this
        have hz := skipZeros_run format (s + 2) k next hd hn48
        rw [hstep, if_pos (Or.inl h1), hz]
        simp only [parseToken, List.length_nil, Nat.zero_add,
          show 1 ≤ k + 1 by omega, if_true]
        refine parseSectionLoop_fuel_at format f (f + 1) _ _ _ ?_ ?_ ?_
        · omega
        · simp at hlen; omega
        · simp at hlen; omega
    · cases zeros with
      | zero =>
        have h1 : wcharAt format (s + 1) = 43 := by
          rw [hr 1]; rfl
        have h2 : wcharAt format (s + 2) = wcharAt next 0 := by
          rw [hr 2]; rfl
        have hm : ¬ (wcharAt format (s + 1) = 48 ∨
            ((wcharAt format (s + 1) = 43 ∨ wcharAt format (s + 1) = 45) ∧
              wcharAt format (s + 2) = 48)) := by
          rw [h1, h2]
          rintro (h | ⟨-, h⟩)
          · exact absurd h (by decide)
          · exact hn48 h
        simp at hlen
        obtain ⟨g, rfl⟩ : ∃ g, f = g + 1 := ⟨f - 1, by omega⟩
        rw [hstep, if_neg hm,
          parseSectionLoop_plain format g (s + 1) st 43 h1 (by decide)]
        have hp : parseSectionLoop [43] 1 0 st = st := by
          simp [parseSectionLoop, wcharAt]
        rw [hp]
        simp only [parseToken, List.length_cons, List.length_nil, List.replicate_zero,
          show ¬ (1 ≤ 0) by decide, if_false]
        exact parseSectionLoop_fuel format g (g + 1 + 1) _ _ (by omega) (by omega)
      | succ k =>
        have h1 : wcharAt format (s + 1) = 43 := by
          rw [hr 1]; rfl
        have h2 : wcharAt format (s + 2) = 48 := by
          rw [hr 2]; rfl
        have hd : format.drop (s + 2) = List.replicate (k + 1) 48 ++ next := by
          have := drop_of_drop format s [ch, 43] (List.replicate (k + 1) 48 ++ next) (by
            rw [hs]; simp [PictureToken.text])
          simpa using this
        have hz := skipZeros_run format (s + 2) (k + 1) next hd hn48
        rw [hstep, if_pos (Or.inr ⟨Or.inl h1, h2⟩), hz]
        simp only [parseToken, List.length_cons, List.length_nil,
          show 1 ≤ k + 1 by omega, if_true]
        refine parseSectionLoop_fuel_at format f (f + 1) _ _ _ ?_ ?_ ?_
        · omega
        · simp at hlen; omega
        · simp at hlen; omega
    · cases zeros with
      | zero =>
        have h1 : wcharAt format (s + 1) = 45 := by
          rw [hr 1]; rfl
        have h2 : wcharAt format (s + 2) = wcharAt next 0 := by
          rw [hr 2]; rfl
        have hm : ¬ (wcharAt format (s + 1) = 48 ∨
            ((wcharAt format (s + 1) = 43 ∨ wcharAt format (s + 1) = 45) ∧
              wcharAt format (s + 2) = 48)) := by
          rw [h1, h2]
          rintro (h | ⟨-, h⟩)
          · exact absurd h (by decide)
          · exact hn48 h
        simp at hlen
        obtain ⟨g, rfl⟩ : ∃ g, f = g + 1 := ⟨f - 1, by omega⟩
        rw [hstep, if_neg hm,
          parseSectionLoop_plain format g (s + 1) st 45 h1 (by decide)]
        have hp : parseSectionLoop [45] 1 0 st = st := by
          simp [parseSectionLoop, wcharAt]
        rw [hp]
        simp only [parseToken, List.length_cons, List.length_nil, List.replicate_zero,
          show ¬ (1 ≤ 0) by decide, if_false]
        exact parseSectionLoop_fuel format g (g + 1 + 1) _ _ (by omega) (by omega)
      | succ k =>
        have h1 : wcharAt format (s + 1) = 45 := by
          rw [hr 1]; rfl
        have h2 : wcharAt format (s + 2) = 48 := by
          rw [hr 2]; rfl
        have hd : format.drop (s + 2) = List.replicate (k + 1) 48 ++ next := by
          have := drop_of_drop format s [ch, 45] (List.replicate (k + 1) 48 ++ next) (by
            rw [hs]; simp [PictureToken.text])
          simpa using this
        have hz := skipZeros_run format (s + 2) (k + 1) next hd hn48
        rw [hstep, if_pos (Or.inr ⟨Or.inr h1, h2⟩), hz]
        simp only [parseToken, List.length_cons, List.length_nil,
          show 1 ≤ k + 1 by omega, if_true]
        refine parseSectionLoop_fuel_at format f (f + 1) _ _ _ ?_ ?_ ?_
        · omega
        · simp at hlen; omega
        · simp at hlen; omega

/-- The first loop on a sequence of tokens. -/
theorem parseSectionLoop_tokens (format : List Nat) (toks : List PictureToken) :
    ∀ (s : Nat) (next : List Nat) (st : PictureInfo) (fuel : Nat),
      format.drop s = tokensText toks ++ next → TokensWellFormed toks next →
      format.length < s + fuel →
      parseSectionLoop format fuel s st =
        parseSectionLoop format fuel (s + (tokensText toks).length) (parseTokens toks st) := by
  induction toks with
  | nil => intro s next st fuel _ _ _; rfl
  | cons t ts ih =>
    intro s next st fuel hs hwf hf
    have hs2 : format.drop s = t.text ++ (tokensText ts ++ next) := by
      rw [hs, tokensText, List.append_assoc]
    rw [parseSectionLoop_token format s t _ hs2 hwf.1 st fuel hf,
      ih (s + t.text.length) next (parseToken t st) fuel
        (drop_of_drop format s _ _ hs2) hwf.2 (by omega)]
    simp only [tokensText, parseTokens, List.length_append, Nat.add_assoc]

/-- The first loop on a section given by its tokens: it has the effect of the
tokens, one after the other. -/
theorem parseSectionLoop_section (format : List Nat) (toks : List PictureToken) (s : Nat)
    (tail : List Nat) (st : PictureInfo) (hs : format.drop s = tokensText toks ++ tail)
    (hwf : TokensWellFormed toks tail) (ht : wcharAt tail 0 = 0 ∨ wcharAt tail 0 = 59) :
    parseSectionLoop format (format.length + 1) s st = parseTokens toks st := by
  rw [parseSectionLoop_tokens format toks s tail st _ hs hwf (by omega)]
  apply parseSectionLoop_at_end
  have := wcharAt_of_drop format s _ hs (tokensText toks).length
  rw [show (tokensText toks).length = (tokensText toks).length + 0 by omega,
    wcharAt_append_right] at this
  rw [Nat.add_zero] at this
  rw [this]
  exact ht

/-- On a plain code unit the `switch` of the output loop reads neither the
format string nor the read offset. -/
theorem pictureStep_char (number : NUMBER) (format : List Nat) (numfmt : NumberFormatInfo)
    (info : PictureInfo) (fd ld : Int) (ts : Bool) (c : Nat)
    (hp : c ≠ 39 ∧ c ≠ 34 ∧ c ≠ 92 ∧ c ≠ 69 ∧ c ≠ 101) (st : PictureState) (a : Nat) :
    pictureStep number format numfmt info fd ld ts c { st with src := a } =
      { pictureStep number [] numfmt info fd ld ts c st with src := a } := by
  obtain ⟨h39, h34, h92, h69, h101⟩ := hp
  have h6 : ¬ (c = 39 ∨ c = 34) := by omega
  have h8 : ¬ (c = 69 ∨ c = 101) := by omega
  unfold pictureStep
  dsimp only
  by_cases h1 : c = 35 ∨ c = 48
  · rw [if_pos h1, if_pos h1]
  rw [if_neg h1, if_neg h1]
  by_cases h2 : c = 46
  · rw [if_pos h2, if_pos h2]
    split
    · rfl
    · split <;> rfl
  rw [if_neg h2, if_neg h2]
  by_cases h3 : c = 0x2030
  · rw [if_pos h3, if_pos h3]
  rw [if_neg h3, if_neg h3]
  by_cases h4 : c = 37
  · rw [if_pos h4, if_pos h4]
  rw [if_neg h4, if_neg h4]
  by_cases h5 : c = 44
  · rw [if_pos h5, if_pos h5]
  rw [if_neg h5, if_neg h5, if_neg h6, if_neg h6, if_neg h92, if_neg h92, if_neg h8, if_neg h8]

theorem pictureStep_quote (number : NUMBER) (format : List Nat) (numfmt : NumberFormatInfo)
    (info : PictureInfo) (fd ld : Int) (ts : Bool) (q : Nat) (hq : q = 39 ∨ q = 34)
    (st : PictureState) :
    pictureStep number format numfmt info fd ld ts q st =
      { st with
        src := skipQuoted format q st.src
        dst := st.dst ++ (format.drop st.src).takeWhile (fun c => c != 0 && c != q) } := by
  have n1 : ¬ (q = 35 ∨ q = 48) := by omega
  have n2 : ¬ q = 46 := by omega
  have n3 : ¬ q = 0x2030 := by omega
  have n4 : ¬ q = 37 := by omega
  have n5 : ¬ q = 44 := by omega
  unfold pictureStep
  rw [if_neg n1, if_neg n2, if_neg n3, if_neg n4, if_neg n5, if_pos hq]

theorem pictureStep_backslash (number : NUMBER) (format : List Nat) (numfmt : NumberFormatInfo)
    (info : PictureInfo) (fd ld : Int) (ts : Bool) (st : PictureState) :
    pictureStep number format numfmt info fd ld ts 92 st =
      if wcharAt format st.src ≠ 0 then
        { st with src := st.src + 1, dst := st.dst ++ [wcharAt format st.src] }
      else st := by
  have n1 : ¬ ((92 : Nat) = 35 ∨ (92 : Nat) = 48) := by decide
  have n6 : ¬ ((92 : Nat) = 39 ∨ (92 : Nat) = 34) := by decide
  unfold pictureStep
  rw [if_neg n1, if_neg (show ¬ (92 : Nat) = 46 by decide),
    if_neg (show ¬ (92 : Nat) = 0x2030 by decide), if_neg (show ¬ (92 : Nat) = 37 by decide),
    if_neg (show ¬ (92 : Nat) = 44 by decide), if_neg n6, if_pos rfl]

theorem pictureStep_exponent (number : NUMBER) (format : List Nat) (numfmt : NumberFormatInfo)
    (info : PictureInfo) (fd ld : Int) (ts : Bool) (ch : Nat) (hch : ch = 69 ∨ ch = 101)
    (st : PictureState) :
    pictureStep number format numfmt info fd ld ts ch st =
      pictureExponent number format numfmt info ch st := by
  have n1 : ¬ (ch = 35 ∨ ch = 48) := by omega
  have n2 : ¬ ch = 46 := by omega
  have n3 : ¬ ch = 0x2030 := by omega
  have n4 : ¬ ch = 37 := by omega
  have n5 : ¬ ch = 44 := by omega
  have n6 : ¬ (ch = 39 ∨ ch = 34) := by omega
  have n7 : ¬ ch = 92 := by omega
  unfold pictureStep
  rw [if_neg n1, if_neg n2, if_neg n3, if_neg n4, if_neg n5, if_neg n6, if_neg n7, if_pos hch]

theorem pictureStep_literal (number : NUMBER) (format : List Nat) (numfmt : NumberFormatInfo)
    (info : PictureInfo) (fd ld : Int) (ts : Bool) (c : Nat)
    (hc : c ≠ 35 ∧ c ≠ 48 ∧ c ≠ 46 ∧ c ≠ 0x2030 ∧ c ≠ 37 ∧ c ≠ 44 ∧ c ≠ 39 ∧ c ≠ 34 ∧
      c ≠ 92 ∧ c ≠ 69 ∧ c ≠ 101)
    (st : PictureState) :
    pictureStep number format numfmt info fd ld ts c st = { st with dst := st.dst ++ [c] } := by
  obtain ⟨c35, c48, c46, cpm, c37, c44, c39, c34, c92, c69, c101⟩ := hc
  have n1 : ¬ (c = 35 ∨ c = 48) := by omega
  have n6 : ¬ (c = 39 ∨ c = 34) := by omega
  have n8 : ¬ (c = 69 ∨ c = 101) := by omega
  unfold pictureStep
  rw [if_neg n1, if_neg c46, if_neg cpm, if_neg c37, if_neg c44, if_neg n6, if_neg c92,
    if_neg n8]

theorem pictureLoop_fuel_at (number : NUMBER) (format : List Nat) (numfmt : NumberFormatInfo)
    (info : PictureInfo) (fd ld : Int) (ts : Bool) (f1 f2 : Nat) (st1 st2 : PictureState)
    (a : Nat) (he : st1 = st2) (ha : st2.src = a) (h1 : format.length < a + f1)
    (h2 : format.length < a + f2) :
    pictureLoop number format numfmt info fd ld ts f1 st1 =
      pictureLoop number format numfmt info fd ld ts f2 st2 := by
  subst he
  subst ha
  exact pictureLoop_fuel number format numfmt info fd ld ts f1 f2 st1 h1 h2

/-- One iteration of the output loop, on a code unit that does not end the
section. -/
theorem pictureLoop_succ (number : NUMBER) (format : List Nat) (numfmt : NumberFormatInfo)
    (info : PictureInfo) (fd ld : Int) (ts : Bool) (fuel : Nat) (st : PictureState) (c : Nat)
    (hc : wcharAt format st.src = c) (h0 : c ≠ 0) (h59 : c ≠ 59) :
    pictureLoop number format numfmt info fd ld ts (fuel + 1) st =
      pictureLoop number format numfmt info fd ld ts fuel
        (pictureStep number format numfmt info fd ld ts c
          (if st.adjust > 0 ∧ (c = 35 ∨ c = 48 ∨ c = 46) then
            emitOverflowDigits numfmt ts st.adjust.toNat { st with src := st.src + 1 }
           else { st with src := st.src + 1 })) := by
  rw [pictureLoop]
  dsimp only
  rw [hc, if_neg (by omega)]

/-- The output loop on one token. -/
theorem pictureLoop_token (number : NUMBER) (format : List Nat) (numfmt : NumberFormatInfo)
    (info : PictureInfo) (fd ld : Int) (ts : Bool) (t : PictureToken) (next : List Nat)
    (st : PictureState) (hs : format.drop st.src = t.text ++ next) (hwf : t.WellFormed next)
    (fuel : Nat) (hf : format.length < st.src + fuel) :
    pictureLoop number format numfmt info fd ld ts fuel st =
      pictureLoop number format numfmt info fd ld ts fuel
        { renderToken number numfmt info fd ld ts t st with src := st.src + t.text.length } := by
  have hr : ∀ i, wcharAt format (st.src + i) = wcharAt (t.text ++ next) i :=
    wcharAt_of_drop format st.src _ hs
  have hr0 : wcharAt format st.src = wcharAt (t.text ++ next) 0 := hr 0
  have hlt : st.src < format.length := by
    cases t <;> exact lt_length_of_drop format st.src _ _ (by rw [hs]; rfl)
  have hlen := length_of_drop format st.src _ hs (le_of_lt hlt)
  rw [List.length_append] at hlen
  obtain ⟨f, rfl⟩ : ∃ f, fuel = f + 1 := ⟨fuel - 1, by omega⟩
  cases t with
  | plain c =>
    have hc : wcharAt format st.src = c := hr0
    obtain ⟨h0, h59, h39, h34, h92, h69, h101⟩ := hwf
    rw [pictureLoop_succ number format numfmt info fd ld ts f st c hc h0 h59]
    refine pictureLoop_fuel_at number format numfmt info fd ld ts f (f + 1) _ _ _ ?_ rfl ?_ ?_
    · simp only [renderToken, PictureToken.text, List.length_cons, List.length_nil]
      by_cases ha : st.adjust > 0 ∧ (c = 35 ∨ c = 48 ∨ c = 46)
      · rw [if_pos ha, if_pos ha, emitOverflowDigits_src,
          pictureStep_char number format numfmt info fd ld ts c ⟨h39, h34, h92, h69, h101⟩]
      · rw [if_neg ha, if_neg ha,
          pictureStep_char number format numfmt info fd ld ts c ⟨h39, h34, h92, h69, h101⟩]
    · simp only [PictureToken.text, List.length_cons, List.length_nil] at hlen ⊢
      omega
    · dsimp only; omega
  | quoted q body =>
    obtain ⟨hq, hb⟩ := hwf
    have hc : wcharAt format st.src = q := hr0
    have hq0 : q ≠ 0 := by omega
    have hd : format.drop (st.src + 1) = body ++ q :: next := by
      have := drop_of_drop format st.src [q] (body ++ [q] ++ next) (by
        rw [hs]; simp [PictureToken.text])
      simpa using this
    obtain ⟨hsk, htk⟩ := skipQuoted_closed format q (st.src + 1) body next hd hq0 hb
    rw [pictureLoop_succ number format numfmt info fd ld ts f st q hc hq0 (by omega),
      if_neg (by omega), pictureStep_quote number format numfmt info fd ld ts q hq]
    dsimp only
    rw [hsk, htk]
    simp only [PictureToken.text, List.length_cons, List.length_append, List.length_nil]
      at hlen ⊢
    refine pictureLoop_fuel_at number format numfmt info fd ld ts f (f + 1) _ _ _ ?_ rfl ?_ ?_
    · simp only [renderToken]
      congr 1
      omega
    · dsimp only; omega
    · dsimp only; omega
  | openQuote q body =>
    obtain ⟨hq, hb, hn⟩ := hwf
    have hc : wcharAt format st.src = q := hr0
    have hq0 : q ≠ 0 := by omega
    have hd : format.drop (st.src + 1) = body ++ next := by
      have := drop_of_drop format st.src [q] (body ++ next) (by
        rw [hs]; simp [PictureToken.text])
      simpa using this
    obtain ⟨hsk, htk⟩ := skipQuoted_open format q (st.src + 1) body next hd hb hn
    rw [pictureLoop_succ number format numfmt info fd ld ts f st q hc hq0 (by omega),
      if_neg (by omega), pictureStep_quote number format numfmt info fd ld ts q hq]
    dsimp only
    rw [hsk, htk]
    simp only [PictureToken.text, List.length_cons, List.length_append, List.length_nil]
      at hlen ⊢
    refine pictureLoop_fuel_at number format numfmt info fd ld ts f (f + 1) _ _ _ ?_ rfl ?_ ?_
    · simp only [renderToken]
      congr 1
      omega
    · dsimp only; omega
    · dsimp only; omega
  | escaped c =>
    have hc0 : c ≠ 0 := hwf
    have hc : wcharAt format st.src = 92 := hr0
    have hc1 : wcharAt format (st.src + 1) = c := hr 1
    rw [pictureLoop_succ number format numfmt info fd ld ts f st 92 hc (by decide) (by decide),
      if_neg (fun h => absurd h.2 (by decide)), pictureStep_backslash]
    dsimp only
    rw [hc1, if_pos hc0]
    simp only [PictureToken.text, List.length_cons, List.length_append, List.length_nil]
      at hlen ⊢
    refine pictureLoop_fuel_at number format numfmt info fd ld ts f (f + 1) _ _ _ ?_ rfl ?_ ?_
    · simp only [renderToken]
    · dsimp only; omega
    · dsimp only; omega
  | backslash =>
    have hn : wcharAt next 0 = 0 := hwf
    have hc : wcharAt format st.src = 92 := hr0
    have hc1 : wcharAt format (st.src + 1) = 0 := by
      rw [hr 1]
      cases next with
      | nil => rfl
      | cons x xs => exact hn
    rw [pictureLoop_succ number format numfmt info fd ld ts f st 92 hc (by decide) (by decide),
      if_neg (fun h => absurd h.2 (by decide)), pictureStep_backslash]
    dsimp only
    rw [hc1, if_neg (by decide)]
    simp only [PictureToken.text, List.length_cons, List.length_append, List.length_nil]
      at hlen ⊢
    refine pictureLoop_fuel_at number format numfmt info fd ld ts f (f + 1) _ _ _ ?_ rfl ?_ ?_
    · simp only [renderToken]
    · dsimp only; omega
    · dsimp only; omega
  | exponent ch sign zeros =>
    obtain ⟨hch, hsg, hn48, hn⟩ := hwf
    have hc : wcharAt format st.src = ch := hr0
    have hadj : ¬ (st.adjust > 0 ∧ (ch = 35 ∨ ch = 48 ∨ ch = 46)) := by
      rintro ⟨-, h⟩; omega
    rw [pictureLoop_succ number format numfmt info fd ld ts f st ch hc (by omega) (by omega),
      if_neg hadj, pictureStep_exponent number format numfmt info fd ld ts ch hch]
    simp only [PictureToken.text, List.length_cons, List.length_append,
      List.length_replicate] at hlen ⊢
    have hd1 : format.drop (st.src + 1) = sign ++ List.replicate zeros 48 ++ next := by
      have := drop_of_drop format st.src [ch] (sign ++ List.replicate zeros 48 ++ next) (by
        rw [hs]; simp [PictureToken.text])
      simpa using this
    unfold pictureExponent
    dsimp only
    rcases hsg with rfl | rfl | rfl
    · -- no sign
      have hz1 : skipZeros format (st.src + 1) = st.src + 1 + zeros :=
        skipZeros_run format (st.src + 1) zeros next (by simpa using hd1) hn48
      cases zeros with
      | zero =>
        have h1 : wcharAt format (st.src + 1) = wcharAt next 0 := by
          rw [hr 1]; rfl
        have hnn := hn rfl rfl
        have e48 : ¬ wcharAt format (st.src + 1) = 48 := by rw [h1]; exact hn48
        have e43 : ¬ wcharAt format (st.src + 1) = 43 := by rw [h1]; exact hnn.1
        have e45 : ¬ wcharAt format (st.src + 1) = 45 := by rw [h1]; exact hnn.2
        have hm : ¬ (wcharAt format (st.src + 1) = 48 ∨
            (wcharAt format (st.src + 1) = 43 ∧ wcharAt format (st.src + 1 + 1) = 48) ∨
            (wcharAt format (st.src + 1) = 45 ∧ wcharAt format (st.src + 1 + 1) = 48)) := by
          rintro (h | ⟨h, -⟩ | ⟨h, -⟩)
          · exact e48 h
          · exact e43 h
          · exact e45 h
        have hsd : decide (wcharAt format (st.src + 1) = 43 ∨
            wcharAt format (st.src + 1) = 45) = false := by
          simp [e43, e45]
        cases hsci : st.scientific with
        | true =>
          simp only [if_true, if_neg hm]
          refine pictureLoop_fuel_at number format numfmt info fd ld ts f (f + 1) _ _ _ ?_ rfl
            ?_ ?_
          · simp [renderToken, hsci]
          · dsimp only; omega
          · dsimp only; omega
        | false =>
          simp only [Bool.false_eq_true, if_false, hsd, hz1]
          refine pictureLoop_fuel_at number format numfmt info fd ld ts f (f + 1) _ _ _ ?_ rfl
            ?_ ?_
          · simp [renderToken, hsci]
          · dsimp only; omega
          · dsimp only; omega
      | succ k =>
        have h1 : wcharAt format (st.src + 1) = 48 := by
          rw [hr 1]; rfl
        have hd2 : format.drop (st.src + 1 + 1) = List.replicate k 48 ++ next := by
          have := drop_of_drop format st.src [ch, 48] (List.replicate k 48 ++ next) (by
            rw [hs]; simp [PictureToken.text, List.replicate_succ])
          simpa using this
        have hz2 := skipZeros_run format (st.src + 1 + 1) k next hd2 hn48
        have hsd : decide (wcharAt format (st.src + 1) = 43 ∨
            wcharAt format (st.src + 1) = 45) = false := by
          simp [h1]
        have hi : ((st.src + 1 + 1 + k - (st.src + 1 + 1) : Nat) : Int) + 1 =
            ((k + 1 : Nat) : Int) := by
          rw [Nat.add_sub_cancel_left]
          push_cast
          rfl
        cases hsci : st.scientific with
        | true =>
          simp only [if_true, h1, true_or, hz2, hi, ne_eq, not_true_eq_false, false_and,
            if_false]
          refine pictureLoop_fuel_at number format numfmt info fd ld ts f (f + 1) _ _ _ ?_ rfl
            ?_ ?_
          · simp [renderToken, hsci]
            omega
          · dsimp only; omega
          · dsimp only; omega
        | false =>
          simp only [Bool.false_eq_true, if_false, hsd, hz1]
          refine pictureLoop_fuel_at number format numfmt info fd ld ts f (f + 1) _ _ _ ?_ rfl
            ?_ ?_
          · simp [renderToken, hsci]
            omega
          · dsimp only; omega
          · dsimp only; omega
    · -- the sign 43
      have h1 : wcharAt format (st.src + 1) = 43 := by
        rw [hr 1]; rfl
      have hd2 : format.drop (st.src + 1 + 1) = List.replicate zeros 48 ++ next := by
        have := drop_of_drop format st.src [ch, 43] (List.replicate zeros 48 ++ next) (by
          rw [hs]; simp [PictureToken.text])
        simpa using this
      have hz2 := skipZeros_run format (st.src + 1 + 1) zeros next hd2 hn48
      have hsd : decide (wcharAt format (st.src + 1) = 43 ∨
          wcharAt format (st.src + 1) = 45) = true := by
        simp [h1]
      cases hsci : st.scientific with
      | false =>
        simp only [Bool.false_eq_true, if_false, hsd, if_true, hz2, h1]
        refine pictureLoop_fuel_at number format numfmt info fd ld ts f (f + 1) _ _ _ ?_ rfl
          ?_ ?_
        · simp [renderToken, hsci]
          omega
        · dsimp only; omega
        · dsimp only; omega
      | true =>
        cases zeros with
        | zero =>
          have h2 : wcharAt format (st.src + 1 + 1) = wcharAt next 0 := by
            rw [show st.src + 1 + 1 = st.src + 2 by omega, hr 2]; rfl
          have hm : ¬ (wcharAt format (st.src + 1) = 48 ∨
              (wcharAt format (st.src + 1) = 43 ∧ wcharAt format (st.src + 1 + 1) = 48) ∨
              (wcharAt format (st.src + 1) = 45 ∧ wcharAt format (st.src + 1 + 1) = 48)) := by
            rw [h1, h2]
            rintro (h | ⟨-, h⟩ | ⟨-, h⟩)
            · exact absurd h (by decide)
            · exact hn48 h
            · exact hn48 h
          simp only [if_true, if_neg hm]
          simp at hlen
          obtain ⟨g, rfl⟩ : ∃ g, f = g + 1 := ⟨f - 1, by omega⟩
          rw [pictureLoop_succ number format numfmt info fd ld ts g _ 43 h1 (by decide)
            (by decide), if_neg (fun h => absurd h.2 (by decide)),
            pictureStep_literal number format numfmt info fd ld ts 43 (by decide)]
          refine pictureLoop_fuel_at number format numfmt info fd ld ts g (g + 1 + 1) _ _ _ ?_
            rfl ?_ ?_
          · simp [renderToken, hsci]
          · simp only [List.length_cons, List.length_nil]; omega
          · simp only [List.length_cons, List.length_nil]; omega
        | succ k =>
          have h2 : wcharAt format (st.src + 1 + 1) = 48 := by
            rw [show st.src + 1 + 1 = st.src + 2 by omega, hr 2]; rfl
          have hi : ((st.src + 1 + 1 + (k + 1) - (st.src + 1 + 1) : Nat) : Int) + 0 =
              ((k + 1 : Nat) : Int) := by
            rw [Nat.add_sub_cancel_left, Int.add_zero]
          simp only [if_true, h1, h2, and_self, true_or, or_true, hz2, hi, ne_eq,
            show ¬ ((43 : Nat) = 48) by decide, not_false_eq_true, true_and, if_false]
          refine pictureLoop_fuel_at number format numfmt info fd ld ts f (f + 1) _ _ _ ?_ rfl
            ?_ ?_
          · simp [renderToken, hsci]
            omega
          · dsimp only; omega
          · dsimp only; omega
    · -- the sign 45
      have h1 : wcharAt format (st.src + 1) = 45 := by
        rw [hr 1]; rfl
      have hd2 : format.drop (st.src + 1 + 1) = List.replicate zeros 48 ++ next := by
        have := drop_of_drop format st.src [ch, 45] (List.replicate zeros 48 ++ next) (by
          rw [hs]; simp [PictureToken.text])
        simpa using this
      have hz2 := skipZeros_run format (st.src + 1 + 1) zeros next hd2 hn48
      have hsd : decide (wcharAt format (st.src + 1) = 43 ∨
          wcharAt format (st.src + 1) = 45) = true := by
        simp [h1]
      cases hsci : st.scientific with
      | false =>
        simp only [Bool.false_eq_true, if_false, hsd, if_true, hz2, h1]
        refine pictureLoop_fuel_at number format numfmt info fd ld ts f (f + 1) _ _ _ ?_ rfl
          ?_ ?_
        · simp [renderToken, hsci]
          omega
        · dsimp only; omega
        · dsimp only; omega
      | true =>
        cases zeros with
        | zero =>
          have h2 : wcharAt format (st.src + 1 + 1) = wcharAt next 0 := by
            rw [show st.src + 1 + 1 = st.src + 2 by omega, hr 2]; rfl
          have hm : ¬ (wcharAt format (st.src + 1) = 48 ∨
              (wcharAt format (st.src + 1) = 43 ∧ wcharAt format (st.src + 1 + 1) = 48) ∨
              (wcharAt format (st.src + 1) = 45 ∧ wcharAt format (st.src + 1 + 1) = 48)) := by
            rw [h1, h2]
            rintro (h | ⟨-, h⟩ | ⟨-, h⟩)
            · exact absurd h (by decide)
            · exact hn48 h
            · exact hn48 h
          simp only [if_true, if_neg hm]
          simp at hlen
          obtain ⟨g, rfl⟩ : ∃ g, f = g + 1 := ⟨f - 1, by omega⟩
          rw [pictureLoop_succ number format numfmt info fd ld ts g _ 45 h1 (by decide)
            (by decide), if_neg (fun h => absurd h.2 (by decide)),
            pictureStep_literal number format numfmt info fd ld ts 45 (by decide)]
          refine pictureLoop_fuel_at number format numfmt info fd ld ts g (g + 1 + 1) _ _ _ ?_
            rfl ?_ ?_
          · simp [renderToken, hsci]
          · simp only [List.length_cons, List.length_nil]; omega
          · simp only [List.length_cons, List.length_nil]; omega
        | succ k =>
          have h2 : wcharAt format (st.src + 1 + 1) = 48 := by
            rw [show st.src + 1 + 1 = st.src + 2 by omega, hr 2]; rfl
          have hi : ((st.src + 1 + 1 + (k + 1) - (st.src + 1 + 1) : Nat) : Int) + 0 =
              ((k + 1 : Nat) : Int) := by
            rw [Nat.add_sub_cancel_left, Int.add_zero]
          simp only [if_true, h1, h2, and_self, true_or, or_true, hz2, hi, ne_eq,
            show ¬ ((45 : Nat) = 48) by decide, not_false_eq_true, true_and, if_false]
          refine pictureLoop_fuel_at number format numfmt info fd ld ts f (f + 1) _ _ _ ?_ rfl
            ?_ ?_
          · simp [renderToken, hsci]
            omega
          · dsimp only; omega
          · dsimp only; omega

theorem renderToken_src (number : NUMBER) (numfmt : NumberFormatInfo) (info : PictureInfo)
    (fd ld : Int) (ts : Bool) (t : PictureToken) (next : List Nat) (hwf : t.WellFormed next)
    (st : PictureState) (a : Nat) :
    renderToken number numfmt info fd ld ts t { st with src := a } =
      { renderToken number numfmt info fd ld ts t st with src := a } := by
  cases t with
  | plain c =>
    obtain ⟨h0, h59, h39, h34, h92, h69, h101⟩ := hwf
    simp only [renderToken]
    by_cases ha : st.adjust > 0 ∧ (c = 35 ∨ c = 48 ∨ c = 46)
    · rw [if_pos ha, if_pos ha, emitOverflowDigits_src,
        pictureStep_char number [] numfmt info fd ld ts c ⟨h39, h34, h92, h69, h101⟩]
    · rw [if_neg ha, if_neg ha,
        pictureStep_char number [] numfmt info fd ld ts c ⟨h39, h34, h92, h69, h101⟩]
  | quoted q body => rfl
  | openQuote q body => rfl
  | escaped c => rfl
  | backslash => rfl
  | exponent ch sign zeros =>
    simp only [renderToken]
    split <;> rfl

theorem renderTokens_src (number : NUMBER) (numfmt : NumberFormatInfo) (info : PictureInfo)
    (fd ld : Int) (ts : Bool) (toks : List PictureToken) (next : List Nat) :
    ∀ (st : PictureState) (a : Nat), TokensWellFormed toks next →
      renderTokens number numfmt info fd ld ts toks { st with src := a } =
        { renderTokens number numfmt info fd ld ts toks st with src := a } := by
  induction toks with
  | nil => intro st a _; rfl
  | cons t ts' ih =>
    intro st a hwf
    simp only [renderTokens]
    rw [renderToken_src number numfmt info fd ld ts t _ hwf.1, ih _ a hwf.2]

/-- The output loop on a sequence of tokens. -/
theorem pictureLoop_tokens (number : NUMBER) (format : List Nat) (numfmt : NumberFormatInfo)
    (info : PictureInfo) (fd ld : Int) (ts : Bool) (toks : List PictureToken) :
    ∀ (next : List Nat) (st : PictureState) (fuel : Nat),
      format.drop st.src = tokensText toks ++ next → TokensWellFormed toks next →
      format.length < st.src + fuel →
      pictureLoop number format numfmt info fd ld ts fuel st =
        pictureLoop number format numfmt info fd ld ts fuel
          { renderTokens number numfmt info fd ld ts toks st with
            src := st.src + (tokensText toks).length } := by
  induction toks with
  | nil => intro next st fuel _ _ _; rfl
  | cons t ts' ih =>
    intro next st fuel hs hwf hf
    have hs2 : format.drop st.src = t.text ++ (tokensText ts' ++ next) := by
      rw [hs, tokensText, List.append_assoc]
    rw [pictureLoop_token number format numfmt info fd ld ts t _ st hs2 hwf.1 fuel hf,
      ih next _ fuel (drop_of_drop format st.src _ _ hs2) hwf.2
        (by show format.length < st.src + t.text.length + fuel; omega)]
    simp only [renderTokens, tokensText, List.length_append]
    rw [renderTokens_src number numfmt info fd ld ts ts' next _ _ hwf.2]
    simp only [Nat.add_assoc]

theorem pictureLoop_at_stop (number : NUMBER) (format : List Nat) (numfmt : NumberFormatInfo)
    (info : PictureInfo) (fd ld : Int) (ts : Bool) (fuel : Nat) (st : PictureState)
    (h : wcharAt format st.src = 0 ∨ wcharAt format st.src = 59) :
    pictureLoop number format numfmt info fd ld ts fuel st = st := by
  cases fuel with
  | zero => rfl
  | succ f =>
    rw [pictureLoop]
    dsimp only
    rw [if_pos h]

/-- The output loop on a section given by its tokens: it has the effect of
the tokens, one after the other. -/
theorem pictureLoop_section (number : NUMBER) (format : List Nat) (numfmt : NumberFormatInfo)
    (info : PictureInfo) (fd ld : Int) (ts : Bool) (toks : List PictureToken)
    (tail : List Nat) (st : PictureState)
    (hs : format.drop st.src = tokensText toks ++ tail) (hwf : TokensWellFormed toks tail)
    (ht : wcharAt tail 0 = 0 ∨ wcharAt tail 0 = 59) :
    (pictureLoop number format numfmt info fd ld ts (format.length + 1) st).dst =
      (renderTokens number numfmt info fd ld ts toks st).dst := by
  rw [pictureLoop_tokens number format numfmt info fd ld ts toks tail st _ hs hwf (by omega),
    pictureLoop_at_stop]
  dsimp only
  have := wcharAt_of_drop format st.src _ hs (tokensText toks).length
  rw [show (tokensText toks).length = (tokensText toks).length + 0 by omega,
    wcharAt_append_right] at this
  rw [Nat.add_zero] at this
  rw [this]
  exact ht

/-! ## The text of `NumberToStringFormat`, from the tokens of the section -/

/-- The parsed locals that `NumberToStringFormat` works with are those of the
section it renders. -/
theorem pictureSetup_info (number : NUMBER) (format : List Nat) :
    ∃ tc : Int, (pictureSetup number format).2.1 =
      parsePicture format (pictureSetup number format).1 tc := by
  unfold pictureSetup
  dsimp only
  generalize FindSection format
    (if wcharAt number.digits 0 = 0 then 2 else if number.sign = true then 1 else 0) = s0
  by_cases h0 : wcharAt number.digits 0 ≠ 0
  · rw [if_pos h0]
    generalize RoundNumber
      { number with scale := wrapInt32 (number.scale + (parsePicture format s0 0).scaleAdjust) }
      (if (parsePicture format s0 0).scientific = true then (parsePicture format s0 0).digitCount
       else wrapInt32 (wrapInt32 (wrapInt32 (number.scale +
          (parsePicture format s0 0).scaleAdjust) + (parsePicture format s0 0).digitCount) -
          (parsePicture format s0 0).decimalPos)) = rd
    by_cases h1 : wcharAt rd.digits 0 = 0
    · rw [if_pos h1]
      by_cases h2 : FindSection format 2 ≠ s0
      · rw [if_pos h2]
        exact ⟨_, rfl⟩
      · rw [if_neg h2]
        exact ⟨_, rfl⟩
    · rw [if_neg h1]
      exact ⟨_, rfl⟩
  · rw [if_neg h0]
    exact ⟨_, rfl⟩

/-- A string returned by `NumberToStringFormat` is the text the output loop
generates for the section and the number of the set-up, from the sign the
first section is given. -/
theorem NumberToStringFormat_text (number : NUMBER) (format : List Nat)
    (numfmt : NumberFormatInfo) (sect : Nat) (info : PictureInfo) (r : NUMBER)
    (hsetup : pictureSetup number format = (sect, info, r)) (t : List Nat)
    (ht : NumberToStringFormat number format numfmt = .ok t) :
    ∃ seps : List Int,
      t = (pictureLoop r format numfmt info
        (if info.firstDigit < info.decimalPos then info.decimalPos - info.firstDigit else 0)
        (if info.lastDigit > info.decimalPos then info.decimalPos - info.lastDigit else 0)
        (info.thousandSeps && decide (numfmt.cNumberGroup.length ≠ 0))
        (format.length + 1)
        { src := sect
          dst := if r.sign ∧ sect = 0 then numfmt.sNegative else []
          dig := r.digits
          digPos :=
            if info.scientific then info.decimalPos
            else if r.scale > info.decimalPos then r.scale else info.decimalPos
          adjust := if info.scientific then 0 else wrapInt32 (r.scale - info.decimalPos)
          seps := seps
          scientific := info.scientific
          decimalWritten := false }).dst := by
  unfold NumberToStringFormat at ht
  dsimp only at ht
  rw [hsetup] at ht
  dsimp only at ht
  split at ht
  · cases ht
  · rename_i seps hseps
    exact ⟨seps, (ite_error_eq_ok _ _ _ _ ht).symm⟩

theorem tokensText_append (a b : List PictureToken) :
    tokensText (a ++ b) = tokensText a ++ tokensText b := by
  induction a with
  | nil => rfl
  | cons t ts ih =>
    show t.text ++ tokensText (ts ++ b) = t.text ++ tokensText ts ++ tokensText b
    rw [ih, List.append_assoc]

theorem TokensWellFormed_append (a b : List PictureToken) (next : List Nat) :
    TokensWellFormed (a ++ b) next ↔
      TokensWellFormed a (tokensText b ++ next) ∧ TokensWellFormed b next := by
  induction a with
  | nil => simp [TokensWellFormed]
  | cons t ts ih =>
    show t.WellFormed (tokensText (ts ++ b) ++ next) ∧ TokensWellFormed (ts ++ b) next ↔
      (t.WellFormed (tokensText ts ++ (tokensText b ++ next)) ∧
        TokensWellFormed ts (tokensText b ++ next)) ∧ TokensWellFormed b next
    rw [ih, tokensText_append, List.append_assoc, and_assoc]

theorem parseTokens_append (a b : List PictureToken) (st : PictureInfo) :
    parseTokens (a ++ b) st = parseTokens b (parseTokens a st) := by
  induction a generalizing st with
  | nil => rfl
  | cons t ts ih =>
    show parseTokens (ts ++ b) (parseToken t st) = parseTokens b (parseTokens ts (parseToken t st))
    rw [ih]

theorem renderTokens_append (number : NUMBER) (numfmt : NumberFormatInfo) (info : PictureInfo)
    (fd ld : Int) (ts : Bool) (a b : List PictureToken) (st : PictureState) :
    renderTokens number numfmt info fd ld ts (a ++ b) st =
      renderTokens number numfmt info fd ld ts b
        (renderTokens number numfmt info fd ld ts a st) := by
  induction a generalizing st with
  | nil => rfl
  | cons t ts' ih =>
    show renderTokens number numfmt info fd ld ts (ts' ++ b)
        (renderToken number numfmt info fd ld ts t st) =
      renderTokens number numfmt info fd ld ts b
        (renderTokens number numfmt info fd ld ts ts'
          (renderToken number numfmt info fd ld ts t st))
    rw [ih]

/-- The fix-up at the end of `ParseSection` leaves `scientific` alone. -/
theorem parsePicture_scientific (format : List Nat) (sect : Nat) (tc : Int) :
    (parsePicture format sect tc).scientific =
      (parseSectionLoop format (format.length + 1) sect
        { digitCount := 0
          decimalPos := -1
          firstDigit := 0x7FFFFFFF
          lastDigit := 0
          scientific := false
          percent := 0
          permille := 0
          thousandPos := -1
          thousandCount := tc
          thousandSeps := false
          scaleAdjust := 0 }).scientific := by
  unfold parsePicture
  dsimp only
  generalize parseSectionLoop format (format.length + 1) sect
    { digitCount := 0
      decimalPos := -1
      firstDigit := 0x7FFFFFFF
      lastDigit := 0
      scientific := false
      percent := 0
      permille := 0
      thousandPos := -1
      thousandCount := tc
      thousandSeps := false
      scaleAdjust := 0 } = p
  by_cases h1 : p.decimalPos < 0
  · rw [if_pos h1]
    dsimp only
    by_cases h2 : p.thousandPos ≥ 0
    · rw [if_pos h2]
      split <;> rfl
    · rw [if_neg h2]
  · rw [if_neg h1]
    by_cases h2 : p.thousandPos ≥ 0
    · rw [if_pos h2]
      split <;> rfl
    · rw [if_neg h2]

theorem emitOverflowDigits_scientific (numfmt : NumberFormatInfo) (ts : Bool) (n : Nat) :
    ∀ st : PictureState, (emitOverflowDigits numfmt ts n st).scientific = st.scientific := by
  induction n with
  | zero => intro st; rfl
  | succ n ih =>
    intro st
    rw [emitOverflowDigits, ih]

theorem pictureStep_scientific (number : NUMBER) (format : List Nat) (numfmt : NumberFormatInfo)
    (info : PictureInfo) (fd ld : Int) (ts : Bool) (c : Nat) (hc : c ≠ 69 ∧ c ≠ 101)
    (st : PictureState) :
    (pictureStep number format numfmt info fd ld ts c st).scientific = st.scientific := by
  unfold pictureStep
  dsimp only
  by_cases h1 : c = 35 ∨ c = 48
  · rw [if_pos h1]
  rw [if_neg h1]
  by_cases h2 : c = 46
  · rw [if_pos h2]
    split
    · rfl
    · split <;> rfl
  rw [if_neg h2]
  by_cases h3 : c = 0x2030
  · rw [if_pos h3]
  rw [if_neg h3]
  by_cases h4 : c = 37
  · rw [if_pos h4]
  rw [if_neg h4]
  by_cases h5 : c = 44
  · rw [if_pos h5]
  rw [if_neg h5]
  by_cases h6 : c = 39 ∨ c = 34
  · rw [if_pos h6]
  rw [if_neg h6]
  by_cases h7 : c = 92
  · rw [if_pos h7]
    split <;> rfl
  rw [if_neg h7, if_neg (by omega)]

/-- A token that is no scientific marker leaves `scientific` alone. -/
theorem renderToken_scientific (number : NUMBER) (numfmt : NumberFormatInfo)
    (info : PictureInfo) (fd ld : Int) (ts : Bool) (t : PictureToken) (next : List Nat)
    (hwf : t.WellFormed next) (hm : ¬ t.IsMarker) (st : PictureState) :
    (renderToken number numfmt info fd ld ts t st).scientific = st.scientific := by
  cases t with
  | plain c =>
    obtain ⟨h0, h59, h39, h34, h92, h69, h101⟩ := hwf
    simp only [renderToken]
    rw [pictureStep_scientific number [] numfmt info fd ld ts c ⟨h69, h101⟩]
    split
    · rw [emitOverflowDigits_scientific]
    · rfl
  | quoted q body => rfl
  | openQuote q body => rfl
  | escaped c => rfl
  | backslash => rfl
  | exponent ch sign zeros =>
    have hz : ¬ (1 ≤ zeros) := hm
    simp only [renderToken]
    rw [if_neg (fun h => hz h.2)]

theorem renderTokens_scientific (number : NUMBER) (numfmt : NumberFormatInfo)
    (info : PictureInfo) (fd ld : Int) (ts : Bool) (toks : List PictureToken)
    (next : List Nat) :
    ∀ st : PictureState, TokensWellFormed toks next → (∀ t ∈ toks, ¬ t.IsMarker) →
      (renderTokens number numfmt info fd ld ts toks st).scientific = st.scientific := by
  induction toks with
  | nil => intro st _ _; rfl
  | cons t ts' ih =>
    intro st hwf hm
    simp only [renderTokens]
    rw [ih _ hwf.2 (fun x hx => hm x (List.mem_cons_of_mem _ hx)),
      renderToken_scientific number numfmt info fd ld ts t _ hwf.1
        (hm t (List.mem_cons_self _ _))]

/-- The output loop only appends to the text it starts from. -/
theorem pictureLoop_appends (number : NUMBER) (format : List Nat) (numfmt : NumberFormatInfo)
    (info : PictureInfo) (fd ld : Int) (ts : Bool) (fuel : Nat) (st : PictureState) :
    ∃ Y, (pictureLoop number format numfmt info fd ld ts fuel st).dst = st.dst ++ Y := by
  have h := pictureLoop_dst_extends number format numfmt info fd ld ts st.dst fuel
    { st with dst := [] }
  simp only [List.append_nil] at h
  refine ⟨(pictureLoop number format numfmt info fd ld ts fuel { st with dst := [] }).dst, ?_⟩
  have e : ({ st with dst := st.dst } : PictureState) = st := rfl
  rw [e] at h
  rw [h]

/-! ## Every section reads as tokens -/

theorem zeros_split (l : List Nat) :
    ∃ (z : Nat) (rest : List Nat), l = List.replicate z 48 ++ rest ∧ wcharAt rest 0 ≠ 48 ∧
      rest.length ≤ l.length ∧ (z = 0 → rest = l) := by
  induction l with
  | nil => exact ⟨0, [], rfl, by decide, le_refl _, fun _ => rfl⟩
  | cons c cs ih =>
    by_cases hc : c = 48
    · obtain ⟨z, rest, h1, h2, h3, -⟩ := ih
      refine ⟨z + 1, rest, ?_, h2, ?_, fun h => absurd h (by omega)⟩
      · rw [List.replicate_succ, List.cons_append, ← h1, hc]
      · simp only [List.length_cons]
        omega
    · exact ⟨0, c :: cs, rfl, by rw [wcharAt_cons_zero]; exact hc, le_refl _, fun _ => rfl⟩

/-- Every text reads as a sequence of well-formed tokens up to the end of its
first section: the terminator or an unquoted, unescaped `;`. -/
theorem section_tokens (n : Nat) :
    ∀ s : List Nat, s.length ≤ n →
      ∃ (toks : List PictureToken) (tail : List Nat), s = tokensText toks ++ tail ∧
        TokensWellFormed toks tail ∧ (wcharAt tail 0 = 0 ∨ wcharAt tail 0 = 59) := by
  induction n with
  | zero =>
    intro s hs
    have : s = [] := List.length_eq_zero.mp (by omega)
    subst this
    exact ⟨[], [], rfl, trivial, Or.inl rfl⟩
  | succ n ih =>
    intro s hs
    cases s with
    | nil => exact ⟨[], [], rfl, trivial, Or.inl rfl⟩
    | cons c s' =>
      have hlen : s'.length ≤ n := by
        simp only [List.length_cons] at hs
        omega
      by_cases h0 : c = 0 ∨ c = 59
      · exact ⟨[], c :: s', rfl, trivial, by rw [wcharAt_cons_zero]; exact h0⟩
      have c0 : c ≠ 0 := fun h => h0 (Or.inl h)
      have c59 : c ≠ 59 := fun h => h0 (Or.inr h)
      by_cases hq : c = 39 ∨ c = 34
      · have hsplit := List.takeWhile_append_dropWhile (fun x => x != 0 && x != c) s'
        have hbody : ∀ x ∈ s'.takeWhile (fun x => x != 0 && x != c), x ≠ 0 ∧ x ≠ c := by
          intro x hx
          have := List.mem_takeWhile_imp hx
          simpa using this
        generalize s'.takeWhile (fun x => x != 0 && x != c) = body at hsplit hbody
        have hhead : ∀ d rest', s'.dropWhile (fun x => x != 0 && x != c) = d :: rest' →
            d = 0 ∨ d = c := by
          intro d rest' h
          have hne : s'.dropWhile (fun x => x != 0 && x != c) ≠ [] := by rw [h]; simp
          have := List.head_dropWhile_not (fun x => x != 0 && x != c) s' hne
          simp only [h, List.head_cons] at this
          by_cases hd : d = 0
          · exact Or.inl hd
          · right
            simpa [hd] using this
        generalize s'.dropWhile (fun x => x != 0 && x != c) = rest at hsplit hhead
        cases rest with
        | nil =>
          refine ⟨[.openQuote c body], [], ?_, ⟨⟨hq, hbody, rfl⟩, trivial⟩, Or.inl rfl⟩
          rw [← hsplit]
          simp [tokensText, PictureToken.text]
        | cons d rest' =>
          rcases hhead d rest' rfl with hd | hd
          · refine ⟨[.openQuote c body], d :: rest', ?_, ⟨⟨hq, hbody, ?_⟩, trivial⟩, ?_⟩
            · rw [← hsplit]
              simp [tokensText, PictureToken.text]
            · show wcharAt ([] ++ d :: rest') 0 = 0
              rw [List.nil_append, wcharAt_cons_zero]
              exact hd
            · rw [wcharAt_cons_zero]
              exact Or.inl hd
          · have hl : rest'.length ≤ n := by
              have := congrArg List.length hsplit
              simp only [List.length_append, List.length_cons] at this
              omega
            obtain ⟨toks, tail, e1, e2, e3⟩ := ih rest' hl
            refine ⟨.quoted c body :: toks, tail, ?_, ⟨⟨hq, hbody⟩, e2⟩, e3⟩
            rw [← hsplit, hd, e1]
            simp [tokensText, PictureToken.text]
      have c39 : c ≠ 39 := fun h => hq (Or.inl h)
      have c34 : c ≠ 34 := fun h => hq (Or.inr h)
      by_cases hb : c = 92
      · subst hb
        cases s' with
        | nil => exact ⟨[.backslash], [], rfl, ⟨rfl, trivial⟩, Or.inl rfl⟩
        | cons d s'' =>
          by_cases hd : d = 0
          · refine ⟨[.backslash], d :: s'', rfl, ⟨?_, trivial⟩, ?_⟩
            · show wcharAt ([] ++ d :: s'') 0 = 0
              rw [List.nil_append, wcharAt_cons_zero]
              exact hd
            · rw [wcharAt_cons_zero]
              exact Or.inl hd
          · have hl : s''.length ≤ n := by
              simp only [List.length_cons] at hlen
              omega
            obtain ⟨toks, tail, e1, e2, e3⟩ := ih s'' hl
            refine ⟨.escaped d :: toks, tail, ?_, ⟨hd, e2⟩, e3⟩
            rw [e1]
            rfl
      by_cases he : c = 69 ∨ c = 101
      · by_cases hsg : ∃ d s'', s' = d :: s'' ∧ (d = 43 ∨ d = 45)
        · obtain ⟨d, s'', rfl, hd⟩ := hsg
          obtain ⟨z, rest, z1, z2, z3, -⟩ := zeros_split s''
          have hl : rest.length ≤ n := by
            simp only [List.length_cons] at hlen
            omega
          obtain ⟨toks, tail, e1, e2, e3⟩ := ih rest hl
          refine ⟨.exponent c [d] z :: toks, tail, ?_, ⟨⟨he, ?_, ?_, ?_⟩, e2⟩, e3⟩
          · rw [z1, e1]
            simp [tokensText, PictureToken.text]
          · rcases hd with h | h
            · exact Or.inr (Or.inl (by rw [h]))
            · exact Or.inr (Or.inr (by rw [h]))
          · rw [← e1]
            exact z2
          · intro h
            cases h
        · obtain ⟨z, rest, z1, z2, z3, z4⟩ := zeros_split s'
          have hl : rest.length ≤ n := by omega
          obtain ⟨toks, tail, e1, e2, e3⟩ := ih rest hl
          refine ⟨.exponent c [] z :: toks, tail, ?_, ⟨⟨he, Or.inl rfl, ?_, ?_⟩, e2⟩, e3⟩
          · rw [z1, e1]
            simp [tokensText, PictureToken.text]
          · rw [← e1]
            exact z2
          · intro _ hz
            rw [← e1, z4 hz]
            cases s' with
            | nil => exact ⟨by decide, by decide⟩
            | cons d s'' =>
              rw [wcharAt_cons_zero]
              constructor
              · intro h
                exact hsg ⟨d, s'', rfl, Or.inl h⟩
              · intro h
                exact hsg ⟨d, s'', rfl, Or.inr h⟩
      have c69 : c ≠ 69 := fun h => he (Or.inl h)
      have c101 : c ≠ 101 := fun h => he (Or.inr h)
      obtain ⟨toks, tail, e1, e2, e3⟩ := ih s' hlen
      refine ⟨.plain c :: toks, tail, ?_, ⟨⟨c0, c59, c39, c34, hb, c69, c101⟩, e2⟩, e3⟩
      rw [e1]
      rfl

/-- The section at any offset of any picture reads as well-formed tokens. -/
theorem picture_section_tokens (format : List Nat) (sect : Nat) :
    ∃ (toks : List PictureToken) (tail : List Nat),
      format.drop sect = tokensText toks ++ tail ∧ TokensWellFormed toks tail ∧
        (wcharAt tail 0 = 0 ∨ wcharAt tail 0 = 59) :=
  section_tokens _ _ (le_refl _)

theorem ite_error_eq_error (c : Prop) [Decidable c] (e0 e : FormatError) (x : List Nat)
    (h : (if c then (Except.error e0 : Except FormatError (List Nat)) else .ok x) = .error e) :
    e = e0 := by
  by_cases hc : c
  · rw [if_pos hc] at h
    cases h
    rfl
  · rw [if_neg hc] at h
    cases h

/-- The only exception `NumberToStringFormat` raises is the out-of-memory
exception of its length guards. -/
theorem NumberToStringFormat_error_kind (number : NUMBER) (format : List Nat)
    (numfmt : NumberFormatInfo) (e : FormatError)
    (h : NumberToStringFormat number format numfmt = .error e) :
    e = FormatError.outOfMemory := by
  unfold NumberToStringFormat at h
  dsimp only at h
  split at h
  · cases h
    rfl
  · exact ite_error_eq_error _ _ _ _ h

/-- A sequence of tokens that holds a scientific marker splits at its first
one. -/
theorem first_marker_split (toks : List PictureToken) (h : ∃ t ∈ toks, t.IsMarker) :
    ∃ (pre : List PictureToken) (ch : Nat) (sgn : List Nat) (m : Nat)
      (rest : List PictureToken),
      toks = pre ++ PictureToken.exponent ch sgn m :: rest ∧ (∀ t ∈ pre, ¬ t.IsMarker) ∧
        1 ≤ m := by
  induction toks with
  | nil =>
    obtain ⟨t, ht, -⟩ := h
    cases ht
  | cons t ts ih =>
    by_cases hm : t.IsMarker
    · cases t with
      | exponent ch sgn m =>
        exact ⟨[], ch, sgn, m, ts, rfl, (fun x hx => absurd hx (List.not_mem_nil x)), hm⟩
      | plain c => exact absurd hm (fun h => h)
      | quoted q body => exact absurd hm (fun h => h)
      | openQuote q body => exact absurd hm (fun h => h)
      | escaped c => exact absurd hm (fun h => h)
      | backslash => exact absurd hm (fun h => h)
    · have h' : ∃ x ∈ ts, x.IsMarker := by
        obtain ⟨x, hx, hx2⟩ := h
        rcases List.mem_cons.mp hx with e | e
        · rw [e] at hx2
          exact absurd hx2 hm
        · exact ⟨x, e, hx2⟩
      obtain ⟨pre, ch, sgn, m, rest, e1, e2, e3⟩ := ih h'
      refine ⟨t :: pre, ch, sgn, m, rest, by rw [e1]; rfl, ?_, e3⟩
      intro x hx
      rcases List.mem_cons.mp hx with e | e
      · rw [e]
        exact hm
      · exact e2 x e

/-- The section parser sets `scientific` on a section whose tokens lead to a
scientific marker. -/
theorem parsePicture_marker_tokens (format : List Nat) (sect : Nat) (tc : Int)
    (pre : List PictureToken) (ch : Nat) (sgn : List Nat) (m : Nat) (post : List Nat)
    (hsect : format.drop sect =
      tokensText pre ++ ((PictureToken.exponent ch sgn m).text ++ post))
    (hpre : TokensWellFormed pre ((PictureToken.exponent ch sgn m).text ++ post))
    (hmark : (PictureToken.exponent ch sgn m).WellFormed post) (hm : 1 ≤ m) :
    (parsePicture format sect tc).scientific = true := by
  rw [parsePicture_scientific]
  have hs2 : format.drop sect = tokensText (pre ++ [PictureToken.exponent ch sgn m]) ++ post := by
    rw [hsect, tokensText_append]
    simp only [tokensText, List.append_nil, List.append_assoc]
  have hwf : TokensWellFormed (pre ++ [PictureToken.exponent ch sgn m]) post := by
    rw [TokensWellFormed_append]
    refine ⟨?_, ?_, trivial⟩
    · simpa only [tokensText, List.append_nil] using hpre
    · simpa only [tokensText, List.nil_append] using hmark
  rw [parseSectionLoop_tokens format _ sect post _ _ hs2 hwf (by omega)]
  apply parseSectionLoop_scientific
  rw [parseTokens_append]
  simp only [parseTokens, parseToken, hm, if_true]

/-- C18: for every picture, every value and the section that
`NumberToStringFormat` renders: when the section is a run of tokens (plain
code units, quoted runs, escaped code units, `E` or `e` that start no marker)
followed by its first scientific marker (`E` or `e`, an optional `+` or `-`,
and `m >= 1` zeros) and any text after it, a string that is returned holds
the marker, then the negative-sign string when the exponent is negative, the
positive-sign string when the exponent is not negative and the marker is
written with `+`, and no sign when the exponent is not negative and the marker
is `E0...` or `E-0...`, then the magnitude of the exponent padded to `m`
digits (at most 10). So `1234` (digits `1234`, scale 4) comes out as
`1.23E+03` with `0.00E+00` and as `1.23E03` with `0.00E00` and with
`0.00E-00`, and `0.001234` as `1.23E-03` with `0.00E+00` and with `0.00E00`. -/
theorem NumberToStringFormat_marker_sign (number : NUMBER) (format : List Nat)
    (numfmt : NumberFormatInfo) (pre : List PictureToken) (ch : Nat) (sgn : List Nat)
    (m : Nat) (post : List Nat)
    (hsect : format.drop (pictureSetup number format).1 =
      tokensText pre ++ ((PictureToken.exponent ch sgn m).text ++ post))
    (hpre : TokensWellFormed pre ((PictureToken.exponent ch sgn m).text ++ post))
    (hfirst : ∀ t ∈ pre, ¬ t.IsMarker)
    (hmark : (PictureToken.exponent ch sgn m).WellFormed post) (hm : 1 ≤ m) :
    (∀ t, NumberToStringFormat number format numfmt = .ok t →
      ∃ X Y, t = X ++ [ch] ++
        (if scientificExponent number format < 0 then numfmt.sNegative
         else if sgn = [43] then numfmt.sPositive else []) ++
        decimalPadded (min 10 m) (scientificExponent number format).natAbs ++ Y) ∧
      NumberToStringFormat ⟨15, 4, false, [49, 50, 51, 52]⟩ [48, 46, 48, 48, 69, 43, 48, 48]
          ⟨[3], [3], [3], [43], [45], [46], [44], [44], [46], [36], [44], [46], [37],
            [0x2030], [78, 97, 78], [73], [45, 73], 2, 2, 2, 1, 0, 0, 1, 1⟩ =
        .ok [49, 46, 50, 51, 69, 43, 48, 51] ∧
      NumberToStringFormat ⟨15, 4, false, [49, 50, 51, 52]⟩ [48, 46, 48, 48, 69, 48, 48]
          ⟨[3], [3], [3], [43], [45], [46], [44], [44], [46], [36], [44], [46], [37],
            [0x2030], [78, 97, 78], [73], [45, 73], 2, 2, 2, 1, 0, 0, 1, 1⟩ =
        .ok [49, 46, 50, 51, 69, 48, 51] ∧
      NumberToStringFormat ⟨15, 4, false, [49, 50, 51, 52]⟩ [48, 46, 48, 48, 69, 45, 48, 48]
          ⟨[3], [3], [3], [43], [45], [46], [44], [44], [46], [36], [44], [46], [37],
            [0x2030], [78, 97, 78], [73], [45, 73], 2, 2, 2, 1, 0, 0, 1, 1⟩ =
        .ok [49, 46, 50, 51, 69, 48, 51] ∧
      NumberToStringFormat ⟨15, -2, false, [49, 50, 51, 52]⟩ [48, 46, 48, 48, 69, 43, 48, 48]
          ⟨[3], [3], [3], [43], [45], [46], [44], [44], [46], [36], [44], [46], [37],
            [0x2030], [78, 97, 78], [73], [45, 73], 2, 2, 2, 1, 0, 0, 1, 1⟩ =
        .ok [49, 46, 50, 51, 69, 45, 48, 51] ∧
      NumberToStringFormat ⟨15, -2, false, [49, 50, 51, 52]⟩ [48, 46, 48, 48, 69, 48, 48]
          ⟨[3], [3], [3], [43], [45], [46], [44], [44], [46], [36], [44], [46], [37],
            [0x2030], [78, 97, 78], [73], [45, 73], 2, 2, 2, 1, 0, 0, 1, 1⟩ =
        .ok [49, 46, 50, 51, 69, 45, 48, 51] := by
  refine ⟨fun t ht => ?_, NumberToStringFormat_scientific_examples⟩
  obtain ⟨tc, hinfo⟩ := pictureSetup_info number format
  have hexp : scientificExponent number format =
      if wcharAt (pictureSetup number format).2.2.digits 0 = 0 then 0
      else wrapInt32 ((pictureSetup number format).2.2.scale -
        (pictureSetup number format).2.1.decimalPos) := rfl
  rw [hexp]
  generalize hsu : pictureSetup number format = su at hsect hinfo ⊢
  obtain ⟨sect, info, r⟩ := su
  dsimp only at hsect hinfo ⊢
  have hsci : info.scientific = true := by
    rw [hinfo]
    exact parsePicture_marker_tokens format sect tc pre ch sgn m post hsect hpre hmark hm
  obtain ⟨seps, htext⟩ := NumberToStringFormat_text number format numfmt sect info r hsu t ht
  rw [htext]
  generalize (if info.firstDigit < info.decimalPos then info.decimalPos - info.firstDigit
    else 0) = fd
  generalize (if info.lastDigit > info.decimalPos then info.decimalPos - info.lastDigit
    else 0) = ld
  generalize (info.thousandSeps && decide (numfmt.cNumberGroup.length ≠ 0)) = ts
  generalize hst0 : ({ src := sect
                       dst := if r.sign ∧ sect = 0 then numfmt.sNegative else []
                       dig := r.digits
                       digPos :=
                         if info.scientific then info.decimalPos
                         else if r.scale > info.decimalPos then r.scale else info.decimalPos
                       adjust := if info.scientific then 0
                         else wrapInt32 (r.scale - info.decimalPos)
                       seps := seps
                       scientific := info.scientific
                       decimalWritten := false } : PictureState) = st0
  have hsrc0 : st0.src = sect := by rw [← hst0]
  have hsci0 : st0.scientific = true := by rw [← hst0]; exact hsci
  -- the tokens in front of the marker
  rw [pictureLoop_tokens r format numfmt info fd ld ts pre _ st0 _ (by rw [hsrc0]; exact hsect)
    hpre (by omega)]
  have hsci1 := renderTokens_scientific r numfmt info fd ld ts pre _ st0 hpre hfirst
  rw [hsci0] at hsci1
  generalize hst1 : ({ renderTokens r numfmt info fd ld ts pre st0 with
    src := st0.src + (tokensText pre).length } : PictureState) = st1
  have hsrc1 : st1.src = sect + (tokensText pre).length := by rw [← hst1, hsrc0]
  have hs1 : st1.scientific = true := by rw [← hst1]; exact hsci1
  -- the marker
  have hlen : sect + (tokensText pre).length < format.length := by
    have := drop_of_drop format sect _ _ hsect
    exact lt_length_of_drop format _ ch _ this
  rw [pictureLoop_token r format numfmt info fd ld ts (PictureToken.exponent ch sgn m) post st1
    (by rw [hsrc1]; exact drop_of_drop format sect _ _ hsect) hmark _ (by omega)]
  obtain ⟨Y, hY⟩ := pictureLoop_appends r format numfmt info fd ld ts (format.length + 1)
    { renderToken r numfmt info fd ld ts (PictureToken.exponent ch sgn m) st1 with
      src := st1.src + (PictureToken.exponent ch sgn m).text.length }
  rw [hY]
  refine ⟨st1.dst, Y, ?_⟩
  congr 1
  simp only [renderToken, hs1, hm, and_self, if_true]
  have hr := wrapInt32_range (r.scale - info.decimalPos)
  rw [FormatExponent_eq _ _ _ _ _ _
    (by split <;> omega) (by split <;> omega)]
  have hmin : (if (m : Int) > 10 then (10 : Int) else (m : Int)).toNat = min 10 m := by
    split <;> omega
  rw [hmin]
  congr 2
  by_cases hs : sgn = [43]
  · simp [hs]
  · simp [hs]

/-- Witness for `NumberToStringFormat_marker_sign`: the value `-0.001234` with
the picture `'e'#,0.00E+00 x;(0E0)` is rendered by the second section, whose
marker `E0` comes after the tokens `(` and `0`: the text is `(1E-3)`. -/
theorem NumberToStringFormat_marker_sign_witness :
    ∃ X Y, [40, 49, 69, 45, 51, 41] = X ++ [69] ++
      (if scientificExponent ⟨15, -2, true, [49, 50, 51, 52]⟩
          [39, 101, 39, 35, 44, 48, 46, 48, 48, 69, 43, 48, 48, 32, 120, 59, 40, 48, 69, 48,
            41] < 0 then [45]
       else if ([] : List Nat) = [43] then [43] else []) ++
      decimalPadded (min 10 1)
        (scientificExponent ⟨15, -2, true, [49, 50, 51, 52]⟩
          [39, 101, 39, 35, 44, 48, 46, 48, 48, 69, 43, 48, 48, 32, 120, 59, 40, 48, 69, 48,
            41]).natAbs ++ Y :=
  (NumberToStringFormat_marker_sign ⟨15, -2, true, [49, 50, 51, 52]⟩
    [39, 101, 39, 35, 44, 48, 46, 48, 48, 69, 43, 48, 48, 32, 120, 59, 40, 48, 69, 48, 41]
    ⟨[3], [3], [3], [43], [45], [46], [44], [44], [46], [36], [44], [46], [37],
      [0x2030], [78, 97, 78], [73], [45, 73], 2, 2, 2, 1, 0, 0, 1, 1⟩
    [.plain 40, .plain 48] 69 [] 1 [41]
    (by decide) (by decide) (by decide) (by decide) (by decide)).1
    [40, 49, 69, 45, 51, 41] (by decide!)

/-- The picture `'e'#,0.00E+00 x;(0E0)`, with a quoted literal, a group
separator, text after the marker and a second section: `1234` is `e12.34E+02 x`
and `-0.001234` is `(1E-3)`. -/
theorem NumberToStringFormat_marker_sign_examples :
    NumberToStringFormat ⟨15, 4, false, [49, 50, 51, 52]⟩
        [39, 101, 39, 35, 44, 48, 46, 48, 48, 69, 43, 48, 48, 32, 120, 59, 40, 48, 69, 48, 41]
        ⟨[3], [3], [3], [43], [45], [46], [44], [44], [46], [36], [44], [46], [37],
          [0x2030], [78, 97, 78], [73], [45, 73], 2, 2, 2, 1, 0, 0, 1, 1⟩ =
        .ok [101, 49, 50, 46, 51, 52, 69, 43, 48, 50, 32, 120] ∧
      NumberToStringFormat ⟨15, -2, true, [49, 50, 51, 52]⟩
        [39, 101, 39, 35, 44, 48, 46, 48, 48, 69, 43, 48, 48, 32, 120, 59, 40, 48, 69, 48, 41]
        ⟨[3], [3], [3], [43], [45], [46], [44], [44], [46], [36], [44], [46], [37],
          [0x2030], [78, 97, 78], [73], [45, 73], 2, 2, 2, 1, 0, 0, 1, 1⟩ =
        .ok [40, 49, 69, 45, 51, 41] := by
  refine ⟨by decide!, by decide!⟩

/-! ## The digits a picture has no placeholder for -/

/-- The case of the first `switch` for a plain code unit. -/
theorem parseToken_plain (c : Nat)
    (hp : c ≠ 0 ∧ c ≠ 59 ∧ c ≠ 39 ∧ c ≠ 34 ∧ c ≠ 92 ∧ c ≠ 69 ∧ c ≠ 101) (st : PictureInfo) :
    parseToken (.plain c) st =
      if c = 35 then { st with digitCount := st.digitCount + 1 }
      else if c = 48 then
        { st with
          firstDigit := if st.firstDigit = 0x7FFFFFFF then st.digitCount else st.firstDigit
          digitCount := st.digitCount + 1
          lastDigit := st.digitCount + 1 }
      else if c = 46 then
        (if st.decimalPos < 0 then { st with decimalPos := st.digitCount } else st)
      else if c = 44 then
        (if st.digitCount > 0 ∧ st.decimalPos < 0 then
          (if st.thousandPos ≥ 0 ∧ st.thousandPos = st.digitCount then
            { st with thousandCount := st.thousandCount + 1 }
           else
            { st with
              thousandSeps := if st.thousandPos ≥ 0 then true else st.thousandSeps
              thousandPos := st.digitCount
              thousandCount := 1 })
         else st)
      else if c = 37 then
        { st with percent := st.percent + 1, scaleAdjust := wrapInt32 (st.scaleAdjust + 2) }
      else if c = 0x2030 then
        { st with permille := st.permille + 1, scaleAdjust := wrapInt32 (st.scaleAdjust + 3) }
      else st := by
  obtain ⟨h0, h59, h39, h34, h92, h69, h101⟩ := hp
  have h1 : wcharAt [c] 0 = c := rfl
  have c1 : ¬ (c = 0 ∨ c = 59) := by omega
  have c8 : ¬ (c = 39 ∨ c = 34) := by omega
  have c10 : ¬ (c = 69 ∨ c = 101) := by omega
  show parseSectionLoop [c] (0 + 1) 0 st = _
  rw [parseSectionLoop]
  simp only [h1, c1, c8, c10, h92, if_false, parseSectionLoop]

/-- What one token does to `digitCount` and `decimalPos`. -/
theorem parseToken_counts (t : PictureToken) (next : List Nat) (hwf : t.WellFormed next)
    (st : PictureInfo) :
    (t = .plain 46 → (parseToken t st).digitCount = st.digitCount ∧
      (parseToken t st).decimalPos =
        if st.decimalPos < 0 then st.digitCount else st.decimalPos) ∧
    (t.IsPlaceholder → (parseToken t st).digitCount = st.digitCount + 1 ∧
      (parseToken t st).decimalPos = st.decimalPos) ∧
    (t ≠ .plain 46 → ¬ t.IsPlaceholder → (parseToken t st).digitCount = st.digitCount ∧
      (parseToken t st).decimalPos = st.decimalPos) := by
  cases t with
  | plain c =>
    rw [parseToken_plain c hwf]
    by_cases c2 : c = 35
    · subst c2
      simp [PictureToken.IsPlaceholder]
    by_cases c3 : c = 48
    · subst c3
      simp [PictureToken.IsPlaceholder]
    by_cases c4 : c = 46
    · subst c4
      simp only [PictureToken.IsPlaceholder]
      refine ⟨fun _ => ?_, fun h => ?_, fun h => absurd rfl h⟩
      · simp only [Nat.reduceEqDiff, if_false, if_true]
        split <;> simp
      · rcases h with h | h <;> cases h
    rw [if_neg c2, if_neg c3, if_neg c4]
    refine ⟨fun h => ?_, fun h => ?_, fun _ _ => ?_⟩
    · cases h; exact absurd rfl c4
    · rcases h with h | h
      · cases h; exact absurd rfl c2
      · cases h; exact absurd rfl c3
    · by_cases c5 : c = 44
      · rw [if_pos c5]
        split
        · split <;> exact ⟨rfl, rfl⟩
        · exact ⟨rfl, rfl⟩
      rw [if_neg c5]
      by_cases c6 : c = 37
      · rw [if_pos c6]; exact ⟨rfl, rfl⟩
      rw [if_neg c6]
      by_cases c7 : c = 0x2030
      · rw [if_pos c7]; exact ⟨rfl, rfl⟩
      rw [if_neg c7]
      exact ⟨rfl, rfl⟩
  | quoted q body =>
    refine ⟨fun h => (by cases h), fun h => ?_, fun _ _ => ⟨rfl, rfl⟩⟩
    rcases h with h | h <;> cases h
  | openQuote q body =>
    refine ⟨fun h => (by cases h), fun h => ?_, fun _ _ => ⟨rfl, rfl⟩⟩
    rcases h with h | h <;> cases h
  | escaped c =>
    refine ⟨fun h => (by cases h), fun h => ?_, fun _ _ => ⟨rfl, rfl⟩⟩
    rcases h with h | h <;> cases h
  | backslash =>
    refine ⟨fun h => (by cases h), fun h => ?_, fun _ _ => ⟨rfl, rfl⟩⟩
    rcases h with h | h <;> cases h
  | exponent ch sign zeros =>
    refine ⟨fun h => (by cases h), fun h => ?_, fun _ _ => ?_⟩
    · rcases h with h | h <;> cases h
    · simp only [parseToken]
      split <;> exact ⟨rfl, rfl⟩

/-- Once the decimal point is met its position stays. -/
theorem parseTokens_decimalPos_fixed (toks : List PictureToken) (next : List Nat) :
    ∀ st : PictureInfo, TokensWellFormed toks next → 0 ≤ st.decimalPos →
      (parseTokens toks st).decimalPos = st.decimalPos := by
  induction toks with
  | nil => intro st _ _; rfl
  | cons t ts ih =>
    intro st hwf h0
    obtain ⟨hpt, hph, hot⟩ := parseToken_counts t _ hwf.1 st
    have hd : (parseToken t st).decimalPos = st.decimalPos := by
      by_cases h46 : t = .plain 46
      · rw [(hpt h46).2, if_neg (by omega)]
      · by_cases hp : t.IsPlaceholder
        · exact (hph hp).2
        · exact (hot h46 hp).2
    show (parseTokens ts (parseToken t st)).decimalPos = st.decimalPos
    rw [ih _ hwf.2 (by rw [hd]; exact h0), hd]

/-- The decimal point position after the tokens of a section whose decimal
point has not been met: the integer placeholders are counted up to the first
decimal point. -/
theorem parseTokens_decimalPos (toks : List PictureToken) (next : List Nat) :
    ∀ st : PictureInfo, TokensWellFormed toks next → st.decimalPos < 0 → 0 ≤ st.digitCount →
      ((parseTokens toks st).decimalPos < 0 ∧
        (parseTokens toks st).digitCount = st.digitCount + (integerPlaceholders toks : Int)) ∨
      (parseTokens toks st).decimalPos = st.digitCount + (integerPlaceholders toks : Int) := by
  induction toks with
  | nil =>
    intro st _ h1 _
    left
    exact ⟨h1, by simp [parseTokens, integerPlaceholders]⟩
  | cons t ts ih =>
    intro st hwf h1 h2
    obtain ⟨hpt, hph, hot⟩ := parseToken_counts t _ hwf.1 st
    show ((parseTokens ts (parseToken t st)).decimalPos < 0 ∧
        (parseTokens ts (parseToken t st)).digitCount =
          st.digitCount + (integerPlaceholders (t :: ts) : Int)) ∨
      (parseTokens ts (parseToken t st)).decimalPos =
        st.digitCount + (integerPlaceholders (t :: ts) : Int)
    by_cases h46 : t = .plain 46
    · right
      have hd := (hpt h46).2
      rw [if_pos h1] at hd
      rw [parseTokens_decimalPos_fixed ts next _ hwf.2 (by rw [hd]; exact h2), hd]
      simp [integerPlaceholders, h46]
    · by_cases hp : t.IsPlaceholder
      · obtain ⟨e1, e2⟩ := hph hp
        have := ih (parseToken t st) hwf.2 (by rw [e2]; exact h1) (by rw [e1]; omega)
        rw [e1] at this
        simp only [integerPlaceholders, h46, hp, if_false, if_true]
        push_cast
        rcases this with ⟨a, b⟩ | b
        · left; exact ⟨a, by rw [b]; ring⟩
        · right; rw [b]; ring
      · obtain ⟨e1, e2⟩ := hot h46 hp
        have := ih (parseToken t st) hwf.2 (by rw [e2]; exact h1) (by rw [e1]; exact h2)
        rw [e1] at this
        simp only [integerPlaceholders, h46, hp, if_false]
        push_cast
        rcases this with ⟨a, b⟩ | b
        · left; exact ⟨a, by rw [b]; ring⟩
        · right; rw [b]; ring

theorem parseToken_scientific (t : PictureToken) (next : List Nat) (hwf : t.WellFormed next)
    (hm : ¬ t.IsMarker) (st : PictureInfo) :
    (parseToken t st).scientific = st.scientific := by
  cases t with
  | plain c =>
    rw [parseToken_plain c hwf]
    split_ifs <;> rfl
  | quoted q body => rfl
  | openQuote q body => rfl
  | escaped c => rfl
  | backslash => rfl
  | exponent ch sign zeros =>
    have hz : ¬ (1 ≤ zeros) := hm
    simp only [parseToken, hz, if_false]

theorem parseTokens_scientific (toks : List PictureToken) (next : List Nat) :
    ∀ st : PictureInfo, TokensWellFormed toks next → (∀ t ∈ toks, ¬ t.IsMarker) →
      (parseTokens toks st).scientific = st.scientific := by
  induction toks with
  | nil => intro st _ _; rfl
  | cons t ts ih =>
    intro st hwf hm
    show (parseTokens ts (parseToken t st)).scientific = st.scientific
    rw [ih _ hwf.2 (fun x hx => hm x (List.mem_cons_of_mem _ hx)),
      parseToken_scientific t _ hwf.1 (hm t (List.mem_cons_self _ _))]

/-- The locals after `ParseSection` on a section without a scientific marker:
`decimalPos` is the number of integer placeholders. -/
theorem parsePicture_integer_placeholders (format : List Nat) (sect : Nat) (tc : Int)
    (toks : List PictureToken) (tail : List Nat)
    (hs : format.drop sect = tokensText toks ++ tail) (hwf : TokensWellFormed toks tail)
    (ht : wcharAt tail 0 = 0 ∨ wcharAt tail 0 = 59) (hnon : ∀ t ∈ toks, ¬ t.IsMarker) :
    (parsePicture format sect tc).decimalPos = (integerPlaceholders toks : Int) ∧
      (parsePicture format sect tc).scientific = false := by
  constructor
  · unfold parsePicture
    rw [parseSectionLoop_section format toks sect tail _ hs hwf ht]
    have h := parseTokens_decimalPos toks tail
      { digitCount := 0
        decimalPos := -1
        firstDigit := 0x7FFFFFFF
        lastDigit := 0
        scientific := false
        percent := 0
        permille := 0
        thousandPos := -1
        thousandCount := tc
        thousandSeps := false
        scaleAdjust := 0 } hwf (show (-1 : Int) < 0 by decide) (le_refl (0 : Int))
    dsimp only at h ⊢
    generalize parseTokens toks
      { digitCount := 0
        decimalPos := -1
        firstDigit := 0x7FFFFFFF
        lastDigit := 0
        scientific := false
        percent := 0
        permille := 0
        thousandPos := -1
        thousandCount := tc
        thousandSeps := false
        scaleAdjust := 0 } = p at h ⊢
    rw [Int.zero_add] at h
    rcases h with ⟨a, b⟩ | b
    · rw [if_pos a]
      dsimp only
      split
      · split <;> exact b
      · exact b
    · have hn : ¬ p.decimalPos < 0 := by rw [b]; omega
      rw [if_neg hn]
      split
      · split <;> exact b
      · exact b
  · rw [parsePicture_scientific, parseSectionLoop_section format toks sect tail _ hs hwf ht,
      parseTokens_scientific toks tail _ hwf hnon]

/-! ## The digits the output loop writes -/

theorem copyDigits_buffer (n : Nat) : ∀ (buffer dig : List Nat),
    copyDigits n buffer dig = (buffer ++ (copyDigits n [] dig).1, (copyDigits n [] dig).2) := by
  induction n with
  | zero => intro b d; simp [copyDigits]
  | succ n ih =>
    intro b d
    rw [copyDigits, ih (b ++ [(nextDigit d).1]), copyDigits, ih ([] ++ [(nextDigit d).1])]
    simp

theorem addGroupSeparator_appends (numfmt : NumberFormatInfo) (ts : Bool) (digPos : Int)
    (dst : List Nat) (seps : List Int) :
    ∃ Z, (addGroupSeparator numfmt ts digPos dst seps).1 = dst ++ Z := by
  cases seps with
  | nil => exact ⟨[], by simp [addGroupSeparator]⟩
  | cons top rest =>
    unfold addGroupSeparator
    dsimp only
    split
    · exact ⟨_, rfl⟩
    · exact ⟨[], by simp⟩

/-- The overflow loop writes the next `n` digits, in order, with group
separators between them at most. -/
theorem emitOverflowDigits_digits (numfmt : NumberFormatInfo) (ts : Bool) (n : Nat) :
    ∀ st : PictureState,
      ∃ Y, (emitOverflowDigits numfmt ts n st).dst = st.dst ++ Y ∧
        (copyDigits n [] st.dig).1.Sublist Y ∧
        (emitOverflowDigits numfmt ts n st).dig = (copyDigits n [] st.dig).2 ∧
        (emitOverflowDigits numfmt ts n st).digPos = st.digPos - n ∧
        (emitOverflowDigits numfmt ts n st).adjust = st.adjust - n := by
  induction n with
  | zero =>
    intro st
    exact ⟨[], by simp [emitOverflowDigits], by simp [copyDigits], rfl,
      by simp [emitOverflowDigits], by simp [emitOverflowDigits]⟩
  | succ n ih =>
    intro st
    obtain ⟨Z, hZ⟩ := addGroupSeparator_appends numfmt ts st.digPos
      (st.dst ++ [(nextDigit st.dig).1]) st.seps
    rw [emitOverflowDigits]
    obtain ⟨Y, h1, h2, h3, h4, h5⟩ := ih
      { st with
        dst := (addGroupSeparator numfmt ts st.digPos (st.dst ++ [(nextDigit st.dig).1])
          st.seps).1
        dig := (nextDigit st.dig).2
        seps := (addGroupSeparator numfmt ts st.digPos (st.dst ++ [(nextDigit st.dig).1])
          st.seps).2
        digPos := st.digPos - 1
        adjust := st.adjust - 1 }
    dsimp only at h1 h2 h3 h4 h5 ⊢
    refine ⟨[(nextDigit st.dig).1] ++ Z ++ Y, ?_, ?_, ?_, ?_, ?_⟩
    · rw [h1, hZ]
      simp only [List.append_assoc]
    · rw [copyDigits, copyDigits_buffer]
      dsimp only
      rw [List.nil_append, List.append_assoc]
      exact List.Sublist.append (List.Sublist.refl _)
        (h2.trans (List.sublist_append_right Z Y))
    · rw [h3, copyDigits, copyDigits_buffer n ([] ++ _)]
    · rw [h4]
      push_cast
      ring
    · rw [h5]
      push_cast
      ring

theorem pictureStep_appends (number : NUMBER) (format : List Nat) (numfmt : NumberFormatInfo)
    (info : PictureInfo) (fd ld : Int) (ts : Bool) (c : Nat) (st : PictureState) :
    ∃ Z, (pictureStep number format numfmt info fd ld ts c st).dst = st.dst ++ Z := by
  have h := pictureStep_dst_extends number format numfmt info fd ld ts c st.dst
    { st with dst := [] }
  simp only [List.append_nil] at h
  have e : ({ st with dst := st.dst } : PictureState) = st := rfl
  rw [e] at h
  exact ⟨_, by rw [h]⟩

/-- A token that is no placeholder, no decimal point and no scientific marker
only appends to the text. -/
theorem renderToken_inert (number : NUMBER) (numfmt : NumberFormatInfo) (info : PictureInfo)
    (fd ld : Int) (ts : Bool) (t : PictureToken) (next : List Nat) (hwf : t.WellFormed next)
    (hm : ¬ t.IsMarker) (h46 : t ≠ .plain 46) (hp : ¬ t.IsPlaceholder) (st : PictureState) :
    (renderToken number numfmt info fd ld ts t st).dig = st.dig ∧
      (renderToken number numfmt info fd ld ts t st).digPos = st.digPos ∧
      (renderToken number numfmt info fd ld ts t st).adjust = st.adjust ∧
      ∃ Z, (renderToken number numfmt info fd ld ts t st).dst = st.dst ++ Z := by
  cases t with
  | plain c =>
    obtain ⟨h0, h59, h39, h34, h92, h69, h101⟩ := hwf
    have c35 : c ≠ 35 := fun h => hp (Or.inl (by rw [h]))
    have c48 : c ≠ 48 := fun h => hp (Or.inr (by rw [h]))
    have c46 : c ≠ 46 := fun h => h46 (by rw [h])
    have hno : ¬ (st.adjust > 0 ∧ (c = 35 ∨ c = 48 ∨ c = 46)) := by
      rintro ⟨-, h | h | h⟩
      · exact c35 h
      · exact c48 h
      · exact c46 h
    have h1 : ¬ (c = 35 ∨ c = 48) := by omega
    have h6 : ¬ (c = 39 ∨ c = 34) := by omega
    have h8 : ¬ (c = 69 ∨ c = 101) := by omega
    simp only [renderToken]
    rw [if_neg hno]
    unfold pictureStep
    rw [if_neg h1, if_neg c46]
    by_cases c3 : c = 0x2030
    · rw [if_pos c3]; exact ⟨rfl, rfl, rfl, _, rfl⟩
    rw [if_neg c3]
    by_cases c4 : c = 37
    · rw [if_pos c4]; exact ⟨rfl, rfl, rfl, _, rfl⟩
    rw [if_neg c4]
    by_cases c5 : c = 44
    · rw [if_pos c5]; exact ⟨rfl, rfl, rfl, [], by simp⟩
    rw [if_neg c5, if_neg h6, if_neg h92, if_neg h8]
    exact ⟨rfl, rfl, rfl, _, rfl⟩
  | quoted q body => exact ⟨rfl, rfl, rfl, _, rfl⟩
  | openQuote q body => exact ⟨rfl, rfl, rfl, _, rfl⟩
  | escaped c => exact ⟨rfl, rfl, rfl, _, rfl⟩
  | backslash => exact ⟨rfl, rfl, rfl, [], by simp [renderToken]⟩
  | exponent ch sign zeros =>
    have hz : ¬ (1 ≤ zeros) := hm
    have hno : ¬ (st.scientific = true ∧ 1 ≤ zeros) := fun h => hz h.2
    simp only [renderToken]
    rw [if_neg hno]
    exact ⟨rfl, rfl, rfl, _, rfl⟩

theorem renderToken_appends (number : NUMBER) (numfmt : NumberFormatInfo) (info : PictureInfo)
    (fd ld : Int) (ts : Bool) (t : PictureToken) (next : List Nat) (hwf : t.WellFormed next)
    (hm : ¬ t.IsMarker) (st : PictureState) :
    ∃ Z, (renderToken number numfmt info fd ld ts t st).dst = st.dst ++ Z := by
  by_cases h46 : t ≠ .plain 46 ∧ ¬ t.IsPlaceholder
  · exact (renderToken_inert number numfmt info fd ld ts t next hwf hm h46.1 h46.2 st).2.2.2
  · have hc : ∃ c, t = .plain c := by
      by_cases h : t = .plain 46
      · exact ⟨46, h⟩
      · have hp : t.IsPlaceholder := by
          by_contra hp
          exact h46 ⟨h, hp⟩
        rcases hp with hp | hp
        · exact ⟨35, hp⟩
        · exact ⟨48, hp⟩
    obtain ⟨c, rfl⟩ := hc
    simp only [renderToken]
    split
    · obtain ⟨Y, hY, -⟩ := emitOverflowDigits_digits numfmt ts st.adjust.toNat st
      obtain ⟨Z, hZ⟩ := pictureStep_appends number [] numfmt info fd ld ts c
        (emitOverflowDigits numfmt ts st.adjust.toNat st)
      exact ⟨Y ++ Z, by rw [hZ, hY, List.append_assoc]⟩
    · exact pictureStep_appends number [] numfmt info fd ld ts c st

theorem renderTokens_appends (number : NUMBER) (numfmt : NumberFormatInfo) (info : PictureInfo)
    (fd ld : Int) (ts : Bool) (toks : List PictureToken) (next : List Nat) :
    ∀ st : PictureState, TokensWellFormed toks next → (∀ t ∈ toks, ¬ t.IsMarker) →
      ∃ Y, (renderTokens number numfmt info fd ld ts toks st).dst = st.dst ++ Y := by
  induction toks with
  | nil => intro st _ _; exact ⟨[], by simp [renderTokens]⟩
  | cons t ts' ih =>
    intro st hwf hm
    obtain ⟨Z, hZ⟩ := renderToken_appends number numfmt info fd ld ts t _ hwf.1
      (hm t (List.mem_cons_self _ _)) st
    obtain ⟨Y, hY⟩ := ih (renderToken number numfmt info fd ld ts t st) hwf.2
      (fun x hx => hm x (List.mem_cons_of_mem _ hx))
    refine ⟨Z ++ Y, ?_⟩
    show (renderTokens number numfmt info fd ld ts ts'
      (renderToken number numfmt info fd ld ts t st)).dst = _
    rw [hY, hZ, List.append_assoc]

/-- A placeholder of the integer part, once the digits without a placeholder
are written: it writes the next digit. -/
theorem pictureStep_integer_digit (number : NUMBER) (format : List Nat)
    (numfmt : NumberFormatInfo) (info : PictureInfo) (fd ld : Int) (ts : Bool) (c : Nat)
    (hc : c = 35 ∨ c = 48) (st : PictureState) (ha : st.adjust = 0) (hd : st.digPos > ld) :
    pictureStep number format numfmt info fd ld ts c st =
      { st with
        dst := (addGroupSeparator numfmt ts st.digPos (st.dst ++ [(nextDigit st.dig).1])
          st.seps).1
        dig := (nextDigit st.dig).2
        seps := (addGroupSeparator numfmt ts st.digPos (st.dst ++ [(nextDigit st.dig).1])
          st.seps).2
        digPos := st.digPos - 1 } := by
  have hnl : ¬ (st.adjust < 0) := by omega
  unfold pictureStep
  rw [if_pos hc]
  simp only [hnl, if_false, placeholder_digit _ _ _ hd, nextDigit_fst_ne_zero, ne_eq,
    not_false_eq_true, if_true]

/-- The tokens of a section once the digits without a placeholder are written:
every integer placeholder writes its digit. -/
theorem renderTokens_placeholders (number : NUMBER) (numfmt : NumberFormatInfo)
    (info : PictureInfo) (fd ld : Int) (ts : Bool) (hld : ld ≤ 0) (toks : List PictureToken)
    (next : List Nat) :
    ∀ st : PictureState, TokensWellFormed toks next → (∀ t ∈ toks, ¬ t.IsMarker) →
      st.adjust = 0 → st.digPos = (integerPlaceholders toks : Int) →
      ∃ Y, (renderTokens number numfmt info fd ld ts toks st).dst = st.dst ++ Y ∧
        (copyDigits (integerPlaceholders toks) [] st.dig).1.Sublist Y := by
  induction toks with
  | nil =>
    intro st _ _ _ _
    exact ⟨[], by simp [renderTokens], by simp [integerPlaceholders, copyDigits]⟩
  | cons t ts' ih =>
    intro st hwf hm ha hd
    have hm' : ∀ x ∈ ts', ¬ x.IsMarker := fun x hx => hm x (List.mem_cons_of_mem _ hx)
    by_cases h46 : t = .plain 46
    · obtain ⟨Y, hY⟩ := renderTokens_appends number numfmt info fd ld ts (t :: ts') next st
        hwf hm
      refine ⟨Y, hY, ?_⟩
      simp [integerPlaceholders, h46, copyDigits]
    by_cases hp : t.IsPlaceholder
    · have hip : integerPlaceholders (t :: ts') = integerPlaceholders ts' + 1 := by
        simp only [integerPlaceholders, h46, hp, if_false, if_true]
        omega
      have hc : ∃ c, t = .plain c ∧ (c = 35 ∨ c = 48) := by
        rcases hp with hp | hp
        · exact ⟨35, hp, Or.inl rfl⟩
        · exact ⟨48, hp, Or.inr rfl⟩
      obtain ⟨c, rfl, hc⟩ := hc
      have hno : ¬ (st.adjust > 0 ∧ (c = 35 ∨ c = 48 ∨ c = 46)) := by
        rintro ⟨h, -⟩
        omega
      have hstep : renderToken number numfmt info fd ld ts (.plain c) st =
          { st with
            dst := (addGroupSeparator numfmt ts st.digPos (st.dst ++ [(nextDigit st.dig).1])
              st.seps).1
            dig := (nextDigit st.dig).2
            seps := (addGroupSeparator numfmt ts st.digPos (st.dst ++ [(nextDigit st.dig).1])
              st.seps).2
            digPos := st.digPos - 1 } := by
        simp only [renderToken]
        rw [if_neg hno]
        exact pictureStep_integer_digit number [] numfmt info fd ld ts c hc st ha
          (by rw [hd, hip]; push_cast; omega)
      obtain ⟨Z, hZ⟩ := addGroupSeparator_appends numfmt ts st.digPos
        (st.dst ++ [(nextDigit st.dig).1]) st.seps
      obtain ⟨Y, h1, h2⟩ := ih
        { st with
          dst := (addGroupSeparator numfmt ts st.digPos (st.dst ++ [(nextDigit st.dig).1])
            st.seps).1
          dig := (nextDigit st.dig).2
          seps := (addGroupSeparator numfmt ts st.digPos (st.dst ++ [(nextDigit st.dig).1])
            st.seps).2
          digPos := st.digPos - 1 } hwf.2 hm' ha (by dsimp only; rw [hd, hip]; push_cast; omega)
      dsimp only at h1 h2
      refine ⟨[(nextDigit st.dig).1] ++ Z ++ Y, ?_, ?_⟩
      · show (renderTokens number numfmt info fd ld ts ts'
          (renderToken number numfmt info fd ld ts (.plain c) st)).dst = _
        rw [hstep, h1, hZ]
        simp only [List.append_assoc]
      · rw [hip, copyDigits, copyDigits_buffer]
        dsimp only
        rw [List.nil_append, List.append_assoc]
        exact List.Sublist.append (List.Sublist.refl _)
          (h2.trans (List.sublist_append_right Z Y))
    · have hip : integerPlaceholders (t :: ts') = integerPlaceholders ts' := by
        simp only [integerPlaceholders, h46, hp, if_false]
        omega
      obtain ⟨e1, e2, e3, Z, hZ⟩ := renderToken_inert number numfmt info fd ld ts t _ hwf.1
        (hm t (List.mem_cons_self _ _)) h46 hp st
      obtain ⟨Y, h1, h2⟩ := ih (renderToken number numfmt info fd ld ts t st) hwf.2 hm'
        (by rw [e3]; exact ha) (by rw [e2, hd, hip])
      refine ⟨Z ++ Y, ?_, ?_⟩
      · show (renderTokens number numfmt info fd ld ts ts'
          (renderToken number numfmt info fd ld ts t st)).dst = _
        rw [h1, hZ, List.append_assoc]
      · rw [hip]
        rw [e1] at h2
        exact h2.trans (List.sublist_append_right Z Y)

/-- The tokens of a section while digits without a placeholder are pending:
the first placeholder or decimal point writes them, and the integer
placeholders write the digits that follow. -/
theorem renderTokens_overflow (number : NUMBER) (numfmt : NumberFormatInfo)
    (info : PictureInfo) (fd ld : Int) (ts : Bool) (hld : ld ≤ 0) (toks : List PictureToken)
    (next : List Nat) :
    ∀ st : PictureState, TokensWellFormed toks next → (∀ t ∈ toks, ¬ t.IsMarker) →
      (∃ t ∈ toks, t.IsPlaceholder ∨ t = .plain 46) → 0 < st.adjust →
      st.digPos = st.adjust + (integerPlaceholders toks : Int) →
      ∃ Y, (renderTokens number numfmt info fd ld ts toks st).dst = st.dst ++ Y ∧
        (copyDigits (st.adjust.toNat + integerPlaceholders toks) [] st.dig).1.Sublist Y := by
  induction toks with
  | nil =>
    intro st _ _ hex _ _
    obtain ⟨t, ht, -⟩ := hex
    cases ht
  | cons t ts' ih =>
    intro st hwf hm hex ha hd
    have hm' : ∀ x ∈ ts', ¬ x.IsMarker := fun x hx => hm x (List.mem_cons_of_mem _ hx)
    by_cases hdp : t.IsPlaceholder ∨ t = .plain 46
    · have hc : ∃ c, t = .plain c ∧ (c = 35 ∨ c = 48 ∨ c = 46) := by
        rcases hdp with (hp | hp) | hp
        · exact ⟨35, hp, Or.inl rfl⟩
        · exact ⟨48, hp, Or.inr (Or.inl rfl)⟩
        · exact ⟨46, hp, Or.inr (Or.inr rfl)⟩
      obtain ⟨c, rfl, hc⟩ := hc
      obtain ⟨Y1, g1, g2, g3, g4, g5⟩ := emitOverflowDigits_digits numfmt ts st.adjust.toNat st
      have ha1 : (emitOverflowDigits numfmt ts st.adjust.toNat st).adjust = 0 := by
        rw [g5]; omega
      have hsame : renderToken number numfmt info fd ld ts (.plain c) st =
          renderToken number numfmt info fd ld ts (.plain c)
            (emitOverflowDigits numfmt ts st.adjust.toNat st) := by
        simp only [renderToken]
        rw [if_pos ⟨ha, hc⟩, if_neg (fun h => absurd h.1 (by rw [ha1]; decide))]
      obtain ⟨Y2, k1, k2⟩ := renderTokens_placeholders number numfmt info fd ld ts hld
        (.plain c :: ts') next (emitOverflowDigits numfmt ts st.adjust.toNat st) hwf hm ha1
        (by rw [g4, hd]; omega)
      refine ⟨Y1 ++ Y2, ?_, ?_⟩
      · show (renderTokens number numfmt info fd ld ts ts'
          (renderToken number numfmt info fd ld ts (.plain c) st)).dst = _
        rw [hsame]
        show (renderTokens number numfmt info fd ld ts (.plain c :: ts')
          (emitOverflowDigits numfmt ts st.adjust.toNat st)).dst = _
        rw [k1, g1, List.append_assoc]
      · rw [copyDigits_add, copyDigits_buffer]
        dsimp only
        rw [g3] at k2
        exact List.Sublist.append g2 k2
    · have h46 : t ≠ .plain 46 := fun h => hdp (Or.inr h)
      have hp : ¬ t.IsPlaceholder := fun h => hdp (Or.inl h)
      have hip : integerPlaceholders (t :: ts') = integerPlaceholders ts' := by
        simp only [integerPlaceholders, h46, hp, if_false]
        omega
      obtain ⟨e1, e2, e3, Z, hZ⟩ := renderToken_inert number numfmt info fd ld ts t _ hwf.1
        (hm t (List.mem_cons_self _ _)) h46 hp st
      have hex' : ∃ x ∈ ts', x.IsPlaceholder ∨ x = .plain 46 := by
        obtain ⟨x, hx, hx2⟩ := hex
        rcases List.mem_cons.mp hx with h | h
        · rw [h] at hx2
          exact absurd hx2 hdp
        · exact ⟨x, h, hx2⟩
      obtain ⟨Y, h1, h2⟩ := ih (renderToken number numfmt info fd ld ts t st) hwf.2 hm' hex'
        (by rw [e3]; exact ha) (by rw [e2, e3, hd, hip])
      refine ⟨Z ++ Y, ?_, ?_⟩
      · show (renderTokens number numfmt info fd ld ts ts'
          (renderToken number numfmt info fd ld ts t st)).dst = _
        rw [h1, hZ, List.append_assoc]
      · rw [hip]
        rw [e1, e3] at h2
        exact h2.trans (List.sublist_append_right Z Y)

theorem RoundNumber_digits_ne_zero (n : NUMBER) (pos : Int) :
    ∀ c ∈ (RoundNumber n pos).digits, c ≠ 0 := by
  intro c hc
  have h : c ∈ cstr ((if (scanDigits n.digits pos : Int) = pos ∧
      wcharAt n.digits (scanDigits n.digits pos) ≥ 53 then
        if backWhile n.digits 57 (scanDigits n.digits pos) > 0 then
          (backWhile n.digits 57 (scanDigits n.digits pos), n.scale,
            n.digits.set (backWhile n.digits 57 (scanDigits n.digits pos) - 1)
              (toWchar (wcharAt n.digits
                (backWhile n.digits 57 (scanDigits n.digits pos) - 1) + 1)))
        else (1, wrapInt32 (n.scale + 1), n.digits.set 0 49)
      else (backWhile n.digits 48 (scanDigits n.digits pos), n.scale, n.digits)).2.2.take
      (if (scanDigits n.digits pos : Int) = pos ∧
        wcharAt n.digits (scanDigits n.digits pos) ≥ 53 then
        if backWhile n.digits 57 (scanDigits n.digits pos) > 0 then
          (backWhile n.digits 57 (scanDigits n.digits pos), n.scale,
            n.digits.set (backWhile n.digits 57 (scanDigits n.digits pos) - 1)
              (toWchar (wcharAt n.digits
                (backWhile n.digits 57 (scanDigits n.digits pos) - 1) + 1)))
        else (1, wrapInt32 (n.scale + 1), n.digits.set 0 49)
      else (backWhile n.digits 48 (scanDigits n.digits pos), n.scale, n.digits)).1) := hc
  generalize List.take _ _ = l at h
  unfold cstr at h
  have := List.mem_takeWhile_imp h
  simpa using this

theorem RoundNumber_scale_int (n : NUMBER) (pos : Int) (h : n.scale ≤ 2147483647) :
    (RoundNumber n pos).scale ≤ 2147483647 := by
  have key : ∀ st : Nat × Int × List Nat, st.2.1 ≤ 2147483647 →
      (if st.1 = 0 then (0 : Int) else st.2.1) ≤ 2147483647 := by
    intro st hst
    split
    · decide
    · exact hst
  unfold RoundNumber
  dsimp only
  apply key
  split
  · split
    · exact h
    · exact (wrapInt32_range _).2
  · exact h

/-- The set-up of `NumberToStringFormat` when the number it yields has a
positive scale: the section chosen by the sign, and the number scaled by the
section and rounded at its last placeholder. -/
theorem pictureSetup_of_scale_pos (number : NUMBER) (format : List Nat)
    (h : 0 < (pictureSetup number format).2.2.scale) :
    pictureSetup number format =
      (FindSection format
          (if wcharAt number.digits 0 = 0 then 2 else if number.sign = true then 1 else 0),
        parsePicture format (FindSection format
          (if wcharAt number.digits 0 = 0 then 2 else if number.sign = true then 1 else 0)) 0,
        RoundNumber
          { number with
            scale := wrapInt32 (number.scale + (parsePicture format (FindSection format
              (if wcharAt number.digits 0 = 0 then 2
               else if number.sign = true then 1 else 0)) 0).scaleAdjust) }
          (if (parsePicture format (FindSection format
              (if wcharAt number.digits 0 = 0 then 2
               else if number.sign = true then 1 else 0)) 0).scientific = true then
            (parsePicture format (FindSection format
              (if wcharAt number.digits 0 = 0 then 2
               else if number.sign = true then 1 else 0)) 0).digitCount
           else wrapInt32 (wrapInt32 (wrapInt32 (number.scale +
              (parsePicture format (FindSection format
                (if wcharAt number.digits 0 = 0 then 2
                 else if number.sign = true then 1 else 0)) 0).scaleAdjust) +
              (parsePicture format (FindSection format
                (if wcharAt number.digits 0 = 0 then 2
                 else if number.sign = true then 1 else 0)) 0).digitCount) -
              (parsePicture format (FindSection format
                (if wcharAt number.digits 0 = 0 then 2
                 else if number.sign = true then 1 else 0)) 0).decimalPos))) := by
  revert h
  unfold pictureSetup
  dsimp only
  generalize FindSection format
    (if wcharAt number.digits 0 = 0 then 2 else if number.sign = true then 1 else 0) = s0
  by_cases h0 : wcharAt number.digits 0 ≠ 0
  · rw [if_pos h0]
    generalize RoundNumber
      { number with scale := wrapInt32 (number.scale + (parsePicture format s0 0).scaleAdjust) }
      (if (parsePicture format s0 0).scientific = true then (parsePicture format s0 0).digitCount
       else wrapInt32 (wrapInt32 (wrapInt32 (number.scale +
          (parsePicture format s0 0).scaleAdjust) + (parsePicture format s0 0).digitCount) -
          (parsePicture format s0 0).decimalPos)) = rd
    by_cases h1 : wcharAt rd.digits 0 = 0
    · rw [if_pos h1]
      by_cases h2 : FindSection format 2 ≠ s0
      · rw [if_pos h2]
        intro h
        exact absurd h (lt_irrefl 0)
      · rw [if_neg h2]
        intro _
        rfl
    · rw [if_neg h1]
      intro _
      rfl
  · rw [if_neg h0]
    intro h
    exact absurd h (lt_irrefl 0)

/-- C19 (amended): for every picture, every value and the section that
`NumberToStringFormat` renders, read as tokens (placeholders and other plain
characters, quoted text, escaped characters, exponent text): when the section
has no scientific marker, holds a `'#'`, `'0'` or `'.'` outside quotes and
escapes, and the number of the set-up (the value scaled by the section and
rounded at its last placeholder) has more integer digits than the section has
integer placeholders, every text returned contains all the integer digits of
that number, in order, none truncated; literals and group separators may stand
between them. So `123456` (digits `123456`, scale 6) comes out as `123456` with
the picture `00`. -/
theorem NumberToStringFormat_overflow_digits (number : NUMBER) (format : List Nat)
    (numfmt : NumberFormatInfo) (toks : List PictureToken) (tail : List Nat)
    (hsect : format.drop (pictureSetup number format).1 = tokensText toks ++ tail)
    (hwf : TokensWellFormed toks tail)
    (htail : wcharAt tail 0 = 0 ∨ wcharAt tail 0 = 59)
    (hnon : ∀ t ∈ toks, ¬ t.IsMarker)
    (hph : ∃ t ∈ toks, t.IsPlaceholder ∨ t = .plain 46)
    (hmore : (integerPlaceholders toks : Int) < (pictureSetup number format).2.2.scale) :
    (pictureSetup number format).2.1.scientific = false ∧
      (pictureSetup number format).2.1.decimalPos = (integerPlaceholders toks : Int) ∧
      (pictureSetup number format).2.2 =
        RoundNumber
          { number with
            scale := wrapInt32 (number.scale + (pictureSetup number format).2.1.scaleAdjust) }
          (wrapInt32 (wrapInt32 (wrapInt32 (number.scale +
              (pictureSetup number format).2.1.scaleAdjust) +
            (pictureSetup number format).2.1.digitCount) -
            (integerPlaceholders toks : Int))) ∧
      integerPlaceholders toks < (fixedInteger (pictureSetup number format).2.2).length ∧
      (∀ t, NumberToStringFormat number format numfmt = .ok t →
        (fixedInteger (pictureSetup number format).2.2).Sublist t) ∧
      NumberToStringFormat ⟨10, 6, false, [49, 50, 51, 52, 53, 54]⟩ [48, 48]
          ⟨[3], [3], [3], [43], [45], [46], [44], [44], [46], [36], [44], [46], [37],
            [0x2030], [78, 97, 78], [73], [45, 73], 2, 2, 2, 1, 0, 0, 1, 1⟩ =
        .ok [49, 50, 51, 52, 53, 54] := by
  have hpos : 0 < (pictureSetup number format).2.2.scale := by omega
  have hround := pictureSetup_of_scale_pos number format hpos
  obtain ⟨tc, hinfo⟩ := pictureSetup_info number format
  obtain ⟨hdp, hsci⟩ := parsePicture_integer_placeholders format (pictureSetup number format).1
    tc toks tail hsect hwf htail hnon
  rw [← hinfo] at hdp hsci
  have hr : (pictureSetup number format).2.2 =
      RoundNumber
        { number with
          scale := wrapInt32 (number.scale + (pictureSetup number format).2.1.scaleAdjust) }
        (wrapInt32 (wrapInt32 (wrapInt32 (number.scale +
            (pictureSetup number format).2.1.scaleAdjust) +
          (pictureSetup number format).2.1.digitCount) -
          (integerPlaceholders toks : Int))) := by
    rw [← hdp]
    have e1 := congrArg (fun x => x.2.1) hround
    have e2 := congrArg (fun x => x.2.2) hround
    dsimp only at e1 e2
    rw [← e1] at e2
    rw [hsci] at e2
    exact e2
  have hnz : ∀ c ∈ (pictureSetup number format).2.2.digits, c ≠ 0 := by
    rw [hr]
    exact RoundNumber_digits_ne_zero _ _
  have hle : (pictureSetup number format).2.2.scale ≤ 2147483647 := by
    rw [hr]
    exact RoundNumber_scale_int _ _ (wrapInt32_range _).2
  refine ⟨hsci, hdp, hr, ?_, ?_, by decide!⟩
  · rw [fixedInteger_length, if_pos hpos]
    omega
  · intro t ht
    generalize hsu : pictureSetup number format = su at *
    obtain ⟨sect, info, r⟩ := su
    dsimp only at hsect hmore hpos hdp hsci hnz hle ⊢
    obtain ⟨seps, hseps⟩ := NumberToStringFormat_text number format numfmt sect info r hsu t ht
    have hgt : r.scale > info.decimalPos := by rw [hdp]; exact hmore
    have hadj : wrapInt32 (r.scale - info.decimalPos) = r.scale - info.decimalPos :=
      wrapInt32_of_range _ (by rw [hdp]; omega) (by rw [hdp]; omega)
    have hld : (if info.lastDigit > info.decimalPos then info.decimalPos - info.lastDigit
        else 0) ≤ 0 := by
      split <;> omega
    rw [pictureLoop_section r format numfmt info _ _ _ toks tail _ hsect hwf htail] at hseps
    obtain ⟨Y, hY, hsub⟩ := renderTokens_overflow r numfmt info
      (if info.firstDigit < info.decimalPos then info.decimalPos - info.firstDigit else 0)
      (if info.lastDigit > info.decimalPos then info.decimalPos - info.lastDigit else 0)
      (info.thousandSeps && decide (numfmt.cNumberGroup.length ≠ 0)) hld toks tail
      { src := sect
        dst := if r.sign ∧ sect = 0 then numfmt.sNegative else []
        dig := r.digits
        digPos :=
          if info.scientific then info.decimalPos
          else if r.scale > info.decimalPos then r.scale else info.decimalPos
        adjust := if info.scientific then 0 else wrapInt32 (r.scale - info.decimalPos)
        seps := seps
        scientific := info.scientific
        decimalWritten := false } hwf hnon hph
      (by
        dsimp only
        rw [hsci, if_neg (by decide), hadj, hdp]
        omega)
      (by
        dsimp only
        rw [hsci]
        simp only [Bool.false_eq_true, if_false]
        rw [if_pos hgt, hadj, hdp]
        omega)
    rw [hseps, hY]
    dsimp only at hsub ⊢
    refine List.Sublist.trans ?_ (List.sublist_append_right _ Y)
    have htot : (if info.scientific = true then (0 : Int)
        else wrapInt32 (r.scale - info.decimalPos)).toNat + integerPlaceholders toks =
        r.scale.toNat := by
      rw [hsci, if_neg (by decide), hadj, hdp]
      omega
    rw [htot, copyDigits_eq _ _ _ hnz] at hsub
    unfold fixedInteger
    rw [if_pos hpos]
    simpa using hsub

theorem NumberToStringFormat_overflow_digits_witness :
    integerPlaceholders [.plain 40, .escaped 35, .plain 35, .plain 44, .plain 35, .plain 46,
        .plain 48, .plain 32, .quoted 39 [107, 103], .plain 41] = 2 ∧
      fixedInteger (pictureSetup ⟨15, 7, true, [49, 50, 51, 52, 53, 54, 55, 50, 53]⟩
        [48, 59, 40, 92, 35, 35, 44, 35, 46, 48, 32, 39, 107, 103, 39, 41]).2.2 =
        [49, 50, 51, 52, 53, 54, 55] ∧
      NumberToStringFormat ⟨15, 7, true, [49, 50, 51, 52, 53, 54, 55, 50, 53]⟩
          [48, 59, 40, 92, 35, 35, 44, 35, 46, 48, 32, 39, 107, 103, 39, 41]
          ⟨[3], [3], [3], [43], [45], [46], [44], [44], [46], [36], [44], [46], [37],
            [0x2030], [78, 97, 78], [73], [45, 73], 2, 2, 2, 1, 0, 0, 1, 1⟩ =
        .ok [40, 35, 49, 44, 50, 51, 52, 44, 53, 54, 55, 46, 51, 32, 107, 103, 41] ∧
      (fixedInteger (pictureSetup ⟨15, 7, true, [49, 50, 51, 52, 53, 54, 55, 50, 53]⟩
        [48, 59, 40, 92, 35, 35, 44, 35, 46, 48, 32, 39, 107, 103, 39, 41]).2.2).Sublist
        [40, 35, 49, 44, 50, 51, 52, 44, 53, 54, 55, 46, 51, 32, 107, 103, 41] :=
  ⟨by decide, by decide, by decide!,
    (NumberToStringFormat_overflow_digits ⟨15, 7, true, [49, 50, 51, 52, 53, 54, 55, 50, 53]⟩
      [48, 59, 40, 92, 35, 35, 44, 35, 46, 48, 32, 39, 107, 103, 39, 41]
      ⟨[3], [3], [3], [43], [45], [46], [44], [44], [46], [36], [44], [46], [37],
        [0x2030], [78, 97, 78], [73], [45, 73], 2, 2, 2, 1, 0, 0, 1, 1⟩
      [.plain 40, .escaped 35, .plain 35, .plain 44, .plain 35, .plain 46,
        .plain 48, .plain 32, .quoted 39 [107, 103], .plain 41] []
      (by decide) (by decide) (by decide) (by decide) (by decide) (by decide)).2.2.2.2.1 _
      (by decide!)⟩

/-- The value 123456 under pictures with two integer placeholders or fewer:
`00` gives `123456`, `00.0` gives `123456.0`, `#,##0` gives `123,456` and
`$00` gives `$123456`. -/
theorem NumberToStringFormat_overflow_digits_examples :
    NumberToStringFormat ⟨10, 6, false, [49, 50, 51, 52, 53, 54]⟩ [48, 48]
        ⟨[3], [3], [3], [43], [45], [46], [44], [44], [46], [36], [44], [46], [37],
          [0x2030], [78, 97, 78], [73], [45, 73], 2, 2, 2, 1, 0, 0, 1, 1⟩ =
      .ok [49, 50, 51, 52, 53, 54] ∧
    NumberToStringFormat ⟨10, 6, false, [49, 50, 51, 52, 53, 54]⟩ [48, 48, 46, 48]
        ⟨[3], [3], [3], [43], [45], [46], [44], [44], [46], [36], [44], [46], [37],
          [0x2030], [78, 97, 78], [73], [45, 73], 2, 2, 2, 1, 0, 0, 1, 1⟩ =
      .ok [49, 50, 51, 52, 53, 54, 46, 48] ∧
    NumberToStringFormat ⟨10, 6, false, [49, 50, 51, 52, 53, 54]⟩ [35, 44, 35, 35, 48]
        ⟨[3], [3], [3], [43], [45], [46], [44], [44], [46], [36], [44], [46], [37],
          [0x2030], [78, 97, 78], [73], [45, 73], 2, 2, 2, 1, 0, 0, 1, 1⟩ =
      .ok [49, 50, 51, 44, 52, 53, 54] ∧
    NumberToStringFormat ⟨10, 6, false, [49, 50, 51, 52, 53, 54]⟩ [36, 48, 48]
        ⟨[3], [3], [3], [43], [45], [46], [44], [44], [46], [36], [44], [46], [37],
          [0x2030], [78, 97, 78], [73], [45, 73], 2, 2, 2, 1, 0, 0, 1, 1⟩ =
      .ok [36, 49, 50, 51, 52, 53, 54] ∧
    Int32ToNumber 123456 = ⟨10, 6, false, [49, 50, 51, 52, 53, 54]⟩ :=
  ⟨by decide!, by decide!, by decide!, by decide!, Int32ToNumber_123456⟩

/-! ## Commas in front of the decimal point -/

theorem wrapInt32_add_left (a b : Int) : wrapInt32 (wrapInt32 a + b) = wrapInt32 (a + b) := by
  unfold wrapInt32
  omega

theorem wrapInt32_sub_wrap (a b : Int) :
    wrapInt32 (a - wrapInt32 b) = wrapInt32 (wrapInt32 a - b) := by
  unfold wrapInt32
  omega

/-- What a comma does to the locals of the parser. -/
theorem parseToken_comma (st : PictureInfo) :
    parseToken (.plain 44) st =
      if st.digitCount > 0 ∧ st.decimalPos < 0 then
        (if st.thousandPos ≥ 0 ∧ st.thousandPos = st.digitCount then
          { st with thousandCount := st.thousandCount + 1 }
         else
          { st with
            thousandSeps := if st.thousandPos ≥ 0 then true else st.thousandSeps
            thousandPos := st.digitCount
            thousandCount := 1 })
      else st := by
  rw [parseToken_plain 44 (by decide)]
  rfl

/-- A token other than a comma leaves the locals of the thousands marker. -/
theorem parseToken_thousands (t : PictureToken) (next : List Nat) (hwf : t.WellFormed next)
    (h44 : t ≠ .plain 44) (st : PictureInfo) :
    (parseToken t st).thousandPos = st.thousandPos ∧
      (parseToken t st).thousandCount = st.thousandCount ∧
      (parseToken t st).thousandSeps = st.thousandSeps := by
  cases t with
  | plain c =>
    have c44 : c ≠ 44 := fun h => h44 (by rw [h])
    rw [parseToken_plain c hwf]
    by_cases c2 : c = 35
    · rw [if_pos c2]; exact ⟨rfl, rfl, rfl⟩
    rw [if_neg c2]
    by_cases c3 : c = 48
    · rw [if_pos c3]; exact ⟨rfl, rfl, rfl⟩
    rw [if_neg c3]
    by_cases c4 : c = 46
    · rw [if_pos c4]
      split <;> exact ⟨rfl, rfl, rfl⟩
    rw [if_neg c4, if_neg c44]
    by_cases c6 : c = 37
    · rw [if_pos c6]; exact ⟨rfl, rfl, rfl⟩
    rw [if_neg c6]
    by_cases c7 : c = 0x2030
    · rw [if_pos c7]; exact ⟨rfl, rfl, rfl⟩
    rw [if_neg c7]
    exact ⟨rfl, rfl, rfl⟩
  | quoted q body => exact ⟨rfl, rfl, rfl⟩
  | openQuote q body => exact ⟨rfl, rfl, rfl⟩
  | escaped c => exact ⟨rfl, rfl, rfl⟩
  | backslash => exact ⟨rfl, rfl, rfl⟩
  | exponent ch sign zeros =>
    simp only [parseToken]
    split <;> exact ⟨rfl, rfl, rfl⟩

/-- What one token does to `scaleAdjust`. -/
theorem parseToken_scaleAdjust (t : PictureToken) (next : List Nat) (hwf : t.WellFormed next)
    (st : PictureInfo) :
    (parseToken t st).scaleAdjust =
      if t = .plain 37 then wrapInt32 (st.scaleAdjust + 2)
      else if t = .plain 0x2030 then wrapInt32 (st.scaleAdjust + 3)
      else st.scaleAdjust := by
  cases t with
  | plain c =>
    rw [parseToken_plain c hwf]
    by_cases c2 : c = 35
    · subst c2; rfl
    rw [if_neg c2]
    by_cases c3 : c = 48
    · subst c3; rfl
    rw [if_neg c3]
    by_cases c4 : c = 46
    · subst c4
      simp only [if_true]
      split <;> rfl
    rw [if_neg c4]
    by_cases c5 : c = 44
    · subst c5
      simp only [if_true]
      split
      · split <;> rfl
      · rfl
    rw [if_neg c5]
    by_cases c6 : c = 37
    · subst c6; rfl
    rw [if_neg c6]
    by_cases c7 : c = 0x2030
    · subst c7; rfl
    rw [if_neg c7]
    have e1 : (PictureToken.plain c = PictureToken.plain 37) = False := by
      simp [c6]
    have e2 : (PictureToken.plain c = PictureToken.plain 0x2030) = False := by
      simp [c7]
    simp only [e1, e2, if_false]
  | quoted q body => rfl
  | openQuote q body => rfl
  | escaped c => rfl
  | backslash => rfl
  | exponent ch sign zeros =>
    simp only [parseToken]
    split <;> rfl

/-- The scale shift the parser accumulates over a sequence of tokens. -/
theorem parseTokens_scaleAdjust (toks : List PictureToken) (next : List Nat) :
    ∀ st : PictureInfo, TokensWellFormed toks next →
      wrapInt32 (parseTokens toks st).scaleAdjust =
        wrapInt32 (st.scaleAdjust + percentScale toks) := by
  induction toks with
  | nil => intro st _; simp [parseTokens, percentScale]
  | cons t ts ih =>
    intro st hwf
    show wrapInt32 (parseTokens ts (parseToken t st)).scaleAdjust = _
    rw [ih _ hwf.2, parseToken_scaleAdjust t _ hwf.1]
    have hps : percentScale (t :: ts) =
        (if t = .plain 37 then 2 else if t = .plain 0x2030 then 3 else 0) + percentScale ts :=
      rfl
    rw [hps]
    by_cases h1 : t = .plain 37
    · rw [if_pos h1, if_pos h1, wrapInt32_add_left]
      congr 1
      ring
    rw [if_neg h1, if_neg h1]
    by_cases h2 : t = .plain 0x2030
    · rw [if_pos h2, if_pos h2, wrapInt32_add_left]
      congr 1
      ring
    rw [if_neg h2, if_neg h2]
    congr 1
    ring

theorem parseTokens_cons (t : PictureToken) (ts : List PictureToken) (st : PictureInfo) :
    parseTokens (t :: ts) st = parseTokens ts (parseToken t st) := rfl

theorem groupingComma_cons (t : PictureToken) (ts : List PictureToken) (seen : Bool) :
    groupingComma (t :: ts) seen =
      ((decide (t = .plain 44) && seen) ||
        groupingComma ts (seen || decide t.IsPlaceholder)) := rfl

/-- The thousands marker over tokens in front of the decimal point: it is set
exactly when a comma stands after a digit placeholder. -/
theorem parseTokens_grouping (pre : List PictureToken) (next : List Nat) :
    ∀ st : PictureInfo, TokensWellFormed pre next → (∀ t ∈ pre, t ≠ .plain 46) →
      st.decimalPos < 0 → 0 ≤ st.digitCount → st.thousandPos ≤ st.digitCount →
      (st.thousandSeps = true → 0 ≤ st.thousandPos) →
      (parseTokens pre st).decimalPos < 0 ∧
        st.digitCount ≤ (parseTokens pre st).digitCount ∧
        (parseTokens pre st).thousandPos ≤ (parseTokens pre st).digitCount ∧
        ((parseTokens pre st).thousandSeps = true → 0 ≤ (parseTokens pre st).thousandPos) ∧
        (0 ≤ (parseTokens pre st).thousandPos ↔
          0 ≤ st.thousandPos ∨ groupingComma pre (decide (0 < st.digitCount)) = true) := by
  induction pre with
  | nil =>
    intro st _ _ h1 h2 h3 h4
    refine ⟨h1, le_refl _, h3, h4, ?_⟩
    simp [parseTokens, groupingComma]
  | cons t ts ih =>
    intro st hwf hpt h1 h2 h3 h4
    have hpt' : ∀ x ∈ ts, x ≠ .plain 46 := fun x hx => hpt x (List.mem_cons_of_mem _ hx)
    have h46 : t ≠ .plain 46 := hpt t (List.mem_cons_self _ _)
    rw [parseTokens_cons, groupingComma_cons]
    by_cases h44 : t = .plain 44
    · subst h44
      rw [parseToken_comma]
      by_cases hdc : st.digitCount > 0
      · rw [if_pos ⟨hdc, h1⟩]
        have hseen : decide (0 < st.digitCount) = true := decide_eq_true hdc
        by_cases htp : st.thousandPos ≥ 0 ∧ st.thousandPos = st.digitCount
        · rw [if_pos htp]
          obtain ⟨i1, i2, i3, i4, i5⟩ := ih { st with thousandCount := st.thousandCount + 1 }
            hwf.2 hpt' h1 h2 h3 h4
          refine ⟨i1, i2, i3, i4, ?_⟩
          constructor
          · intro _
            exact Or.inl htp.1
          · intro _
            exact i5.mpr (Or.inl htp.1)
        · rw [if_neg htp]
          obtain ⟨i1, i2, i3, i4, i5⟩ := ih
            { st with
              thousandSeps := if st.thousandPos ≥ 0 then true else st.thousandSeps
              thousandPos := st.digitCount
              thousandCount := 1 } hwf.2 hpt' h1 h2 (le_refl _) (fun _ => h2)
          refine ⟨i1, i2, i3, i4, ?_⟩
          constructor
          · intro _
            right
            rw [hseen]
            simp
          · intro _
            exact i5.mpr (Or.inl h2)
      · rw [if_neg (fun h => hdc h.1)]
        have hseen : decide (0 < st.digitCount) = false := decide_eq_false hdc
        obtain ⟨i1, i2, i3, i4, i5⟩ := ih st hwf.2 hpt' h1 h2 h3 h4
        refine ⟨i1, i2, i3, i4, ?_⟩
        have hnp : decide (PictureToken.plain 44).IsPlaceholder = false := by decide
        rw [i5, hseen, hnp]
        simp
    · obtain ⟨-, hph, hot⟩ := parseToken_counts t _ hwf.1 st
      obtain ⟨e3, e4, e5⟩ := parseToken_thousands t _ hwf.1 h44 st
      have hd44 : decide (t = .plain 44) = false := decide_eq_false h44
      by_cases hp : t.IsPlaceholder
      · obtain ⟨e1, e2⟩ := hph hp
        obtain ⟨i1, i2, i3, i4, i5⟩ := ih (parseToken t st) hwf.2 hpt'
          (by rw [e2]; exact h1) (by rw [e1]; omega) (by rw [e1, e3]; omega)
          (by rw [e3, e5]; exact h4)
        refine ⟨i1, by rw [e1] at i2; omega, i3, i4, ?_⟩
        rw [i5, e3, e1, hd44, decide_eq_true hp]
        have : decide (0 < st.digitCount + 1) = true := decide_eq_true (by omega)
        rw [this]
        simp
      · obtain ⟨e1, e2⟩ := hot h46 hp
        obtain ⟨i1, i2, i3, i4, i5⟩ := ih (parseToken t st) hwf.2 hpt'
          (by rw [e2]; exact h1) (by rw [e1]; omega) (by rw [e1, e3]; omega)
          (by rw [e3, e5]; exact h4)
        refine ⟨i1, by rw [e1] at i2; omega, i3, i4, ?_⟩
        rw [i5, e3, e1, hd44, decide_eq_false hp]
        simp

/-- Commas that go on a run already counted: every one adds to the count. -/
theorem parseTokens_commas_counted (body : List PictureToken) (next : List Nat) :
    ∀ st : PictureInfo, TokensWellFormed body next →
      (∀ t ∈ body, ¬ t.IsPlaceholder ∧ t ≠ .plain 46) →
      st.decimalPos < 0 → 0 < st.digitCount → st.thousandPos = st.digitCount →
      (parseTokens body st).decimalPos = st.decimalPos ∧
        (parseTokens body st).digitCount = st.digitCount ∧
        (parseTokens body st).thousandPos = st.thousandPos ∧
        (parseTokens body st).thousandCount =
          st.thousandCount + (body.count (.plain 44) : Int) ∧
        (parseTokens body st).thousandSeps = st.thousandSeps := by
  induction body with
  | nil =>
    intro st _ _ _ _ _
    simp [parseTokens]
  | cons t ts ih =>
    intro st hwf hb h1 h2 h3
    have hb' : ∀ x ∈ ts, ¬ x.IsPlaceholder ∧ x ≠ .plain 46 :=
      fun x hx => hb x (List.mem_cons_of_mem _ hx)
    obtain ⟨hp, h46⟩ := hb t (List.mem_cons_self _ _)
    rw [parseTokens_cons]
    by_cases h44 : t = .plain 44
    · subst h44
      rw [parseToken_comma, if_pos ⟨h2, h1⟩, if_pos ⟨by omega, h3⟩]
      obtain ⟨i1, i2, i3, i4, i5⟩ := ih { st with thousandCount := st.thousandCount + 1 }
        hwf.2 hb' h1 h2 h3
      refine ⟨i1, i2, i3, ?_, i5⟩
      rw [i4, List.count_cons_self]
      push_cast
      ring
    · obtain ⟨-, -, hot⟩ := parseToken_counts t _ hwf.1 st
      obtain ⟨e1, e2⟩ := hot h46 hp
      obtain ⟨e3, e4, e5⟩ := parseToken_thousands t _ hwf.1 h44 st
      obtain ⟨i1, i2, i3, i4, i5⟩ := ih (parseToken t st) hwf.2 hb'
        (by rw [e2]; exact h1) (by rw [e1]; exact h2) (by rw [e1, e3]; exact h3)
      refine ⟨by rw [i1, e2], by rw [i2, e1], by rw [i3, e3], ?_, by rw [i5, e5]⟩
      rw [i4, e4, List.count_cons_of_ne (Ne.symm h44)]

/-- Commas after the last digit placeholder in front of the decimal point: the
first one starts a new run, turning grouping on when an earlier comma was
counted, and the run is counted. -/
theorem parseTokens_comma_run (body : List PictureToken) (next : List Nat) :
    ∀ st : PictureInfo, TokensWellFormed body next →
      (∀ t ∈ body, ¬ t.IsPlaceholder ∧ t ≠ .plain 46) →
      st.decimalPos < 0 → 0 < st.digitCount → st.thousandPos ≠ st.digitCount →
      1 ≤ body.count (.plain 44) →
      (parseTokens body st).decimalPos = st.decimalPos ∧
        (parseTokens body st).digitCount = st.digitCount ∧
        (parseTokens body st).thousandPos = st.digitCount ∧
        (parseTokens body st).thousandCount = (body.count (.plain 44) : Int) ∧
        (parseTokens body st).thousandSeps =
          (if st.thousandPos ≥ 0 then true else st.thousandSeps) := by
  induction body with
  | nil =>
    intro st _ _ _ _ _ hk
    simp at hk
  | cons t ts ih =>
    intro st hwf hb h1 h2 h3 hk
    have hb' : ∀ x ∈ ts, ¬ x.IsPlaceholder ∧ x ≠ .plain 46 :=
      fun x hx => hb x (List.mem_cons_of_mem _ hx)
    obtain ⟨hp, h46⟩ := hb t (List.mem_cons_self _ _)
    rw [parseTokens_cons]
    by_cases h44 : t = .plain 44
    · subst h44
      rw [parseToken_comma, if_pos ⟨h2, h1⟩, if_neg (fun h => h3 h.2)]
      obtain ⟨i1, i2, i3, i4, i5⟩ := parseTokens_commas_counted ts next
        { st with
          thousandSeps := if st.thousandPos ≥ 0 then true else st.thousandSeps
          thousandPos := st.digitCount
          thousandCount := 1 } hwf.2 hb' h1 h2 rfl
      refine ⟨i1, i2, i3, ?_, i5⟩
      rw [i4, List.count_cons_self]
      push_cast
      ring
    · obtain ⟨-, -, hot⟩ := parseToken_counts t _ hwf.1 st
      obtain ⟨e1, e2⟩ := hot h46 hp
      obtain ⟨e3, e4, e5⟩ := parseToken_thousands t _ hwf.1 h44 st
      rw [List.count_cons_of_ne (Ne.symm h44)] at hk ⊢
      obtain ⟨i1, i2, i3, i4, i5⟩ := ih (parseToken t st) hwf.2 hb'
        (by rw [e2]; exact h1) (by rw [e1]; exact h2) (by rw [e1, e3]; exact h3) hk
      refine ⟨by rw [i1, e2], by rw [i2, e1], by rw [i3, e1], i4, ?_⟩
      rw [i5, e3, e5]

/-- Behind the decimal point the thousands marker does not change. -/
theorem parseTokens_after_point (toks : List PictureToken) (next : List Nat) :
    ∀ st : PictureInfo, TokensWellFormed toks next → 0 ≤ st.decimalPos →
      (parseTokens toks st).decimalPos = st.decimalPos ∧
        (parseTokens toks st).thousandPos = st.thousandPos ∧
        (parseTokens toks st).thousandCount = st.thousandCount ∧
        (parseTokens toks st).thousandSeps = st.thousandSeps := by
  induction toks with
  | nil => intro st _ _; exact ⟨rfl, rfl, rfl, rfl⟩
  | cons t ts ih =>
    intro st hwf h0
    rw [parseTokens_cons]
    have hd : (parseToken t st).decimalPos = st.decimalPos :=
      parseTokens_decimalPos_fixed [t] (tokensText ts ++ next) st ⟨hwf.1, trivial⟩ h0
    by_cases h44 : t = .plain 44
    · subst h44
      have e : parseToken (.plain 44) st = st := by
        rw [parseToken_comma, if_neg (fun h => absurd h.2 (by omega))]
      rw [e]
      exact ih st hwf.2 h0
    · obtain ⟨e3, e4, e5⟩ := parseToken_thousands t _ hwf.1 h44 st
      obtain ⟨i1, i2, i3, i4⟩ := ih (parseToken t st) hwf.2 (by rw [hd]; exact h0)
      exact ⟨by rw [i1, hd], by rw [i2, e3], by rw [i3, e4], by rw [i4, e5]⟩

theorem wrapInt32_add_right (a b : Int) : wrapInt32 (a + wrapInt32 b) = wrapInt32 (a + b) := by
  unfold wrapInt32
  omega

theorem wrapInt32_idem (a : Int) : wrapInt32 (wrapInt32 a) = wrapInt32 a := by
  unfold wrapInt32
  omega

/-- The locals after `ParseSection` on a section in which commas stand between
the last digit placeholder in front of the decimal point and the decimal point
(or the end of the section): the commas are counted, three times their number
is taken from `scaleAdjust`, and grouping is on exactly when an earlier comma
stands after a placeholder. -/
theorem parsePicture_comma_run (format : List Nat) (sect : Nat) (tc : Int)
    (pre : List PictureToken) (p : PictureToken) (body rest : List PictureToken)
    (tail : List Nat)
    (hs : format.drop sect = tokensText (pre ++ p :: (body ++ rest)) ++ tail)
    (hwf : TokensWellFormed (pre ++ p :: (body ++ rest)) tail)
    (ht : wcharAt tail 0 = 0 ∨ wcharAt tail 0 = 59)
    (hpre : ∀ t ∈ pre, t ≠ .plain 46) (hp : p.IsPlaceholder)
    (hbody : ∀ t ∈ body, ¬ t.IsPlaceholder ∧ t ≠ .plain 46)
    (hk : 1 ≤ body.count (.plain 44))
    (hrest : rest = [] ∨ ∃ rest', rest = .plain 46 :: rest') :
    (parsePicture format sect tc).scaleAdjust =
        wrapInt32 (percentScale (pre ++ p :: (body ++ rest)) -
          3 * (body.count (.plain 44) : Int)) ∧
      (parsePicture format sect tc).thousandSeps = groupingComma pre false ∧
      (parsePicture format sect tc).thousandCount = (body.count (.plain 44) : Int) ∧
      (parsePicture format sect tc).thousandPos = (parsePicture format sect tc).decimalPos := by
  have hsa := parseTokens_scaleAdjust (pre ++ p :: (body ++ rest)) tail
    { digitCount := 0
      decimalPos := -1
      firstDigit := 0x7FFFFFFF
      lastDigit := 0
      scientific := false
      percent := 0
      permille := 0
      thousandPos := -1
      thousandCount := tc
      thousandSeps := false
      scaleAdjust := 0 } hwf
  obtain ⟨w1, w2⟩ := (TokensWellFormed_append pre (p :: (body ++ rest)) tail).mp hwf
  obtain ⟨wp, w3⟩ := w2
  obtain ⟨w4, w5⟩ := (TokensWellFormed_append body rest tail).mp w3
  obtain ⟨a1, a2, a3, a4, a5⟩ := parseTokens_grouping pre _
    { digitCount := 0
      decimalPos := -1
      firstDigit := 0x7FFFFFFF
      lastDigit := 0
      scientific := false
      percent := 0
      permille := 0
      thousandPos := -1
      thousandCount := tc
      thousandSeps := false
      scaleAdjust := 0 } w1 hpre (show (-1 : Int) < 0 by decide) (le_refl (0 : Int))
    (show (-1 : Int) ≤ 0 by decide) (fun h => Bool.noConfusion h)
  unfold parsePicture
  rw [parseSectionLoop_section format _ sect tail _ hs hwf ht]
  rw [parseTokens_append] at hsa ⊢
  dsimp only at a1 a2 a3 a4 a5
  generalize parseTokens pre
    { digitCount := 0
      decimalPos := -1
      firstDigit := 0x7FFFFFFF
      lastDigit := 0
      scientific := false
      percent := 0
      permille := 0
      thousandPos := -1
      thousandCount := tc
      thousandSeps := false
      scaleAdjust := 0 } = s1 at hsa a1 a2 a3 a4 a5 ⊢
  have hg : (0 ≤ s1.thousandPos ↔ groupingComma pre false = true) := by
    rw [a5]
    simp
  have hp44 : p ≠ .plain 44 := by
    rcases hp with h | h <;> rw [h] <;> decide
  obtain ⟨-, hph, -⟩ := parseToken_counts p _ wp s1
  obtain ⟨b1, b2⟩ := hph hp
  obtain ⟨b3, b4, b5⟩ := parseToken_thousands p _ wp hp44 s1
  rw [parseTokens_cons, parseTokens_append] at hsa ⊢
  generalize parseToken p s1 = s2 at hsa b1 b2 b3 b4 b5 ⊢
  obtain ⟨c1, c2, c3, c4, c5⟩ := parseTokens_comma_run body _ s2 w4 hbody
    (by rw [b2]; exact a1) (by rw [b1]; omega) (by rw [b1, b3]; omega) hk
  generalize parseTokens body s2 = s3 at hsa c1 c2 c3 c4 c5 ⊢
  have hseps : s3.thousandSeps = groupingComma pre false := by
    rw [c5, b3, b5]
    by_cases h0 : s1.thousandPos ≥ 0
    · rw [if_pos h0, hg.mp h0]
    · rw [if_neg h0]
      have hn : ¬ groupingComma pre false = true := fun h => h0 (hg.mpr h)
      have hs1 : ¬ s1.thousandSeps = true := fun h => h0 (a4 h)
      rw [Bool.not_eq_true] at hn hs1
      rw [hn, hs1]
  have hfin : ∃ s4 : PictureInfo, parseTokens rest s3 = s4 ∧ s4.thousandPos = s3.thousandPos ∧
      s4.thousandCount = s3.thousandCount ∧ s4.thousandSeps = s3.thousandSeps ∧
      ((s4.decimalPos < 0 ∧ s4.digitCount = s3.digitCount) ∨ s4.decimalPos = s3.digitCount) := by
    rcases hrest with h | ⟨rest', h⟩
    · subst h
      exact ⟨s3, rfl, rfl, rfl, rfl, Or.inl ⟨by rw [c1, b2]; exact a1, rfl⟩⟩
    · subst h
      obtain ⟨hpt, -, -⟩ := parseToken_counts (.plain 46) _ w5.1 s3
      obtain ⟨d1, d2⟩ := hpt rfl
      rw [if_pos (by rw [c1, b2]; exact a1)] at d2
      obtain ⟨d3, d4, d5⟩ := parseToken_thousands (.plain 46) _ w5.1 (by decide) s3
      obtain ⟨f1, f2, f3, f4⟩ := parseTokens_after_point rest' tail
        (parseToken (.plain 46) s3) w5.2 (by rw [d2, c2, b1]; omega)
      refine ⟨_, rfl, ?_, ?_, ?_, Or.inr ?_⟩
      · rw [parseTokens_cons, f2, d3]
      · rw [parseTokens_cons, f3, d4]
      · rw [parseTokens_cons, f4, d5]
      · rw [parseTokens_cons, f1, d2]
  obtain ⟨s4, e0, e1, e2, e3, e4⟩ := hfin
  rw [e0] at hsa ⊢
  dsimp only
  have htp : s4.thousandPos ≥ 0 := by rw [e1, c3, b1]; omega
  have hkey : wrapInt32 (s4.scaleAdjust - wrapInt32 (s4.thousandCount * 3)) =
      wrapInt32 (percentScale (pre ++ p :: (body ++ rest)) -
        3 * (body.count (.plain 44) : Int)) := by
    have key : ∀ a K P : Int, wrapInt32 a = wrapInt32 (0 + P) →
        wrapInt32 (a - wrapInt32 (K * 3)) = wrapInt32 (P - 3 * K) := by
      intro a K P h
      unfold wrapInt32 at h ⊢
      omega
    rw [e2, c4]
    exact key _ _ _ hsa
  rcases e4 with ⟨g1, g2⟩ | g1
  · rw [if_pos g1]
    dsimp only
    have hq : s4.thousandPos = s4.digitCount := by rw [e1, c3, g2, c2]
    rw [if_pos htp, if_pos hq]
    exact ⟨hkey, by rw [e3, hseps], by rw [e2, c4], hq⟩
  · have hn : ¬ s4.decimalPos < 0 := by rw [g1, c2, b1]; omega
    have hq : s4.thousandPos = s4.decimalPos := by rw [e1, c3, g1, c2]
    rw [if_neg hn, if_pos htp, if_pos hq]
    exact ⟨hkey, by rw [e3, hseps], by rw [e2, c4], hq⟩

/-- The set-up of `NumberToStringFormat` when the number it yields is not
zero: the section chosen by the sign, and the number scaled by the section and
rounded at its last placeholder. -/
theorem pictureSetup_of_nonzero (number : NUMBER) (format : List Nat)
    (h : wcharAt (pictureSetup number format).2.2.digits 0 ≠ 0) :
    pictureSetup number format =
      (FindSection format
          (if wcharAt number.digits 0 = 0 then 2 else if number.sign = true then 1 else 0),
        parsePicture format (FindSection format
          (if wcharAt number.digits 0 = 0 then 2 else if number.sign = true then 1 else 0)) 0,
        RoundNumber
          { number with
            scale := wrapInt32 (number.scale + (parsePicture format (FindSection format
              (if wcharAt number.digits 0 = 0 then 2
               else if number.sign = true then 1 else 0)) 0).scaleAdjust) }
          (if (parsePicture format (FindSection format
              (if wcharAt number.digits 0 = 0 then 2
               else if number.sign = true then 1 else 0)) 0).scientific = true then
            (parsePicture format (FindSection format
              (if wcharAt number.digits 0 = 0 then 2
               else if number.sign = true then 1 else 0)) 0).digitCount
           else wrapInt32 (wrapInt32 (wrapInt32 (number.scale +
              (parsePicture format (FindSection format
                (if wcharAt number.digits 0 = 0 then 2
                 else if number.sign = true then 1 else 0)) 0).scaleAdjust) +
              (parsePicture format (FindSection format
                (if wcharAt number.digits 0 = 0 then 2
                 else if number.sign = true then 1 else 0)) 0).digitCount) -
              (parsePicture format (FindSection format
                (if wcharAt number.digits 0 = 0 then 2
                 else if number.sign = true then 1 else 0)) 0).decimalPos))) := by
  revert h
  unfold pictureSetup
  dsimp only
  generalize FindSection format
    (if wcharAt number.digits 0 = 0 then 2 else if number.sign = true then 1 else 0) = s0
  by_cases h0 : wcharAt number.digits 0 ≠ 0
  · rw [if_pos h0]
    generalize RoundNumber
      { number with scale := wrapInt32 (number.scale + (parsePicture format s0 0).scaleAdjust) }
      (if (parsePicture format s0 0).scientific = true then (parsePicture format s0 0).digitCount
       else wrapInt32 (wrapInt32 (wrapInt32 (number.scale +
          (parsePicture format s0 0).scaleAdjust) + (parsePicture format s0 0).digitCount) -
          (parsePicture format s0 0).decimalPos)) = rd
    by_cases h1 : wcharAt rd.digits 0 = 0
    · rw [if_pos h1]
      by_cases h2 : FindSection format 2 ≠ s0
      · rw [if_pos h2]
        intro h
        exact absurd h1 h
      · rw [if_neg h2]
        intro _
        rfl
    · rw [if_neg h1]
      intro _
      rfl
  · rw [if_neg h0]
    intro h
    exact absurd h h0

/-- Taking `3k` from the scale of a buffer divides its magnitude by `1000^k`. -/
theorem magnitude_scale_sub (number : NUMBER) (s : Int) (k : Nat) :
    ({ number with scale := s - 3 * (k : Int) } : NUMBER).magnitude =
      ({ number with scale := s } : NUMBER).magnitude / (1000 : ℚ) ^ k := by
  unfold NUMBER.magnitude
  dsimp only
  have e : s - 3 * (k : Int) - (number.digits.length : Int) =
      (s - (number.digits.length : Int)) - ((3 * k : Nat) : Int) := by
    push_cast
    ring
  rw [e, zpow_sub₀ (by norm_num : (10 : ℚ) ≠ 0), zpow_natCast, pow_mul]
  norm_num
  ring

/-- C33 (amended): for every picture, every value and the section that
`NumberToStringFormat` renders, read as tokens: when `k >= 1` commas stand
between the last digit placeholder in front of the decimal point and the
decimal point, or after the last placeholder of a section without a decimal
point (a run of `k` consecutive commas in particular; literals may stand among
them), then the parser takes `3k` from the scale adjustment, which becomes 2
for every `%` and 3 for every per-mille sign less `3k`; the grouping flag is
set exactly when a comma stands after a placeholder in front of that last
placeholder, so those `k` commas do not turn grouping on; and a number that
does not round to zero is laid out from the buffer with the adjustment added
to its scale, rounded at the last placeholder: without percent signs, the
value divided by `1000^k`. In the output loop a comma is stepped over: it
writes nothing. -/
theorem NumberToStringFormat_comma_scaling (number : NUMBER) (format : List Nat)
    (pre : List PictureToken) (p : PictureToken) (body rest : List PictureToken)
    (tail : List Nat) (k : Nat)
    (hsect : format.drop (pictureSetup number format).1 =
      tokensText (pre ++ p :: (body ++ rest)) ++ tail)
    (hwf : TokensWellFormed (pre ++ p :: (body ++ rest)) tail)
    (htail : wcharAt tail 0 = 0 ∨ wcharAt tail 0 = 59)
    (hpre : ∀ t ∈ pre, t ≠ .plain 46) (hp : p.IsPlaceholder)
    (hbody : ∀ t ∈ body, ¬ t.IsPlaceholder ∧ t ≠ .plain 46)
    (hk : body.count (.plain 44) = k) (hk1 : 1 ≤ k)
    (hrest : rest = [] ∨ ∃ rest', rest = .plain 46 :: rest') :
    (pictureSetup number format).2.1.scaleAdjust =
        wrapInt32 (percentScale (pre ++ p :: (body ++ rest)) - 3 * (k : Int)) ∧
      (pictureSetup number format).2.1.thousandSeps = groupingComma pre false ∧
      (wcharAt (pictureSetup number format).2.2.digits 0 ≠ 0 →
        (pictureSetup number format).2.2 =
          RoundNumber
            { number with
              scale := wrapInt32 (number.scale +
                (percentScale (pre ++ p :: (body ++ rest)) - 3 * (k : Int))) }
            (if (pictureSetup number format).2.1.scientific = true then
              (pictureSetup number format).2.1.digitCount
             else wrapInt32 (wrapInt32 (wrapInt32 (number.scale +
                (percentScale (pre ++ p :: (body ++ rest)) - 3 * (k : Int))) +
                (pictureSetup number format).2.1.digitCount) -
                (pictureSetup number format).2.1.decimalPos))) ∧
      (∀ s : Int, ({ number with scale := s - 3 * (k : Int) } : NUMBER).magnitude =
        ({ number with scale := s } : NUMBER).magnitude / (1000 : ℚ) ^ k) ∧
      ∀ (numfmt : NumberFormatInfo) (info : PictureInfo) (fd ld : Int) (ts : Bool)
        (fuel : Nat) (st : PictureState), wcharAt format st.src = 44 →
        pictureLoop (pictureSetup number format).2.2 format numfmt info fd ld ts (fuel + 1) st =
          pictureLoop (pictureSetup number format).2.2 format numfmt info fd ld ts fuel
            { st with src := st.src + 1 } := by
  obtain ⟨tc, hinfo⟩ := pictureSetup_info number format
  obtain ⟨q1, q2, -, -⟩ := parsePicture_comma_run format (pictureSetup number format).1 tc
    pre p body rest tail hsect hwf htail hpre hp hbody (by omega) hrest
  rw [← hinfo, hk] at q1
  rw [← hinfo] at q2
  refine ⟨q1, q2, ?_, fun s => magnitude_scale_sub number s k,
    fun numfmt info fd ld ts fuel st hch =>
      pictureLoop_comma_iter _ format numfmt info fd ld ts fuel st hch⟩
  intro hnz
  have hround := pictureSetup_of_nonzero number format hnz
  have e1 := congrArg (fun x => x.2.1) hround
  have e2 := congrArg (fun x => x.2.2) hround
  dsimp only at e1 e2
  rw [← e1] at e2
  rw [q1, wrapInt32_add_right] at e2
  exact e2

theorem NumberToStringFormat_comma_scaling_witness :
    (pictureSetup ⟨10, 10, false, [49, 50, 51, 52, 53, 54, 55, 56, 57]⟩
        [36, 35, 44, 35, 35, 48, 44, 44, 46, 48, 37]).2.1.scaleAdjust = -4 ∧
      (pictureSetup ⟨10, 10, false, [49, 50, 51, 52, 53, 54, 55, 56, 57]⟩
        [36, 35, 44, 35, 35, 48, 44, 44, 46, 48, 37]).2.1.thousandSeps = true ∧
      (pictureSetup ⟨10, 10, false, [49, 50, 51, 52, 53, 54, 55, 56, 57]⟩
        [36, 35, 44, 35, 35, 48, 44, 44, 46, 48, 37]).2.2 =
        ⟨10, 6, false, [49, 50, 51, 52, 53, 54, 56]⟩ ∧
      NumberToStringFormat ⟨10, 10, false, [49, 50, 51, 52, 53, 54, 55, 56, 57]⟩
          [36, 35, 44, 35, 35, 48, 44, 44, 46, 48, 37]
          ⟨[3], [3], [3], [43], [45], [46], [44], [44], [46], [36], [44], [46], [37],
            [0x2030], [78, 97, 78], [73], [45, 73], 2, 2, 2, 1, 0, 0, 1, 1⟩ =
        .ok [36, 49, 50, 51, 44, 52, 53, 54, 46, 56, 37] :=
  ⟨(NumberToStringFormat_comma_scaling ⟨10, 10, false, [49, 50, 51, 52, 53, 54, 55, 56, 57]⟩
      [36, 35, 44, 35, 35, 48, 44, 44, 46, 48, 37]
      [.plain 36, .plain 35, .plain 44, .plain 35, .plain 35] (.plain 48)
      [.plain 44, .plain 44] [.plain 46, .plain 48, .plain 37] [] 2
      (by decide) (by decide) (by decide) (by decide) (by decide) (by decide) (by decide)
      (by decide) (Or.inr ⟨_, rfl⟩)).1.trans (by decide),
    by decide, by decide, by decide!⟩

/-- Commas in front of the decimal point, in pictures with literals, quoted
text and a percent sign: `$0,,` renders 1234567 as `$1`; `0,.0%` renders it as
`123456.7%`; `#,##0,.0` renders it as `1,234.6`; and the second section of
`0;(0 ,'k',.0)`, where a blank and a quoted `k` stand among the two commas,
renders -1234567890 as `(1234 k.6)`. -/
theorem NumberToStringFormat_comma_scaling_examples :
    NumberToStringFormat ⟨10, 7, false, [49, 50, 51, 52, 53, 54, 55]⟩ [36, 48, 44, 44]
        ⟨[3], [3], [3], [43], [45], [46], [44], [44], [46], [36], [44], [46], [37],
          [0x2030], [78, 97, 78], [73], [45, 73], 2, 2, 2, 1, 0, 0, 1, 1⟩ =
      .ok [36, 49] ∧
    NumberToStringFormat ⟨10, 7, false, [49, 50, 51, 52, 53, 54, 55]⟩ [48, 44, 46, 48, 37]
        ⟨[3], [3], [3], [43], [45], [46], [44], [44], [46], [36], [44], [46], [37],
          [0x2030], [78, 97, 78], [73], [45, 73], 2, 2, 2, 1, 0, 0, 1, 1⟩ =
      .ok [49, 50, 51, 52, 53, 54, 46, 55, 37] ∧
    NumberToStringFormat ⟨10, 7, false, [49, 50, 51, 52, 53, 54, 55]⟩
        [35, 44, 35, 35, 48, 44, 46, 48]
        ⟨[3], [3], [3], [43], [45], [46], [44], [44], [46], [36], [44], [46], [37],
          [0x2030], [78, 97, 78], [73], [45, 73], 2, 2, 2, 1, 0, 0, 1, 1⟩ =
      .ok [49, 44, 50, 51, 52, 46, 54] ∧
    NumberToStringFormat ⟨10, 10, true, [49, 50, 51, 52, 53, 54, 55, 56, 57]⟩
        [48, 59, 40, 48, 32, 44, 39, 107, 39, 44, 46, 48, 41]
        ⟨[3], [3], [3], [43], [45], [46], [44], [44], [46], [36], [44], [46], [37],
          [0x2030], [78, 97, 78], [73], [45, 73], 2, 2, 2, 1, 0, 0, 1, 1⟩ =
      .ok [40, 49, 50, 51, 52, 32, 107, 46, 54, 41] ∧
    (pictureSetup ⟨10, 10, true, [49, 50, 51, 52, 53, 54, 55, 56, 57]⟩
      [48, 59, 40, 48, 32, 44, 39, 107, 39, 44, 46, 48, 41]).2.1.scaleAdjust = -6 :=
  ⟨by decide!, by decide!, by decide!, by decide!, by decide⟩

end COMNumber
